import Mathlib

/-!
Interconnect topology of `src/graph/topo.cc`

A shallow embedding of the topology graph of `topo.cc` and of the passes that
build, normalise and query it.

Conventions of the embedding.

* A pointer `system->nodes[type].nodes + index` is a `NodeRef` (array and index);
  pointer comparison inside one array is comparison of indices.
* `links` of a node holds the slots of the C array up to the first slot whose
  `remNode` is `NULL`; `nlinks` is the separate counter of the C struct. The
  two differ after a `memmove` that shortens the live part, because the slot
  past the live part keeps its old content.
* `float` widths are exact rationals.
* Constants and helpers of headers that are not part of the sources are the
  fields of `TopoHeader`.
* The reduction-op handles and the intra-process barrier of `comm.h` and the
  system-call check of `checks.h` are embedded over machine integers as
  naturals and integers with explicit reduction modulo `2^32` and `2^64`; the
  communicators of a process are a list and a pointer to one is its index.
-/

namespace Rccl

/-! ## Data model -/

/-- Result codes used by the functions of `topo.cc`. -/
inductive ncclResult_t
  | ncclSuccess
  | ncclInternalError
  | ncclSystemError
  deriving DecidableEq, Repr

/-- Why a modelled call did not return `ncclSuccess`: it returned the result code `r`; or it
read through a pointer to no node or ran a loop that does not end in C; or the recursion
budget of the embedding is used up. -/
inductive Failure
  | code (r : ncclResult_t)
  | undefined
  | fuel
  deriving DecidableEq, Repr

/-- Node kinds in the order of `topoNodeTypeStr`: GPU 0, PCI 1, NVS 2, CPU 3, NIC 4, NET 5. -/
inductive NodeType
  | GPU
  | PCI
  | NVS
  | CPU
  | NIC
  | NET
  deriving DecidableEq, Repr, Fintype

/-- Number of node kinds. -/
def NCCL_TOPO_NODE_TYPES : Nat := 6

/-- All node kinds in index order, the range of `for (t=0; t<NCCL_TOPO_NODE_TYPES; t++)`. -/
def NodeType.all : List NodeType :=
  [NodeType.GPU, NodeType.PCI, NodeType.NVS, NodeType.CPU, NodeType.NIC, NodeType.NET]

/-- Index of a node kind in `system->nodes[]`. -/
def NodeType.toNat : NodeType → Nat
  | NodeType.GPU => 0
  | NodeType.PCI => 1
  | NodeType.NVS => 2
  | NodeType.CPU => 3
  | NodeType.NIC => 4
  | NodeType.NET => 5

/-- Link kinds, indices of `topoLinkTypeStr`. -/
def LINK_LOC : Nat := 0

/-- Fabric link (NVL / XGMI). -/
def LINK_NVL : Nat := 1

/-- PCI link. -/
def LINK_PCI : Nat := 3

/-- Cross-processor link. -/
def LINK_SYS : Nat := 7

/-- Network link. -/
def LINK_NET : Nat := 8

/-- Cross-processor tier. -/
def PATH_SYS : Int := 7

/-- Disconnected tier. -/
def PATH_DIS : Int := 8

/-- A non-null `struct ncclTopoNode*`: the array it points into and the index there. -/
structure NodeRef where
  type : NodeType
  index : Nat
  deriving DecidableEq, Repr

/-- One slot of `node->links` with a non-null `remNode`. -/
structure ncclTopoLink where
  type : Nat
  width : ℚ
  remNode : NodeRef
  deriving DecidableEq, Repr

/-- Path summary `struct ncclTopoLinkList` (the list of links itself is not needed). -/
structure ncclTopoLinkList where
  count : Int
  width : ℚ
  type : Int
  deriving DecidableEq, Repr

/-- The `gpu` member of a node. -/
structure GpuInfo where
  dev : Int := 0
  rank : List Int := []
  nRanksPerGpu : Int := 0
  cudaCompCap : Int := 0
  gcn : Int := 0
  arch : Int := 0
  gdrSupport : Int := 0
  deriving DecidableEq, Repr

/-- The `cpu` member of a node; `affinity` is the bit mask of a `cpu_set_t`. -/
structure CpuInfo where
  arch : Int := 0
  vendor : Int := 0
  model : Int := 0
  affinity : Nat := 0
  deriving DecidableEq, Repr

/-- The `pci` member of a node. -/
structure PciInfo where
  device : Nat := 0
  deriving DecidableEq, Repr

/-- The `net` member of a node. -/
structure NetInfo where
  asic : Nat := 0
  port : Int := 0
  width : ℚ := 0
  latency : ℚ := 0
  gdrSupport : Int := 0
  maxChannels : Int := 0
  collSupport : Int := 0
  busId : Int := 0
  deriving DecidableEq, Repr

/-- A `struct ncclTopoNode`. `paths` is indexed by `NodeType.toNat` of the destination kind
and then by destination index; a missing row is a `NULL` pointer. -/
structure ncclTopoNode where
  type : NodeType
  id : Int
  gpu : GpuInfo := {}
  cpu : CpuInfo := {}
  pci : PciInfo := {}
  net : NetInfo := {}
  nlinks : Nat := 0
  links : List ncclTopoLink := []
  paths : List (List ncclTopoLinkList) := []
  deriving DecidableEq, Repr

/-- A `struct ncclTopoSystem`: one node array per kind (`count` is the length). -/
structure ncclTopoSystem where
  gpuNodes : List ncclTopoNode := []
  pciNodes : List ncclTopoNode := []
  nvsNodes : List ncclTopoNode := []
  cpuNodes : List ncclTopoNode := []
  nicNodes : List ncclTopoNode := []
  netNodes : List ncclTopoNode := []
  maxWidth : ℚ := 0
  totalWidth : ℚ := 0
  deriving DecidableEq, Repr

/-- The array `system->nodes[t].nodes`, first `count` entries. -/
def ncclTopoSystem.nodes (s : ncclTopoSystem) : NodeType → List ncclTopoNode
  | NodeType.GPU => s.gpuNodes
  | NodeType.PCI => s.pciNodes
  | NodeType.NVS => s.nvsNodes
  | NodeType.CPU => s.cpuNodes
  | NodeType.NIC => s.nicNodes
  | NodeType.NET => s.netNodes

/-- Replace the array of one kind. -/
def ncclTopoSystem.setNodes (s : ncclTopoSystem) (t : NodeType) (l : List ncclTopoNode) :
    ncclTopoSystem :=
  match t with
  | NodeType.GPU => { s with gpuNodes := l }
  | NodeType.PCI => { s with pciNodes := l }
  | NodeType.NVS => { s with nvsNodes := l }
  | NodeType.CPU => { s with cpuNodes := l }
  | NodeType.NIC => { s with nicNodes := l }
  | NodeType.NET => { s with netNodes := l }

/-- The field `system->nodes[t].count`. -/
def ncclTopoSystem.count (s : ncclTopoSystem) (t : NodeType) : Nat := (s.nodes t).length

/-- Dereference a node pointer (`none` past `count`). -/
def ncclTopoSystem.node? (s : ncclTopoSystem) (r : NodeRef) : Option ncclTopoNode :=
  (s.nodes r.type)[r.index]?

/-- Apply `f` to the node a pointer refers to. -/
def ncclTopoSystem.modifyNode (s : ncclTopoSystem) (r : NodeRef)
    (f : ncclTopoNode → ncclTopoNode) : ncclTopoSystem :=
  s.setNodes r.type ((s.nodes r.type).modify f r.index)

/-- The live links `links[0 .. nlinks)` of a node. -/
def ncclTopoNode.live (n : ncclTopoNode) : List ncclTopoLink := n.links.take n.nlinks

/-! ## Header constants -/

/-- Constants and helpers declared in headers outside the sources (`topo.h`, `xml.h`,
`utils.h`, `graph.h`). -/
structure TopoHeader where
  NCCL_TOPO_MAX_NODES : Nat
  NCCL_TOPO_UNDEF : Int
  RCCL_TOPO_MAX_RANKS_PER_GPU : Nat
  MAXCHANNELS : Int
  LOC_WIDTH : ℚ
  P9_WIDTH : ℚ
  ARM_WIDTH : ℚ
  QPI_WIDTH : ℚ
  SKL_QPI_WIDTH : ℚ
  ZPI_WIDTH : ℚ
  YONGFENG_ZPI_WIDTH : ℚ
  NCCL_TOPO_CPU_ARCH_X86 : Int
  NCCL_TOPO_CPU_ARCH_POWER : Int
  NCCL_TOPO_CPU_ARCH_ARM : Int
  NCCL_TOPO_CPU_VENDOR_INTEL : Int
  NCCL_TOPO_CPU_VENDOR_AMD : Int
  NCCL_TOPO_CPU_VENDOR_ZHAOXIN : Int
  NCCL_TOPO_CPU_TYPE_SKL : Int
  NCCL_TOPO_CPU_INTEL_BDW : Int
  NCCL_TOPO_CPU_TYPE_YONGFENG : Int
  NCCL_TOPO_CPU_TYPE_ROME : Int
  NCCL_TOPO_CPU_TYPE_ZEN : Int
  strtol : String → Int
  atoi : String → Int
  strtof : String → Option ℚ
  sscanfHex : String → Option Nat
  busIdToInt64 : String → Except ncclResult_t Int
  ncclStrToCpuset : String → Except ncclResult_t Nat
  ncclTopoXGMISpeed : Int → ℚ

/-! ## ncclTopoConnectNodes -/

/-- The loop `while (link != node->links) { if ((link-1)->width >= linkSave.width) break;
memcpy(link, link-1); link--; }` started with `link = node->links + i`; returns the final
position of `link` and the array. -/
def sortLinks (w : ℚ) : Nat → List ncclTopoLink → Nat × List ncclTopoLink
  | 0, links => (0, links)
  | i + 1, links =>
    match links[i]? with
    | none => (i + 1, links)
    | some prev =>
      if prev.width ≥ w then (i + 1, links)
      else sortLinks w i (links.set (i + 1) prev)

/-- The member `width` of slot `i`; the slot behind the last one is zeroed memory. -/
def slotWidth (links : List ncclTopoLink) (i : Nat) : ℚ :=
  match links[i]? with
  | some l => l.width
  | none => 0

/-- The test `link->remNode == remNode && link->type == type`. -/
def linkIs (remNode : NodeRef) (type : Nat) (l : ncclTopoLink) : Bool :=
  decide (l.remNode = remNode) && decide (l.type = type)

/-- `ncclTopoConnectNodes(node, remNode, type, width)` on the node record. The scan
`for (link = node->links; link->remNode; link++)` stops at the first matching slot or at the
first slot with a null `remNode`, which is the end of `links`; that slot is zeroed memory,
so its width is 0. -/
def ncclTopoConnectNodes (node : ncclTopoNode) (remNode : NodeRef) (type : Nat) (width : ℚ) :
    ncclTopoNode :=
  let idx := node.links.findIdx (linkIs remNode type)
  let isNull : Bool := idx == node.links.length
  let nlinks := if isNull then node.nlinks + 1 else node.nlinks
  let linkSave : ncclTopoLink :=
    { type := type, width := slotWidth node.links idx + width, remNode := remNode }
  let links0 := if isNull then node.links ++ [linkSave] else node.links.set idx linkSave
  let r := sortLinks linkSave.width idx links0
  { node with nlinks := nlinks, links := r.2.set r.1 linkSave }

/-- Call `ncclTopoConnectNodes` on the node behind a pointer of the system. -/
def ncclTopoSystem.connect (s : ncclTopoSystem) (node remNode : NodeRef) (type : Nat)
    (width : ℚ) : ncclTopoSystem :=
  s.modifyNode node (fun n => ncclTopoConnectNodes n remNode type width)

/-- A sequence of `ncclTopoConnectNodes` calls on one node, in order. -/
def connectAll (node : ncclTopoNode) (calls : List (NodeRef × Nat × ℚ)) : ncclTopoNode :=
  calls.foldl (fun n c => ncclTopoConnectNodes n c.1 c.2.1 c.2.2) node

/-- Place `x` behind the longest prefix of `pre` whose last link is at least as wide as `x`:
what the sorting loop of `ncclTopoConnectNodes` computes on the slots before the link. -/
def insertLink (pre : List ncclTopoLink) (x : ncclTopoLink) : List ncclTopoLink :=
  pre.rdropWhile (fun l => decide (l.width < x.width)) ++
    x :: pre.rtakeWhile (fun l => decide (l.width < x.width))

/-- The links of a list that go to `remNode` with kind `type`. -/
def linksTo (links : List ncclTopoLink) (remNode : NodeRef) (type : Nat) : List ncclTopoLink :=
  links.filter (linkIs remNode type)

/-- Total width of the links of a list that go to `remNode` with kind `type`. -/
def widthTo (links : List ncclTopoLink) (remNode : NodeRef) (type : Nat) : ℚ :=
  ((linksTo links remNode type).map (fun l => l.width)).sum

/-- Widths are non-increasing along the list. -/
def SortedDesc (links : List ncclTopoLink) : Prop :=
  links.Pairwise (fun a b => a.width ≥ b.width)

/-- The widths passed by the calls of a sequence that name `(remNode, type)`. -/
def callWidths (calls : List (NodeRef × Nat × ℚ)) (remNode : NodeRef) (type : Nat) : List ℚ :=
  (calls.filter (fun c => decide (c.1 = remNode) && decide (c.2.1 = type))).map (fun c => c.2.2)

/-- The distinct pairs named by a call sequence that have no link in `links`. -/
def newPairs (links : List ncclTopoLink) (calls : List (NodeRef × Nat × ℚ)) :
    Finset (NodeRef × Nat) :=
  (calls.map (fun c => (c.1, c.2.1))).toFinset.filter (fun k => linksTo links k.1 k.2 = [])

/-- The `(remNode, type)` pairs of a list of links, in order. -/
def linkKeys (links : List ncclTopoLink) : List (NodeRef × Nat) :=
  links.map (fun l => (l.remNode, l.type))

/-! ## ncclTopoCreateNode -/

/-- The node written by `ncclTopoCreateNode` into the zeroed slot `nodes[type].nodes + index`. -/
def newNode (h : TopoHeader) (type : NodeType) (id : Int) (index : Nat) : ncclTopoNode :=
  match type with
  | NodeType.GPU =>
    { type := type, id := id, nlinks := 1,
      links := [{ type := LINK_LOC, width := h.LOC_WIDTH,
                  remNode := { type := NodeType.GPU, index := index } }],
      gpu := { dev := h.NCCL_TOPO_UNDEF,
               rank := List.replicate h.RCCL_TOPO_MAX_RANKS_PER_GPU h.NCCL_TOPO_UNDEF,
               nRanksPerGpu := h.NCCL_TOPO_UNDEF, cudaCompCap := h.NCCL_TOPO_UNDEF } }
  | NodeType.CPU =>
    { type := type, id := id,
      cpu := { arch := h.NCCL_TOPO_UNDEF, vendor := h.NCCL_TOPO_UNDEF,
               model := h.NCCL_TOPO_UNDEF } }
  | NodeType.NET =>
    { type := type, id := id,
      net := { asic := 0, port := h.NCCL_TOPO_UNDEF, width := 0, latency := 0 } }
  | _ => { type := type, id := id }

/-- `ncclTopoCreateNode(system, &node, type, id)`: the result code, the system afterwards and
the pointer stored in `*node` (nothing is stored on the error path). The slot behind the last
node is zeroed memory of the `ncclCalloc`ed system. -/
def ncclTopoCreateNode (h : TopoHeader) (system : ncclTopoSystem) (type : NodeType) (id : Int) :
    ncclResult_t × ncclTopoSystem × Option NodeRef :=
  if system.count type = h.NCCL_TOPO_MAX_NODES then
    (ncclResult_t.ncclInternalError, system, none)
  else
    (ncclResult_t.ncclSuccess,
      system.setNodes type (system.nodes type ++ [newNode h type id (system.count type)]),
      some { type := type, index := system.count type })

/-- `NCCLCHECK(ncclTopoCreateNode(...))` in a caller: the error aborts the caller. -/
def createNode (h : TopoHeader) (system : ncclTopoSystem) (type : NodeType) (id : Int) :
    Except Failure (ncclTopoSystem × NodeRef) :=
  match ncclTopoCreateNode h system type id with
  | (ncclResult_t.ncclSuccess, s, some r) => Except.ok (s, r)
  | (ncclResult_t.ncclSuccess, _, none) => Except.error Failure.undefined
  | (e, _, _) => Except.error (Failure.code e)

/-- `ncclTopoGetNode(system, &node, type, id)` with `*node` null before the call: the first
node of the kind with that id. -/
def ncclTopoGetNode (system : ncclTopoSystem) (type : NodeType) (id : Int) : Option NodeRef :=
  let i := (system.nodes type).findIdx (fun n => decide (n.id = id))
  if i < system.count type then some { type := type, index := i } else none

/-! ## ncclTopoConnectCpus -/

/-- `ncclTopoGetInterCpuWidth(cpu, &width)`; it always returns `ncclSuccess`. -/
def ncclTopoGetInterCpuWidth (h : TopoHeader) (cpu : ncclTopoNode) : ℚ :=
  if cpu.cpu.arch = h.NCCL_TOPO_CPU_ARCH_POWER then h.P9_WIDTH
  else if cpu.cpu.arch = h.NCCL_TOPO_CPU_ARCH_ARM then h.ARM_WIDTH
  else
    let width := h.LOC_WIDTH
    let width :=
      if cpu.cpu.arch = h.NCCL_TOPO_CPU_ARCH_X86 ∧ cpu.cpu.vendor = h.NCCL_TOPO_CPU_VENDOR_INTEL
      then (if cpu.cpu.model = h.NCCL_TOPO_CPU_TYPE_SKL then h.SKL_QPI_WIDTH else h.QPI_WIDTH)
      else width
    let width :=
      if cpu.cpu.arch = h.NCCL_TOPO_CPU_ARCH_X86 ∧ cpu.cpu.vendor = h.NCCL_TOPO_CPU_VENDOR_ZHAOXIN
      then (if cpu.cpu.model = h.NCCL_TOPO_CPU_TYPE_YONGFENG then h.YONGFENG_ZPI_WIDTH
            else h.ZPI_WIDTH)
      else width
    width

/-- Body of the inner loop of `ncclTopoConnectCpus` for the indices `n` and `p`. -/
def connectCpuPair (h : TopoHeader) (n : Nat) (system : ncclTopoSystem) (p : Nat) :
    ncclTopoSystem :=
  if n = p then system
  else
    match system.node? { type := NodeType.CPU, index := n } with
    | none => system
    | some cpu =>
      system.connect { type := NodeType.CPU, index := n } { type := NodeType.CPU, index := p }
        LINK_SYS (ncclTopoGetInterCpuWidth h cpu)

/-- `ncclTopoConnectCpus(system)`; it always returns `ncclSuccess`. -/
def ncclTopoConnectCpus (h : TopoHeader) (system : ncclTopoSystem) : ncclTopoSystem :=
  (List.range (system.count NodeType.CPU)).foldl
    (fun s n => (List.range (s.count NodeType.CPU)).foldl (connectCpuPair h n) s) system

/-- The link a call of `ncclTopoConnectNodes` creates when its pair has no link yet. -/
def callLink (c : NodeRef × Nat × ℚ) : ncclTopoLink :=
  { type := c.2.1, width := c.2.2, remNode := c.1 }

/-- The calls `ncclTopoConnectCpus` makes on processor `n` for the inner indices `ps`. -/
def sysCalls (h : TopoHeader) (cpu : ncclTopoNode) (n : Nat) (ps : List Nat) :
    List (NodeRef × Nat × ℚ) :=
  (ps.filter (fun p => decide (n ≠ p))).map
    (fun p => ({ type := NodeType.CPU, index := p }, LINK_SYS, ncclTopoGetInterCpuWidth h cpu))

/-! ## The description tree -/

/-- A `struct ncclXmlNode`: name, attributes (key and value) and sub nodes. -/
inductive ncclXmlNode where
  | mk (name : String) (attrs : List (String × String)) (subs : List ncclXmlNode) : ncclXmlNode

/-- The member `name`. -/
def ncclXmlNode.name : ncclXmlNode → String
  | ncclXmlNode.mk n _ _ => n

/-- The members `attrs[0 .. nAttrs)`. -/
def ncclXmlNode.attrs : ncclXmlNode → List (String × String)
  | ncclXmlNode.mk _ a _ => a

/-- The members `subs[0 .. nSubs)`. -/
def ncclXmlNode.subs : ncclXmlNode → List ncclXmlNode
  | ncclXmlNode.mk _ _ s => s

/-- Modelled from the spec: `xmlGetAttr` of `xml.h`, which is not part of the sources, on the
key/value-attributed records of §6: the value of the attribute, null when it is absent. -/
def xmlGetAttr (node : ncclXmlNode) (attrName : String) : Option String :=
  (node.attrs.find? (fun kv => kv.1 == attrName)).map (fun kv => kv.2)

/-- Modelled from the spec: `xmlGetAttrIndex` of `xml.h`: -1 exactly when the attribute is
absent. Only the comparison with -1 is used. -/
def xmlGetAttrIndex (node : ncclXmlNode) (attrName : String) : Int :=
  match node.attrs.findIdx? (fun kv => kv.1 == attrName) with
  | some i => (i : Int)
  | none => -1

/-- Modelled from the spec: `xmlGetAttrStr` of `xml.h`: the value of a required attribute,
an internal error when it is absent (§7, a missing required attribute). -/
def xmlGetAttrStr (node : ncclXmlNode) (attrName : String) : Except Failure String :=
  match xmlGetAttr node attrName with
  | some v => Except.ok v
  | none => Except.error (Failure.code ncclResult_t.ncclInternalError)

/-- Modelled from the spec: `xmlGetAttrInt` of `xml.h`: a required attribute read as a
number. -/
def xmlGetAttrInt (h : TopoHeader) (node : ncclXmlNode) (attrName : String) :
    Except Failure Int :=
  match xmlGetAttrStr node attrName with
  | Except.ok v => Except.ok (h.strtol v)
  | Except.error e => Except.error e

/-- Modelled from the spec: `xmlGetAttrIntDefault` of `xml.h`: an optional attribute read as a
number, the default when it is absent. -/
def xmlGetAttrIntDefault (h : TopoHeader) (node : ncclXmlNode) (attrName : String)
    (defaultValue : Int) : Int :=
  match xmlGetAttr node attrName with
  | some v => h.strtol v
  | none => defaultValue

/-- Modelled from the spec: `xmlGetSub` of `xml.h`: the first sub node with the name, null
when there is none. -/
def xmlGetSub (node : ncclXmlNode) (subName : String) : Option ncclXmlNode :=
  node.subs.find? (fun x => x.name == subName)

/-- Modelled from the spec: `kvConvertToInt` of `xml.h`: the value of the first entry of the
table whose key the string starts with, the fallback entry when there is none. The class table
below keys the six-digit class codes by their leading digits, and §8 has the speed string
"16 GT/s PCIe" read as 120 through the entry "16 GT/s". -/
def kvConvertToInt {α : Type} (str : String) (dict : List (String × α)) (fallback : α) : α :=
  match dict.find? (fun d => d.1.toList.isPrefixOf str.toList) with
  | some d => d.2
  | none => fallback

/-- The table `kvDictPciClass` without its fallback entry (`PCI`). -/
def kvDictPciClass : List (String × NodeType) :=
  [("0x060400", NodeType.PCI), ("0x068000", NodeType.NVS), ("0x068001", NodeType.CPU),
   ("0x03", NodeType.GPU), ("0x02", NodeType.NIC)]

/-- The table `kvDictPciGen` without its fallback entry (60). -/
def kvDictPciGen : List (String × Int) :=
  [("2.5 GT/s", 15), ("5 GT/s", 30), ("8 GT/s", 60), ("16 GT/s", 120), ("32 GT/s", 240),
   ("2.5 GT/s PCIe", 15), ("5.0 GT/s PCIe", 30), ("8.0 GT/s PCIe", 60),
   ("16.0 GT/s PCIe", 120), ("32.0 GT/s PCIe", 240), ("64.0 GT/s PCIe", 480)]

/-- The table `kvDictCpuArch` without its fallback entry (0). -/
def kvDictCpuArch (h : TopoHeader) : List (String × Int) :=
  [("x86_64", h.NCCL_TOPO_CPU_ARCH_X86), ("arm64", h.NCCL_TOPO_CPU_ARCH_ARM),
   ("ppc64", h.NCCL_TOPO_CPU_ARCH_POWER)]

/-- The table `kvDictCpuVendor` without its fallback entry (0). -/
def kvDictCpuVendor (h : TopoHeader) : List (String × Int) :=
  [("GenuineIntel", h.NCCL_TOPO_CPU_VENDOR_INTEL), ("AuthenticAMD", h.NCCL_TOPO_CPU_VENDOR_AMD),
   ("CentaurHauls", h.NCCL_TOPO_CPU_VENDOR_ZHAOXIN), ("  Shanghai  ", h.NCCL_TOPO_CPU_VENDOR_ZHAOXIN)]

/-- `NCCLCHECK(busIdToInt64(str, &id))`. -/
def busIdOf (h : TopoHeader) (str : String) : Except Failure Int :=
  match h.busIdToInt64 str with
  | Except.ok v => Except.ok v
  | Except.error e => Except.error (Failure.code e)

/-! ## Graph creation -/

/-- Two calls `ncclTopoConnectNodes(a, b, type, width)` and
`ncclTopoConnectNodes(b, a, type, width)`, in this order. -/
def ncclTopoSystem.connectBoth (s : ncclTopoSystem) (a b : NodeRef) (type : Nat)
    (width : ℚ) : ncclTopoSystem :=
  (s.connect a b type width).connect b a type width

/-- The width `mbps / 8000.0` of a Network-port: `mbps` the declared speed, 10000 when the
attribute is absent or the value is not positive. -/
def netWidth (h : TopoHeader) (xmlNet : ncclXmlNode) : ℚ :=
  let mbps0 := xmlGetAttrIntDefault h xmlNet "speed" 0
  let mbps : Int := if mbps0 ≤ 0 then 10000 else mbps0
  (mbps : ℚ) / 8000

/-- The members of `net->net` that `ncclTopoAddNet` writes. -/
def netInfoOf (h : TopoHeader) (xmlNet : ncclXmlNode) (dev : Int) (busId : Int) : NetInfo :=
  { asic := match xmlGetAttr xmlNet "guid" with
      | some str => (h.sscanfHex str).getD 0
      | none => (dev % (2 ^ 64 : Int)).toNat
    port := xmlGetAttrIntDefault h xmlNet "port" 0
    width := netWidth h xmlNet
    latency := match xmlGetAttr xmlNet "latency" with
      | some str => (h.strtof str).getD 0
      | none => 0
    gdrSupport := xmlGetAttrIntDefault h xmlNet "gdr" 0
    maxChannels := xmlGetAttrIntDefault h xmlNet "maxconn" h.MAXCHANNELS
    collSupport := xmlGetAttrIntDefault h xmlNet "coll" 0
    busId := busId }

/-- Write the member `net` of a node. -/
def setNet (info : NetInfo) (n : ncclTopoNode) : ncclTopoNode := { n with net := info }

/-- `ncclTopoAddNet(xmlNet, system, nic, busId)`. -/
def ncclTopoAddNet (h : TopoHeader) (xmlNet : ncclXmlNode) (system : ncclTopoSystem)
    (nic : NodeRef) (busId : Int) : Except Failure ncclTopoSystem :=
  match xmlGetAttrInt h xmlNet "dev" with
  | Except.error e => Except.error e
  | Except.ok dev =>
    match createNode h system NodeType.NET dev with
    | Except.error e => Except.error e
    | Except.ok r =>
      Except.ok ((r.1.modifyNode r.2 (setNet (netInfoOf h xmlNet dev busId))).connectBoth
        nic r.2 LINK_NET (netWidth h xmlNet))

/-- `ncclTopoAddNic(xmlNic, system, nic, busId)`, the loop from sub node `subs` on. -/
def ncclTopoAddNic (h : TopoHeader) (subs : List ncclXmlNode) (system : ncclTopoSystem)
    (nic : NodeRef) (busId : Int) : Except Failure ncclTopoSystem :=
  match subs with
  | [] => Except.ok system
  | xmlNet :: rest =>
    if xmlNet.name ≠ "net" then ncclTopoAddNic h rest system nic busId
    else if xmlGetAttrIndex xmlNet "dev" = -1 then ncclTopoAddNic h rest system nic busId
    else
      match ncclTopoAddNet h xmlNet system nic busId with
      | Except.error e => Except.error e
      | Except.ok s1 => ncclTopoAddNic h rest s1 nic busId

/-- The tokens of `strtok_r(str, ",", ...)`: the non-empty pieces between commas. -/
def rankTokens (str : String) : List String :=
  ((str.toList.splitOn ',').filter (fun t => decide (t ≠ []))).map String.mk

/-- The members of `gpu->gpu` after `ncclTopoAddGpu`, from the old ones. The rank array
keeps its old entries behind the ranks listed. -/
def gpuInfoOf (h : TopoHeader) (xmlGpu : ncclXmlNode) (old : GpuInfo) :
    Except Failure GpuInfo := do
  let sm ← xmlGetAttrInt h xmlGpu "sm"
  let gcn ← xmlGetAttrInt h xmlGpu "gcn"
  let arch ← xmlGetAttrInt h xmlGpu "arch"
  let rankStr ← xmlGetAttrStr xmlGpu "rank"
  let ranks := ((rankTokens rankStr).take h.RCCL_TOPO_MAX_RANKS_PER_GPU).map h.atoi
  let dev ← xmlGetAttrInt h xmlGpu "dev"
  let gdr ← xmlGetAttrInt h xmlGpu "gdr"
  Except.ok { dev := dev, rank := ranks ++ old.rank.drop ranks.length,
              nRanksPerGpu := (ranks.length : Int), cudaCompCap := sm, gcn := gcn,
              arch := arch, gdrSupport := gdr }

/-- Write the member `gpu` of a node. -/
def setGpu (info : GpuInfo) (n : ncclTopoNode) : ncclTopoNode := { n with gpu := info }

/-- `ncclTopoAddGpu(xmlGpu, system, gpu)`. -/
def ncclTopoAddGpu (h : TopoHeader) (xmlGpu : ncclXmlNode) (system : ncclTopoSystem)
    (gpu : NodeRef) : Except Failure ncclTopoSystem :=
  match system.node? gpu with
  | none => Except.error Failure.undefined
  | some n =>
    match gpuInfoOf h xmlGpu n.gpu with
    | Except.error e => Except.error e
    | Except.ok info => Except.ok (system.modifyNode gpu (setGpu info))

/-- One statement `if (str) node->pci.device += strtol(str, NULL, 0) << shift` in 64-bit
unsigned arithmetic. -/
def addDeviceField (h : TopoHeader) (xmlPci : ncclXmlNode) (attrName : String) (shift : Nat)
    (device : Nat) : Nat :=
  match xmlGetAttr xmlPci attrName with
  | some str => (((device : Int) + h.strtol str * (2 ^ shift : Int)) % (2 ^ 64 : Int)).toNat
  | none => device

/-- The four statements of `ncclTopoAddPci` that fill `node->pci.device`. -/
def pciDevice (h : TopoHeader) (xmlPci : ncclXmlNode) (device : Nat) : Nat :=
  addDeviceField h xmlPci "subsystem_device" 0
    (addDeviceField h xmlPci "subsystem_vendor" 16
      (addDeviceField h xmlPci "device" 32
        (addDeviceField h xmlPci "vendor" 48 device)))

/-- Write the member `pci.device` of a fresh bridge node from the attributes. -/
def setPciDevice (h : TopoHeader) (xmlPci : ncclXmlNode) (n : ncclTopoNode) : ncclTopoNode :=
  { n with pci := { device := pciDevice h xmlPci n.pci.device } }

/-- The product of two `int` values as the 32-bit multiplication computes it: the exact
product when it lies in the range of `int`, and otherwise the value in that range that
differs from it by a multiple of `2^32` (C leaves the result of such a product open; the
compiled multiplication wraps). -/
def intMul (a b : Int) : Int := (a * b + 2 ^ 31) % 2 ^ 32 - 2 ^ 31

/-- The width `width*speed/80.0` of the PCI link of an entry: `width` the declared
`link_width` (16 when it is 0), `speed` the rate of the declared `link_speed`; the product
`width*speed` is a product of two `int` values, converted to `double` for the division. -/
def pciLinkWidth (h : TopoHeader) (xmlPci : ncclXmlNode) : Except Failure ℚ := do
  let width0 ← xmlGetAttrInt h xmlPci "link_width"
  let str ← xmlGetAttrStr xmlPci "link_speed"
  let width : Int := if width0 = 0 then 16 else width0
  let speed : Int := kvConvertToInt str kvDictPciGen 60
  Except.ok (((intMul width speed : Int) : ℚ) / 80)

/-- The block `if (node) {...}` of `ncclTopoAddPci`. -/
def connectPci (h : TopoHeader) (xmlPci : ncclXmlNode) (system : ncclTopoSystem)
    (node parent : NodeRef) : Except Failure ncclTopoSystem :=
  match pciLinkWidth h xmlPci with
  | Except.error e => Except.error e
  | Except.ok w => Except.ok (system.connectBoth node parent LINK_PCI w)

/-- The block `if (xmlGpu != NULL) {...}` of `ncclTopoAddPci`: the system, `node` and `type`
behind it; `none` when the function returns `ncclSuccess` from inside the block. -/
def addPciGpu (h : TopoHeader) (xmlPci : ncclXmlNode) (system : ncclTopoSystem)
    (type : NodeType) (busId : Int) :
    Except Failure (Option (ncclTopoSystem × Option NodeRef × NodeType)) :=
  match xmlGetSub xmlPci "gpu" with
  | none => Except.ok (some (system, none, type))
  | some xmlGpu =>
    if xmlGetAttrIndex xmlGpu "rank" = -1 then Except.ok none
    else
      match createNode h system NodeType.GPU busId with
      | Except.error e => Except.error e
      | Except.ok r =>
        match ncclTopoAddGpu h xmlGpu r.1 r.2 with
        | Except.error e => Except.error e
        | Except.ok s2 => Except.ok (some (s2, some r.2, NodeType.GPU))

/-- The block `if (xmlNic != NULL) {...}` of `ncclTopoAddPci`: the system and `node` behind
it. `busId &= 0xfffffffffffffff0` clears the low four bits. -/
def addPciNic (h : TopoHeader) (xmlNic : ncclXmlNode) (system : ncclTopoSystem)
    (node : Option NodeRef) (busId : Int) :
    Except Failure (ncclTopoSystem × Option NodeRef) :=
  let busId := busId - busId % 16
  match ncclTopoGetNode system NodeType.NIC busId with
  | some nicNode =>
    match ncclTopoAddNic h xmlNic.subs system nicNode busId with
    | Except.error e => Except.error e
    | Except.ok s1 => Except.ok (s1, node)
  | none =>
    match createNode h system NodeType.NIC busId with
    | Except.error e => Except.error e
    | Except.ok r =>
      match ncclTopoAddNic h xmlNic.subs r.1 r.2 busId with
      | Except.error e => Except.error e
      | Except.ok s1 => Except.ok (s1, some r.2)

/-- The block `if (node) {...}` of `ncclTopoAddPci` when `node` may be null. -/
def connectPciNode (h : TopoHeader) (xmlPci : ncclXmlNode) (system : ncclTopoSystem)
    (node : Option NodeRef) (parent : NodeRef) :
    Except Failure (ncclTopoSystem × Option NodeRef) :=
  match node with
  | none => Except.ok (system, none)
  | some n =>
    match connectPci h xmlPci system n parent with
    | Except.error e => Except.error e
    | Except.ok s1 => Except.ok (s1, some n)

/-- `ncclTopoAddPci(xmlPci, system, parent)` together with the final value of its local
variable `node` (the node the entry yields, null when it yields none); `addPci.subsLoop` is
the loop over the sub entries of a bridge. -/
def addPci (h : TopoHeader) :
    ncclXmlNode → ncclTopoSystem → NodeRef → Except Failure (ncclTopoSystem × Option NodeRef)
  | ncclXmlNode.mk name attrs subs, system, parent =>
    let xmlPci := ncclXmlNode.mk name attrs subs
    match xmlGetAttrStr xmlPci "class" with
    | Except.error e => Except.error e
    | Except.ok classStr =>
      match xmlGetAttrStr xmlPci "busid" with
      | Except.error e => Except.error e
      | Except.ok busStr =>
        match busIdOf h busStr with
        | Except.error e => Except.error e
        | Except.ok busId =>
          match addPciGpu h xmlPci system (kvConvertToInt classStr kvDictPciClass NodeType.PCI)
              busId with
          | Except.error e => Except.error e
          | Except.ok none => Except.ok (system, none)
          | Except.ok (some (s1, node, type)) =>
            match xmlGetSub xmlPci "nic" with
            | some xmlNic =>
              match addPciNic h xmlNic s1 node busId with
              | Except.error e => Except.error e
              | Except.ok r => connectPciNode h xmlPci r.1 r.2 parent
            | none =>
              if type = NodeType.PCI then
                match createNode h s1 NodeType.PCI busId with
                | Except.error e => Except.error e
                | Except.ok c =>
                  match subsLoop subs (c.1.modifyNode c.2 (setPciDevice h xmlPci)) c.2 with
                  | Except.error e => Except.error e
                  | Except.ok s3 => connectPciNode h xmlPci s3 (some c.2) parent
              else connectPciNode h xmlPci s1 node parent
where
  /-- The loop `for (int s=0; s<xmlPci->nSubs; s++)` of `ncclTopoAddPci`. -/
  subsLoop : List ncclXmlNode → ncclTopoSystem → NodeRef → Except Failure ncclTopoSystem
    | [], system, _ => Except.ok system
    | xmlSubPci :: rest, system, node =>
      match addPci h xmlSubPci system node with
      | Except.error e => Except.error e
      | Except.ok r => subsLoop rest r.1 node

/-- `ncclTopoAddPci(xmlPci, system, parent)`. -/
def ncclTopoAddPci (h : TopoHeader) (xmlPci : ncclXmlNode) (system : ncclTopoSystem)
    (parent : NodeRef) : Except Failure ncclTopoSystem :=
  match addPci h xmlPci system parent with
  | Except.error e => Except.error e
  | Except.ok r => Except.ok r.1

/-- The statements of `ncclTopoAddCpu` that fill `cpu->cpu` from the attributes. -/
def cpuInfoOf (h : TopoHeader) (xmlCpu : ncclXmlNode) (old : CpuInfo) :
    Except Failure CpuInfo := do
  let affinity ← match xmlGetAttr xmlCpu "affinity" with
    | some str =>
      match h.ncclStrToCpuset str with
      | Except.ok m => Except.ok m
      | Except.error e => Except.error (Failure.code e)
    | none => Except.ok old.affinity
  let archStr ← xmlGetAttrStr xmlCpu "arch"
  let arch : Int := kvConvertToInt archStr (kvDictCpuArch h) 0
  if arch = h.NCCL_TOPO_CPU_ARCH_X86 then do
    let vendorStr ← xmlGetAttrStr xmlCpu "vendor"
    let vendor : Int := kvConvertToInt vendorStr (kvDictCpuVendor h) 0
    let model1 ←
      if vendor = h.NCCL_TOPO_CPU_VENDOR_INTEL then do
        let familyId ← xmlGetAttrInt h xmlCpu "familyid"
        let modelId ← xmlGetAttrInt h xmlCpu "modelid"
        Except.ok (if familyId = 6 ∧ modelId ≥ 85 then h.NCCL_TOPO_CPU_TYPE_SKL
                   else h.NCCL_TOPO_CPU_INTEL_BDW)
      else if vendor = h.NCCL_TOPO_CPU_VENDOR_ZHAOXIN then do
        let familyId ← xmlGetAttrInt h xmlCpu "familyid"
        let modelId ← xmlGetAttrInt h xmlCpu "modelid"
        Except.ok (if familyId = 7 ∧ modelId = 91 then h.NCCL_TOPO_CPU_TYPE_YONGFENG
                   else old.model)
      else Except.ok old.model
    let model2 ←
      if vendor = h.NCCL_TOPO_CPU_VENDOR_AMD then do
        let familyId ← xmlGetAttrInt h xmlCpu "familyid"
        let modelId ← xmlGetAttrInt h xmlCpu "modelid"
        Except.ok (if (familyId = 143 ∧ modelId ≥ 49) ∨ familyId = 175
                   then h.NCCL_TOPO_CPU_TYPE_ROME else h.NCCL_TOPO_CPU_TYPE_ZEN)
      else Except.ok model1
    Except.ok { arch := arch, vendor := vendor, model := model2, affinity := affinity }
  else Except.ok { old with arch := arch, affinity := affinity }

/-- The block of `ncclTopoAddCpu` for a sub node named "nic". -/
def addCpuNic (h : TopoHeader) (xmlNic : ncclXmlNode) (system : ncclTopoSystem)
    (cpu : NodeRef) : Except Failure ncclTopoSystem :=
  match ncclTopoGetNode system NodeType.NIC 0 with
  | some nic => ncclTopoAddNic h xmlNic.subs system nic 0
  | none =>
    match createNode h system NodeType.NIC 0 with
    | Except.error e => Except.error e
    | Except.ok r =>
      ncclTopoAddNic h xmlNic.subs (r.1.connectBoth cpu r.2 LINK_PCI h.LOC_WIDTH) r.2 0

/-- The loop `for (int s=0; s<xmlCpu->nSubs; s++)` of `ncclTopoAddCpu`. -/
def addCpuSubs (h : TopoHeader) (subs : List ncclXmlNode) (system : ncclTopoSystem)
    (cpu : NodeRef) : Except Failure ncclTopoSystem :=
  match subs with
  | [] => Except.ok system
  | node :: rest =>
    let r1 : Except Failure ncclTopoSystem :=
      if node.name = "pci" then ncclTopoAddPci h node system cpu else Except.ok system
    match r1 with
    | Except.error e => Except.error e
    | Except.ok s1 =>
      let r2 : Except Failure ncclTopoSystem :=
        if node.name = "nic" then addCpuNic h node s1 cpu else Except.ok s1
      match r2 with
      | Except.error e => Except.error e
      | Except.ok s2 => addCpuSubs h rest s2 cpu

/-- Write the member `cpu` of a node. -/
def setCpu (info : CpuInfo) (n : ncclTopoNode) : ncclTopoNode := { n with cpu := info }

/-- `ncclTopoAddCpu(xmlCpu, system)`. -/
def ncclTopoAddCpu (h : TopoHeader) (xmlCpu : ncclXmlNode) (system : ncclTopoSystem) :
    Except Failure ncclTopoSystem :=
  match xmlGetAttrInt h xmlCpu "numaid" with
  | Except.error e => Except.error e
  | Except.ok numaId =>
    match createNode h system NodeType.CPU numaId with
    | Except.error e => Except.error e
    | Except.ok r =>
      match r.1.node? r.2 with
      | none => Except.error Failure.undefined
      | some n =>
        match cpuInfoOf h xmlCpu n.cpu with
        | Except.error e => Except.error e
        | Except.ok info => addCpuSubs h xmlCpu.subs (r.1.modifyNode r.2 (setCpu info)) r.2

/-- `findLocalCpu(node, &cpu)` with a budget for the depth of the recursion; the value is the
pointer left in `*cpu`. -/
def findLocalCpu (system : ncclTopoSystem) :
    Nat → NodeRef → Except Failure (Option NodeRef)
  | 0, _ => Except.error Failure.fuel
  | k + 1, node =>
    match system.node? node with
    | none => Except.error Failure.undefined
    | some n =>
      if n.type = NodeType.CPU then Except.ok (some node)
      else
        n.live.foldlM
          (fun (found : Option NodeRef) link =>
            match found with
            | some c => Except.ok (some c)
            | none =>
              if link.type = LINK_PCI then findLocalCpu system k link.remNode
              else Except.ok none) none

/-- The remote node of an "xgmi" entry of `ncclTopoAddXGMI`: the system and `remote`. -/
def xgmiRemote (h : TopoHeader) (fuel : Nat) (node : ncclXmlNode) (system : ncclTopoSystem)
    (gpu : NodeRef) (targetType : NodeType) :
    Except Failure (ncclTopoSystem × Option NodeRef) :=
  if targetType = NodeType.GPU then
    match xmlGetAttrStr node "target" with
    | Except.error e => Except.error e
    | Except.ok target =>
      match busIdOf h target with
      | Except.error e => Except.error e
      | Except.ok busId => Except.ok (system, ncclTopoGetNode system NodeType.GPU busId)
  else if targetType = NodeType.CPU then
    match findLocalCpu system fuel gpu with
    | Except.error e => Except.error e
    | Except.ok remote => Except.ok (system, remote)
  else if system.count NodeType.NVS = 0 then
    match createNode h system NodeType.NVS 0 with
    | Except.error e => Except.error e
    | Except.ok r => Except.ok (r.1, some r.2)
  else Except.ok (system, some { type := NodeType.NVS, index := 0 })

/-- The block `if (remote) {...}` of `ncclTopoAddXGMI`. -/
def xgmiConnect (h : TopoHeader) (system : ncclTopoSystem) (gpu : NodeRef) (count : Int)
    (remote : Option NodeRef) : Except Failure ncclTopoSystem :=
  match remote with
  | none => Except.ok system
  | some remote =>
    match system.node? gpu, system.node? remote with
    | some gpuNode, some remoteNode =>
      if remoteNode.type ≠ NodeType.GPU then
        Except.ok (system.connectBoth gpu remote LINK_NVL
          ((count : ℚ) * h.ncclTopoXGMISpeed gpuNode.gpu.gcn))
      else
        Except.ok (system.connect gpu remote LINK_NVL
          ((count : ℚ) * h.ncclTopoXGMISpeed gpuNode.gpu.gcn))
    | _, _ => Except.error Failure.undefined

/-- The branch of `ncclTopoAddXGMI` for a node named "xgmi". A null `parentBusId` is
dereferenced by `busIdToInt64`. -/
def addXgmiEntry (h : TopoHeader) (fuel : Nat) (node : ncclXmlNode) (system : ncclTopoSystem)
    (parentBusId : Option String) : Except Failure ncclTopoSystem :=
  match parentBusId with
  | none => Except.error Failure.undefined
  | some parentStr =>
    match busIdOf h parentStr with
    | Except.error e => Except.error e
    | Except.ok pBusId =>
      match ncclTopoGetNode system NodeType.GPU pBusId with
      | none => Except.error (Failure.code ncclResult_t.ncclInternalError)
      | some gpu =>
        match xmlGetAttrInt h node "count" with
        | Except.error e => Except.error e
        | Except.ok count =>
          match xmlGetAttrStr node "tclass" with
          | Except.error e => Except.error e
          | Except.ok targetClass =>
            match xgmiRemote h fuel node system gpu
                (kvConvertToInt targetClass kvDictPciClass NodeType.PCI) with
            | Except.error e => Except.error e
            | Except.ok r => xgmiConnect h r.1 gpu count r.2

/-- `ncclTopoAddXGMI(node, system, parentBusId)`; `ncclTopoAddXGMI.subsLoop` is the loop
over the sub nodes. -/
def ncclTopoAddXGMI (h : TopoHeader) (fuel : Nat) :
    ncclXmlNode → ncclTopoSystem → Option String → Except Failure ncclTopoSystem
  | ncclXmlNode.mk name attrs subs, system, parentBusId =>
    let node := ncclXmlNode.mk name attrs subs
    if name = "xgmi" then addXgmiEntry h fuel node system parentBusId
    else
      subsLoop subs system
        (match xmlGetAttr node "busid" with
         | some busId => some busId
         | none => parentBusId)
where
  /-- The loop `for (int s=0; s<node->nSubs; s++)` of `ncclTopoAddXGMI`. -/
  subsLoop : List ncclXmlNode → ncclTopoSystem → Option String →
      Except Failure ncclTopoSystem
    | [], system, _ => Except.ok system
    | sub :: rest, system, busId =>
      match ncclTopoAddXGMI h fuel sub system busId with
      | Except.error e => Except.error e
      | Except.ok s1 => subsLoop rest s1 busId

/-! ## ncclTopoRemoveNode -/

/-- `memmove(links+l, links+l+1, (nlinks-l-1)*sizeof(struct ncclTopoLink))`: the slots
`l+1 .. nlinks-1` move down by one; slot `nlinks-1` and the slots behind it keep their
content. -/
def memmoveLinks (links : List ncclTopoLink) (l nlinks : Nat) : List ncclTopoLink :=
  links.take l ++ (links.drop (l + 1)).take (nlinks - l - 1) ++ links.drop (nlinks - 1)

/-- The loop `for (l=0; l<node->nlinks; l++) { while (...) {...} if (...) remNode--; }` of
`ncclTopoRemoveNode` on one node, from position `l`; the first argument bounds the number of
steps by `nlinks - l`. `remNode->type` is the kind of the array the pointer points into
(`ncclTopoCreateNode` stores that kind in the node). -/
def unlinkLoop (del : NodeRef) :
    Nat → Nat → List ncclTopoLink → Nat → List ncclTopoLink × Nat
  | 0, _, links, nlinks => (links, nlinks)
  | k + 1, l, links, nlinks =>
    if l < nlinks then
      match links[l]? with
      | none => (links, nlinks)
      | some link =>
        if link.remNode = del then
          unlinkLoop del k l (memmoveLinks links l nlinks) (nlinks - 1)
        else if link.remNode.type = del.type ∧ del.index ≤ link.remNode.index then
          unlinkLoop del k (l + 1)
            (links.set l { link with remNode := { type := link.remNode.type,
                                                  index := link.remNode.index - 1 } }) nlinks
        else unlinkLoop del k (l + 1) links nlinks
    else (links, nlinks)

/-- The body of `ncclTopoRemoveNode` for one node other than the deleted one. -/
def unlinkNode (del : NodeRef) (node : ncclTopoNode) : ncclTopoNode :=
  { node with links := (unlinkLoop del node.nlinks 0 node.links node.nlinks).1,
              nlinks := (unlinkLoop del node.nlinks 0 node.links node.nlinks).2 }

/-- The loop of `ncclTopoRemoveNode` over the nodes of kind `t`. -/
def unlinkAll (del : NodeRef) (t : NodeType) (nodes : List ncclTopoNode) : List ncclTopoNode :=
  nodes.mapIdx (fun n node => if t = del.type ∧ n = del.index then node else unlinkNode del node)

/-- `ncclTopoRemoveNode(system, type, index)` for `index < count`; it always returns
`ncclSuccess`. The `paths` freed here are not allocated before the path computation. -/
def ncclTopoRemoveNode (system : ncclTopoSystem) (type : NodeType) (index : Nat) :
    ncclTopoSystem :=
  let del : NodeRef := { type := type, index := index }
  let s1 : ncclTopoSystem :=
    { system with
        gpuNodes := unlinkAll del NodeType.GPU system.gpuNodes
        pciNodes := unlinkAll del NodeType.PCI system.pciNodes
        nvsNodes := unlinkAll del NodeType.NVS system.nvsNodes
        cpuNodes := unlinkAll del NodeType.CPU system.cpuNodes
        nicNodes := unlinkAll del NodeType.NIC system.nicNodes
        netNodes := unlinkAll del NodeType.NET system.netNodes }
  s1.setNodes type ((s1.nodes type).eraseIdx index)

/-! ## ncclTopoFlattenBcmSwitches -/

/-- The test `(device & 0xfffffffffffff000) == 0x1000c0101000a000`. -/
def isBcmGen4 (device : Nat) : Bool :=
  (device &&& 0xfffffffffffff000) == 0x1000c0101000a000

/-- The signature written into a flattened switch. -/
def flattenedDevice : Nat := 0x1000c01010000000

/-- Modelled from the spec: `ncclTopoIdToIndex` of `topo.h`, which is not part of the
sources. The id is the key of a node within its kind (§3): the index of the node of the kind
with that id, an internal error if there is none. -/
def ncclTopoIdToIndex (system : ncclTopoSystem) (type : NodeType) (id : Int) :
    Except Failure Nat :=
  let i := (system.nodes type).findIdx (fun n => decide (n.id = id))
  if i < system.count type then Except.ok i
  else Except.error (Failure.code ncclResult_t.ncclInternalError)

/-- The first inner loop of `ncclTopoFlattenBcmSwitches` from position `l`: it collects the ids
of the sub switches and removes the links to them. The first argument bounds the number of
steps by `nlinks - l`. -/
def collectSubs (system : ncclTopoSystem) (device : Nat) :
    Nat → Nat → List ncclTopoLink → Nat → List Int →
      Except Failure (List ncclTopoLink × Nat × List Int)
  | 0, _, links, nlinks, subs => Except.ok (links, nlinks, subs)
  | k + 1, l, links, nlinks, subs =>
    if l < nlinks then
      match links[l]? with
      | none => Except.error Failure.undefined
      | some link =>
        match system.node? link.remNode with
        | none => Except.error Failure.undefined
        | some sub =>
          if sub.type ≠ NodeType.PCI ∨ sub.pci.device ≠ device then
            collectSubs system device k (l + 1) links nlinks subs
          else
            collectSubs system device k l (memmoveLinks links l nlinks) (nlinks - 1)
              (subs ++ [sub.id])
    else Except.ok (links, nlinks, subs)

/-- Write slot `i` of a link array whose slots from `links.length` on are zero. -/
def writeSlot (links : List ncclTopoLink) (i : Nat) (x : ncclTopoLink) : List ncclTopoLink :=
  if i < links.length then links.set i x else links ++ [x]

/-- `memcpy(pciSwitch->links+pciSwitch->nlinks, link, ...); pciSwitch->nlinks++`. -/
def appendLink (link : ncclTopoLink) (node : ncclTopoNode) : ncclTopoNode :=
  { node with links := writeSlot node.links node.nlinks link, nlinks := node.nlinks + 1 }

/-- The loop `for (rl=0; rl<remNode->nlinks; rl++) if (remNode->links[rl].remNode == sub)
{ remNode->links[rl].remNode = pciSwitch; break; }` on the node `remNode`. -/
def redirectFirst (sub pciSwitch : NodeRef) (node : ncclTopoNode) : ncclTopoNode :=
  let rl := node.live.findIdx (fun x => decide (x.remNode = sub))
  if rl < node.nlinks then
    { node with links := node.links.modify (fun x => { x with remNode := pciSwitch }) rl }
  else node

/-- One iteration, for the link at position `l` of the sub switch, of the loop "Connect all
sub PCI devices to the parent switch". -/
def spliceStep (pciSwitch sub : NodeRef) (system : ncclTopoSystem) (l : Nat) :
    Except Failure ncclTopoSystem :=
  match system.node? sub with
  | none => Except.error Failure.undefined
  | some subNode =>
    match subNode.links[l]? with
    | none => Except.error Failure.undefined
    | some link =>
      if link.remNode = pciSwitch then Except.ok system
      else
        let s1 := system.modifyNode pciSwitch (appendLink link)
        match s1.node? link.remNode with
        | none => Except.error Failure.undefined
        | some _ => Except.ok (s1.modifyNode link.remNode (redirectFirst sub pciSwitch))

/-- The body of the loop `for (int s=0; s<subs; s++)` for one saved id: find the sub switch,
hand its links to the parent switch, remove it. The inner loop runs while `l < sub->nlinks`;
when `sub->nlinks` has grown during the loop (the sub switch is the parent switch itself) the
loop does not end. -/
def fuseSub (pciSwitch : NodeRef) (system : ncclTopoSystem) (id : Int) :
    Except Failure ncclTopoSystem := do
  let index ← ncclTopoIdToIndex system NodeType.PCI id
  let sub : NodeRef := { type := NodeType.PCI, index := index }
  match system.node? sub with
  | none => Except.error Failure.undefined
  | some subNode =>
    let s1 ← (List.range subNode.nlinks).foldlM (spliceStep pciSwitch sub) system
    match s1.node? sub with
    | none => Except.error Failure.undefined
    | some subNode1 =>
      if subNode1.nlinks = subNode.nlinks then
        Except.ok (ncclTopoRemoveNode s1 NodeType.PCI index)
      else Except.error Failure.undefined

/-- The body of the outer loop of `ncclTopoFlattenBcmSwitches` for a switch at index `s` whose
signature matches. -/
def flattenSwitch (system : ncclTopoSystem) (s : Nat) (pciSwitch : ncclTopoNode) :
    Except Failure ncclTopoSystem := do
  let r ← collectSubs system pciSwitch.pci.device pciSwitch.nlinks 0 pciSwitch.links
    pciSwitch.nlinks []
  let p : NodeRef := { type := NodeType.PCI, index := s }
  let s1 := system.modifyNode p (fun n => { n with links := r.1, nlinks := r.2.1 })
  let s2 ← r.2.2.foldlM (fuseSub p) s1
  Except.ok (s2.modifyNode p (fun n => { n with pci := { device := flattenedDevice } }))

/-- The outer loop of `ncclTopoFlattenBcmSwitches` from index `s`. After a switch is flattened
the loop sets `s = 0` and the loop header then increments it, so that the scan goes on at
index 1. -/
def flattenLoop : Nat → Nat → ncclTopoSystem → Except Failure ncclTopoSystem
  | 0, _, _ => Except.error Failure.fuel
  | k + 1, s, system =>
    if s < system.count NodeType.PCI then
      match system.pciNodes[s]? with
      | none => Except.error Failure.undefined
      | some pciSwitch =>
        if isBcmGen4 pciSwitch.pci.device then
          match flattenSwitch system s pciSwitch with
          | Except.error e => Except.error e
          | Except.ok s1 => flattenLoop k 1 s1
        else flattenLoop k (s + 1) system
    else Except.ok system

/-- `ncclTopoFlattenBcmSwitches(system)` with a budget for the iterations of its outer loop. -/
def ncclTopoFlattenBcmSwitches (fuel : Nat) (system : ncclTopoSystem) :
    Except Failure ncclTopoSystem :=
  flattenLoop fuel 0 system

/-! ## ncclTopoSort -/

/-- The block `if (upNode) {...}` of `ncclTopoSort` on the slots of the node: the first slot
that points to `upNode` moves behind the last slot with a non-null `remNode`. `none` when no
slot points to `upNode` (the first `while` then leaves the array). -/
def sortUp (links : List ncclTopoLink) (upNode : NodeRef) : Option (List ncclTopoLink) :=
  let l := links.findIdx (fun x => decide (x.remNode = upNode))
  match links[l]? with
  | none => none
  | some upLink => some (links.eraseIdx l ++ [upLink])

/-- `ncclTopoSort(node, upNode)` with a budget for the depth of the recursion. -/
def ncclTopoSort :
    Nat → ncclTopoSystem → NodeRef → Option NodeRef → Except Failure ncclTopoSystem
  | 0, _, _, _ => Except.error Failure.fuel
  | k + 1, system, node, upNode =>
    match system.node? node with
    | none => Except.error Failure.undefined
    | some n =>
      let shifted : Except Failure ncclTopoSystem :=
        match upNode with
        | none => Except.ok system
        | some up =>
          match sortUp n.links up with
          | none => Except.error Failure.undefined
          | some links => Except.ok (system.modifyNode node (fun x => { x with links := links }))
      match shifted with
      | Except.error e => Except.error e
      | Except.ok s1 =>
        (List.range n.nlinks).foldlM
          (fun s l =>
            match s.node? node with
            | none => Except.error Failure.undefined
            | some cur =>
              match cur.links[l]? with
              | none => Except.ok s
              | some link =>
                if link.type = LINK_PCI ∧ some link.remNode ≠ upNode then
                  ncclTopoSort k s link.remNode (some node)
                else Except.ok s) s1

/-- `ncclTopoSortSystem(system)`. -/
def ncclTopoSortSystem (fuel : Nat) (system : ncclTopoSystem) : Except Failure ncclTopoSystem :=
  (List.range (system.count NodeType.CPU)).foldlM
    (fun s n => ncclTopoSort fuel s { type := NodeType.CPU, index := n } none) system

/-! ## ncclTopoGetSystemFromXml -/

/-- The loop of `ncclTopoGetSystemFromXml` over the sub nodes of the "system" node. -/
def addCpus (h : TopoHeader) (subs : List ncclXmlNode) (system : ncclTopoSystem) :
    Except Failure ncclTopoSystem :=
  match subs with
  | [] => Except.ok system
  | node :: rest =>
    if node.name = "cpu" then
      match ncclTopoAddCpu h node system with
      | Except.error e => Except.error e
      | Except.ok s1 => addCpus h rest s1
    else addCpus h rest system

/-- The Graph Builder: the part of `ncclTopoGetSystemFromXml` before the transform passes, on
the "system" node `xmlFindTag` returns and the zeroed system `ncclCalloc` returns. -/
def buildGraph (h : TopoHeader) (fuel : Nat) (topNode : ncclXmlNode) :
    Except Failure ncclTopoSystem :=
  match addCpus h topNode.subs {} with
  | Except.error e => Except.error e
  | Except.ok s1 => ncclTopoAddXGMI h fuel topNode s1 none

/-- `ncclTopoGetSystemFromXml(xml, &topoSystem)` on the "system" node of the tree, with one
budget for each recursion and restarting loop. -/
def ncclTopoGetSystemFromXml (h : TopoHeader) (fuel : Nat) (topNode : ncclXmlNode) :
    Except Failure ncclTopoSystem :=
  match buildGraph h fuel topNode with
  | Except.error e => Except.error e
  | Except.ok s1 =>
    match ncclTopoFlattenBcmSwitches fuel s1 with
    | Except.error e => Except.error e
    | Except.ok s2 => ncclTopoSortSystem fuel (ncclTopoConnectCpus h s2)

/-! ## Well-formed topologies and build steps -/

/-- The pointer refers to one of the first `count` nodes of its array. -/
def ncclTopoSystem.valid (s : ncclTopoSystem) (r : NodeRef) : Prop :=
  r.index < s.count r.type

/-- A node of kind `t` is well formed in `s`: the slots behind `nlinks` are zero, the member
`type` is the kind of its array, and every link points to a node of `s`. -/
def GoodNode (s : ncclTopoSystem) (t : NodeType) (n : ncclTopoNode) : Prop :=
  n.nlinks = n.links.length ∧ n.type = t ∧ ∀ l ∈ n.links, s.valid l.remNode

/-- Every node of the system is well formed. -/
def GoodSystem (s : ncclTopoSystem) : Prop :=
  ∀ t : NodeType, ∀ n ∈ s.nodes t, GoodNode s t n

/-- The live links of node `a` that go to `b` with kind `t` (none when `a` is no node). -/
def linksFrom (s : ncclTopoSystem) (a b : NodeRef) (t : Nat) : List ncclTopoLink :=
  match s.node? a with
  | some n => linksTo n.live b t
  | none => []

/-- Node `a` has a live link of kind `t` to `b`. -/
def hasLink (s : ncclTopoSystem) (a b : NodeRef) (t : Nat) : Prop :=
  linksFrom s a b t ≠ []

/-- One step of graph creation: a node is created; members other than the links of a node
are written; two nodes are connected in both directions (`both a b t` permitting); one node
is connected to another in one direction (`oneWay a b t` permitting). -/
inductive BuildStep (h : TopoHeader) (both oneWay : NodeRef → NodeRef → Nat → Prop) :
    ncclTopoSystem → ncclTopoSystem → Prop
  | create (s : ncclTopoSystem) (t : NodeType) (id : Int) (s1 : ncclTopoSystem) (r : NodeRef) :
      createNode h s t id = Except.ok (s1, r) → BuildStep h both oneWay s s1
  | attrs (s : ncclTopoSystem) (r : NodeRef) (f : ncclTopoNode → ncclTopoNode) :
      (∀ n, (f n).links = n.links ∧ (f n).nlinks = n.nlinks ∧ (f n).type = n.type) →
      BuildStep h both oneWay s (s.modifyNode r f)
  | link2 (s : ncclTopoSystem) (a b : NodeRef) (t : Nat) (w : ℚ) :
      s.valid a → s.valid b → both a b t →
      BuildStep h both oneWay s (s.connectBoth a b t w)
  | link1 (s : ncclTopoSystem) (a b : NodeRef) (t : Nat) (w : ℚ) :
      s.valid a → s.valid b → oneWay a b t →
      BuildStep h both oneWay s (s.connect a b t w)

/-- Reachable by steps of graph creation. -/
def Built (h : TopoHeader) (both oneWay : NodeRef → NodeRef → Nat → Prop) :
    ncclTopoSystem → ncclTopoSystem → Prop :=
  Relation.ReflTransGen (BuildStep h both oneWay)

/-- At least one of the two nodes does not exist in `s0`. -/
def FreshIn (s0 : ncclTopoSystem) (a b : NodeRef) (_t : Nat) : Prop :=
  ¬ s0.valid a ∨ ¬ s0.valid b

/-- Node `n` was created after `s` and before `s4`, by graph-creation steps that avoid links
between nodes older than themselves. -/
def YieldedAt (h : TopoHeader) (s s4 : ncclTopoSystem) (n : NodeRef) : Prop :=
  ∃ (sb sc : ncclTopoSystem) (k : NodeType) (id : Int),
    Relation.ReflTransGen (BuildStep h (fun a b _ => ¬ s.valid a ∨ ¬ s.valid b)
      (fun _ _ _ => False)) s sb ∧
    createNode h sb k id = Except.ok (sc, n) ∧
    Relation.ReflTransGen (BuildStep h (fun a b _ => ¬ sc.valid a ∨ ¬ sc.valid b)
      (fun _ _ _ => False)) sc s4

/-- No link is permitted. -/
def NoLink (_a _b : NodeRef) (_t : Nat) : Prop := False

/-- Any link is permitted. -/
def AnyLink (_a _b : NodeRef) (_t : Nat) : Prop := True

/-- A fabric link between two GPU nodes. -/
def GpuFabric (a b : NodeRef) (t : Nat) : Prop :=
  t = LINK_NVL ∧ a.type = NodeType.GPU ∧ b.type = NodeType.GPU

/-- Links are symmetric apart from fabric links between two GPUs: for every other triple, `a`
has a live link of kind `t` to `b` exactly when `b` has one to `a`. -/
def SymmetricLinks (s : ncclTopoSystem) : Prop :=
  ∀ a b t, ¬ GpuFabric a b t → (hasLink s a b t ↔ hasLink s b a t)

/-- The id and the signature of every PCI node, in array order. -/
def pciKeys (s : ncclTopoSystem) : List (Int × Nat) :=
  (s.nodes NodeType.PCI).map (fun n => (n.id, n.pci.device))

/-- The member `type` of every node is the kind of the array the node is in. -/
def TypedNodes (s : ncclTopoSystem) : Prop :=
  ∀ t, ∀ n ∈ s.nodes t, n.type = t

/-- No PCI node has a signature `ncclTopoFlattenBcmSwitches` matches. -/
def NoBcmGen4 (s : ncclTopoSystem) : Prop :=
  ∀ n ∈ s.pciNodes, isBcmGen4 n.pci.device = false

/-- The test of the first inner loop of `ncclTopoFlattenBcmSwitches`, negated: the link goes
to a PCI node with the signature `device`. -/
def isSubLink (s : ncclTopoSystem) (device : Nat) (l : ncclTopoLink) : Bool :=
  match s.node? l.remNode with
  | some sub => decide (sub.type = NodeType.PCI) && decide (sub.pci.device = device)
  | none => false

/-- The id of the node a link goes to. -/
def linkId (s : ncclTopoSystem) (l : ncclTopoLink) : Int :=
  match s.node? l.remNode with
  | some sub => sub.id
  | none => 0

/-- The sub switches of the PCI node `P`: the targets of its live links to PCI nodes with the
signature of `P`, in link order. -/
def subSwitches (s : ncclTopoSystem) (P : ncclTopoNode) : List NodeRef :=
  (P.live.filter (isSubLink s P.pci.device)).map (fun l => l.remNode)

/-- A link after `ncclTopoRemoveNode` has removed `del`: a pointer into the array of `del`
behind `del` is moved down by one. -/
def shiftLink (del : NodeRef) (l : ncclTopoLink) : ncclTopoLink :=
  if l.remNode.type = del.type ∧ del.index ≤ l.remNode.index then
    { l with remNode := { type := l.remNode.type, index := l.remNode.index - 1 } }
  else l

/-- A pointer after `ncclTopoRemoveNode` has removed `del` and moved the nodes behind it down
by one. -/
def shiftRef (del r : NodeRef) : NodeRef :=
  if r.type = del.type ∧ del.index ≤ r.index then { type := r.type, index := r.index - 1 }
  else r

/-- The write `remNode->links[rl].remNode = pciSwitch` of the flattening pass. -/
def redirectLink (pciSwitch : NodeRef) (l : ncclTopoLink) : ncclTopoLink :=
  { l with remNode := pciSwitch }

/-- Link `y1` is link `y`, or `y` went to `sub` and `y1` is `y` redirected to `pciSwitch`. -/
def Redirected (sub pciSwitch : NodeRef) (y1 y : ncclTopoLink) : Prop :=
  y1 = y ∨ (y.remNode = sub ∧ y1 = redirectLink pciSwitch y)

/-- A name of a node that survives the removal of PCI nodes: the id for a PCI node, the index
for a node of another kind (only the PCI array is shifted by the flattening pass). -/
def nodeKey (s : ncclTopoSystem) (r : NodeRef) : NodeType × Int :=
  (r.type,
    if r.type = NodeType.PCI then
      match s.node? r with
      | some n => n.id
      | none => 0
    else (r.index : Int))

/-- A link as kind, width and name of the target. -/
def edgeOf (s : ncclTopoSystem) (l : ncclTopoLink) : Nat × ℚ × (NodeType × Int) :=
  (l.type, l.width, nodeKey s l.remNode)

/-- The live links of the node at `r`, as kinds, widths and names of targets. -/
def edgesFrom (s : ncclTopoSystem) (r : NodeRef) : List (Nat × ℚ × (NodeType × Int)) :=
  match s.node? r with
  | some n => n.live.map (edgeOf s)
  | none => []

/-- A topology in which `nlinks` may be smaller than the number of written slots: the live
links of every node go to nodes of the system, and `type` is the kind of the array. -/
def WeakGood (s : ncclTopoSystem) : Prop :=
  ∀ t, ∀ n ∈ s.nodes t, n.nlinks ≤ n.links.length ∧ n.type = t ∧
    ∀ l ∈ n.live, s.valid l.remNode

/-- The members of a node the flattening pass reads besides the links. -/
def nodeAttrs (n : ncclTopoNode) : Int × NodeType × PciInfo := (n.id, n.type, n.pci)

/-- The state of the loop "Connect all sub PCI devices to the parent switch" for the sub
switch `c` (node `Cn`) and the parent switch `p` (node `Pn` at the start), after the links
`seen` of the sub switch are handled, relative to the state `s0` at the start of the loop. -/
structure SpliceInv (s0 : ncclTopoSystem) (p c : NodeRef) (Cn Pn : ncclTopoNode)
    (seen : List ncclTopoLink) (s : ncclTopoSystem) : Prop where
  good : WeakGood s
  attrs : ∀ t, (s.nodes t).map nodeAttrs = (s0.nodes t).map nodeAttrs
  sub : s.node? c = some Cn
  parent : ∃ P1, s.node? p = some P1 ∧
    P1.live = Pn.live ++ seen.filter (fun y => decide (y.remNode ≠ p))
  others : ∀ r, r ≠ p → ∀ n, s0.node? r = some n →
    ∃ n1, s.node? r = some n1 ∧ List.Forall₂ (Redirected c p) n1.live n.live
  redirected : ∀ y ∈ seen, y.remNode ≠ p → ∀ n, s0.node? y.remNode = some n →
    (∃ z ∈ n.live, z.remNode = c) →
    ∃ n1, s.node? y.remNode = some n1 ∧ ∃ z ∈ n.live, z.remNode = c ∧ redirectLink p z ∈ n1.live

/-- The assumptions on a switch `P` at PCI index `i` of `sys` under which one flattening
step is described: the topology is well formed, PCI ids are pairwise distinct, the sub switches
of `P` lie behind it in the array, `P` has one link to each, and a link of a sub switch goes
to `P` or to a node that is not a sub switch of `P`. -/
structure SwitchCtx (sys : ncclTopoSystem) (i : Nat) (P : ncclTopoNode) : Prop where
  good : GoodSystem sys
  ids : ((pciKeys sys).map Prod.fst).Nodup
  node : sys.node? { type := NodeType.PCI, index := i } = some P
  above : ∀ c ∈ subSwitches sys P, i < c.index
  distinct : (subSwitches sys P).Nodup
  leaves : ∀ c ∈ subSwitches sys P, ∀ C, sys.node? c = some C →
    ∀ x ∈ C.live, x.remNode ≠ { type := NodeType.PCI, index := i } →
      x.remNode ∉ subSwitches sys P

/-- The state of the loop over the saved ids of the sub switches of `P`, with the ids `todo`
still to handle: the sub switches still to handle are present with their links, the handled
ones are gone and their links to other nodes are links of the parent switch (`fused`); a node
that is neither the parent switch nor a sub switch has its links to the sub switches still to
handle (`kept`), and in place of a link to a handled sub switch that had a link to it, a link
to the parent switch (`back`). -/
structure FuseInv (sys : ncclTopoSystem) (i : Nat) (P : ncclTopoNode) (todo : List Int)
    (s : ncclTopoSystem) : Prop where
  good : WeakGood s
  ids : ((pciKeys s).map Prod.fst).Nodup
  low : (pciKeys s).take (i + 1) = (pciKeys sys).take (i + 1)
  waiting : ∀ c ∈ subSwitches sys P, ∀ C, sys.node? c = some C → C.id ∈ todo →
    ∃ c1, s.valid c1 ∧ c1.type = NodeType.PCI ∧ nodeKey s c1 = (NodeType.PCI, C.id) ∧
      edgesFrom s c1 = edgesFrom sys c
  fused : ∀ c ∈ subSwitches sys P, ∀ C, sys.node? c = some C → C.id ∉ todo →
    C.id ∉ (pciKeys s).map Prod.fst ∧
      ∀ x ∈ C.live, x.remNode ≠ { type := NodeType.PCI, index := i } →
        edgeOf sys x ∈ edgesFrom s { type := NodeType.PCI, index := i }
  kept : ∀ X0 X, sys.node? X0 = some X → X0 ≠ { type := NodeType.PCI, index := i } →
    X0 ∉ subSwitches sys P →
    ∃ X1, s.valid X1 ∧ nodeKey s X1 = nodeKey sys X0 ∧
      ∀ c ∈ subSwitches sys P, ∀ C, sys.node? c = some C → C.id ∈ todo →
        (∀ z ∈ X.live, z.remNode = c → edgeOf sys z ∈ edgesFrom s X1) ∧
        (∀ e ∈ edgesFrom s X1, e.2.2 = nodeKey sys c → e ∈ edgesFrom sys X0)
  back : ∀ c ∈ subSwitches sys P, ∀ C, sys.node? c = some C → C.id ∉ todo →
    ∀ x ∈ C.live, x.remNode ≠ { type := NodeType.PCI, index := i } →
    ∀ X, sys.node? x.remNode = some X → (∃ z ∈ X.live, z.remNode = c) →
    ∃ X1, s.valid X1 ∧ nodeKey s X1 = nodeKey sys x.remNode ∧
      ∃ z ∈ X.live, z.remNode = c ∧
        (z.type, z.width, nodeKey sys { type := NodeType.PCI, index := i }) ∈ edgesFrom s X1

/-- Every node of a description tree: the node itself, then the nodes of its sub trees in
order. -/
def xmlNodes : ncclXmlNode → List ncclXmlNode
  | ncclXmlNode.mk name attrs subs => ncclXmlNode.mk name attrs subs :: subsNodes subs
where
  /-- The nodes of a list of trees. -/
  subsNodes : List ncclXmlNode → List ncclXmlNode
    | [] => []
    | c :: rest => xmlNodes c ++ subsNodes rest

/-- The link widths the builder can compute from one node of the tree satisfy `W`: the width
of a Network-port, the width of a PCI link, and the width of a fabric link for every speed. -/
def WidthsIn (h : TopoHeader) (W : ℚ → Prop) (x : ncclXmlNode) : Prop :=
  W (netWidth h x) ∧ (∀ w, pciLinkWidth h x = Except.ok w → W w) ∧
    ∀ count gcn, xmlGetAttrInt h x "count" = Except.ok count →
      W ((count : ℚ) * h.ncclTopoXGMISpeed gcn)

/-- One step of graph creation with what the builder has established before it: a NIC node
is created only after the lookup of its id has found none, the switch node only while there is
none; attribute writes keep the id; two distinct nodes are connected in both directions with a
width satisfying `W`; a GPU is connected to another node in one direction by a fabric link
with a width satisfying `W`. -/
inductive CheckedStep (h : TopoHeader) (W : ℚ → Prop) : ncclTopoSystem → ncclTopoSystem → Prop
  | create (s : ncclTopoSystem) (t : NodeType) (id : Int) (s1 : ncclTopoSystem) (r : NodeRef) :
      createNode h s t id = Except.ok (s1, r) →
      (t = NodeType.NIC → ncclTopoGetNode s NodeType.NIC id = none) →
      (t = NodeType.NVS → s.count NodeType.NVS = 0) → CheckedStep h W s s1
  | attrs (s : ncclTopoSystem) (r : NodeRef) (f : ncclTopoNode → ncclTopoNode) :
      (∀ n, (f n).links = n.links ∧ (f n).nlinks = n.nlinks ∧ (f n).type = n.type ∧
        (f n).id = n.id) →
      CheckedStep h W s (s.modifyNode r f)
  | link2 (s : ncclTopoSystem) (a b : NodeRef) (t : Nat) (w : ℚ) :
      s.valid a → s.valid b → a ≠ b → W w → CheckedStep h W s (s.connectBoth a b t w)
  | link1 (s : ncclTopoSystem) (a b : NodeRef) (w : ℚ) :
      s.valid a → s.valid b → a.type = NodeType.GPU → W w →
      CheckedStep h W s (s.connect a b LINK_NVL w)

/-- Reachable by checked steps of graph creation. -/
def CheckedBuilt (h : TopoHeader) (W : ℚ → Prop) : ncclTopoSystem → ncclTopoSystem → Prop :=
  Relation.ReflTransGen (CheckedStep h W)

/-- Every node of kind `t` satisfies `Q` at its index. -/
def NodesSatisfy (t : NodeType) (Q : Nat → ncclTopoNode → Prop) (s : ncclTopoSystem) : Prop :=
  ∀ i n, s.node? { type := t, index := i } = some n → Q i n

/-- The node record `n` of GPU `g` has a live LOC link to GPU `g` itself, and none of its
slots is a PCI link to GPU `g` itself. -/
def SelfLinked (g : Nat) (n : ncclTopoNode) : Prop :=
  n.nlinks ≤ n.links.length ∧
  (∃ l ∈ n.live, l.type = LINK_LOC ∧ l.remNode = { type := NodeType.GPU, index := g }) ∧
  ∀ l ∈ n.links, ¬ (l.type = LINK_PCI ∧ l.remNode = { type := NodeType.GPU, index := g })

/-- The link width of a PCI entry and the link count of an "xgmi" entry, where the node
declares them, are not negative. -/
def nonNegWidths (h : TopoHeader) (x : ncclXmlNode) : Bool :=
  (match pciLinkWidth h x with
   | Except.ok w => decide (0 ≤ w)
   | Except.error _ => true) &&
  (match xmlGetAttrInt h x "count" with
   | Except.ok c => decide (0 ≤ c)
   | Except.error _ => true)

/-- Total width of the live links of kind `t` from node `a` to node `b`. -/
def widthFrom (s : ncclTopoSystem) (a b : NodeRef) (t : Nat) : ℚ :=
  ((linksFrom s a b t).map (fun l => l.width)).sum

/-- The kinds and targets of the live links of a node, with the kind of the node. -/
def linkTargets (s : ncclTopoSystem) (r : NodeRef) : Option (NodeType × List (Nat × NodeRef)) :=
  (s.node? r).map (fun n => (n.type, n.live.map (fun l => (l.type, l.remNode))))

/-- The sub nodes of a "nic" node that `ncclTopoAddNic` hands to `ncclTopoAddNet`: the ones
named "net" that have a `dev` attribute. -/
def netEntries (subs : List ncclXmlNode) : List ncclXmlNode :=
  subs.filter (fun x => decide (x.name = "net") && decide (xmlGetAttrIndex x "dev" ≠ -1))

/-- The `dev` attribute of a "net" node read as a number (of the empty string when the
attribute is absent). -/
def netDev (h : TopoHeader) (x : ncclXmlNode) : Int :=
  h.strtol ((xmlGetAttr x "dev").getD "")

/-- What an entry of the PCI hierarchy does to the system, as a property of the result. -/
def PciEntryResult (h : TopoHeader) (xmlPci : ncclXmlNode) (s : ncclTopoSystem)
    (parent : NodeRef) (r : ncclTopoSystem × Option NodeRef) : Prop :=
  ∃ s4, Built h (FreshIn s) NoLink s s4 ∧
    ((r.2 = none ∧ r.1 = s4) ∨
      (∃ n w, r.2 = some n ∧ pciLinkWidth h xmlPci = Except.ok w ∧
        r.1 = s4.connectBoth n parent LINK_PCI w ∧ YieldedAt h s s4 n))

/-! ## Queries -/

/-- The test of the inner loops of the rank lookups: `rank` is among the first
`nRanksPerGpu` entries of the rank array of the GPU. -/
def gpuHasRank (gpu : ncclTopoNode) (rank : Int) : Bool :=
  decide (rank ∈ gpu.gpu.rank.take gpu.gpu.nRanksPerGpu.toNat)

/-- `ncclTopoGetLocalRank(system, rank, &localRank)`. -/
def ncclTopoGetLocalRank (system : ncclTopoSystem) (rank : Int) : Except ncclResult_t Int :=
  let g := system.gpuNodes.findIdx (fun gpu => gpuHasRank gpu rank)
  if g < system.gpuNodes.length then Except.ok (g : Int)
  else Except.error ncclResult_t.ncclInternalError

/-- Modelled from the spec: `ncclTopoRankToIndex` of `topo.h`, which is not part of the
sources. "resolve rank → owning GPU node": the index of the GPU node, in discovery order,
whose rank list contains the rank; an internal error if there is none. -/
def ncclTopoRankToIndex (system : ncclTopoSystem) (rank : Int) : Except ncclResult_t Nat :=
  let g := system.gpuNodes.findIdx (fun gpu => gpuHasRank gpu rank)
  if g < system.gpuNodes.length then Except.ok g
  else Except.error ncclResult_t.ncclInternalError

/-- The entry `node->paths[GPU] + g`; `none` when the row or the entry does not exist. -/
def pathToGpu (node : ncclTopoNode) (g : Nat) : Option ncclTopoLinkList :=
  match node.paths[NodeType.GPU.toNat]? with
  | none => none
  | some row => row[g]?

/-- State of the scan of `ncclTopoGetLocalNet`: `minType`, `maxWidth` and the filled part
of `nets` (`count` is its length). -/
structure LocalNetScan where
  minType : Int
  maxWidth : ℚ
  nets : List Int
  deriving DecidableEq, Repr

/-- One iteration of the loop over the Network-port nodes in `ncclTopoGetLocalNet`. -/
def localNetStep (st : LocalNetScan) (id : Int) (path : ncclTopoLinkList) : LocalNetScan :=
  let st1 : LocalNetScan :=
    if path.width > st.maxWidth ∨ (path.width = st.maxWidth ∧ path.type < st.minType) then
      { minType := path.type, maxWidth := path.width, nets := [] }
    else st
  if path.width = st1.maxWidth ∧ path.type = st1.minType then
    { st1 with nets := st1.nets ++ [id] }
  else st1

/-- The loop over the Network-port nodes in `ncclTopoGetLocalNet`; `none` when a path entry
that the loop reads does not exist. -/
def localNetScan (g : Nat) : List ncclTopoNode → LocalNetScan → Option LocalNetScan
  | [], st => some st
  | n :: rest, st =>
    match pathToGpu n g with
    | none => none
    | some path => localNetScan g rest (localNetStep st n.id path)

/-- `ncclTopoGetLocalNet(system, rank, &id)`: the result code with the value stored in `*id`.
The outer `none` stands for a read outside an array (a path entry that does not exist, or a
negative index `rr % count` into `nets`), whose behaviour C leaves undefined. The `ncclCalloc`
of `nets` (`alloc.h`, outside the sources) is taken to succeed. -/
def ncclTopoGetLocalNet (system : ncclTopoSystem) (rank : Int) :
    Option (Except ncclResult_t Int) :=
  match ncclTopoRankToIndex system rank with
  | Except.error e => some (Except.error e)
  | Except.ok g =>
    match localNetScan g system.netNodes { minType := PATH_SYS, maxWidth := 0, nets := [] } with
    | none => none
    | some st =>
      if st.nets.length = 0 then some (Except.ok (-1))
      else
        match system.gpuNodes[g]? with
        | none => none
        | some gpu =>
          let rr := gpu.gpu.dev
          let i := Int.tmod rr st.nets.length
          if i < 0 then none
          else
            match st.nets[i.toNat]? with
            | none => none
            | some id => some (Except.ok id)

/-- The candidates of the local network selection as the specification words them: the ids,
in node-index order, of the Network-port nodes whose path to GPU `g` has the maximum width
over all Network-ports and, among those, the minimum tier. -/
def bestNets (system : ncclTopoSystem) (g : Nat) : List Int :=
  let paths := system.netNodes.filterMap (fun n => (pathToGpu n g).map (fun p => (n.id, p)))
  (paths.filter (fun c =>
    paths.all (fun m => decide (m.2.width ≤ c.2.width)) &&
    paths.all (fun m => decide (m.2.width = c.2.width → c.2.type ≤ m.2.type)))).map
    (fun c => c.1)

/-- The Network-port ids paired with their path entries towards GPU `g`. -/
def netPaths (nets : List ncclTopoNode) (g : Nat) : List (Int × ncclTopoLinkList) :=
  nets.filterMap (fun n => (pathToGpu n g).map (fun p => (n.id, p)))

/-- The scan of `ncclTopoGetLocalNet` over ids paired with path entries. -/
def scanPaths (st : LocalNetScan) (paths : List (Int × ncclTopoLinkList)) : LocalNetScan :=
  paths.foldl (fun st c => localNetStep st c.1 c.2) st

/-- The path `c` is strictly preferred to the pair `(maxWidth, minType)` of a scan state. -/
def beats (c : ncclTopoLinkList) (st : LocalNetScan) : Prop :=
  c.width > st.maxWidth ∨ (c.width = st.maxWidth ∧ c.type < st.minType)

/-- The path `c` has exactly the pair `(maxWidth, minType)` of a scan state. -/
def ties (c : ncclTopoLinkList) (st : LocalNetScan) : Bool :=
  decide (c.width = st.maxWidth ∧ c.type = st.minType)

/-- What the scan of `ncclTopoGetLocalNet` maintains after the entries `seen`. -/
structure ScanInv (seen : List (Int × ncclTopoLinkList)) (st : LocalNetScan) : Prop where
  best : ∀ c ∈ seen, ¬ beats c.2 st
  nets : st.nets = (seen.filter (fun c => ties c.2 st)).map (fun c => c.1)
  real : (st.maxWidth = 0 ∧ st.minType = PATH_SYS) ∨ ∃ c ∈ seen, ties c.2 st = true

/-- The entry `node->paths[CPU] + c`; `none` when the row or the entry does not exist. -/
def pathToCpu (node : ncclTopoNode) (c : Nat) : Option ncclTopoLinkList :=
  match node.paths[NodeType.CPU.toNat]? with
  | none => none
  | some row => row[c]?

/-- The loop `for (c ...)` of `ncclTopoGetCpuAffinity` over the Processor indices `cs`, on the
pair `(cpuIndex, minHops)`; `none` when a path entry that the loop reads does not exist. -/
def closerCpuScan (gpu : ncclTopoNode) : List Nat → Int × Int → Option (Int × Int)
  | [], st => some st
  | c :: cs, st =>
    match pathToCpu gpu c with
    | none => none
    | some path =>
      let nHops := path.count
      closerCpuScan gpu cs (if st.1 = -1 ∨ nHops < st.2 then ((c : Int), nHops) else st)

/-- The two outer loops of `ncclTopoGetCpuAffinity` over the GPU nodes: the pointer `cpu` as
the index it has in the Processor array (`none` is `NULL`; the index is -1 when there is no
Processor). Every GPU whose first `nRanksPerGpu` ranks contain `rank` overwrites it. -/
def cpuScan (system : ncclTopoSystem) (rank : Int) :
    List ncclTopoNode → Option Int → Option (Option Int)
  | [], cpu => some cpu
  | gpu :: rest, cpu =>
    if gpuHasRank gpu rank then
      match closerCpuScan gpu (List.range (system.count NodeType.CPU)) (-1, 0) with
      | none => none
      | some st => cpuScan system rank rest (some st.1)
    else cpuScan system rank rest cpu

/-- What `ncclTopoGetCpuAffinity` takes from outside the topology: the mask stored by
`sched_getaffinity(0, ...)` (`none` when the call returns -1 with an error that is not
retried), the value of `ncclParamIgnoreCpuAffinity()`, and the result code of
`ncclCpusetToStr` of `utils.h`, which is not part of the sources. -/
structure AffinityEnv where
  sched_getaffinity : Option Nat
  ncclParamIgnoreCpuAffinity : Int
  ncclCpusetToStr : Nat → ncclResult_t

/-- `ncclTopoGetCpuAffinity(system, rank, affinity)` built without `ENABLE_TRACE`: the result
code with the mask stored in `*affinity` (`none` when nothing is stored). The outer `none`
stands for a read outside an array: a path entry that does not exist, or the Processor at
index -1. -/
def ncclTopoGetCpuAffinity (env : AffinityEnv) (system : ncclTopoSystem) (rank : Int) :
    Option (ncclResult_t × Option Nat) :=
  match cpuScan system rank system.gpuNodes none with
  | none => none
  | some none => some (ncclResult_t.ncclInternalError, none)
  | some (some cpuIndex) =>
    match env.sched_getaffinity with
    | none => some (ncclResult_t.ncclSystemError, none)
    | some mask =>
      if cpuIndex < 0 then none
      else
        match system.cpuNodes[cpuIndex.toNat]? with
        | none => none
        | some cpu =>
          let cpuMask := cpu.cpu.affinity
          let finalMask := if env.ncclParamIgnoreCpuAffinity ≠ 0 then cpuMask else mask &&& cpuMask
          if finalMask ≠ 0 then
            match env.ncclCpusetToStr finalMask with
            | ncclResult_t.ncclSuccess => some (ncclResult_t.ncclSuccess, some finalMask)
            | e => some (e, some finalMask)
          else some (ncclResult_t.ncclSuccess, some finalMask)

/-- `ncclTopoGetCompCap(system, &ccMin, &ccMax)` with both pointers non-null: the result code
with the pair stored in `*ccMin` and `*ccMax`. -/
def ncclTopoGetCompCap (system : ncclTopoSystem) : Except ncclResult_t (Int × Int) :=
  match system.gpuNodes with
  | [] => Except.error ncclResult_t.ncclInternalError
  | g0 :: rest =>
    Except.ok (rest.foldl
      (fun (m : Int × Int) g => (min m.1 g.gpu.cudaCompCap, max m.2 g.gpu.cudaCompCap))
      (g0.gpu.cudaCompCap, g0.gpu.cudaCompCap))

/-- The hop count of the path from a GPU to Processor `c` (0 when there is no entry). -/
def hopsToCpu (gpu : ncclTopoNode) (c : Nat) : Int :=
  match pathToCpu gpu c with
  | some p => p.count
  | none => 0

/-- Processor `c` is the lowest-index Processor among those with the minimum hop count from
the GPU, out of `n` Processors. -/
def ClosestCpu (gpu : ncclTopoNode) (n c : Nat) : Prop :=
  c < n ∧ (∀ d, d < n → hopsToCpu gpu c ≤ hopsToCpu gpu d) ∧
    ∀ d, d < c → hopsToCpu gpu c < hopsToCpu gpu d

/-- Every processor of the first mask is in the second. -/
def MaskSubset (a b : Nat) : Prop := ∀ i, a.testBit i = true → b.testBit i = true

/-! ## Reduction-op handles and the intra-process barrier (`comm.h`) -/

/-- Constants of `nccl.h`, which is outside the sources: the number of built-in reduction
ops and the largest value of `ncclRedOp_t`. -/
structure RedOpHeader where
  ncclNumOps : Int
  ncclMaxRedOp : Int

/-- The conversion `int(h)` of a value below `2^32`. -/
def toInt32 (h : Nat) : Int :=
  if h % 2 ^ 32 < 2 ^ 31 then ((h % 2 ^ 32 : Nat) : Int) else ((h % 2 ^ 32 : Nat) : Int) - 2 ^ 32

/-- The 32-bit hash of the communicator address in `ncclUserRedOpMangle`, masked with
`int(ncclMaxRedOp)` (converted to `uint64_t`). -/
def redOpHash (c : RedOpHeader) (comm : Nat) : Nat :=
  let h0 := comm % 2 ^ 64
  let h1 := h0 ^^^ (h0 >>> 32)
  let h2 := (h1 * 0x9e3779b97f4a7c13) % 2 ^ 64
  let h3 := h2 >>> 32
  h3 &&& (c.ncclMaxRedOp % 2 ^ 64).toNat

/-- `ncclUserRedOpMangle(comm, op)` on the address of the communicator and `int(op)`. -/
def ncclUserRedOpMangle (c : RedOpHeader) (comm : Nat) (op : Int) : Int :=
  if op < c.ncclNumOps then op
  else
    let op1 := Int.xor (toInt32 (redOpHash c comm)) op
    if op1 < c.ncclNumOps then op else op1

/-- The members of `struct ncclComm` that the intra-process barrier uses. `intraComm0` is a
pointer to a communicator, given as its index in the list of communicators of the process. -/
structure ncclComm where
  intraComm0 : Nat
  intraRanks : Int
  intraBarrierPhase : Nat
  intraBarrierCounter : Nat
  intraBarrierGate : Nat
  deriving DecidableEq, Repr

/-- The store to the gate in `ncclCommIntraBarrierIn`: `high | (phase^1)` as a `uint64_t`, with
`phase` the `int` copy of `intraBarrierPhase`. -/
def barrierGate (high : Nat) (phase : Nat) : Nat :=
  (high % 2 ^ 64) ||| ((Int.xor (toInt32 phase) 1) % (2 ^ 64 : Int)).toNat

/-- The value `(uint64_t(x)<<32)` of `ncclCommIntraBarrierIn` for a `uint32_t x`. -/
def barrierShift (x : Nat) : Nat := ((x % 2 ^ 32) * 2 ^ 32) % 2 ^ 64

/-- `ncclCommIntraBarrierIn(comm, x)` on the communicators of the process, as one step (the two
stores of the last arrival follow its atomic addition, and no other addition of the round can
come between them). `none` when a pointer refers to no communicator. -/
def ncclCommIntraBarrierIn (mem : List ncclComm) (comm : Nat) (x : Nat) :
    Option (List ncclComm) :=
  match mem[comm]? with
  | none => none
  | some c =>
    if c.intraRanks = 1 then
      some (mem.set comm
        { c with intraBarrierGate := barrierGate (barrierShift x) c.intraBarrierPhase })
    else
      match mem[c.intraComm0]? with
      | none => none
      | some c0 =>
        let count := (c0.intraBarrierCounter + (barrierShift x + 1)) % 2 ^ 64
        if count % 2 ^ 32 = (c.intraRanks % (2 ^ 32 : Int)).toNat then
          some (mem.set c.intraComm0
            { c0 with intraBarrierCounter := 0,
                      intraBarrierGate :=
                        barrierGate (count / 2 ^ 32 * 2 ^ 32) c.intraBarrierPhase })
        else some (mem.set c.intraComm0 { c0 with intraBarrierCounter := count })

/-- `ncclCommIntraBarrierOut(comm)`: the value returned and the communicators afterwards.
`none` when a pointer refers to no communicator, and when the gate does not show the new phase:
the function then spins until another thread stores to the gate. -/
def ncclCommIntraBarrierOut (mem : List ncclComm) (comm : Nat) :
    Option (Nat × List ncclComm) :=
  match mem[comm]? with
  | none => none
  | some c =>
    let phase := (c.intraBarrierPhase ^^^ 1) % 2 ^ 32
    let mem1 := mem.set comm { c with intraBarrierPhase := phase }
    match mem1[c.intraComm0]? with
    | none => none
    | some c0 =>
      if c0.intraBarrierGate % 2 ≠ phase then none
      else some ((c0.intraBarrierGate / 2 ^ 32) % 2 ^ 32, mem1)

/-- The calls `ncclCommIntraBarrierOut(comm_i)` one after the other: the values returned, in
this order, and the communicators afterwards. -/
def barrierLeave (mem : List ncclComm) : List Nat → Option (List Nat × List ncclComm)
  | [] => some ([], mem)
  | i :: rest =>
    match ncclCommIntraBarrierOut mem i with
    | none => none
    | some (v, m) => (barrierLeave m rest).map (fun r => (v :: r.1, r.2))

/-- The calls `ncclCommIntraBarrierIn(comm_i, x_i)` of a round, in the order of their atomic
additions. -/
def barrierRound (mem : List ncclComm) (calls : List (Nat × Nat)) : Option (List ncclComm) :=
  calls.foldlM (fun m c => ncclCommIntraBarrierIn m c.1 c.2) mem

/-! ## The system-call check of `checks.h` -/

/-- The values of `errno` that `SYSCHECKSYNC` retries on (`errno.h`). -/
structure ErrnoHeader where
  EINTR : Int
  EWOULDBLOCK : Int
  EAGAIN : Int

/-- What one issue of a system call leaves: the value returned, `errno`, and the mask stored
through the buffer argument. -/
structure SysOutcome where
  retval : Int
  errno : Int
  mask : Nat
  deriving DecidableEq, Repr

/-- The test `retval == -1 && (errno == EINTR || errno == EWOULDBLOCK || errno == EAGAIN)` of
`SYSCHECKSYNC`. -/
def sysRetry (e : ErrnoHeader) (o : SysOutcome) : Bool :=
  decide (o.retval = -1) &&
    (decide (o.errno = e.EINTR) || decide (o.errno = e.EWOULDBLOCK) || decide (o.errno = e.EAGAIN))

/-- The loop `SYSCHECKSYNC(call, name, retval)` over the outcomes of the successive issues of
the call, after `issued` issues: the outcome that ends the loop and the number of issues made.
`none` when every outcome given is retried (the loop goes on). -/
def SYSCHECKSYNC (e : ErrnoHeader) : List SysOutcome → Nat → Option (SysOutcome × Nat)
  | [], _ => none
  | o :: rest, issued =>
    if sysRetry e o then SYSCHECKSYNC e rest (issued + 1) else some (o, issued + 1)

/-- `ncclTopoGetCpuAffinity(system, rank, affinity)` with the loop of `SYSCHECK` around
`sched_getaffinity` spelled out over the outcomes of its successive issues: the result of the
function and the number of issues of the system call. The member `sched_getaffinity` of `env`
is not used. -/
def ncclTopoGetCpuAffinitySys (e : ErrnoHeader) (env : AffinityEnv) (outcomes : List SysOutcome)
    (system : ncclTopoSystem) (rank : Int) : Option ((ncclResult_t × Option Nat) × Nat) :=
  match cpuScan system rank system.gpuNodes none with
  | none => none
  | some none => some ((ncclResult_t.ncclInternalError, none), 0)
  | some (some _) =>
    match SYSCHECKSYNC e outcomes 0 with
    | none => none
    | some (o, issued) =>
      (ncclTopoGetCpuAffinity
        { env with sched_getaffinity := if o.retval = -1 then none else some o.mask }
        system rank).map (fun r => (r, issued))

/-- The communicators of an intra-process group of `n` ranks led by the first one, all at phase
`p`, with the counter of the leader at `v`. -/
def BarrierGroup (n p v : Nat) (st : List ncclComm) : Prop :=
  st.length = n ∧
    (∀ c ∈ st, c.intraComm0 = 0 ∧ c.intraRanks = (n : Int) ∧ c.intraBarrierPhase = p) ∧
    ∃ c0, st[0]? = some c0 ∧ c0.intraBarrierCounter = v

/-- The group after the last arrival: the counter is back at 0 and the gate holds `a` and the
flipped phase bit. -/
def BarrierOpen (n p a : Nat) (st : List ncclComm) : Prop :=
  st.length = n ∧
    (∀ c ∈ st, c.intraComm0 = 0 ∧ c.intraRanks = (n : Int) ∧ c.intraBarrierPhase = p) ∧
    ∃ c0, st[0]? = some c0 ∧ c0.intraBarrierGate = a * 2 ^ 32 + (1 - p)

/-- The group while its members leave the barrier: the gate holds `a` and the flipped phase
bit, the members of `done` have flipped their phase and the others have not. -/
def BarrierLeaving (n p a : Nat) (done : List Nat) (st : List ncclComm) : Prop :=
  st.length = n ∧ (∀ c ∈ st, c.intraComm0 = 0) ∧
    (∃ c0, st[0]? = some c0 ∧ c0.intraBarrierGate = a * 2 ^ 32 + (1 - p)) ∧
    ∀ (i : Nat) (c : ncclComm), st[i]? = some c →
      c.intraBarrierPhase = if i ∈ done then 1 - p else p

/-! ## Further scans and measures of the topology -/

/-- The architecture and vendor constants of `topo.h` name different values, and
`NCCL_TOPO_UNDEF` is none of them. -/
def DistinctCpuConstants (h : TopoHeader) : Prop :=
  h.NCCL_TOPO_CPU_ARCH_X86 ≠ h.NCCL_TOPO_CPU_ARCH_POWER ∧
  h.NCCL_TOPO_CPU_ARCH_X86 ≠ h.NCCL_TOPO_CPU_ARCH_ARM ∧
  h.NCCL_TOPO_CPU_ARCH_POWER ≠ h.NCCL_TOPO_CPU_ARCH_ARM ∧
  h.NCCL_TOPO_CPU_VENDOR_INTEL ≠ h.NCCL_TOPO_CPU_VENDOR_AMD ∧
  h.NCCL_TOPO_CPU_VENDOR_INTEL ≠ h.NCCL_TOPO_CPU_VENDOR_ZHAOXIN ∧
  h.NCCL_TOPO_CPU_VENDOR_AMD ≠ h.NCCL_TOPO_CPU_VENDOR_ZHAOXIN ∧
  h.NCCL_TOPO_UNDEF ≠ h.NCCL_TOPO_CPU_ARCH_X86 ∧
  h.NCCL_TOPO_UNDEF ≠ h.NCCL_TOPO_CPU_ARCH_POWER ∧
  h.NCCL_TOPO_UNDEF ≠ h.NCCL_TOPO_CPU_ARCH_ARM ∧
  h.NCCL_TOPO_UNDEF ≠ h.NCCL_TOPO_CPU_VENDOR_INTEL ∧
  h.NCCL_TOPO_UNDEF ≠ h.NCCL_TOPO_CPU_VENDOR_ZHAOXIN

/-- The two outer loops of `ncclTopoGetCpuAffinity` over the GPU nodes from index `g` on, with
both pointers: `gpu` as the index of the node it points to and `cpu` as in `cpuScan` (`none`
is `NULL`). Every GPU whose first `nRanksPerGpu` ranks contain `rank` overwrites both. -/
def affinityScan (system : ncclTopoSystem) (rank : Int) :
    List ncclTopoNode → Nat → Option Nat × Option Int → Option (Option Nat × Option Int)
  | [], _, st => some st
  | gpu :: rest, g, st =>
    if gpuHasRank gpu rank then
      match closerCpuScan gpu (List.range (system.count NodeType.CPU)) (-1, 0) with
      | none => none
      | some c => affinityScan system rank rest (g + 1) (some g, some c.1)
    else affinityScan system rank rest (g + 1) st

/-- The number of PCI nodes whose signature passes the test of
`ncclTopoFlattenBcmSwitches`. -/
def matchingCount (s : ncclTopoSystem) : Nat :=
  (s.pciNodes.filter (fun n => isBcmGen4 n.pci.device)).length

/-! ## Path computation -/

/-- What the builder establishes about the links of every node besides their symmetry: at most
one live link of a kind between two nodes, and no link from a node that is not a GPU to
itself. -/
def SimpleLinks (s : ncclTopoSystem) : Prop :=
  (∀ a b t, (linksFrom s a b t).length ≤ 1) ∧
  ∀ a n, a.type ≠ NodeType.GPU → s.node? a = some n → ∀ l ∈ n.links, l.remNode ≠ a

/-- The test `remNode->links[rl].remNode == sub` of the flattening pass. -/
def goesTo (r : NodeRef) (l : ncclTopoLink) : Bool := decide (l.remNode = r)

/-- Every link to `sub` redirected to `pciSwitch`. -/
def redirectAll (sub pciSwitch : NodeRef) (l : ncclTopoLink) : ncclTopoLink :=
  if l.remNode = sub then redirectLink pciSwitch l else l

/-- The pair of the switch `p` being flattened and a PCI node whose id is among the saved ids
`todo` of the sub switches still to fuse: the links from `p` to such a node are removed before
the node is fused. -/
def Pending (s : ncclTopoSystem) (p : NodeRef) (todo : List Int) (a b : NodeRef) : Prop :=
  a = p ∧ b.type = NodeType.PCI ∧ ∃ n, s.node? b = some n ∧ n.id ∈ todo

/-- Apart from fabric links between two GPUs and the pairs `E` sets aside, node `a` has as
many live links of kind `t` to `b` as `b` has to `a`. -/
def BalancedLinks (s : ncclTopoSystem) (E : NodeRef → NodeRef → Prop) : Prop :=
  ∀ a b t, ¬ GpuFabric a b t → ¬ E a b → ¬ E b a →
    (linksFrom s a b t).length = (linksFrom s b a t).length

/-- No pair is set aside. -/
def NoPair (_a _b : NodeRef) : Prop := False

/-- No PCI node has a live link to itself. -/
def NoPciSelf (s : ncclTopoSystem) : Prop :=
  ∀ a n, a.type = NodeType.PCI → s.node? a = some n → ∀ l ∈ n.live, l.remNode ≠ a

/-- The bookkeeping of the loop "Connect all sub PCI devices to the parent switch": a node
other than the parent switch has lost one link to the sub switch `c` for every handled link
of the sub switch that goes to it, as long as it had one. -/
def SpliceCount (s0 : ncclTopoSystem) (p c : NodeRef) (seen : List ncclTopoLink)
    (s : ncclTopoSystem) : Prop :=
  ∀ r, r ≠ p → ∀ n n1, s0.node? r = some n → s.node? r = some n1 →
    n1.live.countP (goesTo c) = n.live.countP (goesTo c) - seen.countP (goesTo r)

/-- What the outer loop of `ncclTopoFlattenBcmSwitches` keeps: live links go to nodes of the
system, PCI ids are pairwise distinct, links are balanced, and no PCI node is linked to
itself. -/
structure FlatInv (s : ncclTopoSystem) : Prop where
  good : WeakGood s
  ids : ((pciKeys s).map Prod.fst).Nodup
  balanced : BalancedLinks s NoPair
  noSelf : NoPciSelf s

/-- The state of the loop over the saved ids of sub switches for the switch at PCI index `i`,
with the ids `todo` still to handle: the nodes with these ids lie behind the switch in the
array, and links are balanced apart from the pairs of the switch and a node still to fuse. -/
structure FusePending (i : Nat) (todo : List Int) (s : ncclTopoSystem) : Prop where
  good : WeakGood s
  ids : ((pciKeys s).map Prod.fst).Nodup
  above : ∀ j kd, (pciKeys s)[j]? = some kd → kd.1 ∈ todo → i < j
  parent : s.valid { type := NodeType.PCI, index := i }
  balanced : BalancedLinks s (Pending s { type := NodeType.PCI, index := i } todo)
  noSelf : NoPciSelf s

/-- The number of written link slots of a node behind its count `nlinks`. -/
def staleSlots (n : ncclTopoNode) : Int := (n.links.length : Int) - (n.nlinks : Int)

/-- Two systems whose nodes agree, pointer by pointer, in the number of written slots behind
`nlinks`. -/
def SameSlots (s1 s : ncclTopoSystem) : Prop :=
  ∀ r, (s1.node? r).map staleSlots = (s.node? r).map staleSlots

/-! ## Sample data -/

/-- A GPU node as `ncclTopoCreateNode` leaves it when `LOC_WIDTH` is 5000. -/
def sampleGpuNode : ncclTopoNode :=
  { type := NodeType.GPU, id := 4096, nlinks := 1,
    links := [{ type := LINK_LOC, width := 5000, remNode := { type := NodeType.GPU, index := 0 } }] }

/-- Three calls, two of them naming the same processor with the same kind. -/
def sampleCalls : List (NodeRef × Nat × ℚ) :=
  [({ type := NodeType.CPU, index := 0 }, LINK_PCI, 12),
   ({ type := NodeType.GPU, index := 1 }, LINK_NVL, 24),
   ({ type := NodeType.CPU, index := 0 }, LINK_PCI, 12)]

/-- Value of a hexadecimal digit. -/
def hexDigit (c : Char) : Option Nat :=
  let n := c.toNat
  if 48 ≤ n ∧ n ≤ 57 then some (n - 48)
  else if 97 ≤ n ∧ n ≤ 102 then some (n - 87)
  else if 65 ≤ n ∧ n ≤ 70 then some (n - 55)
  else none

/-- Value of the longest leading run of digits of a base up to 16. -/
def leadingDigits (base : Nat) : List Char → Nat → Nat
  | [], acc => acc
  | c :: cs, acc =>
    match hexDigit c with
    | some d => if d < base then leadingDigits base cs (acc * base + d) else acc
    | none => acc

/-- A reading of `strtol(str, NULL, 0)` for plain decimal and `0x` hexadecimal numerals. -/
def sampleStrtol (s : String) : Int :=
  match s.toList with
  | '-' :: cs => - (leadingDigits 10 cs 0 : Int)
  | '0' :: 'x' :: cs => (leadingDigits 16 cs 0 : Int)
  | cs => (leadingDigits 10 cs 0 : Int)

/-- A reading of `busIdToInt64`: the hexadecimal digits of a bus id, `:` and `.` skipped. -/
def sampleBusId (s : String) : Except ncclResult_t Int :=
  Except.ok (leadingDigits 16 (s.toList.filter (fun c => c != ':' && c != '.')) 0 : Int)

/-- One choice of the header constants and helpers, used for the concrete evaluations. -/
def sampleHeader : TopoHeader :=
  { NCCL_TOPO_MAX_NODES := 256
    NCCL_TOPO_UNDEF := -1
    RCCL_TOPO_MAX_RANKS_PER_GPU := 8
    MAXCHANNELS := 32
    LOC_WIDTH := 5000
    P9_WIDTH := 32
    ARM_WIDTH := 6
    QPI_WIDTH := 6
    SKL_QPI_WIDTH := 9
    ZPI_WIDTH := 6
    YONGFENG_ZPI_WIDTH := 9
    NCCL_TOPO_CPU_ARCH_X86 := 1
    NCCL_TOPO_CPU_ARCH_POWER := 2
    NCCL_TOPO_CPU_ARCH_ARM := 3
    NCCL_TOPO_CPU_VENDOR_INTEL := 1
    NCCL_TOPO_CPU_VENDOR_AMD := 2
    NCCL_TOPO_CPU_VENDOR_ZHAOXIN := 3
    NCCL_TOPO_CPU_TYPE_SKL := 2
    NCCL_TOPO_CPU_INTEL_BDW := 1
    NCCL_TOPO_CPU_TYPE_YONGFENG := 1
    NCCL_TOPO_CPU_TYPE_ROME := 2
    NCCL_TOPO_CPU_TYPE_ZEN := 1
    strtol := sampleStrtol
    atoi := sampleStrtol
    strtof := fun _ => none
    sscanfHex := fun _ => none
    busIdToInt64 := sampleBusId
    ncclStrToCpuset := fun _ => Except.ok 0
    ncclTopoXGMISpeed := fun _ => 24 }

/-- Two processors without links. -/
def sampleTwoCpus : ncclTopoSystem :=
  { cpuNodes := [{ type := NodeType.CPU, id := 0, cpu := { arch := 1, vendor := 2, model := 2 } },
                 { type := NodeType.CPU, id := 1, cpu := { arch := 1, vendor := 2, model := 2 } }] }

/-- A GPU with device index 1 owning rank 0. -/
def sampleRankedGpu : ncclTopoNode :=
  { type := NodeType.GPU, id := 4096, gpu := { dev := 1, rank := [0], nRanksPerGpu := 1 } }

/-- A Network-port with one path entry, towards GPU 0. -/
def sampleNet (id : Int) (path : ncclTopoLinkList) : ncclTopoNode :=
  { type := NodeType.NET, id := id, paths := [[path]] }

/-- One GPU and three Network-ports whose paths to it have widths 12, 12 and 6. -/
def sampleNetSystem : ncclTopoSystem :=
  { gpuNodes := [sampleRankedGpu]
    netNodes := [sampleNet 0 { count := 3, width := 12, type := 4 },
                 sampleNet 1 { count := 3, width := 12, type := 4 },
                 sampleNet 2 { count := 2, width := 6, type := 3 }] }

/-- One processor without links. -/
def sampleOneCpu : ncclTopoSystem :=
  { cpuNodes := [{ type := NodeType.CPU, id := 0, cpu := { arch := 1, vendor := 2, model := 2 } }] }

/-- A pci entry with a GPU: 16 lanes at "16 GT/s PCIe". -/
def sampleGpuEntry : ncclXmlNode :=
  ncclXmlNode.mk "pci"
    [("class", "0x030200"), ("busid", "0000:12:00.0"), ("link_width", "16"),
     ("link_speed", "16 GT/s PCIe")]
    [ncclXmlNode.mk "gpu"
      [("sm", "90"), ("gcn", "910"), ("arch", "1"), ("rank", "0"), ("dev", "0"), ("gdr", "1")] []]

/-- The system after the sample GPU entry is added below the processor. -/
def sampleGpuBelowCpu : ncclTopoSystem :=
  match addPci sampleHeader sampleGpuEntry sampleOneCpu { type := NodeType.CPU, index := 0 } with
  | Except.ok r => r.1
  | Except.error _ => {}

/-- Attributes of a PCI bridge whose composite signature matches the pattern of
`ncclTopoFlattenBcmSwitches` (class text "0x060400" selects the kind PCI). -/
def sampleBcmAttrs : List (String × String) :=
  [("class", "0x060400"), ("vendor", "0x1000"), ("device", "0xc010"),
   ("subsystem_vendor", "0x1000"), ("subsystem_device", "0xa000"),
   ("link_width", "16"), ("link_speed", "16 GT/s")]

/-- A tree with one processor; below it a matching bridge with bus id 0000:10:00.0; below
the bridge a matching bridge without children (bus id 0000:11:00.0) and a GPU on 8 lanes. -/
def sampleBcmTree : ncclXmlNode :=
  ncclXmlNode.mk "system" [("version", "1")]
    [ncclXmlNode.mk "cpu"
      [("numaid", "0"), ("arch", "x86_64"), ("vendor", "AuthenticAMD"), ("familyid", "143"),
       ("modelid", "49")]
      [ncclXmlNode.mk "pci" (("busid", "0000:10:00.0") :: sampleBcmAttrs)
        [ncclXmlNode.mk "pci" (("busid", "0000:11:00.0") :: sampleBcmAttrs) [],
         ncclXmlNode.mk "pci"
           [("class", "0x030200"), ("busid", "0000:12:00.0"), ("link_width", "8"),
            ("link_speed", "16 GT/s")]
           [ncclXmlNode.mk "gpu"
             [("sm", "90"), ("gcn", "910"), ("arch", "1"), ("rank", "0"), ("dev", "0"),
              ("gdr", "1")] []]]]]

/-- The sample bridge tree after the builder, `ncclTopoFlattenBcmSwitches` and
`ncclTopoConnectCpus`: the argument `ncclTopoGetSystemFromXml` passes to
`ncclTopoSortSystem`. -/
def sampleBcmBeforeSort : Except Failure ncclTopoSystem :=
  match buildGraph sampleHeader 10 sampleBcmTree with
  | Except.error e => Except.error e
  | Except.ok s1 =>
    match ncclTopoFlattenBcmSwitches 10 s1 with
    | Except.error e => Except.error e
    | Except.ok s2 => Except.ok (ncclTopoConnectCpus sampleHeader s2)

/-- The count `nlinks` of every PCI node and the kind, width and target of each of its slots
up to the first null slot. -/
def pciSlots (r : Except Failure ncclTopoSystem) :
    Option (List (Nat × List (Nat × ℚ × NodeRef))) :=
  r.toOption.map (fun s =>
    s.pciNodes.map (fun n => (n.nlinks, n.links.map (fun l => (l.type, l.width, l.remNode)))))

/-- A pci entry with a GPU of the given bus id, rank and device index, and the given entries
below the "gpu" node. -/
def sampleGpuPci (busid rank dev : String) (subs : List ncclXmlNode) : ncclXmlNode :=
  ncclXmlNode.mk "pci"
    [("class", "0x030200"), ("busid", busid), ("link_width", "16"), ("link_speed", "16 GT/s")]
    [ncclXmlNode.mk "gpu"
      [("sm", "90"), ("gcn", "910"), ("arch", "1"), ("rank", rank), ("dev", dev), ("gdr", "1")]
      subs]

/-- A tree with one processor, a bridge (no signature of the flattened kind) and two GPUs below
it; the first GPU declares one "xgmi" entry to the second, the second declares none. -/
def sampleXgmiTree : ncclXmlNode :=
  ncclXmlNode.mk "system" [("version", "1")]
    [ncclXmlNode.mk "cpu"
      [("numaid", "0"), ("arch", "x86_64"), ("vendor", "AuthenticAMD"), ("familyid", "143"),
       ("modelid", "49")]
      [ncclXmlNode.mk "pci"
        [("class", "0x060400"), ("busid", "0000:10:00.0"), ("vendor", "0x1022"),
         ("device", "0x1483"), ("subsystem_vendor", "0x1022"), ("subsystem_device", "0x1483"),
         ("link_width", "16"), ("link_speed", "16 GT/s")]
        [sampleGpuPci "0000:12:00.0" "0" "0"
           [ncclXmlNode.mk "xgmi"
             [("target", "0000:13:00.0"), ("count", "1"), ("tclass", "0x030200")] []],
         sampleGpuPci "0000:13:00.0" "1" "1" []]]]

/-- The graph the builder makes of the sample tree with the one-directional "xgmi" entry. -/
def sampleXgmiBuilt : ncclTopoSystem :=
  match buildGraph sampleHeader 10 sampleXgmiTree with
  | Except.ok s => s
  | Except.error _ => {}

/-- The topology `ncclTopoGetSystemFromXml` returns for the sample tree with the
one-directional "xgmi" entry. -/
def sampleXgmiSystem : ncclTopoSystem :=
  match ncclTopoGetSystemFromXml sampleHeader 10 sampleXgmiTree with
  | Except.ok s => s
  | Except.error _ => {}

/-- The graph the builder makes of the sample bridge tree. -/
def sampleBcmBuilt : ncclTopoSystem :=
  match buildGraph sampleHeader 10 sampleBcmTree with
  | Except.ok s => s
  | Except.error _ => {}

/-- The sample bridge graph after `ncclTopoFlattenBcmSwitches`. -/
def sampleBcmFlat : ncclTopoSystem :=
  match ncclTopoFlattenBcmSwitches 10 sampleBcmBuilt with
  | Except.ok s => s
  | Except.error _ => {}

/-- A tree in which two bridges declare the same bus id 0000:11:00.0: a bridge without the
matched signature directly below the processor, and the child of a matching bridge. -/
def sampleDupTree : ncclXmlNode :=
  ncclXmlNode.mk "system" [("version", "1")]
    [ncclXmlNode.mk "cpu"
      [("numaid", "0"), ("arch", "x86_64"), ("vendor", "AuthenticAMD"), ("familyid", "143"),
       ("modelid", "49")]
      [ncclXmlNode.mk "pci"
        [("class", "0x060400"), ("busid", "0000:11:00.0"), ("vendor", "0x1022"),
         ("device", "0x1483"), ("subsystem_vendor", "0x1022"), ("subsystem_device", "0x1483"),
         ("link_width", "16"), ("link_speed", "16 GT/s")] [],
       ncclXmlNode.mk "pci" (("busid", "0000:10:00.0") :: sampleBcmAttrs)
        [ncclXmlNode.mk "pci" (("busid", "0000:11:00.0") :: sampleBcmAttrs) []]]]

/-- The graph the builder makes of the tree with the repeated bus id. -/
def sampleDupBuilt : ncclTopoSystem :=
  match buildGraph sampleHeader 10 sampleDupTree with
  | Except.ok s => s
  | Except.error _ => {}

/-- The graph of the tree with the repeated bus id after `ncclTopoFlattenBcmSwitches`. -/
def sampleDupFlat : ncclTopoSystem :=
  match ncclTopoFlattenBcmSwitches 10 sampleDupBuilt with
  | Except.ok s => s
  | Except.error _ => {}

/-- The id and signature of every PCI node and whether the signature matches. -/
def pciSignatures (s : ncclTopoSystem) : List (Int × Nat × Bool) :=
  s.pciNodes.map (fun n => (n.id, n.pci.device, isBcmGen4 n.pci.device))

/-- A two-level pair: a matching bridge (bus id 0000:10:00.0) below the processor, a matching
bridge (0000:11:00.0) below it, and two GPUs below that one. -/
def sampleTwoLevelTree : ncclXmlNode :=
  ncclXmlNode.mk "system" [("version", "1")]
    [ncclXmlNode.mk "cpu"
      [("numaid", "0"), ("arch", "x86_64"), ("vendor", "AuthenticAMD"), ("familyid", "143"),
       ("modelid", "49")]
      [ncclXmlNode.mk "pci" (("busid", "0000:10:00.0") :: sampleBcmAttrs)
        [ncclXmlNode.mk "pci" (("busid", "0000:11:00.0") :: sampleBcmAttrs)
          [sampleGpuPci "0000:12:00.0" "0" "0" [], sampleGpuPci "0000:13:00.0" "1" "1" []]]]]

/-- The graph the builder makes of the two-level pair. -/
def sampleTwoLevelBuilt : ncclTopoSystem :=
  match buildGraph sampleHeader 10 sampleTwoLevelTree with
  | Except.ok s => s
  | Except.error _ => {}

/-- The PCI node at index `i`, a fresh node when there is none. -/
def pciNodeAt (s : ncclTopoSystem) (i : Nat) : ncclTopoNode :=
  match s.node? { type := NodeType.PCI, index := i } with
  | some n => n
  | none => newNode sampleHeader NodeType.PCI 0 0

/-- The two-level pair after the upper switch is flattened. -/
def sampleTwoLevelFlat : ncclTopoSystem :=
  match flattenSwitch sampleTwoLevelBuilt 0 (pciNodeAt sampleTwoLevelBuilt 0) with
  | Except.ok s => s
  | Except.error _ => {}

/-- The graph of the tree with the repeated bus id after its matching switch with a sub
switch (PCI index 1) is flattened. -/
def sampleDupFused : ncclTopoSystem :=
  match flattenSwitch sampleDupBuilt 1 (pciNodeAt sampleDupBuilt 1) with
  | Except.ok s => s
  | Except.error _ => {}

/-- The id of every PCI node with the kinds and targets of its live links. -/
def pciLinks (s : ncclTopoSystem) : List (Int × List (Nat × NodeRef)) :=
  s.pciNodes.map (fun n => (n.id, n.live.map (fun l => (l.type, l.remNode))))

/-- The live links of every GPU as kind, width and target. -/
def gpuLinks (s : ncclTopoSystem) : List (List (Nat × ℚ × NodeRef)) :=
  s.gpuNodes.map (fun n => n.live.map (fun l => (l.type, l.width, l.remNode)))

/-- A process environment: affinity mask 0b0110, no override. -/
def sampleAffinityEnv : AffinityEnv :=
  { sched_getaffinity := some 6, ncclParamIgnoreCpuAffinity := 0,
    ncclCpusetToStr := fun _ => ncclResult_t.ncclSuccess }

/-- Two Processors with masks 0b0011 and 0b1100 and one GPU owning rank 0, two hops from the
first Processor and one hop from the second. -/
def sampleAffinitySystem : ncclTopoSystem :=
  { gpuNodes := [{ type := NodeType.GPU, id := 4096,
                   gpu := { dev := 0, rank := [0], nRanksPerGpu := 1, cudaCompCap := 90 },
                   paths := [[], [], [], [{ count := 2, width := 24, type := 4 },
                                          { count := 1, width := 24, type := 4 }]] }]
    cpuNodes := [{ type := NodeType.CPU, id := 0, cpu := { affinity := 3 } },
                 { type := NodeType.CPU, id := 1, cpu := { affinity := 12 } }] }

/-- One GPU (device index 1, rank 0), one Network-port with a path of width 12 and one that
is disconnected from the GPU. -/
def sampleCutNetSystem : ncclTopoSystem :=
  { gpuNodes := [sampleRankedGpu]
    netNodes := [sampleNet 0 { count := 0, width := 0, type := PATH_DIS },
                 sampleNet 1 { count := 3, width := 12, type := 4 }] }

/-- One GPU (rank 0) and no Network-port. -/
def sampleNoNetSystem : ncclTopoSystem := { gpuNodes := [sampleRankedGpu] }

/-- A tree with one processor, a bridge on 16 lanes (no signature of the flattened kind) and
below it a GPU on 8 lanes. -/
def sampleNarrowTree : ncclXmlNode :=
  ncclXmlNode.mk "system" [("version", "1")]
    [ncclXmlNode.mk "cpu"
      [("numaid", "0"), ("arch", "x86_64"), ("vendor", "AuthenticAMD"), ("familyid", "143"),
       ("modelid", "49")]
      [ncclXmlNode.mk "pci"
        [("class", "0x060400"), ("busid", "0000:10:00.0"), ("vendor", "0x1022"),
         ("device", "0x1483"), ("subsystem_vendor", "0x1022"), ("subsystem_device", "0x1483"),
         ("link_width", "16"), ("link_speed", "16 GT/s")]
        [ncclXmlNode.mk "pci"
           [("class", "0x030200"), ("busid", "0000:12:00.0"), ("link_width", "8"),
            ("link_speed", "16 GT/s")]
           [ncclXmlNode.mk "gpu"
             [("sm", "90"), ("gcn", "910"), ("arch", "1"), ("rank", "0"), ("dev", "0"),
              ("gdr", "1")] []]]]]

/-- The graph the builder makes of the tree with the narrow GPU link. -/
def sampleNarrowBuilt : ncclTopoSystem :=
  match buildGraph sampleHeader 10 sampleNarrowTree with
  | Except.ok s => s
  | Except.error _ => {}

/-- The topology `ncclTopoGetSystemFromXml` returns for the tree with the narrow GPU link. -/
def sampleNarrowSystem : ncclTopoSystem :=
  match ncclTopoGetSystemFromXml sampleHeader 10 sampleNarrowTree with
  | Except.ok s => s
  | Except.error _ => {}

/-- A tree with two AMD processors with the given NUMA ids, each with one GPU on 16 lanes
directly below it. -/
def sampleSocketTree (numa0 numa1 : String) : ncclXmlNode :=
  ncclXmlNode.mk "system" [("version", "1")]
    [ncclXmlNode.mk "cpu"
      [("numaid", numa0), ("arch", "x86_64"), ("vendor", "AuthenticAMD"), ("familyid", "143"),
       ("modelid", "49")]
      [sampleGpuPci "0000:12:00.0" "0" "0" []],
     ncclXmlNode.mk "cpu"
      [("numaid", numa1), ("arch", "x86_64"), ("vendor", "AuthenticAMD"), ("familyid", "143"),
       ("modelid", "49")]
      [sampleGpuPci "0000:13:00.0" "1" "1" []]]

/-- The topology `ncclTopoGetSystemFromXml` returns for the two-processor tree. -/
def sampleSocketSystem (numa0 numa1 : String) : ncclTopoSystem :=
  match ncclTopoGetSystemFromXml sampleHeader 10 (sampleSocketTree numa0 numa1) with
  | Except.ok s => s
  | Except.error _ => {}

/-- The kind and the width of every live link of every node of a kind, in order. -/
def linkKinds (s : ncclTopoSystem) (t : NodeType) : List (List (Nat × ℚ)) :=
  (s.nodes t).map (fun n => n.live.map (fun l => (l.type, l.width)))

/-- A pci entry of a network device function with one Network-port. -/
def sampleNicPci (busid dev : String) : ncclXmlNode :=
  ncclXmlNode.mk "pci"
    [("class", "0x020000"), ("busid", busid), ("link_width", "16"), ("link_speed", "16 GT/s")]
    [ncclXmlNode.mk "nic" []
      [ncclXmlNode.mk "net" [("dev", dev), ("speed", "100000"), ("port", "1")] []]]

/-- A tree with one processor, two functions 0000:20:00.0 and 0000:20:00.1 of one network
device, and a "nic" entry directly below the processor. -/
def sampleNicTree : ncclXmlNode :=
  ncclXmlNode.mk "system" [("version", "1")]
    [ncclXmlNode.mk "cpu"
      [("numaid", "0"), ("arch", "x86_64"), ("vendor", "AuthenticAMD"), ("familyid", "143"),
       ("modelid", "49")]
      [sampleNicPci "0000:20:00.0" "0", sampleNicPci "0000:20:00.1" "1",
       ncclXmlNode.mk "nic" [] [ncclXmlNode.mk "net" [("dev", "2")] []]]]

/-- The topology `ncclTopoGetSystemFromXml` returns for the tree with the network devices. -/
def sampleNicSystem : ncclTopoSystem :=
  match ncclTopoGetSystemFromXml sampleHeader 10 sampleNicTree with
  | Except.ok s => s
  | Except.error _ => {}

/-- Constants as in `nccl.h`: five built-in ops and a one-byte `ncclRedOp_t`. -/
def sampleRedOps : RedOpHeader := { ncclNumOps := 5, ncclMaxRedOp := 127 }

/-- Values of `errno.h` on Linux. -/
def sampleErrno : ErrnoHeader := { EINTR := 4, EWOULDBLOCK := 11, EAGAIN := 11 }

/-- Three communicators of one process in an idle barrier, the first one the leader. -/
def sampleComms : List ncclComm :=
  List.replicate 3 { intraComm0 := 0, intraRanks := 3, intraBarrierPhase := 0,
                     intraBarrierCounter := 0, intraBarrierGate := 0 }

/-- A communicator that is alone in its process, at phase 1. -/
def sampleSoloComm : ncclComm :=
  { intraComm0 := 0, intraRanks := 1, intraBarrierPhase := 1, intraBarrierCounter := 0,
    intraBarrierGate := 0 }

/-- The graph of the tree with one bridge and two GPUs after the pass over the "cpu" nodes,
before `ncclTopoAddXGMI`. -/
def sampleXgmiBase : ncclTopoSystem :=
  match addCpus sampleHeader sampleXgmiTree.subs {} with
  | Except.ok s => s
  | Except.error _ => {}

/-- An "xgmi" entry with the given target bus id, link count and target class. -/
def sampleXgmiEntry (target count tclass : String) : ncclXmlNode :=
  ncclXmlNode.mk "xgmi" [("target", target), ("count", count), ("tclass", tclass)] []

/-- One NIC node without links. -/
def sampleOneNic : ncclTopoSystem := { nicNodes := [{ type := NodeType.NIC, id := 131072 }] }

/-- The sub nodes of a "nic" node: a port with a declared speed, a node of another name, a
"net" node without `dev`, a port without speed and a port with speed -1. -/
def sampleNetSubs : List ncclXmlNode :=
  [ncclXmlNode.mk "net" [("dev", "0"), ("speed", "100000")] [],
   ncclXmlNode.mk "other" [("dev", "7")] [],
   ncclXmlNode.mk "net" [("speed", "100000")] [],
   ncclXmlNode.mk "net" [("dev", "1")] [],
   ncclXmlNode.mk "net" [("dev", "2"), ("speed", "-1")] []]

/-- A pci entry of a bridge with the given bus id and entries below it. -/
def sampleBridgePci (busid : String) (subs : List ncclXmlNode) : ncclXmlNode :=
  ncclXmlNode.mk "pci"
    [("class", "0x060400"), ("busid", busid), ("link_width", "16"), ("link_speed", "16 GT/s")]
    subs

/-- A tree with one processor and two bridge entries whose bus ids differ in the function
number only. -/
def sampleSubFunctionTree : ncclXmlNode :=
  ncclXmlNode.mk "system" [("version", "1")]
    [ncclXmlNode.mk "cpu"
      [("numaid", "0"), ("arch", "x86_64"), ("vendor", "AuthenticAMD"), ("familyid", "143"),
       ("modelid", "49")]
      [sampleBridgePci "0000:10:00.0" [], sampleBridgePci "0000:10:00.1" []]]

/-- A Processor node with the given architecture, vendor and model. -/
def sampleCpu (arch vendor model : Int) : ncclTopoNode :=
  { type := NodeType.CPU, id := 0, cpu := { arch := arch, vendor := vendor, model := model } }

/-- A pci entry whose "gpu" sub node has no `rank` attribute. -/
def sampleRanklessPci : ncclXmlNode :=
  ncclXmlNode.mk "pci"
    [("class", "0x030200"), ("busid", "0000:12:00.0"), ("link_width", "16"),
     ("link_speed", "16 GT/s")]
    [ncclXmlNode.mk "gpu" [("sm", "90"), ("gcn", "910"), ("arch", "1"), ("dev", "0")] []]

/-- A "net" node without `dev` attribute. -/
def sampleDevlessNet : ncclXmlNode := ncclXmlNode.mk "net" [("speed", "100000")] []

/-- A "gpu" node with the given `rank` attribute. -/
def sampleGpuSub (rank : String) : ncclXmlNode :=
  ncclXmlNode.mk "gpu"
    [("sm", "90"), ("gcn", "910"), ("arch", "1"), ("rank", rank), ("dev", "0"), ("gdr", "1")] []

/-- Two Processors with masks 0b0011 and 0b1100 and two GPUs that both list rank 0: the first
is one hop from the first Processor and two from the second, the second GPU the other way
round. -/
def sampleSharedRankSystem : ncclTopoSystem :=
  { gpuNodes := [{ type := NodeType.GPU, id := 4096,
                   gpu := { dev := 0, rank := [0], nRanksPerGpu := 1, cudaCompCap := 90 },
                   paths := [[], [], [], [{ count := 1, width := 24, type := 4 },
                                          { count := 2, width := 24, type := 4 }]] },
                 { type := NodeType.GPU, id := 8192,
                   gpu := { dev := 1, rank := [0], nRanksPerGpu := 1, cudaCompCap := 90 },
                   paths := [[], [], [], [{ count := 2, width := 24, type := 4 },
                                          { count := 1, width := 24, type := 4 }]] }]
    cpuNodes := [{ type := NodeType.CPU, id := 0, cpu := { affinity := 3 } },
                 { type := NodeType.CPU, id := 1, cpu := { affinity := 12 } }] }

/-- Attributes of a PCI bridge whose signature does not match the pattern of
`ncclTopoFlattenBcmSwitches`. -/
def samplePlainBridgeAttrs : List (String × String) :=
  [("class", "0x060400"), ("vendor", "0x1022"), ("device", "0x1483"),
   ("subsystem_vendor", "0x1022"), ("subsystem_device", "0x1483"),
   ("link_width", "16"), ("link_speed", "16 GT/s")]

/-- A tree in which two bridges declare the bus id 0000:13:00.0: a bridge without the matched
signature directly below the processor, and the second child of a matching bridge
(0000:10:00.0) whose first child is a bridge without the matched signature (0000:12:00.0). -/
def sampleStaleTree : ncclXmlNode :=
  ncclXmlNode.mk "system" [("version", "1")]
    [ncclXmlNode.mk "cpu"
      [("numaid", "0"), ("arch", "x86_64"), ("vendor", "AuthenticAMD"), ("familyid", "143"),
       ("modelid", "49")]
      [ncclXmlNode.mk "pci" (("busid", "0000:13:00.0") :: samplePlainBridgeAttrs) [],
       ncclXmlNode.mk "pci" (("busid", "0000:10:00.0") :: sampleBcmAttrs)
        [ncclXmlNode.mk "pci" (("busid", "0000:12:00.0") :: samplePlainBridgeAttrs) [],
         ncclXmlNode.mk "pci" (("busid", "0000:13:00.0") :: sampleBcmAttrs) []]]]

/-- The graph the builder makes of `sampleStaleTree`. -/
def sampleStaleBuilt : ncclTopoSystem :=
  match buildGraph sampleHeader 10 sampleStaleTree with
  | Except.ok s => s
  | Except.error _ => {}

/-- The graph of `sampleStaleTree` after its matching switch at PCI index 1 is flattened. -/
def sampleStaleFused : ncclTopoSystem :=
  match flattenSwitch sampleStaleBuilt 1 (pciNodeAt sampleStaleBuilt 1) with
  | Except.ok s => s
  | Except.error _ => {}

/-- A tree in which a matching bridge and its matching child declare the same bus id. -/
def sampleSelfIdTree : ncclXmlNode :=
  ncclXmlNode.mk "system" [("version", "1")]
    [ncclXmlNode.mk "cpu"
      [("numaid", "0"), ("arch", "x86_64"), ("vendor", "AuthenticAMD"), ("familyid", "143"),
       ("modelid", "49")]
      [ncclXmlNode.mk "pci" (("busid", "0000:10:00.0") :: sampleBcmAttrs)
        [ncclXmlNode.mk "pci" (("busid", "0000:10:00.0") :: sampleBcmAttrs) []]]]

/-- The graph the builder makes of `sampleSelfIdTree`. -/
def sampleSelfIdBuilt : ncclTopoSystem :=
  match buildGraph sampleHeader 10 sampleSelfIdTree with
  | Except.ok s => s
  | Except.error _ => {}

/-- A pci entry with a GPU that declares 20000000 lanes at "16 GT/s PCIe". -/
def sampleWideGpuEntry : ncclXmlNode :=
  ncclXmlNode.mk "pci"
    [("class", "0x030200"), ("busid", "0000:12:00.0"), ("link_width", "20000000"),
     ("link_speed", "16 GT/s PCIe")]
    [ncclXmlNode.mk "gpu"
      [("sm", "90"), ("gcn", "910"), ("arch", "1"), ("rank", "0"), ("dev", "0"), ("gdr", "1")] []]

/-- The topology `ncclTopoGetSystemFromXml` returns for the two-level pair. -/
def sampleTwoLevelSystem : ncclTopoSystem :=
  match ncclTopoGetSystemFromXml sampleHeader 10 sampleTwoLevelTree with
  | Except.ok s => s
  | Except.error _ => {}

/-- The topology `ncclTopoGetSystemFromXml` returns for the tree with the repeated bus id. -/
def sampleDupSystem : ncclTopoSystem :=
  match ncclTopoGetSystemFromXml sampleHeader 10 sampleDupTree with
  | Except.ok s => s
  | Except.error _ => {}

/-- The topology `ncclTopoGetSystemFromXml` returns for the sample bridge tree. -/
def sampleBcmSystem : ncclTopoSystem :=
  match ncclTopoGetSystemFromXml sampleHeader 10 sampleBcmTree with
  | Except.ok s => s
  | Except.error _ => {}

/-! # Proofs -/

/-! ## ncclTopoConnectNodes: merging and ordering -/

theorem insertLink_nil (x : ncclTopoLink) : insertLink [] x = [x] := by
  simp [insertLink]

theorem insertLink_concat_ge (pre : List ncclTopoLink) (a x : ncclTopoLink)
    (h : a.width ≥ x.width) : insertLink (pre ++ [a]) x = pre ++ [a] ++ [x] := by
  have hp : ¬ ((fun l : ncclTopoLink => decide (l.width < x.width)) a = true) := by simpa using h
  unfold insertLink
  rw [List.rdropWhile_concat_neg (fun l : ncclTopoLink => decide (l.width < x.width)) pre a hp,
    List.rtakeWhile_concat_neg (fun l : ncclTopoLink => decide (l.width < x.width)) pre a hp]

theorem insertLink_concat_lt (pre : List ncclTopoLink) (a x : ncclTopoLink)
    (h : a.width < x.width) : insertLink (pre ++ [a]) x = insertLink pre x ++ [a] := by
  have hp : ((fun l : ncclTopoLink => decide (l.width < x.width)) a = true) := by simpa using h
  unfold insertLink
  rw [List.rdropWhile_concat_pos (fun l : ncclTopoLink => decide (l.width < x.width)) pre a hp,
    List.rtakeWhile_concat_pos (fun l : ncclTopoLink => decide (l.width < x.width)) pre a hp]
  simp

theorem sortLinks_spec (x : ncclTopoLink) (pre : List ncclTopoLink) :
    ∀ (y : ncclTopoLink) (rest : List ncclTopoLink),
      (sortLinks x.width pre.length (pre ++ y :: rest)).2.set
        (sortLinks x.width pre.length (pre ++ y :: rest)).1 x = insertLink pre x ++ rest := by
  induction pre using List.reverseRecOn with
  | nil => intro y rest; simp [sortLinks, insertLink]
  | append_singleton pre a ih =>
    intro y rest
    have hlen : (pre ++ [a]).length = pre.length + 1 := by simp
    rw [hlen]
    have hget : (pre ++ [a] ++ y :: rest)[pre.length]? = some a := by
      rw [List.append_assoc, List.getElem?_append_right (le_refl _)]
      simp
    unfold sortLinks
    simp only [hget]
    by_cases h : a.width ≥ x.width
    · simp only [h, if_true]
      rw [insertLink_concat_ge pre a x h, List.set_append_right _ _ (by simp)]
      simp
    · simp only [h, if_false]
      have hset : (pre ++ [a] ++ y :: rest).set (pre.length + 1) a = pre ++ a :: (a :: rest) := by
        rw [List.set_append_right _ _ (by simp)]
        simp
      rw [hset, ih a (a :: rest), insertLink_concat_lt pre a x (lt_of_not_ge h)]
      simp

theorem insertLink_perm (pre : List ncclTopoLink) (x : ncclTopoLink) :
    (insertLink pre x).Perm (x :: pre) := by
  induction pre using List.reverseRecOn with
  | nil => simp [insertLink_nil]
  | append_singleton pre a ih =>
    by_cases h : a.width ≥ x.width
    · rw [insertLink_concat_ge pre a x h]
      exact List.perm_append_singleton x (pre ++ [a])
    · rw [insertLink_concat_lt pre a x (lt_of_not_ge h)]
      exact (List.Perm.append_right [a] ih)

theorem insertLink_length (pre : List ncclTopoLink) (x : ncclTopoLink) :
    (insertLink pre x).length = pre.length + 1 := by
  simpa using (insertLink_perm pre x).length_eq

theorem insertLink_sorted (pre : List ncclTopoLink) (x : ncclTopoLink) (h : SortedDesc pre) :
    SortedDesc (insertLink pre x) := by
  induction pre using List.reverseRecOn with
  | nil => simp [insertLink_nil, SortedDesc]
  | append_singleton pre a ih =>
    unfold SortedDesc at h ih ⊢
    rw [List.pairwise_append] at h
    obtain ⟨hpre, -, hlast⟩ := h
    by_cases hx : a.width ≥ x.width
    · rw [insertLink_concat_ge pre a x hx, List.pairwise_append]
      refine ⟨?_, List.pairwise_singleton _ _, ?_⟩
      · rw [List.pairwise_append]
        exact ⟨hpre, List.pairwise_singleton _ _, hlast⟩
      · intro b hb c hc
        simp only [List.mem_singleton] at hc
        subst hc
        rcases List.mem_append.1 hb with hb | hb
        · exact le_trans hx (hlast b hb a (by simp))
        · simp only [List.mem_singleton] at hb
          subst hb
          exact hx
    · rw [insertLink_concat_lt pre a x (lt_of_not_ge hx), List.pairwise_append]
      refine ⟨ih hpre, List.pairwise_singleton _ _, ?_⟩
      intro b hb c hc
      simp only [List.mem_singleton] at hc
      subst hc
      rcases List.mem_cons.1 ((insertLink_perm pre x).mem_iff.1 hb) with hb | hb
      · subst hb
        exact le_of_lt (lt_of_not_ge hx)
      · exact hlast b hb c (by simp)

/-- The links of the node after `ncclTopoConnectNodes`. -/
theorem connect_links (node : ncclTopoNode) (r : NodeRef) (t : Nat) (w : ℚ) :
    (ncclTopoConnectNodes node r t w).links =
      insertLink (node.links.take (node.links.findIdx (linkIs r t)))
        { type := t, width := slotWidth node.links (node.links.findIdx (linkIs r t)) + w,
          remNode := r } ++
      node.links.drop (node.links.findIdx (linkIs r t) + 1) := by
  unfold ncclTopoConnectNodes
  simp only []
  generalize hidx : node.links.findIdx (linkIs r t) = idx
  generalize hsave : ({ type := t, width := slotWidth node.links idx + w, remNode := r } :
    ncclTopoLink) = save
  have hw : slotWidth node.links idx + w = save.width := by rw [← hsave]
  rw [hw]
  have hle : idx ≤ node.links.length := hidx ▸ List.findIdx_le_length _
  by_cases hnull : idx = node.links.length
  · have h1 : (idx == node.links.length) = true := by simp [hnull]
    simp only [h1, if_true]
    have := sortLinks_spec save node.links save []
    subst hnull
    have hd : List.drop (node.links.length + 1) node.links = [] :=
      List.drop_eq_nil_of_le (Nat.le_succ _)
    rw [hd]
    simpa using this
  · have hlt : idx < node.links.length := lt_of_le_of_ne hle hnull
    have h1 : (idx == node.links.length) = false := by simp [hnull]
    simp only [h1]
    have hset : node.links.set idx save
        = node.links.take idx ++ save :: node.links.drop (idx + 1) := by
      rw [List.set_eq_take_append_cons_drop]
      simp [hlt]
    have hl : (node.links.take idx).length = idx := by simp [le_of_lt hlt]
    have := sortLinks_spec save (node.links.take idx) save (node.links.drop (idx + 1))
    rw [hl] at this
    simpa [hset] using this

theorem connect_nlinks (node : ncclTopoNode) (r : NodeRef) (t : Nat) (w : ℚ) :
    (ncclTopoConnectNodes node r t w).nlinks =
      if node.links.findIdx (linkIs r t) = node.links.length then node.nlinks + 1
      else node.nlinks := by
  unfold ncclTopoConnectNodes
  simp

theorem filter_take_findIdx {α : Type} (p : α → Bool) (L : List α) :
    (L.take (L.findIdx p)).filter p = [] := by
  induction L with
  | nil => simp
  | cons a L ih =>
    rw [List.findIdx_cons]
    cases h : p a <;> simp [h, ih]

theorem findIdx_eq_length_iff_filter {α : Type} (p : α → Bool) (L : List α) :
    L.findIdx p = L.length ↔ L.filter p = [] := by
  rw [List.findIdx_eq_length, List.filter_eq_nil_iff]
  simp

theorem drop_findIdx {α : Type} (p : α → Bool) (L : List α) (h : L.findIdx p < L.length) :
    ∃ y, p y = true ∧ L[L.findIdx p]? = some y ∧
      L.drop (L.findIdx p) = y :: L.drop (L.findIdx p + 1) := by
  refine ⟨L[L.findIdx p], List.findIdx_getElem, by simp [h], ?_⟩
  exact List.drop_eq_getElem_cons h

/-- Decomposition of the slot array around the slot the scan stops at. -/
theorem links_split (L : List ncclTopoLink) (r : NodeRef) (t : Nat) :
    (L.findIdx (linkIs r t) = L.length ∧ linksTo L r t = [] ∧
        slotWidth L (L.findIdx (linkIs r t)) = 0 ∧
        L = L.take (L.findIdx (linkIs r t)) ∧ L.drop (L.findIdx (linkIs r t) + 1) = []) ∨
    (∃ y, linkIs r t y = true ∧ slotWidth L (L.findIdx (linkIs r t)) = y.width ∧
        L = L.take (L.findIdx (linkIs r t)) ++ y :: L.drop (L.findIdx (linkIs r t) + 1) ∧
        linksTo L r t ≠ []) := by
  by_cases h : L.findIdx (linkIs r t) = L.length
  · left
    refine ⟨h, (findIdx_eq_length_iff_filter _ _).1 h, ?_, ?_, ?_⟩
    · simp [slotWidth, h]
    · rw [h]; simp
    · rw [h]; exact List.drop_eq_nil_of_le (Nat.le_succ _)
  · right
    have hlt : L.findIdx (linkIs r t) < L.length := lt_of_le_of_ne (List.findIdx_le_length _) h
    obtain ⟨y, hy, hget, hdrop⟩ := drop_findIdx (linkIs r t) L hlt
    refine ⟨y, hy, ?_, ?_, ?_⟩
    · simp [slotWidth, hget]
    · rw [← hdrop]; simp
    · intro hnil
      exact h ((findIdx_eq_length_iff_filter _ _).2 hnil)

theorem linkIs_iff (r : NodeRef) (t : Nat) (l : ncclTopoLink) :
    linkIs r t l = true ↔ l.remNode = r ∧ l.type = t := by
  simp [linkIs]

/-- After `ncclTopoConnectNodes` the slots are a permutation of the merged link and the
other old slots. -/
theorem connect_links_perm (node : ncclTopoNode) (r : NodeRef) (t : Nat) (w : ℚ) :
    (ncclTopoConnectNodes node r t w).links.Perm
      ({ type := t, width := slotWidth node.links (node.links.findIdx (linkIs r t)) + w,
          remNode := r } ::
        (node.links.take (node.links.findIdx (linkIs r t)) ++
          node.links.drop (node.links.findIdx (linkIs r t) + 1))) := by
  rw [connect_links]
  exact (List.Perm.append_right _ (insertLink_perm _ _))

theorem linksTo_take_findIdx (L : List ncclTopoLink) (r : NodeRef) (t : Nat) :
    linksTo (L.take (L.findIdx (linkIs r t))) r t = [] :=
  filter_take_findIdx _ _

theorem linksTo_append (A B : List ncclTopoLink) (r : NodeRef) (t : Nat) :
    linksTo (A ++ B) r t = linksTo A r t ++ linksTo B r t := by
  simp [linksTo]

theorem linksTo_cons (a : ncclTopoLink) (B : List ncclTopoLink) (r : NodeRef) (t : Nat) :
    linksTo (a :: B) r t = if linkIs r t a then a :: linksTo B r t else linksTo B r t := by
  simp [linksTo, List.filter_cons]

theorem linkIs_mk (r r' : NodeRef) (t t' : Nat) (x : ℚ) :
    linkIs r' t' { type := t, width := x, remNode := r } = decide (r' = r ∧ t' = t) := by
  by_cases h1 : r = r' <;> by_cases h2 : t = t' <;> simp [linkIs, h1, h2, eq_comm]

theorem linkIs_of_linkIs (r r' : NodeRef) (t t' : Nat) (y : ncclTopoLink)
    (hy : linkIs r t y = true) : linkIs r' t' y = decide (r' = r ∧ t' = t) := by
  obtain ⟨h1, h2⟩ := (linkIs_iff r t y).1 hy
  cases y
  simp only at h1 h2
  subst h1 h2
  exact linkIs_mk _ _ _ _ _

/-- The links to a pair after one call, up to order. -/
theorem connect_linksTo_perm (node : ncclTopoNode) (r : NodeRef) (t : Nat) (w : ℚ)
    (r' : NodeRef) (t' : Nat) :
    (linksTo (ncclTopoConnectNodes node r t w).links r' t').Perm
      (if r' = r ∧ t' = t then
        { type := t, width := slotWidth node.links (node.links.findIdx (linkIs r t)) + w,
          remNode := r } :: linksTo (node.links.drop (node.links.findIdx (linkIs r t) + 1)) r t
       else linksTo node.links r' t') := by
  have hperm := (connect_links_perm node r t w).filter (linkIs r' t')
  refine hperm.trans ?_
  have hf : ∀ l, List.filter (linkIs r' t') l = linksTo l r' t' := fun _ => rfl
  rw [hf, linksTo_cons, linksTo_append, linkIs_mk]
  by_cases hk : r' = r ∧ t' = t
  · obtain ⟨rfl, rfl⟩ := hk
    simp [linksTo_take_findIdx]
  · simp only [hk, decide_False, Bool.false_eq_true, if_false]
    rcases links_split node.links r t with ⟨hidx, hnil, hw0, htake, hdrop⟩ | ⟨y, hy, hw, hL, -⟩
    · rw [hdrop, ← htake]; simp [linksTo]
    · conv_rhs => rw [hL]
      rw [linksTo_append, linksTo_cons, linkIs_of_linkIs r r' t t' y hy]
      simp [hk]

/-- Decomposition of the old links to the pair named by the call. -/
theorem linksTo_self_split (L : List ncclTopoLink) (r : NodeRef) (t : Nat) :
    (linksTo L r t = [] ∧ slotWidth L (L.findIdx (linkIs r t)) = 0 ∧
      linksTo (L.drop (L.findIdx (linkIs r t) + 1)) r t = []) ∨
    (∃ y, linkIs r t y = true ∧ slotWidth L (L.findIdx (linkIs r t)) = y.width ∧
      linksTo L r t = y :: linksTo (L.drop (L.findIdx (linkIs r t) + 1)) r t) := by
  rcases links_split L r t with ⟨hidx, hnil, hw0, htake, hdrop⟩ | ⟨y, hy, hw, hL, -⟩
  · left; exact ⟨hnil, hw0, by rw [hdrop]; rfl⟩
  · right
    refine ⟨y, hy, hw, ?_⟩
    conv_lhs => rw [hL]
    rw [linksTo_append, linksTo_cons, linksTo_take_findIdx]
    simp [hy]

/-- Width bookkeeping of one call. -/
theorem connect_widthTo (node : ncclTopoNode) (r : NodeRef) (t : Nat) (w : ℚ)
    (r' : NodeRef) (t' : Nat) :
    widthTo (ncclTopoConnectNodes node r t w).links r' t' =
      widthTo node.links r' t' + (if r' = r ∧ t' = t then w else 0) := by
  have hsum := ((connect_linksTo_perm node r t w r' t').map (fun l => l.width)).sum_eq
  unfold widthTo
  rw [hsum]
  by_cases hk : r' = r ∧ t' = t
  · obtain ⟨rfl, rfl⟩ := hk
    simp only [and_self, if_true]
    rcases linksTo_self_split node.links r' t' with ⟨h1, h2, h3⟩ | ⟨y, hy, h2, h3⟩
    · rw [h1, h2, h3]; simp
    · rw [h2, h3]; simp; ring
  · simp [hk]

/-- Link count bookkeeping of one call. -/
theorem connect_countTo (node : ncclTopoNode) (r : NodeRef) (t : Nat) (w : ℚ)
    (r' : NodeRef) (t' : Nat) :
    (linksTo (ncclTopoConnectNodes node r t w).links r' t').length =
      if (r' = r ∧ t' = t) ∧ linksTo node.links r t = [] then 1
      else (linksTo node.links r' t').length := by
  rw [(connect_linksTo_perm node r t w r' t').length_eq]
  by_cases hk : r' = r ∧ t' = t
  · obtain ⟨rfl, rfl⟩ := hk
    simp only [and_self, if_true, true_and]
    rcases linksTo_self_split node.links r' t' with ⟨h1, h2, h3⟩ | ⟨y, hy, h2, h3⟩
    · rw [h1, h3]; simp
    · rw [h3]; simp
  · simp [hk]

/-- Slot count bookkeeping of one call. -/
theorem connect_length (node : ncclTopoNode) (r : NodeRef) (t : Nat) (w : ℚ) :
    (ncclTopoConnectNodes node r t w).links.length =
      if linksTo node.links r t = [] then node.links.length + 1 else node.links.length := by
  rw [(connect_links_perm node r t w).length_eq]
  rcases links_split node.links r t with ⟨hidx, hnil, hw0, htake, hdrop⟩ | ⟨y, hy, hw, hL, hne⟩
  · rw [hdrop, ← htake]; simp [hnil]
  · simp only [hne, if_false]
    conv_rhs => rw [hL]
    simp only [List.length_cons, List.length_append]
    omega

theorem connect_nlinks' (node : ncclTopoNode) (r : NodeRef) (t : Nat) (w : ℚ) :
    (ncclTopoConnectNodes node r t w).nlinks =
      if linksTo node.links r t = [] then node.nlinks + 1 else node.nlinks := by
  rw [connect_nlinks]
  simp only [findIdx_eq_length_iff_filter]
  rfl

theorem live_of_wf (node : ncclTopoNode) (h : node.nlinks = node.links.length) :
    node.live = node.links := by
  simp [ncclTopoNode.live, h]

theorem connect_wf (node : ncclTopoNode) (r : NodeRef) (t : Nat) (w : ℚ)
    (h : node.nlinks = node.links.length) :
    (ncclTopoConnectNodes node r t w).nlinks = (ncclTopoConnectNodes node r t w).links.length := by
  rw [connect_nlinks', connect_length, h]

/-- One call keeps a sorted slot array sorted when the added width is not negative. -/
theorem connect_sorted_links (node : ncclTopoNode) (r : NodeRef) (t : Nat) (w : ℚ)
    (hs : SortedDesc node.links) (hw : 0 ≤ w) :
    SortedDesc (ncclTopoConnectNodes node r t w).links := by
  rw [connect_links]
  rcases links_split node.links r t with ⟨hidx, hnil, hw0, htake, hdrop⟩ | ⟨y, hy, hwy, hL, -⟩
  · rw [hdrop, ← htake, List.append_nil]
    exact insertLink_sorted _ _ hs
  · rw [hwy]
    unfold SortedDesc at hs ⊢
    rw [hL, List.pairwise_append] at hs
    obtain ⟨h1, h2, h3⟩ := hs
    rw [List.pairwise_cons] at h2
    rw [List.pairwise_append]
    refine ⟨insertLink_sorted _ _ h1, h2.2, ?_⟩
    intro a ha b hb
    rcases List.mem_cons.1 ((insertLink_perm _ _).mem_iff.1 ha) with ha | ha
    · subst ha
      have := h2.1 b hb
      simp only [ge_iff_le] at this ⊢
      linarith
    · exact h3 a ha b (List.mem_cons_of_mem _ hb)

theorem connectAll_cons (node : ncclTopoNode) (c : NodeRef × Nat × ℚ)
    (cs : List (NodeRef × Nat × ℚ)) :
    connectAll node (c :: cs) = connectAll (ncclTopoConnectNodes node c.1 c.2.1 c.2.2) cs := rfl

theorem connectAll_wf (calls : List (NodeRef × Nat × ℚ)) :
    ∀ node : ncclTopoNode, node.nlinks = node.links.length →
      (connectAll node calls).nlinks = (connectAll node calls).links.length := by
  induction calls with
  | nil => intro node h; exact h
  | cons c cs ih => intro node h; rw [connectAll_cons]; exact ih _ (connect_wf _ _ _ _ h)

theorem connectAll_widthTo (calls : List (NodeRef × Nat × ℚ)) (r : NodeRef) (t : Nat) :
    ∀ node : ncclTopoNode,
      widthTo (connectAll node calls).links r t =
        widthTo node.links r t + (callWidths calls r t).sum := by
  induction calls with
  | nil => intro node; simp [connectAll, callWidths]
  | cons c cs ih =>
    intro node
    rw [connectAll_cons, ih, connect_widthTo]
    by_cases hk : r = c.1 ∧ t = c.2.1
    · obtain ⟨h1, h2⟩ := hk
      simp [callWidths, List.filter_cons, h1, h2]
      ring
    · have : (decide (c.1 = r) && decide (c.2.1 = t)) = false := by
        simp only [Bool.and_eq_false_imp, decide_eq_true_eq, decide_eq_false_iff_not]
        intro h1 h2; exact hk ⟨h1.symm, h2.symm⟩
      simp [callWidths, List.filter_cons, this, hk]

theorem connectAll_count_le (calls : List (NodeRef × Nat × ℚ)) :
    ∀ node : ncclTopoNode, (∀ r t, (linksTo node.links r t).length ≤ 1) →
      ∀ r t, (linksTo (connectAll node calls).links r t).length ≤ 1 := by
  induction calls with
  | nil => intro node h; exact h
  | cons c cs ih =>
    intro node h
    rw [connectAll_cons]
    apply ih
    intro r t
    rw [connect_countTo]
    split_ifs
    · exact le_refl _
    · exact h r t

theorem connect_absent_iff (node : ncclTopoNode) (r : NodeRef) (t : Nat) (w : ℚ)
    (k : NodeRef × Nat) :
    linksTo (ncclTopoConnectNodes node r t w).links k.1 k.2 = [] ↔
      linksTo node.links k.1 k.2 = [] ∧ k ≠ (r, t) := by
  rw [← List.length_eq_zero, connect_countTo]
  by_cases hk : k.1 = r ∧ k.2 = t
  · have hk' : k = (r, t) := Prod.ext hk.1 hk.2
    by_cases hx : linksTo node.links r t = []
    · simp [hk, hx, hk']
    · subst hk'
      simp [hx]
  · have hk' : k ≠ (r, t) := fun h => hk (by rw [h]; exact ⟨rfl, rfl⟩)
    simp [hk, hk']

theorem connectAll_count_pos (calls : List (NodeRef × Nat × ℚ)) (r : NodeRef) (t : Nat) :
    ∀ node : ncclTopoNode, (linksTo node.links r t ≠ [] ∨ callWidths calls r t ≠ []) →
      linksTo (connectAll node calls).links r t ≠ [] := by
  induction calls with
  | nil =>
    intro node h
    rcases h with h | h
    · exact h
    · exact absurd rfl h
  | cons c cs ih =>
    intro node h
    rw [connectAll_cons]
    apply ih
    by_cases hk : (r, t) = (c.1, c.2.1)
    · left
      intro hnil
      exact ((connect_absent_iff node c.1 c.2.1 c.2.2 (r, t)).1 hnil).2 hk
    · rcases h with h | h
      · left
        intro hnil
        exact h ((connect_absent_iff node c.1 c.2.1 c.2.2 (r, t)).1 hnil).1
      · right
        have hc : (decide (c.1 = r) && decide (c.2.1 = t)) = false := by
          simp only [Bool.and_eq_false_imp, decide_eq_true_eq, decide_eq_false_iff_not]
          intro h1 h2; exact hk (by rw [h1, h2])
        simpa [callWidths, List.filter_cons, hc] using h

theorem newPairs_cons (links : List ncclTopoLink) (c : NodeRef × Nat × ℚ)
    (cs : List (NodeRef × Nat × ℚ)) (n1 : List ncclTopoLink)
    (h1 : ∀ k : NodeRef × Nat, linksTo n1 k.1 k.2 = [] ↔
      linksTo links k.1 k.2 = [] ∧ k ≠ (c.1, c.2.1)) :
    (newPairs links (c :: cs)).card =
      (if linksTo links c.1 c.2.1 = [] then 1 else 0) + (newPairs n1 cs).card := by
  have herase : newPairs n1 cs = (newPairs links (c :: cs)).erase (c.1, c.2.1) := by
    ext k
    simp only [newPairs, Finset.mem_filter, List.mem_toFinset, List.mem_map, Finset.mem_erase,
      List.map_cons, List.toFinset_cons, Finset.mem_insert, h1 k]
    constructor
    · rintro ⟨hm, ha, hne⟩
      exact ⟨hne, Or.inr hm, ha⟩
    · rintro ⟨hne, hm | hm, ha⟩
      · exact absurd hm hne
      · exact ⟨hm, ha, hne⟩
  rw [herase]
  by_cases hx : linksTo links c.1 c.2.1 = []
  · have hmem : (c.1, c.2.1) ∈ newPairs links (c :: cs) := by
      simp [newPairs, hx]
    rw [Finset.card_erase_of_mem hmem]
    have := Finset.card_pos.2 ⟨_, hmem⟩
    simp only [hx, if_true]
    omega
  · have hmem : (c.1, c.2.1) ∉ newPairs links (c :: cs) := by
      simp [newPairs, hx]
    rw [Finset.erase_eq_of_not_mem hmem]
    simp [hx]

theorem connectAll_nlinks (calls : List (NodeRef × Nat × ℚ)) :
    ∀ node : ncclTopoNode,
      (connectAll node calls).nlinks = node.nlinks + (newPairs node.links calls).card := by
  induction calls with
  | nil => intro node; simp [connectAll, newPairs]
  | cons c cs ih =>
    intro node
    rw [connectAll_cons, ih, connect_nlinks',
      newPairs_cons node.links c cs _ (connect_absent_iff node c.1 c.2.1 c.2.2)]
    split_ifs <;> omega

theorem linksTo_eq_nil_iff (L : List ncclTopoLink) (r : NodeRef) (t : Nat) :
    linksTo L r t = [] ↔ (r, t) ∉ linkKeys L := by
  unfold linksTo linkKeys
  rw [List.filter_eq_nil_iff]
  simp only [List.mem_map, not_exists, not_and, linkIs_iff]
  constructor
  · intro h l hl heq
    have h1 := congrArg Prod.fst heq
    have h2 := congrArg Prod.snd heq
    exact h l hl h1 h2
  · intro h l hl h1 h2
    exact h l hl (by rw [h1, h2])

theorem linkKeys_nodup_iff (L : List ncclTopoLink) :
    (linkKeys L).Nodup ↔ ∀ r t, (linksTo L r t).length ≤ 1 := by
  induction L with
  | nil => simp [linkKeys, linksTo]
  | cons a L ih =>
    have hk : linkKeys (a :: L) = (a.remNode, a.type) :: linkKeys L := rfl
    rw [hk, List.nodup_cons, ih]
    constructor
    · rintro ⟨hnot, hall⟩ r t
      rw [linksTo_cons]
      by_cases ha : linkIs r t a = true
      · obtain ⟨h1, h2⟩ := (linkIs_iff r t a).1 ha
        rw [h1, h2] at hnot
        rw [if_pos ha, (linksTo_eq_nil_iff L r t).2 hnot]
        simp
      · rw [if_neg ha]; exact hall r t
    · intro h
      constructor
      · intro hmem
        have h1 := h a.remNode a.type
        rw [linksTo_cons, if_pos ((linkIs_iff _ _ _).2 ⟨rfl, rfl⟩)] at h1
        have : linksTo L a.remNode a.type ≠ [] := fun hnil =>
          (linksTo_eq_nil_iff L _ _).1 hnil hmem
        cases hx : linksTo L a.remNode a.type with
        | nil => exact this hx
        | cons b l => rw [hx] at h1; simp at h1
      · intro r t
        have h1 := h r t
        rw [linksTo_cons] at h1
        split_ifs at h1
        · exact le_trans (Nat.le_succ _) h1
        · exact h1

theorem callWidths_map (r : NodeRef) (t : Nat) (ws : List ℚ) :
    callWidths (ws.map (fun w => (r, t, w))) r t = ws := by
  induction ws with
  | nil => rfl
  | cons w ws ih =>
    simp only [callWidths, List.map_cons, List.filter_cons] at ih ⊢
    simp [ih]

theorem newPairs_map (L : List ncclTopoLink) (r : NodeRef) (t : Nat) (ws : List ℚ)
    (hne : ws ≠ []) (habs : linksTo L r t = []) :
    newPairs L (ws.map (fun w => (r, t, w))) = {(r, t)} := by
  ext k
  simp only [newPairs, Finset.mem_filter, List.mem_toFinset, List.mem_map, Finset.mem_singleton]
  constructor
  · rintro ⟨⟨c, ⟨w, _, rfl⟩, rfl⟩, _⟩
    rfl
  · rintro rfl
    obtain ⟨w, hw⟩ := List.exists_mem_of_ne_nil ws hne
    exact ⟨⟨(r, t, w), ⟨w, hw, rfl⟩, rfl⟩, habs⟩

theorem widthTo_singleton (L : List ncclTopoLink) (r : NodeRef) (t : Nat) (l : ncclTopoLink)
    (h : linksTo L r t = [l]) : widthTo L r t = l.width := by
  simp [widthTo, h]

/-- C1: on a node whose slots beyond `nlinks` are zeroed and which holds at most one link per
(remote node, link kind) pair, any sequence of `ncclTopoConnectNodes` calls leaves at most one
link per pair; every pair named by a call has exactly one link, whose width is the width it
had before (0 if it had none) plus the sum of the widths of the calls naming it; `nlinks`
grows by the number of distinct named pairs that had no link. In particular N >= 1 calls
naming one pair without a link give one link of width w1 + ... + wN and raise `nlinks`
by exactly one. -/
theorem connectNodes_merges_parallel_links (node : ncclTopoNode)
    (calls : List (NodeRef × Nat × ℚ))
    (hwf : node.nlinks = node.links.length)
    (hone : (linkKeys node.live).Nodup) :
    (linkKeys (connectAll node calls).live).Nodup ∧
    (∀ r t, callWidths calls r t ≠ [] →
      ∃ l, linksTo (connectAll node calls).live r t = [l] ∧
        l.width = widthTo node.live r t + (callWidths calls r t).sum) ∧
    (∀ r t, callWidths calls r t = [] →
      widthTo (connectAll node calls).live r t = widthTo node.live r t) ∧
    (connectAll node calls).nlinks = node.nlinks + (newPairs node.live calls).card ∧
    (∀ r t (ws : List ℚ), ws ≠ [] → linksTo node.live r t = [] →
      (connectAll node (ws.map (fun w => (r, t, w)))).nlinks = node.nlinks + 1 ∧
      ∃ l, linksTo (connectAll node (ws.map (fun w => (r, t, w)))).live r t = [l] ∧
        l.width = ws.sum) := by
  have hlive : ∀ cs, (connectAll node cs).live = (connectAll node cs).links :=
    fun cs => live_of_wf _ (connectAll_wf cs node hwf)
  have hl0 : node.live = node.links := live_of_wf node hwf
  rw [hl0] at hone ⊢
  have hle : ∀ cs r t, (linksTo (connectAll node cs).links r t).length ≤ 1 :=
    fun cs => connectAll_count_le cs node ((linkKeys_nodup_iff _).1 hone)
  have hex : ∀ cs r t, callWidths cs r t ≠ [] →
      ∃ l, linksTo (connectAll node cs).links r t = [l] ∧
        l.width = widthTo node.links r t + (callWidths cs r t).sum := by
    intro cs r t hne
    have hpos := connectAll_count_pos cs r t node (Or.inr hne)
    have h1 := hle cs r t
    obtain ⟨l, hl⟩ : ∃ l, linksTo (connectAll node cs).links r t = [l] := by
      match h : linksTo (connectAll node cs).links r t with
      | [] => exact absurd h hpos
      | [l] => exact ⟨l, rfl⟩
      | _ :: _ :: _ => rw [h] at h1; simp at h1
    refine ⟨l, hl, ?_⟩
    rw [← widthTo_singleton _ r t l hl, connectAll_widthTo]
  refine ⟨?_, ?_, ?_, ?_, ?_⟩
  · rw [hlive]; exact (linkKeys_nodup_iff _).2 (hle calls)
  · intro r t hne; rw [hlive]; exact hex calls r t hne
  · intro r t hnil; rw [hlive, connectAll_widthTo, hnil]; simp
  · exact connectAll_nlinks calls node
  · intro r t ws hne habs
    rw [hlive]
    refine ⟨?_, ?_⟩
    · rw [connectAll_nlinks, newPairs_map node.links r t ws hne habs]; simp
    · obtain ⟨l, hl, hw⟩ := hex (ws.map (fun w => (r, t, w))) r t
        (by rw [callWidths_map]; exact hne)
      refine ⟨l, hl, ?_⟩
      rw [hw, callWidths_map]
      simp [widthTo, habs]

/-- C10: on a node whose slots beyond `nlinks` are zeroed and whose links are ordered by
non-increasing width, `ncclTopoConnectNodes` with a width that is not negative leaves the
links ordered by non-increasing width, whether it adds a link or widens an existing one. -/
theorem connectNodes_keeps_width_order (node : ncclTopoNode) (remNode : NodeRef) (type : Nat)
    (width : ℚ) (hwf : node.nlinks = node.links.length) (hs : SortedDesc node.live)
    (hw : 0 ≤ width) :
    SortedDesc (ncclTopoConnectNodes node remNode type width).live := by
  rw [live_of_wf _ (connect_wf node remNode type width hwf)]
  rw [live_of_wf node hwf] at hs
  exact connect_sorted_links node remNode type width hs hw

/-! ## Node arrays -/

theorem nodes_setNodes (s : ncclTopoSystem) (t t' : NodeType) (l : List ncclTopoNode) :
    (s.setNodes t l).nodes t' = if t' = t then l else s.nodes t' := by
  cases t <;> cases t' <;> simp [ncclTopoSystem.setNodes, ncclTopoSystem.nodes]

theorem nodes_modifyNode (s : ncclTopoSystem) (r : NodeRef) (f : ncclTopoNode → ncclTopoNode)
    (t : NodeType) :
    (s.modifyNode r f).nodes t = if t = r.type then (s.nodes t).modify f r.index else s.nodes t := by
  unfold ncclTopoSystem.modifyNode
  rw [nodes_setNodes]
  by_cases h : t = r.type
  · subst h; simp
  · simp [h]

theorem count_modifyNode (s : ncclTopoSystem) (r : NodeRef) (f : ncclTopoNode → ncclTopoNode)
    (t : NodeType) : (s.modifyNode r f).count t = s.count t := by
  unfold ncclTopoSystem.count
  rw [nodes_modifyNode]
  split_ifs <;> simp

theorem node?_modifyNode (s : ncclTopoSystem) (r r' : NodeRef)
    (f : ncclTopoNode → ncclTopoNode) :
    (s.modifyNode r f).node? r' = if r' = r then (s.node? r).map f else s.node? r' := by
  unfold ncclTopoSystem.node?
  rw [nodes_modifyNode]
  by_cases h : r' = r
  · subst h; simp
  · by_cases ht : r'.type = r.type
    · have hi : r.index ≠ r'.index := by
        intro hi
        apply h
        cases r; cases r'; simp_all
      simp [h, ht, List.getElem?_modify_ne f _ hi]
    · simp [h, ht]

theorem connect_fresh_perm (node : ncclTopoNode) (r : NodeRef) (t : Nat) (w : ℚ)
    (habs : linksTo node.links r t = []) :
    (ncclTopoConnectNodes node r t w).links.Perm
      ({ type := t, width := w, remNode := r } :: node.links) := by
  refine (connect_links_perm node r t w).trans ?_
  rcases links_split node.links r t with ⟨hidx, hnil, hw0, htake, hdrop⟩ | ⟨y, hy, hw, hL, hne⟩
  · rw [hw0, hdrop, ← htake]; simp
  · exact absurd habs hne

theorem connectAll_fresh_perm (calls : List (NodeRef × Nat × ℚ)) :
    ∀ node : ncclTopoNode, (calls.map (fun c => (c.1, c.2.1))).Nodup →
      (∀ c ∈ calls, linksTo node.links c.1 c.2.1 = []) →
      (connectAll node calls).links.Perm (calls.map callLink ++ node.links) := by
  induction calls with
  | nil => intro node _ _; simp [connectAll]
  | cons c cs ih =>
    intro node hnd habs
    rw [connectAll_cons]
    rw [List.map_cons, List.nodup_cons] at hnd
    have h1 := connect_fresh_perm node c.1 c.2.1 c.2.2 (habs c (List.mem_cons_self _ _))
    have h2 := ih (ncclTopoConnectNodes node c.1 c.2.1 c.2.2) hnd.2 (by
      intro c' hc'
      rw [connect_absent_iff node c.1 c.2.1 c.2.2 (c'.1, c'.2.1)]
      refine ⟨habs c' (List.mem_cons_of_mem _ hc'), ?_⟩
      intro heq
      apply hnd.1
      rw [← heq]
      exact List.mem_map_of_mem (fun c => (c.1, c.2.1)) hc')
    refine h2.trans ?_
    refine (List.Perm.append_left _ h1).trans ?_
    simp only [List.map_cons]
    exact List.perm_middle

theorem nodes_setNodes_same (s : ncclTopoSystem) (t : NodeType) (l : List ncclTopoNode) :
    (s.setNodes t l).nodes t = l := by
  rw [nodes_setNodes]; simp

theorem nodes_setNodes_ne (s : ncclTopoSystem) (t t' : NodeType) (l : List ncclTopoNode)
    (h : t' ≠ t) : (s.setNodes t l).nodes t' = s.nodes t' := by
  rw [nodes_setNodes]; simp [h]

theorem newNode_type_id (h : TopoHeader) (type : NodeType) (id : Int) (index : Nat) :
    (newNode h type id index).type = type ∧ (newNode h type id index).id = id := by
  cases type <;> simp [newNode]

/-- C9: `ncclTopoCreateNode` returns an error exactly when the array of the requested kind
holds `NCCL_TOPO_MAX_NODES` nodes, and then the topology is unchanged and no pointer is stored;
otherwise it returns success, the array of that kind is the old one followed by one new node
with the requested kind and id (so the count grows by exactly one), the returned pointer is
that last node, and the arrays of the other kinds are unchanged. -/
theorem createNode_capacity (h : TopoHeader) (system : ncclTopoSystem) (type : NodeType)
    (id : Int) :
    ((ncclTopoCreateNode h system type id).1 ≠ ncclResult_t.ncclSuccess ↔
      system.count type = h.NCCL_TOPO_MAX_NODES) ∧
    (system.count type = h.NCCL_TOPO_MAX_NODES →
      ncclTopoCreateNode h system type id = (ncclResult_t.ncclInternalError, system, none)) ∧
    (system.count type ≠ h.NCCL_TOPO_MAX_NODES →
      (ncclTopoCreateNode h system type id).1 = ncclResult_t.ncclSuccess ∧
      (ncclTopoCreateNode h system type id).2.1.count type = system.count type + 1 ∧
      (∃ n, (ncclTopoCreateNode h system type id).2.1.nodes type = system.nodes type ++ [n] ∧
        n.type = type ∧ n.id = id) ∧
      (ncclTopoCreateNode h system type id).2.2
        = some { type := type, index := system.count type } ∧
      (∀ t, t ≠ type → (ncclTopoCreateNode h system type id).2.1.nodes t = system.nodes t)) := by
  unfold ncclTopoCreateNode
  by_cases hc : system.count type = h.NCCL_TOPO_MAX_NODES
  · simp [hc]
  · simp only [hc, if_false, ne_eq, not_true_eq_false, false_iff, not_false_eq_true,
      true_and, false_implies, forall_true_left, and_true]
    refine ⟨?_, ?_, ?_⟩
    · simp [ncclTopoSystem.count, nodes_setNodes_same]
    · exact ⟨_, nodes_setNodes_same _ _ _, (newNode_type_id h type id _).1,
        (newNode_type_id h type id _).2⟩
    · intro t ht
      exact nodes_setNodes_ne _ _ _ _ ht

/-! ## ncclTopoConnectCpus -/

theorem interCpuWidth_connect (h : TopoHeader) (node : ncclTopoNode) (r : NodeRef) (t : Nat)
    (w : ℚ) : ncclTopoGetInterCpuWidth h (ncclTopoConnectNodes node r t w)
      = ncclTopoGetInterCpuWidth h node := rfl

theorem sysCalls_connect (h : TopoHeader) (node : ncclTopoNode) (r : NodeRef) (t : Nat)
    (w : ℚ) (n : Nat) (ps : List Nat) :
    sysCalls h (ncclTopoConnectNodes node r t w) n ps = sysCalls h node n ps := rfl

theorem connectCpuPair_fold (h : TopoHeader) (n : Nat) (ps : List Nat) :
    ∀ s : ncclTopoSystem,
      (∀ r, (ps.foldl (connectCpuPair h n) s).node? r =
        if r = { type := NodeType.CPU, index := n } then
          (s.node? r).map (fun node => connectAll node (sysCalls h node n ps))
        else s.node? r) ∧
      ∀ t, (ps.foldl (connectCpuPair h n) s).count t = s.count t := by
  induction ps with
  | nil =>
    intro s
    refine ⟨?_, fun _ => rfl⟩
    intro r
    split_ifs
    · simp [sysCalls, connectAll]
    · rfl
  | cons p ps ih =>
    intro s
    rw [List.foldl_cons]
    obtain ⟨ih1, ih2⟩ := ih (connectCpuPair h n s p)
    by_cases hnp : n = p
    · have hs : connectCpuPair h n s p = s := by simp [connectCpuPair, hnp]
      rw [hs] at ih1 ih2 ⊢
      refine ⟨?_, ih2⟩
      intro r
      rw [ih1 r]
      have : sysCalls h = sysCalls h := rfl
      split_ifs
      · congr 1
        funext node
        simp [sysCalls, List.filter_cons, hnp]
      · rfl
    · cases hcpu : s.node? { type := NodeType.CPU, index := n } with
      | none =>
        have hs : connectCpuPair h n s p = s := by simp [connectCpuPair, hnp, hcpu]
        rw [hs] at ih1 ih2 ⊢
        refine ⟨?_, ih2⟩
        intro r
        rw [ih1 r]
        split_ifs with hr
        · subst hr; simp [hcpu]
        · rfl
      | some cpu =>
        have hs : connectCpuPair h n s p =
            s.modifyNode { type := NodeType.CPU, index := n }
              (fun node => ncclTopoConnectNodes node { type := NodeType.CPU, index := p }
                LINK_SYS (ncclTopoGetInterCpuWidth h cpu)) := by
          simp [connectCpuPair, hnp, hcpu, ncclTopoSystem.connect]
        rw [hs] at ih1 ih2 ⊢
        refine ⟨?_, ?_⟩
        · intro r
          rw [ih1 r, node?_modifyNode]
          split_ifs with hr
          · subst hr
            simp only [hcpu, Option.map_some']
            congr 1
            rw [sysCalls_connect]
            simp [sysCalls, List.filter_cons, hnp, connectAll]
          · rfl
        · intro t
          rw [ih2 t, count_modifyNode]

theorem connectCpus_fold (h : TopoHeader) (ns : List Nat) :
    ∀ s : ncclTopoSystem, ns.Nodup →
      (∀ r, (ns.foldl (fun s n => (List.range (s.count NodeType.CPU)).foldl
            (connectCpuPair h n) s) s).node? r =
        if r.type = NodeType.CPU ∧ r.index ∈ ns then
          (s.node? r).map (fun node => connectAll node
            (sysCalls h node r.index (List.range (s.count NodeType.CPU))))
        else s.node? r) ∧
      ∀ t, (ns.foldl (fun s n => (List.range (s.count NodeType.CPU)).foldl
            (connectCpuPair h n) s) s).count t = s.count t := by
  induction ns with
  | nil => intro s _; simp
  | cons n ns ih =>
    intro s hnd
    rw [List.nodup_cons] at hnd
    rw [List.foldl_cons]
    obtain ⟨h1, h2⟩ := connectCpuPair_fold h n (List.range (s.count NodeType.CPU)) s
    obtain ⟨ih1, ih2⟩ := ih ((List.range (s.count NodeType.CPU)).foldl (connectCpuPair h n) s) hnd.2
    refine ⟨?_, fun t => by rw [ih2 t, h2 t]⟩
    intro r
    rw [ih1 r, h2, h1 r]
    by_cases hr : r = { type := NodeType.CPU, index := n }
    · subst hr
      simp [hnd.1]
    · have hne : ¬ (r.type = NodeType.CPU ∧ r.index = n) := by
        intro hx; apply hr; cases r; simp_all
      by_cases hmem : r.type = NodeType.CPU ∧ r.index ∈ ns
      · simp [hr, hmem]
      · have : ¬ (r.type = NodeType.CPU ∧ (r.index = n ∨ r.index ∈ ns)) := by
          rintro ⟨h3, h4 | h4⟩
          · exact hne ⟨h3, h4⟩
          · exact hmem ⟨h3, h4⟩
        simp [hr, hmem, this]

theorem length_filter_ne_range (N n : Nat) (hn : n < N) :
    ((List.range N).filter (fun p => decide (n ≠ p))).length = N - 1 := by
  have h1 : (List.range N).filter (fun p => decide (n ≠ p)) = (List.range N).erase n := by
    rw [(List.nodup_range N).erase_eq_filter]
    apply List.filter_congr
    intro p _
    by_cases h : n = p
    · subst h; simp
    · have h' : p ≠ n := fun e => h e.symm
      simp [h, h']
  rw [h1, List.length_erase_of_mem (List.mem_range.2 hn)]
  simp

theorem linksTo_map_sys (ps : List Nat) (w : ℚ) (p : Nat) (hnd : ps.Nodup) :
    linksTo (ps.map (fun q => callLink ({ type := NodeType.CPU, index := q }, LINK_SYS, w)))
      { type := NodeType.CPU, index := p } LINK_SYS =
      if p ∈ ps then [{ type := LINK_SYS, width := w, remNode := { type := NodeType.CPU, index := p } }]
      else [] := by
  induction ps with
  | nil => simp [linksTo]
  | cons q ps ih =>
    rw [List.nodup_cons] at hnd
    rw [List.map_cons, linksTo_cons, ih hnd.2]
    by_cases hq : q = p
    · subst hq
      simp [callLink, linkIs, hnd.1]
    · have : p ≠ q := fun h => hq h.symm
      simp [callLink, linkIs, hq, this]

theorem linksTo_of_no_type (L : List ncclTopoLink) (r : NodeRef) (t : Nat)
    (h : ∀ l ∈ L, l.type ≠ t) : linksTo L r t = [] := by
  unfold linksTo
  rw [List.filter_eq_nil_iff]
  intro l hl hx
  exact h l hl ((linkIs_iff r t l).1 hx).2

/-- C8: on a topology whose processor nodes have zeroed slots beyond `nlinks` and no SYS link,
`ncclTopoConnectCpus` keeps every node count and every array of the other kinds, and leaves
each processor `n` with exactly one SYS link to each other processor, of the width
`ncclTopoGetInterCpuWidth` gives for `n`, with no SYS link to itself and with as many SYS links
as there are other processors (one when there are two processors). -/
theorem connectCpus_full_mesh (h : TopoHeader) (s : ncclTopoSystem)
    (hwf : ∀ cpu ∈ s.cpuNodes, cpu.nlinks = cpu.links.length)
    (hnosys : ∀ cpu ∈ s.cpuNodes, ∀ l ∈ cpu.live, l.type ≠ LINK_SYS) :
    (∀ t, (ncclTopoConnectCpus h s).count t = s.count t) ∧
    (∀ t, t ≠ NodeType.CPU → (ncclTopoConnectCpus h s).nodes t = s.nodes t) ∧
    ∀ n cpu, s.cpuNodes[n]? = some cpu →
      ∃ cpu', (ncclTopoConnectCpus h s).cpuNodes[n]? = some cpu' ∧
        (∀ p, p < s.count NodeType.CPU → p ≠ n →
          ∃ l, linksTo cpu'.live { type := NodeType.CPU, index := p } LINK_SYS = [l] ∧
            l.width = ncclTopoGetInterCpuWidth h cpu) ∧
        linksTo cpu'.live { type := NodeType.CPU, index := n } LINK_SYS = [] ∧
        (cpu'.live.filter (fun l => decide (l.type = LINK_SYS))).length
          = s.count NodeType.CPU - 1 := by
  obtain ⟨h1, h2⟩ := connectCpus_fold h (List.range (s.count NodeType.CPU)) s (List.nodup_range _)
  have h1' : ∀ r, (ncclTopoConnectCpus h s).node? r = _ := h1
  have h2' : ∀ t, (ncclTopoConnectCpus h s).count t = s.count t := h2
  refine ⟨h2', ?_, ?_⟩
  · intro t ht
    apply List.ext_getElem?
    intro i
    have := h1' { type := t, index := i }
    simp only [ht, false_and, if_false] at this
    exact this
  · intro n cpu hcpu
    have hn : n < s.count NodeType.CPU := by
      have := (List.getElem?_eq_some_iff.1 hcpu).1
      exact this
    have hnode := h1' { type := NodeType.CPU, index := n }
    have hcpu' : s.node? { type := NodeType.CPU, index := n } = some cpu := hcpu
    simp only [List.mem_range, hn, and_self, if_true, hcpu', Option.map_some'] at hnode
    refine ⟨_, hnode, ?_⟩
    have hmem : cpu ∈ s.cpuNodes := List.getElem?_mem hcpu
    have hw := hwf cpu hmem
    have hns := hnosys cpu hmem
    rw [live_of_wf cpu hw] at hns
    generalize hcalls : sysCalls h cpu n (List.range (s.count NodeType.CPU)) = calls
    have hlive := live_of_wf _ (connectAll_wf calls cpu hw)
    have hps : ((List.range (s.count NodeType.CPU)).filter (fun p => decide (n ≠ p))).Nodup :=
      (List.nodup_range _).filter _
    have hmap : calls.map callLink =
        ((List.range (s.count NodeType.CPU)).filter (fun p => decide (n ≠ p))).map
          (fun q => callLink ({ type := NodeType.CPU, index := q }, LINK_SYS,
            ncclTopoGetInterCpuWidth h cpu)) := by
      rw [← hcalls]; simp [sysCalls]
    have hperm : (connectAll cpu calls).links.Perm (calls.map callLink ++ cpu.links) := by
      apply connectAll_fresh_perm
      · rw [← hcalls]
        simp only [sysCalls, List.map_map]
        refine hps.map ?_
        intro a b hab
        simpa using hab
      · intro c hc
        rw [← hcalls] at hc
        simp only [sysCalls, List.mem_map] at hc
        obtain ⟨p, _, rfl⟩ := hc
        exact linksTo_of_no_type _ _ _ hns
    rw [hlive]
    refine ⟨?_, ?_, ?_⟩
    · intro p hp hpn
      have hp1 := hperm.filter (linkIs { type := NodeType.CPU, index := p } LINK_SYS)
      have hf : ∀ l, List.filter (linkIs { type := NodeType.CPU, index := p } LINK_SYS) l
          = linksTo l { type := NodeType.CPU, index := p } LINK_SYS := fun _ => rfl
      rw [hf, hf, linksTo_append, linksTo_of_no_type _ _ _ hns, hmap,
        linksTo_map_sys _ _ _ hps] at hp1
      have hin : p ∈ (List.range (s.count NodeType.CPU)).filter (fun p => decide (n ≠ p)) := by
        simp [hp, Ne.symm hpn]
      simp only [hin, if_true, List.append_nil] at hp1
      exact ⟨_, List.perm_singleton.1 hp1, rfl⟩
    · have hp1 := hperm.filter (linkIs { type := NodeType.CPU, index := n } LINK_SYS)
      have hf : ∀ l, List.filter (linkIs { type := NodeType.CPU, index := n } LINK_SYS) l
          = linksTo l { type := NodeType.CPU, index := n } LINK_SYS := fun _ => rfl
      rw [hf, hf, linksTo_append, linksTo_of_no_type _ _ _ hns, hmap,
        linksTo_map_sys _ _ _ hps] at hp1
      have hin : n ∉ (List.range (s.count NodeType.CPU)).filter (fun p => decide (n ≠ p)) := by
        simp
      simp only [hin, if_false, List.append_nil] at hp1
      exact List.perm_nil.1 hp1
    · rw [(hperm.filter _).length_eq, List.filter_append, List.length_append]
      have hz : (cpu.links.filter (fun l => decide (l.type = LINK_SYS))) = [] := by
        rw [List.filter_eq_nil_iff]
        intro l hl
        simpa using hns l hl
      rw [hz, hmap, List.filter_map]
      have hall : (List.filter ((fun l => decide (l.type = LINK_SYS)) ∘
          fun q => callLink ({ type := NodeType.CPU, index := q }, LINK_SYS,
            ncclTopoGetInterCpuWidth h cpu))
          ((List.range (s.count NodeType.CPU)).filter (fun p => decide (n ≠ p))))
          = (List.range (s.count NodeType.CPU)).filter (fun p => decide (n ≠ p)) := by
        rw [List.filter_eq_self]
        intro a _
        simp [callLink]
      rw [hall, List.length_map, length_filter_ne_range _ _ hn]
      simp

/-! ## ncclTopoGetLocalNet -/

theorem ties_iff (c : ncclTopoLinkList) (st : LocalNetScan) :
    ties c st = true ↔ c.width = st.maxWidth ∧ c.type = st.minType := by
  simp [ties]

theorem localNetScan_eq (g : Nat) (nets : List ncclTopoNode) :
    ∀ st, (∀ n ∈ nets, (pathToGpu n g).isSome) →
      localNetScan g nets st = some (scanPaths st (netPaths nets g)) := by
  induction nets with
  | nil => intro st _; rfl
  | cons n rest ih =>
    intro st h
    obtain ⟨p, hp⟩ := Option.isSome_iff_exists.1 (h n (List.mem_cons_self _ _))
    unfold localNetScan
    simp only [hp]
    rw [ih _ (fun m hm => h m (List.mem_cons_of_mem _ hm))]
    simp [netPaths, scanPaths, List.filterMap_cons, hp]

theorem ties_nets (c : ncclTopoLinkList) (st : LocalNetScan) (l : List Int) :
    ties c { st with nets := l } = ties c st := rfl

theorem scanInv_step (seen : List (Int × ncclTopoLinkList)) (st : LocalNetScan)
    (e : Int × ncclTopoLinkList) (hinv : ScanInv seen st) :
    ScanInv (seen ++ [e]) (localNetStep st e.1 e.2) := by
  obtain ⟨hbest, hnets, hreal⟩ := hinv
  unfold localNetStep
  by_cases hb : e.2.width > st.maxWidth ∨ (e.2.width = st.maxWidth ∧ e.2.type < st.minType)
  · simp only [hb, if_true, and_self]
    have hnone : ∀ c ∈ seen, ¬ (c.2.width = e.2.width ∧ c.2.type = e.2.type) := by
      intro c hc ⟨h1, h2⟩
      apply hbest c hc
      unfold beats
      rw [h1, h2]
      exact hb
    refine ⟨?_, ?_, ?_⟩
    · intro c hc
      unfold beats
      simp only
      rcases List.mem_append.1 hc with hc | hc
      · have := hbest c hc
        unfold beats at this
        intro hx
        apply this
        rcases hx with hx | ⟨hx1, hx2⟩
        · rcases hb with hb | ⟨hb1, hb2⟩
          · left; exact lt_trans hb hx
          · left; rw [← hb1]; exact hx
        · rcases hb with hb | ⟨hb1, hb2⟩
          · left; rw [hx1]; exact hb
          · right; exact ⟨hx1.trans hb1, lt_trans hx2 hb2⟩
      · simp only [List.mem_singleton] at hc
        subst hc
        simp
    · simp only [List.nil_append, List.filter_append, List.map_append]
      have : seen.filter (fun c => ties c.2
          { minType := e.2.type, maxWidth := e.2.width, nets := [e.1] }) = [] := by
        rw [List.filter_eq_nil_iff]
        intro c hc hx
        exact hnone c hc ((ties_iff _ _).1 hx)
      rw [this]
      simp [ties]
    · right
      exact ⟨e, by simp, by simp [ties]⟩
  · simp only [hb, if_false]
    by_cases ht : e.2.width = st.maxWidth ∧ e.2.type = st.minType
    · simp only [ht, and_self, if_true]
      have hte : ties e.2 st = true := (ties_iff _ _).2 ht
      refine ⟨?_, ?_, ?_⟩
      · intro c hc
        rcases List.mem_append.1 hc with hc | hc
        · exact hbest c hc
        · simp only [List.mem_singleton] at hc
          subst hc
          exact hb
      · simp only [ties_nets, List.filter_append, List.map_append, hnets]
        simp [List.filter_cons, hte]
      · rcases hreal with h0 | ⟨c, hc, hx⟩
        · left; exact h0
        · right; exact ⟨c, List.mem_append_left _ hc, hx⟩
    · simp only [ht, if_false]
      refine ⟨?_, ?_, ?_⟩
      · intro c hc
        rcases List.mem_append.1 hc with hc | hc
        · exact hbest c hc
        · simp only [List.mem_singleton] at hc
          subst hc
          exact hb
      · have : ties e.2 st = false := by
          simpa [ties] using ht
        simp [List.filter_append, List.filter_cons, this, hnets]
      · rcases hreal with h0 | ⟨c, hc, hx⟩
        · left; exact h0
        · right; exact ⟨c, List.mem_append_left _ hc, hx⟩

theorem scanInv_fold (paths : List (Int × ncclTopoLinkList)) :
    ∀ (seen : List (Int × ncclTopoLinkList)) (st : LocalNetScan), ScanInv seen st →
      ScanInv (seen ++ paths) (scanPaths st paths) := by
  induction paths with
  | nil => intro seen st h; simpa [scanPaths] using h
  | cons e rest ih =>
    intro seen st h
    have := ih (seen ++ [e]) _ (scanInv_step seen st e h)
    simpa [scanPaths] using this

theorem scanInv_init : ScanInv [] { minType := PATH_SYS, maxWidth := 0, nets := [] } :=
  ⟨by simp, by simp, Or.inl ⟨rfl, rfl⟩⟩

theorem bestNets_eq_of_inv (system : ncclTopoSystem) (g : Nat) (st : LocalNetScan)
    (hinv : ScanInv (netPaths system.netNodes g) st)
    (hreal : ∃ c ∈ netPaths system.netNodes g, ties c.2 st = true) :
    st.nets = bestNets system g := by
  rw [hinv.nets]
  unfold bestNets
  congr 1
  apply List.filter_congr
  intro c hc
  obtain ⟨e, he, hte⟩ := hreal
  obtain ⟨hew, het⟩ := (ties_iff _ _).1 hte
  have hbest := hinv.best
  unfold beats at hbest
  have hle : ∀ m ∈ netPaths system.netNodes g, m.2.width ≤ st.maxWidth := by
    intro m hm
    have := hbest m hm
    push_neg at this
    exact this.1
  by_cases hc1 : ties c.2 st = true
  · rw [hc1]
    obtain ⟨hcw, hct⟩ := (ties_iff _ _).1 hc1
    symm
    simp only [Bool.and_eq_true, List.all_eq_true, decide_eq_true_eq]
    refine ⟨fun m hm => by rw [hcw]; exact hle m hm, ?_⟩
    intro m hm hmw
    have := hbest m hm
    push_neg at this
    rw [hct]
    exact this.2 (hmw.trans hcw)
  · have hf : ties c.2 st = false := by simpa using hc1
    rw [hf]
    symm
    rw [Bool.and_eq_false_imp]
    intro h1
    simp only [List.all_eq_true, decide_eq_true_eq] at h1
    rw [List.all_eq_false]
    by_contra hcon
    push_neg at hcon
    apply hc1
    rw [ties_iff]
    have hcw : c.2.width = st.maxWidth :=
      le_antisymm (hle c hc) (by rw [← hew]; exact h1 e he)
    refine ⟨hcw, ?_⟩
    have h2 := hcon e he
    simp only [Bool.not_eq_true, decide_eq_false_iff_not, not_not] at h2
    have h3 := (of_decide_eq_true h2) (hew.trans hcw.symm)
    rw [het] at h3
    have h4 := hbest c hc
    push_neg at h4
    exact le_antisymm h3 (h4.2 hcw)

/-- C3: when the rank resolves to GPU `g` with device index `d >= 0`, every Network-port has a
path entry for `g` and at least one of them has positive width, `ncclTopoGetLocalNet` returns
success with the id at position `d mod k` of the `k >= 1` candidates: the Network-port ids, in
node-index order, whose path to `g` has the maximum width over all Network-ports and the
minimum tier among those of maximum width. The result is thus determined by `d` and the
candidate list alone. -/
theorem getLocalNet_picks_by_device_index (system : ncclTopoSystem) (rank : Int) (g : Nat)
    (gpu : ncclTopoNode)
    (hg : ncclTopoRankToIndex system rank = Except.ok g)
    (hgpu : system.gpuNodes[g]? = some gpu)
    (hd : 0 ≤ gpu.gpu.dev)
    (hpaths : ∀ n ∈ system.netNodes, (pathToGpu n g).isSome)
    (hpos : ∃ n ∈ system.netNodes, ∃ p, pathToGpu n g = some p ∧ 0 < p.width) :
    bestNets system g ≠ [] ∧
    ∃ id, (bestNets system g)[(gpu.gpu.dev % ((bestNets system g).length : Int)).toNat]? = some id ∧
      ncclTopoGetLocalNet system rank = some (Except.ok id) := by
  have hscan := localNetScan_eq g system.netNodes
    { minType := PATH_SYS, maxWidth := 0, nets := [] } hpaths
  have hinv := scanInv_fold (netPaths system.netNodes g) [] _ scanInv_init
  rw [List.nil_append] at hinv
  generalize hst : scanPaths { minType := PATH_SYS, maxWidth := 0, nets := [] }
    (netPaths system.netNodes g) = st at hscan hinv
  obtain ⟨n, hn, p, hp, hpw⟩ := hpos
  have hmem : (n.id, p) ∈ netPaths system.netNodes g := by
    unfold netPaths
    rw [List.mem_filterMap]
    exact ⟨n, hn, by simp [hp]⟩
  have hmw : 0 < st.maxWidth := by
    have := hinv.best _ hmem
    unfold beats at this
    push_neg at this
    exact lt_of_lt_of_le hpw this.1
  have hreal : ∃ c ∈ netPaths system.netNodes g, ties c.2 st = true := by
    rcases hinv.real with ⟨h0, -⟩ | h
    · rw [h0] at hmw; exact absurd hmw (lt_irrefl _)
    · exact h
  have hnets := bestNets_eq_of_inv system g st hinv hreal
  have hne : st.nets ≠ [] := by
    rw [hinv.nets]
    obtain ⟨c, hc, hct⟩ := hreal
    intro hnil
    have : c ∈ (netPaths system.netNodes g).filter (fun c => ties c.2 st) :=
      List.mem_filter.2 ⟨hc, hct⟩
    rw [List.map_eq_nil_iff] at hnil
    rw [hnil] at this
    exact List.not_mem_nil _ this
  rw [← hnets]
  refine ⟨hne, ?_⟩
  have hlen : 0 < st.nets.length := List.length_pos.2 hne
  have hk : (0 : Int) < (st.nets.length : Int) := by exact_mod_cast hlen
  have hmod : Int.tmod gpu.gpu.dev st.nets.length = gpu.gpu.dev % (st.nets.length : Int) :=
    Int.tmod_eq_emod hd (le_of_lt hk)
  have hnn : 0 ≤ gpu.gpu.dev % (st.nets.length : Int) := Int.emod_nonneg _ (ne_of_gt hk)
  have hlt : (gpu.gpu.dev % (st.nets.length : Int)).toNat < st.nets.length := by
    have := Int.emod_lt_of_pos gpu.gpu.dev hk
    omega
  refine ⟨st.nets[(gpu.gpu.dev % (st.nets.length : Int)).toNat], by simp [hlt], ?_⟩
  unfold ncclTopoGetLocalNet
  simp only [hg, hscan, hgpu, hmod]
  have h0 : st.nets.length ≠ 0 := ne_of_gt hlen
  simp [h0, not_lt.2 hnn, hlt]

/-- C1 at the sample node: the three sample calls add two links. -/
theorem connectNodes_merges_parallel_links_witness :
    (sampleGpuNode.nlinks = sampleGpuNode.links.length ∧ (linkKeys sampleGpuNode.live).Nodup) ∧
    (connectAll sampleGpuNode sampleCalls).nlinks
      = sampleGpuNode.nlinks + (newPairs sampleGpuNode.live sampleCalls).card :=
  ⟨⟨by decide, by decide⟩,
    (connectNodes_merges_parallel_links sampleGpuNode sampleCalls (by decide) (by decide)).2.2.2.1⟩

/-- C10 at the sample node: widening by 7 a link to a processor. -/
theorem connectNodes_keeps_width_order_witness :
    (sampleGpuNode.nlinks = sampleGpuNode.links.length ∧ SortedDesc sampleGpuNode.live ∧
      (0 : ℚ) ≤ 7) ∧
    SortedDesc (ncclTopoConnectNodes sampleGpuNode { type := NodeType.CPU, index := 0 }
      LINK_PCI 7).live :=
  ⟨⟨by decide, by simp [SortedDesc, sampleGpuNode, ncclTopoNode.live], by norm_num⟩,
    connectNodes_keeps_width_order sampleGpuNode { type := NodeType.CPU, index := 0 } LINK_PCI 7
      (by decide) (by simp [SortedDesc, sampleGpuNode, ncclTopoNode.live]) (by norm_num)⟩

/-- C8 at two processors without links. -/
theorem connectCpus_full_mesh_witness :
    ((∀ cpu ∈ sampleTwoCpus.cpuNodes, cpu.nlinks = cpu.links.length) ∧
      (∀ cpu ∈ sampleTwoCpus.cpuNodes, ∀ l ∈ cpu.live, l.type ≠ LINK_SYS)) ∧
    (∀ t, (ncclTopoConnectCpus sampleHeader sampleTwoCpus).count t = sampleTwoCpus.count t) :=
  ⟨⟨by decide, by decide⟩, (connectCpus_full_mesh sampleHeader sampleTwoCpus (by decide) (by decide)).1⟩

/-- C3 at the sample system: device index 1 picks the second of the two widest ports. -/
theorem getLocalNet_picks_by_device_index_witness :
    (ncclTopoRankToIndex sampleNetSystem 0 = Except.ok 0 ∧
      sampleNetSystem.gpuNodes[0]? = some sampleRankedGpu ∧
      (0 : Int) ≤ sampleRankedGpu.gpu.dev ∧
      (∀ n ∈ sampleNetSystem.netNodes, (pathToGpu n 0).isSome)) ∧
    ncclTopoGetLocalNet sampleNetSystem 0 = some (Except.ok 1) := by
  have h := getLocalNet_picks_by_device_index sampleNetSystem 0 0 sampleRankedGpu
    (by rfl) (by rfl) (by decide) (by decide)
    ⟨sampleNet 0 { count := 3, width := 12, type := 4 }, by simp [sampleNetSystem],
      { count := 3, width := 12, type := 4 }, by rfl, by norm_num⟩
  refine ⟨⟨by rfl, by rfl, by decide, by decide⟩, ?_⟩
  obtain ⟨-, id, hid, hres⟩ := h
  rw [hres]
  have hb : bestNets sampleNetSystem 0 = [0, 1] := by decide!
  rw [hb] at hid
  have : id = 1 := by
    have h2 : ([0, 1] : List Int)[(sampleRankedGpu.gpu.dev % (([0, 1] : List Int).length : Int)).toNat]?
        = some 1 := by decide
    rw [h2] at hid
    exact (Option.some.inj hid).symm
  rw [this]

theorem valid_iff_node? (s : ncclTopoSystem) (r : NodeRef) :
    s.valid r ↔ ∃ n, s.node? r = some n := by
  unfold ncclTopoSystem.valid ncclTopoSystem.node? ncclTopoSystem.count
  constructor
  · intro h; exact ⟨_, List.getElem?_eq_getElem h⟩
  · rintro ⟨n, hn⟩; exact (List.getElem?_eq_some_iff.1 hn).1

theorem node?_mem (s : ncclTopoSystem) (r : NodeRef) (n : ncclTopoNode)
    (h : s.node? r = some n) : n ∈ s.nodes r.type :=
  List.getElem?_mem h

theorem mem_nodes_iff (s : ncclTopoSystem) (t : NodeType) (n : ncclTopoNode) :
    n ∈ s.nodes t ↔ ∃ i, s.node? { type := t, index := i } = some n := by
  unfold ncclTopoSystem.node?
  simp only
  rw [List.mem_iff_getElem?]

theorem node?_connect (s : ncclTopoSystem) (a b r : NodeRef) (t : Nat) (w : ℚ) :
    (s.connect a b t w).node? r =
      if r = a then (s.node? a).map (fun n => ncclTopoConnectNodes n b t w) else s.node? r :=
  node?_modifyNode s a r _

theorem count_connect (s : ncclTopoSystem) (a b : NodeRef) (t : Nat) (w : ℚ) (k : NodeType) :
    (s.connect a b t w).count k = s.count k :=
  count_modifyNode s a _ k

theorem valid_modifyNode (s : ncclTopoSystem) (a r : NodeRef) (f : ncclTopoNode → ncclTopoNode) :
    (s.modifyNode a f).valid r ↔ s.valid r := by
  unfold ncclTopoSystem.valid
  rw [count_modifyNode]

theorem valid_connect (s : ncclTopoSystem) (a b r : NodeRef) (t : Nat) (w : ℚ) :
    (s.connect a b t w).valid r ↔ s.valid r :=
  valid_modifyNode s a r _

theorem createNode_ok (h : TopoHeader) (s s1 : ncclTopoSystem) (t : NodeType) (id : Int)
    (r : NodeRef) (hc : createNode h s t id = Except.ok (s1, r)) :
    r = { type := t, index := s.count t } ∧
      s1 = s.setNodes t (s.nodes t ++ [newNode h t id (s.count t)]) := by
  unfold createNode ncclTopoCreateNode at hc
  by_cases hm : s.count t = h.NCCL_TOPO_MAX_NODES
  · simp [hm] at hc
  · simp only [hm, if_false] at hc
    injection hc with hc
    injection hc with h1 h2
    exact ⟨h2.symm, h1.symm⟩

theorem createNode_count (h : TopoHeader) (s s1 : ncclTopoSystem) (t : NodeType) (id : Int)
    (r : NodeRef) (hc : createNode h s t id = Except.ok (s1, r)) (k : NodeType) :
    s1.count k = if k = t then s.count k + 1 else s.count k := by
  obtain ⟨-, rfl⟩ := createNode_ok h s s1 t id r hc
  unfold ncclTopoSystem.count
  rw [nodes_setNodes]
  by_cases hk : k = t
  · subst hk; simp
  · simp [hk]

theorem createNode_node? (h : TopoHeader) (s s1 : ncclTopoSystem) (t : NodeType) (id : Int)
    (r : NodeRef) (hc : createNode h s t id = Except.ok (s1, r)) (r' : NodeRef) :
    s1.node? r' = if r' = r then some (newNode h t id (s.count t)) else s.node? r' := by
  obtain ⟨rfl, rfl⟩ := createNode_ok h s s1 t id r hc
  unfold ncclTopoSystem.node?
  rw [nodes_setNodes]
  by_cases hr : r' = { type := t, index := s.count t }
  · subst hr
    simp [ncclTopoSystem.count]
  · by_cases ht : r'.type = t
    · have hi : r'.index ≠ s.count t := by
        intro hi; apply hr; cases r'; simp_all
      simp only [ht, if_true, hr, if_false]
      unfold ncclTopoSystem.count at hi
      rcases Nat.lt_or_gt_of_ne hi with hlt | hgt
      · rw [List.getElem?_append_left hlt]
      · rw [List.getElem?_eq_none (by simp; omega), List.getElem?_eq_none (by omega)]
    · simp [ht, hr]

theorem createNode_valid (h : TopoHeader) (s s1 : ncclTopoSystem) (t : NodeType) (id : Int)
    (r : NodeRef) (hc : createNode h s t id = Except.ok (s1, r)) :
    ¬ s.valid r ∧ s1.valid r ∧ ∀ r', s.valid r' → s1.valid r' := by
  have hcount := createNode_count h s s1 t id r hc
  obtain ⟨rfl, -⟩ := createNode_ok h s s1 t id r hc
  unfold ncclTopoSystem.valid
  refine ⟨by simp, by simp [hcount], ?_⟩
  intro r' hr'
  rw [hcount]
  split_ifs <;> omega

theorem goodNode_of_valid_mono (s s1 : ncclTopoSystem) (t : NodeType) (n : ncclTopoNode)
    (hv : ∀ r, s.valid r → s1.valid r) (hg : GoodNode s t n) : GoodNode s1 t n :=
  ⟨hg.1, hg.2.1, fun l hl => hv _ (hg.2.2 l hl)⟩

theorem good_modifyNode (s : ncclTopoSystem) (a : NodeRef) (f : ncclTopoNode → ncclTopoNode)
    (hg : GoodSystem s) (hf : ∀ n, GoodNode s a.type n → GoodNode s a.type (f n)) :
    GoodSystem (s.modifyNode a f) := by
  intro t n hn
  have hv : ∀ r, s.valid r → (s.modifyNode a f).valid r := fun r hr =>
    (valid_modifyNode s a r f).2 hr
  apply goodNode_of_valid_mono s _ t n hv
  rw [nodes_modifyNode] at hn
  by_cases ht : t = a.type
  · subst ht
    simp only [if_true] at hn
    obtain ⟨i, hi⟩ := List.mem_iff_getElem?.1 hn
    rw [List.getElem?_modify] at hi
    cases hx : (s.nodes a.type)[i]? with
    | none => simp [hx] at hi
    | some m =>
      simp only [hx, Option.map_some', Option.some.injEq] at hi
      have hm : m ∈ s.nodes a.type := List.getElem?_mem hx
      split_ifs at hi
      · simp only [Option.map_eq_map, Option.map_some', Option.some.injEq] at hi
        rw [← hi]; exact hf m (hg _ m hm)
      · simp only [Option.map_eq_map, Option.map_some', Option.some.injEq] at hi
        rw [← hi]; exact hg _ m hm
  · simp only [ht, if_false] at hn
    exact hg t n hn

theorem connect_mem_links (node : ncclTopoNode) (r : NodeRef) (t : Nat) (w : ℚ)
    (l : ncclTopoLink) (hl : l ∈ (ncclTopoConnectNodes node r t w).links) :
    l.remNode = r ∨ l ∈ node.links := by
  rcases List.mem_cons.1 ((connect_links_perm node r t w).mem_iff.1 hl) with h | h
  · left; rw [h]
  · right
    rcases List.mem_append.1 h with h | h
    · exact List.mem_of_mem_take h
    · exact List.mem_of_mem_drop h

theorem goodNode_connect (s : ncclTopoSystem) (k : NodeType) (n : ncclTopoNode) (b : NodeRef)
    (t : Nat) (w : ℚ) (hb : s.valid b) (hg : GoodNode s k n) :
    GoodNode s k (ncclTopoConnectNodes n b t w) := by
  refine ⟨connect_wf n b t w hg.1, hg.2.1, ?_⟩
  intro l hl
  rcases connect_mem_links n b t w l hl with h | h
  · rw [h]; exact hb
  · exact hg.2.2 l h

theorem good_connect (s : ncclTopoSystem) (a b : NodeRef) (t : Nat) (w : ℚ)
    (hg : GoodSystem s) (hb : s.valid b) : GoodSystem (s.connect a b t w) :=
  good_modifyNode s a _ hg (fun n hn => goodNode_connect s a.type n b t w hb hn)

theorem good_create (h : TopoHeader) (s s1 : ncclTopoSystem) (t : NodeType) (id : Int)
    (r : NodeRef) (hc : createNode h s t id = Except.ok (s1, r)) (hg : GoodSystem s) :
    GoodSystem s1 := by
  obtain ⟨hnv, hv1, hmono⟩ := createNode_valid h s s1 t id r hc
  obtain ⟨hr, hs1⟩ := createNode_ok h s s1 t id r hc
  intro k n hn
  rw [hs1, nodes_setNodes] at hn
  by_cases hk : k = t
  · subst hk
    simp only [if_true, List.mem_append, List.mem_singleton] at hn
    rcases hn with hn | hn
    · exact goodNode_of_valid_mono s s1 k n hmono (hg k n hn)
    · subst hn
      refine ⟨?_, (newNode_type_id h k id _).1, ?_⟩
      · cases k <;> simp [newNode]
      · intro l hl
        cases k <;> simp [newNode] at hl
        subst hl
        rw [hr] at hv1
        exact hv1
  · simp only [hk, if_false] at hn
    exact goodNode_of_valid_mono s s1 k n hmono (hg k n hn)

theorem step_valid (h : TopoHeader) (P Q : NodeRef → NodeRef → Nat → Prop)
    (s s1 : ncclTopoSystem) (hs : BuildStep h P Q s s1) (r : NodeRef) (hr : s.valid r) :
    s1.valid r := by
  cases hs with
  | create t id _ r' hc => exact (createNode_valid h s s1 t id r' hc).2.2 r hr
  | attrs a f hf => exact (valid_modifyNode s a r f).2 hr
  | link2 a b t w ha hb hp =>
    exact (valid_connect _ b a r t w).2 ((valid_connect s a b r t w).2 hr)
  | link1 a b t w ha hb hq => exact (valid_connect s a b r t w).2 hr

theorem step_good (h : TopoHeader) (P Q : NodeRef → NodeRef → Nat → Prop)
    (s s1 : ncclTopoSystem) (hs : BuildStep h P Q s s1) (hg : GoodSystem s) :
    GoodSystem s1 := by
  cases hs with
  | create t id _ r' hc => exact good_create h s s1 t id r' hc hg
  | attrs a f hf =>
    apply good_modifyNode s a f hg
    intro n hn
    obtain ⟨h1, h2, h3⟩ := hf n
    exact ⟨by rw [h1, h2]; exact hn.1, by rw [h3]; exact hn.2.1,
      fun l hl => hn.2.2 l (by rw [← h1]; exact hl)⟩
  | link2 a b t w ha hb hp =>
    exact good_connect _ b a t w (good_connect s a b t w hg hb) ((valid_connect s a b a t w).2 ha)
  | link1 a b t w ha hb hq => exact good_connect s a b t w hg hb

theorem built_valid (h : TopoHeader) (P Q : NodeRef → NodeRef → Nat → Prop)
    (s s1 : ncclTopoSystem) (hb : Built h P Q s s1) (r : NodeRef) (hr : s.valid r) :
    s1.valid r := by
  induction hb with
  | refl => exact hr
  | tail _ hstep ih => exact step_valid h P Q _ _ hstep r ih

theorem built_good (h : TopoHeader) (P Q : NodeRef → NodeRef → Nat → Prop)
    (s s1 : ncclTopoSystem) (hb : Built h P Q s s1) (hg : GoodSystem s) : GoodSystem s1 := by
  induction hb with
  | refl => exact hg
  | tail _ hstep ih => exact step_good h P Q _ _ hstep ih

theorem built_mono (h : TopoHeader) (P Q P' Q' : NodeRef → NodeRef → Nat → Prop)
    (s s1 : ncclTopoSystem) (hb : Built h P Q s s1)
    (hP : ∀ a b t, P a b t → P' a b t) (hQ : ∀ a b t, Q a b t → Q' a b t) :
    Built h P' Q' s s1 := by
  induction hb with
  | refl => exact Relation.ReflTransGen.refl
  | tail _ hstep ih =>
    refine Relation.ReflTransGen.tail ih ?_
    cases hstep with
    | create t id _ r' hc => exact BuildStep.create _ t id _ r' hc
    | attrs a f hf => exact BuildStep.attrs _ a f hf
    | link2 a b t w ha hb hp => exact BuildStep.link2 _ a b t w ha hb (hP _ _ _ hp)
    | link1 a b t w ha hb hq => exact BuildStep.link1 _ a b t w ha hb (hQ _ _ _ hq)

theorem built_trans (h : TopoHeader) (P Q : NodeRef → NodeRef → Nat → Prop)
    (s s1 s2 : ncclTopoSystem) (h1 : Built h P Q s s1) (h2 : Built h P Q s1 s2) :
    Built h P Q s s2 :=
  Relation.ReflTransGen.trans h1 h2

/-- Steps that are fresh with respect to a later state are fresh with respect to an earlier
one. -/
theorem built_fresh_weaken (h : TopoHeader) (Q : NodeRef → NodeRef → Nat → Prop)
    (s0 s1 s2 : ncclTopoSystem) (hv : ∀ r, s0.valid r → s1.valid r)
    (hb : Built h (FreshIn s1) Q s1 s2) : Built h (FreshIn s0) Q s1 s2 := by
  apply built_mono h _ Q _ Q s1 s2 hb _ (fun _ _ _ hq => hq)
  intro a b t hf
  rcases hf with hf | hf
  · left; exact fun ha => hf (hv a ha)
  · right; exact fun hb => hf (hv b hb)

theorem good_node? (s : ncclTopoSystem) (hg : GoodSystem s) (r : NodeRef) (n : ncclTopoNode)
    (hn : s.node? r = some n) : GoodNode s r.type n :=
  hg r.type n (node?_mem s r n hn)

theorem linksFrom_modify_attrs (s : ncclTopoSystem) (r a b : NodeRef) (t : Nat)
    (f : ncclTopoNode → ncclTopoNode)
    (hf : ∀ n, (f n).links = n.links ∧ (f n).nlinks = n.nlinks ∧ (f n).type = n.type) :
    linksFrom (s.modifyNode r f) a b t = linksFrom s a b t := by
  unfold linksFrom
  rw [node?_modifyNode]
  by_cases ha : a = r
  · subst ha
    cases hx : s.node? a with
    | none => simp
    | some n => simp [ncclTopoNode.live, (hf n).1, (hf n).2.1]
  · simp [ha]

theorem linksFrom_create (h : TopoHeader) (s s1 : ncclTopoSystem) (k : NodeType) (id : Int)
    (r : NodeRef) (hc : createNode h s k id = Except.ok (s1, r)) (a b : NodeRef) (t : Nat)
    (ha : s.valid a) : linksFrom s1 a b t = linksFrom s a b t := by
  unfold linksFrom
  rw [createNode_node? h s s1 k id r hc]
  have : a ≠ r := fun e => (createNode_valid h s s1 k id r hc).1 (e ▸ ha)
  simp [this]

theorem linksFrom_connect_ne (s : ncclTopoSystem) (hg : GoodSystem s) (x y a b : NodeRef)
    (t' t : Nat) (w : ℚ) (hne : ¬ (a = x ∧ b = y ∧ t = t')) :
    (linksFrom (s.connect x y t' w) a b t).Perm (linksFrom s a b t) := by
  unfold linksFrom
  rw [node?_connect]
  by_cases ha : a = x
  · subst ha
    cases hx : s.node? a with
    | none => simp
    | some n =>
      have hwf := (good_node? s hg a n hx).1
      simp only [if_true, Option.map_some']
      rw [live_of_wf _ (connect_wf n y t' w hwf), live_of_wf n hwf]
      have := connect_linksTo_perm n y t' w b t
      have hk : ¬ (b = y ∧ t = t') := fun hk => hne ⟨rfl, hk⟩
      simpa [hk] using this
  · simp [ha]

theorem linksFrom_connect_new (s : ncclTopoSystem) (hg : GoodSystem s) (x y : NodeRef)
    (t : Nat) (w : ℚ) (hx : s.valid x) (habs : linksFrom s x y t = []) :
    linksFrom (s.connect x y t w) x y t = [{ type := t, width := w, remNode := y }] := by
  obtain ⟨n, hn⟩ := (valid_iff_node? s x).1 hx
  unfold linksFrom at habs ⊢
  rw [node?_connect]
  have hwf := (good_node? s hg x n hn).1
  simp only [hn, if_true, Option.map_some'] at habs ⊢
  rw [live_of_wf n hwf] at habs
  rw [live_of_wf _ (connect_wf n y t w hwf)]
  have hp := connect_linksTo_perm n y t w y t
  simp only [and_self, if_true] at hp
  rcases linksTo_self_split n.links y t with ⟨h1, h2, h3⟩ | ⟨z, hz, h2, h3⟩
  · rw [h2, h3] at hp
    simpa using List.perm_singleton.1 hp
  · rw [habs] at h3
    exact absurd h3 (by simp)

theorem hasLink_connect (s : ncclTopoSystem) (hg : GoodSystem s) (x y a b : NodeRef)
    (t' t : Nat) (w : ℚ) (hx : s.valid x) :
    hasLink (s.connect x y t' w) a b t ↔ hasLink s a b t ∨ (a = x ∧ b = y ∧ t = t') := by
  unfold hasLink
  by_cases hk : a = x ∧ b = y ∧ t = t'
  · obtain ⟨rfl, rfl, rfl⟩ := hk
    simp only [and_self, or_true, iff_true]
    obtain ⟨n, hn⟩ := (valid_iff_node? s a).1 hx
    unfold linksFrom
    rw [node?_connect]
    have hwf := (good_node? s hg a n hn).1
    simp only [hn, if_true, Option.map_some']
    rw [live_of_wf _ (connect_wf n b t w hwf)]
    have hp := connect_linksTo_perm n b t w b t
    simp only [and_self, if_true] at hp
    intro hnil
    rw [hnil] at hp
    exact absurd hp.symm.eq_nil (by simp)
  · have hp := linksFrom_connect_ne s hg x y a b t' t w hk
    simp only [hk, or_false]
    constructor
    · intro h1 h2; rw [h2] at hp; exact h1 hp.eq_nil
    · intro h1 h2; rw [h2] at hp; exact h1 hp.symm.eq_nil

/-- Steps that only link pairs with a node that is new since `s0` leave the links between
nodes of `s0` as they are. -/
theorem built_frame (h : TopoHeader) (s0 s s1 : ncclTopoSystem)
    (hb : Built h (FreshIn s0) NoLink s s1) (hv : ∀ r, s0.valid r → s.valid r)
    (hg : GoodSystem s) (a b : NodeRef) (t : Nat) (ha : s0.valid a) (hbv : s0.valid b) :
    (linksFrom s1 a b t).Perm (linksFrom s a b t) := by
  induction hb with
  | refl => exact List.Perm.refl _
  | @tail s2 s3 hb2 hstep ih =>
    have hg2 := built_good h _ _ s s2 hb2 hg
    have hv2 : ∀ r, s0.valid r → s2.valid r := fun r hr => built_valid h _ _ s s2 hb2 r (hv r hr)
    refine List.Perm.trans ?_ ih
    cases hstep with
    | create k id _ r' hc => rw [linksFrom_create h s2 s3 k id r' hc a b t (hv2 a ha)]
    | attrs r f hf => rw [linksFrom_modify_attrs s2 r a b t f hf]
    | link2 x y t' w hx hy hp =>
      have hne1 : ¬ (a = x ∧ b = y ∧ t = t') := by
        rintro ⟨rfl, rfl, -⟩
        rcases hp with hp | hp
        · exact hp ha
        · exact hp hbv
      have hne2 : ¬ (a = y ∧ b = x ∧ t = t') := by
        rintro ⟨rfl, rfl, -⟩
        rcases hp with hp | hp
        · exact hp hbv
        · exact hp ha
      exact (linksFrom_connect_ne _ (good_connect s2 x y t' w hg2 hy) y x a b t' t w hne2).trans
        (linksFrom_connect_ne s2 hg2 x y a b t' t w hne1)
    | link1 x y t' w hx hy hq => exact absurd hq (by simp [NoLink])

theorem built_refl (h : TopoHeader) (P Q : NodeRef → NodeRef → Nat → Prop)
    (s : ncclTopoSystem) : Built h P Q s s :=
  Relation.ReflTransGen.refl

theorem built_create (h : TopoHeader) (P Q : NodeRef → NodeRef → Nat → Prop)
    (s s1 : ncclTopoSystem) (t : NodeType) (id : Int) (r : NodeRef)
    (hc : createNode h s t id = Except.ok (s1, r)) : Built h P Q s s1 :=
  Relation.ReflTransGen.single (BuildStep.create s t id s1 r hc)

theorem built_attrs (h : TopoHeader) (P Q : NodeRef → NodeRef → Nat → Prop)
    (s : ncclTopoSystem) (r : NodeRef) (f : ncclTopoNode → ncclTopoNode)
    (hf : ∀ n, (f n).links = n.links ∧ (f n).nlinks = n.nlinks ∧ (f n).type = n.type) :
    Built h P Q s (s.modifyNode r f) :=
  Relation.ReflTransGen.single (BuildStep.attrs s r f hf)

theorem built_link2 (h : TopoHeader) (P Q : NodeRef → NodeRef → Nat → Prop)
    (s : ncclTopoSystem) (a b : NodeRef) (t : Nat) (w : ℚ) (ha : s.valid a) (hb : s.valid b)
    (hp : P a b t) : Built h P Q s (s.connectBoth a b t w) :=
  Relation.ReflTransGen.single (BuildStep.link2 s a b t w ha hb hp)

theorem built_link1 (h : TopoHeader) (P Q : NodeRef → NodeRef → Nat → Prop)
    (s : ncclTopoSystem) (a b : NodeRef) (t : Nat) (w : ℚ) (ha : s.valid a) (hb : s.valid b)
    (hq : Q a b t) : Built h P Q s (s.connect a b t w) :=
  Relation.ReflTransGen.single (BuildStep.link1 s a b t w ha hb hq)

theorem addNet_built (h : TopoHeader) (xmlNet : ncclXmlNode) (s s1 : ncclTopoSystem)
    (nic : NodeRef) (busId : Int) (hres : ncclTopoAddNet h xmlNet s nic busId = Except.ok s1)
    (hnic : s.valid nic) : Built h (FreshIn s) NoLink s s1 := by
  unfold ncclTopoAddNet at hres
  split at hres
  · exact absurd hres (by simp)
  · rename_i dev hdev
    split at hres
    · exact absurd hres (by simp)
    · rename_i r hr
      injection hres with hres
      subst hres
      obtain ⟨hnv, hv1, hmono⟩ := createNode_valid h s r.1 NodeType.NET dev r.2 hr
      refine built_trans h _ _ s r.1 _ (built_create h _ _ s r.1 _ dev r.2 hr) ?_
      refine built_trans h _ _ r.1 _ _
        (built_attrs h _ _ r.1 r.2 (setNet (netInfoOf h xmlNet dev busId))
          (fun n => ⟨rfl, rfl, rfl⟩)) ?_
      exact built_link2 h _ _ _ nic r.2 LINK_NET _
        ((valid_modifyNode _ _ _ _).2 (hmono nic hnic))
        ((valid_modifyNode _ _ _ _).2 hv1) (Or.inr hnv)

theorem addNic_built (h : TopoHeader) (subs : List ncclXmlNode) (nic : NodeRef) (busId : Int) :
    ∀ (s s1 : ncclTopoSystem), ncclTopoAddNic h subs s nic busId = Except.ok s1 →
      s.valid nic → Built h (FreshIn s) NoLink s s1 := by
  induction subs with
  | nil =>
    intro s s1 hres _
    simp only [ncclTopoAddNic] at hres
    injection hres with hres
    subst hres
    exact built_refl h _ _ s
  | cons x rest ih =>
    intro s s1 hres hnic
    unfold ncclTopoAddNic at hres
    split_ifs at hres with h1 h2
    · exact ih s s1 hres hnic
    · exact ih s s1 hres hnic
    · split at hres
      · exact absurd hres (by simp)
      · rename_i s2 hs2
        have hb1 := addNet_built h x s s2 nic busId hs2 hnic
        have hv := built_valid h _ _ s s2 hb1
        exact built_trans h _ _ s s2 s1 hb1
          (built_fresh_weaken h _ s s2 s1 hv (ih s2 s1 hres (hv nic hnic)))

theorem addGpu_built (h : TopoHeader) (P Q : NodeRef → NodeRef → Nat → Prop)
    (xmlGpu : ncclXmlNode) (s s1 : ncclTopoSystem) (gpu : NodeRef)
    (hres : ncclTopoAddGpu h xmlGpu s gpu = Except.ok s1) : Built h P Q s s1 := by
  unfold ncclTopoAddGpu at hres
  split at hres
  · exact absurd hres (by simp)
  · split at hres
    · exact absurd hres (by simp)
    · rename_i info _
      injection hres with hres
      subst hres
      exact built_attrs h _ _ s gpu (setGpu info) (fun n => ⟨rfl, rfl, rfl⟩)

theorem yielded_iff (h : TopoHeader) (s s4 : ncclTopoSystem) (n : NodeRef) :
    YieldedAt h s s4 n ↔ ∃ (sb sc : ncclTopoSystem) (k : NodeType) (id : Int),
      Built h (FreshIn s) NoLink s sb ∧ createNode h sb k id = Except.ok (sc, n) ∧
      Built h (FreshIn sc) NoLink sc s4 := Iff.rfl

theorem yielded_built (h : TopoHeader) (s s4 : ncclTopoSystem) (n : NodeRef)
    (hy : YieldedAt h s s4 n) :
    Built h (FreshIn s) NoLink s s4 ∧ ¬ s.valid n ∧ s4.valid n := by
  obtain ⟨sb, sc, k, id, h1, hc, h2⟩ := (yielded_iff h s s4 n).1 hy
  obtain ⟨hnv, hv, hmono⟩ := createNode_valid h sb sc k id n hc
  have hvb := built_valid h _ _ s sb h1
  refine ⟨?_, fun hn => hnv (hvb n hn), built_valid h _ _ sc s4 h2 n hv⟩
  refine built_trans h _ _ s sb s4 h1 ?_
  refine built_trans h _ _ sb sc s4 (built_create h _ _ sb sc k id n hc) ?_
  exact built_fresh_weaken h _ s sc s4 (fun r hr => hmono r (hvb r hr)) h2

theorem yielded_extend (h : TopoHeader) (s s4 s5 : ncclTopoSystem) (n : NodeRef)
    (hy : YieldedAt h s s4 n) (hb : Built h (FreshIn s4) NoLink s4 s5) :
    YieldedAt h s s5 n := by
  obtain ⟨sb, sc, k, id, h1, hc, h2⟩ := (yielded_iff h s s4 n).1 hy
  refine (yielded_iff h s s5 n).2 ⟨sb, sc, k, id, h1, hc, ?_⟩
  exact built_trans h _ _ sc s4 s5 h2
    (built_fresh_weaken h _ sc s4 s5 (built_valid h _ _ sc s4 h2) hb)

theorem yielded_shift (h : TopoHeader) (s s1 s4 : ncclTopoSystem) (n : NodeRef)
    (hb : Built h (FreshIn s) NoLink s s1) (hy : YieldedAt h s1 s4 n) :
    YieldedAt h s s4 n := by
  obtain ⟨sb, sc, k, id, h1, hc, h2⟩ := (yielded_iff h s1 s4 n).1 hy
  refine (yielded_iff h s s4 n).2 ⟨sb, sc, k, id, ?_, hc, h2⟩
  exact built_trans h _ _ s s1 sb hb
    (built_fresh_weaken h _ s s1 sb (built_valid h _ _ s s1 hb) h1)

theorem yielded_create (h : TopoHeader) (s sc : ncclTopoSystem) (k : NodeType) (id : Int)
    (n : NodeRef) (hc : createNode h s k id = Except.ok (sc, n)) : YieldedAt h s sc n :=
  (yielded_iff h s sc n).2 ⟨s, sc, k, id, built_refl h _ _ s, hc, built_refl h _ _ sc⟩

theorem linksFrom_of_not_valid (s : ncclTopoSystem) (a b : NodeRef) (t : Nat)
    (ha : ¬ s.valid a) : linksFrom s a b t = [] := by
  unfold linksFrom
  cases hx : s.node? a with
  | none => rfl
  | some n => exact absurd ((valid_iff_node? s a).2 ⟨n, hx⟩) ha

theorem linksFrom_to_not_valid (s : ncclTopoSystem) (hg : GoodSystem s) (a b : NodeRef)
    (t : Nat) (hb : ¬ s.valid b) : linksFrom s a b t = [] := by
  unfold linksFrom
  cases hx : s.node? a with
  | none => rfl
  | some n =>
    simp only
    unfold linksTo
    rw [List.filter_eq_nil_iff]
    intro l hl hk
    have hv := (good_node? s hg a n hx).2.2 l (List.mem_of_mem_take hl)
    rw [((linkIs_iff b t l).1 hk).1] at hv
    exact hb hv

theorem newNode_links (h : TopoHeader) (k : NodeType) (id : Int) (i : Nat)
    (l : ncclTopoLink) (hl : l ∈ (newNode h k id i).links) :
    l.remNode = { type := k, index := i } := by
  cases k <;> simp [newNode] at hl
  subst hl
  rfl

/-- A node the entry has just created has no link to or from an older node, and later steps
that avoid links between older nodes keep it so. -/
theorem yielded_no_links (h : TopoHeader) (s s4 : ncclTopoSystem) (n p : NodeRef) (t : Nat)
    (hg : GoodSystem s) (hp : s.valid p) (hy : YieldedAt h s s4 n) :
    linksFrom s4 n p t = [] ∧ linksFrom s4 p n t = [] := by
  obtain ⟨sb, sc, k, id, h1, hc, h2⟩ := (yielded_iff h s s4 n).1 hy
  obtain ⟨hnv, hv, hmono⟩ := createNode_valid h sb sc k id n hc
  have hgb := built_good h _ _ s sb h1 hg
  have hgc := good_create h sb sc k id n hc hgb
  have hpb := built_valid h _ _ s sb h1 p hp
  have hpc := hmono p hpb
  have hne : p ≠ n := fun e => hnv (e ▸ hpb)
  have hf1 := built_frame h sc sc s4 h2 (fun r hr => hr) hgc n p t hv hpc
  have hf2 := built_frame h sc sc s4 h2 (fun r hr => hr) hgc p n t hpc hv
  have e1 : linksFrom sc n p t = [] := by
    unfold linksFrom
    rw [createNode_node? h sb sc k id n hc]
    simp only [if_true]
    unfold linksTo
    rw [List.filter_eq_nil_iff]
    intro l hl hk
    have := newNode_links h k id _ l (List.mem_of_mem_take hl)
    rw [((linkIs_iff p t l).1 hk).1] at this
    apply hne
    rw [this, (createNode_ok h sb sc k id n hc).1]
  have e2 : linksFrom sc p n t = [] := by
    rw [linksFrom_create h sb sc k id n hc p n t hpb]
    exact linksFrom_to_not_valid sb hgb p n t hnv
  rw [e1] at hf1
  rw [e2] at hf2
  exact ⟨hf1.eq_nil, hf2.eq_nil⟩

theorem addPciGpu_spec (h : TopoHeader) (xmlPci : ncclXmlNode) (s s1 : ncclTopoSystem)
    (type type' : NodeType) (busId : Int) (node : Option NodeRef)
    (hres : addPciGpu h xmlPci s type busId = Except.ok (some (s1, node, type'))) :
    (node = none ∧ s1 = s ∧ type' = type) ∨
      (∃ n, node = some n ∧ type' = NodeType.GPU ∧ YieldedAt h s s1 n) := by
  unfold addPciGpu at hres
  split at hres
  · injection hres with hres
    injection hres with hres
    injection hres with h1 h2
    injection h2 with h2 h3
    left
    exact ⟨h2.symm, h1.symm, h3.symm⟩
  · rename_i xmlGpu _
    split_ifs at hres
    · exact absurd hres (by simp)
    · split at hres
      · exact absurd hres (by simp)
      · rename_i r hr
        split at hres
        · exact absurd hres (by simp)
        · rename_i s2 hs2
          injection hres with hres
          injection hres with hres
          injection hres with h1 h2
          injection h2 with h2 h3
          right
          refine ⟨r.2, h2.symm, h3.symm, ?_⟩
          rw [← h1]
          exact yielded_extend h s r.1 s2 r.2 (yielded_create h s r.1 _ busId r.2 hr)
            (addGpu_built h _ _ xmlGpu r.1 s2 r.2 hs2)

theorem getNode_valid (s : ncclTopoSystem) (t : NodeType) (id : Int) (r : NodeRef)
    (hres : ncclTopoGetNode s t id = some r) : s.valid r ∧ r.type = t := by
  unfold ncclTopoGetNode at hres
  simp only at hres
  split_ifs at hres with hlt
  injection hres with hres
  subst hres
  exact ⟨hlt, rfl⟩

theorem addPciNic_spec (h : TopoHeader) (xmlNic : ncclXmlNode) (s1 : ncclTopoSystem)
    (node : Option NodeRef) (busId : Int) (r : ncclTopoSystem × Option NodeRef)
    (hres : addPciNic h xmlNic s1 node busId = Except.ok r) :
    Built h (FreshIn s1) NoLink s1 r.1 ∧
      (r.2 = node ∨ ∃ n, r.2 = some n ∧ YieldedAt h s1 r.1 n) := by
  unfold addPciNic at hres
  simp only at hres
  split at hres
  · rename_i nicNode hnic
    split at hres
    · exact absurd hres (by simp)
    · rename_i s2 hs2
      injection hres with hres
      subst hres
      exact ⟨addNic_built h _ nicNode _ s1 s2 hs2 (getNode_valid s1 _ _ nicNode hnic).1,
        Or.inl rfl⟩
  · split at hres
    · exact absurd hres (by simp)
    · rename_i c hc
      split at hres
      · exact absurd hres (by simp)
      · rename_i s2 hs2
        injection hres with hres
        subst hres
        have hb := addNic_built h _ c.2 _ c.1 s2 hs2 (createNode_valid h s1 c.1 _ _ c.2 hc).2.1
        have hy := yielded_extend h s1 c.1 s2 c.2 (yielded_create h s1 c.1 _ _ c.2 hc) hb
        exact ⟨(yielded_built h s1 s2 c.2 hy).1, Or.inr ⟨c.2, rfl, hy⟩⟩

theorem connectPciNode_spec (h : TopoHeader) (xmlPci : ncclXmlNode) (s4 : ncclTopoSystem)
    (node : Option NodeRef) (parent : NodeRef) (r : ncclTopoSystem × Option NodeRef)
    (hres : connectPciNode h xmlPci s4 node parent = Except.ok r) :
    (node = none ∧ r = (s4, none)) ∨
      (∃ n w, node = some n ∧ pciLinkWidth h xmlPci = Except.ok w ∧
        r = (s4.connectBoth n parent LINK_PCI w, some n)) := by
  unfold connectPciNode at hres
  split at hres
  · injection hres with hres
    left; exact ⟨rfl, hres.symm⟩
  · rename_i n
    unfold connectPci at hres
    split at hres
    · exact absurd hres (by simp)
    · rename_i s5 hs5
      split at hs5
      · exact absurd hs5 (by simp)
      · rename_i w hw
        injection hres with hres
        injection hs5 with hs5
        right
        exact ⟨n, w, rfl, hw, by rw [← hres, ← hs5]⟩

theorem pciEntryResult_built (h : TopoHeader) (xmlPci : ncclXmlNode) (s : ncclTopoSystem)
    (parent : NodeRef) (r : ncclTopoSystem × Option NodeRef) (hp : s.valid parent)
    (hr : PciEntryResult h xmlPci s parent r) : Built h (FreshIn s) NoLink s r.1 := by
  obtain ⟨s4, hb, hcase⟩ := hr
  rcases hcase with ⟨-, h1⟩ | ⟨n, w, -, -, h1, hy⟩
  · rw [h1]; exact hb
  · rw [h1]
    obtain ⟨-, hnv, hv⟩ := yielded_built h s s4 n hy
    exact built_trans h _ _ s s4 _ hb
      (built_link2 h _ _ s4 n parent LINK_PCI w hv (built_valid h _ _ s s4 hb parent hp)
        (Or.inl hnv))

theorem connectPciNode_result (h : TopoHeader) (xmlPci : ncclXmlNode) (s s4 : ncclTopoSystem)
    (node : Option NodeRef) (parent : NodeRef) (r : ncclTopoSystem × Option NodeRef)
    (hres : connectPciNode h xmlPci s4 node parent = Except.ok r)
    (hb : Built h (FreshIn s) NoLink s s4) (hy : ∀ n, node = some n → YieldedAt h s s4 n) :
    PciEntryResult h xmlPci s parent r := by
  rcases connectPciNode_spec h xmlPci s4 node parent r hres with ⟨h1, h2⟩ | ⟨n, w, h1, h2, h3⟩
  · exact ⟨s4, hb, Or.inl (by rw [h2]; exact ⟨rfl, rfl⟩)⟩
  · exact ⟨s4, hb, Or.inr ⟨n, w, by rw [h3], h2, by rw [h3], hy n h1⟩⟩

mutual
theorem addPci_result (h : TopoHeader) :
    ∀ (xmlPci : ncclXmlNode) (s : ncclTopoSystem) (parent : NodeRef)
      (r : ncclTopoSystem × Option NodeRef),
      addPci h xmlPci s parent = Except.ok r → s.valid parent →
        PciEntryResult h xmlPci s parent r
  | ncclXmlNode.mk name attrs subs, s, parent, r, hres, hp => by
    unfold addPci at hres
    simp only at hres
    split at hres
    · exact absurd hres (by simp)
    · split at hres
      · exact absurd hres (by simp)
      · split at hres
        · exact absurd hres (by simp)
        · rename_i busId _
          split at hres
          · exact absurd hres (by simp)
          · injection hres with hres
            exact ⟨s, built_refl h _ _ s, Or.inl (by rw [← hres]; exact ⟨rfl, rfl⟩)⟩
          · rename_i s1 node type hgpu
            have hg := addPciGpu_spec h _ s s1 _ type busId node hgpu
            have hb1 : Built h (FreshIn s) NoLink s s1 := by
              rcases hg with ⟨-, h2, -⟩ | ⟨n, -, -, hy⟩
              · rw [h2]; exact built_refl h _ _ s
              · exact (yielded_built h s s1 n hy).1
            have hy1 : ∀ n, node = some n → YieldedAt h s s1 n := by
              intro n hn
              rcases hg with ⟨h1, -, -⟩ | ⟨m, h1, -, hy⟩
              · rw [h1] at hn; exact absurd hn (by simp)
              · rw [h1] at hn; injection hn with hn; rw [← hn]; exact hy
            have hv1 := built_valid h _ _ s s1 hb1
            split at hres
            · rename_i xmlNic _
              split at hres
              · exact absurd hres (by simp)
              · rename_i r1 hr1
                obtain ⟨hb2, hcase⟩ := addPciNic_spec h xmlNic s1 node busId r1 hr1
                have hb2' := built_fresh_weaken h _ s s1 r1.1 hv1 hb2
                refine connectPciNode_result h _ s r1.1 r1.2 parent r hres
                  (built_trans h _ _ s s1 r1.1 hb1 hb2') ?_
                intro n hn
                rcases hcase with hc | ⟨m, hm, hy⟩
                · rw [hc] at hn
                  exact yielded_extend h s s1 r1.1 n (hy1 n hn) hb2
                · rw [hm] at hn
                  injection hn with hn
                  rw [← hn]
                  exact yielded_shift h s s1 r1.1 m hb1 hy
            · split_ifs at hres with htype
              · split at hres
                · exact absurd hres (by simp)
                · rename_i c hc
                  split at hres
                  · exact absurd hres (by simp)
                  · rename_i s3 hs3
                    have hcv := createNode_valid h s1 c.1 _ busId c.2 hc
                    have hattr : Built h (FreshIn c.1) NoLink c.1
                        (c.1.modifyNode c.2 (setPciDevice h (ncclXmlNode.mk name attrs subs))) :=
                      built_attrs h _ _ c.1 c.2 _ (fun n => ⟨rfl, rfl, rfl⟩)
                    have hsub := subsLoop_result h subs _ c.2 s3 hs3
                      ((valid_modifyNode _ _ _ _).2 hcv.2.1)
                    have hsub' := built_fresh_weaken h _ c.1 _ s3
                      (built_valid h _ _ c.1 _ hattr) hsub
                    have hy : YieldedAt h s1 s3 c.2 :=
                      yielded_extend h s1 _ s3 c.2
                        (yielded_extend h s1 c.1 _ c.2 (yielded_create h s1 c.1 _ busId c.2 hc)
                          hattr) hsub
                    have hy' := yielded_shift h s s1 s3 c.2 hb1 hy
                    refine connectPciNode_result h _ s s3 (some c.2) parent r hres
                      (yielded_built h s s3 c.2 hy').1 ?_
                    intro n hn
                    injection hn with hn
                    rw [← hn]
                    exact hy'
              · exact connectPciNode_result h _ s s1 node parent r hres hb1 hy1
theorem subsLoop_result (h : TopoHeader) :
    ∀ (subs : List ncclXmlNode) (s : ncclTopoSystem) (node : NodeRef) (s1 : ncclTopoSystem),
      addPci.subsLoop h subs s node = Except.ok s1 → s.valid node →
        Built h (FreshIn s) NoLink s s1
  | [], s, node, s1, hres, _ => by
    unfold addPci.subsLoop at hres
    injection hres with hres
    rw [← hres]
    exact built_refl h _ _ s
  | x :: rest, s, node, s1, hres, hn => by
    unfold addPci.subsLoop at hres
    split at hres
    · exact absurd hres (by simp)
    · rename_i r hr
      have h1 := pciEntryResult_built h x s node r hn (addPci_result h x s node r hr hn)
      have hv := built_valid h _ _ s r.1 h1
      exact built_trans h _ _ s r.1 s1 h1
        (built_fresh_weaken h _ s r.1 s1 hv (subsLoop_result h rest r.1 node s1 hres (hv node hn)))
end

theorem pciLinkWidth_eq (h : TopoHeader) (xmlPci : ncclXmlNode) (w : ℚ)
    (hw : pciLinkWidth h xmlPci = Except.ok w) :
    ∃ lanes speed, xmlGetAttrInt h xmlPci "link_width" = Except.ok lanes ∧
      xmlGetAttrStr xmlPci "link_speed" = Except.ok speed ∧
      w = ((intMul (if lanes = 0 then 16 else lanes) (kvConvertToInt speed kvDictPciGen 60)
        : Int) : ℚ) / 80 := by
  unfold pciLinkWidth at hw
  simp only [bind, Except.bind] at hw
  split at hw
  · exact absurd hw (by simp)
  · rename_i lanes hl
    split at hw
    · exact absurd hw (by simp)
    · rename_i speed hs
      injection hw with hw
      exact ⟨lanes, speed, hl, hs, hw.symm⟩

theorem linksFrom_connectBoth_new (s : ncclTopoSystem) (hg : GoodSystem s) (a b : NodeRef)
    (t : Nat) (w : ℚ) (ha : s.valid a) (hb : s.valid b) (hne : a ≠ b)
    (h1 : linksFrom s a b t = []) (h2 : linksFrom s b a t = []) :
    linksFrom (s.connectBoth a b t w) a b t = [{ type := t, width := w, remNode := b }] ∧
      linksFrom (s.connectBoth a b t w) b a t = [{ type := t, width := w, remNode := a }] := by
  unfold ncclTopoSystem.connectBoth
  have hg1 := good_connect s a b t w hg hb
  have e1 := linksFrom_connect_new s hg a b t w ha h1
  have hb1 : (s.connect a b t w).valid b := (valid_connect s a b b t w).2 hb
  have p1 := linksFrom_connect_ne (s.connect a b t w) hg1 b a a b t t w
    (fun hx => hne hx.1)
  have p2 := linksFrom_connect_ne s hg a b b a t t w (fun hx => hne hx.1.symm)
  rw [h2] at p2
  have e2 := linksFrom_connect_new (s.connect a b t w) hg1 b a t w hb1 p2.eq_nil
  rw [e1] at p1
  exact ⟨List.perm_singleton.1 p1, e2⟩

theorem intMul_of_range (a b : Int) (hlo : -2 ^ 31 ≤ a * b) (hhi : a * b < 2 ^ 31) :
    intMul a b = a * b := by
  unfold intMul
  rw [Int.emod_eq_of_lt (by omega) (by omega)]
  omega

/-- C7, as amended: when `ncclTopoAddPci` succeeds on an entry that yields a node (its local
`node` is not null at the end), in a well-formed system and below an existing parent, and the
product `lanes * rate` lies in the range of `int`, the node has exactly one PCI link to the
parent and the parent exactly one PCI link to the node, both of width `lanes * rate / 80`,
where `lanes` is the declared `link_width` (16 when it is 0) and `rate` the `kvDictPciGen`
value of the declared `link_speed` (the fallback 60 when no key matches). The string
"16 GT/s PCIe" has rate 120, and 16 lanes at this rate give width 24. -/
theorem addPci_link_width (h : TopoHeader) (xmlPci : ncclXmlNode) (s s1 : ncclTopoSystem)
    (parent node : NodeRef) (lanes : Int) (speed : String) (hg : GoodSystem s)
    (hp : s.valid parent)
    (hres : addPci h xmlPci s parent = Except.ok (s1, some node))
    (hl : xmlGetAttrInt h xmlPci "link_width" = Except.ok lanes)
    (hsp : xmlGetAttrStr xmlPci "link_speed" = Except.ok speed)
    (hlo : -2 ^ 31 ≤ (if lanes = 0 then 16 else lanes) * kvConvertToInt speed kvDictPciGen 60)
    (hhi : (if lanes = 0 then 16 else lanes) * kvConvertToInt speed kvDictPciGen 60 < 2 ^ 31) :
    ncclTopoAddPci h xmlPci s parent = Except.ok s1 ∧
    linksFrom s1 node parent LINK_PCI =
      [{ type := LINK_PCI, remNode := parent,
         width := (((if lanes = 0 then 16 else lanes) *
           kvConvertToInt speed kvDictPciGen 60 : Int) : ℚ) / 80 }] ∧
    linksFrom s1 parent node LINK_PCI =
      [{ type := LINK_PCI, remNode := node,
         width := (((if lanes = 0 then 16 else lanes) *
           kvConvertToInt speed kvDictPciGen 60 : Int) : ℚ) / 80 }] ∧
    kvConvertToInt "16 GT/s PCIe" kvDictPciGen 60 = 120 ∧
    (((16 * 120 : Int) : ℚ) / 80 = 24) := by
  suffices hlinks : linksFrom s1 node parent LINK_PCI =
      [{ type := LINK_PCI, remNode := parent,
         width := (((if lanes = 0 then 16 else lanes) *
           kvConvertToInt speed kvDictPciGen 60 : Int) : ℚ) / 80 }] ∧
    linksFrom s1 parent node LINK_PCI =
      [{ type := LINK_PCI, remNode := node,
         width := (((if lanes = 0 then 16 else lanes) *
           kvConvertToInt speed kvDictPciGen 60 : Int) : ℚ) / 80 }] from
    ⟨by simp [ncclTopoAddPci, hres], hlinks.1, hlinks.2, by decide, by norm_num⟩
  obtain ⟨s4, hb, hcase⟩ := addPci_result h xmlPci s parent _ hres hp
  rcases hcase with ⟨h1, -⟩ | ⟨n, w, hn, hw, hs1, hy⟩
  · exact absurd h1 (by simp)
  · simp only at hn hs1
    injection hn with hn
    subst hn
    obtain ⟨lanes1, speed1, hl1, hsp1, hweq⟩ := pciLinkWidth_eq h xmlPci w hw
    rw [hl] at hl1
    rw [hsp] at hsp1
    injection hl1 with hl1
    injection hsp1 with hsp1
    subst hl1
    subst hsp1
    rw [intMul_of_range _ _ hlo hhi] at hweq
    rw [← hweq, hs1]
    obtain ⟨-, hnv, hv⟩ := yielded_built h s s4 node hy
    obtain ⟨e1, e2⟩ := yielded_no_links h s s4 node parent LINK_PCI hg hp hy
    have hne : node ≠ parent := fun e => hnv (e ▸ hp)
    exact linksFrom_connectBoth_new s4 (built_good h _ _ s s4 hb hg) node parent LINK_PCI w hv
      (built_valid h _ _ s s4 hb parent hp) hne e1 e2

theorem toOption_eq_some {ε α : Type} (x : Except ε α) (a : α) (h : x.toOption = some a) :
    x = Except.ok a := by
  cases x with
  | error e => simp [Except.toOption] at h
  | ok b => simp [Except.toOption] at h; rw [h]

theorem sampleGpuBelowCpu_eq :
    addPci sampleHeader sampleGpuEntry sampleOneCpu { type := NodeType.CPU, index := 0 }
      = Except.ok (sampleGpuBelowCpu, some { type := NodeType.GPU, index := 0 }) := by
  apply toOption_eq_some
  decide!

theorem sampleOneCpu_valid : sampleOneCpu.valid { type := NodeType.CPU, index := 0 } := by
  unfold ncclTopoSystem.valid
  decide

theorem sampleOneCpu_good : GoodSystem sampleOneCpu := by
  unfold GoodSystem GoodNode ncclTopoSystem.valid
  decide

/-- C7 at the sample entry: 16 lanes at "16 GT/s PCIe" give a link of width 24 in both
directions. -/
theorem addPci_link_width_witness :
    (GoodSystem sampleOneCpu ∧ sampleOneCpu.valid { type := NodeType.CPU, index := 0 } ∧
      addPci sampleHeader sampleGpuEntry sampleOneCpu { type := NodeType.CPU, index := 0 }
        = Except.ok (sampleGpuBelowCpu, some { type := NodeType.GPU, index := 0 }) ∧
      xmlGetAttrInt sampleHeader sampleGpuEntry "link_width" = Except.ok 16 ∧
      xmlGetAttrStr sampleGpuEntry "link_speed" = Except.ok "16 GT/s PCIe" ∧
      (-2 ^ 31 : Int) ≤ (if (16 : Int) = 0 then 16 else 16) *
        kvConvertToInt "16 GT/s PCIe" kvDictPciGen 60 ∧
      (if (16 : Int) = 0 then 16 else 16) * kvConvertToInt "16 GT/s PCIe" kvDictPciGen 60
        < (2 ^ 31 : Int)) ∧
    ncclTopoAddPci sampleHeader sampleGpuEntry sampleOneCpu { type := NodeType.CPU, index := 0 }
      = Except.ok sampleGpuBelowCpu ∧
    linksFrom sampleGpuBelowCpu { type := NodeType.GPU, index := 0 }
        { type := NodeType.CPU, index := 0 } LINK_PCI =
      [{ type := LINK_PCI, remNode := { type := NodeType.CPU, index := 0 },
         width := (((if (16 : Int) = 0 then 16 else 16) *
           kvConvertToInt "16 GT/s PCIe" kvDictPciGen 60 : Int) : ℚ) / 80 }] ∧
    linksFrom sampleGpuBelowCpu { type := NodeType.CPU, index := 0 }
        { type := NodeType.GPU, index := 0 } LINK_PCI =
      [{ type := LINK_PCI, remNode := { type := NodeType.GPU, index := 0 },
         width := (((if (16 : Int) = 0 then 16 else 16) *
           kvConvertToInt "16 GT/s PCIe" kvDictPciGen 60 : Int) : ℚ) / 80 }] :=
  have h := addPci_link_width sampleHeader sampleGpuEntry sampleOneCpu sampleGpuBelowCpu
    { type := NodeType.CPU, index := 0 } { type := NodeType.GPU, index := 0 } 16
    "16 GT/s PCIe" sampleOneCpu_good sampleOneCpu_valid sampleGpuBelowCpu_eq
    (toOption_eq_some _ _ (by decide)) (toOption_eq_some _ _ (by decide)) (by decide)
    (by decide)
  ⟨⟨sampleOneCpu_good, sampleOneCpu_valid, sampleGpuBelowCpu_eq,
      toOption_eq_some _ _ (by decide), toOption_eq_some _ _ (by decide), by decide, by decide⟩,
    h.1, h.2.1, h.2.2.1⟩

theorem sample_widths :
    linksFrom sampleGpuBelowCpu { type := NodeType.GPU, index := 0 }
      { type := NodeType.CPU, index := 0 } LINK_PCI
      = [{ type := LINK_PCI, width := 24, remNode := { type := NodeType.CPU, index := 0 } }] := by
  decide!

/-- C6, failing input: on the sample bridge tree the topology handed to `ncclTopoSortSystem`
has one PCI node with `nlinks = 2`, slots `[cpu, gpu, gpu]` (the third a copy `memmove` left
behind). `ncclTopoSortSystem` succeeds and leaves `nlinks = 2` with slots `[gpu, gpu, cpu]`:
the link back to the traversal parent (the processor) is not among the first `nlinks` links,
and the first `nlinks` links `[gpu, gpu]` are no permutation of `[cpu, gpu]`. -/
theorem sortSystem_parent_link_not_last :
    pciSlots sampleBcmBeforeSort
      = some [(2, [(LINK_PCI, 24, { type := NodeType.CPU, index := 0 }),
                   (LINK_PCI, 12, { type := NodeType.GPU, index := 0 }),
                   (LINK_PCI, 12, { type := NodeType.GPU, index := 0 })])] ∧
    pciSlots (ncclTopoGetSystemFromXml sampleHeader 10 sampleBcmTree)
      = some [(2, [(LINK_PCI, 12, { type := NodeType.GPU, index := 0 }),
                   (LINK_PCI, 12, { type := NodeType.GPU, index := 0 }),
                   (LINK_PCI, 24, { type := NodeType.CPU, index := 0 })])] ∧
    (ncclTopoGetSystemFromXml sampleHeader 10 sampleBcmTree
      = match sampleBcmBeforeSort with
        | Except.error e => Except.error e
        | Except.ok s => ncclTopoSortSystem 10 s) := by
  refine ⟨by decide!, by decide!, ?_⟩
  unfold ncclTopoGetSystemFromXml sampleBcmBeforeSort
  cases buildGraph sampleHeader 10 sampleBcmTree with
  | error e => rfl
  | ok s1 =>
    simp only []
    cases ncclTopoFlattenBcmSwitches 10 s1 with
    | error e => rfl
    | ok s2 => rfl

theorem built_of_fresh (h : TopoHeader) (s0 s s1 : ncclTopoSystem)
    (hb : Built h (FreshIn s0) NoLink s s1) : Built h AnyLink GpuFabric s s1 :=
  built_mono h _ _ _ _ s s1 hb (fun _ _ _ _ => trivial) (fun _ _ _ hq => hq.elim)

theorem addPci_built_any (h : TopoHeader) (xmlPci : ncclXmlNode) (s s1 : ncclTopoSystem)
    (parent : NodeRef) (hp : s.valid parent)
    (hres : ncclTopoAddPci h xmlPci s parent = Except.ok s1) :
    Built h AnyLink GpuFabric s s1 := by
  unfold ncclTopoAddPci at hres
  cases hr : addPci h xmlPci s parent with
  | error e => rw [hr] at hres; exact absurd hres (by simp)
  | ok r =>
    rw [hr] at hres
    simp only [Except.ok.injEq] at hres
    rw [← hres]
    exact built_of_fresh h s s r.1
      (pciEntryResult_built h xmlPci s parent r hp (addPci_result h xmlPci s parent r hr hp))

theorem addCpuNic_built (h : TopoHeader) (xmlNic : ncclXmlNode) (s s1 : ncclTopoSystem)
    (cpu : NodeRef) (hc : s.valid cpu) (hres : addCpuNic h xmlNic s cpu = Except.ok s1) :
    Built h AnyLink GpuFabric s s1 := by
  unfold addCpuNic at hres
  split at hres
  · rename_i nic hn
    exact built_of_fresh h s s s1
      (addNic_built h _ nic 0 s s1 hres (getNode_valid s _ _ nic hn).1)
  · split at hres
    · exact absurd hres (by simp)
    · rename_i r hcr
      have hcr' : createNode h s NodeType.NIC 0 = Except.ok (r.1, r.2) := hcr
      obtain ⟨-, hv1, hmono⟩ := createNode_valid h s r.1 NodeType.NIC 0 r.2 hcr'
      have b1 : Built h AnyLink GpuFabric s r.1 := built_create h _ _ s r.1 _ _ r.2 hcr'
      have b2 : Built h AnyLink GpuFabric r.1 (r.1.connectBoth cpu r.2 LINK_PCI h.LOC_WIDTH) :=
        built_link2 h _ _ r.1 cpu r.2 LINK_PCI _ (hmono cpu hc) hv1 trivial
      have hv2 := built_valid h _ _ _ _ b2 r.2 hv1
      exact built_trans h _ _ _ _ _ (built_trans h _ _ _ _ _ b1 b2)
        (built_of_fresh h _ _ s1 (addNic_built h _ r.2 0 _ s1 hres hv2))

theorem addCpuSubs_built (h : TopoHeader) (cpu : NodeRef) (subs : List ncclXmlNode) :
    ∀ (s s1 : ncclTopoSystem), s.valid cpu → addCpuSubs h subs s cpu = Except.ok s1 →
      Built h AnyLink GpuFabric s s1 := by
  induction subs with
  | nil =>
    intro s s1 _ hres
    simp only [addCpuSubs, Except.ok.injEq] at hres
    rw [← hres]
    exact built_refl h _ _ s
  | cons node rest ih =>
    intro s s1 hc hres
    simp only [addCpuSubs] at hres
    split at hres
    · exact absurd hres (by simp)
    · rename_i sa ha
      split at hres
      · exact absurd hres (by simp)
      · rename_i sb hb
        have b1 : Built h AnyLink GpuFabric s sa := by
          split_ifs at ha with hn
          · exact addPci_built_any h node s sa cpu hc ha
          · simp only [Except.ok.injEq] at ha
            rw [← ha]; exact built_refl h _ _ s
        have hc1 := built_valid h _ _ _ _ b1 cpu hc
        have b2 : Built h AnyLink GpuFabric sa sb := by
          split_ifs at hb with hn
          · exact addCpuNic_built h node sa sb cpu hc1 hb
          · simp only [Except.ok.injEq] at hb
            rw [← hb]; exact built_refl h _ _ sa
        have hc2 := built_valid h _ _ _ _ b2 cpu hc1
        exact built_trans h _ _ _ _ _ (built_trans h _ _ _ _ _ b1 b2) (ih sb s1 hc2 hres)

theorem addCpu_built (h : TopoHeader) (xmlCpu : ncclXmlNode) (s s1 : ncclTopoSystem)
    (hres : ncclTopoAddCpu h xmlCpu s = Except.ok s1) : Built h AnyLink GpuFabric s s1 := by
  unfold ncclTopoAddCpu at hres
  split at hres
  · exact absurd hres (by simp)
  · split at hres
    · exact absurd hres (by simp)
    · rename_i numaId _ _ r hcr
      have hcr' : createNode h s NodeType.CPU numaId = Except.ok (r.1, r.2) := hcr
      obtain ⟨-, hv1, -⟩ := createNode_valid h s r.1 NodeType.CPU numaId r.2 hcr'
      split at hres
      · exact absurd hres (by simp)
      · split at hres
        · exact absurd hres (by simp)
        · rename_i info _
          have b1 : Built h AnyLink GpuFabric s r.1 := built_create h _ _ s r.1 _ _ r.2 hcr'
          have b2 : Built h AnyLink GpuFabric r.1 (r.1.modifyNode r.2 (setCpu info)) :=
            built_attrs h _ _ r.1 r.2 (setCpu info) (fun n => ⟨rfl, rfl, rfl⟩)
          have hv2 := built_valid h _ _ _ _ b2 r.2 hv1
          exact built_trans h _ _ _ _ _ (built_trans h _ _ _ _ _ b1 b2)
            (addCpuSubs_built h r.2 _ _ s1 hv2 hres)

theorem addCpus_built (h : TopoHeader) (subs : List ncclXmlNode) :
    ∀ (s s1 : ncclTopoSystem), addCpus h subs s = Except.ok s1 →
      Built h AnyLink GpuFabric s s1 := by
  induction subs with
  | nil =>
    intro s s1 hres
    simp only [addCpus, Except.ok.injEq] at hres
    rw [← hres]
    exact built_refl h _ _ s
  | cons node rest ih =>
    intro s s1 hres
    simp only [addCpus] at hres
    split_ifs at hres with hn
    · split at hres
      · exact absurd hres (by simp)
      · rename_i sa ha
        exact built_trans h _ _ _ _ _ (addCpu_built h node s sa ha) (ih sa s1 hres)
    · exact ih s s1 hres

theorem findLocalCpu_valid (s : ncclTopoSystem) :
    ∀ (k : Nat) (node r : NodeRef), findLocalCpu s k node = Except.ok (some r) → s.valid r := by
  intro k
  induction k with
  | zero => intro node r hres; simp [findLocalCpu] at hres
  | succ k ih =>
    intro node r hres
    simp only [findLocalCpu] at hres
    split at hres
    · exact absurd hres (by simp)
    · rename_i n hn
      split_ifs at hres with ht
      · simp only [Except.ok.injEq, Option.some.injEq] at hres
        rw [← hres]
        exact (valid_iff_node? s node).2 ⟨n, hn⟩
      · have key : ∀ (ls : List ncclTopoLink) (init : Option NodeRef),
            (∀ c, init = some c → s.valid c) →
            ls.foldlM
              (fun (found : Option NodeRef) link =>
                match found with
                | some c => Except.ok (some c)
                | none =>
                  if link.type = LINK_PCI then findLocalCpu s k link.remNode
                  else Except.ok none) init = Except.ok (some r) → s.valid r := by
          intro ls
          induction ls with
          | nil =>
            intro init hinit hr
            simp only [List.foldlM, pure, Except.pure, Except.ok.injEq] at hr
            exact hinit r hr
          | cons l ls ihl =>
            intro init hinit hr
            simp only [List.foldlM, bind, Except.bind] at hr
            split at hr
            · exact absurd hr (by simp)
            · rename_i v hv
              apply ihl v _ hr
              intro c hc
              subst hc
              cases init with
              | some c0 =>
                simp only [Except.ok.injEq, Option.some.injEq] at hv
                rw [← hv]; exact hinit c0 rfl
              | none =>
                simp only at hv
                split_ifs at hv with hp
                · exact ih _ _ hv
                · simp at hv
        exact key n.live none (fun c hc => by simp at hc) hres

theorem xgmiRemote_built (h : TopoHeader) (fuel : Nat) (node : ncclXmlNode)
    (s : ncclTopoSystem) (gpu : NodeRef) (targetType : NodeType)
    (r : ncclTopoSystem × Option NodeRef)
    (hres : xgmiRemote h fuel node s gpu targetType = Except.ok r) :
    Built h AnyLink GpuFabric s r.1 ∧ ∀ x, r.2 = some x → r.1.valid x := by
  unfold xgmiRemote at hres
  split_ifs at hres with h1 h2 h3
  · split at hres
    · exact absurd hres (by simp)
    · split at hres
      · exact absurd hres (by simp)
      · rename_i busId _
        simp only [Except.ok.injEq] at hres
        rw [← hres]
        exact ⟨built_refl h _ _ s, fun x hx => (getNode_valid s _ _ x hx).1⟩
  · split at hres
    · exact absurd hres (by simp)
    · rename_i remote hf
      simp only [Except.ok.injEq] at hres
      rw [← hres]
      refine ⟨built_refl h _ _ s, fun x hx => ?_⟩
      simp only at hx
      subst hx
      exact findLocalCpu_valid s fuel gpu x hf
  · split at hres
    · exact absurd hres (by simp)
    · rename_i c hc
      have hc' : createNode h s NodeType.NVS 0 = Except.ok (c.1, c.2) := hc
      simp only [Except.ok.injEq] at hres
      rw [← hres]
      refine ⟨built_create h _ _ s c.1 _ _ c.2 hc', fun x hx => ?_⟩
      simp only [Option.some.injEq] at hx
      rw [← hx]
      exact (createNode_valid h s c.1 NodeType.NVS 0 c.2 hc').2.1
  · simp only [Except.ok.injEq] at hres
    rw [← hres]
    refine ⟨built_refl h _ _ s, fun x hx => ?_⟩
    simp only [Option.some.injEq] at hx
    rw [← hx]
    unfold ncclTopoSystem.valid
    exact Nat.pos_of_ne_zero h3

theorem xgmiConnect_built (h : TopoHeader) (s s1 : ncclTopoSystem) (gpu : NodeRef)
    (count : Int) (remote : Option NodeRef) (hg : GoodSystem s) (hgpu : gpu.type = NodeType.GPU)
    (hres : xgmiConnect h s gpu count remote = Except.ok s1) :
    Built h AnyLink GpuFabric s s1 := by
  unfold xgmiConnect at hres
  split at hres
  · simp only [Except.ok.injEq] at hres
    rw [← hres]; exact built_refl h _ _ s
  · rename_i rem
    split at hres
    · rename_i gpuNode remoteNode hgn hrn
      have hvg := (valid_iff_node? s gpu).2 ⟨gpuNode, hgn⟩
      have hvr := (valid_iff_node? s rem).2 ⟨remoteNode, hrn⟩
      split_ifs at hres with ht
      · simp only [Except.ok.injEq] at hres
        rw [← hres]
        exact built_link2 h _ _ s gpu rem LINK_NVL _ hvg hvr trivial
      · simp only [Except.ok.injEq] at hres
        rw [← hres]
        refine built_link1 h _ _ s gpu rem LINK_NVL _ hvg hvr ⟨rfl, hgpu, ?_⟩
        have := (good_node? s hg rem remoteNode hrn).2.1
        rw [← this]
        exact not_not.1 ht
    · exact absurd hres (by simp)

theorem addXgmiEntry_built (h : TopoHeader) (fuel : Nat) (node : ncclXmlNode)
    (s s1 : ncclTopoSystem) (parentBusId : Option String) (hg : GoodSystem s)
    (hres : addXgmiEntry h fuel node s parentBusId = Except.ok s1) :
    Built h AnyLink GpuFabric s s1 := by
  unfold addXgmiEntry at hres
  split at hres
  · exact absurd hres (by simp)
  · split at hres
    · exact absurd hres (by simp)
    · split at hres
      · exact absurd hres (by simp)
      · rename_i gpu hgpu
        split at hres
        · exact absurd hres (by simp)
        · split at hres
          · exact absurd hres (by simp)
          · split at hres
            · exact absurd hres (by simp)
            · rename_i r hr
              obtain ⟨b1, -⟩ := xgmiRemote_built h fuel node s gpu _ r hr
              exact built_trans h _ _ _ _ _ b1
                (xgmiConnect_built h r.1 s1 gpu _ r.2 (built_good h _ _ s r.1 b1 hg)
                  (getNode_valid s _ _ gpu hgpu).2 hres)

mutual

theorem addXGMI_built (h : TopoHeader) (fuel : Nat) :
    ∀ (node : ncclXmlNode) (s : ncclTopoSystem) (busId : Option String) (s1 : ncclTopoSystem),
      ncclTopoAddXGMI h fuel node s busId = Except.ok s1 → GoodSystem s →
        Built h AnyLink GpuFabric s s1
  | ncclXmlNode.mk name attrs subs, s, busId, s1, hres, hg => by
    unfold ncclTopoAddXGMI at hres
    simp only at hres
    split_ifs at hres with hn
    · exact addXgmiEntry_built h fuel _ s s1 busId hg hres
    · exact xgmiSubs_built h fuel subs s _ s1 hres hg

theorem xgmiSubs_built (h : TopoHeader) (fuel : Nat) :
    ∀ (subs : List ncclXmlNode) (s : ncclTopoSystem) (busId : Option String)
      (s1 : ncclTopoSystem),
      ncclTopoAddXGMI.subsLoop h fuel subs s busId = Except.ok s1 → GoodSystem s →
        Built h AnyLink GpuFabric s s1
  | [], s, busId, s1, hres, _ => by
    unfold ncclTopoAddXGMI.subsLoop at hres
    simp only [Except.ok.injEq] at hres
    rw [← hres]
    exact built_refl h _ _ s
  | x :: rest, s, busId, s1, hres, hg => by
    unfold ncclTopoAddXGMI.subsLoop at hres
    split at hres
    · exact absurd hres (by simp)
    · rename_i sa ha
      have b1 := addXGMI_built h fuel x s busId sa ha hg
      exact built_trans h _ _ _ _ _ b1
        (xgmiSubs_built h fuel rest sa busId s1 hres (built_good h _ _ s sa b1 hg))

end

theorem good_empty : GoodSystem {} := by
  intro t n hn
  cases t <;> simp [ncclTopoSystem.nodes] at hn

theorem buildGraph_built (h : TopoHeader) (fuel : Nat) (topNode : ncclXmlNode)
    (s1 : ncclTopoSystem) (hres : buildGraph h fuel topNode = Except.ok s1) :
    Built h AnyLink GpuFabric {} s1 := by
  unfold buildGraph at hres
  split at hres
  · exact absurd hres (by simp)
  · rename_i sa ha
    have b1 := addCpus_built h _ _ sa ha
    exact built_trans h _ _ _ _ _ b1
      (addXGMI_built h fuel topNode sa none s1 hres (built_good h _ _ _ sa b1 good_empty))

theorem gpuFabric_symm (a b : NodeRef) (t : Nat) (hf : GpuFabric a b t) : GpuFabric b a t :=
  ⟨hf.1, hf.2.2, hf.2.1⟩

theorem hasLink_create (h : TopoHeader) (s s1 : ncclTopoSystem) (k : NodeType) (id : Int)
    (r : NodeRef) (hc : createNode h s k id = Except.ok (s1, r)) (a b : NodeRef) (t : Nat)
    (hne : a ≠ b) : hasLink s1 a b t ↔ hasLink s a b t := by
  unfold hasLink
  by_cases ha : s.valid a
  · rw [linksFrom_create h s s1 k id r hc a b t ha]
  · rw [linksFrom_of_not_valid s a b t ha]
    simp only [ne_eq, not_true_eq_false, iff_false, not_not]
    unfold linksFrom
    rw [createNode_node? h s s1 k id r hc]
    obtain ⟨hr, -⟩ := createNode_ok h s s1 k id r hc
    by_cases har : a = r
    · simp only [har, if_true]
      unfold linksTo
      rw [List.filter_eq_nil_iff]
      intro l hl
      have := newNode_links h k id (s.count k) l (List.mem_of_mem_take hl)
      rw [← hr] at this
      simp only [linkIs, Bool.and_eq_true, decide_eq_true_eq, not_and]
      intro hb
      exact absurd (hb.symm.trans (this.trans har.symm)) (Ne.symm hne)
    · simp only [har, if_false]
      cases hx : s.node? a with
      | none => rfl
      | some n => exact absurd ((valid_iff_node? s a).2 ⟨n, hx⟩) ha

theorem hasLink_connectBoth (s : ncclTopoSystem) (hg : GoodSystem s) (x y a b : NodeRef)
    (t' t : Nat) (w : ℚ) (hx : s.valid x) (hy : s.valid y) :
    hasLink (s.connectBoth x y t' w) a b t ↔
      hasLink s a b t ∨ (a = x ∧ b = y ∧ t = t') ∨ (a = y ∧ b = x ∧ t = t') := by
  unfold ncclTopoSystem.connectBoth
  rw [hasLink_connect _ (good_connect s x y t' w hg hy) y x a b t' t w
    ((valid_connect s x y y t' w).2 hy), hasLink_connect s hg x y a b t' t w hx]
  tauto

theorem step_symmetric (h : TopoHeader) (s s1 : ncclTopoSystem)
    (hs : BuildStep h AnyLink GpuFabric s s1) (hg : GoodSystem s) (hsym : SymmetricLinks s) :
    SymmetricLinks s1 := by
  intro a b t hnf
  have hnf' : ¬ GpuFabric b a t := fun hf => hnf (gpuFabric_symm b a t hf)
  cases hs with
  | create k id _ r hc =>
    by_cases hab : a = b
    · rw [hab]
    · rw [hasLink_create h s s1 k id r hc a b t hab,
        hasLink_create h s s1 k id r hc b a t (Ne.symm hab)]
      exact hsym a b t hnf
  | attrs r f hf =>
    unfold hasLink
    rw [linksFrom_modify_attrs s r a b t f hf, linksFrom_modify_attrs s r b a t f hf]
    exact hsym a b t hnf
  | link2 x y t' w hx hy _ =>
    rw [hasLink_connectBoth s hg x y a b t' t w hx hy,
      hasLink_connectBoth s hg x y b a t' t w hx hy, hsym a b t hnf]
    tauto
  | link1 x y t' w hx hy hq =>
    rw [hasLink_connect s hg x y a b t' t w hx, hasLink_connect s hg x y b a t' t w hx,
      hsym a b t hnf]
    have n1 : ¬ (a = x ∧ b = y ∧ t = t') := by
      rintro ⟨rfl, rfl, rfl⟩; exact hnf hq
    have n2 : ¬ (b = x ∧ a = y ∧ t = t') := by
      rintro ⟨rfl, rfl, rfl⟩; exact hnf' hq
    simp only [n1, n2, or_false]

theorem built_symmetric (h : TopoHeader) (s s1 : ncclTopoSystem)
    (hb : Built h AnyLink GpuFabric s s1) (hg : GoodSystem s) (hsym : SymmetricLinks s) :
    SymmetricLinks s1 := by
  induction hb with
  | refl => exact hsym
  | @tail s2 s3 hb2 hstep ih =>
    exact step_symmetric h s2 s3 hstep (built_good h _ _ s s2 hb2 hg) ih

theorem symmetric_empty : SymmetricLinks {} := by
  intro a b t _
  unfold hasLink
  rw [linksFrom_of_not_valid, linksFrom_of_not_valid]
  · unfold ncclTopoSystem.valid ncclTopoSystem.count
    cases b with
    | mk bt bi => cases bt <;> simp [ncclTopoSystem.nodes]
  · unfold ncclTopoSystem.valid ncclTopoSystem.count
    cases a with
    | mk at_ ai => cases at_ <;> simp [ncclTopoSystem.nodes]

theorem connectCpuPair_spec (h : TopoHeader) (n p : Nat) (s : ncclTopoSystem)
    (hg : GoodSystem s) (hp : p < s.count NodeType.CPU) :
    GoodSystem (connectCpuPair h n s p) ∧
    (∀ t, (connectCpuPair h n s p).count t = s.count t) ∧
    ∀ a b t, hasLink (connectCpuPair h n s p) a b t ↔
      hasLink s a b t ∨ (n < s.count NodeType.CPU ∧ n ≠ p ∧
        a = { type := NodeType.CPU, index := n } ∧ b = { type := NodeType.CPU, index := p } ∧
        t = LINK_SYS) := by
  unfold connectCpuPair
  split_ifs with hnp
  · refine ⟨hg, fun _ => rfl, fun a b t => ?_⟩
    simp [hnp]
  · cases hx : s.node? { type := NodeType.CPU, index := n } with
    | none =>
      refine ⟨hg, fun _ => rfl, fun a b t => ?_⟩
      have : ¬ n < s.count NodeType.CPU := fun hlt =>
        absurd ((valid_iff_node? s { type := NodeType.CPU, index := n }).1 hlt)
          (by simp [hx])
      simp [this]
    | some cpu =>
      have hv : s.valid { type := NodeType.CPU, index := n } :=
        (valid_iff_node? s _).2 ⟨cpu, hx⟩
      refine ⟨good_connect s _ _ _ _ hg hp, fun t => count_connect s _ _ _ _ t, fun a b t => ?_⟩
      simp only
      rw [hasLink_connect s hg _ _ a b _ t _ hv]
      have hv' : n < s.count NodeType.CPU := hv
      simp [hv', hnp]

theorem connectCpuRow_spec (h : TopoHeader) (n : Nat) (ps : List Nat) :
    ∀ s : ncclTopoSystem, GoodSystem s → (∀ p ∈ ps, p < s.count NodeType.CPU) →
      GoodSystem (ps.foldl (connectCpuPair h n) s) ∧
      (∀ t, (ps.foldl (connectCpuPair h n) s).count t = s.count t) ∧
      ∀ a b t, hasLink (ps.foldl (connectCpuPair h n) s) a b t ↔
        hasLink s a b t ∨ (n < s.count NodeType.CPU ∧ a = { type := NodeType.CPU, index := n } ∧
          b.type = NodeType.CPU ∧ b.index ∈ ps ∧ n ≠ b.index ∧ t = LINK_SYS) := by
  induction ps with
  | nil => intro s hg _; exact ⟨hg, fun _ => rfl, fun a b t => by simp⟩
  | cons p ps ih =>
    intro s hg hps
    obtain ⟨g1, c1, l1⟩ := connectCpuPair_spec h n p s hg (hps p (List.mem_cons_self _ _))
    obtain ⟨g2, c2, l2⟩ := ih (connectCpuPair h n s p) g1 (fun q hq => by
      rw [c1]; exact hps q (List.mem_cons_of_mem _ hq))
    simp only [List.foldl_cons]
    refine ⟨g2, fun t => (c2 t).trans (c1 t), fun a b t => ?_⟩
    rw [l2, l1, c1]
    constructor
    · rintro ((hl | ⟨hn, hnp, ha, hb, ht⟩) | ⟨hn, ha, hbt, hbi, hnb, ht⟩)
      · exact Or.inl hl
      · right; subst hb; exact ⟨hn, ha, rfl, List.mem_cons_self _ _, hnp, ht⟩
      · right; exact ⟨hn, ha, hbt, List.mem_cons_of_mem _ hbi, hnb, ht⟩
    · rintro (hl | ⟨hn, ha, hbt, hbi, hnb, ht⟩)
      · exact Or.inl (Or.inl hl)
      · rcases List.mem_cons.1 hbi with hbp | hbi
        · left; right
          refine ⟨hn, hbp ▸ hnb, ha, ?_, ht⟩
          cases b with
          | mk bt bi => simp only at hbt hbp; rw [hbt, hbp]
        · right; exact ⟨hn, ha, hbt, hbi, hnb, ht⟩

theorem connectCpuRows_spec (h : TopoHeader) (ns : List Nat) :
    ∀ s : ncclTopoSystem, GoodSystem s →
      GoodSystem (ns.foldl (fun s n => (List.range (s.count NodeType.CPU)).foldl
        (connectCpuPair h n) s) s) ∧
      (∀ t, (ns.foldl (fun s n => (List.range (s.count NodeType.CPU)).foldl
        (connectCpuPair h n) s) s).count t = s.count t) ∧
      ∀ a b t, hasLink (ns.foldl (fun s n => (List.range (s.count NodeType.CPU)).foldl
          (connectCpuPair h n) s) s) a b t ↔
        hasLink s a b t ∨ (a.type = NodeType.CPU ∧ a.index ∈ ns ∧
          a.index < s.count NodeType.CPU ∧ b.type = NodeType.CPU ∧
          b.index < s.count NodeType.CPU ∧ a.index ≠ b.index ∧ t = LINK_SYS) := by
  induction ns with
  | nil => intro s hg; exact ⟨hg, fun _ => rfl, fun a b t => by simp⟩
  | cons n ns ih =>
    intro s hg
    obtain ⟨g1, c1, l1⟩ := connectCpuRow_spec h n (List.range (s.count NodeType.CPU)) s hg
      (fun p hp => List.mem_range.1 hp)
    obtain ⟨g2, c2, l2⟩ := ih _ g1
    simp only [List.foldl_cons]
    refine ⟨g2, fun t => (c2 t).trans (c1 t), fun a b t => ?_⟩
    rw [l2, l1, c1]
    constructor
    · rintro ((hl | ⟨hn, ha, hbt, hbi, hnb, ht⟩) | ⟨hat, hai, hal, hbt, hbl, hab, ht⟩)
      · exact Or.inl hl
      · right
        subst ha
        exact ⟨rfl, List.mem_cons_self _ _, hn, hbt, List.mem_range.1 hbi, hnb, ht⟩
      · right; exact ⟨hat, List.mem_cons_of_mem _ hai, hal, hbt, hbl, hab, ht⟩
    · rintro (hl | ⟨hat, hai, hal, hbt, hbl, hab, ht⟩)
      · exact Or.inl (Or.inl hl)
      · rcases List.mem_cons.1 hai with han | hai
        · left; right
          refine ⟨han ▸ hal, ?_, hbt, List.mem_range.2 hbl, han ▸ hab, ht⟩
          cases a with
          | mk at_ ai => simp only at hat han; rw [hat, han]
        · right; exact ⟨hat, hai, hal, hbt, hbl, hab, ht⟩

theorem connectCpus_hasLink (h : TopoHeader) (s : ncclTopoSystem) (hg : GoodSystem s) :
    GoodSystem (ncclTopoConnectCpus h s) ∧
    ∀ a b t, hasLink (ncclTopoConnectCpus h s) a b t ↔
      hasLink s a b t ∨ (a.type = NodeType.CPU ∧ a.index < s.count NodeType.CPU ∧
        b.type = NodeType.CPU ∧ b.index < s.count NodeType.CPU ∧ a.index ≠ b.index ∧
        t = LINK_SYS) := by
  obtain ⟨g, -, l⟩ := connectCpuRows_spec h (List.range (s.count NodeType.CPU)) s hg
  refine ⟨g, fun a b t => ?_⟩
  unfold ncclTopoConnectCpus
  rw [l]
  simp only [List.mem_range]
  tauto

theorem connectCpus_symmetric (h : TopoHeader) (s : ncclTopoSystem) (hg : GoodSystem s)
    (hsym : SymmetricLinks s) : SymmetricLinks (ncclTopoConnectCpus h s) := by
  intro a b t hnf
  obtain ⟨-, l⟩ := connectCpus_hasLink h s hg
  rw [l, l, hsym a b t hnf]
  have : (a.index ≠ b.index) ↔ (b.index ≠ a.index) := ⟨Ne.symm, Ne.symm⟩
  tauto

theorem foldlM_invariant {α β ε : Type} (f : β → α → Except ε β) (I : β → Prop)
    (hf : ∀ b a b1, I b → f b a = Except.ok b1 → I b1) :
    ∀ (l : List α) (b b1 : β), I b → l.foldlM f b = Except.ok b1 → I b1 := by
  intro l
  induction l with
  | nil =>
    intro b b1 hb hr
    simp only [List.foldlM, pure, Except.pure, Except.ok.injEq] at hr
    rw [← hr]; exact hb
  | cons a l ih =>
    intro b b1 hb hr
    simp only [List.foldlM, bind, Except.bind] at hr
    split at hr
    · exact absurd hr (by simp)
    · rename_i v hv
      exact ih v b1 (hf b a v hb hv) hr

theorem sortUp_perm (links links1 : List ncclTopoLink) (up : NodeRef)
    (hs : sortUp links up = some links1) : links1.Perm links := by
  unfold sortUp at hs
  simp only at hs
  split at hs
  · exact absurd hs (by simp)
  · rename_i upLink hl
    simp only [Option.some.injEq] at hs
    rw [← hs]
    obtain ⟨hlt, hx⟩ := List.getElem?_eq_some_iff.1 hl
    have h1 : links = links.take (links.findIdx (fun x => decide (x.remNode = up))) ++
        upLink :: links.drop (links.findIdx (fun x => decide (x.remNode = up)) + 1) := by
      rw [← hx, ← List.drop_eq_getElem_cons hlt, List.take_append_drop]
    rw [List.eraseIdx_eq_take_drop_succ]
    conv_rhs => rw [h1]
    rw [List.append_assoc]
    exact List.Perm.append_left _ (List.perm_append_singleton _ _)

theorem good_modifyNode_at (s : ncclTopoSystem) (a : NodeRef) (n : ncclTopoNode)
    (f : ncclTopoNode → ncclTopoNode) (hn : s.node? a = some n) (hg : GoodSystem s)
    (hf : GoodNode s a.type (f n)) : GoodSystem (s.modifyNode a f) := by
  intro t m hm
  have hv : ∀ r, s.valid r → (s.modifyNode a f).valid r := fun r hr =>
    (valid_modifyNode s a r f).2 hr
  apply goodNode_of_valid_mono s _ t m hv
  rw [nodes_modifyNode] at hm
  by_cases ht : t = a.type
  · subst ht
    simp only [if_true] at hm
    obtain ⟨i, hi⟩ := List.mem_iff_getElem?.1 hm
    rw [List.getElem?_modify] at hi
    cases hx : (s.nodes a.type)[i]? with
    | none => simp [hx] at hi
    | some m0 =>
      simp only [hx, Option.map_some', Option.some.injEq] at hi
      split_ifs at hi with hai
      · simp only [Option.map_eq_map, Option.map_some', Option.some.injEq] at hi
        rw [← hi]
        have : m0 = n := by
          unfold ncclTopoSystem.node? at hn
          rw [hai, hx] at hn
          exact Option.some.inj hn
        rw [this]; exact hf
      · simp only [Option.map_eq_map, Option.map_some', Option.some.injEq] at hi
        rw [← hi]; exact hg _ m0 (List.getElem?_mem hx)
  · simp only [ht, if_false] at hm
    exact hg t m hm

theorem linksFrom_setLinks (s : ncclTopoSystem) (a : NodeRef) (n : ncclTopoNode)
    (links1 : List ncclTopoLink) (hn : s.node? a = some n) (hwf : n.nlinks = n.links.length)
    (hp : links1.Perm n.links) (x b : NodeRef) (t : Nat) :
    (linksFrom (s.modifyNode a (fun y => { y with links := links1 })) x b t).Perm
      (linksFrom s x b t) := by
  unfold linksFrom
  rw [node?_modifyNode]
  by_cases hx : x = a
  · subst hx
    simp only [if_true, hn, Option.map_some']
    have h1 : ({ n with links := links1 } : ncclTopoNode).live = links1 := by
      simp [ncclTopoNode.live, hwf, hp.length_eq]
    rw [h1, live_of_wf n hwf]
    exact hp.filter _
  · simp [hx]

/-- What `ncclTopoSort` keeps: well-formedness and which links exist. -/
theorem sort_keeps_links :
    ∀ (k : Nat) (s : ncclTopoSystem) (node : NodeRef) (up : Option NodeRef)
      (s1 : ncclTopoSystem), GoodSystem s → ncclTopoSort k s node up = Except.ok s1 →
        GoodSystem s1 ∧ ∀ a b t, hasLink s1 a b t ↔ hasLink s a b t := by
  intro k
  induction k with
  | zero => intro s node up s1 _ hres; simp [ncclTopoSort] at hres
  | succ k ih =>
    intro s node up s1 hg hres
    simp only [ncclTopoSort] at hres
    split at hres
    · exact absurd hres (by simp)
    · rename_i n hn
      split at hres
      · exact absurd hres (by simp)
      · rename_i sA hA
        have hshift : GoodSystem sA ∧ ∀ a b t, hasLink sA a b t ↔ hasLink s a b t := by
          split at hA
          · simp only [Except.ok.injEq] at hA
            rw [← hA]; exact ⟨hg, fun _ _ _ => Iff.rfl⟩
          · rename_i upNode
            split at hA
            · exact absurd hA (by simp)
            · rename_i links1 hl
              simp only [Except.ok.injEq] at hA
              rw [← hA]
              have hp := sortUp_perm n.links links1 upNode hl
              have hgn := good_node? s hg node n hn
              refine ⟨good_modifyNode_at s node n _ hn hg
                ⟨by simp [hgn.1, hp.length_eq], hgn.2.1,
                  fun l hl1 => hgn.2.2 l (hp.mem_iff.1 hl1)⟩, fun a b t => ?_⟩
              have hq := linksFrom_setLinks s node n links1 hn hgn.1 hp a b t
              unfold hasLink
              constructor
              · intro h1 h2; rw [h2] at hq; exact h1 hq.eq_nil
              · intro h1 h2; rw [h2] at hq; exact h1 hq.symm.eq_nil
        refine foldlM_invariant _
          (fun s2 => GoodSystem s2 ∧ ∀ a b t, hasLink s2 a b t ↔ hasLink s a b t)
          ?_ (List.range n.nlinks) sA s1 hshift hres
        intro s2 l s3 hI hstep
        simp only at hstep
        split at hstep
        · exact absurd hstep (by simp)
        · split at hstep
          · simp only [Except.ok.injEq] at hstep
            rw [← hstep]; exact hI
          · split_ifs at hstep with hc
            · obtain ⟨g3, l3⟩ := ih s2 _ _ s3 hI.1 hstep
              exact ⟨g3, fun a b t => (l3 a b t).trans (hI.2 a b t)⟩
            · simp only [Except.ok.injEq] at hstep
              rw [← hstep]; exact hI

theorem sortSystem_keeps_links (fuel : Nat) (s s1 : ncclTopoSystem) (hg : GoodSystem s)
    (hres : ncclTopoSortSystem fuel s = Except.ok s1) :
    GoodSystem s1 ∧ ∀ a b t, hasLink s1 a b t ↔ hasLink s a b t := by
  unfold ncclTopoSortSystem at hres
  refine foldlM_invariant _
    (fun s2 => GoodSystem s2 ∧ ∀ a b t, hasLink s2 a b t ↔ hasLink s a b t)
    ?_ _ s s1 ⟨hg, fun _ _ _ => Iff.rfl⟩ hres
  intro s2 n s3 hI hstep
  obtain ⟨g3, l3⟩ := sort_keeps_links fuel s2 _ _ s3 hI.1 hstep
  exact ⟨g3, fun a b t => (l3 a b t).trans (hI.2 a b t)⟩

theorem sampleXgmiBuilt_eq :
    buildGraph sampleHeader 10 sampleXgmiTree = Except.ok sampleXgmiBuilt := by
  apply toOption_eq_some
  decide!

theorem sampleXgmiSystem_eq :
    ncclTopoGetSystemFromXml sampleHeader 10 sampleXgmiTree = Except.ok sampleXgmiSystem := by
  apply toOption_eq_some
  decide!

theorem map_modify_of_eq {α β : Type} (g : α → β) (f : α → α) (hf : ∀ x, g (f x) = g x)
    (l : List α) (i : Nat) : (l.modify f i).map g = l.map g := by
  apply List.ext_getElem?
  intro j
  simp only [List.getElem?_map, List.getElem?_modify]
  cases l[j]? with
  | none => rfl
  | some x =>
    by_cases hij : i = j
    · simp [hij, hf]
    · simp [hij]

theorem map_mapIdx_of_eq {α β : Type} (g : α → β) (f : Nat → α → α)
    (hf : ∀ i x, g (f i x) = g x) (l : List α) : (l.mapIdx f).map g = l.map g := by
  apply List.ext_getElem?
  intro j
  simp only [List.getElem?_map, List.getElem?_mapIdx]
  cases l[j]? with
  | none => rfl
  | some x => simp [hf]

theorem mem_modify {α : Type} (f : α → α) (l : List α) (i : Nat) (y : α)
    (hy : y ∈ l.modify f i) : y ∈ l ∨ ∃ x ∈ l, y = f x := by
  obtain ⟨j, hj⟩ := List.mem_iff_getElem?.1 hy
  rw [List.getElem?_modify] at hj
  cases hx : l[j]? with
  | none => simp [hx] at hj
  | some x =>
    have hm : x ∈ l := List.getElem?_mem hx
    simp only [hx, Option.map_eq_map, Option.map_some', Option.some.injEq] at hj
    split_ifs at hj
    · right; exact ⟨x, hm, hj.symm⟩
    · left; rw [← hj]; exact hm

theorem mem_mapIdx {α : Type} (f : Nat → α → α) (l : List α) (y : α)
    (hy : y ∈ l.mapIdx f) : ∃ i, ∃ x ∈ l, y = f i x := by
  obtain ⟨j, hj⟩ := List.mem_iff_getElem?.1 hy
  rw [List.getElem?_mapIdx] at hj
  cases hx : l[j]? with
  | none => simp [hx] at hj
  | some x =>
    simp only [hx, Option.map_some', Option.some.injEq] at hj
    exact ⟨j, x, List.getElem?_mem hx, hj.symm⟩

theorem pciKeys_modifyNode (s : ncclTopoSystem) (r : NodeRef) (f : ncclTopoNode → ncclTopoNode)
    (hf : ∀ n, (f n).id = n.id ∧ (f n).pci = n.pci ∧ (f n).type = n.type) :
    pciKeys (s.modifyNode r f) = pciKeys s ∧ (TypedNodes s → TypedNodes (s.modifyNode r f)) := by
  constructor
  · unfold pciKeys
    rw [nodes_modifyNode]
    split_ifs
    · exact map_modify_of_eq _ f (fun x => by rw [(hf x).1, (hf x).2.1]) _ _
    · rfl
  · intro ht t n hn
    rw [nodes_modifyNode] at hn
    split_ifs at hn
    · rcases mem_modify f _ _ n hn with h1 | ⟨x, hx, rfl⟩
      · exact ht t n h1
      · rw [(hf x).2.2]; exact ht t x hx
    · exact ht t n hn

theorem unlinkAll_keys (del : NodeRef) (t : NodeType) (nodes : List ncclTopoNode) :
    (unlinkAll del t nodes).map (fun n => (n.id, n.pci.device))
      = nodes.map (fun n => (n.id, n.pci.device)) := by
  unfold unlinkAll
  apply map_mapIdx_of_eq
  intro i x
  split_ifs <;> rfl

theorem unlinkAll_typed (del : NodeRef) (t k : NodeType) (nodes : List ncclTopoNode)
    (hn : ∀ n ∈ nodes, n.type = k) : ∀ n ∈ unlinkAll del t nodes, n.type = k := by
  intro n hm
  unfold unlinkAll at hm
  obtain ⟨i, x, hx, rfl⟩ := mem_mapIdx _ _ _ hm
  split_ifs
  · exact hn x hx
  · exact hn x hx

theorem removeNode_nodes (s : ncclTopoSystem) (type : NodeType) (index : Nat) (t : NodeType) :
    (ncclTopoRemoveNode s type index).nodes t =
      if t = type then
        (unlinkAll { type := type, index := index } t (s.nodes t)).eraseIdx index
      else unlinkAll { type := type, index := index } t (s.nodes t) := by
  unfold ncclTopoRemoveNode
  simp only
  rw [nodes_setNodes]
  by_cases h : t = type
  · subst h
    simp only [if_true]
    cases t <;> rfl
  · simp only [h, if_false]
    cases t <;> rfl

theorem removeNode_keys (s : ncclTopoSystem) (index : Nat) :
    pciKeys (ncclTopoRemoveNode s NodeType.PCI index) = (pciKeys s).eraseIdx index ∧
      (TypedNodes s → TypedNodes (ncclTopoRemoveNode s NodeType.PCI index)) := by
  constructor
  · unfold pciKeys
    rw [removeNode_nodes]
    simp only [if_true]
    rw [← unlinkAll_keys { type := NodeType.PCI, index := index } NodeType.PCI
      (s.nodes NodeType.PCI)]
    apply List.ext_getElem?
    intro j
    simp only [List.getElem?_map, List.getElem?_eraseIdx]
    split_ifs <;> rfl
  · intro ht t n hn
    rw [removeNode_nodes] at hn
    split_ifs at hn
    · exact unlinkAll_typed _ t t _ (ht t) n (List.mem_of_mem_eraseIdx hn)
    · exact unlinkAll_typed _ t t _ (ht t) n hn

theorem spliceStep_keys (p sub : NodeRef) (s s1 : ncclTopoSystem) (l : Nat)
    (hres : spliceStep p sub s l = Except.ok s1) :
    pciKeys s1 = pciKeys s ∧ (TypedNodes s → TypedNodes s1) := by
  unfold spliceStep at hres
  split at hres
  · exact absurd hres (by simp)
  · split at hres
    · exact absurd hres (by simp)
    · rename_i link _
      split_ifs at hres
      · simp only [Except.ok.injEq] at hres
        rw [← hres]; exact ⟨rfl, id⟩
      · simp only at hres
        split at hres
        · exact absurd hres (by simp)
        · simp only [Except.ok.injEq] at hres
          rw [← hres]
          have h1 := pciKeys_modifyNode s p (appendLink link) (fun n => ⟨rfl, rfl, rfl⟩)
          have h2 := pciKeys_modifyNode (s.modifyNode p (appendLink link)) link.remNode
            (redirectFirst sub p) (fun n => by
              unfold redirectFirst
              simp only
              split_ifs <;> exact ⟨rfl, rfl, rfl⟩)
          exact ⟨h2.1.trans h1.1, fun ht => h2.2 (h1.2 ht)⟩

theorem idToIndex_spec (s : ncclTopoSystem) (id : Int) (i : Nat)
    (hres : ncclTopoIdToIndex s NodeType.PCI id = Except.ok i) :
    ∃ d, (pciKeys s)[i]? = some (id, d) := by
  unfold ncclTopoIdToIndex at hres
  simp only at hres
  split_ifs at hres with hlt
  simp only [Except.ok.injEq] at hres
  unfold ncclTopoSystem.count at hlt
  have hp := @List.findIdx_getElem _ (fun n : ncclTopoNode => decide (n.id = id)) _ hlt
  simp only [decide_eq_true_eq] at hp
  rw [hres] at hlt
  refine ⟨((s.nodes NodeType.PCI)[i]).pci.device, ?_⟩
  unfold pciKeys
  rw [List.getElem?_map, List.getElem?_eq_getElem hlt]
  simp only [Option.map_some', Option.some.injEq, Prod.mk.injEq, and_true]
  rw [← hp]
  simp only [hres]

theorem fuseSub_keys (p : NodeRef) (s s1 : ncclTopoSystem) (id : Int)
    (hres : fuseSub p s id = Except.ok s1) :
    ∃ i d, (pciKeys s)[i]? = some (id, d) ∧ pciKeys s1 = (pciKeys s).eraseIdx i ∧
      (TypedNodes s → TypedNodes s1) := by
  unfold fuseSub at hres
  simp only [bind, Except.bind] at hres
  split at hres
  · exact absurd hres (by simp)
  · rename_i i hi
    obtain ⟨d, hd⟩ := idToIndex_spec s id i hi
    split at hres
    · exact absurd hres (by simp)
    · rename_i subNode _
      split at hres
      · exact absurd hres (by simp)
      · rename_i sa ha
        have hk : pciKeys sa = pciKeys s ∧ (TypedNodes s → TypedNodes sa) :=
          foldlM_invariant _ (fun x => pciKeys x = pciKeys s ∧ (TypedNodes s → TypedNodes x))
            (fun b a b1 hb hstep => by
              obtain ⟨e1, e2⟩ := spliceStep_keys _ _ b b1 a hstep
              exact ⟨e1.trans hb.1, fun ht => e2 (hb.2 ht)⟩)
            _ s sa ⟨rfl, fun x => x⟩ ha
        split at hres
        · exact absurd hres (by simp)
        · split_ifs at hres
          simp only [Except.ok.injEq] at hres
          rw [← hres]
          obtain ⟨r1, r2⟩ := removeNode_keys sa i
          exact ⟨i, d, hd, by rw [r1, hk.1], fun ht => r2 (hk.2 ht)⟩

theorem collectSubs_ids (s : ncclTopoSystem) (device : Nat) (ht : TypedNodes s) :
    ∀ (k l : Nat) (links : List ncclTopoLink) (nlinks : Nat) (subs : List Int)
      (r : List ncclTopoLink × Nat × List Int),
      collectSubs s device k l links nlinks subs = Except.ok r →
      (∀ id ∈ subs, (id, device) ∈ pciKeys s) → ∀ id ∈ r.2.2, (id, device) ∈ pciKeys s := by
  intro k
  induction k with
  | zero =>
    intro l links nlinks subs r hres hs
    simp only [collectSubs, Except.ok.injEq] at hres
    rw [← hres]; exact hs
  | succ k ih =>
    intro l links nlinks subs r hres hs
    simp only [collectSubs] at hres
    split_ifs at hres with hlt
    · split at hres
      · exact absurd hres (by simp)
      · rename_i link _
        split at hres
        · exact absurd hres (by simp)
        · rename_i sub hsub
          split_ifs at hres with hc
          · exact ih _ _ _ _ r hres hs
          · refine ih _ _ _ _ r hres ?_
            intro id hid
            rcases List.mem_append.1 hid with h1 | h1
            · exact hs id h1
            · simp only [List.mem_singleton] at h1
              simp only [ne_eq, not_or, not_not] at hc
              have hm := node?_mem s _ sub hsub
              have hty : link.remNode.type = NodeType.PCI := by
                rw [← ht _ sub hm]; exact hc.1
              rw [hty] at hm
              unfold pciKeys
              exact List.mem_map.2 ⟨sub, hm, by rw [h1, hc.2]⟩
    · simp only [Except.ok.injEq] at hres
      rw [← hres]; exact hs

theorem foldlM_invariant_mem {α β ε : Type} (f : β → α → Except ε β) (I : β → Prop)
    (l : List α) (hf : ∀ b, ∀ a ∈ l, ∀ b1, I b → f b a = Except.ok b1 → I b1) :
    ∀ (b b1 : β), I b → l.foldlM f b = Except.ok b1 → I b1 := by
  induction l with
  | nil =>
    intro b b1 hb hr
    simp only [List.foldlM, pure, Except.pure, Except.ok.injEq] at hr
    rw [← hr]; exact hb
  | cons a l ih =>
    intro b b1 hb hr
    simp only [List.foldlM, bind, Except.bind] at hr
    split at hr
    · exact absurd hr (by simp)
    · rename_i v hv
      exact ih (fun b2 a2 ha2 => hf b2 a2 (List.mem_cons_of_mem _ ha2)) v b1
        (hf b a (List.mem_cons_self _ _) v hb hv) hr

theorem keys_unique (K : List (Int × Nat)) (hn : (K.map Prod.fst).Nodup) (id : Int)
    (d1 d2 : Nat) (h1 : (id, d1) ∈ K) (h2 : (id, d2) ∈ K) : d1 = d2 := by
  have := List.inj_on_of_nodup_map hn h1 h2 rfl
  exact (Prod.mk.inj this).2

theorem pciKeys_setDevice (x : ncclTopoSystem) (s d : Nat) :
    pciKeys (x.modifyNode { type := NodeType.PCI, index := s }
        (fun n => { n with pci := { device := d } }))
      = (pciKeys x).modify (fun kd => (kd.1, d)) s := by
  unfold pciKeys
  rw [nodes_modifyNode]
  simp only [if_true]
  apply List.ext_getElem?
  intro j
  simp only [List.getElem?_map, List.getElem?_modify]
  cases (x.nodes NodeType.PCI)[j]? with
  | none => rfl
  | some n =>
    by_cases hsj : s = j
    · simp [hsj]
    · simp [hsj]

theorem typed_setDevice (x : ncclTopoSystem) (r : NodeRef) (d : Nat) (ht : TypedNodes x) :
    TypedNodes (x.modifyNode r (fun n => { n with pci := { device := d } })) := by
  intro t n hn
  rw [nodes_modifyNode] at hn
  split_ifs at hn
  · rcases mem_modify _ _ _ n hn with h1 | ⟨y, hy, rfl⟩
    · exact ht t n h1
    · exact ht t y hy
  · exact ht t n hn

/-- What flattening one switch keeps: the kinds, the distinctness of the ids, and a first PCI
node whose signature does not match. -/
theorem flattenSwitch_spec (sys sys1 : ncclTopoSystem) (s : Nat) (P : ncclTopoNode)
    (ht : TypedNodes sys) (hn : ((pciKeys sys).map Prod.fst).Nodup)
    (h0 : s ≠ 0 → ∀ kd, (pciKeys sys)[0]? = some kd → isBcmGen4 kd.2 = false)
    (hm : isBcmGen4 P.pci.device = true)
    (hres : flattenSwitch sys s P = Except.ok sys1) :
    TypedNodes sys1 ∧ ((pciKeys sys1).map Prod.fst).Nodup ∧
      ∀ kd, (pciKeys sys1)[0]? = some kd → isBcmGen4 kd.2 = false := by
  unfold flattenSwitch at hres
  simp only [bind, Except.bind] at hres
  split at hres
  · exact absurd hres (by simp)
  · rename_i r hr
    have hids := collectSubs_ids sys P.pci.device ht _ _ _ _ _ r hr (fun id hid => by
      simp at hid)
    split at hres
    · exact absurd hres (by simp)
    · rename_i s2 hfold
      simp only [Except.ok.injEq] at hres
      obtain ⟨k1, t1⟩ := pciKeys_modifyNode sys { type := NodeType.PCI, index := s }
        (fun n => { n with links := r.1, nlinks := r.2.1 }) (fun n => ⟨rfl, rfl, rfl⟩)
      have hinv := foldlM_invariant_mem (fuseSub { type := NodeType.PCI, index := s })
        (fun x => TypedNodes x ∧ (pciKeys x).Sublist (pciKeys sys) ∧
          (s ≠ 0 → (pciKeys x)[0]? = (pciKeys sys)[0]?)) r.2.2
        (fun b id hid b1 hb hstep => by
          obtain ⟨i, d, hi, he, hty⟩ := fuseSub_keys _ b b1 id hstep
          refine ⟨hty hb.1, ?_, ?_⟩
          · rw [he]; exact (List.eraseIdx_sublist _ _).trans hb.2.1
          · intro hs0
            rw [he, List.getElem?_eraseIdx]
            have hi0 : i ≠ 0 := by
              intro hi0
              rw [hi0, hb.2.2 hs0] at hi
              have hd := h0 hs0 _ hi
              have hmem : (id, d) ∈ pciKeys sys := List.getElem?_mem hi
              have := keys_unique _ hn id d P.pci.device hmem (hids id hid)
              simp only at hd
              rw [this, hm] at hd
              exact absurd hd (by simp)
            rw [if_pos (Nat.pos_of_ne_zero hi0)]
            exact hb.2.2 hs0)
        _ s2 ⟨t1 ht, by rw [k1], fun _ => by rw [k1]⟩ hfold
      rw [← hres]
      refine ⟨typed_setDevice s2 _ _ hinv.1, ?_, ?_⟩
      · rw [pciKeys_setDevice, map_modify_of_eq Prod.fst
          (fun kd : Int × Nat => (kd.1, flattenedDevice)) (fun x => rfl)]
        exact hn.sublist (hinv.2.1.map _)
      · intro kd hkd
        rw [pciKeys_setDevice, List.getElem?_modify] at hkd
        by_cases hs0 : s = 0
        · cases hx : (pciKeys s2)[0]? with
          | none => simp [hx] at hkd
          | some y =>
            simp only [hx, hs0, if_true, Option.map_eq_map, Option.map_some',
              Option.some.injEq] at hkd
            rw [← hkd]
            show isBcmGen4 flattenedDevice = false
            decide
        · cases hx : (pciKeys s2)[0]? with
          | none => simp [hx] at hkd
          | some y =>
            simp only [hx, hs0, if_false, Option.map_eq_map, Option.map_some',
              Option.some.injEq, id_eq] at hkd
            rw [← hkd]
            rw [hinv.2.2 hs0] at hx
            exact h0 hs0 y hx

theorem flattenLoop_spec :
    ∀ (k s : Nat) (sys out : ncclTopoSystem), TypedNodes sys →
      ((pciKeys sys).map Prod.fst).Nodup →
      (∀ i, i < s → ∀ kd, (pciKeys sys)[i]? = some kd → isBcmGen4 kd.2 = false) →
      flattenLoop k s sys = Except.ok out →
      ∀ kd ∈ pciKeys out, isBcmGen4 kd.2 = false := by
  intro k
  induction k with
  | zero => intro s sys out _ _ _ hres; simp [flattenLoop] at hres
  | succ k ih =>
    intro s sys out ht hn hlow hres
    simp only [flattenLoop] at hres
    split_ifs at hres with hlt
    · split at hres
      · exact absurd hres (by simp)
      · rename_i P hP
        split_ifs at hres with hmatch
        · split at hres
          · exact absurd hres (by simp)
          · rename_i sys1 h1
            obtain ⟨t1, n1, z1⟩ := flattenSwitch_spec sys sys1 s P ht hn
              (fun hs0 => hlow 0 (Nat.pos_of_ne_zero hs0)) hmatch h1
            refine ih 1 sys1 out t1 n1 ?_ hres
            intro i hi kd hkd
            have : i = 0 := by omega
            subst this
            exact z1 kd hkd
        · refine ih (s + 1) sys out ht hn ?_ hres
          intro i hi kd hkd
          by_cases his : i < s
          · exact hlow i his kd hkd
          · have : i = s := by omega
            subst this
            unfold pciKeys at hkd
            have hP' : (sys.nodes NodeType.PCI)[i]? = some P := hP
            rw [List.getElem?_map, hP'] at hkd
            simp only [Option.map_some', Option.some.injEq] at hkd
            rw [← hkd]
            simpa using hmatch
    · simp only [Except.ok.injEq] at hres
      rw [← hres]
      intro kd hkd
      obtain ⟨i, hi⟩ := List.mem_iff_getElem?.1 hkd
      have hil : i < (pciKeys sys).length := (List.getElem?_eq_some_iff.1 hi).1
      have hlen : (pciKeys sys).length = sys.count NodeType.PCI := by
        simp [pciKeys, ncclTopoSystem.count]
      exact hlow i (by omega) kd hi

theorem flattenLoop_fixed (sys : ncclTopoSystem) (hno : NoBcmGen4 sys) :
    ∀ (k i : Nat), i ≤ sys.count NodeType.PCI → sys.count NodeType.PCI + 1 ≤ k + i →
      flattenLoop k i sys = Except.ok sys := by
  intro k
  induction k with
  | zero => intro i h1 h2; omega
  | succ k ih =>
    intro i h1 h2
    simp only [flattenLoop]
    split_ifs with hlt
    · have hlt' : i < sys.pciNodes.length := hlt
      rw [List.getElem?_eq_getElem hlt']
      simp only
      rw [hno _ (List.getElem_mem hlt')]
      simp only [Bool.false_eq_true, if_false]
      exact ih (i + 1) hlt (by omega)
    · rfl

theorem typed_of_good (s : ncclTopoSystem) (hg : GoodSystem s) : TypedNodes s :=
  fun t n hn => (hg t n hn).2.1

/-- C4, as amended: for a graph the builder made in which the ids of the PCI nodes are
pairwise distinct, when `ncclTopoFlattenBcmSwitches` returns successfully no PCI node of the
result has a signature that matches the masked pattern, so no matching bridge with an
attached child of the same signature remains, and every further run of the pass (with a
budget above the number of PCI nodes) returns the result unchanged. -/
theorem flatten_leaves_no_signature (h : TopoHeader) (fuel k : Nat) (topNode : ncclXmlNode)
    (s1 s2 : ncclTopoSystem) (hb : buildGraph h fuel topNode = Except.ok s1)
    (hid : (s1.pciNodes.map (fun n => n.id)).Nodup)
    (hf : ncclTopoFlattenBcmSwitches k s1 = Except.ok s2) :
    (∀ n ∈ s2.pciNodes, isBcmGen4 n.pci.device = false) ∧
    (∀ n ∈ s2.pciNodes, ¬ (isBcmGen4 n.pci.device = true ∧
      ∃ l ∈ n.live, ∃ c, s2.node? l.remNode = some c ∧ c.type = NodeType.PCI ∧
        c.pci.device = n.pci.device)) ∧
    ∀ k2, s2.count NodeType.PCI < k2 → ncclTopoFlattenBcmSwitches k2 s2 = Except.ok s2 := by
  have hg := built_good h _ _ _ s1 (buildGraph_built h fuel topNode s1 hb) good_empty
  have hn : ((pciKeys s1).map Prod.fst).Nodup := by
    unfold pciKeys
    rw [List.map_map]
    exact hid
  have hall := flattenLoop_spec k 0 s1 s2 (typed_of_good s1 hg) hn
    (fun i hi => absurd hi (Nat.not_lt_zero i)) hf
  have hno : NoBcmGen4 s2 := fun n hm =>
    hall (n.id, n.pci.device) (List.mem_map.2 ⟨n, hm, rfl⟩)
  refine ⟨hno, fun n hm hc => ?_, fun k2 hk2 => ?_⟩
  · rw [hno n hm] at hc
    exact absurd hc.1 (by simp)
  · exact flattenLoop_fixed s2 hno k2 0 (Nat.zero_le _) (by omega)

theorem sampleBcmBuilt_eq :
    buildGraph sampleHeader 10 sampleBcmTree = Except.ok sampleBcmBuilt := by
  apply toOption_eq_some
  decide!

theorem sampleBcmFlat_eq :
    ncclTopoFlattenBcmSwitches 10 sampleBcmBuilt = Except.ok sampleBcmFlat := by
  apply toOption_eq_some
  decide!

theorem sampleBcmBuilt_ids : (sampleBcmBuilt.pciNodes.map (fun n => n.id)).Nodup := by
  decide!

/-- C4 at the sample bridge tree (a matching bridge with a matching child and a GPU): the
pass returns, and a second run returns the same topology. -/
theorem flatten_leaves_no_signature_witness :
    (buildGraph sampleHeader 10 sampleBcmTree = Except.ok sampleBcmBuilt ∧
      (sampleBcmBuilt.pciNodes.map (fun n => n.id)).Nodup ∧
      ncclTopoFlattenBcmSwitches 10 sampleBcmBuilt = Except.ok sampleBcmFlat) ∧
    (∀ n ∈ sampleBcmFlat.pciNodes, isBcmGen4 n.pci.device = false) ∧
    ncclTopoFlattenBcmSwitches 10 sampleBcmFlat = Except.ok sampleBcmFlat :=
  have hflat := flatten_leaves_no_signature sampleHeader 10 10 sampleBcmTree sampleBcmBuilt
    sampleBcmFlat sampleBcmBuilt_eq sampleBcmBuilt_ids sampleBcmFlat_eq
  ⟨⟨sampleBcmBuilt_eq, sampleBcmBuilt_ids, sampleBcmFlat_eq⟩, hflat.1,
    hflat.2.2 10 (by decide!)⟩

theorem sampleDupBuilt_eq :
    buildGraph sampleHeader 10 sampleDupTree = Except.ok sampleDupBuilt := by
  apply toOption_eq_some
  decide!

theorem sampleDupFlat_eq :
    ncclTopoFlattenBcmSwitches 10 sampleDupBuilt = Except.ok sampleDupFlat := by
  apply toOption_eq_some
  decide!

/-- C4, counterexample: in the tree with the repeated bus id the builder makes three PCI
nodes, with ids 69632, 65536, 69632, of which the second and third match the pattern.
`ncclTopoFlattenBcmSwitches` returns successfully with two PCI nodes, of which the first
(id 65536) still matches, and a second run of the pass changes the topology. -/
theorem flatten_keeps_signature_on_repeated_id :
    buildGraph sampleHeader 10 sampleDupTree = Except.ok sampleDupBuilt ∧
    pciSignatures sampleDupBuilt
      = [(69632, 1162514206958949507, false), (65536, 1153132679827333120, true),
         (69632, 1153132679827333120, true)] ∧
    ncclTopoFlattenBcmSwitches 10 sampleDupBuilt = Except.ok sampleDupFlat ∧
    pciSignatures sampleDupFlat
      = [(65536, 1153132679827333120, true), (69632, 1153132679827292160, false)] ∧
    ncclTopoFlattenBcmSwitches 10 sampleDupFlat ≠ Except.ok sampleDupFlat := by
  refine ⟨sampleDupBuilt_eq, by decide!, sampleDupFlat_eq, by decide!, ?_⟩
  intro hsame
  have h1 : (ncclTopoFlattenBcmSwitches 10 sampleDupFlat).toOption.map pciSignatures
      = some [(65536, 1153132679827292160, false), (69632, 1153132679827292160, false)] := by
    decide!
  rw [hsame] at h1
  have h2 : pciSignatures sampleDupFlat
      = [(65536, 1153132679827333120, true), (69632, 1153132679827292160, false)] := by
    decide!
  simp only [Except.toOption, Option.map_some', h2] at h1
  exact absurd h1 (by decide)

theorem memmove_live (links : List ncclTopoLink) (l nlinks : Nat) (hl : l < nlinks)
    (hn : nlinks ≤ links.length) :
    (memmoveLinks links l nlinks).take (nlinks - 1) = (links.take nlinks).eraseIdx l ∧
      (memmoveLinks links l nlinks).length = links.length := by
  unfold memmoveLinks
  constructor
  · have h1 : (links.take l ++ (links.drop (l + 1)).take (nlinks - l - 1)).length = nlinks - 1 := by
      simp only [List.length_append, List.length_take, List.length_drop]
      omega
    rw [List.take_left' h1, List.eraseIdx_eq_take_drop_succ, List.take_take,
      Nat.min_eq_left (Nat.le_of_lt hl)]
    congr 1
    rw [List.drop_take]
    congr 1
  · simp only [List.length_append, List.length_take, List.length_drop]
    omega

theorem take_succ_of_getElem? {α : Type} (L : List α) (l : Nat) (x : α)
    (h : L[l]? = some x) : L.take (l + 1) = L.take l ++ [x] := by
  rw [List.take_succ, h]
  rfl

theorem drop_of_getElem? {α : Type} (L : List α) (l : Nat) (x : α)
    (h : L[l]? = some x) : L.drop l = x :: L.drop (l + 1) := by
  obtain ⟨hlt, hx⟩ := List.getElem?_eq_some_iff.1 h
  rw [List.drop_eq_getElem_cons hlt, hx]

theorem getElem?_take_of_lt {α : Type} (L : List α) (l n : Nat) (h : l < n) :
    (L.take n)[l]? = L[l]? := by
  rw [List.getElem?_take]
  simp [h]

/-- The first inner loop of the flattening pass on the live links: the links to sub
switches are removed, the other links keep their order, and the ids of the sub switches are
recorded in link order. -/
theorem collectSubs_live (s : ncclTopoSystem) (device : Nat) :
    ∀ (k l : Nat) (links : List ncclTopoLink) (nlinks : Nat) (subs : List Int)
      (r : List ncclTopoLink × Nat × List Int),
      nlinks ≤ links.length → nlinks - l ≤ k →
      collectSubs s device k l links nlinks subs = Except.ok r →
      r.2.1 ≤ r.1.length ∧
      r.1.take r.2.1 = (links.take nlinks).take l ++
        ((links.take nlinks).drop l).filter (fun x => ! isSubLink s device x) ∧
      r.2.2 = subs ++ (((links.take nlinks).drop l).filter (isSubLink s device)).map
        (linkId s) := by
  intro k
  induction k with
  | zero =>
    intro l links nlinks subs r hn hk hres
    simp only [collectSubs, Except.ok.injEq] at hres
    rw [← hres]
    have hd : (links.take nlinks).drop l = [] := by
      apply List.drop_eq_nil_of_le
      simp only [List.length_take]
      omega
    have ht : (links.take nlinks).take l = links.take nlinks := by
      apply List.take_of_length_le
      simp only [List.length_take]
      omega
    simp [hd, ht, hn]
  | succ k ih =>
    intro l links nlinks subs r hn hk hres
    simp only [collectSubs] at hres
    split_ifs at hres with hlt
    · split at hres
      · exact absurd hres (by simp)
      · rename_i link hlink
        have hL : (links.take nlinks)[l]? = some link := by
          rw [getElem?_take_of_lt _ _ _ hlt]; exact hlink
        split at hres
        · exact absurd hres (by simp)
        · rename_i sub hsub
          split_ifs at hres with hc
          · obtain ⟨h1, h2, h3⟩ := ih (l + 1) links nlinks subs r hn (by omega) hres
            have hns : isSubLink s device link = false := by
              unfold isSubLink
              rw [hsub]
              simp only [Bool.and_eq_false_imp, decide_eq_true_eq, decide_eq_false_iff_not]
              rcases hc with hc | hc
              · exact fun h => absurd h hc
              · exact fun _ => hc
            refine ⟨h1, ?_, ?_⟩
            · rw [h2, take_succ_of_getElem? _ _ _ hL, drop_of_getElem? _ _ _ hL]
              simp [hns]
            · rw [h3, drop_of_getElem? _ _ _ hL]
              simp [hns]
          · simp only [ne_eq, not_or, not_not] at hc
            have hys : isSubLink s device link = true := by
              unfold isSubLink
              rw [hsub]
              simp [hc.1, hc.2]
            obtain ⟨m1, m2⟩ := memmove_live links l nlinks hlt hn
            obtain ⟨h1, h2, h3⟩ := ih l (memmoveLinks links l nlinks) (nlinks - 1)
              (subs ++ [sub.id]) r (by rw [m2]; omega) (by omega) hres
            rw [m1] at h2 h3
            have e1 : ((links.take nlinks).eraseIdx l).take l = (links.take nlinks).take l := by
              rw [List.eraseIdx_eq_take_drop_succ, List.take_left']
              simp only [List.length_take]
              omega
            have e2 : ((links.take nlinks).eraseIdx l).drop l
                = (links.take nlinks).drop (l + 1) := by
              rw [List.eraseIdx_eq_take_drop_succ, List.drop_left']
              simp only [List.length_take]
              omega
            rw [e1, e2] at h2
            rw [e2] at h3
            have hid : linkId s link = sub.id := by
              unfold linkId
              rw [hsub]
            refine ⟨h1, ?_, ?_⟩
            · rw [h2, drop_of_getElem? _ _ _ hL]
              simp [hys]
            · rw [h3, drop_of_getElem? _ _ _ hL]
              simp [hys, hid]
    · simp only [Except.ok.injEq] at hres
      rw [← hres]
      have hd : (links.take nlinks).drop l = [] := by
        apply List.drop_eq_nil_of_le
        simp only [List.length_take]
        omega
      have ht : (links.take nlinks).take l = links.take nlinks := by
        apply List.take_of_length_le
        simp only [List.length_take]
        omega
      simp [hd, ht, hn]

theorem take_set_self {α : Type} (L : List α) (i : Nat) (a : α) :
    (L.set i a).take i = L.take i := by
  apply List.ext_getElem?
  intro j
  rw [List.getElem?_take, List.getElem?_take]
  split_ifs with h
  · rw [List.getElem?_set_ne (by omega)]
  · rfl

theorem unlinkLoop_live (del : NodeRef) :
    ∀ (k l : Nat) (links : List ncclTopoLink) (nlinks : Nat),
      nlinks ≤ links.length → nlinks - l ≤ k →
      (unlinkLoop del k l links nlinks).2 ≤ (unlinkLoop del k l links nlinks).1.length ∧
      (unlinkLoop del k l links nlinks).1.take (unlinkLoop del k l links nlinks).2
        = (links.take nlinks).take l ++
          (((links.take nlinks).drop l).filter (fun x => decide (x.remNode ≠ del))).map
            (shiftLink del) := by
  intro k
  induction k with
  | zero =>
    intro l links nlinks hn hk
    simp only [unlinkLoop]
    have hd : (links.take nlinks).drop l = [] := by
      apply List.drop_eq_nil_of_le
      simp only [List.length_take]
      omega
    have ht : (links.take nlinks).take l = links.take nlinks := by
      apply List.take_of_length_le
      simp only [List.length_take]
      omega
    simp [hd, ht, hn]
  | succ k ih =>
    intro l links nlinks hn hk
    simp only [unlinkLoop]
    split_ifs with hlt
    · have hll : l < links.length := by omega
      rw [List.getElem?_eq_getElem hll]
      simp only
      have hL : (links.take nlinks)[l]? = some links[l] := by
        rw [getElem?_take_of_lt _ _ _ hlt, List.getElem?_eq_getElem hll]
      split_ifs with hdel hshift
      · obtain ⟨m1, m2⟩ := memmove_live links l nlinks hlt hn
        obtain ⟨h1, h2⟩ := ih l (memmoveLinks links l nlinks) (nlinks - 1)
          (by rw [m2]; omega) (by omega)
        rw [m1] at h2
        have e1 : ((links.take nlinks).eraseIdx l).take l = (links.take nlinks).take l := by
          rw [List.eraseIdx_eq_take_drop_succ, List.take_left']
          simp only [List.length_take]
          omega
        have e2 : ((links.take nlinks).eraseIdx l).drop l
            = (links.take nlinks).drop (l + 1) := by
          rw [List.eraseIdx_eq_take_drop_succ, List.drop_left']
          simp only [List.length_take]
          omega
        rw [e1, e2] at h2
        refine ⟨h1, ?_⟩
        rw [h2, drop_of_getElem? _ _ _ hL]
        simp [hdel]
      · have hs : shiftLink del links[l] = { links[l] with remNode :=
            { type := links[l].remNode.type, index := links[l].remNode.index - 1 } } := by
          unfold shiftLink
          rw [if_pos hshift]
        rw [← hs]
        obtain ⟨h1, h2⟩ := ih (l + 1) (links.set l (shiftLink del links[l]))
          nlinks (by rw [List.length_set]; exact hn) (by omega)
        refine ⟨h1, ?_⟩
        rw [h2, drop_of_getElem? (links.take nlinks) _ _ hL]
        have t1 : ((links.set l (shiftLink del links[l])).take nlinks).take (l + 1)
            = (links.take nlinks).take l ++ [shiftLink del links[l]] := by
          rw [List.take_take, Nat.min_eq_left (by omega), List.take_take,
            Nat.min_eq_left (by omega)]
          rw [take_succ_of_getElem? _ l _ (by
            rw [List.getElem?_set_self (by omega)])]
          rw [take_set_self]
        have t2 : ((links.set l (shiftLink del links[l])).take nlinks).drop (l + 1)
            = (links.take nlinks).drop (l + 1) := by
          rw [List.drop_take, List.drop_take, List.drop_set_of_lt _ _ (Nat.lt_succ_self l)]
        rw [t1, t2]
        simp [hdel]
      · obtain ⟨h1, h2⟩ := ih (l + 1) links nlinks hn (by omega)
        refine ⟨h1, ?_⟩
        rw [h2, take_succ_of_getElem? _ _ _ hL, drop_of_getElem? (links.take nlinks) _ _ hL]
        have hs : shiftLink del links[l] = links[l] := by
          unfold shiftLink
          rw [if_neg hshift]
        simp [hdel, hs]
    · have hd : (links.take nlinks).drop l = [] := by
        apply List.drop_eq_nil_of_le
        simp only [List.length_take]
        omega
      have ht : (links.take nlinks).take l = links.take nlinks := by
        apply List.take_of_length_le
        simp only [List.length_take]
        omega
      simp [hd, ht, hn]

theorem unlinkNode_live (del : NodeRef) (n : ncclTopoNode) (hn : n.nlinks ≤ n.links.length) :
    (unlinkNode del n).nlinks ≤ (unlinkNode del n).links.length ∧
      (unlinkNode del n).live
        = (n.live.filter (fun x => decide (x.remNode ≠ del))).map (shiftLink del) := by
  obtain ⟨h1, h2⟩ := unlinkLoop_live del n.nlinks 0 n.links n.nlinks hn (by omega)
  refine ⟨h1, ?_⟩
  unfold ncclTopoNode.live
  simp only [unlinkNode]
  rw [h2]
  simp

theorem shiftLink_remNode (del : NodeRef) (l : ncclTopoLink) :
    (shiftLink del l).remNode = shiftRef del l.remNode ∧ (shiftLink del l).type = l.type ∧
      (shiftLink del l).width = l.width := by
  unfold shiftLink shiftRef
  split_ifs <;> exact ⟨rfl, rfl, rfl⟩

theorem unlinkNode_attrs (del : NodeRef) (n : ncclTopoNode) :
    (unlinkNode del n).id = n.id ∧ (unlinkNode del n).type = n.type ∧
      (unlinkNode del n).pci = n.pci := ⟨rfl, rfl, rfl⟩

theorem node?_removeNode (s : ncclTopoSystem) (i : Nat) (r : NodeRef) :
    (ncclTopoRemoveNode s NodeType.PCI i).node? r =
      if r.type = NodeType.PCI then
        (if r.index < i then
          (s.node? r).map (unlinkNode { type := NodeType.PCI, index := i })
        else (s.node? { type := NodeType.PCI, index := r.index + 1 }).map
          (unlinkNode { type := NodeType.PCI, index := i }))
      else (s.node? r).map (unlinkNode { type := NodeType.PCI, index := i }) := by
  unfold ncclTopoSystem.node?
  rw [removeNode_nodes]
  by_cases ht : r.type = NodeType.PCI
  · simp only [ht, if_true]
    rw [List.getElem?_eraseIdx]
    unfold unlinkAll
    by_cases hlt : r.index < i
    · simp only [hlt, if_true, List.getElem?_mapIdx]
      cases (s.nodes NodeType.PCI)[r.index]? with
      | none => rfl
      | some n =>
        have : ¬ r.index = i := by omega
        simp [this]
    · simp only [hlt, if_false, List.getElem?_mapIdx]
      cases (s.nodes NodeType.PCI)[r.index + 1]? with
      | none => rfl
      | some n =>
        have : ¬ r.index + 1 = i := by omega
        simp [this]
  · simp only [ht, if_false]
    unfold unlinkAll
    rw [List.getElem?_mapIdx]
    cases (s.nodes r.type)[r.index]? with
    | none => rfl
    | some n => simp [ht]

theorem node?_removeNode_shift (s : ncclTopoSystem) (i : Nat) (r : NodeRef)
    (hne : r ≠ { type := NodeType.PCI, index := i }) :
    (ncclTopoRemoveNode s NodeType.PCI i).node? (shiftRef { type := NodeType.PCI, index := i } r)
      = (s.node? r).map (unlinkNode { type := NodeType.PCI, index := i }) := by
  rw [node?_removeNode]
  unfold shiftRef
  simp only
  by_cases ht : r.type = NodeType.PCI
  · have hri : r.index ≠ i := by
      intro h
      apply hne
      cases r with
      | mk rt ri => simp only at ht h; rw [ht, h]
    by_cases hle : i ≤ r.index
    · have h1 : ¬ r.index - 1 < i := by omega
      have h2 : r.index - 1 + 1 = r.index := by omega
      simp only [ht, hle, and_self, if_true, h1, if_false, h2]
      cases r with
      | mk rt ri => simp only at ht; subst ht; rfl
    · have h1 : r.index < i := by omega
      simp [ht, hle, h1]
  · simp [ht]

theorem count_removeNode (s : ncclTopoSystem) (i : Nat) (hi : i < s.count NodeType.PCI)
    (t : NodeType) :
    (ncclTopoRemoveNode s NodeType.PCI i).count t =
      if t = NodeType.PCI then s.count t - 1 else s.count t := by
  unfold ncclTopoSystem.count at hi ⊢
  rw [removeNode_nodes]
  have hlen : ∀ k, (unlinkAll { type := NodeType.PCI, index := i } k (s.nodes k)).length
      = (s.nodes k).length := by
    intro k
    unfold unlinkAll
    simp
  split_ifs with ht
  · rw [List.length_eraseIdx, hlen]
    simp [ht, hi]
  · rw [hlen]

theorem valid_removeNode_shift (s : ncclTopoSystem) (i : Nat) (r : NodeRef)
    (hne : r ≠ { type := NodeType.PCI, index := i }) (hv : s.valid r) :
    (ncclTopoRemoveNode s NodeType.PCI i).valid
      (shiftRef { type := NodeType.PCI, index := i } r) := by
  obtain ⟨n, hn⟩ := (valid_iff_node? s r).1 hv
  apply (valid_iff_node? _ _).2
  rw [node?_removeNode_shift s i r hne, hn]
  exact ⟨_, rfl⟩

theorem nodeKey_removeNode (s : ncclTopoSystem) (i : Nat) (r : NodeRef)
    (hne : r ≠ { type := NodeType.PCI, index := i }) :
    nodeKey (ncclTopoRemoveNode s NodeType.PCI i)
      (shiftRef { type := NodeType.PCI, index := i } r) = nodeKey s r := by
  have hty : (shiftRef { type := NodeType.PCI, index := i } r).type = r.type := by
    unfold shiftRef
    split_ifs <;> rfl
  unfold nodeKey
  rw [hty, node?_removeNode_shift s i r hne]
  by_cases ht : r.type = NodeType.PCI
  · simp only [ht, if_true]
    cases s.node? r with
    | none => rfl
    | some n => rfl
  · simp only [ht, if_false]
    unfold shiftRef
    simp [ht]

theorem weakGood_of_good (s : ncclTopoSystem) (hg : GoodSystem s) : WeakGood s := by
  intro t n hn
  obtain ⟨h1, h2, h3⟩ := hg t n hn
  exact ⟨by omega, h2, fun l hl => h3 l (List.mem_of_mem_take hl)⟩

theorem weakGood_node? (s : ncclTopoSystem) (hg : WeakGood s) (r : NodeRef) (n : ncclTopoNode)
    (hn : s.node? r = some n) :
    n.nlinks ≤ n.links.length ∧ n.type = r.type ∧ ∀ l ∈ n.live, s.valid l.remNode :=
  hg r.type n (node?_mem s r n hn)

theorem weakGood_removeNode (s : ncclTopoSystem) (i : Nat) (hg : WeakGood s) :
    WeakGood (ncclTopoRemoveNode s NodeType.PCI i) := by
  intro t n hn
  obtain ⟨j, hj⟩ := (mem_nodes_iff _ t n).1 hn
  rw [node?_removeNode] at hj
  have key : ∀ r0 : NodeRef, r0.type = t →
      (s.node? r0).map (unlinkNode { type := NodeType.PCI, index := i }) = some n →
      n.nlinks ≤ n.links.length ∧ n.type = t ∧
        ∀ l ∈ n.live, (ncclTopoRemoveNode s NodeType.PCI i).valid l.remNode := by
    intro r0 hr0 hmap
    cases hx : s.node? r0 with
    | none => rw [hx] at hmap; simp at hmap
    | some n0 =>
      rw [hx] at hmap
      simp only [Option.map_some', Option.some.injEq] at hmap
      obtain ⟨w1, w2, w3⟩ := weakGood_node? s hg r0 n0 hx
      obtain ⟨u1, u2⟩ := unlinkNode_live { type := NodeType.PCI, index := i } n0 w1
      rw [← hmap]
      refine ⟨u1, by rw [← hr0]; exact w2, ?_⟩
      intro l hl
      rw [u2] at hl
      obtain ⟨x, hx1, hx2⟩ := List.mem_map.1 hl
      obtain ⟨hxm, hxd⟩ := List.mem_filter.1 hx1
      rw [← hx2, (shiftLink_remNode _ x).1]
      exact valid_removeNode_shift s i x.remNode (by simpa using hxd) (w3 x hxm)
  simp only at hj
  split_ifs at hj with h1 h2
  · exact key _ rfl hj
  · exact key { type := NodeType.PCI, index := j + 1 } h1.symm hj
  · exact key _ rfl hj

/-- The live links of a surviving node after `ncclTopoRemoveNode`: the links to the removed
node are gone, the others keep their order, kind, width and target. -/
theorem edgesFrom_removeNode (s : ncclTopoSystem) (i : Nat) (hg : WeakGood s) (a : NodeRef)
    (n : ncclTopoNode) (hne : a ≠ { type := NodeType.PCI, index := i })
    (hn : s.node? a = some n) :
    edgesFrom (ncclTopoRemoveNode s NodeType.PCI i)
        (shiftRef { type := NodeType.PCI, index := i } a)
      = (n.live.filter (fun x => decide (x.remNode ≠ { type := NodeType.PCI, index := i }))).map
          (edgeOf s) := by
  unfold edgesFrom
  rw [node?_removeNode_shift s i a hne, hn]
  simp only [Option.map_some']
  obtain ⟨w1, -, w3⟩ := weakGood_node? s hg a n hn
  rw [(unlinkNode_live _ n w1).2, List.map_map]
  apply List.map_congr_left
  intro x hx
  obtain ⟨hxm, hxd⟩ := List.mem_filter.1 hx
  simp only [Function.comp, edgeOf]
  obtain ⟨e1, e2, e3⟩ := shiftLink_remNode { type := NodeType.PCI, index := i } x
  rw [e1, e2, e3, nodeKey_removeNode s i x.remNode (by simpa using hxd)]

theorem weakGood_modifyNode_at (s : ncclTopoSystem) (a : NodeRef) (n : ncclTopoNode)
    (f : ncclTopoNode → ncclTopoNode) (hn : s.node? a = some n) (hg : WeakGood s)
    (hf : (f n).nlinks ≤ (f n).links.length ∧ (f n).type = n.type ∧
      ∀ l ∈ (f n).live, s.valid l.remNode) : WeakGood (s.modifyNode a f) := by
  intro t m hm
  have hv : ∀ r, s.valid r → (s.modifyNode a f).valid r := fun r hr =>
    (valid_modifyNode s a r f).2 hr
  obtain ⟨j, hj⟩ := (mem_nodes_iff _ t m).1 hm
  rw [node?_modifyNode] at hj
  split_ifs at hj with hja
  · rw [hn] at hj
    simp only [Option.map_some', Option.some.injEq] at hj
    rw [← hj]
    have hta : t = a.type := by rw [← hja]
    obtain ⟨w1, w2, w3⟩ := weakGood_node? s hg a n hn
    exact ⟨hf.1, by rw [hf.2.1, w2, hta], fun l hl => hv _ (hf.2.2 l hl)⟩
  · obtain ⟨w1, w2, w3⟩ := weakGood_node? s hg _ m hj
    exact ⟨w1, w2, fun l hl => hv _ (w3 l hl)⟩

theorem appendLink_live (link : ncclTopoLink) (n : ncclTopoNode)
    (hn : n.nlinks ≤ n.links.length) :
    (appendLink link n).nlinks ≤ (appendLink link n).links.length ∧
      (appendLink link n).live = n.live ++ [link] := by
  unfold appendLink writeSlot ncclTopoNode.live
  simp only
  by_cases hlt : n.nlinks < n.links.length
  · simp only [hlt, if_true, List.length_set]
    refine ⟨hlt, ?_⟩
    rw [take_succ_of_getElem? _ n.nlinks link (List.getElem?_set_self hlt), take_set_self]
  · have he : n.nlinks = n.links.length := by omega
    simp only [hlt, if_false, List.length_append, List.length_singleton]
    refine ⟨by omega, ?_⟩
    rw [he, List.take_length, List.take_of_length_le (by simp)]

theorem take_modify {α : Type} (f : α → α) (L : List α) (i n : Nat) :
    (L.modify f i).take n = (L.take n).modify f i := by
  apply List.ext_getElem?
  intro j
  rw [List.getElem?_take, List.getElem?_modify, List.getElem?_modify, List.getElem?_take]
  split_ifs <;> rfl

theorem modify_of_length_le {α : Type} (f : α → α) (L : List α) (i : Nat)
    (h : L.length ≤ i) : L.modify f i = L := by
  apply List.ext_getElem?
  intro j
  rw [List.getElem?_modify]
  by_cases hij : i = j
  · subst hij
    rw [List.getElem?_eq_none h]
    rfl
  · simp [hij]

theorem redirectFirst_live (sub p : NodeRef) (n : ncclTopoNode)
    (hn : n.nlinks ≤ n.links.length) :
    (redirectFirst sub p n).nlinks = n.nlinks ∧
    (redirectFirst sub p n).links.length = n.links.length ∧
    (redirectFirst sub p n).live
      = n.live.modify (redirectLink p) (n.live.findIdx (fun x => decide (x.remNode = sub))) := by
  unfold redirectFirst
  simp only
  split_ifs with hlt
  · refine ⟨rfl, by simp, ?_⟩
    exact take_modify _ _ _ _
  · refine ⟨rfl, rfl, ?_⟩
    rw [modify_of_length_le]
    have : n.live.length = n.nlinks := by
      unfold ncclTopoNode.live
      simp only [List.length_take]
      omega
    omega

theorem redirected_modify (sub p : NodeRef) (L : List ncclTopoLink) :
    List.Forall₂ (Redirected sub p)
      (L.modify (redirectLink p) (L.findIdx (fun x => decide (x.remNode = sub)))) L := by
  induction L with
  | nil => exact List.Forall₂.nil
  | cons a L ih =>
    by_cases ha : a.remNode = sub
    · have : List.findIdx (fun x => decide (x.remNode = sub)) (a :: L) = 0 := by
        simp [List.findIdx_cons, ha]
      rw [this]
      simp only [List.modify_zero_cons]
      refine List.Forall₂.cons (Or.inr ⟨ha, rfl⟩) ?_
      exact List.forall₂_same.2 (fun x _ => Or.inl rfl)
    · have : List.findIdx (fun x => decide (x.remNode = sub)) (a :: L)
          = List.findIdx (fun x => decide (x.remNode = sub)) L + 1 := by
        simp [List.findIdx_cons, ha]
      rw [this]
      simp only [List.modify_succ_cons]
      exact List.Forall₂.cons (Or.inl rfl) ih

theorem forall₂_mem_left {α : Type} (R : α → α → Prop) (L1 L : List α)
    (hf : List.Forall₂ R L1 L) (y1 : α) (h : y1 ∈ L1) : ∃ y ∈ L, R y1 y := by
  induction hf with
  | nil => simp at h
  | @cons a b l1 l2 hab _ ih =>
    rcases List.mem_cons.1 h with rfl | h
    · exact ⟨b, List.mem_cons_self _ _, hab⟩
    · obtain ⟨y, hy, hr⟩ := ih h
      exact ⟨y, List.mem_cons_of_mem _ hy, hr⟩

theorem forall₂_mem_right {α : Type} (R : α → α → Prop) (L1 L : List α)
    (hf : List.Forall₂ R L1 L) (y : α) (h : y ∈ L) : ∃ y1 ∈ L1, R y1 y := by
  induction hf with
  | nil => simp at h
  | @cons a b l1 l2 hab _ ih =>
    rcases List.mem_cons.1 h with rfl | h
    · exact ⟨a, List.mem_cons_self _ _, hab⟩
    · obtain ⟨y1, hy1, hr⟩ := ih h
      exact ⟨y1, List.mem_cons_of_mem _ hy1, hr⟩

theorem mem_modify_findIdx_of_not {α : Type} (f : α → α) (q : α → Bool) (L : List α) (y : α)
    (hy : y ∈ L) (hq : q y = false) : y ∈ L.modify f (L.findIdx q) := by
  induction L with
  | nil => simp at hy
  | cons a L ih =>
    by_cases ha : q a = true
    · have : List.findIdx q (a :: L) = 0 := by simp [List.findIdx_cons, ha]
      rw [this, List.modify_zero_cons]
      rcases List.mem_cons.1 hy with rfl | h
      · rw [hq] at ha; exact absurd ha (by simp)
      · exact List.mem_cons_of_mem _ h
    · have : List.findIdx q (a :: L) = List.findIdx q L + 1 := by
        simp [List.findIdx_cons, ha]
      rw [this, List.modify_succ_cons]
      rcases List.mem_cons.1 hy with rfl | h
      · exact List.mem_cons_self _ _
      · exact List.mem_cons_of_mem _ (ih h)

theorem mem_modify_findIdx_of_exists {α : Type} (f : α → α) (q : α → Bool) (L : List α)
    (hex : ∃ y ∈ L, q y = true) : ∃ y ∈ L, q y = true ∧ f y ∈ L.modify f (L.findIdx q) := by
  induction L with
  | nil => obtain ⟨y, hy, -⟩ := hex; simp at hy
  | cons a L ih =>
    by_cases ha : q a = true
    · have : List.findIdx q (a :: L) = 0 := by simp [List.findIdx_cons, ha]
      rw [this, List.modify_zero_cons]
      exact ⟨a, List.mem_cons_self _ _, ha, List.mem_cons_self _ _⟩
    · have : List.findIdx q (a :: L) = List.findIdx q L + 1 := by
        simp [List.findIdx_cons, ha]
      rw [this, List.modify_succ_cons]
      obtain ⟨y, hy, hqy⟩ := hex
      rcases List.mem_cons.1 hy with rfl | h
      · exact absurd hqy ha
      · obtain ⟨y', hy', hq', hm⟩ := ih ⟨y, h, hqy⟩
        exact ⟨y', List.mem_cons_of_mem _ hy', hq', List.mem_cons_of_mem _ hm⟩

theorem attrs_modifyNode (s : ncclTopoSystem) (r : NodeRef) (f : ncclTopoNode → ncclTopoNode)
    (hf : ∀ n, nodeAttrs (f n) = nodeAttrs n) (t : NodeType) :
    ((s.modifyNode r f).nodes t).map nodeAttrs = (s.nodes t).map nodeAttrs := by
  rw [nodes_modifyNode]
  split_ifs
  · exact map_modify_of_eq _ f hf _ _
  · rfl

theorem redirected_trans (c p : NodeRef) (y2 y1 y : ncclTopoLink)
    (h2 : Redirected c p y2 y1) (h1 : Redirected c p y1 y) : Redirected c p y2 y := by
  rcases h1 with rfl | ⟨hy, rfl⟩
  · exact h2
  · rcases h2 with rfl | ⟨-, rfl⟩
    · exact Or.inr ⟨hy, rfl⟩
    · exact Or.inr ⟨hy, rfl⟩

theorem forall₂_trans_of {α : Type} (R : α → α → Prop)
    (ht : ∀ x y z, R x y → R y z → R x z) :
    ∀ (a b c : List α), List.Forall₂ R a b → List.Forall₂ R b c → List.Forall₂ R a c := by
  intro a b c hab
  induction hab generalizing c with
  | nil => intro hbc; cases hbc; exact List.Forall₂.nil
  | cons h1 _ ih =>
    intro hbc
    cases hbc with
    | cons h2 t2 => exact List.Forall₂.cons (ht _ _ _ h1 h2) (ih _ t2)

theorem redirectFirst_attrs (c p : NodeRef) (n : ncclTopoNode) :
    nodeAttrs (redirectFirst c p n) = nodeAttrs n := by
  unfold redirectFirst
  simp only
  split_ifs <;> rfl

/-- One iteration of the loop "Connect all sub PCI devices to the parent switch". -/
theorem spliceStep_inv (s0 : ncclTopoSystem) (p c : NodeRef) (Cn Pn : ncclTopoNode)
    (seen : List ncclTopoLink) (s s1 : ncclTopoSystem) (l : Nat)
    (hcp : c ≠ p) (hself : ∀ y ∈ Cn.live, y.remNode ≠ c) (hl : l < Cn.nlinks)
    (hinv : SpliceInv s0 p c Cn Pn seen s) (hres : spliceStep p c s l = Except.ok s1) :
    ∃ link, Cn.links[l]? = some link ∧ SpliceInv s0 p c Cn Pn (seen ++ [link]) s1 := by
  obtain ⟨hgood, hattrs, hsub, ⟨P1, hP1, hP1live⟩, hothers, hred⟩ := hinv
  unfold spliceStep at hres
  rw [hsub] at hres
  simp only at hres
  split at hres
  · exact absurd hres (by simp)
  · rename_i link hlink
    refine ⟨link, hlink, ?_⟩
    have hlive : link ∈ Cn.live := by
      unfold ncclTopoNode.live
      apply @List.getElem?_mem _ _ l
      rw [getElem?_take_of_lt _ _ _ hl]
      exact hlink
    split_ifs at hres with hskip
    · simp only [Except.ok.injEq] at hres
      rw [← hres]
      refine ⟨hgood, hattrs, hsub, ⟨P1, hP1, ?_⟩, hothers, ?_⟩
      · rw [hP1live, List.filter_append]
        simp [hskip]
      · intro y hy hyp n hn hex
        rcases List.mem_append.1 hy with h1 | h1
        · exact hred y h1 hyp n hn hex
        · simp only [List.mem_singleton] at h1
          rw [h1] at hyp
          exact absurd hskip hyp
    · split at hres
      · exact absurd hres (by simp)
      · rename_i Xa hXa
        simp only [Except.ok.injEq] at hres
        have hXc : link.remNode ≠ c := hself link hlive
        obtain ⟨wc1, wc2, wc3⟩ := weakGood_node? s hgood c Cn hsub
        obtain ⟨wp1, wp2, wp3⟩ := weakGood_node? s hgood p P1 hP1
        obtain ⟨a1, a2⟩ := appendLink_live link P1 wp1
        have hgoodA : WeakGood (s.modifyNode p (appendLink link)) := by
          apply weakGood_modifyNode_at s p P1 _ hP1 hgood
          refine ⟨a1, rfl, ?_⟩
          intro y hy
          rw [a2] at hy
          rcases List.mem_append.1 hy with h1 | h1
          · exact wp3 y h1
          · simp only [List.mem_singleton] at h1
            rw [h1]; exact wc3 link hlive
        have hXs : s.node? link.remNode = some Xa := by
          rw [node?_modifyNode, if_neg hskip] at hXa
          exact hXa
        obtain ⟨wx1, wx2, wx3⟩ := weakGood_node? s hgood _ Xa hXs
        obtain ⟨r1, r2, r3⟩ := redirectFirst_live c p Xa wx1
        have hpv : s.valid p := (valid_iff_node? s p).2 ⟨P1, hP1⟩
        have hgood1 : WeakGood ((s.modifyNode p (appendLink link)).modifyNode link.remNode
            (redirectFirst c p)) := by
          apply weakGood_modifyNode_at _ link.remNode Xa _ hXa hgoodA
          refine ⟨by rw [r1, r2]; exact wx1, (Prod.mk.inj (Prod.mk.inj
            (redirectFirst_attrs c p Xa)).2).1, ?_⟩
          intro y hy
          rw [r3] at hy
          apply (valid_modifyNode s p _ _).2
          rcases mem_modify _ _ _ y hy with h1 | ⟨x, -, rfl⟩
          · exact wx3 y h1
          · exact hpv
        rw [← hres]
        refine ⟨hgood1, ?_, ?_, ?_, ?_, ?_⟩
        · intro t
          rw [attrs_modifyNode _ _ _ (redirectFirst_attrs c p),
            attrs_modifyNode _ _ (appendLink link) (fun n => rfl)]
          exact hattrs t
        · rw [node?_modifyNode, if_neg (Ne.symm hXc), node?_modifyNode, if_neg hcp]
          exact hsub
        · refine ⟨appendLink link P1, ?_, ?_⟩
          · rw [node?_modifyNode, if_neg (Ne.symm hskip), node?_modifyNode, if_pos rfl, hP1]
            rfl
          · rw [a2, hP1live, List.filter_append, List.append_assoc]
            simp [hskip]
        · intro r hrp n hn
          obtain ⟨n1, hn1, hf1⟩ := hothers r hrp n hn
          by_cases hrX : r = link.remNode
          · subst hrX
            rw [hXs] at hn1
            simp only [Option.some.injEq] at hn1
            subst hn1
            refine ⟨redirectFirst c p Xa, ?_, ?_⟩
            · rw [node?_modifyNode, if_pos rfl, hXa]
              rfl
            · rw [r3]
              exact forall₂_trans_of _ (redirected_trans c p) _ _ _
                (redirected_modify c p Xa.live) hf1
          · refine ⟨n1, ?_, hf1⟩
            rw [node?_modifyNode, if_neg hrX, node?_modifyNode, if_neg hrp]
            exact hn1
        · intro y hy hyp n hn hex
          have hstay : ∀ (r : NodeRef) (m : ncclTopoNode) (w : ncclTopoLink), r ≠ p →
              s.node? r = some m → w ∈ m.live → w.remNode = p →
              ∃ m1, ((s.modifyNode p (appendLink link)).modifyNode link.remNode
                (redirectFirst c p)).node? r = some m1 ∧ w ∈ m1.live := by
            intro r m w hrp hm hw hwp
            by_cases hrX : r = link.remNode
            · subst hrX
              rw [hXs] at hm
              simp only [Option.some.injEq] at hm
              subst hm
              refine ⟨redirectFirst c p Xa, ?_, ?_⟩
              · rw [node?_modifyNode, if_pos rfl, hXa]
                rfl
              · rw [r3]
                apply mem_modify_findIdx_of_not _ _ _ _ hw
                simp only [decide_eq_false_iff_not]
                rw [hwp]
                exact Ne.symm hcp
            · refine ⟨m, ?_, hw⟩
              rw [node?_modifyNode, if_neg hrX, node?_modifyNode, if_neg hrp]
              exact hm
          rcases List.mem_append.1 hy with h1 | h1
          · obtain ⟨n1, hn1, z, hz, hzc, hzm⟩ := hred y h1 hyp n hn hex
            obtain ⟨m1, hm1, hw⟩ := hstay y.remNode n1 (redirectLink p z) hyp hn1 hzm rfl
            exact ⟨m1, hm1, z, hz, hzc, hw⟩
          · simp only [List.mem_singleton] at h1
            subst h1
            obtain ⟨n1, hn1, hf1⟩ := hothers y.remNode hyp n hn
            rw [hXs] at hn1
            simp only [Option.some.injEq] at hn1
            subst hn1
            refine ⟨redirectFirst c p Xa, ?_, ?_⟩
            · rw [node?_modifyNode, if_pos rfl, hXa]
              rfl
            · rw [r3]
              by_cases hany : ∃ w ∈ Xa.live, decide (w.remNode = c) = true
              · obtain ⟨w, hw, hwc, hwm⟩ := mem_modify_findIdx_of_exists (redirectLink p)
                  (fun x => decide (x.remNode = c)) Xa.live hany
                obtain ⟨z, hz, hr⟩ := forall₂_mem_left _ _ _ hf1 w hw
                simp only [decide_eq_true_eq] at hwc
                rcases hr with rfl | ⟨-, hr2⟩
                · exact ⟨w, hz, hwc, hwm⟩
                · rw [hr2] at hwc
                  exact absurd hwc (Ne.symm hcp)
              · obtain ⟨z, hz, hzc⟩ := hex
                obtain ⟨w, hw, hr⟩ := forall₂_mem_right _ _ _ hf1 z hz
                rcases hr with rfl | ⟨-, hr2⟩
                · exact absurd ⟨w, hw, by simpa using hzc⟩ hany
                · refine ⟨z, hz, hzc, ?_⟩
                  rw [← hr2]
                  apply mem_modify_findIdx_of_not _ _ _ _ hw
                  simp only [decide_eq_false_iff_not]
                  rw [hr2]
                  exact Ne.symm hcp

theorem spliceLoop_inv (s0 : ncclTopoSystem) (p c : NodeRef) (Cn Pn : ncclTopoNode)
    (hcp : c ≠ p) (hself : ∀ y ∈ Cn.live, y.remNode ≠ c) (ls : List Nat) :
    ∀ (seen : List ncclTopoLink) (s s1 : ncclTopoSystem), (∀ l ∈ ls, l < Cn.nlinks) →
      SpliceInv s0 p c Cn Pn seen s → ls.foldlM (spliceStep p c) s = Except.ok s1 →
      SpliceInv s0 p c Cn Pn (seen ++ ls.filterMap (fun l => Cn.links[l]?)) s1 := by
  induction ls with
  | nil =>
    intro seen s s1 _ hinv hres
    simp only [List.foldlM, pure, Except.pure, Except.ok.injEq] at hres
    rw [← hres]
    simpa using hinv
  | cons l ls ih =>
    intro seen s s1 hls hinv hres
    simp only [List.foldlM, bind, Except.bind] at hres
    split at hres
    · exact absurd hres (by simp)
    · rename_i sa ha
      obtain ⟨link, hlink, hinv1⟩ := spliceStep_inv s0 p c Cn Pn seen s sa l hcp hself
        (hls l (List.mem_cons_self _ _)) hinv ha
      have := ih (seen ++ [link]) sa s1 (fun x hx => hls x (List.mem_cons_of_mem _ hx)) hinv1 hres
      simpa [List.filterMap_cons, hlink, List.append_assoc] using this

theorem range_filterMap_getElem? {α : Type} (L : List α) :
    ∀ n, n ≤ L.length → (List.range n).filterMap (fun l => L[l]?) = L.take n := by
  intro n
  induction n with
  | zero => intro _; simp
  | succ n ih =>
    intro hn
    rw [List.range_succ, List.filterMap_append, ih (by omega)]
    have hlt : n < L.length := by omega
    simp only [List.filterMap_cons, List.filterMap_nil, List.getElem?_eq_getElem hlt]
    rw [take_succ_of_getElem? L n L[n] (List.getElem?_eq_getElem hlt)]

theorem spliceInv_init (s0 : ncclTopoSystem) (p c : NodeRef) (Cn Pn : ncclTopoNode)
    (hg : WeakGood s0) (hc : s0.node? c = some Cn) (hp : s0.node? p = some Pn) :
    SpliceInv s0 p c Cn Pn [] s0 :=
  { good := hg
    attrs := fun _ => rfl
    sub := hc
    parent := ⟨Pn, hp, by simp⟩
    others := fun _ _ n hn => ⟨n, hn, List.forall₂_same.2 (fun _ _ => Or.inl rfl)⟩
    redirected := fun y hy => absurd hy (List.not_mem_nil y) }

theorem nodeKey_of_attrs (s s0 : ncclTopoSystem)
    (ha : ∀ t, (s.nodes t).map nodeAttrs = (s0.nodes t).map nodeAttrs) (r : NodeRef) :
    nodeKey s r = nodeKey s0 r ∧ (s.valid r ↔ s0.valid r) := by
  have h1 := congrArg (fun L => L[r.index]?) (ha r.type)
  simp only [List.getElem?_map] at h1
  have hlen := congrArg List.length (ha r.type)
  simp only [List.length_map] at hlen
  constructor
  · unfold nodeKey ncclTopoSystem.node?
    cases hx : (s.nodes r.type)[r.index]? with
    | none =>
      rw [hx] at h1
      cases hy : (s0.nodes r.type)[r.index]? with
      | none => rfl
      | some m => rw [hy] at h1; simp at h1
    | some n =>
      rw [hx] at h1
      cases hy : (s0.nodes r.type)[r.index]? with
      | none => rw [hy] at h1; simp at h1
      | some m =>
        rw [hy] at h1
        simp only [Option.map_some', Option.some.injEq, nodeAttrs, Prod.mk.injEq] at h1
        simp only [h1.1]
  · unfold ncclTopoSystem.valid ncclTopoSystem.count
    rw [hlen]

theorem pciKeys_of_attrs (s s0 : ncclTopoSystem)
    (ha : ∀ t, (s.nodes t).map nodeAttrs = (s0.nodes t).map nodeAttrs) :
    pciKeys s = pciKeys s0 := by
  have h1 := congrArg (List.map (fun a : Int × NodeType × PciInfo => (a.1, a.2.2.device)))
    (ha NodeType.PCI)
  simp only [List.map_map] at h1
  exact h1

theorem edgeOf_of_attrs (s s0 : ncclTopoSystem)
    (ha : ∀ t, (s.nodes t).map nodeAttrs = (s0.nodes t).map nodeAttrs) (l : ncclTopoLink) :
    edgeOf s l = edgeOf s0 l := by
  unfold edgeOf
  rw [(nodeKey_of_attrs s s0 ha l.remNode).1]

theorem keys_index_unique (K : List (Int × Nat)) (hn : (K.map Prod.fst).Nodup) (i j : Nat)
    (a : Int) (d1 d2 : Nat) (hi : K[i]? = some (a, d1)) (hj : K[j]? = some (a, d2)) : i = j := by
  obtain ⟨hil, hie⟩ := List.getElem?_eq_some_iff.1 hi
  obtain ⟨hjl, hje⟩ := List.getElem?_eq_some_iff.1 hj
  have hil' : i < (K.map Prod.fst).length := by simpa using hil
  have hjl' : j < (K.map Prod.fst).length := by simpa using hjl
  apply (@List.Nodup.getElem_inj_iff _ _ hn i hil' j hjl').1
  simp [hie, hje]

theorem pciKeys_getElem? (s : ncclTopoSystem) (c : NodeRef) (n : ncclTopoNode)
    (hct : c.type = NodeType.PCI) (hn : s.node? c = some n) :
    (pciKeys s)[c.index]? = some (n.id, n.pci.device) := by
  unfold pciKeys
  unfold ncclTopoSystem.node? at hn
  rw [hct] at hn
  rw [List.getElem?_map, hn]
  rfl

theorem ref_eq_of_pci (c : NodeRef) (hct : c.type = NodeType.PCI) :
    c = { type := NodeType.PCI, index := c.index } := by
  cases c with
  | mk ct ci => simp only at hct; rw [hct]

/-- Fusing one sub switch: the loop over its links, then the removal of the switch. -/
theorem fuseSub_spec (s s2 : ncclTopoSystem) (p c : NodeRef) (Cn Pn : ncclTopoNode) (id : Int)
    (hg : WeakGood s) (hn : ((pciKeys s).map Prod.fst).Nodup) (hcp : c ≠ p)
    (hct : c.type = NodeType.PCI) (hC : s.node? c = some Cn) (hid : Cn.id = id)
    (hP : s.node? p = some Pn) (hself : ∀ y ∈ Cn.live, y.remNode ≠ c)
    (hres : fuseSub p s id = Except.ok s2) :
    ∃ s1, SpliceInv s p c Cn Pn Cn.live s1 ∧ s2 = ncclTopoRemoveNode s1 NodeType.PCI c.index := by
  unfold fuseSub at hres
  simp only [bind, Except.bind] at hres
  split at hres
  · exact absurd hres (by simp)
  · rename_i i hi
    obtain ⟨d, hd⟩ := idToIndex_spec s id i hi
    have hci := pciKeys_getElem? s c Cn hct hC
    rw [hid] at hci
    have hic : i = c.index := keys_index_unique _ hn _ _ id _ _ hd hci
    subst hic
    rw [← ref_eq_of_pci c hct] at hres
    rw [hC] at hres
    simp only at hres
    split at hres
    · exact absurd hres (by simp)
    · rename_i s1 hfold
      split at hres
      · exact absurd hres (by simp)
      · split_ifs at hres
        simp only [Except.ok.injEq] at hres
        refine ⟨s1, ?_, hres.symm⟩
        have hw := (weakGood_node? s hg c Cn hC).1
        have := spliceLoop_inv s p c Cn Pn hcp hself (List.range Cn.nlinks) [] s s1
          (fun l hl => List.mem_range.1 hl) (spliceInv_init s p c Cn Pn hg hC hP) hfold
        rw [range_filterMap_getElem? _ _ hw] at this
        simpa [ncclTopoNode.live] using this

theorem edgesFrom_eq (s : ncclTopoSystem) (r : NodeRef) (n : ncclTopoNode)
    (hn : s.node? r = some n) : edgesFrom s r = n.live.map (edgeOf s) := by
  unfold edgesFrom
  rw [hn]

/-- The effect of fusing the sub switch `c` on the names, the parent switch and the other
nodes. -/
theorem fuse_effect (s s1 : ncclTopoSystem) (p c : NodeRef) (Cn Pn : ncclTopoNode)
    (hct : c.type = NodeType.PCI) (hcp : c ≠ p)
    (hinv : SpliceInv s p c Cn Pn Cn.live s1) :
    WeakGood (ncclTopoRemoveNode s1 NodeType.PCI c.index) ∧
    pciKeys (ncclTopoRemoveNode s1 NodeType.PCI c.index) = (pciKeys s).eraseIdx c.index ∧
    (∀ r, r ≠ c → nodeKey (ncclTopoRemoveNode s1 NodeType.PCI c.index) (shiftRef c r)
      = nodeKey s r) ∧
    (∀ r, r ≠ c → s.valid r → (ncclTopoRemoveNode s1 NodeType.PCI c.index).valid (shiftRef c r)) ∧
    edgesFrom (ncclTopoRemoveNode s1 NodeType.PCI c.index) (shiftRef c p)
      = ((Pn.live ++ Cn.live.filter (fun y => decide (y.remNode ≠ p))).filter
          (fun y => decide (y.remNode ≠ c))).map (edgeOf s) ∧
    (∀ r, r ≠ c → ∀ n1, s1.node? r = some n1 →
      edgesFrom (ncclTopoRemoveNode s1 NodeType.PCI c.index) (shiftRef c r)
        = (n1.live.filter (fun y => decide (y.remNode ≠ c))).map (edgeOf s)) := by
  obtain ⟨hgood, hattrs, hsub, ⟨P1, hP1, hP1live⟩, hothers, -⟩ := hinv
  have hc := ref_eq_of_pci c hct
  have hmap : ∀ L : List ncclTopoLink, L.map (edgeOf s1) = L.map (edgeOf s) := fun L =>
    List.map_congr_left (fun x _ => edgeOf_of_attrs s1 s hattrs x)
  refine ⟨weakGood_removeNode s1 c.index hgood, ?_, ?_, ?_, ?_, ?_⟩
  · rw [(removeNode_keys s1 c.index).1, pciKeys_of_attrs s1 s hattrs]
  · intro r hr
    have := nodeKey_removeNode s1 c.index r (by rw [← hc]; exact hr)
    rw [← hc] at this
    rw [this, (nodeKey_of_attrs s1 s hattrs r).1]
  · intro r hr hv
    have := valid_removeNode_shift s1 c.index r (by rw [← hc]; exact hr)
      ((nodeKey_of_attrs s1 s hattrs r).2.2 hv)
    rw [← hc] at this
    exact this
  · have := edgesFrom_removeNode s1 c.index hgood p P1 (by rw [← hc]; exact Ne.symm hcp) hP1
    rw [← hc] at this
    rw [this, hP1live, hmap]
  · intro r hrc n1 hn1
    have := edgesFrom_removeNode s1 c.index hgood r n1 (by rw [← hc]; exact hrc) hn1
    rw [← hc] at this
    rw [this, hmap]

theorem nodeKey_pci (s : ncclTopoSystem) (r : NodeRef) (n : ncclTopoNode)
    (ht : r.type = NodeType.PCI) (hn : s.node? r = some n) :
    nodeKey s r = (NodeType.PCI, n.id) := by
  unfold nodeKey
  rw [hn, ht]
  rfl

theorem nodeKey_type (s : ncclTopoSystem) (r : NodeRef) : (nodeKey s r).1 = r.type := rfl

theorem nodeKey_inj (s : ncclTopoSystem) (hn : ((pciKeys s).map Prod.fst).Nodup)
    (r1 r2 : NodeRef) (h1 : s.valid r1) (h2 : s.valid r2)
    (hk : nodeKey s r1 = nodeKey s r2) : r1 = r2 := by
  have ht : r1.type = r2.type := congrArg Prod.fst hk
  by_cases hp : r1.type = NodeType.PCI
  · obtain ⟨n1, hn1⟩ := (valid_iff_node? s r1).1 h1
    obtain ⟨n2, hn2⟩ := (valid_iff_node? s r2).1 h2
    rw [nodeKey_pci s r1 n1 hp hn1, nodeKey_pci s r2 n2 (ht ▸ hp) hn2] at hk
    have hid : n1.id = n2.id := (Prod.mk.inj hk).2
    have e1 := pciKeys_getElem? s r1 n1 hp hn1
    have e2 := pciKeys_getElem? s r2 n2 (ht ▸ hp) hn2
    rw [hid] at e1
    have := keys_index_unique _ hn _ _ _ _ _ e1 e2
    cases r1 with
    | mk t1 i1 =>
      cases r2 with
      | mk t2 i2 =>
        simp only at ht this
        rw [ht, this]
  · unfold nodeKey at hk
    have hp2 : ¬ r2.type = NodeType.PCI := fun h => hp (ht.trans h)
    simp only [hp, hp2, if_false, Prod.mk.injEq] at hk
    cases r1 with
    | mk t1 i1 =>
      cases r2 with
      | mk t2 i2 =>
        simp only at ht hk
        rw [ht, Int.ofNat_inj.1 hk.2]

theorem forall₂_redirected_eq (c p : NodeRef) (L1 L : List ncclTopoLink)
    (hf : List.Forall₂ (Redirected c p) L1 L) (hno : ∀ y ∈ L, y.remNode ≠ c) : L1 = L := by
  induction hf with
  | nil => rfl
  | @cons a b l1 l2 h1 _ ih =>
    have hb : a = b := by
      rcases h1 with h | ⟨h, -⟩
      · exact h
      · exact absurd h (hno b (List.mem_cons_self _ _))
    rw [hb, ih (fun y hy => hno y (List.mem_cons_of_mem _ hy))]

theorem take_eraseIdx_of_lt {α : Type} (L : List α) (i n : Nat) (h : n ≤ i) :
    (L.eraseIdx i).take n = L.take n := by
  apply List.ext_getElem?
  intro j
  rw [List.getElem?_take, List.getElem?_take, List.getElem?_eraseIdx]
  split_ifs <;> first | rfl | omega

theorem not_mem_eraseIdx_of_nodup (K : List (Int × Nat)) (hn : (K.map Prod.fst).Nodup)
    (i : Nat) (a : Int) (d : Nat) (hi : K[i]? = some (a, d)) :
    a ∉ (K.eraseIdx i).map Prod.fst := by
  intro hmem
  obtain ⟨kd, hkd, hka⟩ := List.mem_map.1 hmem
  obtain ⟨j, hj⟩ := List.mem_iff_getElem?.1 hkd
  rw [List.getElem?_eraseIdx] at hj
  cases kd with
  | mk a1 d1 =>
    simp only at hka
    subst hka
    split_ifs at hj with hlt
    · have := keys_index_unique K hn _ _ _ _ _ hj hi
      omega
    · have := keys_index_unique K hn _ _ _ _ _ hj hi
      omega

theorem low_getElem? (K K0 : List (Int × Nat)) (i j : Nat) (hj : j ≤ i)
    (hlow : K.take (i + 1) = K0.take (i + 1)) : K[j]? = K0[j]? := by
  have := congrArg (fun L => L[j]?) hlow
  simp only [List.getElem?_take] at this
  have hlt : j < i + 1 := by omega
  simpa [hlt] using this

theorem shiftRef_of_lt (c r : NodeRef) (h : r.index < c.index) : shiftRef c r = r := by
  unfold shiftRef
  rw [if_neg]
  intro hc
  omega

theorem shiftRef_type (c r : NodeRef) : (shiftRef c r).type = r.type := by
  unfold shiftRef
  split_ifs <;> rfl

theorem node_of_pciKeys (s : ncclTopoSystem) (j : Nat) (a : Int) (d : Nat)
    (h : (pciKeys s)[j]? = some (a, d)) :
    ∃ n, s.node? { type := NodeType.PCI, index := j } = some n ∧ n.id = a ∧ n.pci.device = d := by
  unfold pciKeys at h
  rw [List.getElem?_map] at h
  unfold ncclTopoSystem.node?
  cases hx : (s.nodes NodeType.PCI)[j]? with
  | none => rw [hx] at h; simp at h
  | some n =>
    rw [hx] at h
    simp only [Option.map_some', Option.some.injEq, Prod.mk.injEq] at h
    exact ⟨n, rfl, h.1, h.2⟩

theorem child_facts (sys : ncclTopoSystem) (i : Nat) (P : ncclTopoNode)
    (ctx : SwitchCtx sys i P) (c : NodeRef) (hc : c ∈ subSwitches sys P) :
    ∃ C, sys.node? c = some C ∧ c.type = NodeType.PCI ∧ sys.valid c ∧
      c ≠ { type := NodeType.PCI, index := i } ∧ nodeKey sys c = (NodeType.PCI, C.id) ∧
      C.pci.device = P.pci.device := by
  have habove := ctx.above c hc
  unfold subSwitches at hc
  obtain ⟨l, hl, rfl⟩ := List.mem_map.1 hc
  obtain ⟨-, hsub⟩ := List.mem_filter.1 hl
  unfold isSubLink at hsub
  cases hx : sys.node? l.remNode with
  | none => rw [hx] at hsub; simp at hsub
  | some C =>
    rw [hx] at hsub
    simp only [Bool.and_eq_true, decide_eq_true_eq] at hsub
    have hty : l.remNode.type = NodeType.PCI := by
      rw [← (good_node? sys ctx.good _ C hx).2.1]; exact hsub.1
    refine ⟨C, rfl, hty, (valid_iff_node? sys _).2 ⟨C, hx⟩, ?_, nodeKey_pci sys _ C hty hx,
      hsub.2⟩
    intro he
    rw [he] at habove
    simp at habove

theorem child_link_target (sys : ncclTopoSystem) (i : Nat) (P : ncclTopoNode)
    (ctx : SwitchCtx sys i P) (c : NodeRef) (hc : c ∈ subSwitches sys P) (C : ncclTopoNode)
    (hC : sys.node? c = some C) (x : ncclTopoLink) (hx : x ∈ C.live) :
    sys.valid x.remNode ∧ ∀ c2 ∈ subSwitches sys P, nodeKey sys x.remNode ≠ nodeKey sys c2 := by
  have hv : sys.valid x.remNode :=
    (good_node? sys ctx.good c C hC).2.2 x (List.mem_of_mem_take hx)
  refine ⟨hv, ?_⟩
  intro c2 hc2 hk
  obtain ⟨C2, -, -, hv2, hne2, -, -⟩ := child_facts sys i P ctx c2 hc2
  have he := nodeKey_inj sys ctx.ids _ _ hv hv2 hk
  have hxp : x.remNode ≠ { type := NodeType.PCI, index := i } := by rw [he]; exact hne2
  exact ctx.leaves c hc C hC x hx hxp (he ▸ hc2)

theorem fuseInv_parent (sys : ncclTopoSystem) (i : Nat) (P : ncclTopoNode)
    (ctx : SwitchCtx sys i P) (todo : List Int) (s : ncclTopoSystem)
    (hinv : FuseInv sys i P todo s) :
    ∃ Pn, s.node? { type := NodeType.PCI, index := i } = some Pn ∧ Pn.id = P.id ∧
      nodeKey s { type := NodeType.PCI, index := i }
        = nodeKey sys { type := NodeType.PCI, index := i } := by
  have h0 := pciKeys_getElem? sys { type := NodeType.PCI, index := i } P rfl ctx.node
  have h1 := low_getElem? _ _ i i (Nat.le_refl i) hinv.low
  simp only at h0
  rw [h0] at h1
  obtain ⟨Pn, hPn, hid, -⟩ := node_of_pciKeys s i _ _ h1
  refine ⟨Pn, hPn, hid, ?_⟩
  rw [nodeKey_pci s _ Pn rfl hPn, nodeKey_pci sys _ P rfl ctx.node, hid]

theorem fuseInv_above (sys : ncclTopoSystem) (i : Nat) (P : ncclTopoNode)
    (ctx : SwitchCtx sys i P) (todo : List Int) (s : ncclTopoSystem)
    (hinv : FuseInv sys i P todo s) (c : NodeRef) (hc : c ∈ subSwitches sys P)
    (C : ncclTopoNode) (hC : sys.node? c = some C) (c1 : NodeRef) (hv : s.valid c1)
    (ht : c1.type = NodeType.PCI) (hk : nodeKey s c1 = (NodeType.PCI, C.id)) :
    i < c1.index := by
  by_contra hle
  obtain ⟨Cn, hCn⟩ := (valid_iff_node? s c1).1 hv
  rw [nodeKey_pci s c1 Cn ht hCn] at hk
  have hid : Cn.id = C.id := (Prod.mk.inj hk).2
  have e1 := pciKeys_getElem? s c1 Cn ht hCn
  rw [low_getElem? _ _ i c1.index (by omega) hinv.low, hid] at e1
  obtain ⟨_, _, hct, _, _, _, _⟩ := child_facts sys i P ctx c hc
  have e2 := pciKeys_getElem? sys c C hct hC
  have := keys_index_unique _ ctx.ids _ _ _ _ _ e1 e2
  have := ctx.above c hc
  omega

/-- A link of a sub switch that is still to handle does not go to the present position of a
sub switch. -/
theorem waiting_link_target (sys : ncclTopoSystem) (i : Nat) (P : ncclTopoNode)
    (ctx : SwitchCtx sys i P) (s : ncclTopoSystem) (c : NodeRef)
    (hc : c ∈ subSwitches sys P) (C : ncclTopoNode) (hC : sys.node? c = some C)
    (c1 : NodeRef) (Cn : ncclTopoNode) (hCn : s.node? c1 = some Cn)
    (he : edgesFrom s c1 = edgesFrom sys c) (y : ncclTopoLink) (hy : y ∈ Cn.live) :
    ∃ x ∈ C.live, edgeOf sys x = edgeOf s y ∧
      ∀ c2 ∈ subSwitches sys P, nodeKey s y.remNode ≠ nodeKey sys c2 := by
  rw [edgesFrom_eq s c1 Cn hCn, edgesFrom_eq sys c C hC] at he
  have hm : edgeOf s y ∈ C.live.map (edgeOf sys) := by
    rw [← he]; exact List.mem_map_of_mem _ hy
  obtain ⟨x, hx, hxe⟩ := List.mem_map.1 hm
  refine ⟨x, hx, hxe, ?_⟩
  intro c2 hc2 hk
  have hkx : nodeKey sys x.remNode = nodeKey s y.remNode := by
    have := congrArg (fun e => e.2.2) hxe
    exact this
  exact (child_link_target sys i P ctx c hc C hC x hx).2 c2 hc2 (hkx.trans hk)

theorem fuseInv_step (sys : ncclTopoSystem) (i : Nat) (P : ncclTopoNode)
    (ctx : SwitchCtx sys i P) (id : Int) (rest : List Int) (s s2 : ncclTopoSystem)
    (hnd : id ∉ rest)
    (hsrc : ∃ c ∈ subSwitches sys P, ∃ C, sys.node? c = some C ∧ C.id = id)
    (hinv : FuseInv sys i P (id :: rest) s)
    (hres : fuseSub { type := NodeType.PCI, index := i } s id = Except.ok s2) :
    FuseInv sys i P rest s2 ∧ (pciKeys s2).length + 1 = (pciKeys s).length := by
  obtain ⟨c, hc, C, hC, hCid⟩ := hsrc
  obtain ⟨c1, hv1, ht1, hk1, he1⟩ := hinv.waiting c hc C hC (by rw [hCid]; exact List.mem_cons_self _ _)
  obtain ⟨Cn, hCn⟩ := (valid_iff_node? s c1).1 hv1
  have hCnid : Cn.id = id := by
    rw [nodeKey_pci s c1 Cn ht1 hCn] at hk1
    rw [← hCid]; exact (Prod.mk.inj hk1).2
  have habove := fuseInv_above sys i P ctx _ s hinv c hc C hC c1 hv1 ht1 hk1
  obtain ⟨Pn, hPn, hPid, hPk⟩ := fuseInv_parent sys i P ctx _ s hinv
  have hcp : c1 ≠ { type := NodeType.PCI, index := i } := by
    intro h; rw [h] at habove; simp at habove
  obtain ⟨C0, hC0, _, hcv, hcne, hck, _⟩ := child_facts sys i P ctx c hc
  have hCC0 : C0 = C := by
    rw [hC] at hC0
    exact (Option.some.inj hC0).symm
  rw [hCC0] at hck
  have hself : ∀ y ∈ Cn.live, y.remNode ≠ c1 := by
    intro y hy hyc
    obtain ⟨x, hx, hxe, hno⟩ := waiting_link_target sys i P ctx s c hc C hC c1 Cn hCn he1 y hy
    apply hno c hc
    rw [hyc, hk1, hck]
  obtain ⟨s1, hS, hs2⟩ := fuseSub_spec s s2 _ c1 Cn Pn id hinv.good hinv.ids hcp ht1 hCn hCnid
    hPn hself hres
  obtain ⟨f1, f2, f3, f4, f5, f6⟩ := fuse_effect s s1 _ c1 Cn Pn ht1 hcp hS
  rw [← hs2] at f1 f2 f3 f4 f5 f6
  have hci := pciKeys_getElem? s c1 Cn ht1 hCn
  have hshiftp : shiftRef c1 { type := NodeType.PCI, index := i }
      = { type := NodeType.PCI, index := i } := shiftRef_of_lt _ _ habove
  rw [hshiftp] at f5
  have hlen : (pciKeys s2).length + 1 = (pciKeys s).length := by
    rw [f2, List.length_eraseIdx]
    have := (List.getElem?_eq_some_iff.1 hci).1
    simp only [this, if_true]
    omega
  have hpv : s.valid { type := NodeType.PCI, index := i } := (valid_iff_node? s _).2 ⟨Pn, hPn⟩
  have hpv0 : sys.valid { type := NodeType.PCI, index := i } :=
    (valid_iff_node? sys _).2 ⟨P, ctx.node⟩
  -- a node other than the parent and the fused switch: its links after the step
  have transfer : ∀ (X1 : NodeRef) (n : ncclTopoNode), X1 ≠ { type := NodeType.PCI, index := i } →
      X1 ≠ c1 → s.node? X1 = some n →
      ∃ n1, s1.node? X1 = some n1 ∧
        List.Forall₂ (Redirected c1 { type := NodeType.PCI, index := i }) n1.live n.live ∧
        edgesFrom s2 (shiftRef c1 X1)
          = (n1.live.filter (fun y => decide (y.remNode ≠ c1))).map (edgeOf s) ∧
        (∀ y ∈ n.live, y.remNode ≠ c1 → edgeOf s y ∈ edgesFrom s2 (shiftRef c1 X1)) := by
    intro X1 n hXp hXc hn
    obtain ⟨n1, hn1, hf⟩ := hS.others X1 hXp n hn
    have hedge := f6 X1 hXc n1 hn1
    refine ⟨n1, hn1, hf, hedge, ?_⟩
    intro y hy hyc
    obtain ⟨y1, hy1, hr⟩ := forall₂_mem_right _ _ _ hf y hy
    have hyy : y1 = y := by
      rcases hr with h | ⟨h, -⟩
      · exact h
      · exact absurd h hyc
    rw [hedge]
    apply List.mem_map_of_mem
    rw [List.mem_filter]
    exact ⟨hyy ▸ hy1, by simpa using hyc⟩
  -- a node of `sys` that is neither the parent nor a sub switch, at its present position
  have place : ∀ (X0 X1 : NodeRef), sys.valid X0 → X0 ≠ { type := NodeType.PCI, index := i } →
      X0 ∉ subSwitches sys P → nodeKey s X1 = nodeKey sys X0 →
      X1 ≠ { type := NodeType.PCI, index := i } ∧ X1 ≠ c1 := by
    intro X0 X1 hv0 h0p h0c hk
    constructor
    · intro h
      rw [h, hPk] at hk
      exact h0p (nodeKey_inj sys ctx.ids _ _ hv0 hpv0 hk.symm)
    · intro h
      rw [h, hk1, ← hck] at hk
      exact h0c ((nodeKey_inj sys ctx.ids _ _ hv0 hcv hk.symm) ▸ hc)
  refine ⟨⟨f1, ?_, ?_, ?_, ?_, ?_, ?_⟩, hlen⟩
  · rw [f2]
    exact hinv.ids.sublist ((List.eraseIdx_sublist _ _).map _)
  · rw [f2, take_eraseIdx_of_lt _ _ _ (by omega)]
    exact hinv.low
  · intro c' hc' C' hC' hmem
    have hne : C'.id ≠ id := fun h => hnd (h ▸ hmem)
    obtain ⟨c1', hv1', ht1', hk1', he1'⟩ := hinv.waiting c' hc' C' hC'
      (List.mem_cons_of_mem _ hmem)
    obtain ⟨Cn', hCn'⟩ := (valid_iff_node? s c1').1 hv1'
    have hcc : c1' ≠ c1 := by
      intro h
      rw [h, hk1] at hk1'
      exact hne ((Prod.mk.inj hk1').2.symm.trans hCid)
    have habove' := fuseInv_above sys i P ctx _ s hinv c' hc' C' hC' c1' hv1' ht1' hk1'
    have hcp' : c1' ≠ { type := NodeType.PCI, index := i } := by
      intro h; rw [h] at habove'; simp at habove'
    refine ⟨shiftRef c1 c1', f4 c1' hcc hv1', by rw [shiftRef_type]; exact ht1', ?_, ?_⟩
    · rw [f3 c1' hcc]; exact hk1'
    · obtain ⟨n1, hn1, hf⟩ := hS.others c1' hcp' Cn' hCn'
      have hedge := f6 c1' hcc n1 hn1
      have hno : ∀ y ∈ Cn'.live, y.remNode ≠ c1 := by
        intro y hy hyc
        obtain ⟨x, hx, hxe, hno⟩ := waiting_link_target sys i P ctx s c' hc' C' hC' c1' Cn'
          hCn' he1' y hy
        apply hno c hc
        rw [hyc, hk1, hck]
      rw [forall₂_redirected_eq _ _ _ _ hf hno] at hedge
      rw [hedge, ← he1', edgesFrom_eq s c1' Cn' hCn']
      congr 1
      apply List.filter_eq_self.2
      intro y hy
      simpa using hno y hy
  · intro c' hc' C' hC' hnmem
    by_cases hnew : C'.id = id
    · -- the sub switch fused in this step
      obtain ⟨_, _, hct', hcv', _, hck', _⟩ := child_facts sys i P ctx c' hc'
      have hcc' : c' = c := by
        apply nodeKey_inj sys ctx.ids _ _ hcv' hcv
        rw [nodeKey_pci sys c' C' hct' hC', hck, hnew, hCid]
      subst hcc'
      rw [hC] at hC'
      have hCC : C' = C := (Option.some.inj hC').symm
      subst hCC
      constructor
      · rw [f2, hnew, ← hCnid]
        exact not_mem_eraseIdx_of_nodup _ hinv.ids _ _ _ hci
      · intro x hx hxp
        have hxe : edgeOf sys x ∈ edgesFrom s c1 := by
          rw [he1, edgesFrom_eq sys c' C' hC]
          exact List.mem_map_of_mem _ hx
        rw [edgesFrom_eq s c1 Cn hCn] at hxe
        obtain ⟨y, hy, hye⟩ := List.mem_map.1 hxe
        rw [f5, ← hye]
        apply List.mem_map_of_mem
        rw [List.mem_filter]
        refine ⟨List.mem_append_right _ (List.mem_filter.2 ⟨hy, ?_⟩), ?_⟩
        · simp only [ne_eq, decide_not, Bool.not_eq_eq_eq_not, Bool.not_true,
            decide_eq_false_iff_not]
          intro hyp
          have hkk : nodeKey s y.remNode = nodeKey sys x.remNode := congrArg (fun e => e.2.2) hye
          rw [hyp, hPk] at hkk
          have hxv := (child_link_target sys i P ctx c' hc' C' hC x hx).1
          exact hxp (nodeKey_inj sys ctx.ids _ _ hxv
            ((valid_iff_node? sys _).2 ⟨P, ctx.node⟩) hkk.symm)
        · simpa using hself y hy
    · have hnm : C'.id ∉ id :: rest := by
        simp only [List.mem_cons, not_or]
        exact ⟨hnew, hnmem⟩
      obtain ⟨g1, g2⟩ := hinv.fused c' hc' C' hC' hnm
      constructor
      · intro hm
        rw [f2] at hm
        exact g1 (((List.eraseIdx_sublist _ _).map _).subset hm)
      · intro x hx hxp
        have hxe := g2 x hx hxp
        rw [edgesFrom_eq s _ Pn hPn] at hxe
        obtain ⟨y, hy, hye⟩ := List.mem_map.1 hxe
        rw [f5, ← hye]
        apply List.mem_map_of_mem
        rw [List.mem_filter]
        refine ⟨List.mem_append_left _ hy, ?_⟩
        simp only [ne_eq, decide_not, Bool.not_eq_eq_eq_not, Bool.not_true,
          decide_eq_false_iff_not]
        intro hyc
        have hkk : nodeKey s y.remNode = nodeKey sys x.remNode := congrArg (fun e => e.2.2) hye
        rw [hyc, hk1] at hkk
        apply (child_link_target sys i P ctx c' hc' C' hC' x hx).2 c hc
        rw [← hkk, hck]
  · -- kept
    intro X0 X hX h0p h0c
    have hv0 : sys.valid X0 := (valid_iff_node? sys X0).2 ⟨X, hX⟩
    obtain ⟨X1, hv, hk, hall⟩ := hinv.kept X0 X hX h0p h0c
    obtain ⟨hXp, hXc⟩ := place X0 X1 hv0 h0p h0c hk
    obtain ⟨n, hn⟩ := (valid_iff_node? s X1).1 hv
    obtain ⟨n1, hn1, hf, hedge, hkeep⟩ := transfer X1 n hXp hXc hn
    refine ⟨shiftRef c1 X1, f4 X1 hXc hv, by rw [f3 X1 hXc]; exact hk, ?_⟩
    intro c' hc' C' hC' hmem
    have hne : C'.id ≠ id := fun h => hnd (h ▸ hmem)
    obtain ⟨J, I⟩ := hall c' hc' C' hC' (List.mem_cons_of_mem _ hmem)
    obtain ⟨_, hC0', _, _, _, hck', _⟩ := child_facts sys i P ctx c' hc'
    rw [hC'] at hC0'
    rw [← Option.some.inj hC0'] at hck'
    constructor
    · intro z hz hzc
      have hm := J z hz hzc
      rw [edgesFrom_eq s X1 n hn] at hm
      obtain ⟨y, hy, hye⟩ := List.mem_map.1 hm
      rw [← hye]
      apply hkeep y hy
      intro hyc
      have hkk : nodeKey s y.remNode = nodeKey sys z.remNode := congrArg (fun e => e.2.2) hye
      rw [hyc, hk1, hzc, hck'] at hkk
      exact hne ((Prod.mk.inj hkk).2.symm.trans hCid)
    · intro e he hek
      rw [hedge] at he
      obtain ⟨y1, hy1, hye⟩ := List.mem_map.1 he
      obtain ⟨hy1m, -⟩ := List.mem_filter.1 hy1
      obtain ⟨y, hy, hr⟩ := forall₂_mem_left _ _ _ hf y1 hy1m
      rcases hr with rfl | ⟨-, hr2⟩
      · apply I e _ hek
        rw [edgesFrom_eq s X1 n hn, ← hye]
        exact List.mem_map_of_mem _ hy
      · exfalso
        have hkk : nodeKey s y1.remNode = e.2.2 := congrArg (fun e => e.2.2) hye
        rw [hr2, hek] at hkk
        have : nodeKey sys { type := NodeType.PCI, index := i } = nodeKey sys c' := by
          rw [← hPk]; exact hkk
        obtain ⟨_, _, _, hcv', hcne', _, _⟩ := child_facts sys i P ctx c' hc'
        exact hcne' (nodeKey_inj sys ctx.ids _ _ hpv0 hcv' this).symm
  · -- back
    intro c' hc' C' hC' hnmem x hx hxp X hX hex
    obtain ⟨hxv, hxno⟩ := child_link_target sys i P ctx c' hc' C' hC' x hx
    have h0c : x.remNode ∉ subSwitches sys P := fun h => hxno _ h rfl
    obtain ⟨X1, hv, hk, hall⟩ := hinv.kept x.remNode X hX hxp h0c
    obtain ⟨hXp, hXc⟩ := place x.remNode X1 hxv hxp h0c hk
    obtain ⟨n, hn⟩ := (valid_iff_node? s X1).1 hv
    obtain ⟨n1, hn1, hf, hedge, hkeep⟩ := transfer X1 n hXp hXc hn
    obtain ⟨wn1, wn2, wn3⟩ := weakGood_node? s hinv.good X1 n hn
    by_cases hnew : C'.id = id
    · obtain ⟨_, _, hct', hcv', _, hck', _⟩ := child_facts sys i P ctx c' hc'
      have hcc' : c' = c := by
        apply nodeKey_inj sys ctx.ids _ _ hcv' hcv
        rw [nodeKey_pci sys c' C' hct' hC', hck, hnew, hCid]
      subst hcc'
      rw [hC] at hC'
      have hCC : C' = C := (Option.some.inj hC').symm
      subst hCC
      obtain ⟨J, I⟩ := hall c' hc C' hC (by rw [hCid]; exact List.mem_cons_self _ _)
      -- the present link of `X1` to the sub switch
      obtain ⟨z, hz, hzc⟩ := hex
      have hm := J z hz hzc
      rw [edgesFrom_eq s X1 n hn] at hm
      obtain ⟨yz, hyz, hyze⟩ := List.mem_map.1 hm
      have hyzc : yz.remNode = c1 := by
        apply nodeKey_inj s hinv.ids _ _ (wn3 yz hyz) hv1
        have hkk : nodeKey s yz.remNode = nodeKey sys z.remNode := congrArg (fun e => e.2.2) hyze
        rw [hkk, hzc, hck, hk1]
      -- the present link of the sub switch to `X1`
      have hxe : edgeOf sys x ∈ edgesFrom s c1 := by
        rw [he1, edgesFrom_eq sys c' C' hC]
        exact List.mem_map_of_mem _ hx
      rw [edgesFrom_eq s c1 Cn hCn] at hxe
      obtain ⟨yx, hyx, hyxe⟩ := List.mem_map.1 hxe
      have hyxX : yx.remNode = X1 := by
        apply nodeKey_inj s hinv.ids _ _ ((weakGood_node? s hinv.good c1 Cn hCn).2.2 yx hyx) hv
        have hkk : nodeKey s yx.remNode = nodeKey sys x.remNode := congrArg (fun e => e.2.2) hyxe
        rw [hkk, hk]
      obtain ⟨m1, hm1, z', hz', hz'c, hz'm⟩ := hS.redirected yx hyx (by rw [hyxX]; exact hXp) n
        (by rw [hyxX]; exact hn) ⟨yz, hyz, hyzc⟩
      rw [hyxX, hn1] at hm1
      have hmn : m1 = n1 := (Option.some.inj hm1).symm
      subst hmn
      -- the link of `sys` it comes from
      have he' : edgeOf s z' ∈ edgesFrom sys x.remNode := by
        apply I _ _ _
        · rw [edgesFrom_eq s X1 n hn]
          exact List.mem_map_of_mem _ hz'
        · show nodeKey s z'.remNode = nodeKey sys c'
          rw [hz'c, hk1, hck]
      rw [edgesFrom_eq sys _ X hX] at he'
      obtain ⟨z2, hz2, hz2e⟩ := List.mem_map.1 he'
      have hz2c : z2.remNode = c' := by
        apply nodeKey_inj sys ctx.ids _ _
          ((good_node? sys ctx.good _ X hX).2.2 z2 (List.mem_of_mem_take hz2)) hcv
        have hkk : nodeKey sys z2.remNode = nodeKey s z'.remNode := congrArg (fun e => e.2.2) hz2e
        rw [hkk, hz'c, hk1, hck]
      refine ⟨shiftRef c1 X1, f4 X1 hXc hv, by rw [f3 X1 hXc]; exact hk, z2, hz2, hz2c, ?_⟩
      rw [hedge]
      apply List.mem_map.2
      refine ⟨redirectLink _ z', List.mem_filter.2 ⟨hz'm, ?_⟩, ?_⟩
      · simpa [redirectLink] using Ne.symm hcp
      · have ht : z2.type = z'.type := congrArg (fun e => e.1) hz2e
        have hw : z2.width = z'.width := congrArg (fun e => e.2.1) hz2e
        simp only [edgeOf, redirectLink, hPk, ht, hw]
    · have hnm : C'.id ∉ id :: rest := by
        simp only [List.mem_cons, not_or]
        exact ⟨hnew, hnmem⟩
      obtain ⟨X1', hv', hk', z, hz, hzc, hmem⟩ := hinv.back c' hc' C' hC' hnm x hx hxp X hX hex
      have hXX : X1' = X1 := nodeKey_inj s hinv.ids _ _ hv' hv (hk'.trans hk.symm)
      subst hXX
      refine ⟨shiftRef c1 X1', f4 X1' hXc hv, by rw [f3 X1' hXc]; exact hk, z, hz, hzc, ?_⟩
      rw [edgesFrom_eq s X1' n hn] at hmem
      obtain ⟨y, hy, hye⟩ := List.mem_map.1 hmem
      rw [← hye]
      apply hkeep y hy
      intro hyc
      have hkk : nodeKey s y.remNode = nodeKey sys { type := NodeType.PCI, index := i } :=
        congrArg (fun e => e.2.2) hye
      rw [hyc, ← hPk] at hkk
      exact hcp (nodeKey_inj s hinv.ids _ _ hv1 hpv hkk)

theorem fuseFold (sys : ncclTopoSystem) (i : Nat) (P : ncclTopoNode)
    (ctx : SwitchCtx sys i P) (todo : List Int) :
    ∀ (s s1 : ncclTopoSystem), todo.Nodup →
      (∀ id ∈ todo, ∃ c ∈ subSwitches sys P, ∃ C, sys.node? c = some C ∧ C.id = id) →
      FuseInv sys i P todo s →
      todo.foldlM (fuseSub { type := NodeType.PCI, index := i }) s = Except.ok s1 →
      FuseInv sys i P [] s1 ∧ (pciKeys s1).length + todo.length = (pciKeys s).length := by
  induction todo with
  | nil =>
    intro s s1 _ _ hinv hres
    simp only [List.foldlM, pure, Except.pure, Except.ok.injEq] at hres
    rw [← hres]
    exact ⟨hinv, rfl⟩
  | cons id rest ih =>
    intro s s1 hnd hsrc hinv hres
    simp only [List.foldlM, bind, Except.bind] at hres
    split at hres
    · exact absurd hres (by simp)
    · rename_i sa ha
      obtain ⟨hnot, hrest⟩ := List.nodup_cons.1 hnd
      obtain ⟨hinv1, hlen1⟩ := fuseInv_step sys i P ctx id rest s sa hnot
        (hsrc id (List.mem_cons_self _ _)) hinv ha
      obtain ⟨hfin, hlen2⟩ := ih sa s1 hrest
        (fun x hx => hsrc x (List.mem_cons_of_mem _ hx)) hinv1 hres
      refine ⟨hfin, ?_⟩
      simp only [List.length_cons]
      omega

theorem linkId_eq (sys : ncclTopoSystem) (l : ncclTopoLink) (C : ncclTopoNode)
    (h : sys.node? l.remNode = some C) : linkId sys l = C.id := by
  unfold linkId
  rw [h]

theorem subIds_spec (sys : ncclTopoSystem) (i : Nat) (P : ncclTopoNode)
    (ctx : SwitchCtx sys i P) :
    ((P.live.filter (isSubLink sys P.pci.device)).map (linkId sys)).Nodup ∧
    (∀ id ∈ (P.live.filter (isSubLink sys P.pci.device)).map (linkId sys),
      ∃ c ∈ subSwitches sys P, ∃ C, sys.node? c = some C ∧ C.id = id) ∧
    (∀ c ∈ subSwitches sys P, ∀ C, sys.node? c = some C →
      C.id ∈ (P.live.filter (isSubLink sys P.pci.device)).map (linkId sys)) := by
  have hmem : ∀ l ∈ P.live.filter (isSubLink sys P.pci.device),
      l.remNode ∈ subSwitches sys P := fun l hl => List.mem_map_of_mem _ hl
  refine ⟨?_, ?_, ?_⟩
  · have hd := ctx.distinct
    unfold subSwitches at hd
    have hinj : ∀ l1 ∈ P.live.filter (isSubLink sys P.pci.device),
        ∀ l2 ∈ P.live.filter (isSubLink sys P.pci.device),
        linkId sys l1 = linkId sys l2 → l1.remNode = l2.remNode := by
      intro l1 h1 l2 h2 he
      obtain ⟨C1, hC1, _, hv1, _, hk1, _⟩ := child_facts sys i P ctx _ (hmem l1 h1)
      obtain ⟨C2, hC2, _, hv2, _, hk2, _⟩ := child_facts sys i P ctx _ (hmem l2 h2)
      apply nodeKey_inj sys ctx.ids _ _ hv1 hv2
      rw [hk1, hk2, ← linkId_eq sys l1 C1 hC1, ← linkId_eq sys l2 C2 hC2, he]
    have hnd1 : (P.live.filter (isSubLink sys P.pci.device)).Nodup := List.Nodup.of_map _ hd
    apply List.Nodup.map_on _ hnd1
    intro l1 h1 l2 h2 he
    exact List.inj_on_of_nodup_map hd h1 h2 (hinj l1 h1 l2 h2 he)
  · intro id hid
    obtain ⟨l, hl, hle⟩ := List.mem_map.1 hid
    obtain ⟨C, hC, -⟩ := child_facts sys i P ctx _ (hmem l hl)
    exact ⟨l.remNode, hmem l hl, C, hC, by rw [← hle, linkId_eq sys l C hC]⟩
  · intro c hc C hC
    unfold subSwitches at hc
    obtain ⟨l, hl, hle⟩ := List.mem_map.1 hc
    apply List.mem_map.2
    refine ⟨l, hl, ?_⟩
    rw [← hle] at hC
    exact linkId_eq sys l C hC

theorem fuseInv_start (sys : ncclTopoSystem) (i : Nat) (P : ncclTopoNode)
    (ctx : SwitchCtx sys i P) (r : List ncclTopoLink × Nat × List Int)
    (hr : collectSubs sys P.pci.device P.nlinks 0 P.links P.nlinks [] = Except.ok r) :
    r.2.2 = (P.live.filter (isSubLink sys P.pci.device)).map (linkId sys) ∧
    FuseInv sys i P r.2.2
      (sys.modifyNode { type := NodeType.PCI, index := i }
        (fun n => { n with links := r.1, nlinks := r.2.1 })) := by
  have hPg := good_node? sys ctx.good _ P ctx.node
  obtain ⟨c1, c2, c3⟩ := collectSubs_live sys P.pci.device P.nlinks 0 P.links P.nlinks [] r
    (by rw [hPg.1]) (by omega) hr
  simp only [List.take_zero, List.drop_zero, List.nil_append] at c2 c3
  have hids : r.2.2 = (P.live.filter (isSubLink sys P.pci.device)).map (linkId sys) := c3
  refine ⟨hids, ?_⟩
  have hattrs : ∀ t, ((sys.modifyNode { type := NodeType.PCI, index := i }
      (fun n => { n with links := r.1, nlinks := r.2.1 })).nodes t).map nodeAttrs
      = (sys.nodes t).map nodeAttrs :=
    fun t => attrs_modifyNode sys _ (fun n => { n with links := r.1, nlinks := r.2.1 })
      (fun n => rfl) t
  have hkeys := pciKeys_of_attrs _ sys hattrs
  have hedges : ∀ X0, X0 ≠ { type := NodeType.PCI, index := i } →
      edgesFrom (sys.modifyNode { type := NodeType.PCI, index := i }
        (fun n => { n with links := r.1, nlinks := r.2.1 })) X0 = edgesFrom sys X0 := by
    intro X0 h0
    unfold edgesFrom
    rw [node?_modifyNode, if_neg h0]
    cases sys.node? X0 with
    | none => rfl
    | some X => exact List.map_congr_left (fun x _ => edgeOf_of_attrs _ sys hattrs x)
  refine ⟨?_, by rw [hkeys]; exact ctx.ids, by rw [hkeys], ?_, ?_, ?_, ?_⟩
  · apply weakGood_modifyNode_at sys _ P _ ctx.node (weakGood_of_good sys ctx.good)
    refine ⟨c1, rfl, ?_⟩
    intro l hl
    have hl' : l ∈ List.take r.2.1 r.1 := hl
    rw [c2] at hl'
    exact hPg.2.2 l (List.mem_of_mem_take (List.mem_of_mem_filter hl'))
  · intro c hc C hC _
    obtain ⟨_, _, hct, hcv, hcne, hck, _⟩ := child_facts sys i P ctx c hc
    refine ⟨c, (valid_modifyNode sys _ c _).2 hcv, hct, ?_, ?_⟩
    · rw [(nodeKey_of_attrs _ sys hattrs c).1, nodeKey_pci sys c C hct hC]
    · exact hedges c hcne
  · intro c hc C hC hnot
    exfalso
    apply hnot
    rw [hids]
    exact (subIds_spec sys i P ctx).2.2 c hc C hC
  · intro X0 X hX h0p _
    refine ⟨X0, (valid_modifyNode sys _ X0 _).2 ((valid_iff_node? sys X0).2 ⟨X, hX⟩),
      (nodeKey_of_attrs _ sys hattrs X0).1, ?_⟩
    intro c _ C _ _
    rw [hedges X0 h0p]
    refine ⟨fun z hz _ => ?_, fun e he _ => he⟩
    rw [edgesFrom_eq sys X0 X hX]
    exact List.mem_map_of_mem _ hz
  · intro c hc C hC hnot
    exfalso
    apply hnot
    rw [hids]
    exact (subIds_spec sys i P ctx).2.2 c hc C hC

theorem flattenSwitch_result (sys sys1 : ncclTopoSystem) (i : Nat) (P : ncclTopoNode)
    (ctx : SwitchCtx sys i P) (hres : flattenSwitch sys i P = Except.ok sys1) :
    ∃ s2, FuseInv sys i P [] s2 ∧
      (pciKeys s2).length + (subSwitches sys P).length = (pciKeys sys).length ∧
      sys1 = s2.modifyNode { type := NodeType.PCI, index := i }
        (fun n => { n with pci := { device := flattenedDevice } }) := by
  unfold flattenSwitch at hres
  simp only [bind, Except.bind] at hres
  split at hres
  · exact absurd hres (by simp)
  · rename_i r hr
    obtain ⟨hids, hstart⟩ := fuseInv_start sys i P ctx r hr
    split at hres
    · exact absurd hres (by simp)
    · rename_i s2 hfold
      simp only [Except.ok.injEq] at hres
      obtain ⟨n1, n2, -⟩ := subIds_spec sys i P ctx
      rw [← hids] at n1 n2
      obtain ⟨hfin, hlen⟩ := fuseFold sys i P ctx r.2.2 _ s2 n1 n2 hstart hfold
      refine ⟨s2, hfin, ?_, hres.symm⟩
      have hk := pciKeys_of_attrs
        (sys.modifyNode { type := NodeType.PCI, index := i }
          (fun n => { n with links := r.1, nlinks := r.2.1 })) sys
        (fun t => attrs_modifyNode sys _ (fun n => { n with links := r.1, nlinks := r.2.1 })
          (fun n => rfl) t)
      rw [hk, hids] at hlen
      unfold subSwitches
      simpa using hlen

theorem setDevice_facts (s : ncclTopoSystem) (p : NodeRef) (d : Nat) :
    (∀ r, (s.modifyNode p (fun n => { n with pci := { device := d } })).valid r ↔ s.valid r) ∧
    (∀ r, nodeKey (s.modifyNode p (fun n => { n with pci := { device := d } })) r
      = nodeKey s r) ∧
    (∀ r, ((s.modifyNode p (fun n => { n with pci := { device := d } })).node? r).map
        (fun n => n.live) = (s.node? r).map (fun n => n.live)) := by
  refine ⟨fun r => valid_modifyNode s p r _, ?_, ?_⟩
  · intro r
    unfold nodeKey
    rw [node?_modifyNode]
    by_cases h2 : r = p
    · rw [if_pos h2, h2]
      cases s.node? p with
      | none => rfl
      | some n => rfl
    · rw [if_neg h2]
  · intro r
    rw [node?_modifyNode]
    split_ifs with h
    · rw [h]
      cases s.node? p with
      | none => rfl
      | some n => rfl
    · rfl

theorem collectSubs_ok (s : ncclTopoSystem) (device : Nat) :
    ∀ (k l : Nat) (links : List ncclTopoLink) (nlinks : Nat) (subs : List Int),
      nlinks ≤ links.length → (∀ x ∈ links.take nlinks, s.valid x.remNode) →
      ∃ r, collectSubs s device k l links nlinks subs = Except.ok r := by
  intro k
  induction k with
  | zero => intro l links nlinks subs _ _; exact ⟨_, rfl⟩
  | succ k ih =>
    intro l links nlinks subs hn hv
    simp only [collectSubs]
    split_ifs with hlt
    · have hll : l < links.length := by omega
      rw [List.getElem?_eq_getElem hll]
      simp only
      have hmem : links[l] ∈ links.take nlinks := by
        apply @List.getElem?_mem _ _ l
        rw [getElem?_take_of_lt _ _ _ hlt, List.getElem?_eq_getElem hll]
      obtain ⟨sub, hsub⟩ := (valid_iff_node? s _).1 (hv _ hmem)
      rw [hsub]
      simp only
      split_ifs with hc
      · exact ih _ _ _ _ hn hv
      · obtain ⟨m1, m2⟩ := memmove_live links l nlinks hlt hn
        apply ih _ _ _ _ (by rw [m2]; omega)
        intro x hx
        rw [m1] at hx
        exact hv x (List.mem_of_mem_eraseIdx hx)
    · exact ⟨_, rfl⟩

theorem spliceStep_ok (s0 : ncclTopoSystem) (p c : NodeRef) (Cn Pn : ncclTopoNode)
    (seen : List ncclTopoLink) (s : ncclTopoSystem) (l : Nat) (hl : l < Cn.nlinks)
    (hinv : SpliceInv s0 p c Cn Pn seen s) : ∃ s1, spliceStep p c s l = Except.ok s1 := by
  obtain ⟨w1, -, w3⟩ := weakGood_node? s hinv.good c Cn hinv.sub
  have hll : l < Cn.links.length := by omega
  unfold spliceStep
  rw [hinv.sub]
  simp only
  rw [List.getElem?_eq_getElem hll]
  simp only
  split_ifs with hskip
  · exact ⟨_, rfl⟩
  · have hmem : Cn.links[l] ∈ Cn.live := by
      unfold ncclTopoNode.live
      apply @List.getElem?_mem _ _ l
      rw [getElem?_take_of_lt _ _ _ hl, List.getElem?_eq_getElem hll]
    obtain ⟨X, hX⟩ := (valid_iff_node? s _).1 (w3 _ hmem)
    rw [node?_modifyNode, if_neg hskip, hX]
    exact ⟨_, rfl⟩

theorem spliceLoop_ok (s0 : ncclTopoSystem) (p c : NodeRef) (Cn Pn : ncclTopoNode)
    (hcp : c ≠ p) (hself : ∀ y ∈ Cn.live, y.remNode ≠ c) (ls : List Nat) :
    ∀ (seen : List ncclTopoLink) (s : ncclTopoSystem), (∀ l ∈ ls, l < Cn.nlinks) →
      SpliceInv s0 p c Cn Pn seen s → ∃ s1, ls.foldlM (spliceStep p c) s = Except.ok s1 := by
  induction ls with
  | nil => intro seen s _ _; exact ⟨s, rfl⟩
  | cons l ls ih =>
    intro seen s hls hinv
    obtain ⟨sa, ha⟩ := spliceStep_ok s0 p c Cn Pn seen s l (hls l (List.mem_cons_self _ _)) hinv
    obtain ⟨link, -, hinv1⟩ := spliceStep_inv s0 p c Cn Pn seen s sa l hcp hself
      (hls l (List.mem_cons_self _ _)) hinv ha
    obtain ⟨s1, h1⟩ := ih (seen ++ [link]) sa (fun x hx => hls x (List.mem_cons_of_mem _ hx)) hinv1
    refine ⟨s1, ?_⟩
    simp only [List.foldlM, bind, Except.bind, ha]
    exact h1

theorem idToIndex_ok (s : ncclTopoSystem) (c : NodeRef) (Cn : ncclTopoNode)
    (hn : ((pciKeys s).map Prod.fst).Nodup) (hct : c.type = NodeType.PCI)
    (hC : s.node? c = some Cn) : ncclTopoIdToIndex s NodeType.PCI Cn.id = Except.ok c.index := by
  have hmem : Cn ∈ s.nodes NodeType.PCI := by
    have := node?_mem s c Cn hC
    rw [hct] at this
    exact this
  have hlt : (s.nodes NodeType.PCI).findIdx (fun n => decide (n.id = Cn.id))
      < (s.nodes NodeType.PCI).length :=
    List.findIdx_lt_length_of_exists ⟨Cn, hmem, by simp⟩
  have hok : ncclTopoIdToIndex s NodeType.PCI Cn.id
      = Except.ok ((s.nodes NodeType.PCI).findIdx (fun n => decide (n.id = Cn.id))) := by
    unfold ncclTopoIdToIndex ncclTopoSystem.count
    simp only [hlt, if_true]
  obtain ⟨d, hd⟩ := idToIndex_spec s Cn.id _ hok
  have hci := pciKeys_getElem? s c Cn hct hC
  rw [hok, keys_index_unique _ hn _ _ Cn.id _ _ hd hci]

theorem fuseSub_ok (s : ncclTopoSystem) (p c : NodeRef) (Cn Pn : ncclTopoNode)
    (hg : WeakGood s) (hn : ((pciKeys s).map Prod.fst).Nodup) (hcp : c ≠ p)
    (hct : c.type = NodeType.PCI) (hC : s.node? c = some Cn)
    (hP : s.node? p = some Pn) (hself : ∀ y ∈ Cn.live, y.remNode ≠ c) :
    ∃ s2, fuseSub p s Cn.id = Except.ok s2 := by
  obtain ⟨s1, h1⟩ := spliceLoop_ok s p c Cn Pn hcp hself (List.range Cn.nlinks) [] s
    (fun l hl => List.mem_range.1 hl) (spliceInv_init s p c Cn Pn hg hC hP)
  have hinv := spliceLoop_inv s p c Cn Pn hcp hself (List.range Cn.nlinks) [] s s1
    (fun l hl => List.mem_range.1 hl) (spliceInv_init s p c Cn Pn hg hC hP) h1
  unfold fuseSub
  simp only [bind, Except.bind, idToIndex_ok s c Cn hn hct hC]
  rw [← ref_eq_of_pci c hct, hC]
  simp only [h1, hinv.sub, if_true]
  exact ⟨_, rfl⟩

theorem fuseInv_step_ok (sys : ncclTopoSystem) (i : Nat) (P : ncclTopoNode)
    (ctx : SwitchCtx sys i P) (id : Int) (rest : List Int) (s : ncclTopoSystem)
    (hsrc : ∃ c ∈ subSwitches sys P, ∃ C, sys.node? c = some C ∧ C.id = id)
    (hinv : FuseInv sys i P (id :: rest) s) :
    ∃ s2, fuseSub { type := NodeType.PCI, index := i } s id = Except.ok s2 := by
  obtain ⟨c, hc, C, hC, hCid⟩ := hsrc
  obtain ⟨c1, hv1, ht1, hk1, he1⟩ := hinv.waiting c hc C hC (by rw [hCid]; exact List.mem_cons_self _ _)
  obtain ⟨Cn, hCn⟩ := (valid_iff_node? s c1).1 hv1
  have hCnid : Cn.id = id := by
    rw [nodeKey_pci s c1 Cn ht1 hCn] at hk1
    rw [← hCid]; exact (Prod.mk.inj hk1).2
  have habove := fuseInv_above sys i P ctx _ s hinv c hc C hC c1 hv1 ht1 hk1
  obtain ⟨Pn, hPn, -, -⟩ := fuseInv_parent sys i P ctx _ s hinv
  have hcp : c1 ≠ { type := NodeType.PCI, index := i } := by
    intro h; rw [h] at habove; simp at habove
  obtain ⟨C0, hC0, _, _, _, hck, _⟩ := child_facts sys i P ctx c hc
  have hCC0 : C0 = C := by
    rw [hC] at hC0
    exact (Option.some.inj hC0).symm
  rw [hCC0] at hck
  have hself : ∀ y ∈ Cn.live, y.remNode ≠ c1 := by
    intro y hy hyc
    obtain ⟨x, hx, hxe, hno⟩ := waiting_link_target sys i P ctx s c hc C hC c1 Cn hCn he1 y hy
    apply hno c hc
    rw [hyc, hk1, hck]
  rw [← hCnid]
  exact fuseSub_ok s _ c1 Cn Pn hinv.good hinv.ids hcp ht1 hCn hPn hself

theorem fuseFold_ok (sys : ncclTopoSystem) (i : Nat) (P : ncclTopoNode)
    (ctx : SwitchCtx sys i P) (todo : List Int) :
    ∀ (s : ncclTopoSystem), todo.Nodup →
      (∀ id ∈ todo, ∃ c ∈ subSwitches sys P, ∃ C, sys.node? c = some C ∧ C.id = id) →
      FuseInv sys i P todo s →
      ∃ s1, todo.foldlM (fuseSub { type := NodeType.PCI, index := i }) s = Except.ok s1 := by
  induction todo with
  | nil => intro s _ _ _; exact ⟨s, rfl⟩
  | cons id rest ih =>
    intro s hnd hsrc hinv
    obtain ⟨hnot, hrest⟩ := List.nodup_cons.1 hnd
    obtain ⟨sa, ha⟩ := fuseInv_step_ok sys i P ctx id rest s (hsrc id (List.mem_cons_self _ _))
      hinv
    obtain ⟨hinv1, -⟩ := fuseInv_step sys i P ctx id rest s sa hnot
      (hsrc id (List.mem_cons_self _ _)) hinv ha
    obtain ⟨s1, h1⟩ := ih sa hrest (fun x hx => hsrc x (List.mem_cons_of_mem _ hx)) hinv1
    refine ⟨s1, ?_⟩
    simp only [List.foldlM, bind, Except.bind, ha]
    exact h1

/-- Under the assumptions of `SwitchCtx` the flattening step returns a topology. -/
theorem flattenSwitch_ok (sys : ncclTopoSystem) (i : Nat) (P : ncclTopoNode)
    (ctx : SwitchCtx sys i P) : ∃ sys1, flattenSwitch sys i P = Except.ok sys1 := by
  have hPg := good_node? sys ctx.good _ P ctx.node
  obtain ⟨r, hr⟩ := collectSubs_ok sys P.pci.device P.nlinks 0 P.links P.nlinks []
    (by rw [hPg.1]) (fun x hx => hPg.2.2 x (List.mem_of_mem_take hx))
  obtain ⟨hids, hstart⟩ := fuseInv_start sys i P ctx r hr
  obtain ⟨n1, n2, -⟩ := subIds_spec sys i P ctx
  rw [← hids] at n1 n2
  obtain ⟨s2, h2⟩ := fuseFold_ok sys i P ctx r.2.2 _ n1 n2 hstart
  unfold flattenSwitch
  simp only [bind, Except.bind, hr, h2]
  exact ⟨_, rfl⟩

/-- C5, as amended: flattening a matching switch `P` at PCI index `i` whose sub switches
(the PCI nodes with the signature of `P` that `P` has a link to) lie behind it in the array,
in a well-formed topology with pairwise distinct PCI ids, where `P` has one link to each sub
switch and the links of a sub switch go to `P` or to nodes that are not sub switches. The
step returns a topology `sys1`, and it is the step the pass takes at index `i`; the PCI count
drops by the number of sub switches; no node with the id of a sub switch remains; `P` stays
at index `i` with its id, all its links go to nodes of the result and none to a sub switch;
for every link of a sub switch to a node `X` other than `P`, `P` has a link of the same kind
and width to `X`, and when `X` had a link to that sub switch, `X` now has a link to `P` with
the kind and width of a link it had to the sub switch. Nodes are named by `nodeKey`, which
the removal of PCI nodes does not change. -/
theorem flattenSwitch_fuses_children (sys : ncclTopoSystem) (i : Nat) (P : ncclTopoNode)
    (hg : GoodSystem sys) (hids : (sys.pciNodes.map (fun n => n.id)).Nodup)
    (hP : sys.node? { type := NodeType.PCI, index := i } = some P)
    (hm : isBcmGen4 P.pci.device = true)
    (habove : ∀ c ∈ subSwitches sys P, i < c.index)
    (hdist : (subSwitches sys P).Nodup)
    (hleaves : ∀ c ∈ subSwitches sys P, ∀ C, sys.node? c = some C →
      ∀ x ∈ C.live, x.remNode ≠ { type := NodeType.PCI, index := i } →
        x.remNode ∉ subSwitches sys P) :
    ∃ sys1, flattenSwitch sys i P = Except.ok sys1 ∧
    (∀ k, flattenLoop (k + 1) i sys = flattenLoop k 1 sys1) ∧
    sys1.count NodeType.PCI + (subSwitches sys P).length = sys.count NodeType.PCI ∧
    (∀ c ∈ subSwitches sys P, ∀ C, sys.node? c = some C →
      C.id ∉ sys1.pciNodes.map (fun n => n.id)) ∧
    ∃ P1, sys1.node? { type := NodeType.PCI, index := i } = some P1 ∧ P1.id = P.id ∧
      (∀ y ∈ P1.live, sys1.valid y.remNode ∧
        ∀ c ∈ subSwitches sys P, nodeKey sys1 y.remNode ≠ nodeKey sys c) ∧
      (∀ c ∈ subSwitches sys P, ∀ C, sys.node? c = some C →
        ∀ x ∈ C.live, x.remNode ≠ { type := NodeType.PCI, index := i } →
          (∃ y ∈ P1.live, y.type = x.type ∧ y.width = x.width ∧
            nodeKey sys1 y.remNode = nodeKey sys x.remNode) ∧
          (∀ X, sys.node? x.remNode = some X → (∃ z ∈ X.live, z.remNode = c) →
            ∃ X1 N1, sys1.node? X1 = some N1 ∧ nodeKey sys1 X1 = nodeKey sys x.remNode ∧
              ∃ z ∈ X.live, z.remNode = c ∧
                ∃ z1 ∈ N1.live, z1.remNode = { type := NodeType.PCI, index := i } ∧
                  z1.type = z.type ∧ z1.width = z.width)) := by
  have hn : ((pciKeys sys).map Prod.fst).Nodup := by
    unfold pciKeys
    rw [List.map_map]
    exact hids
  have ctx : SwitchCtx sys i P :=
    { good := hg, ids := hn, node := hP, above := habove, distinct := hdist, leaves := hleaves }
  obtain ⟨sys1, hres⟩ := flattenSwitch_ok sys i P ctx
  refine ⟨sys1, hres, ?_⟩
  obtain ⟨s2, hinv, hlen, hsys1⟩ := flattenSwitch_result sys sys1 i P ctx hres
  obtain ⟨d1, d2, d3⟩ := setDevice_facts s2 { type := NodeType.PCI, index := i } flattenedDevice
  rw [← hsys1] at d1 d2 d3
  obtain ⟨Pn, hPn, hPid, hPk⟩ := fuseInv_parent sys i P ctx [] s2 hinv
  have hpv : s2.valid { type := NodeType.PCI, index := i } := (valid_iff_node? s2 _).2 ⟨Pn, hPn⟩
  have hkeys1 : (pciKeys sys1).map Prod.fst = (pciKeys s2).map Prod.fst := by
    rw [hsys1, pciKeys_setDevice,
      map_modify_of_eq Prod.fst (fun kd : Int × Nat => (kd.1, flattenedDevice)) (fun x => rfl)]
  have hidmap : ∀ s : ncclTopoSystem, s.pciNodes.map (fun n => n.id) = (pciKeys s).map Prod.fst := by
    intro s
    unfold pciKeys
    rw [List.map_map]
    rfl
  -- nodes of the result, with the live links they have before the signature is rewritten
  have hnode : ∀ r n, s2.node? r = some n → ∃ n1, sys1.node? r = some n1 ∧ n1.live = n.live ∧
      n1.id = n.id := by
    intro r n hr
    rw [hsys1, node?_modifyNode]
    split_ifs with h
    · rw [← h, hr]; exact ⟨_, rfl, rfl, rfl⟩
    · exact ⟨n, hr, rfl, rfl⟩
  obtain ⟨P1, hP1, hP1live, hP1id⟩ := hnode _ Pn hPn
  refine ⟨?_, ?_, ?_, P1, hP1, by rw [hP1id, hPid], ?_, ?_⟩
  · intro k
    have hlt : i < sys.count NodeType.PCI := (valid_iff_node? sys _).2 ⟨P, hP⟩
    have hP' : sys.pciNodes[i]? = some P := hP
    simp only [flattenLoop, hlt, if_true, hP', hm, hres]
  · have e1 : sys1.count NodeType.PCI = (pciKeys sys1).length := by
      simp [pciKeys, ncclTopoSystem.count]
    have e2 : sys.count NodeType.PCI = (pciKeys sys).length := by
      simp [pciKeys, ncclTopoSystem.count]
    have e3 : (pciKeys sys1).length = (pciKeys s2).length := by
      have := congrArg List.length hkeys1
      simpa using this
    omega
  · intro c hc C hC
    rw [hidmap, hkeys1]
    exact (hinv.fused c hc C hC (List.not_mem_nil _)).1
  · intro y hy
    rw [hP1live] at hy
    have hyv := (weakGood_node? s2 hinv.good _ Pn hPn).2.2 y hy
    refine ⟨(d1 _).2 hyv, ?_⟩
    intro c hc hk
    obtain ⟨C, hC, hct, _, _, hck, _⟩ := child_facts sys i P ctx c hc
    rw [d2, hck] at hk
    have hty : y.remNode.type = NodeType.PCI := congrArg Prod.fst hk
    obtain ⟨Y, hY⟩ := (valid_iff_node? s2 _).1 hyv
    rw [nodeKey_pci s2 _ Y hty hY] at hk
    apply (hinv.fused c hc C hC (List.not_mem_nil _)).1
    rw [← (Prod.mk.inj hk).2]
    have := pciKeys_getElem? s2 _ Y hty hY
    exact List.mem_map.2 ⟨_, List.getElem?_mem this, rfl⟩
  · intro c hc C hC x hx hxp
    constructor
    · have hm1 := (hinv.fused c hc C hC (List.not_mem_nil _)).2 x hx hxp
      rw [edgesFrom_eq s2 _ Pn hPn] at hm1
      obtain ⟨y, hy, hye⟩ := List.mem_map.1 hm1
      refine ⟨y, by rw [hP1live]; exact hy, congrArg (fun e => e.1) hye,
        congrArg (fun e => e.2.1) hye, ?_⟩
      rw [d2]
      exact congrArg (fun e => e.2.2) hye
    · intro X hX hex
      obtain ⟨X1, hv, hk, z, hz, hzc, hmem⟩ :=
        hinv.back c hc C hC (List.not_mem_nil _) x hx hxp X hX hex
      obtain ⟨N, hN⟩ := (valid_iff_node? s2 X1).1 hv
      obtain ⟨N1, hN1, hN1live, -⟩ := hnode X1 N hN
      rw [edgesFrom_eq s2 X1 N hN] at hmem
      obtain ⟨z1, hz1, hz1e⟩ := List.mem_map.1 hmem
      refine ⟨X1, N1, hN1, by rw [d2]; exact hk, z, hz, hzc, z1, by rw [hN1live]; exact hz1,
        ?_, congrArg (fun e => e.1) hz1e, congrArg (fun e => e.2.1) hz1e⟩
      apply nodeKey_inj s2 hinv.ids _ _ ((weakGood_node? s2 hinv.good X1 N hN).2.2 z1 hz1) hpv
      have hkk : nodeKey s2 z1.remNode = nodeKey sys { type := NodeType.PCI, index := i } :=
        congrArg (fun e => e.2.2) hz1e
      rw [hkk, hPk]

theorem sampleTwoLevelBuilt_eq :
    buildGraph sampleHeader 10 sampleTwoLevelTree = Except.ok sampleTwoLevelBuilt := by
  apply toOption_eq_some
  decide!

theorem sampleTwoLevelFlat_eq :
    flattenSwitch sampleTwoLevelBuilt 0 (pciNodeAt sampleTwoLevelBuilt 0)
      = Except.ok sampleTwoLevelFlat := by
  apply toOption_eq_some
  decide!

theorem sampleTwoLevel_leaves :
    ∀ c ∈ subSwitches sampleTwoLevelBuilt (pciNodeAt sampleTwoLevelBuilt 0),
      ∀ C, sampleTwoLevelBuilt.node? c = some C →
      ∀ x ∈ C.live, x.remNode ≠ { type := NodeType.PCI, index := 0 } →
        x.remNode ∉ subSwitches sampleTwoLevelBuilt (pciNodeAt sampleTwoLevelBuilt 0) := by
  have key : ∀ c ∈ subSwitches sampleTwoLevelBuilt (pciNodeAt sampleTwoLevelBuilt 0),
      ∀ x ∈ ((sampleTwoLevelBuilt.node? c).map (fun n => n.live)).getD [],
        x.remNode ≠ { type := NodeType.PCI, index := 0 } →
        x.remNode ∉ subSwitches sampleTwoLevelBuilt (pciNodeAt sampleTwoLevelBuilt 0) := by
    decide!
  intro c hc C hC x hx hxp
  exact key c hc x (by rw [hC]; exact hx) hxp

/-- C5 at the two-level pair: the upper switch has one sub switch with two GPUs; the step
returns, one PCI node is left, and its live links go to the processor and to the two GPUs. -/
theorem flattenSwitch_fuses_children_witness :
    (GoodSystem sampleTwoLevelBuilt ∧
      (sampleTwoLevelBuilt.pciNodes.map (fun n => n.id)).Nodup ∧
      sampleTwoLevelBuilt.node? { type := NodeType.PCI, index := 0 }
        = some (pciNodeAt sampleTwoLevelBuilt 0) ∧
      isBcmGen4 (pciNodeAt sampleTwoLevelBuilt 0).pci.device = true ∧
      subSwitches sampleTwoLevelBuilt (pciNodeAt sampleTwoLevelBuilt 0)
        = [{ type := NodeType.PCI, index := 1 }]) ∧
    (∃ sys1, flattenSwitch sampleTwoLevelBuilt 0 (pciNodeAt sampleTwoLevelBuilt 0)
        = Except.ok sys1 ∧
      sys1.count NodeType.PCI
          + (subSwitches sampleTwoLevelBuilt (pciNodeAt sampleTwoLevelBuilt 0)).length
        = sampleTwoLevelBuilt.count NodeType.PCI) ∧
    flattenSwitch sampleTwoLevelBuilt 0 (pciNodeAt sampleTwoLevelBuilt 0)
      = Except.ok sampleTwoLevelFlat ∧
    pciLinks sampleTwoLevelFlat
      = [(65536, [(LINK_PCI, { type := NodeType.CPU, index := 0 }),
                  (LINK_PCI, { type := NodeType.GPU, index := 0 }),
                  (LINK_PCI, { type := NodeType.GPU, index := 1 })])] :=
  have hg : GoodSystem sampleTwoLevelBuilt :=
    built_good sampleHeader _ _ _ _
      (buildGraph_built sampleHeader 10 sampleTwoLevelTree _ sampleTwoLevelBuilt_eq) good_empty
  have hids : (sampleTwoLevelBuilt.pciNodes.map (fun n => n.id)).Nodup := by decide!
  have hP : sampleTwoLevelBuilt.node? { type := NodeType.PCI, index := 0 }
      = some (pciNodeAt sampleTwoLevelBuilt 0) := by decide!
  have hm : isBcmGen4 (pciNodeAt sampleTwoLevelBuilt 0).pci.device = true := by decide!
  have hsubs : subSwitches sampleTwoLevelBuilt (pciNodeAt sampleTwoLevelBuilt 0)
      = [{ type := NodeType.PCI, index := 1 }] := by decide!
  ⟨⟨hg, hids, hP, hm, hsubs⟩,
    (flattenSwitch_fuses_children sampleTwoLevelBuilt 0
      (pciNodeAt sampleTwoLevelBuilt 0) hg hids hP hm (by decide!) (by decide!)
      sampleTwoLevel_leaves).imp (fun _ hx => ⟨hx.1, hx.2.2.1⟩),
    sampleTwoLevelFlat_eq, by decide!⟩

theorem sampleDupFused_eq :
    flattenSwitch sampleDupBuilt 1 (pciNodeAt sampleDupBuilt 1) = Except.ok sampleDupFused := by
  apply toOption_eq_some
  decide!

/-- C5, counterexample: in the graph of the tree with the repeated bus id, the switch at PCI
index 1 (id 65536) matches and has one sub switch, the node at index 2 (id 69632, linked to
the switch only). Flattening the switch succeeds and leaves two PCI nodes: the switch, now at
index 0 with two links to the processor, and a node with id 69632 whose only link goes to
the switch: the sub switch remains, the bridge at index 0 with the same id was removed. -/
theorem flattenSwitch_removes_other_node_on_repeated_id :
    buildGraph sampleHeader 10 sampleDupTree = Except.ok sampleDupBuilt ∧
    pciLinks sampleDupBuilt
      = [(69632, [(LINK_PCI, { type := NodeType.CPU, index := 0 })]),
         (65536, [(LINK_PCI, { type := NodeType.PCI, index := 2 }),
                  (LINK_PCI, { type := NodeType.CPU, index := 0 })]),
         (69632, [(LINK_PCI, { type := NodeType.PCI, index := 1 })])] ∧
    isBcmGen4 (pciNodeAt sampleDupBuilt 1).pci.device = true ∧
    subSwitches sampleDupBuilt (pciNodeAt sampleDupBuilt 1)
      = [{ type := NodeType.PCI, index := 2 }] ∧
    flattenSwitch sampleDupBuilt 1 (pciNodeAt sampleDupBuilt 1) = Except.ok sampleDupFused ∧
    pciLinks sampleDupFused
      = [(65536, [(LINK_PCI, { type := NodeType.CPU, index := 0 }),
                  (LINK_PCI, { type := NodeType.CPU, index := 0 })]),
         (69632, [(LINK_PCI, { type := NodeType.PCI, index := 0 })])] := by
  refine ⟨sampleDupBuilt_eq, by decide!, by decide!, by decide!, sampleDupFused_eq, by decide!⟩

/-! ## Rank lookups, compute capability and processor affinity -/

theorem getLocalRank_cases (system : ncclTopoSystem) (rank : Int) :
    (∃ (k : Nat) (gpu : ncclTopoNode), ncclTopoGetLocalRank system rank = Except.ok (k : Int) ∧
      system.gpuNodes[k]? = some gpu ∧ gpuHasRank gpu rank = true ∧
      ∀ j gpu1, j < k → system.gpuNodes[j]? = some gpu1 → gpuHasRank gpu1 rank = false) ∨
    (ncclTopoGetLocalRank system rank = Except.error ncclResult_t.ncclInternalError ∧
      ∀ gpu ∈ system.gpuNodes, gpuHasRank gpu rank = false) := by
  unfold ncclTopoGetLocalRank
  by_cases hlt : system.gpuNodes.findIdx (fun gpu => gpuHasRank gpu rank) < system.gpuNodes.length
  · left
    refine ⟨system.gpuNodes.findIdx (fun gpu => gpuHasRank gpu rank),
      system.gpuNodes[system.gpuNodes.findIdx (fun gpu => gpuHasRank gpu rank)], ?_, ?_, ?_, ?_⟩
    · simp [hlt]
    · simp [hlt]
    · exact @List.findIdx_getElem _ (fun gpu => gpuHasRank gpu rank) _ hlt
    · intro j gpu1 hj hj1
      have hjl : j < system.gpuNodes.length := lt_trans hj hlt
      have := @List.not_of_lt_findIdx _ (fun gpu => gpuHasRank gpu rank) _ _ hj
      rw [List.getElem?_eq_getElem hjl] at hj1
      cases hj1
      simpa using this
  · right
    refine ⟨by simp [hlt], ?_⟩
    intro gpu hgpu
    by_contra hc
    apply hlt
    apply List.findIdx_lt_length_of_exists
    exact ⟨gpu, hgpu, by simpa using hc⟩

theorem compCapFold_spec (rest : List ncclTopoNode) :
    ∀ m : Int × Int,
      (rest.foldl (fun (m : Int × Int) g => (min m.1 g.gpu.cudaCompCap, max m.2 g.gpu.cudaCompCap))
        m).1 ≤ m.1 ∧
      m.2 ≤ (rest.foldl (fun (m : Int × Int) g => (min m.1 g.gpu.cudaCompCap, max m.2 g.gpu.cudaCompCap))
        m).2 ∧
      (∀ g ∈ rest,
        (rest.foldl (fun (m : Int × Int) g => (min m.1 g.gpu.cudaCompCap, max m.2 g.gpu.cudaCompCap))
          m).1 ≤ g.gpu.cudaCompCap ∧
        g.gpu.cudaCompCap ≤
          (rest.foldl (fun (m : Int × Int) g => (min m.1 g.gpu.cudaCompCap, max m.2 g.gpu.cudaCompCap))
            m).2) ∧
      ((rest.foldl (fun (m : Int × Int) g => (min m.1 g.gpu.cudaCompCap, max m.2 g.gpu.cudaCompCap))
          m).1 = m.1 ∨ ∃ g ∈ rest, g.gpu.cudaCompCap =
        (rest.foldl (fun (m : Int × Int) g => (min m.1 g.gpu.cudaCompCap, max m.2 g.gpu.cudaCompCap))
          m).1) ∧
      ((rest.foldl (fun (m : Int × Int) g => (min m.1 g.gpu.cudaCompCap, max m.2 g.gpu.cudaCompCap))
          m).2 = m.2 ∨ ∃ g ∈ rest, g.gpu.cudaCompCap =
        (rest.foldl (fun (m : Int × Int) g => (min m.1 g.gpu.cudaCompCap, max m.2 g.gpu.cudaCompCap))
          m).2) := by
  induction rest with
  | nil => intro m; simp
  | cons a rest ih =>
    intro m
    simp only [List.foldl_cons]
    obtain ⟨h1, h2, h3, h4, h5⟩ := ih (min m.1 a.gpu.cudaCompCap, max m.2 a.gpu.cudaCompCap)
    simp only at h1 h2 h4 h5
    refine ⟨le_trans h1 (min_le_left _ _), le_trans (le_max_left _ _) h2, ?_, ?_, ?_⟩
    · intro g hg
      rcases List.mem_cons.1 hg with rfl | hg
      · exact ⟨le_trans h1 (min_le_right _ _), le_trans (le_max_right _ _) h2⟩
      · exact h3 g hg
    · rcases h4 with h4 | ⟨g, hg, h4⟩
      · rcases min_choice m.1 a.gpu.cudaCompCap with hm | hm
        · left; rw [h4, hm]
        · right; exact ⟨a, List.mem_cons_self _ _, by rw [h4, hm]⟩
      · right; exact ⟨g, List.mem_cons_of_mem _ hg, h4⟩
    · rcases h5 with h5 | ⟨g, hg, h5⟩
      · rcases max_choice m.2 a.gpu.cudaCompCap with hm | hm
        · left; rw [h5, hm]
        · right; exact ⟨a, List.mem_cons_self _ _, by rw [h5, hm]⟩
      · right; exact ⟨g, List.mem_cons_of_mem _ hg, h5⟩

theorem closerCpuScan_append (gpu : ncclTopoNode) (l1 l2 : List Nat) :
    ∀ st, closerCpuScan gpu (l1 ++ l2) st
      = (closerCpuScan gpu l1 st).bind (closerCpuScan gpu l2) := by
  induction l1 with
  | nil => intro st; rfl
  | cons c cs ih =>
    intro st
    simp only [List.cons_append, closerCpuScan]
    cases pathToCpu gpu c with
    | none => rfl
    | some p => exact ih _

theorem closerCpuScan_range (gpu : ncclTopoNode) (n : Nat)
    (hpaths : ∀ c, c < n → (pathToCpu gpu c).isSome) :
    ∃ st, closerCpuScan gpu (List.range n) (-1, 0) = some st ∧
      ((n = 0 ∧ st = (-1, 0)) ∨ ∃ c, ClosestCpu gpu n c ∧ st = ((c : Int), hopsToCpu gpu c)) := by
  induction n with
  | zero => exact ⟨(-1, 0), rfl, Or.inl ⟨rfl, rfl⟩⟩
  | succ n ih =>
    obtain ⟨st, hst, hcase⟩ := ih (fun c hc => hpaths c (Nat.lt_succ_of_lt hc))
    obtain ⟨p, hp⟩ := Option.isSome_iff_exists.1 (hpaths n (Nat.lt_succ_self n))
    have hhop : hopsToCpu gpu n = p.count := by simp [hopsToCpu, hp]
    rw [List.range_succ, closerCpuScan_append, hst]
    simp only [Option.some_bind, closerCpuScan, hp]
    refine ⟨_, rfl, Or.inr ?_⟩
    rcases hcase with ⟨h0, hst0⟩ | ⟨c, ⟨hc, hmin, hfirst⟩, hstc⟩
    · subst h0
      subst hst0
      refine ⟨0, ⟨Nat.zero_lt_one, ?_, ?_⟩, ?_⟩
      · intro d hd
        have : d = 0 := by omega
        subst this
        exact le_refl _
      · intro d hd
        omega
      · simp [hhop]
    · subst hstc
      have hne : ((c : Int)) ≠ -1 := by omega
      by_cases hlt : p.count < hopsToCpu gpu c
      · refine ⟨n, ⟨Nat.lt_succ_self n, ?_, ?_⟩, ?_⟩
        · intro d hd
          rcases Nat.lt_succ_iff_lt_or_eq.1 hd with hd | hd
          · rw [hhop]
            exact le_trans (le_of_lt hlt) (hmin d hd)
          · subst hd
            exact le_refl _
        · intro d hd
          rw [hhop]
          exact lt_of_lt_of_le hlt (hmin d hd)
        · simp [hlt, hhop]
      · refine ⟨c, ⟨Nat.lt_succ_of_lt hc, ?_, hfirst⟩, ?_⟩
        · intro d hd
          rcases Nat.lt_succ_iff_lt_or_eq.1 hd with hd | hd
          · exact hmin d hd
          · subst hd
            rw [hhop]
            exact not_lt.1 hlt
        · simp [hlt, hne]

theorem cpuScan_no_owner (system : ncclTopoSystem) (rank : Int) (pre : List ncclTopoNode)
    (hpre : ∀ gpu ∈ pre, gpuHasRank gpu rank = false) :
    ∀ (l : List ncclTopoNode) (cpu : Option Int),
      cpuScan system rank (pre ++ l) cpu = cpuScan system rank l cpu := by
  induction pre with
  | nil => intro l cpu; rfl
  | cons a pre ih =>
    intro l cpu
    simp only [List.cons_append, cpuScan, hpre a (List.mem_cons_self _ _)]
    exact ih (fun gpu hgpu => hpre gpu (List.mem_cons_of_mem _ hgpu)) l cpu

theorem cpuScan_found (system : ncclTopoSystem) (rank : Int) (l : List ncclTopoNode) :
    ∀ x : Int, cpuScan system rank l (some x) ≠ some none := by
  induction l with
  | nil => intro x; simp [cpuScan]
  | cons a l ih =>
    intro x
    unfold cpuScan
    split
    · split
      · simp
      · exact ih _
    · exact ih x

theorem cpuScan_owner (system : ncclTopoSystem) (rank : Int) (l : List ncclTopoNode) :
    (∃ gpu ∈ l, gpuHasRank gpu rank = true) →
      ∀ cpu, cpuScan system rank l cpu ≠ some none := by
  induction l with
  | nil => intro ⟨gpu, hgpu, _⟩; exact absurd hgpu (List.not_mem_nil _)
  | cons a l ih =>
    intro ⟨gpu, hgpu, hown⟩ cpu
    unfold cpuScan
    split
    · split
      · simp
      · exact cpuScan_found system rank l _
    · rename_i ha
      rcases List.mem_cons.1 hgpu with rfl | hgpu
      · exact absurd hown ha
      · exact ih ⟨gpu, hgpu, hown⟩ cpu

theorem maskSubset_land (a b : Nat) : MaskSubset (a &&& b) b := by
  intro i hi
  rw [Nat.testBit_land, Bool.and_eq_true] at hi
  exact hi.2

/-- C13: in a topology with at least one Processor, for a rank owned by exactly one GPU `g`
whose path table has an entry for every Processor, when `sched_getaffinity` succeeds with
`mask` (and the logging helper `ncclCpusetToStr` succeeds), `ncclTopoGetCpuAffinity` returns
success; the Processor it selects is the lowest-index one among those with the minimum hop
count from `g`; the mask it stores is the Processor's mask when the ignore-affinity override is
set and otherwise the intersection of `mask` with the Processor's mask; the stored mask is a
subset of the Processor's mask. -/
theorem getCpuAffinity_closest_cpu (env : AffinityEnv) (system : ncclTopoSystem) (rank : Int)
    (g : Nat) (gpu : ncclTopoNode) (mask : Nat)
    (hcpu : 0 < system.count NodeType.CPU)
    (hg : system.gpuNodes[g]? = some gpu) (hown : gpuHasRank gpu rank = true)
    (huniq : ∀ j gpu1, system.gpuNodes[j]? = some gpu1 → gpuHasRank gpu1 rank = true → j = g)
    (hpaths : ∀ c, c < system.count NodeType.CPU → (pathToCpu gpu c).isSome)
    (hmask : env.sched_getaffinity = some mask)
    (hstr : ∀ m, env.ncclCpusetToStr m = ncclResult_t.ncclSuccess) :
    ∃ c cpu, ClosestCpu gpu (system.count NodeType.CPU) c ∧ system.cpuNodes[c]? = some cpu ∧
      ncclTopoGetCpuAffinity env system rank
        = some (ncclResult_t.ncclSuccess,
            some (if env.ncclParamIgnoreCpuAffinity ≠ 0 then cpu.cpu.affinity
                  else mask &&& cpu.cpu.affinity)) ∧
      MaskSubset (if env.ncclParamIgnoreCpuAffinity ≠ 0 then cpu.cpu.affinity
                  else mask &&& cpu.cpu.affinity) cpu.cpu.affinity := by
  have hgl : g < system.gpuNodes.length := by
    by_contra hc
    rw [List.getElem?_eq_none (not_lt.1 hc)] at hg
    cases hg
  have hge : system.gpuNodes[g] = gpu := by
    rw [List.getElem?_eq_getElem hgl] at hg
    exact Option.some.inj hg
  have hsplit : system.gpuNodes = system.gpuNodes.take g ++ gpu :: system.gpuNodes.drop (g + 1) := by
    rw [← hge, ← List.drop_eq_getElem_cons hgl, List.take_append_drop]
  have hpre : ∀ a ∈ system.gpuNodes.take g, gpuHasRank a rank = false := by
    intro a ha
    obtain ⟨j, hj, rfl⟩ := List.getElem_of_mem ha
    rw [List.length_take] at hj
    rw [List.getElem_take]
    by_contra hc
    have := huniq j _ (List.getElem?_eq_getElem (by omega)) (by simpa using hc)
    omega
  have hpost : ∀ a ∈ system.gpuNodes.drop (g + 1), gpuHasRank a rank = false := by
    intro a ha
    obtain ⟨j, hj, rfl⟩ := List.getElem_of_mem ha
    rw [List.length_drop] at hj
    rw [List.getElem_drop]
    by_contra hc
    have := huniq (g + 1 + j) _ (List.getElem?_eq_getElem (by omega)) (by simpa using hc)
    omega
  obtain ⟨st, hst, hcase⟩ := closerCpuScan_range gpu (system.count NodeType.CPU) hpaths
  rcases hcase with ⟨h0, -⟩ | ⟨c, hclose, hstc⟩
  · omega
  have hscan : cpuScan system rank system.gpuNodes none = some (some (c : Int)) := by
    rw [hsplit, cpuScan_no_owner system rank _ hpre]
    simp only [cpuScan, hown, if_true, hst]
    have := cpuScan_no_owner system rank _ hpost [] (some st.1)
    rw [List.append_nil] at this
    rw [this, hstc]
    rfl
  have hcl : c < system.cpuNodes.length := hclose.1
  refine ⟨c, system.cpuNodes[c], hclose, List.getElem?_eq_getElem hcl, ?_, ?_⟩
  · unfold ncclTopoGetCpuAffinity
    simp only [hscan, hmask]
    have hnn : ¬ ((c : Int) < 0) := by omega
    simp only [hnn, if_false, Int.toNat_ofNat, List.getElem?_eq_getElem hcl, hstr]
    split <;> simp
  · split
    · intro i hi; exact hi
    · exact maskSubset_land _ _

/-- C14: provided the logging helper `ncclCpusetToStr` does not itself return
`ncclInternalError`, `ncclTopoGetCpuAffinity` returns `ncclInternalError` exactly when no
GPU node has the rank among the first `nRanksPerGpu` entries of its rank list, and then
nothing is stored in the affinity output. (In the embedding this holds with or without
Processor nodes.) -/
theorem getCpuAffinity_internal_error_iff (env : AffinityEnv) (system : ncclTopoSystem)
    (rank : Int) (hstr : ∀ m, env.ncclCpusetToStr m ≠ ncclResult_t.ncclInternalError) :
    ((∃ out, ncclTopoGetCpuAffinity env system rank
        = some (ncclResult_t.ncclInternalError, out)) ↔
      ∀ gpu ∈ system.gpuNodes, gpuHasRank gpu rank = false) ∧
    ((∀ gpu ∈ system.gpuNodes, gpuHasRank gpu rank = false) →
      ncclTopoGetCpuAffinity env system rank = some (ncclResult_t.ncclInternalError, none)) := by
  have hno : (∀ gpu ∈ system.gpuNodes, gpuHasRank gpu rank = false) →
      ncclTopoGetCpuAffinity env system rank = some (ncclResult_t.ncclInternalError, none) := by
    intro h
    have := cpuScan_no_owner system rank _ h [] none
    rw [List.append_nil] at this
    unfold ncclTopoGetCpuAffinity
    rw [this]
    rfl
  refine ⟨⟨?_, fun h => ⟨none, hno h⟩⟩, hno⟩
  intro ⟨out, hout⟩
  by_contra hc
  push_neg at hc
  obtain ⟨gpu, hgpu, hown⟩ := hc
  have hscan := cpuScan_owner system rank system.gpuNodes ⟨gpu, hgpu, by simpa using hown⟩ none
  unfold ncclTopoGetCpuAffinity at hout
  cases h1 : cpuScan system rank system.gpuNodes none with
  | none => simp [h1] at hout
  | some o =>
    cases o with
    | none => exact hscan h1
    | some ci =>
      simp only [h1] at hout
      cases h2 : env.sched_getaffinity with
      | none => simp [h2] at hout
      | some mask =>
        simp only [h2] at hout
        by_cases h3 : ci < 0
        · simp [h3] at hout
        · simp only [h3, if_false] at hout
          cases h4 : system.cpuNodes[ci.toNat]? with
          | none => simp [h4] at hout
          | some cpu =>
            simp only [h4] at hout
            generalize (if env.ncclParamIgnoreCpuAffinity ≠ 0 then cpu.cpu.affinity
              else mask &&& cpu.cpu.affinity) = fm at hout
            by_cases hfm : fm ≠ 0
            · rw [if_pos hfm] at hout
              cases h5 : env.ncclCpusetToStr fm with
              | ncclSuccess => simp [h5] at hout
              | ncclInternalError => exact hstr fm h5
              | ncclSystemError => simp [h5] at hout
            · rw [if_neg hfm] at hout
              simp at hout

/-- C15: `ncclTopoGetLocalRank` either returns success with the smallest GPU node index (in
discovery order) whose first `nRanksPerGpu` rank entries contain the rank, or it returns
`ncclInternalError` (an error stores nothing in the output) and no GPU node has the rank in
its list; hence the error is returned exactly when no GPU node's rank list contains the
rank. -/
theorem getLocalRank_smallest_owner (system : ncclTopoSystem) (rank : Int) :
    ((∃ (k : Nat) (gpu : ncclTopoNode), ncclTopoGetLocalRank system rank = Except.ok (k : Int) ∧
        system.gpuNodes[k]? = some gpu ∧ gpuHasRank gpu rank = true ∧
        ∀ j gpu1, j < k → system.gpuNodes[j]? = some gpu1 → gpuHasRank gpu1 rank = false) ∨
      (ncclTopoGetLocalRank system rank = Except.error ncclResult_t.ncclInternalError ∧
        ∀ gpu ∈ system.gpuNodes, gpuHasRank gpu rank = false)) ∧
    (ncclTopoGetLocalRank system rank = Except.error ncclResult_t.ncclInternalError ↔
      ∀ gpu ∈ system.gpuNodes, gpuHasRank gpu rank = false) := by
  refine ⟨getLocalRank_cases system rank, ?_⟩
  rcases getLocalRank_cases system rank with ⟨k, gpu, hres, hk, hown, -⟩ | ⟨hres, hnone⟩
  · rw [hres]
    constructor
    · intro h; cases h
    · intro h
      have hmem : gpu ∈ system.gpuNodes := List.getElem?_mem hk
      rw [h gpu hmem] at hown
      cases hown
  · exact ⟨fun _ => hnone, fun _ => hres⟩

/-- C16: `ncclTopoGetCompCap` returns `ncclInternalError` exactly when there is no GPU node;
otherwise it returns success with a pair `(ccMin, ccMax)` such that the compute capability
of every GPU node lies between the two, and each of the two is the compute capability of some
GPU node. -/
theorem getCompCap_bounds (system : ncclTopoSystem) :
    (ncclTopoGetCompCap system = Except.error ncclResult_t.ncclInternalError ↔
      system.gpuNodes = []) ∧
    (system.gpuNodes = [] ∨ ∃ ccMin ccMax, ncclTopoGetCompCap system = Except.ok (ccMin, ccMax) ∧
      (∀ g ∈ system.gpuNodes, ccMin ≤ g.gpu.cudaCompCap ∧ g.gpu.cudaCompCap ≤ ccMax) ∧
      (∃ g ∈ system.gpuNodes, g.gpu.cudaCompCap = ccMin) ∧
      (∃ g ∈ system.gpuNodes, g.gpu.cudaCompCap = ccMax)) := by
  unfold ncclTopoGetCompCap
  cases hnodes : system.gpuNodes with
  | nil => simp
  | cons g0 rest =>
    refine ⟨by simp, Or.inr ⟨_, _, rfl, ?_, ?_, ?_⟩⟩
    · obtain ⟨h1, h2, h3, -, -⟩ := compCapFold_spec rest (g0.gpu.cudaCompCap, g0.gpu.cudaCompCap)
      intro g hg
      rcases List.mem_cons.1 hg with rfl | hg
      · exact ⟨h1, h2⟩
      · exact h3 g hg
    · obtain ⟨-, -, -, h4, -⟩ := compCapFold_spec rest (g0.gpu.cudaCompCap, g0.gpu.cudaCompCap)
      rcases h4 with h4 | ⟨g, hg, h4⟩
      · exact ⟨g0, List.mem_cons_self _ _, h4.symm⟩
      · exact ⟨g, List.mem_cons_of_mem _ hg, h4⟩
    · obtain ⟨-, -, -, -, h5⟩ := compCapFold_spec rest (g0.gpu.cudaCompCap, g0.gpu.cudaCompCap)
      rcases h5 with h5 | ⟨g, hg, h5⟩
      · exact ⟨g0, List.mem_cons_self _ _, h5.symm⟩
      · exact ⟨g, List.mem_cons_of_mem _ hg, h5⟩

theorem optionExcept_eq_some {ε α : Type} (x : Option (Except ε α)) (v : α)
    (h : x.map Except.toOption = some (some v)) : x = some (Except.ok v) := by
  cases x with
  | none => cases h
  | some r =>
    cases r with
    | error e => cases h
    | ok a =>
      simp only [Option.map_some', Except.toOption, Option.some.injEq] at h
      rw [h]

theorem localNetScan_some (g : Nat) (nets : List ncclTopoNode) :
    ∀ st st1, localNetScan g nets st = some st1 → ∀ n ∈ nets, (pathToGpu n g).isSome := by
  induction nets with
  | nil => intro st st1 _ n hn; exact absurd hn (List.not_mem_nil _)
  | cons a rest ih =>
    intro st st1 h n hn
    unfold localNetScan at h
    cases hp : pathToGpu a g with
    | none => simp [hp] at h
    | some p =>
      simp only [hp] at h
      rcases List.mem_cons.1 hn with rfl | hn
      · simp [hp]
      · exact ih _ _ h n hn

theorem localNetStep_level (st : LocalNetScan) (id : Int) (p : ncclTopoLinkList)
    (h : 0 < st.maxWidth ∨ (st.maxWidth = 0 ∧ st.minType ≤ PATH_SYS)) :
    0 < (localNetStep st id p).maxWidth ∨
      ((localNetStep st id p).maxWidth = 0 ∧ (localNetStep st id p).minType ≤ PATH_SYS) := by
  unfold localNetStep
  by_cases hb : p.width > st.maxWidth ∨ (p.width = st.maxWidth ∧ p.type < st.minType)
  · simp only [hb, if_true]
    have hlev : 0 < p.width ∨ (p.width = 0 ∧ p.type ≤ PATH_SYS) := by
      rcases hb with hb | ⟨hb1, hb2⟩
      · rcases h with h | ⟨h, -⟩
        · left; exact lt_trans h hb
        · left; rw [h] at hb; exact hb
      · rcases h with h | ⟨h1, h2⟩
        · left; rw [hb1]; exact h
        · right; exact ⟨hb1.trans h1, le_of_lt (lt_of_lt_of_le hb2 h2)⟩
    split <;> exact hlev
  · simp only [hb, if_false]
    split <;> exact h

theorem scanPaths_level (paths : List (Int × ncclTopoLinkList)) :
    ∀ st : LocalNetScan, (0 < st.maxWidth ∨ (st.maxWidth = 0 ∧ st.minType ≤ PATH_SYS)) →
      (0 < (scanPaths st paths).maxWidth ∨
        ((scanPaths st paths).maxWidth = 0 ∧ (scanPaths st paths).minType ≤ PATH_SYS)) := by
  induction paths with
  | nil => intro st h; exact h
  | cons e rest ih =>
    intro st h
    simp only [scanPaths, List.foldl_cons]
    exact ih _ (localNetStep_level st e.1 e.2 h)

theorem mem_netPaths (nets : List ncclTopoNode) (g : Nat) (c : Int × ncclTopoLinkList)
    (hc : c ∈ netPaths nets g) : ∃ n ∈ nets, n.id = c.1 ∧ pathToGpu n g = some c.2 := by
  unfold netPaths at hc
  rw [List.mem_filterMap] at hc
  obtain ⟨n, hn, hnc⟩ := hc
  cases hp : pathToGpu n g with
  | none => simp [hp] at hnc
  | some p =>
    simp only [hp, Option.map_some', Option.some.injEq] at hnc
    subst hnc
    exact ⟨n, hn, rfl, hp⟩

theorem scan_no_disconnected (system : ncclTopoSystem) (g : Nat)
    (hdis : ∀ n ∈ system.netNodes, ∀ p, pathToGpu n g = some p → p.type = PATH_DIS → p.width = 0)
    (c : Int × ncclTopoLinkList) (hc : c ∈ netPaths system.netNodes g)
    (hties : ties c.2 (scanPaths { minType := PATH_SYS, maxWidth := 0, nets := [] }
      (netPaths system.netNodes g)) = true) : c.2.type ≠ PATH_DIS := by
  intro htype
  obtain ⟨n, hn, -, hp⟩ := mem_netPaths _ _ c hc
  have hw := hdis n hn c.2 hp htype
  obtain ⟨h1, h2⟩ := (ties_iff _ _).1 hties
  have hlev := scanPaths_level (netPaths system.netNodes g)
    { minType := PATH_SYS, maxWidth := 0, nets := [] } (Or.inr ⟨rfl, le_refl _⟩)
  rw [← h1, ← h2, hw, htype] at hlev
  rcases hlev with h | ⟨-, h⟩
  · exact lt_irrefl _ h
  · exact absurd h (by decide)

/-- C17: when the rank resolves to a GPU and the topology has no Network-port node,
`ncclTopoGetLocalNet` returns success with the id -1. -/
theorem getLocalNet_no_net (system : ncclTopoSystem) (rank : Int) (g : Nat)
    (hg : ncclTopoRankToIndex system rank = Except.ok g)
    (hnet : system.count NodeType.NET = 0) :
    ncclTopoGetLocalNet system rank = some (Except.ok (-1)) := by
  have hnil : system.netNodes = [] := List.length_eq_zero.1 hnet
  unfold ncclTopoGetLocalNet
  simp [hg, hnil, localNetScan]

/-- C17 at one GPU without Network-ports. -/
theorem getLocalNet_no_net_witness :
    (ncclTopoRankToIndex sampleNoNetSystem 0 = Except.ok 0 ∧
      sampleNoNetSystem.count NodeType.NET = 0) ∧
    ncclTopoGetLocalNet sampleNoNetSystem 0 = some (Except.ok (-1)) :=
  ⟨⟨by rfl, by rfl⟩, getLocalNet_no_net sampleNoNetSystem 0 0 (by rfl) (by rfl)⟩

/-- C18: when the rank resolves to GPU `g` and every path entry of a Network-port towards `g`
with the tier `PATH_DIS` has width 0, an id returned by `ncclTopoGetLocalNet` is -1 or the id
of a Network-port whose path to `g` is not of tier `PATH_DIS`; and when every Network-port has
a path entry of tier `PATH_DIS` towards `g`, the call returns success with the id -1.
(Non-negative widths of the other paths are not needed.) -/
theorem getLocalNet_skips_disconnected (system : ncclTopoSystem) (rank : Int) (g : Nat)
    (hg : ncclTopoRankToIndex system rank = Except.ok g)
    (hdis : ∀ n ∈ system.netNodes, ∀ p, pathToGpu n g = some p → p.type = PATH_DIS →
      p.width = 0) :
    (∀ id, ncclTopoGetLocalNet system rank = some (Except.ok id) →
      id = -1 ∨ ∃ n ∈ system.netNodes, n.id = id ∧
        ∃ p, pathToGpu n g = some p ∧ p.type ≠ PATH_DIS) ∧
    ((∀ n ∈ system.netNodes, ∃ p, pathToGpu n g = some p ∧ p.type = PATH_DIS) →
      ncclTopoGetLocalNet system rank = some (Except.ok (-1))) := by
  have hinv := scanInv_fold (netPaths system.netNodes g) [] _ scanInv_init
  rw [List.nil_append] at hinv
  constructor
  · intro id hid
    unfold ncclTopoGetLocalNet at hid
    simp only [hg] at hid
    cases hscan : localNetScan g system.netNodes
        { minType := PATH_SYS, maxWidth := 0, nets := [] } with
    | none => simp [hscan] at hid
    | some st =>
      have hpaths := localNetScan_some g system.netNodes _ _ hscan
      have hst := localNetScan_eq g system.netNodes
        { minType := PATH_SYS, maxWidth := 0, nets := [] } hpaths
      rw [hscan] at hst
      have hst1 := Option.some.inj hst
      simp only [hscan] at hid
      by_cases h0 : st.nets.length = 0
      · simp only [h0, if_true, Option.some.injEq, Except.ok.injEq] at hid
        left; exact hid.symm
      · simp only [h0, if_false] at hid
        right
        have hmem : id ∈ st.nets := by
          cases hgpu : system.gpuNodes[g]? with
          | none => simp [hgpu] at hid
          | some gpu =>
            simp only [hgpu] at hid
            split at hid
            · cases hid
            · cases hget : st.nets[(Int.tmod gpu.gpu.dev st.nets.length).toNat]? with
              | none => simp [hget] at hid
              | some x =>
                simp only [hget, Option.some.injEq, Except.ok.injEq] at hid
                subst hid
                exact List.getElem?_mem hget
        rw [hst1, hinv.nets, List.mem_map] at hmem
        obtain ⟨c, hc, hcid⟩ := hmem
        obtain ⟨hc1, hc2⟩ := List.mem_filter.1 hc
        obtain ⟨n, hn, hnid, hp⟩ := mem_netPaths _ _ c hc1
        exact ⟨n, hn, hnid.trans hcid, c.2, hp, scan_no_disconnected system g hdis c hc1 hc2⟩
  · intro hall
    have hpaths : ∀ n ∈ system.netNodes, (pathToGpu n g).isSome := by
      intro n hn
      obtain ⟨p, hp, -⟩ := hall n hn
      simp [hp]
    have hst := localNetScan_eq g system.netNodes
      { minType := PATH_SYS, maxWidth := 0, nets := [] } hpaths
    have hnil : (scanPaths { minType := PATH_SYS, maxWidth := 0, nets := [] }
        (netPaths system.netNodes g)).nets = [] := by
      rw [hinv.nets, List.map_eq_nil_iff, List.filter_eq_nil_iff]
      intro c hc hties
      apply scan_no_disconnected system g hdis c hc hties
      obtain ⟨n, hn, -, hp⟩ := mem_netPaths _ _ c hc
      obtain ⟨p, hp1, hp2⟩ := hall n hn
      rw [hp] at hp1
      cases hp1
      exact hp2
    unfold ncclTopoGetLocalNet
    simp [hg, hst, hnil]

/-- C18 at the sample with one disconnected Network-port: the other port is returned. -/
theorem getLocalNet_skips_disconnected_witness :
    (ncclTopoRankToIndex sampleCutNetSystem 0 = Except.ok 0 ∧
      ∀ n ∈ sampleCutNetSystem.netNodes, ∀ p, pathToGpu n 0 = some p → p.type = PATH_DIS →
        p.width = 0) ∧
    ncclTopoGetLocalNet sampleCutNetSystem 0 = some (Except.ok 1) ∧
    ((1 : Int) = -1 ∨ ∃ n ∈ sampleCutNetSystem.netNodes, n.id = 1 ∧
        ∃ p, pathToGpu n 0 = some p ∧ p.type ≠ PATH_DIS) := by
  have hdis : ∀ n ∈ sampleCutNetSystem.netNodes, ∀ p, pathToGpu n 0 = some p →
      p.type = PATH_DIS → p.width = 0 := by
    intro n hn p hp ht
    simp only [sampleCutNetSystem, List.mem_cons, List.mem_singleton, List.not_mem_nil,
      or_false] at hn
    rcases hn with rfl | rfl
    · have : p = { count := 0, width := 0, type := PATH_DIS } := by
        have h2 : pathToGpu (sampleNet 0 { count := 0, width := 0, type := PATH_DIS }) 0
            = some { count := 0, width := 0, type := PATH_DIS } := rfl
        rw [h2] at hp
        exact (Option.some.inj hp).symm
      rw [this]
    · have : p = { count := 3, width := 12, type := 4 } := by
        have h2 : pathToGpu (sampleNet 1 { count := 3, width := 12, type := 4 }) 0
            = some { count := 3, width := 12, type := 4 } := rfl
        rw [h2] at hp
        exact (Option.some.inj hp).symm
      rw [this] at ht
      exact absurd ht (by decide)
  have hres : ncclTopoGetLocalNet sampleCutNetSystem 0 = some (Except.ok 1) :=
    optionExcept_eq_some _ _ (by decide!)
  exact ⟨⟨by rfl, hdis⟩, hres,
    (getLocalNet_skips_disconnected sampleCutNetSystem 0 0 (by rfl) hdis).1 1 hres⟩

/-- C13 at the sample: the GPU is one hop from the second Processor, whose mask 0b1100 is
intersected with the process mask 0b0110. -/
theorem getCpuAffinity_closest_cpu_witness :
    (0 < sampleAffinitySystem.count NodeType.CPU ∧
      sampleAffinityEnv.sched_getaffinity = some 6) ∧
    ∃ c cpu, ClosestCpu (sampleAffinitySystem.gpuNodes.headD sampleRankedGpu)
        (sampleAffinitySystem.count NodeType.CPU) c ∧
      sampleAffinitySystem.cpuNodes[c]? = some cpu ∧
      ncclTopoGetCpuAffinity sampleAffinityEnv sampleAffinitySystem 0
        = some (ncclResult_t.ncclSuccess,
            some (if sampleAffinityEnv.ncclParamIgnoreCpuAffinity ≠ 0 then cpu.cpu.affinity
                  else 6 &&& cpu.cpu.affinity)) ∧
      MaskSubset (if sampleAffinityEnv.ncclParamIgnoreCpuAffinity ≠ 0 then cpu.cpu.affinity
                  else 6 &&& cpu.cpu.affinity) cpu.cpu.affinity :=
  ⟨⟨by decide, rfl⟩,
    getCpuAffinity_closest_cpu sampleAffinityEnv sampleAffinitySystem 0 0
      (sampleAffinitySystem.gpuNodes.headD sampleRankedGpu) 6 (by decide) (by rfl) (by decide)
      (by
        intro j gpu1 hj _
        cases j with
        | zero => rfl
        | succ j => simp [sampleAffinitySystem] at hj)
      (by
        intro c hc
        have hc2 : c < 2 := hc
        interval_cases c <;> rfl)
      rfl (fun _ => rfl)⟩

/-- C14 at the sample: no GPU owns rank 1. -/
theorem getCpuAffinity_internal_error_iff_witness :
    (∀ m, sampleAffinityEnv.ncclCpusetToStr m ≠ ncclResult_t.ncclInternalError) ∧
    ncclTopoGetCpuAffinity sampleAffinityEnv sampleAffinitySystem 1
      = some (ncclResult_t.ncclInternalError, none) :=
  ⟨fun _ h => ncclResult_t.noConfusion h,
    (getCpuAffinity_internal_error_iff sampleAffinityEnv sampleAffinitySystem 1
      (fun _ h => ncclResult_t.noConfusion h)).2 (by decide)⟩

/-! ## Checked steps of graph creation -/

theorem xmlNodes_self (x : ncclXmlNode) : x ∈ xmlNodes x := by
  cases x with
  | mk name attrs subs => simp [xmlNodes]

theorem subsNodes_mem (subs : List ncclXmlNode) (c x : ncclXmlNode) (hc : c ∈ subs)
    (hx : x ∈ xmlNodes c) : x ∈ xmlNodes.subsNodes subs := by
  induction subs with
  | nil => exact absurd hc (List.not_mem_nil _)
  | cons a rest ih =>
    simp only [xmlNodes.subsNodes, List.mem_append]
    rcases List.mem_cons.1 hc with rfl | hc
    · left; exact hx
    · right; exact ih hc

theorem xmlNodes_sub (t c x : ncclXmlNode) (hc : c ∈ t.subs) (hx : x ∈ xmlNodes c) :
    x ∈ xmlNodes t := by
  cases t with
  | mk name attrs subs =>
    simp only [xmlNodes, List.mem_cons]
    right
    exact subsNodes_mem subs c x hc hx

theorem xmlGetSub_mem (node c : ncclXmlNode) (name : String)
    (h : xmlGetSub node name = some c) : c ∈ node.subs :=
  List.mem_of_find?_eq_some h

theorem checked_refl (h : TopoHeader) (W : ℚ → Prop) (s : ncclTopoSystem) :
    CheckedBuilt h W s s :=
  Relation.ReflTransGen.refl

theorem checked_trans (h : TopoHeader) (W : ℚ → Prop) (s s1 s2 : ncclTopoSystem)
    (h1 : CheckedBuilt h W s s1) (h2 : CheckedBuilt h W s1 s2) : CheckedBuilt h W s s2 :=
  Relation.ReflTransGen.trans h1 h2

theorem checked_built (h : TopoHeader) (W : ℚ → Prop) (s s1 : ncclTopoSystem)
    (hb : CheckedBuilt h W s s1) : Built h AnyLink AnyLink s s1 := by
  induction hb with
  | refl => exact Relation.ReflTransGen.refl
  | tail _ hstep ih =>
    refine Relation.ReflTransGen.tail ih ?_
    cases hstep with
    | create t id _ r hc _ _ => exact BuildStep.create _ t id _ r hc
    | attrs r f hf =>
      exact BuildStep.attrs _ r f (fun n => ⟨(hf n).1, (hf n).2.1, (hf n).2.2.1⟩)
    | link2 a b t w ha hb _ _ => exact BuildStep.link2 _ a b t w ha hb trivial
    | link1 a b w ha hb _ _ => exact BuildStep.link1 _ a b LINK_NVL w ha hb trivial

theorem checked_valid (h : TopoHeader) (W : ℚ → Prop) (s s1 : ncclTopoSystem)
    (hb : CheckedBuilt h W s s1) (r : NodeRef) (hr : s.valid r) : s1.valid r :=
  built_valid h _ _ s s1 (checked_built h W s s1 hb) r hr

theorem checked_good (h : TopoHeader) (W : ℚ → Prop) (s s1 : ncclTopoSystem)
    (hb : CheckedBuilt h W s s1) (hg : GoodSystem s) : GoodSystem s1 :=
  built_good h _ _ s s1 (checked_built h W s s1 hb) hg

theorem checked_create (h : TopoHeader) (W : ℚ → Prop) (s s1 : ncclTopoSystem) (t : NodeType)
    (id : Int) (r : NodeRef) (hc : createNode h s t id = Except.ok (s1, r))
    (h1 : t = NodeType.NIC → ncclTopoGetNode s NodeType.NIC id = none)
    (h2 : t = NodeType.NVS → s.count NodeType.NVS = 0) : CheckedBuilt h W s s1 :=
  Relation.ReflTransGen.single (CheckedStep.create s t id s1 r hc h1 h2)

theorem checked_attrs (h : TopoHeader) (W : ℚ → Prop) (s : ncclTopoSystem) (r : NodeRef)
    (f : ncclTopoNode → ncclTopoNode)
    (hf : ∀ n, (f n).links = n.links ∧ (f n).nlinks = n.nlinks ∧ (f n).type = n.type ∧
      (f n).id = n.id) : CheckedBuilt h W s (s.modifyNode r f) :=
  Relation.ReflTransGen.single (CheckedStep.attrs s r f hf)

theorem checked_link2 (h : TopoHeader) (W : ℚ → Prop) (s : ncclTopoSystem) (a b : NodeRef)
    (t : Nat) (w : ℚ) (ha : s.valid a) (hb : s.valid b) (hne : a ≠ b) (hw : W w) :
    CheckedBuilt h W s (s.connectBoth a b t w) :=
  Relation.ReflTransGen.single (CheckedStep.link2 s a b t w ha hb hne hw)

theorem checked_link1 (h : TopoHeader) (W : ℚ → Prop) (s : ncclTopoSystem) (a b : NodeRef)
    (w : ℚ) (ha : s.valid a) (hb : s.valid b) (hgpu : a.type = NodeType.GPU) (hw : W w) :
    CheckedBuilt h W s (s.connect a b LINK_NVL w) :=
  Relation.ReflTransGen.single (CheckedStep.link1 s a b w ha hb hgpu hw)

theorem checked_addNet (h : TopoHeader) (W : ℚ → Prop) (xmlNet : ncclXmlNode)
    (s s1 : ncclTopoSystem) (nic : NodeRef) (busId : Int)
    (hres : ncclTopoAddNet h xmlNet s nic busId = Except.ok s1) (hnic : s.valid nic)
    (hw : W (netWidth h xmlNet)) : CheckedBuilt h W s s1 := by
  unfold ncclTopoAddNet at hres
  split at hres
  · exact absurd hres (by simp)
  · rename_i dev hdev
    split at hres
    · exact absurd hres (by simp)
    · rename_i r hr
      injection hres with hres
      subst hres
      obtain ⟨hnv, hv1, hmono⟩ := createNode_valid h s r.1 NodeType.NET dev r.2 hr
      refine checked_trans h W s r.1 _
        (checked_create h W s r.1 _ dev r.2 hr (fun e => by cases e) (fun e => by cases e)) ?_
      refine checked_trans h W r.1 _ _
        (checked_attrs h W r.1 r.2 (setNet (netInfoOf h xmlNet dev busId))
          (fun n => ⟨rfl, rfl, rfl, rfl⟩)) ?_
      exact checked_link2 h W _ nic r.2 LINK_NET _
        ((valid_modifyNode _ _ _ _).2 (hmono nic hnic))
        ((valid_modifyNode _ _ _ _).2 hv1) (fun e => hnv (e ▸ hnic)) hw

theorem checked_addNic (h : TopoHeader) (W : ℚ → Prop) (subs : List ncclXmlNode)
    (nic : NodeRef) (busId : Int) :
    ∀ (s s1 : ncclTopoSystem), ncclTopoAddNic h subs s nic busId = Except.ok s1 →
      s.valid nic → (∀ x ∈ subs, W (netWidth h x)) → CheckedBuilt h W s s1 := by
  induction subs with
  | nil =>
    intro s s1 hres _ _
    simp only [ncclTopoAddNic] at hres
    injection hres with hres
    subst hres
    exact checked_refl h W s
  | cons x rest ih =>
    intro s s1 hres hnic hw
    have hw' : ∀ y ∈ rest, W (netWidth h y) := fun y hy => hw y (List.mem_cons_of_mem _ hy)
    unfold ncclTopoAddNic at hres
    split_ifs at hres with h1 h2
    · exact ih s s1 hres hnic hw'
    · exact ih s s1 hres hnic hw'
    · split at hres
      · exact absurd hres (by simp)
      · rename_i s2 hs2
        have hb1 := checked_addNet h W x s s2 nic busId hs2 hnic (hw x (List.mem_cons_self _ _))
        exact checked_trans h W s s2 s1 hb1
          (ih s2 s1 hres (checked_valid h W s s2 hb1 nic hnic) hw')

theorem checked_addGpu (h : TopoHeader) (W : ℚ → Prop) (xmlGpu : ncclXmlNode)
    (s s1 : ncclTopoSystem) (gpu : NodeRef)
    (hres : ncclTopoAddGpu h xmlGpu s gpu = Except.ok s1) : CheckedBuilt h W s s1 := by
  unfold ncclTopoAddGpu at hres
  split at hres
  · exact absurd hres (by simp)
  · split at hres
    · exact absurd hres (by simp)
    · rename_i info _
      injection hres with hres
      subst hres
      exact checked_attrs h W s gpu (setGpu info) (fun n => ⟨rfl, rfl, rfl, rfl⟩)

theorem checked_addPciGpu (h : TopoHeader) (W : ℚ → Prop) (xmlPci : ncclXmlNode)
    (s s1 : ncclTopoSystem) (type type' : NodeType) (busId : Int) (node : Option NodeRef)
    (hres : addPciGpu h xmlPci s type busId = Except.ok (some (s1, node, type'))) :
    CheckedBuilt h W s s1 ∧ (∀ n, node = some n → ¬ s.valid n ∧ s1.valid n) ∧
      (node = none → type' = type) := by
  unfold addPciGpu at hres
  split at hres
  · injection hres with hres
    injection hres with hres
    injection hres with h1 h2
    injection h2 with h2 h3
    rw [← h1, ← h2, ← h3]
    exact ⟨checked_refl h W s, (fun n hn => by cases hn), fun _ => rfl⟩
  · rename_i xmlGpu _
    split_ifs at hres
    · exact absurd hres (by simp)
    · split at hres
      · exact absurd hres (by simp)
      · rename_i r hr
        split at hres
        · exact absurd hres (by simp)
        · rename_i s2 hs2
          injection hres with hres
          injection hres with hres
          injection hres with h1 h2
          injection h2 with h2 h3
          obtain ⟨hnv, hv1, -⟩ := createNode_valid h s r.1 NodeType.GPU busId r.2 hr
          have b1 := checked_create h W s r.1 _ busId r.2 hr (fun e => by cases e)
            (fun e => by cases e)
          have b2 := checked_addGpu h W xmlGpu r.1 s2 r.2 hs2
          rw [← h1, ← h2]
          refine ⟨checked_trans h W _ _ _ b1 b2, ?_, (fun e => by cases e)⟩
          intro n hn
          injection hn with hn
          rw [← hn]
          exact ⟨hnv, checked_valid h W _ _ b2 r.2 hv1⟩

theorem checked_addPciNic (h : TopoHeader) (W : ℚ → Prop) (xmlNic : ncclXmlNode)
    (s1 : ncclTopoSystem) (node : Option NodeRef) (busId : Int)
    (r : ncclTopoSystem × Option NodeRef)
    (hres : addPciNic h xmlNic s1 node busId = Except.ok r)
    (hw : ∀ x ∈ xmlNic.subs, W (netWidth h x)) :
    CheckedBuilt h W s1 r.1 ∧
      ∀ n, r.2 = some n → node = some n ∨ (¬ s1.valid n ∧ r.1.valid n) := by
  unfold addPciNic at hres
  simp only at hres
  split at hres
  · rename_i nicNode hnic
    split at hres
    · exact absurd hres (by simp)
    · rename_i s2 hs2
      injection hres with hres
      subst hres
      exact ⟨checked_addNic h W _ nicNode _ s1 s2 hs2 (getNode_valid s1 _ _ nicNode hnic).1 hw,
        fun n hn => Or.inl hn⟩
  · rename_i hnone
    split at hres
    · exact absurd hres (by simp)
    · rename_i c hc
      split at hres
      · exact absurd hres (by simp)
      · rename_i s2 hs2
        injection hres with hres
        subst hres
        obtain ⟨hnv, hv1, -⟩ := createNode_valid h s1 c.1 NodeType.NIC _ c.2 hc
        have b1 := checked_create h W s1 c.1 _ _ c.2 hc (fun _ => hnone) (fun e => by cases e)
        have b2 := checked_addNic h W _ c.2 _ c.1 s2 hs2 hv1 hw
        refine ⟨checked_trans h W _ _ _ b1 b2, ?_⟩
        intro n hn
        injection hn with hn
        rw [← hn]
        exact Or.inr ⟨hnv, checked_valid h W _ _ b2 c.2 hv1⟩

theorem checked_connectPciNode (h : TopoHeader) (W : ℚ → Prop) (xmlPci : ncclXmlNode)
    (s4 : ncclTopoSystem) (node : Option NodeRef) (parent : NodeRef)
    (r : ncclTopoSystem × Option NodeRef)
    (hres : connectPciNode h xmlPci s4 node parent = Except.ok r)
    (hp : s4.valid parent) (hn : ∀ n, node = some n → s4.valid n ∧ n ≠ parent)
    (hw : ∀ w, pciLinkWidth h xmlPci = Except.ok w → W w) : CheckedBuilt h W s4 r.1 := by
  rcases connectPciNode_spec h xmlPci s4 node parent r hres with ⟨-, h2⟩ | ⟨n, w, h1, h2, h3⟩
  · rw [h2]; exact checked_refl h W s4
  · rw [h3]
    obtain ⟨hv, hne⟩ := hn n h1
    exact checked_link2 h W s4 n parent LINK_PCI w hv hp hne (hw w h2)

mutual
theorem checked_addPci (h : TopoHeader) (W : ℚ → Prop) :
    ∀ (xmlPci : ncclXmlNode) (s : ncclTopoSystem) (parent : NodeRef)
      (r : ncclTopoSystem × Option NodeRef),
      addPci h xmlPci s parent = Except.ok r → s.valid parent →
        (∀ x ∈ xmlNodes xmlPci, WidthsIn h W x) → CheckedBuilt h W s r.1
  | ncclXmlNode.mk name attrs subs, s, parent, r, hres, hp, hW => by
    have hself : ∀ w, pciLinkWidth h (ncclXmlNode.mk name attrs subs) = Except.ok w → W w :=
      (hW _ (xmlNodes_self _)).2.1
    unfold addPci at hres
    simp only at hres
    split at hres
    · exact absurd hres (by simp)
    · split at hres
      · exact absurd hres (by simp)
      · split at hres
        · exact absurd hres (by simp)
        · rename_i busId _
          split at hres
          · exact absurd hres (by simp)
          · injection hres with hres
            rw [← hres]
            exact checked_refl h W s
          · rename_i s1 node type hgpu
            obtain ⟨hb1, hy1, -⟩ := checked_addPciGpu h W _ s s1 _ type busId node hgpu
            have hv1 := checked_valid h W s s1 hb1
            split at hres
            · rename_i xmlNic hnic
              split at hres
              · exact absurd hres (by simp)
              · rename_i r1 hr1
                have hsub : xmlNic ∈ (ncclXmlNode.mk name attrs subs).subs :=
                  xmlGetSub_mem _ _ _ hnic
                obtain ⟨hb2, hcase⟩ := checked_addPciNic h W xmlNic s1 node busId r1 hr1
                  (fun x hx => (hW x (xmlNodes_sub _ xmlNic x hsub
                    (xmlNodes_sub xmlNic x x hx (xmlNodes_self x)))).1)
                have hv2 := checked_valid h W s1 r1.1 hb2
                refine checked_trans h W s r1.1 _ (checked_trans h W s s1 r1.1 hb1 hb2)
                  (checked_connectPciNode h W _ r1.1 r1.2 parent r hres (hv2 _ (hv1 _ hp))
                    ?_ hself)
                intro n hn
                rcases hcase n hn with hc | ⟨hnv, hv⟩
                · obtain ⟨hnv, hv⟩ := hy1 n hc
                  exact ⟨hv2 n hv, fun e => hnv (e ▸ hp)⟩
                · exact ⟨hv, fun e => hnv (e ▸ hv1 _ hp)⟩
            · split_ifs at hres with htype
              · split at hres
                · exact absurd hres (by simp)
                · rename_i c hc
                  split at hres
                  · exact absurd hres (by simp)
                  · rename_i s3 hs3
                    obtain ⟨hnv, hcv, hmono⟩ := createNode_valid h s1 c.1 _ busId c.2 hc
                    have b1 := checked_create h W s1 c.1 _ busId c.2 hc (fun e => by cases e)
                      (fun e => by cases e)
                    have b2 : CheckedBuilt h W c.1
                        (c.1.modifyNode c.2 (setPciDevice h (ncclXmlNode.mk name attrs subs))) :=
                      checked_attrs h W c.1 c.2 _ (fun n => ⟨rfl, rfl, rfl, rfl⟩)
                    have b3 := checked_subsLoop h W subs _ c.2 s3 hs3
                      ((valid_modifyNode _ _ _ _).2 hcv)
                      (fun x hx => hW x (by
                        simp only [xmlNodes, List.mem_cons]
                        right; exact hx))
                    have b123 := checked_trans h W _ _ _ (checked_trans h W _ _ _ b1 b2) b3
                    have hv3 := checked_valid h W s1 s3 b123
                    refine checked_trans h W s s3 _ (checked_trans h W s s1 s3 hb1 b123)
                      (checked_connectPciNode h W _ s3 (some c.2) parent r hres
                        (hv3 _ (hv1 _ hp)) ?_ hself)
                    intro n hn
                    injection hn with hn
                    rw [← hn]
                    exact ⟨checked_valid h W _ _ (checked_trans h W _ _ _ b2 b3) c.2 hcv,
                      fun e => hnv (e ▸ hv1 _ hp)⟩
              · refine checked_trans h W s s1 _ hb1
                  (checked_connectPciNode h W _ s1 node parent r hres (hv1 _ hp) ?_ hself)
                intro n hn
                obtain ⟨hnv, hv⟩ := hy1 n hn
                exact ⟨hv, fun e => hnv (e ▸ hp)⟩
theorem checked_subsLoop (h : TopoHeader) (W : ℚ → Prop) :
    ∀ (subs : List ncclXmlNode) (s : ncclTopoSystem) (node : NodeRef) (s1 : ncclTopoSystem),
      addPci.subsLoop h subs s node = Except.ok s1 → s.valid node →
        (∀ x ∈ xmlNodes.subsNodes subs, WidthsIn h W x) → CheckedBuilt h W s s1
  | [], s, node, s1, hres, _, _ => by
    unfold addPci.subsLoop at hres
    injection hres with hres
    rw [← hres]
    exact checked_refl h W s
  | x :: rest, s, node, s1, hres, hn, hW => by
    unfold addPci.subsLoop at hres
    split at hres
    · exact absurd hres (by simp)
    · rename_i r hr
      have h1 := checked_addPci h W x s node r hr hn (fun y hy => hW y (by
        simp only [xmlNodes.subsNodes, List.mem_append]
        left; exact hy))
      exact checked_trans h W s r.1 s1 h1
        (checked_subsLoop h W rest r.1 node s1 hres (checked_valid h W s r.1 h1 node hn)
          (fun y hy => hW y (by
            simp only [xmlNodes.subsNodes, List.mem_append]
            right; exact hy)))
end

theorem checked_topoAddPci (h : TopoHeader) (W : ℚ → Prop) (xmlPci : ncclXmlNode)
    (s s1 : ncclTopoSystem) (parent : NodeRef) (hp : s.valid parent)
    (hW : ∀ x ∈ xmlNodes xmlPci, WidthsIn h W x)
    (hres : ncclTopoAddPci h xmlPci s parent = Except.ok s1) : CheckedBuilt h W s s1 := by
  unfold ncclTopoAddPci at hres
  cases hr : addPci h xmlPci s parent with
  | error e => rw [hr] at hres; exact absurd hres (by simp)
  | ok r =>
    rw [hr] at hres
    simp only [Except.ok.injEq] at hres
    rw [← hres]
    exact checked_addPci h W xmlPci s parent r hr hp hW

theorem checked_addCpuNic (h : TopoHeader) (W : ℚ → Prop) (xmlNic : ncclXmlNode)
    (s s1 : ncclTopoSystem) (cpu : NodeRef) (hc : s.valid cpu) (hloc : W h.LOC_WIDTH)
    (hw : ∀ x ∈ xmlNic.subs, W (netWidth h x))
    (hres : addCpuNic h xmlNic s cpu = Except.ok s1) : CheckedBuilt h W s s1 := by
  unfold addCpuNic at hres
  split at hres
  · rename_i nic hn
    exact checked_addNic h W _ nic 0 s s1 hres (getNode_valid s _ _ nic hn).1 hw
  · rename_i hnone
    split at hres
    · exact absurd hres (by simp)
    · rename_i r hcr
      have hcr' : createNode h s NodeType.NIC 0 = Except.ok (r.1, r.2) := hcr
      obtain ⟨hnv, hv1, hmono⟩ := createNode_valid h s r.1 NodeType.NIC 0 r.2 hcr'
      have b1 := checked_create h W s r.1 _ _ r.2 hcr' (fun _ => hnone) (fun e => by cases e)
      have b2 : CheckedBuilt h W r.1 (r.1.connectBoth cpu r.2 LINK_PCI h.LOC_WIDTH) :=
        checked_link2 h W r.1 cpu r.2 LINK_PCI _ (hmono cpu hc) hv1 (fun e => hnv (e ▸ hc)) hloc
      have hv2 := checked_valid h W _ _ b2 r.2 hv1
      exact checked_trans h W _ _ _ (checked_trans h W _ _ _ b1 b2)
        (checked_addNic h W _ r.2 0 _ s1 hres hv2 hw)

theorem checked_addCpuSubs (h : TopoHeader) (W : ℚ → Prop) (cpu : NodeRef)
    (hloc : W h.LOC_WIDTH) (subs : List ncclXmlNode) :
    ∀ (s s1 : ncclTopoSystem), s.valid cpu → (∀ x ∈ xmlNodes.subsNodes subs, WidthsIn h W x) →
      addCpuSubs h subs s cpu = Except.ok s1 → CheckedBuilt h W s s1 := by
  induction subs with
  | nil =>
    intro s s1 _ _ hres
    simp only [addCpuSubs, Except.ok.injEq] at hres
    rw [← hres]
    exact checked_refl h W s
  | cons node rest ih =>
    intro s s1 hc hW hres
    have hnode : ∀ x ∈ xmlNodes node, WidthsIn h W x := fun x hx => hW x (by
      simp only [xmlNodes.subsNodes, List.mem_append]
      left; exact hx)
    have hrest : ∀ x ∈ xmlNodes.subsNodes rest, WidthsIn h W x := fun x hx => hW x (by
      simp only [xmlNodes.subsNodes, List.mem_append]
      right; exact hx)
    simp only [addCpuSubs] at hres
    split at hres
    · exact absurd hres (by simp)
    · rename_i sa ha
      split at hres
      · exact absurd hres (by simp)
      · rename_i sb hb
        have b1 : CheckedBuilt h W s sa := by
          split_ifs at ha with hn
          · exact checked_topoAddPci h W node s sa cpu hc hnode ha
          · simp only [Except.ok.injEq] at ha
            rw [← ha]; exact checked_refl h W s
        have hc1 := checked_valid h W _ _ b1 cpu hc
        have b2 : CheckedBuilt h W sa sb := by
          split_ifs at hb with hn
          · exact checked_addCpuNic h W node sa sb cpu hc1 hloc
              (fun x hx => (hnode x (xmlNodes_sub node x x hx (xmlNodes_self x))).1) hb
          · simp only [Except.ok.injEq] at hb
            rw [← hb]; exact checked_refl h W sa
        have hc2 := checked_valid h W _ _ b2 cpu hc1
        exact checked_trans h W _ _ _ (checked_trans h W _ _ _ b1 b2) (ih sb s1 hc2 hrest hres)

theorem subsNodes_of_subs (x : ncclXmlNode) :
    ∀ y ∈ xmlNodes.subsNodes x.subs, y ∈ xmlNodes x := by
  cases x with
  | mk name attrs subs =>
    intro y hy
    simp only [xmlNodes, List.mem_cons]
    right; exact hy

theorem checked_addCpu (h : TopoHeader) (W : ℚ → Prop) (xmlCpu : ncclXmlNode)
    (s s1 : ncclTopoSystem) (hloc : W h.LOC_WIDTH)
    (hW : ∀ x ∈ xmlNodes xmlCpu, WidthsIn h W x)
    (hres : ncclTopoAddCpu h xmlCpu s = Except.ok s1) : CheckedBuilt h W s s1 := by
  unfold ncclTopoAddCpu at hres
  split at hres
  · exact absurd hres (by simp)
  · split at hres
    · exact absurd hres (by simp)
    · rename_i numaId _ _ r hcr
      have hcr' : createNode h s NodeType.CPU numaId = Except.ok (r.1, r.2) := hcr
      obtain ⟨-, hv1, -⟩ := createNode_valid h s r.1 NodeType.CPU numaId r.2 hcr'
      split at hres
      · exact absurd hres (by simp)
      · split at hres
        · exact absurd hres (by simp)
        · rename_i info _
          have b1 := checked_create h W s r.1 _ _ r.2 hcr' (fun e => by cases e)
            (fun e => by cases e)
          have b2 : CheckedBuilt h W r.1 (r.1.modifyNode r.2 (setCpu info)) :=
            checked_attrs h W r.1 r.2 (setCpu info) (fun n => ⟨rfl, rfl, rfl, rfl⟩)
          have hv2 := checked_valid h W _ _ b2 r.2 hv1
          exact checked_trans h W _ _ _ (checked_trans h W _ _ _ b1 b2)
            (checked_addCpuSubs h W r.2 hloc _ _ s1 hv2
              (fun y hy => hW y (subsNodes_of_subs xmlCpu y hy)) hres)

theorem checked_addCpus (h : TopoHeader) (W : ℚ → Prop) (hloc : W h.LOC_WIDTH)
    (subs : List ncclXmlNode) :
    ∀ (s s1 : ncclTopoSystem), (∀ x ∈ xmlNodes.subsNodes subs, WidthsIn h W x) →
      addCpus h subs s = Except.ok s1 → CheckedBuilt h W s s1 := by
  induction subs with
  | nil =>
    intro s s1 _ hres
    simp only [addCpus, Except.ok.injEq] at hres
    rw [← hres]
    exact checked_refl h W s
  | cons node rest ih =>
    intro s s1 hW hres
    have hnode : ∀ x ∈ xmlNodes node, WidthsIn h W x := fun x hx => hW x (by
      simp only [xmlNodes.subsNodes, List.mem_append]
      left; exact hx)
    have hrest : ∀ x ∈ xmlNodes.subsNodes rest, WidthsIn h W x := fun x hx => hW x (by
      simp only [xmlNodes.subsNodes, List.mem_append]
      right; exact hx)
    simp only [addCpus] at hres
    split_ifs at hres with hn
    · split at hres
      · exact absurd hres (by simp)
      · rename_i sa ha
        exact checked_trans h W _ _ _ (checked_addCpu h W node s sa hloc hnode ha)
          (ih sa s1 hrest hres)
    · exact ih s s1 hrest hres

theorem checked_xgmiRemote (h : TopoHeader) (W : ℚ → Prop) (fuel : Nat) (node : ncclXmlNode)
    (s : ncclTopoSystem) (gpu : NodeRef) (targetType : NodeType)
    (r : ncclTopoSystem × Option NodeRef)
    (hres : xgmiRemote h fuel node s gpu targetType = Except.ok r) :
    CheckedBuilt h W s r.1 ∧ ∀ x, r.2 = some x → r.1.valid x := by
  unfold xgmiRemote at hres
  split_ifs at hres with h1 h2 h3
  · split at hres
    · exact absurd hres (by simp)
    · split at hres
      · exact absurd hres (by simp)
      · rename_i busId _
        simp only [Except.ok.injEq] at hres
        rw [← hres]
        exact ⟨checked_refl h W s, fun x hx => (getNode_valid s _ _ x hx).1⟩
  · split at hres
    · exact absurd hres (by simp)
    · rename_i remote hf
      simp only [Except.ok.injEq] at hres
      rw [← hres]
      refine ⟨checked_refl h W s, fun x hx => ?_⟩
      simp only at hx
      subst hx
      exact findLocalCpu_valid s fuel gpu x hf
  · split at hres
    · exact absurd hres (by simp)
    · rename_i c hc
      have hc' : createNode h s NodeType.NVS 0 = Except.ok (c.1, c.2) := hc
      simp only [Except.ok.injEq] at hres
      rw [← hres]
      refine ⟨checked_create h W s c.1 _ _ c.2 hc' (fun e => by cases e) (fun _ => h3),
        fun x hx => ?_⟩
      simp only [Option.some.injEq] at hx
      rw [← hx]
      exact (createNode_valid h s c.1 NodeType.NVS 0 c.2 hc').2.1
  · simp only [Except.ok.injEq] at hres
    rw [← hres]
    refine ⟨checked_refl h W s, fun x hx => ?_⟩
    simp only [Option.some.injEq] at hx
    rw [← hx]
    unfold ncclTopoSystem.valid
    exact Nat.pos_of_ne_zero h3

theorem checked_xgmiConnect (h : TopoHeader) (W : ℚ → Prop) (s s1 : ncclTopoSystem)
    (gpu : NodeRef) (count : Int) (remote : Option NodeRef) (hg : GoodSystem s)
    (hgpu : gpu.type = NodeType.GPU)
    (hw : ∀ gcn, W ((count : ℚ) * h.ncclTopoXGMISpeed gcn))
    (hres : xgmiConnect h s gpu count remote = Except.ok s1) : CheckedBuilt h W s s1 := by
  unfold xgmiConnect at hres
  split at hres
  · simp only [Except.ok.injEq] at hres
    rw [← hres]; exact checked_refl h W s
  · rename_i rem
    split at hres
    · rename_i gpuNode remoteNode hgn hrn
      have hvg := (valid_iff_node? s gpu).2 ⟨gpuNode, hgn⟩
      have hvr := (valid_iff_node? s rem).2 ⟨remoteNode, hrn⟩
      split_ifs at hres with ht
      · simp only [Except.ok.injEq] at hres
        rw [← hres]
        refine checked_link2 h W s gpu rem LINK_NVL _ hvg hvr ?_ (hw _)
        intro e
        have := (good_node? s hg rem remoteNode hrn).2.1
        rw [← e, hgpu] at this
        exact ht this
      · simp only [Except.ok.injEq] at hres
        rw [← hres]
        exact checked_link1 h W s gpu rem _ hvg hvr hgpu (hw _)
    · exact absurd hres (by simp)

theorem checked_addXgmiEntry (h : TopoHeader) (W : ℚ → Prop) (fuel : Nat) (node : ncclXmlNode)
    (s s1 : ncclTopoSystem) (parentBusId : Option String) (hg : GoodSystem s)
    (hW : WidthsIn h W node)
    (hres : addXgmiEntry h fuel node s parentBusId = Except.ok s1) :
    CheckedBuilt h W s s1 := by
  unfold addXgmiEntry at hres
  split at hres
  · exact absurd hres (by simp)
  · split at hres
    · exact absurd hres (by simp)
    · split at hres
      · exact absurd hres (by simp)
      · rename_i gpu hgpu
        split at hres
        · exact absurd hres (by simp)
        · rename_i count hcount
          split at hres
          · exact absurd hres (by simp)
          · split at hres
            · exact absurd hres (by simp)
            · rename_i r hr
              obtain ⟨b1, -⟩ := checked_xgmiRemote h W fuel node s gpu _ r hr
              exact checked_trans h W _ _ _ b1
                (checked_xgmiConnect h W r.1 s1 gpu _ r.2 (checked_good h W s r.1 b1 hg)
                  (getNode_valid s _ _ gpu hgpu).2 (fun gcn => hW.2.2 count gcn hcount) hres)

mutual

theorem checked_addXGMI (h : TopoHeader) (W : ℚ → Prop) (fuel : Nat) :
    ∀ (node : ncclXmlNode) (s : ncclTopoSystem) (busId : Option String) (s1 : ncclTopoSystem),
      ncclTopoAddXGMI h fuel node s busId = Except.ok s1 → GoodSystem s →
        (∀ x ∈ xmlNodes node, WidthsIn h W x) → CheckedBuilt h W s s1
  | ncclXmlNode.mk name attrs subs, s, busId, s1, hres, hg, hW => by
    unfold ncclTopoAddXGMI at hres
    simp only at hres
    split_ifs at hres with hn
    · exact checked_addXgmiEntry h W fuel _ s s1 busId hg (hW _ (xmlNodes_self _)) hres
    · exact checked_xgmiSubs h W fuel subs s _ s1 hres hg (fun x hx => hW x (by
        simp only [xmlNodes, List.mem_cons]
        right; exact hx))

theorem checked_xgmiSubs (h : TopoHeader) (W : ℚ → Prop) (fuel : Nat) :
    ∀ (subs : List ncclXmlNode) (s : ncclTopoSystem) (busId : Option String)
      (s1 : ncclTopoSystem),
      ncclTopoAddXGMI.subsLoop h fuel subs s busId = Except.ok s1 → GoodSystem s →
        (∀ x ∈ xmlNodes.subsNodes subs, WidthsIn h W x) → CheckedBuilt h W s s1
  | [], s, busId, s1, hres, _, _ => by
    unfold ncclTopoAddXGMI.subsLoop at hres
    simp only [Except.ok.injEq] at hres
    rw [← hres]
    exact checked_refl h W s
  | x :: rest, s, busId, s1, hres, hg, hW => by
    unfold ncclTopoAddXGMI.subsLoop at hres
    split at hres
    · exact absurd hres (by simp)
    · rename_i sa ha
      have b1 := checked_addXGMI h W fuel x s busId sa ha hg (fun y hy => hW y (by
        simp only [xmlNodes.subsNodes, List.mem_append]
        left; exact hy))
      exact checked_trans h W _ _ _ b1
        (checked_xgmiSubs h W fuel rest sa busId s1 hres (checked_good h W s sa b1 hg)
          (fun y hy => hW y (by
            simp only [xmlNodes.subsNodes, List.mem_append]
            right; exact hy)))

end

/-- The Graph Builder runs by checked steps, for every property `W` that holds of
`LOC_WIDTH` and of the link widths computed from the nodes of the tree. -/
theorem buildGraph_checked (h : TopoHeader) (W : ℚ → Prop) (fuel : Nat) (topNode : ncclXmlNode)
    (s1 : ncclTopoSystem) (hloc : W h.LOC_WIDTH)
    (hW : ∀ x ∈ xmlNodes topNode, WidthsIn h W x)
    (hres : buildGraph h fuel topNode = Except.ok s1) : CheckedBuilt h W {} s1 := by
  unfold buildGraph at hres
  split at hres
  · exact absurd hres (by simp)
  · rename_i sa ha
    have b1 := checked_addCpus h W hloc _ _ sa
      (fun y hy => hW y (subsNodes_of_subs topNode y hy)) ha
    exact checked_trans h W _ _ _ b1
      (checked_addXGMI h W fuel topNode sa none s1 hres (checked_good h W _ sa b1 good_empty) hW)

/-! ## What checked steps maintain -/

theorem sorted_modifyNode (s : ncclTopoSystem) (r : NodeRef) (f : ncclTopoNode → ncclTopoNode)
    (hf : ∀ n, SortedDesc n.links → SortedDesc (f n).links)
    (hs : ∀ t, ∀ n ∈ s.nodes t, SortedDesc n.links) :
    ∀ t, ∀ n ∈ (s.modifyNode r f).nodes t, SortedDesc n.links := by
  intro t n hn
  rw [nodes_modifyNode] at hn
  split_ifs at hn
  · rcases mem_modify f _ _ n hn with h1 | ⟨x, hx, rfl⟩
    · exact hs t n h1
    · exact hf x (hs t x hx)
  · exact hs t n hn

theorem checked_sorted (h : TopoHeader) (s s1 : ncclTopoSystem)
    (hb : CheckedBuilt h (fun w => 0 ≤ w) s s1)
    (hs : ∀ t, ∀ n ∈ s.nodes t, SortedDesc n.links) :
    ∀ t, ∀ n ∈ s1.nodes t, SortedDesc n.links := by
  induction hb with
  | refl => exact hs
  | @tail s2 s3 _ hstep ih =>
    cases hstep with
    | create k id _ r hc _ _ =>
      obtain ⟨-, hs3⟩ := createNode_ok h s2 s3 k id r hc
      intro t n hn
      rw [hs3, nodes_setNodes] at hn
      split_ifs at hn with hk
      · rcases List.mem_append.1 hn with h1 | h1
        · exact ih t n (by rw [hk]; exact h1)
        · simp only [List.mem_singleton] at h1
          rw [h1]
          cases k <;> simp [newNode, SortedDesc]
      · exact ih t n hn
    | attrs r f hf =>
      exact sorted_modifyNode s2 r f (fun n hn => by rw [(hf n).1]; exact hn) ih
    | link2 a b t w _ _ _ hw =>
      exact sorted_modifyNode _ b _ (fun n hn => connect_sorted_links n a t w hn hw)
        (sorted_modifyNode s2 a _ (fun n hn => connect_sorted_links n b t w hn hw) ih)
    | link1 a b w _ _ _ hw =>
      exact sorted_modifyNode s2 a _ (fun n hn => connect_sorted_links n b LINK_NVL w hn hw) ih

theorem getNode_none (s : ncclTopoSystem) (t : NodeType) (id : Int)
    (hnone : ncclTopoGetNode s t id = none) : ∀ n ∈ s.nodes t, n.id ≠ id := by
  intro n hn hid
  unfold ncclTopoGetNode at hnone
  simp only at hnone
  split_ifs at hnone with hlt
  apply hlt
  unfold ncclTopoSystem.count
  apply List.findIdx_lt_length_of_exists
  exact ⟨n, hn, by simpa using hid⟩

theorem ids_modifyNode (s : ncclTopoSystem) (r : NodeRef) (f : ncclTopoNode → ncclTopoNode)
    (hf : ∀ n, (f n).id = n.id) (t : NodeType) :
    ((s.modifyNode r f).nodes t).map (fun n => n.id) = (s.nodes t).map (fun n => n.id) := by
  rw [nodes_modifyNode]
  split_ifs
  · exact map_modify_of_eq _ f hf _ _
  · rfl

theorem ids_connect (s : ncclTopoSystem) (a b : NodeRef) (k : Nat) (w : ℚ) (t : NodeType) :
    ((s.connect a b k w).nodes t).map (fun n => n.id) = (s.nodes t).map (fun n => n.id) :=
  ids_modifyNode s a (fun n => ncclTopoConnectNodes n b k w) (fun _ => rfl) t

theorem checked_nic_ids (h : TopoHeader) (W : ℚ → Prop) (s s1 : ncclTopoSystem)
    (hb : CheckedBuilt h W s s1)
    (hs : ((s.nodes NodeType.NIC).map (fun n => n.id)).Nodup ∧ s.count NodeType.NVS ≤ 1) :
    ((s1.nodes NodeType.NIC).map (fun n => n.id)).Nodup ∧ s1.count NodeType.NVS ≤ 1 := by
  induction hb with
  | refl => exact hs
  | @tail s2 s3 _ hstep ih =>
    cases hstep with
    | create k id _ r hc hnic hnvs =>
      obtain ⟨-, hs3⟩ := createNode_ok h s2 s3 k id r hc
      have hcount := createNode_count h s2 s3 k id r hc NodeType.NVS
      constructor
      · rw [hs3, nodes_setNodes]
        split_ifs with hk
        · rw [List.map_append, List.map_singleton, (newNode_type_id h k id _).2]
          rw [← hk]
          apply List.Nodup.append ih.1 (List.nodup_singleton _)
          intro x hx hx1
          simp only [List.mem_singleton] at hx1
          obtain ⟨n, hn, hnid⟩ := List.mem_map.1 hx
          exact getNode_none s2 NodeType.NIC id (hnic hk.symm) n hn (hnid.trans hx1)
        · exact ih.1
      · rw [hcount]
        split_ifs with hk
        · rw [hnvs hk.symm]
        · exact ih.2
    | attrs r f hf =>
      exact ⟨by rw [ids_modifyNode s2 r f (fun n => (hf n).2.2.2)]; exact ih.1,
        by rw [count_modifyNode]; exact ih.2⟩
    | link2 a b t w _ _ _ _ =>
      refine ⟨?_, ?_⟩
      · unfold ncclTopoSystem.connectBoth
        rw [ids_connect, ids_connect]; exact ih.1
      · unfold ncclTopoSystem.connectBoth
        rw [count_connect, count_connect]; exact ih.2
    | link1 a b w _ _ _ _ =>
      exact ⟨by rw [ids_connect]; exact ih.1, by rw [count_connect]; exact ih.2⟩

theorem satisfy_modifyNode (t : NodeType) (Q : Nat → ncclTopoNode → Prop)
    (s : ncclTopoSystem) (r : NodeRef) (f : ncclTopoNode → ncclTopoNode)
    (hf : ∀ n, r.type = t → s.node? r = some n → Q r.index n → Q r.index (f n))
    (hs : NodesSatisfy t Q s) : NodesSatisfy t Q (s.modifyNode r f) := by
  intro i n hn
  rw [node?_modifyNode] at hn
  split_ifs at hn with hr
  · cases hx : s.node? r with
    | none => simp [hx] at hn
    | some x =>
      simp only [hx, Option.map_some', Option.some.injEq] at hn
      rw [← hn]
      have h1 := hf x (by rw [← hr]) hx (by rw [← hr]; exact hs i x (by rw [hr]; exact hx))
      rw [← hr] at h1
      exact h1
  · exact hs i n hn

theorem selfLinked_connect (g : Nat) (n : ncclTopoNode) (y : NodeRef) (t : Nat) (w : ℚ)
    (hwf : n.nlinks = n.links.length)
    (hne : y ≠ { type := NodeType.GPU, index := g } ∨ t = LINK_NVL)
    (hn : SelfLinked g n) : SelfLinked g (ncclTopoConnectNodes n y t w) := by
  obtain ⟨-, ⟨l, hl, hl1, hl2⟩, hno⟩ := hn
  have hwf1 := connect_wf n y t w hwf
  refine ⟨le_of_eq hwf1, ⟨l, ?_, hl1, hl2⟩, ?_⟩
  · rw [live_of_wf _ hwf1]
    rw [live_of_wf n hwf] at hl
    have hp := connect_linksTo_perm n y t w { type := NodeType.GPU, index := g } LINK_LOC
    have hcond : ¬ (({ type := NodeType.GPU, index := g } : NodeRef) = y ∧ LINK_LOC = t) := by
      rintro ⟨h1, h2⟩
      rcases hne with h3 | h3
      · exact h3 h1.symm
      · rw [h3] at h2; exact absurd h2 (by decide)
    rw [if_neg hcond] at hp
    have hmem : l ∈ linksTo n.links { type := NodeType.GPU, index := g } LINK_LOC := by
      unfold linksTo
      rw [List.mem_filter]
      exact ⟨hl, by simp [linkIs, hl1, hl2]⟩
    have := hp.mem_iff.2 hmem
    unfold linksTo at this
    exact (List.mem_filter.1 this).1
  · intro x hx
    rcases List.mem_cons.1 ((connect_links_perm n y t w).mem_iff.1 hx) with h1 | h1
    · rw [h1]
      rintro ⟨h2, h3⟩
      simp only at h2 h3
      rcases hne with h4 | h4
      · exact h4 h3
      · rw [h4] at h2; exact absurd h2 (by decide)
    · apply hno
      rcases List.mem_append.1 h1 with h2 | h2
      · exact List.mem_of_mem_take h2
      · exact List.mem_of_mem_drop h2

theorem satisfy_connect (s : ncclTopoSystem) (hg : GoodSystem s) (x y : NodeRef) (t : Nat)
    (w : ℚ) (hne : y ≠ x ∨ t = LINK_NVL) (hs : NodesSatisfy NodeType.GPU SelfLinked s) :
    NodesSatisfy NodeType.GPU SelfLinked (s.connect x y t w) := by
  apply satisfy_modifyNode _ _ s x _ _ hs
  intro n hx hn hq
  apply selfLinked_connect x.index n y t w (good_node? s hg x n hn).1 _ hq
  rcases hne with h1 | h1
  · left
    intro e
    apply h1
    rw [e]
    cases x
    simp only at hx
    rw [hx]
  · right; exact h1

theorem checked_selfLinked (h : TopoHeader) (W : ℚ → Prop) (s s1 : ncclTopoSystem)
    (hb : CheckedBuilt h W s s1) (hg : GoodSystem s)
    (hs : NodesSatisfy NodeType.GPU SelfLinked s) :
    NodesSatisfy NodeType.GPU SelfLinked s1 := by
  induction hb with
  | refl => exact hs
  | @tail s2 s3 hb2 hstep ih =>
    have hg2 := checked_good h W s s2 hb2 hg
    cases hstep with
    | create k id _ r hc _ _ =>
      obtain ⟨hr, -⟩ := createNode_ok h s2 s3 k id r hc
      intro i n hn
      rw [createNode_node? h s2 s3 k id r hc] at hn
      split_ifs at hn with hi
      · simp only [Option.some.injEq] at hn
        rw [hr] at hi
        injection hi with hk hidx
        subst hk
        subst hidx
        rw [← hn]
        refine ⟨by simp [newNode], ?_, ?_⟩
        · simp [newNode, ncclTopoNode.live]
        · intro l hl
          simp only [newNode, List.mem_singleton] at hl
          rw [hl]
          rintro ⟨h1, -⟩
          have h2 : LINK_LOC = LINK_PCI := h1
          exact absurd h2 (by decide)
      · exact ih i n hn
    | attrs r f hf =>
      apply satisfy_modifyNode _ _ s2 r f _ ih
      intro n _ _ hq
      obtain ⟨q1, ⟨l, hl, q2⟩, q3⟩ := hq
      refine ⟨by rw [(hf n).1, (hf n).2.1]; exact q1, ⟨l, ?_, q2⟩, ?_⟩
      · unfold ncclTopoNode.live
        rw [(hf n).1, (hf n).2.1]
        exact hl
      · rw [(hf n).1]; exact q3
    | link2 a b t w ha hbv hne _ =>
      exact satisfy_connect _ (good_connect s2 a b t w hg2 hbv) b a t w (Or.inl hne)
        (satisfy_connect s2 hg2 a b t w (Or.inl (Ne.symm hne)) ih)
    | link1 a b w _ _ _ _ => exact satisfy_connect s2 hg2 a b LINK_NVL w (Or.inr rfl) ih

/-! ## What the transform passes keep of the nodes outside the PCI array -/

theorem satisfy_modify_other (t : NodeType) (Q : Nat → ncclTopoNode → Prop)
    (s : ncclTopoSystem) (r : NodeRef) (f : ncclTopoNode → ncclTopoNode) (hr : r.type ≠ t)
    (hs : NodesSatisfy t Q s) : NodesSatisfy t Q (s.modifyNode r f) :=
  satisfy_modifyNode t Q s r f (fun _ ht => absurd ht hr) hs

theorem spliceStep_satisfy (t : NodeType) (Q : Nat → ncclTopoNode → Prop)
    (ht : t ≠ NodeType.PCI) (p sub : NodeRef) (hp : p.type = NodeType.PCI)
    (hQ1 : ∀ i n, Q i n → Q i (redirectFirst sub p n))
    (s s1 : ncclTopoSystem) (l : Nat) (hres : spliceStep p sub s l = Except.ok s1)
    (hs : NodesSatisfy t Q s) :
    NodesSatisfy t Q s1 ∧ ∀ k, s1.count k = s.count k := by
  unfold spliceStep at hres
  split at hres
  · exact absurd hres (by simp)
  · split at hres
    · exact absurd hres (by simp)
    · rename_i link _
      split_ifs at hres
      · simp only [Except.ok.injEq] at hres
        rw [← hres]; exact ⟨hs, fun _ => rfl⟩
      · simp only at hres
        split at hres
        · exact absurd hres (by simp)
        · simp only [Except.ok.injEq] at hres
          rw [← hres]
          refine ⟨?_, fun k => by rw [count_modifyNode, count_modifyNode]⟩
          apply satisfy_modifyNode t Q _ link.remNode _ (fun n _ _ hq => hQ1 _ n hq)
          exact satisfy_modify_other t Q s p _ (by rw [hp]; exact Ne.symm ht) hs

theorem idToIndex_lt (s : ncclTopoSystem) (t : NodeType) (id : Int) (i : Nat)
    (hres : ncclTopoIdToIndex s t id = Except.ok i) : i < s.count t := by
  unfold ncclTopoIdToIndex at hres
  simp only at hres
  split_ifs at hres with hlt
  simp only [Except.ok.injEq] at hres
  rw [← hres]; exact hlt

theorem fuseSub_satisfy (t : NodeType) (Q : Nat → ncclTopoNode → Prop)
    (ht : t ≠ NodeType.PCI) (p : NodeRef) (hp : p.type = NodeType.PCI)
    (hQ1 : ∀ i n (sub : NodeRef), sub.type = NodeType.PCI → Q i n →
      Q i (redirectFirst sub p n))
    (hQ2 : ∀ i n (del : NodeRef), del.type = NodeType.PCI → Q i n → Q i (unlinkNode del n))
    (s s1 : ncclTopoSystem) (id : Int) (hres : fuseSub p s id = Except.ok s1)
    (hs : NodesSatisfy t Q s) : NodesSatisfy t Q s1 ∧ s1.count t = s.count t := by
  unfold fuseSub at hres
  simp only [bind, Except.bind] at hres
  split at hres
  · exact absurd hres (by simp)
  · rename_i i hi
    have hilt := idToIndex_lt s NodeType.PCI id i hi
    split at hres
    · exact absurd hres (by simp)
    · rename_i subNode _
      split at hres
      · exact absurd hres (by simp)
      · rename_i sa ha
        have hk : NodesSatisfy t Q sa ∧ ∀ k, sa.count k = s.count k :=
          foldlM_invariant _ (fun x => NodesSatisfy t Q x ∧ ∀ k, x.count k = s.count k)
            (fun b a b1 hb hstep => by
              obtain ⟨e1, e2⟩ := spliceStep_satisfy t Q ht p _ hp
                (fun j n hq => hQ1 j n _ rfl hq) b b1 a hstep hb.1
              exact ⟨e1, fun k => (e2 k).trans (hb.2 k)⟩)
            _ s sa ⟨hs, fun _ => rfl⟩ ha
        split at hres
        · exact absurd hres (by simp)
        · split_ifs at hres
          simp only [Except.ok.injEq] at hres
          rw [← hres]
          constructor
          · intro j n hn
            rw [node?_removeNode, if_neg (by exact ht)] at hn
            cases hx : sa.node? { type := t, index := j } with
            | none => simp [hx] at hn
            | some x =>
              simp only [hx, Option.map_some', Option.some.injEq] at hn
              rw [← hn]
              exact hQ2 j x _ rfl (hk.1 j x hx)
          · rw [count_removeNode sa i (by rw [hk.2]; exact hilt), if_neg ht]
            exact hk.2 t

theorem flattenSwitch_satisfy (t : NodeType) (Q : Nat → ncclTopoNode → Prop)
    (ht : t ≠ NodeType.PCI)
    (hQ1 : ∀ i n (sub p : NodeRef), sub.type = NodeType.PCI → p.type = NodeType.PCI → Q i n →
      Q i (redirectFirst sub p n))
    (hQ2 : ∀ i n (del : NodeRef), del.type = NodeType.PCI → Q i n → Q i (unlinkNode del n))
    (sys sys1 : ncclTopoSystem) (i : Nat) (P : ncclTopoNode)
    (hres : flattenSwitch sys i P = Except.ok sys1) (hs : NodesSatisfy t Q sys) :
    NodesSatisfy t Q sys1 ∧ sys1.count t = sys.count t := by
  unfold flattenSwitch at hres
  simp only [bind, Except.bind] at hres
  split at hres
  · exact absurd hres (by simp)
  · rename_i r hr
    split at hres
    · exact absurd hres (by simp)
    · rename_i s2 hfold
      simp only [Except.ok.injEq] at hres
      have h1 : NodesSatisfy t Q (sys.modifyNode { type := NodeType.PCI, index := i }
          (fun n => { n with links := r.1, nlinks := r.2.1 })) :=
        satisfy_modify_other t Q sys _ _ (Ne.symm ht) hs
      have hinv := foldlM_invariant (fuseSub { type := NodeType.PCI, index := i })
        (fun x => NodesSatisfy t Q x ∧ x.count t = sys.count t)
        (fun b id b1 hb hstep => by
          obtain ⟨e1, e2⟩ := fuseSub_satisfy t Q ht _ rfl
            (fun j n sub hsub hq => hQ1 j n sub _ hsub rfl hq) hQ2 b b1 id hstep hb.1
          exact ⟨e1, e2.trans hb.2⟩)
        r.2.2 _ s2 ⟨h1, by rw [count_modifyNode]⟩ hfold
      rw [← hres]
      exact ⟨satisfy_modify_other t Q s2 _ _ (Ne.symm ht) hinv.1,
        by rw [count_modifyNode]; exact hinv.2⟩

theorem flattenLoop_satisfy (t : NodeType) (Q : Nat → ncclTopoNode → Prop)
    (ht : t ≠ NodeType.PCI)
    (hQ1 : ∀ i n (sub p : NodeRef), sub.type = NodeType.PCI → p.type = NodeType.PCI → Q i n →
      Q i (redirectFirst sub p n))
    (hQ2 : ∀ i n (del : NodeRef), del.type = NodeType.PCI → Q i n → Q i (unlinkNode del n)) :
    ∀ (k i : Nat) (sys out : ncclTopoSystem), flattenLoop k i sys = Except.ok out →
      NodesSatisfy t Q sys → NodesSatisfy t Q out ∧ out.count t = sys.count t := by
  intro k
  induction k with
  | zero => intro i sys out hres _; simp [flattenLoop] at hres
  | succ k ih =>
    intro i sys out hres hs
    simp only [flattenLoop] at hres
    split_ifs at hres with hlt
    · split at hres
      · exact absurd hres (by simp)
      · rename_i P hP
        split_ifs at hres with hmatch
        · split at hres
          · exact absurd hres (by simp)
          · rename_i sys1 h1
            obtain ⟨e1, e2⟩ := flattenSwitch_satisfy t Q ht hQ1 hQ2 sys sys1 i P h1 hs
            obtain ⟨e3, e4⟩ := ih 1 sys1 out hres e1
            exact ⟨e3, e4.trans e2⟩
        · exact ih (i + 1) sys out hres hs
    · simp only [Except.ok.injEq] at hres
      rw [← hres]; exact ⟨hs, rfl⟩

theorem connectCpus_node? (h : TopoHeader) (s : ncclTopoSystem) (r : NodeRef)
    (hr : r.type ≠ NodeType.CPU) :
    (ncclTopoConnectCpus h s).node? r = s.node? r ∧
      ∀ t, (ncclTopoConnectCpus h s).count t = s.count t := by
  obtain ⟨h1, h2⟩ := connectCpus_fold h (List.range (s.count NodeType.CPU)) s
    (List.nodup_range _)
  refine ⟨?_, h2⟩
  unfold ncclTopoConnectCpus
  rw [h1 r]
  simp [hr]

theorem connectCpus_satisfy (h : TopoHeader) (t : NodeType) (Q : Nat → ncclTopoNode → Prop)
    (ht : t ≠ NodeType.CPU) (s : ncclTopoSystem) (hs : NodesSatisfy t Q s) :
    NodesSatisfy t Q (ncclTopoConnectCpus h s) ∧ (ncclTopoConnectCpus h s).count t = s.count t := by
  refine ⟨?_, (connectCpus_node? h s { type := t, index := 0 } ht).2 t⟩
  intro i n hn
  rw [(connectCpus_node? h s { type := t, index := i } ht).1] at hn
  exact hs i n hn

/-- What `ncclTopoSort` keeps of a property of the nodes that does not depend on the order of
the links. -/
theorem sort_satisfy (t : NodeType) (Q : Nat → ncclTopoNode → Prop)
    (hQ : ∀ i n links, Q i n → Q i { n with links := links }) :
    ∀ (k : Nat) (s : ncclTopoSystem) (node : NodeRef) (up : Option NodeRef)
      (s1 : ncclTopoSystem), NodesSatisfy t Q s → ncclTopoSort k s node up = Except.ok s1 →
        NodesSatisfy t Q s1 ∧ s1.count t = s.count t := by
  intro k
  induction k with
  | zero => intro s node up s1 _ hres; simp [ncclTopoSort] at hres
  | succ k ih =>
    intro s node up s1 hs hres
    simp only [ncclTopoSort] at hres
    split at hres
    · exact absurd hres (by simp)
    · rename_i n hn
      split at hres
      · exact absurd hres (by simp)
      · rename_i sA hA
        have hshift : NodesSatisfy t Q sA ∧ sA.count t = s.count t := by
          split at hA
          · simp only [Except.ok.injEq] at hA
            rw [← hA]; exact ⟨hs, rfl⟩
          · rename_i upNode
            split at hA
            · exact absurd hA (by simp)
            · rename_i links1 hl
              simp only [Except.ok.injEq] at hA
              rw [← hA]
              exact ⟨satisfy_modifyNode t Q s node _ (fun x _ _ hq => hQ _ x links1 hq) hs,
                count_modifyNode _ _ _ _⟩
        refine foldlM_invariant _
          (fun s2 => NodesSatisfy t Q s2 ∧ s2.count t = s.count t)
          ?_ (List.range n.nlinks) sA s1 hshift hres
        intro s2 l s3 hI hstep
        simp only at hstep
        split at hstep
        · exact absurd hstep (by simp)
        · split at hstep
          · simp only [Except.ok.injEq] at hstep
            rw [← hstep]; exact hI
          · split_ifs at hstep with hc
            · obtain ⟨g3, l3⟩ := ih s2 _ _ s3 hI.1 hstep
              exact ⟨g3, l3.trans hI.2⟩
            · simp only [Except.ok.injEq] at hstep
              rw [← hstep]; exact hI

theorem sortSystem_satisfy (t : NodeType) (Q : Nat → ncclTopoNode → Prop)
    (hQ : ∀ i n links, Q i n → Q i { n with links := links })
    (fuel : Nat) (s s1 : ncclTopoSystem) (hs : NodesSatisfy t Q s)
    (hres : ncclTopoSortSystem fuel s = Except.ok s1) :
    NodesSatisfy t Q s1 ∧ s1.count t = s.count t := by
  unfold ncclTopoSortSystem at hres
  refine foldlM_invariant _
    (fun s2 => NodesSatisfy t Q s2 ∧ s2.count t = s.count t)
    ?_ _ s s1 ⟨hs, rfl⟩ hres
  intro s2 n s3 hI hstep
  obtain ⟨g3, l3⟩ := sort_satisfy t Q hQ fuel s2 _ _ s3 hI.1 hstep
  exact ⟨g3, l3.trans hI.2⟩

/-- The ids of the nodes of a kind, read off a system whose nodes carry the ids of a list at
their indices. -/
theorem ids_of_satisfy (t : NodeType) (ids : List Int) (s : ncclTopoSystem)
    (hs : NodesSatisfy t (fun i n => ids[i]? = some n.id) s) (hc : s.count t = ids.length) :
    (s.nodes t).map (fun n => n.id) = ids := by
  apply List.ext_getElem?
  intro i
  rw [List.getElem?_map]
  cases hx : (s.nodes t)[i]? with
  | none =>
    simp only [Option.map_none']
    have : (s.nodes t).length ≤ i := List.getElem?_eq_none_iff.1 hx
    unfold ncclTopoSystem.count at hc
    exact (List.getElem?_eq_none (by omega)).symm
  | some n =>
    simp only [Option.map_some']
    exact (hs i n hx).symm

theorem satisfy_ids (t : NodeType) (s : ncclTopoSystem) :
    NodesSatisfy t (fun i n => ((s.nodes t).map (fun n => n.id))[i]? = some n.id) s := by
  intro i n hn
  rw [List.getElem?_map]
  have : (s.nodes t)[i]? = some n := hn
  rw [this]
  rfl

/-- The transform passes keep the ids of the nodes of every kind other than PCI. -/
theorem passes_keep_ids (h : TopoHeader) (fuel : Nat) (t : NodeType)
    (ht : t ≠ NodeType.PCI) (ht2 : t ≠ NodeType.CPU) (s1 s2 s : ncclTopoSystem)
    (h2 : ncclTopoFlattenBcmSwitches fuel s1 = Except.ok s2)
    (h3 : ncclTopoSortSystem fuel (ncclTopoConnectCpus h s2) = Except.ok s) :
    (s.nodes t).map (fun n => n.id) = (s1.nodes t).map (fun n => n.id) := by
  have q0 := satisfy_ids t s1
  obtain ⟨q1, c1⟩ := flattenLoop_satisfy t _ ht
    (fun i n sub p _ _ hq => by
      unfold redirectFirst
      simp only
      split_ifs
      · exact hq
      · exact hq)
    (fun i n del _ hq => hq) fuel 0 s1 s2 h2 q0
  obtain ⟨q2, c2⟩ := connectCpus_satisfy h t _ ht2 s2 q1
  obtain ⟨q3, c3⟩ := sortSystem_satisfy t _ (fun i n links hq => hq) fuel _ s q2 h3
  apply ids_of_satisfy t _ s q3
  rw [c3, c2, c1]
  simp [ncclTopoSystem.count]

/-! ## The LOC link of a GPU to itself -/

theorem unlinkLoop_slots (del : NodeRef) (P : ncclTopoLink → Prop)
    (hP : ∀ l, P l → l.remNode.type = del.type →
      P { l with remNode := { type := l.remNode.type, index := l.remNode.index - 1 } }) :
    ∀ (k l : Nat) (links : List ncclTopoLink) (nlinks : Nat), (∀ x ∈ links, P x) →
      ∀ x ∈ (unlinkLoop del k l links nlinks).1, P x := by
  intro k
  induction k with
  | zero => intro l links nlinks h x hx; exact h x hx
  | succ k ih =>
    intro l links nlinks h x hx
    simp only [unlinkLoop] at hx
    split_ifs at hx with hlt
    · split at hx
      · exact h x hx
      · rename_i link hlink
        split_ifs at hx with hdel hshift
        · refine ih l _ _ ?_ x hx
          intro y hy
          unfold memmoveLinks at hy
          rcases List.mem_append.1 hy with h1 | h1
          · rcases List.mem_append.1 h1 with h2 | h2
            · exact h y (List.mem_of_mem_take h2)
            · exact h y (List.mem_of_mem_drop (List.mem_of_mem_take h2))
          · exact h y (List.mem_of_mem_drop h1)
        · refine ih (l + 1) _ _ ?_ x hx
          intro y hy
          rcases List.mem_or_eq_of_mem_set hy with h1 | h1
          · exact h y h1
          · rw [h1]
            exact hP link (h link (List.getElem?_mem hlink)) hshift.1
        · exact ih (l + 1) _ _ h x hx
    · exact h x hx

theorem selfLinked_redirectFirst (g : Nat) (n : ncclTopoNode) (sub p : NodeRef)
    (hsub : sub.type = NodeType.PCI) (hp : p.type = NodeType.PCI) (hq : SelfLinked g n) :
    SelfLinked g (redirectFirst sub p n) := by
  obtain ⟨q1, ⟨l, hl, hl1, hl2⟩, q3⟩ := hq
  obtain ⟨r1, r2, r3⟩ := redirectFirst_live sub p n q1
  refine ⟨by rw [r1, r2]; exact q1, ⟨l, ?_, hl1, hl2⟩, ?_⟩
  · rw [r3]
    apply mem_modify_findIdx_of_not _ _ _ l hl
    simp only [decide_eq_false_iff_not]
    intro e
    rw [hl2] at e
    rw [← e] at hsub
    cases hsub
  · intro x hx
    unfold redirectFirst at hx
    simp only at hx
    split_ifs at hx
    · rcases mem_modify _ _ _ x hx with h1 | ⟨y, -, rfl⟩
      · exact q3 x h1
      · rintro ⟨-, h2⟩
        simp only at h2
        rw [h2] at hp
        cases hp
    · exact q3 x hx

theorem selfLinked_unlinkNode (g : Nat) (n : ncclTopoNode) (del : NodeRef)
    (hdel : del.type = NodeType.PCI) (hq : SelfLinked g n) :
    SelfLinked g (unlinkNode del n) := by
  obtain ⟨q1, ⟨l, hl, hl1, hl2⟩, q3⟩ := hq
  obtain ⟨u1, u2⟩ := unlinkNode_live del n q1
  refine ⟨u1, ⟨l, ?_, hl1, hl2⟩, ?_⟩
  · rw [u2, List.mem_map]
    refine ⟨l, List.mem_filter.2 ⟨hl, ?_⟩, ?_⟩
    · simp only [decide_eq_true_eq]
      intro e
      rw [hl2] at e
      rw [← e] at hdel
      cases hdel
    · unfold shiftLink
      rw [if_neg]
      rintro ⟨h1, -⟩
      rw [hl2, hdel] at h1
      cases h1
  · show ∀ x ∈ (unlinkLoop del n.nlinks 0 n.links n.nlinks).1, _
    apply unlinkLoop_slots del
      (fun x => ¬ (x.type = LINK_PCI ∧ x.remNode = { type := NodeType.GPU, index := g }))
    · intro x _ hx
      rintro ⟨-, h2⟩
      simp only at h2
      have h3 : x.remNode.type = NodeType.GPU := by
        have := congrArg NodeRef.type h2
        exact this
      rw [hx, hdel] at h3
      cases h3
    · exact q3

theorem mem_take_iff_getElem? {α : Type} (L : List α) (n : Nat) (x : α) :
    x ∈ L.take n ↔ ∃ j, j < n ∧ L[j]? = some x := by
  rw [List.mem_iff_getElem?]
  constructor
  · rintro ⟨j, hj⟩
    rw [List.getElem?_take] at hj
    split_ifs at hj with hlt
    · exact ⟨j, hlt, hj⟩
  · rintro ⟨j, hlt, hj⟩
    exact ⟨j, by rw [List.getElem?_take, if_pos hlt]; exact hj⟩

theorem selfLinked_sortUp (g : Nat) (n : ncclTopoNode) (up : NodeRef)
    (links1 : List ncclTopoLink) (hup : up ≠ { type := NodeType.GPU, index := g })
    (hs : sortUp n.links up = some links1) (hq : SelfLinked g n) :
    SelfLinked g { n with links := links1 } := by
  obtain ⟨q1, ⟨l, hl, hl1, hl2⟩, q3⟩ := hq
  have hp := sortUp_perm n.links links1 up hs
  refine ⟨by simp only [hp.length_eq]; exact q1, ⟨l, ?_, hl1, hl2⟩,
    fun x hx => q3 x (hp.mem_iff.1 hx)⟩
  unfold sortUp at hs
  simp only at hs
  split at hs
  · exact absurd hs (by simp)
  · rename_i upLink hgl
    simp only [Option.some.injEq] at hs
    obtain ⟨hlt, hx⟩ := List.getElem?_eq_some_iff.1 hgl
    have hupl : upLink.remNode = up := by
      have := @List.findIdx_getElem _ (fun x : ncclTopoLink => decide (x.remNode = up)) _ hlt
      rw [hx] at this
      simpa using this
    show l ∈ List.take n.nlinks links1
    unfold ncclTopoNode.live at hl
    obtain ⟨j, hj, hjl⟩ := (mem_take_iff_getElem? _ _ _).1 hl
    have hne : j ≠ n.links.findIdx (fun x => decide (x.remNode = up)) := by
      intro e
      rw [e, hgl] at hjl
      simp only [Option.some.injEq] at hjl
      rw [hjl, hl2] at hupl
      exact hup hupl.symm
    rw [mem_take_iff_getElem?, ← hs]
    have hjlen : j < n.links.length := (List.getElem?_eq_some_iff.1 hjl).1
    have hlen : (n.links.eraseIdx (n.links.findIdx (fun x => decide (x.remNode = up)))).length
        = n.links.length - 1 := List.length_eraseIdx_of_lt hlt
    rcases Nat.lt_or_gt_of_ne hne with h1 | h1
    · refine ⟨j, hj, ?_⟩
      rw [List.getElem?_append_left (by rw [hlen]; omega), List.getElem?_eraseIdx, if_pos h1]
      exact hjl
    · refine ⟨j - 1, by omega, ?_⟩
      rw [List.getElem?_append_left (by rw [hlen]; omega), List.getElem?_eraseIdx,
        if_neg (by omega)]
      have : j - 1 + 1 = j := by omega
      rw [this]
      exact hjl

/-- What `ncclTopoSort` keeps: the LOC link of every GPU to itself, when the node the
traversal comes from is not the GPU itself. -/
theorem sort_selfLinked :
    ∀ (k : Nat) (s : ncclTopoSystem) (node : NodeRef) (up : Option NodeRef)
      (s1 : ncclTopoSystem), NodesSatisfy NodeType.GPU SelfLinked s →
        (∀ u, up = some u → u ≠ node ∨ node.type ≠ NodeType.GPU) →
        ncclTopoSort k s node up = Except.ok s1 → NodesSatisfy NodeType.GPU SelfLinked s1 := by
  intro k
  induction k with
  | zero => intro s node up s1 _ _ hres; simp [ncclTopoSort] at hres
  | succ k ih =>
    intro s node up s1 hs hup hres
    simp only [ncclTopoSort] at hres
    split at hres
    · exact absurd hres (by simp)
    · rename_i n hn
      split at hres
      · exact absurd hres (by simp)
      · rename_i sA hA
        have hshift : NodesSatisfy NodeType.GPU SelfLinked sA := by
          split at hA
          · simp only [Except.ok.injEq] at hA
            rw [← hA]; exact hs
          · rename_i upNode
            split at hA
            · exact absurd hA (by simp)
            · rename_i links1 hl
              simp only [Except.ok.injEq] at hA
              rw [← hA]
              apply satisfy_modifyNode _ _ s node _ _ hs
              intro x hx hxn hq
              rw [hn] at hxn
              simp only [Option.some.injEq] at hxn
              subst hxn
              apply selfLinked_sortUp node.index n upNode links1 _ hl hq
              rcases hup upNode rfl with h1 | h1
              · intro e
                apply h1
                rw [e]
                cases node
                simp only at hx
                rw [hx]
              · exact absurd hx h1
        refine foldlM_invariant _ (fun s2 => NodesSatisfy NodeType.GPU SelfLinked s2)
          ?_ (List.range n.nlinks) sA s1 hshift hres
        intro s2 l s3 hI hstep
        simp only at hstep
        split at hstep
        · exact absurd hstep (by simp)
        · rename_i cur hcur
          split at hstep
          · simp only [Except.ok.injEq] at hstep
            rw [← hstep]; exact hI
          · rename_i link hlink
            split_ifs at hstep with hc
            · refine ih s2 _ _ s3 hI ?_ hstep
              intro u hu
              simp only [Option.some.injEq] at hu
              subst hu
              by_cases hty : link.remNode.type = NodeType.GPU
              · left
                intro e
                have hq := hI link.remNode.index cur (by
                  have : ({ type := NodeType.GPU, index := link.remNode.index } : NodeRef)
                      = node := by
                    rw [e, ← hty]
                  rw [this]; exact hcur)
                apply hq.2.2 link (List.getElem?_mem hlink)
                refine ⟨hc.1, ?_⟩
                rw [← hty]
              · right; exact hty
            · simp only [Except.ok.injEq] at hstep
              rw [← hstep]; exact hI

theorem sortSystem_selfLinked (fuel : Nat) (s s1 : ncclTopoSystem)
    (hs : NodesSatisfy NodeType.GPU SelfLinked s)
    (hres : ncclTopoSortSystem fuel s = Except.ok s1) :
    NodesSatisfy NodeType.GPU SelfLinked s1 := by
  unfold ncclTopoSortSystem at hres
  refine foldlM_invariant _ (fun s2 => NodesSatisfy NodeType.GPU SelfLinked s2)
    ?_ _ s s1 hs hres
  intro s2 n s3 hI hstep
  exact sort_selfLinked fuel s2 _ _ s3 hI (fun u hu => by cases hu) hstep

theorem satisfy_empty (t : NodeType) (Q : Nat → ncclTopoNode → Prop) :
    NodesSatisfy t Q {} := by
  intro i n hn
  cases t <;> simp [ncclTopoSystem.node?, ncclTopoSystem.nodes] at hn

theorem widthsIn_true (h : TopoHeader) (x : ncclXmlNode) : WidthsIn h (fun _ => True) x :=
  ⟨trivial, fun _ _ => trivial, fun _ _ _ => trivial⟩

/-- The LOC link of every GPU to itself survives the builder and the transform passes. -/
theorem getSystem_selfLinked (h : TopoHeader) (fuel : Nat) (topNode : ncclXmlNode)
    (s : ncclTopoSystem) (hres : ncclTopoGetSystemFromXml h fuel topNode = Except.ok s) :
    NodesSatisfy NodeType.GPU SelfLinked s := by
  unfold ncclTopoGetSystemFromXml at hres
  split at hres
  · exact absurd hres (by simp)
  · rename_i s1 h1
    split at hres
    · exact absurd hres (by simp)
    · rename_i s2 h2
      have hb := buildGraph_checked h (fun _ => True) fuel topNode s1 trivial
        (fun x _ => widthsIn_true h x) h1
      have q1 := checked_selfLinked h _ _ s1 hb good_empty (satisfy_empty _ _)
      obtain ⟨q2, -⟩ := flattenLoop_satisfy NodeType.GPU SelfLinked (by decide)
        (fun i n sub p hsub hp hq => selfLinked_redirectFirst i n sub p hsub hp hq)
        (fun i n del hdel hq => selfLinked_unlinkNode i n del hdel hq) fuel 0 s1 s2 h2 q1
      obtain ⟨q3, -⟩ := connectCpus_satisfy h NodeType.GPU SelfLinked (by decide) s2 q2
      exact sortSystem_selfLinked fuel _ s q3 hres

/-! ## The finished topology: link order, ids, and the LOC link of a GPU -/

theorem netWidth_nonneg (h : TopoHeader) (x : ncclXmlNode) : 0 ≤ netWidth h x := by
  unfold netWidth
  simp only
  apply div_nonneg _ (by norm_num)
  split_ifs with hle
  · norm_num
  · push_neg at hle
    exact_mod_cast le_of_lt hle

theorem widthsIn_nonneg (h : TopoHeader) (x : ncclXmlNode)
    (hspeed : ∀ gcn, 0 ≤ h.ncclTopoXGMISpeed gcn) (hx : nonNegWidths h x = true) :
    WidthsIn h (fun w => 0 ≤ w) x := by
  unfold nonNegWidths at hx
  rw [Bool.and_eq_true] at hx
  obtain ⟨h1, h2⟩ := hx
  refine ⟨netWidth_nonneg h x, ?_, ?_⟩
  · intro w hw
    rw [hw] at h1
    simpa using h1
  · intro c gcn hc
    rw [hc] at h2
    have hc0 : (0 : Int) ≤ c := by simpa using h2
    exact mul_nonneg (by exact_mod_cast hc0) (hspeed gcn)

theorem sorted_empty : ∀ t, ∀ n ∈ ({} : ncclTopoSystem).nodes t, SortedDesc n.links := by
  intro t n hn
  cases t <;> simp [ncclTopoSystem.nodes] at hn

theorem sampleNarrowBuilt_eq :
    buildGraph sampleHeader 10 sampleNarrowTree = Except.ok sampleNarrowBuilt := by
  apply toOption_eq_some
  decide!

theorem sampleNarrowSystem_eq :
    ncclTopoGetSystemFromXml sampleHeader 10 sampleNarrowTree
      = Except.ok sampleNarrowSystem := by
  apply toOption_eq_some
  decide!

theorem sampleSocketSystem_eq :
    ncclTopoGetSystemFromXml sampleHeader 10 (sampleSocketTree "0" "1")
      = Except.ok (sampleSocketSystem "0" "1") := by
  apply toOption_eq_some
  decide!

theorem sampleTwinSystem_eq :
    ncclTopoGetSystemFromXml sampleHeader 10 (sampleSocketTree "0" "0")
      = Except.ok (sampleSocketSystem "0" "0") := by
  apply toOption_eq_some
  decide!

theorem sampleNicSystem_eq :
    ncclTopoGetSystemFromXml sampleHeader 10 sampleNicTree = Except.ok sampleNicSystem := by
  apply toOption_eq_some
  decide!

/-- C11, as amended: in the graph the builder makes (the argument of the transform passes),
when `LOC_WIDTH`, the fabric speeds, and the PCI link widths and fabric link counts declared
by the nodes of the tree are not negative, the live links of every node are in order of
descending width. -/
theorem buildGraph_links_sorted (h : TopoHeader) (fuel : Nat) (topNode : ncclXmlNode)
    (s1 : ncclTopoSystem) (hres : buildGraph h fuel topNode = Except.ok s1)
    (hloc : 0 ≤ h.LOC_WIDTH) (hspeed : ∀ gcn, 0 ≤ h.ncclTopoXGMISpeed gcn)
    (hW : ∀ x ∈ xmlNodes topNode, nonNegWidths h x = true) :
    ∀ t, ∀ n ∈ s1.nodes t, SortedDesc n.live := by
  have hb := buildGraph_checked h (fun w => 0 ≤ w) fuel topNode s1 hloc
    (fun x hx => widthsIn_nonneg h x hspeed (hW x hx)) hres
  have hs := checked_sorted h _ s1 hb sorted_empty
  intro t n hn
  exact List.Pairwise.sublist (List.take_sublist _ _) (hs t n hn)

/-- C11 at the sample tree with the narrow GPU link: the graph the builder makes. -/
theorem buildGraph_links_sorted_witness :
    (buildGraph sampleHeader 10 sampleNarrowTree = Except.ok sampleNarrowBuilt ∧
      (0 : ℚ) ≤ sampleHeader.LOC_WIDTH ∧ (∀ gcn, 0 ≤ sampleHeader.ncclTopoXGMISpeed gcn) ∧
      (∀ x ∈ xmlNodes sampleNarrowTree, nonNegWidths sampleHeader x = true)) ∧
    ∀ t, ∀ n ∈ sampleNarrowBuilt.nodes t, SortedDesc n.live :=
  ⟨⟨sampleNarrowBuilt_eq, by decide!, fun _ => by norm_num [sampleHeader], by decide!⟩,
    buildGraph_links_sorted sampleHeader 10 sampleNarrowTree sampleNarrowBuilt
      sampleNarrowBuilt_eq (by decide!) (fun _ => by norm_num [sampleHeader]) (by decide!)⟩

/-- C11 does not hold of the finished topology: for the sample tree with a GPU on 8 lanes
below a bridge on 16 lanes, `ncclTopoGetSystemFromXml` returns a topology in which the live
links of the bridge have the widths 12 (to the GPU) and 24 (to the processor), in this order:
`ncclTopoSort` has moved the link to the parent behind the narrower link to the child. -/
theorem getSystem_parent_link_breaks_width_order :
    ncclTopoGetSystemFromXml sampleHeader 10 sampleNarrowTree = Except.ok sampleNarrowSystem ∧
    linkKinds sampleNarrowSystem NodeType.PCI = [[(LINK_PCI, 12), (LINK_PCI, 24)]] ∧
    ∃ n ∈ sampleNarrowSystem.nodes NodeType.PCI, ¬ SortedDesc n.live := by
  refine ⟨sampleNarrowSystem_eq, by decide!, ?_⟩
  unfold SortedDesc
  decide!

/-- C12 fails on a two-socket tree: for two AMD processors with one GPU each,
`ncclTopoGetSystemFromXml` returns a topology in which the live links of each Processor node
are the SYS link to the other processor (width `LOC_WIDTH`, 5000) followed by the PCI link to
its GPU (width 24): a SYS link precedes a PCI link. -/
theorem getSystem_sys_link_before_pci :
    ncclTopoGetSystemFromXml sampleHeader 10 (sampleSocketTree "0" "1")
      = Except.ok (sampleSocketSystem "0" "1") ∧
    linkKinds (sampleSocketSystem "0" "1") NodeType.CPU
      = [[(LINK_SYS, 5000), (LINK_PCI, 24)], [(LINK_SYS, 5000), (LINK_PCI, 24)]] :=
  ⟨sampleSocketSystem_eq, by decide!⟩

/-- C19, as amended: in a topology `ncclTopoGetSystemFromXml` returns, no two NIC nodes have
the same id, and there is at most one node of the switch kind (NVS). -/
theorem getSystem_nic_ids_distinct (h : TopoHeader) (fuel : Nat) (topNode : ncclXmlNode)
    (s : ncclTopoSystem) (hres : ncclTopoGetSystemFromXml h fuel topNode = Except.ok s) :
    (s.nicNodes.map (fun n => n.id)).Nodup ∧ s.count NodeType.NVS ≤ 1 := by
  unfold ncclTopoGetSystemFromXml at hres
  split at hres
  · exact absurd hres (by simp)
  · rename_i s1 h1
    split at hres
    · exact absurd hres (by simp)
    · rename_i s2 h2
      have hb := buildGraph_checked h (fun _ => True) fuel topNode s1 trivial
        (fun x _ => widthsIn_true h x) h1
      obtain ⟨n1, v1⟩ := checked_nic_ids h _ _ s1 hb
        ⟨by simp [ncclTopoSystem.nodes], by simp [ncclTopoSystem.count, ncclTopoSystem.nodes]⟩
      have hids := passes_keep_ids h fuel NodeType.NIC (by decide) (by decide) s1 s2 s h2 hres
      obtain ⟨q1, c1⟩ := flattenLoop_satisfy NodeType.NVS (fun _ _ => True) (by decide)
        (fun _ _ _ _ _ _ _ => trivial) (fun _ _ _ _ _ => trivial) fuel 0 s1 s2 h2
        (fun _ _ _ => trivial)
      obtain ⟨q2, c2⟩ := connectCpus_satisfy h NodeType.NVS (fun _ _ => True) (by decide) s2 q1
      obtain ⟨-, c3⟩ := sortSystem_satisfy NodeType.NVS (fun _ _ => True)
        (fun _ _ _ _ => trivial) fuel _ s q2 hres
      refine ⟨?_, by rw [c3, c2, c1]; exact v1⟩
      have : s.nicNodes.map (fun n => n.id) = (s.nodes NodeType.NIC).map (fun n => n.id) := rfl
      rw [this, hids]
      exact n1

/-- C19 at the sample tree with the network devices: two NIC nodes, with the ids 0x20000
and 0. -/
theorem getSystem_nic_ids_distinct_witness :
    ncclTopoGetSystemFromXml sampleHeader 10 sampleNicTree = Except.ok sampleNicSystem ∧
    sampleNicSystem.nicNodes.map (fun n => n.id) = [131072, 0] ∧
    (sampleNicSystem.nicNodes.map (fun n => n.id)).Nodup ∧
    sampleNicSystem.count NodeType.NVS ≤ 1 :=
  ⟨sampleNicSystem_eq, by decide!,
    getSystem_nic_ids_distinct sampleHeader 10 sampleNicTree sampleNicSystem sampleNicSystem_eq⟩

/-- C19 does not hold of every tree: for the sample tree in which both "cpu" entries declare
the NUMA id 0, `ncclTopoGetSystemFromXml` returns a topology with two Processor nodes of
id 0. -/
theorem getSystem_repeats_cpu_id :
    ncclTopoGetSystemFromXml sampleHeader 10 (sampleSocketTree "0" "0")
      = Except.ok (sampleSocketSystem "0" "0") ∧
    (sampleSocketSystem "0" "0").cpuNodes.map (fun n => n.id) = [0, 0] :=
  ⟨sampleTwinSystem_eq, by decide!⟩

/-- C20: a GPU node that `ncclTopoCreateNode` creates has exactly one link, a LOC link to
itself of width `LOC_WIDTH`; and in a topology `ncclTopoGetSystemFromXml` returns every GPU
node has a live LOC link whose remote node is the GPU itself. -/
theorem getSystem_gpu_self_link (h : TopoHeader) (fuel : Nat) (topNode : ncclXmlNode)
    (s : ncclTopoSystem) (hres : ncclTopoGetSystemFromXml h fuel topNode = Except.ok s) :
    (∀ (sys sys1 : ncclTopoSystem) (id : Int) (r : NodeRef),
      ncclTopoCreateNode h sys NodeType.GPU id = (ncclResult_t.ncclSuccess, sys1, some r) →
      ∃ n, sys1.node? r = some n ∧ n.nlinks = 1 ∧
        n.links = [{ type := LINK_LOC, width := h.LOC_WIDTH, remNode := r }]) ∧
    ∀ (g : Nat) (n : ncclTopoNode), s.gpuNodes[g]? = some n →
      ∃ l ∈ n.live, l.type = LINK_LOC ∧ l.remNode = { type := NodeType.GPU, index := g } := by
  constructor
  · intro sys sys1 id r hc
    have hc1 : createNode h sys NodeType.GPU id = Except.ok (sys1, r) := by
      unfold createNode
      rw [hc]
    obtain ⟨hr, -⟩ := createNode_ok h sys sys1 _ id r hc1
    refine ⟨newNode h NodeType.GPU id (sys.count NodeType.GPU), ?_, rfl, ?_⟩
    · rw [createNode_node? h sys sys1 _ id r hc1, if_pos rfl]
    · rw [hr]
      rfl
  · intro g n hn
    exact (getSystem_selfLinked h fuel topNode s hres g n hn).2.1

/-- C20 at the sample tree with two GPUs and a fabric link. -/
theorem getSystem_gpu_self_link_witness :
    ncclTopoGetSystemFromXml sampleHeader 10 sampleXgmiTree = Except.ok sampleXgmiSystem ∧
    ∀ (g : Nat) (n : ncclTopoNode), sampleXgmiSystem.gpuNodes[g]? = some n →
      ∃ l ∈ n.live, l.type = LINK_LOC ∧ l.remNode = { type := NodeType.GPU, index := g } :=
  ⟨sampleXgmiSystem_eq,
    (getSystem_gpu_self_link sampleHeader 10 sampleXgmiTree sampleXgmiSystem
      sampleXgmiSystem_eq).2⟩

/-! ## Reduction-op handles, the intra-process barrier and the affinity query -/

theorem redOpHash_lt (c : RedOpHeader) (k : Nat) (comm : Nat) (hk : k ≤ 31)
    (hmax : c.ncclMaxRedOp = 2 ^ k - 1) : redOpHash c comm < 2 ^ k := by
  unfold redOpHash
  simp only
  have hpos : (1 : Int) ≤ 2 ^ k := one_le_pow₀ (by norm_num)
  have hle : (2 : Int) ^ k ≤ 2 ^ 31 := pow_le_pow_right₀ (by norm_num) hk
  have hm : (c.ncclMaxRedOp % 2 ^ 64).toNat = 2 ^ k - 1 := by
    rw [hmax, Int.emod_eq_of_lt (by omega) (by omega)]
    have : ((2 : Int) ^ k - 1) = (((2 ^ k - 1 : Nat)) : Int) := by
      have h1 : (1 : Nat) ≤ 2 ^ k := Nat.one_le_two_pow
      push_cast [Nat.cast_sub h1]
      rfl
    rw [this, Int.toNat_ofNat]
  rw [hm]
  have h1 : (1 : Nat) ≤ 2 ^ k := Nat.one_le_two_pow
  exact lt_of_le_of_lt Nat.and_le_right (by omega)

theorem toInt32_of_lt (m : Nat) (h : m < 2 ^ 31) : toInt32 m = (m : Int) := by
  unfold toInt32
  have : m % 2 ^ 32 = m := Nat.mod_eq_of_lt (by omega)
  rw [this, if_pos h]

/-- C28: when `ncclMaxRedOp` is `2^k - 1` (with `k` at most 31, the value fits an `int`), for
every communicator address and every op value from 0 to `ncclMaxRedOp` the mangled value is
again in this range, and mangling it once more gives the op back. -/
theorem redOpMangle_involution (c : RedOpHeader) (k : Nat) (comm : Nat) (op : Int)
    (hk : k ≤ 31) (hmax : c.ncclMaxRedOp = 2 ^ k - 1) (h0 : 0 ≤ op)
    (h1 : op ≤ c.ncclMaxRedOp) :
    ncclUserRedOpMangle c comm (ncclUserRedOpMangle c comm op) = op ∧
      0 ≤ ncclUserRedOpMangle c comm op ∧ ncclUserRedOpMangle c comm op ≤ c.ncclMaxRedOp := by
  have hm := redOpHash_lt c k comm hk hmax
  have hle : (2 : Nat) ^ k ≤ 2 ^ 31 := Nat.pow_le_pow_right (by norm_num) hk
  have ht := toInt32_of_lt (redOpHash c comm) (by omega)
  obtain ⟨n, rfl⟩ := Int.eq_ofNat_of_zero_le h0
  have hn : n < 2 ^ k := by
    rw [hmax] at h1
    have : ((n : Int)) < 2 ^ k := by omega
    exact_mod_cast this
  have hx : Int.xor (toInt32 (redOpHash c comm)) (n : Int)
      = ((redOpHash c comm ^^^ n : Nat) : Int) := by
    rw [ht]; rfl
  have hxlt : redOpHash c comm ^^^ n < 2 ^ k := Nat.xor_lt_two_pow hm hn
  have hxle : ((redOpHash c comm ^^^ n : Nat) : Int) ≤ c.ncclMaxRedOp := by
    rw [hmax]
    have : ((redOpHash c comm ^^^ n : Nat) : Int) < 2 ^ k := by exact_mod_cast hxlt
    omega
  have hback : Int.xor (toInt32 (redOpHash c comm)) ((redOpHash c comm ^^^ n : Nat) : Int)
      = (n : Int) := by
    rw [ht]
    show ((redOpHash c comm ^^^ (redOpHash c comm ^^^ n) : Nat) : Int) = (n : Int)
    rw [← Nat.xor_assoc, Nat.xor_self, Nat.zero_xor]
  unfold ncclUserRedOpMangle
  simp only [hx]
  by_cases hb : (n : Int) < c.ncclNumOps
  · simp only [hb, if_true]
    exact ⟨trivial, h0, h1⟩
  · simp only [hb, if_false]
    by_cases hc : ((redOpHash c comm ^^^ n : Nat) : Int) < c.ncclNumOps
    · simp only [hc, if_true, hb, if_false, hx]
      exact ⟨trivial, h0, h1⟩
    · simp only [hc, if_false, hback, hb]
      exact ⟨trivial, Int.ofNat_nonneg _, hxle⟩

/-- C28 at a user-defined op value: 9 is mangled to 26 and back. -/
theorem redOpMangle_involution_witness :
    ((7 : Nat) ≤ 31 ∧ sampleRedOps.ncclMaxRedOp = 2 ^ 7 - 1 ∧ (0 : Int) ≤ 9 ∧
      (9 : Int) ≤ sampleRedOps.ncclMaxRedOp) ∧
    ncclUserRedOpMangle sampleRedOps 0x7f00deadbeef 9 = 26 ∧
    ncclUserRedOpMangle sampleRedOps 0x7f00deadbeef
      (ncclUserRedOpMangle sampleRedOps 0x7f00deadbeef 9) = 9 :=
  ⟨⟨by decide, by decide, by decide, by decide⟩, by decide,
    (redOpMangle_involution sampleRedOps 7 0x7f00deadbeef 9 (by decide) (by decide) (by decide)
      (by decide)).1⟩

/-- The gate value stored for a phase bit: the high word and the flipped bit. -/
theorem barrierGate_eq (a p : Nat) (ha : a < 2 ^ 32) (hp : p ≤ 1) :
    barrierGate (a * 2 ^ 32) p = a * 2 ^ 32 + (1 - p) := by
  have h1 : a * 2 ^ 32 % 2 ^ 64 = 2 ^ 32 * a := by omega
  unfold barrierGate
  rw [h1]
  interval_cases p
  · have : ((Int.xor (toInt32 0) 1) % (2 ^ 64 : Int)).toNat = 1 := by decide
    rw [this, ← Nat.mul_add_lt_is_or (by norm_num)]; omega
  · have : ((Int.xor (toInt32 1) 1) % (2 ^ 64 : Int)).toNat = 0 := by decide
    rw [this]; simp; omega

theorem barrierIn_step (n p A k : Nat) (st : List ncclComm) (i x : Nat) (hn : 2 ≤ n)
    (hn2 : n < 2 ^ 31) (hp : p ≤ 1) (hk : k < n) (hi : i < n)
    (h : BarrierGroup n p ((A % 2 ^ 32) * 2 ^ 32 + k) st) :
    ∃ st1, ncclCommIntraBarrierIn st i x = some st1 ∧
      (k + 1 < n → BarrierGroup n p (((A + x) % 2 ^ 32) * 2 ^ 32 + (k + 1)) st1) ∧
      (k + 1 = n → BarrierOpen n p ((A + x) % 2 ^ 32) st1) := by
  obtain ⟨hlen, hall, c0, h0, hv⟩ := h
  have hi2 : i < st.length := by omega
  have hci : st[i]? = some st[i] := List.getElem?_eq_getElem hi2
  obtain ⟨hc1, hc2, hc3⟩ := hall st[i] (List.getElem_mem hi2)
  obtain ⟨hd1, hd2, hd3⟩ := hall c0 (List.getElem?_mem h0)
  have hr : ¬ (st[i].intraRanks = 1) := by rw [hc2]; omega
  have hcount : (c0.intraBarrierCounter + (barrierShift x + 1)) % 2 ^ 64 =
      ((A + x) % 2 ^ 32) * 2 ^ 32 + (k + 1) := by
    rw [hv]; unfold barrierShift; omega
  have hranks : (st[i].intraRanks % (2 ^ 32 : Int)).toNat = n := by rw [hc2]; omega
  have hlow : (((A + x) % 2 ^ 32) * 2 ^ 32 + (k + 1)) % 2 ^ 32 = k + 1 := by omega
  have hhigh : (((A + x) % 2 ^ 32) * 2 ^ 32 + (k + 1)) / 2 ^ 32 = (A + x) % 2 ^ 32 := by omega
  have h0len : 0 < st.length := by omega
  unfold ncclCommIntraBarrierIn
  rw [hci]
  simp only [hr, if_false, hc1, h0, hcount, hranks, hlow, hhigh, hc3]
  by_cases hlast : k + 1 = n
  · rw [if_pos hlast]
    refine ⟨_, rfl, fun h => absurd hlast (by omega), fun _ => ⟨by simp [hlen], ?_, ?_⟩⟩
    · intro c hc
      rcases List.mem_or_eq_of_mem_set hc with hc | hc
      · exact hall c hc
      · subst hc; exact ⟨hd1, hd2, hd3⟩
    · refine ⟨_, (List.getElem?_set_self h0len).trans rfl, ?_⟩
      exact barrierGate_eq _ p (Nat.mod_lt _ (by norm_num)) hp
  · rw [if_neg hlast]
    refine ⟨_, rfl, fun _ => ⟨by simp [hlen], ?_, ?_⟩, fun h => absurd h hlast⟩
    · intro c hc
      rcases List.mem_or_eq_of_mem_set hc with hc | hc
      · exact hall c hc
      · subst hc; exact ⟨hd1, hd2, hd3⟩
    · exact ⟨_, (List.getElem?_set_self h0len).trans rfl, rfl⟩

theorem barrierRound_open (n p : Nat) (hn : 2 ≤ n) (hn2 : n < 2 ^ 31) (hp : p ≤ 1) :
    ∀ (calls : List (Nat × Nat)) (st : List ncclComm) (A k : Nat),
      BarrierGroup n p ((A % 2 ^ 32) * 2 ^ 32 + k) st → calls ≠ [] → k + calls.length = n →
      (∀ c ∈ calls, c.1 < n) →
      ∃ st1, barrierRound st calls = some st1 ∧
        BarrierOpen n p ((A + (calls.map Prod.snd).sum) % 2 ^ 32) st1 := by
  intro calls
  induction calls with
  | nil => intro st A k _ h; exact absurd rfl h
  | cons c rest ih =>
    intro st A k hst _ hlen hlt
    simp only [List.length_cons] at hlen
    obtain ⟨st1, h1, h2, h3⟩ :=
      barrierIn_step n p A k st c.1 c.2 hn hn2 hp (by omega) (hlt c (List.mem_cons_self _ _)) hst
    have hfold : barrierRound st (c :: rest) = barrierRound st1 rest := by
      unfold barrierRound
      rw [List.foldlM_cons, h1]; rfl
    rw [hfold]
    cases rest with
    | nil =>
      refine ⟨st1, rfl, ?_⟩
      simpa using h3 (by simpa using hlen)
    | cons d rest2 =>
      obtain ⟨st2, h4, h5⟩ := ih st1 (A + c.2) (k + 1)
        (h2 (by simp only [List.length_cons] at hlen; omega)) (List.cons_ne_nil _ _)
        (by simp only [List.length_cons] at hlen ⊢; omega)
        (fun e he => hlt e (List.mem_cons_of_mem _ he))
      refine ⟨st2, h4, ?_⟩
      have : A + (List.map Prod.snd (c :: d :: rest2)).sum =
          A + c.2 + (List.map Prod.snd (d :: rest2)).sum := by
        simp only [List.map_cons, List.sum_cons]; omega
      rw [this]; exact h5

theorem barrierOpen_leaving (n p a : Nat) (st : List ncclComm) (h : BarrierOpen n p a st) :
    BarrierLeaving n p a [] st := by
  obtain ⟨h1, h2, h3⟩ := h
  refine ⟨h1, fun c hc => (h2 c hc).1, h3, fun i c hc => ?_⟩
  simpa using (h2 c (List.getElem?_mem hc)).2.2

theorem barrierOut_step (n p a : Nat) (done : List Nat) (st : List ncclComm) (i : Nat)
    (hp : p ≤ 1) (ha : a < 2 ^ 32) (hi : i < n) (hd : i ∉ done)
    (h : BarrierLeaving n p a done st) :
    ∃ st1, ncclCommIntraBarrierOut st i = some (a, st1) ∧ BarrierLeaving n p a (i :: done) st1 := by
  obtain ⟨hlen, hall, ⟨c0, h0, hg⟩, hph⟩ := h
  have hi2 : i < st.length := by omega
  have hci : st[i]? = some st[i] := List.getElem?_eq_getElem hi2
  have hc1 := hall st[i] (List.getElem_mem hi2)
  have hc3 : st[i].intraBarrierPhase = p := by simpa [hd] using hph i st[i] hci
  have hflip : (p ^^^ 1) % 2 ^ 32 = 1 - p := by interval_cases p <;> decide
  have hgate : ∃ c1, (st.set i { st[i] with intraBarrierPhase := 1 - p })[st[i].intraComm0]? =
      some c1 ∧ c1.intraBarrierGate = a * 2 ^ 32 + (1 - p) := by
    rw [hc1]
    by_cases hi0 : i = 0
    · subst hi0
      refine ⟨_, List.getElem?_set_self hi2, ?_⟩
      have : st[0] = c0 := by
        have := hci.symm.trans h0
        simpa using this
      simp only [this]; exact hg
    · refine ⟨c0, ?_, hg⟩
      rw [List.getElem?_set_ne hi0]; exact h0
  obtain ⟨c1, hg1, hg2⟩ := hgate
  have hbit : c1.intraBarrierGate % 2 = 1 - p := by rw [hg2]; omega
  have hval : c1.intraBarrierGate / 2 ^ 32 % 2 ^ 32 = a := by rw [hg2]; omega
  unfold ncclCommIntraBarrierOut
  rw [hci]
  simp only [hc3, hflip, hg1, hbit, hval, ne_eq, not_true_eq_false, if_false]
  rw [hc1] at hg1
  refine ⟨_, rfl, by simp [hlen], ?_, ⟨c1, hg1, hg2⟩, ?_⟩
  · intro c hc
    rcases List.mem_or_eq_of_mem_set hc with hc | hc
    · exact hall c hc
    · subst hc; exact hc1
  · intro j c hc
    by_cases hji : j = i
    · subst hji
      rw [List.getElem?_set_self hi2] at hc
      cases hc
      simp
    · rw [List.getElem?_set_ne (Ne.symm hji)] at hc
      rw [hph j c hc]
      simp [hji]

theorem barrierLeave_all (n p a : Nat) (hp : p ≤ 1) (ha : a < 2 ^ 32) :
    ∀ (outs : List Nat) (done : List Nat) (st : List ncclComm),
      BarrierLeaving n p a done st → outs.Nodup → (∀ i ∈ outs, i < n ∧ i ∉ done) →
      ∃ st1 done1, barrierLeave st outs = some (outs.map (fun _ => a), st1) ∧
        BarrierLeaving n p a done1 st1 ∧ ∀ i, i ∈ outs ∨ i ∈ done → i ∈ done1 := by
  intro outs
  induction outs with
  | nil =>
    intro done st h _ _
    exact ⟨st, done, rfl, h, fun i hi => hi.elim (fun h => by cases h) id⟩
  | cons i rest ih =>
    intro done st h hnd hall
    obtain ⟨st1, h1, h2⟩ := barrierOut_step n p a done st i hp ha
      (hall i (List.mem_cons_self _ _)).1 (hall i (List.mem_cons_self _ _)).2 h
    obtain ⟨hni, hnd2⟩ := List.nodup_cons.mp hnd
    obtain ⟨st2, done2, h3, h4, h5⟩ := ih (i :: done) st1 h2 hnd2 (fun j hj =>
      ⟨(hall j (List.mem_cons_of_mem _ hj)).1, fun hm => by
        rcases List.mem_cons.mp hm with hm | hm
        · subst hm; exact hni hj
        · exact (hall j (List.mem_cons_of_mem _ hj)).2 hm⟩)
    refine ⟨st2, done2, ?_, h4, fun j hj => ?_⟩
    · simp only [barrierLeave, h1, h3, Option.map_some', List.map_cons]
    · rcases hj with hj | hj
      · rcases List.mem_cons.mp hj with hj | hj
        · exact h5 j (Or.inr (hj ▸ List.mem_cons_self _ _))
        · exact h5 j (Or.inl hj)
      · exact h5 j (Or.inr (List.mem_cons_of_mem _ hj))

/-- C29: in an intra-process group of `n` communicators (`2 ≤ n`, all pointing to the first one
as `intraComm0`, all at the same phase bit `p`, the counter of the leader at 0), after every
communicator has called `ncclCommIntraBarrierIn(comm_i, x_i)` exactly once, in any order of the
atomic additions, the calls `ncclCommIntraBarrierOut` of the communicators, in any order, all
return the sum of the `x_i` modulo `2^32`, and each leaves the phase bit of its communicator
flipped. With a single rank (a communicator that is its own `intraComm0`),
`ncclCommIntraBarrierIn(comm, x)` followed by `ncclCommIntraBarrierOut(comm)` returns `x`. -/
theorem intraBarrier_returns_sum :
    (∀ (n p : Nat) (mem : List ncclComm) (calls : List (Nat × Nat)) (outs : List Nat),
      2 ≤ n → n < 2 ^ 31 → p ≤ 1 → mem.length = n →
      (∀ c ∈ mem, c.intraComm0 = 0 ∧ c.intraRanks = (n : Int) ∧ c.intraBarrierPhase = p) →
      (∀ c0, mem[0]? = some c0 → c0.intraBarrierCounter = 0) →
      (calls.map Prod.fst).Perm (List.range n) → outs.Nodup → (∀ i ∈ outs, i < n) →
      ∃ mem1 mem2, barrierRound mem calls = some mem1 ∧
        barrierLeave mem1 outs =
          some (outs.map (fun _ => (calls.map Prod.snd).sum % 2 ^ 32), mem2) ∧
        ∀ i ∈ outs, ∃ c, mem2[i]? = some c ∧ c.intraBarrierPhase = p ^^^ 1) ∧
    (∀ (mem : List ncclComm) (i : Nat) (c : ncclComm) (x : Nat),
      mem[i]? = some c → c.intraRanks = 1 → c.intraComm0 = i → c.intraBarrierPhase ≤ 1 →
      x < 2 ^ 32 →
      ∃ mem1 mem2, ncclCommIntraBarrierIn mem i x = some mem1 ∧
        ncclCommIntraBarrierOut mem1 i = some (x, mem2) ∧
        ∃ c2, mem2[i]? = some c2 ∧ c2.intraBarrierPhase = c.intraBarrierPhase ^^^ 1) := by
  constructor
  · intro n p mem calls outs hn hn2 hp hlen hall hctr hperm hnd hlt
    have h0len : 0 < mem.length := by omega
    have hgroup : BarrierGroup n p ((0 % 2 ^ 32) * 2 ^ 32 + 0) mem :=
      ⟨hlen, hall, mem[0], List.getElem?_eq_getElem h0len,
        by simpa using hctr mem[0] (List.getElem?_eq_getElem h0len)⟩
    have hcl : calls.length = n := by
      have := hperm.length_eq
      simpa using this
    have hne : calls ≠ [] := by
      intro h; rw [h] at hcl; simp at hcl; omega
    have hidx : ∀ c ∈ calls, c.1 < n := fun c hc =>
      List.mem_range.mp (hperm.subset (List.mem_map_of_mem Prod.fst hc))
    obtain ⟨mem1, h1, h2⟩ := barrierRound_open n p hn hn2 hp calls mem 0 0 hgroup hne
      (by omega) hidx
    obtain ⟨mem2, done, h3, h4, h5⟩ := barrierLeave_all n p _ hp (Nat.mod_lt _ (by norm_num))
      outs [] mem1 (barrierOpen_leaving n p _ mem1 h2) hnd
      (fun i hi => ⟨hlt i hi, by simp⟩)
    refine ⟨mem1, mem2, h1, by simpa using h3, fun i hi => ?_⟩
    obtain ⟨h6, _, _, h7⟩ := h4
    have hi2 : i < mem2.length := by rw [h6]; exact hlt i hi
    refine ⟨mem2[i], List.getElem?_eq_getElem hi2, ?_⟩
    rw [h7 i mem2[i] (List.getElem?_eq_getElem hi2), if_pos (h5 i (Or.inl hi))]
    interval_cases p <;> decide
  · intro mem i c x hc hr h0 hp hx
    have hi : i < mem.length := by
      rcases Nat.lt_or_ge i mem.length with h | h
      · exact h
      · rw [List.getElem?_eq_none h] at hc; cases hc
    have hg : barrierGate (barrierShift x) c.intraBarrierPhase =
        x * 2 ^ 32 + (1 - c.intraBarrierPhase) := by
      have : barrierShift x = x * 2 ^ 32 := by unfold barrierShift; omega
      rw [this]; exact barrierGate_eq x _ hx hp
    have hflip : (c.intraBarrierPhase ^^^ 1) % 2 ^ 32 = 1 - c.intraBarrierPhase := by
      generalize c.intraBarrierPhase = p at hp
      interval_cases p <;> decide
    have hflip2 : c.intraBarrierPhase ^^^ 1 = 1 - c.intraBarrierPhase := by
      generalize c.intraBarrierPhase = p at hp
      interval_cases p <;> decide
    have hin : ncclCommIntraBarrierIn mem i x = some (mem.set i
        { c with intraBarrierGate := x * 2 ^ 32 + (1 - c.intraBarrierPhase) }) := by
      unfold ncclCommIntraBarrierIn
      rw [hc]
      simp only []
      rw [if_pos hr, hg]
    have h1 : (x * 2 ^ 32 + (1 - c.intraBarrierPhase)) % 2 = 1 - c.intraBarrierPhase := by
      omega
    have h2 : (x * 2 ^ 32 + (1 - c.intraBarrierPhase)) / 2 ^ 32 % 2 ^ 32 = x := by omega
    have hout : ncclCommIntraBarrierOut (mem.set i
        { c with intraBarrierGate := x * 2 ^ 32 + (1 - c.intraBarrierPhase) }) i =
        some (x, (mem.set i
          { c with intraBarrierGate := x * 2 ^ 32 + (1 - c.intraBarrierPhase) }).set i
          { c with intraBarrierGate := x * 2 ^ 32 + (1 - c.intraBarrierPhase),
                   intraBarrierPhase := 1 - c.intraBarrierPhase }) := by
      unfold ncclCommIntraBarrierOut
      rw [List.getElem?_set_self hi]
      simp only []
      rw [h0, List.getElem?_set_self (by simpa using hi)]
      simp only [hflip, h1, h2, ne_eq, not_true_eq_false, if_false]
    refine ⟨_, _, hin, hout, _, List.getElem?_set_self (by simpa using hi), ?_⟩
    exact hflip2.symm

theorem sysCheckSync_retries (e : ErrnoHeader) (o : SysOutcome) (rest : List SysOutcome)
    (ho : sysRetry e o = false) :
    ∀ (retried : List SysOutcome) (issued : Nat), (∀ r ∈ retried, sysRetry e r = true) →
      SYSCHECKSYNC e (retried ++ o :: rest) issued = some (o, issued + retried.length + 1) := by
  intro retried
  induction retried with
  | nil => intro issued _; simp [SYSCHECKSYNC, ho]
  | cons r more ih =>
    intro issued h
    have hr := h r (List.mem_cons_self _ _)
    have h2 := ih (issued + 1) (fun x hx => h x (List.mem_cons_of_mem _ hx))
    rw [List.cons_append, SYSCHECKSYNC, if_pos hr, h2, List.length_cons]
    congr 2; omega

theorem sysCheckSync_spins (e : ErrnoHeader) :
    ∀ (outcomes : List SysOutcome) (issued : Nat), (∀ r ∈ outcomes, sysRetry e r = true) →
      SYSCHECKSYNC e outcomes issued = none := by
  intro outcomes
  induction outcomes with
  | nil => intro _ _; rfl
  | cons r more ih =>
    intro issued h
    simp only [SYSCHECKSYNC, h r (List.mem_cons_self _ _), if_true]
    exact ih _ (fun x hx => h x (List.mem_cons_of_mem _ hx))

/-- C30, counterexample: when the first issue of the process-affinity query fails with `EINTR`,
`SYSCHECK` issues it again; the call makes two issues and returns `ncclSuccess` with the mask of
the second one. -/
theorem getCpuAffinity_reissues_interrupted_query :
    ncclTopoGetCpuAffinitySys sampleErrno sampleAffinityEnv
      [{ retval := -1, errno := 4, mask := 0 }, { retval := 0, errno := 0, mask := 6 }]
      sampleAffinitySystem 0 = some ((ncclResult_t.ncclSuccess, some 4), 2) := by
  decide

/-- C30, amended: `ncclTopoGetCpuAffinity` issues the process-affinity query only when a GPU owns
the rank, and then through the loop of `SYSCHECK`, which issues it again after every failure
with `errno` `EINTR`, `EWOULDBLOCK` or `EAGAIN`: with `retried` the outcomes of this kind that
come first and `o` the first other outcome, the query is issued `retried.length + 1` times.
When `o` is a failure, the call returns `ncclSystemError` and stores no mask; while every
outcome is of the retried kind the call does not return; when no GPU owns the rank the call
returns `ncclInternalError` without any issue. -/
theorem getCpuAffinity_query_issues (e : ErrnoHeader) (env : AffinityEnv)
    (system : ncclTopoSystem) (rank : Int) (retried rest : List SysOutcome) (o : SysOutcome)
    (hretried : ∀ r ∈ retried, sysRetry e r = true) (ho : sysRetry e o = false) :
    (∀ res issued, ncclTopoGetCpuAffinitySys e env (retried ++ o :: rest) system rank
        = some (res, issued) →
      (issued = 0 ∧ res = (ncclResult_t.ncclInternalError, none)) ∨
        issued = retried.length + 1) ∧
    (∀ cpu, cpuScan system rank system.gpuNodes none = some (some cpu) → o.retval = -1 →
      ncclTopoGetCpuAffinitySys e env (retried ++ o :: rest) system rank
        = some ((ncclResult_t.ncclSystemError, none), retried.length + 1)) ∧
    (∀ cpu, cpuScan system rank system.gpuNodes none = some (some cpu) →
      ncclTopoGetCpuAffinitySys e env retried system rank = none) ∧
    ((∀ gpu ∈ system.gpuNodes, gpuHasRank gpu rank = false) →
      ncclTopoGetCpuAffinitySys e env (retried ++ o :: rest) system rank
        = some ((ncclResult_t.ncclInternalError, none), 0)) := by
  have hsync := sysCheckSync_retries e o rest ho retried 0 hretried
  rw [Nat.zero_add] at hsync
  refine ⟨?_, ?_, ?_, ?_⟩
  · intro res issued h
    unfold ncclTopoGetCpuAffinitySys at h
    cases hs : cpuScan system rank system.gpuNodes none with
    | none => rw [hs] at h; cases h
    | some r =>
      cases r with
      | none =>
        rw [hs] at h
        simp only [Option.some.injEq, Prod.mk.injEq] at h
        exact Or.inl ⟨h.2.symm, h.1.symm⟩
      | some cpu =>
        rw [hs] at h
        simp only [hsync, Option.map_eq_some'] at h
        obtain ⟨a, _, ha⟩ := h
        simp only [Prod.mk.injEq] at ha
        exact Or.inr ha.2.symm
  · intro cpu hs hfail
    unfold ncclTopoGetCpuAffinitySys
    rw [hs]
    simp only [hsync, hfail, if_true]
    unfold ncclTopoGetCpuAffinity
    rw [hs]
    rfl
  · intro cpu hs
    unfold ncclTopoGetCpuAffinitySys
    rw [hs]
    simp only [sysCheckSync_spins e retried 0 hretried]
  · intro h
    have := cpuScan_no_owner system rank _ h [] none
    rw [List.append_nil] at this
    unfold ncclTopoGetCpuAffinitySys
    rw [this]
    rfl

theorem intraBarrier_returns_sum_witness :
    ((List.map Prod.fst [(2, 5), (0, 7), (1, 4294967295)]).Perm (List.range 3) ∧
      ∃ mem1 mem2, barrierRound sampleComms [(2, 5), (0, 7), (1, 4294967295)] = some mem1 ∧
        barrierLeave mem1 [1, 0, 2] =
          some ([1, 0, 2].map
            (fun _ => (List.map Prod.snd [(2, 5), (0, 7), (1, 4294967295)]).sum % 2 ^ 32), mem2) ∧
        ∀ i ∈ [1, 0, 2], ∃ c, mem2[i]? = some c ∧ c.intraBarrierPhase = 0 ^^^ 1) ∧
    ∃ mem1 mem2,
      ncclCommIntraBarrierIn [sampleSoloComm] 0 9 = some mem1 ∧
      ncclCommIntraBarrierOut mem1 0 = some (9, mem2) ∧
      ∃ c2, mem2[0]? = some c2 ∧ c2.intraBarrierPhase = sampleSoloComm.intraBarrierPhase ^^^ 1 :=
  ⟨⟨by decide, intraBarrier_returns_sum.1 3 0 sampleComms [(2, 5), (0, 7), (1, 4294967295)]
      [1, 0, 2] (by decide) (by decide) (by decide) (by decide) (by decide)
      (fun c0 h => by cases h; rfl) (by decide) (by decide) (by decide)⟩,
    intraBarrier_returns_sum.2 _ 0 _ 9 rfl rfl rfl (by decide) (by decide)⟩

theorem getCpuAffinity_query_issues_witness :
    sysRetry sampleErrno { retval := -1, errno := 22, mask := 0 } = false ∧
    ncclTopoGetCpuAffinitySys sampleErrno sampleAffinityEnv
      ([{ retval := -1, errno := 11, mask := 0 }] ++ { retval := -1, errno := 22, mask := 0 } ::
        [{ retval := 0, errno := 0, mask := 6 }])
      sampleAffinitySystem 0
      = some ((ncclResult_t.ncclSystemError, none),
          [({ retval := -1, errno := 11, mask := 0 } : SysOutcome)].length + 1) :=
  ⟨by decide, (getCpuAffinity_query_issues sampleErrno sampleAffinityEnv sampleAffinitySystem 0
    [{ retval := -1, errno := 11, mask := 0 }] [{ retval := 0, errno := 0, mask := 6 }]
    { retval := -1, errno := 22, mask := 0 } (by decide) (by decide)).2.1 1 (by decide) rfl⟩

/-! ## Fabric-link entries: `ncclTopoAddXGMI` and `findLocalCpu` -/

theorem widthFrom_connect (s : ncclTopoSystem) (hg : GoodSystem s) (x y a b : NodeRef)
    (t' t : Nat) (w : ℚ) (hx : s.valid x) :
    widthFrom (s.connect x y t' w) a b t =
      widthFrom s a b t + (if a = x ∧ b = y ∧ t = t' then w else 0) := by
  unfold widthFrom linksFrom
  rw [node?_connect]
  by_cases ha : a = x
  · subst ha
    obtain ⟨n, hn⟩ := (valid_iff_node? s a).1 hx
    have hwf := (good_node? s hg a n hn).1
    simp only [hn, if_true, Option.map_some', true_and]
    rw [live_of_wf n hwf, live_of_wf _ (connect_wf n y t' w hwf)]
    exact connect_widthTo n y t' w b t
  · simp [ha]

theorem widthFrom_connectBoth (s : ncclTopoSystem) (hg : GoodSystem s) (x y a b : NodeRef)
    (t' t : Nat) (w : ℚ) (hx : s.valid x) (hy : s.valid y) :
    widthFrom (s.connectBoth x y t' w) a b t =
      widthFrom s a b t + (if a = x ∧ b = y ∧ t = t' then w else 0) +
        (if a = y ∧ b = x ∧ t = t' then w else 0) := by
  unfold ncclTopoSystem.connectBoth
  rw [widthFrom_connect _ (good_connect s x y t' w hg hy) y x a b t' t w
    ((valid_connect s x y y t' w).2 hy), widthFrom_connect s hg x y a b t' t w hx]

theorem widthFrom_create (h : TopoHeader) (s s1 : ncclTopoSystem) (k : NodeType) (id : Int)
    (r : NodeRef) (hc : createNode h s k id = Except.ok (s1, r)) (hk : k ≠ NodeType.GPU)
    (a b : NodeRef) (t : Nat) : widthFrom s1 a b t = widthFrom s a b t := by
  unfold widthFrom
  by_cases ha : s.valid a
  · rw [linksFrom_create h s s1 k id r hc a b t ha]
  · rw [linksFrom_of_not_valid s a b t ha]
    unfold linksFrom
    rw [createNode_node? h s s1 k id r hc]
    by_cases har : a = r
    · simp only [har, if_true]
      cases k <;> first | exact absurd rfl hk | simp [newNode, ncclTopoNode.live, linksTo]
    · simp only [har, if_false]
      cases hx : s.node? a with
      | none => rfl
      | some n => exact absurd ((valid_iff_node? s a).2 ⟨n, hx⟩) ha

theorem checked_nvs_count (h : TopoHeader) (W : ℚ → Prop) (s s1 : ncclTopoSystem)
    (hb : CheckedBuilt h W s s1) (hs : s.count NodeType.NVS ≤ 1) :
    s1.count NodeType.NVS ≤ 1 := by
  induction hb with
  | refl => exact hs
  | @tail s2 s3 _ hstep ih =>
    cases hstep with
    | create k id _ r hc hnic hnvs =>
      rw [createNode_count h s2 s3 k id r hc NodeType.NVS]
      split_ifs with hk
      · rw [hnvs hk.symm]
      · exact ih
    | attrs r f hf => rw [count_modifyNode]; exact ih
    | link2 a b t w _ _ _ _ =>
      unfold ncclTopoSystem.connectBoth
      rw [count_connect, count_connect]; exact ih
    | link1 a b w _ _ _ _ => rw [count_connect]; exact ih

/-- The steps of `ncclTopoAddXGMI` on an "xgmi" entry whose GPU is found and whose `count` and
`tclass` attributes are present. -/
theorem addXGMI_entry_eq (h : TopoHeader) (fuel : Nat) (attrs : List (String × String))
    (subs : List ncclXmlNode) (s : ncclTopoSystem) (parentStr : String) (pA : Int) (A : NodeRef)
    (c : Int) (cls : String) (hp : busIdOf h parentStr = Except.ok pA)
    (hA : ncclTopoGetNode s NodeType.GPU pA = some A)
    (hc : xmlGetAttrInt h (ncclXmlNode.mk "xgmi" attrs subs) "count" = Except.ok c)
    (hcls : xmlGetAttrStr (ncclXmlNode.mk "xgmi" attrs subs) "tclass" = Except.ok cls) :
    ncclTopoAddXGMI h fuel (ncclXmlNode.mk "xgmi" attrs subs) s (some parentStr) =
      match xgmiRemote h fuel (ncclXmlNode.mk "xgmi" attrs subs) s A
          (kvConvertToInt cls kvDictPciClass NodeType.PCI) with
      | Except.error e => Except.error e
      | Except.ok r => xgmiConnect h r.1 A c r.2 := by
  unfold ncclTopoAddXGMI
  simp only [if_true]
  unfold addXgmiEntry
  simp only [hp, hA, hc, hcls]

theorem sampleXgmiBase_eq :
    addCpus sampleHeader sampleXgmiTree.subs {} = Except.ok sampleXgmiBase :=
  toOption_eq_some _ _ (by decide!)

theorem sampleXgmiBase_good : GoodSystem sampleXgmiBase :=
  checked_good sampleHeader (fun _ => True) _ _
    (checked_addCpus sampleHeader (fun _ => True) trivial _ _ _
      (fun _ _ => ⟨trivial, fun _ _ => trivial, fun _ _ _ => trivial⟩) sampleXgmiBase_eq)
    good_empty

/-- C21, counterexample: on the sample graph with two GPUs, an "xgmi" entry under GPU 0 with
count 2 that targets GPU 1 gives GPU 0 a fabric link of width 48 to GPU 1, and GPU 1 no fabric
link to GPU 0. -/
theorem addXGMI_gpu_entry_one_way :
    ncclTopoAddXGMI sampleHeader 10 (sampleXgmiEntry "0000:13:00.0" "2" "0x030200")
      sampleXgmiBase (some "0000:12:00.0")
      = Except.ok (sampleXgmiBase.connect { type := NodeType.GPU, index := 0 }
          { type := NodeType.GPU, index := 1 } LINK_NVL 48) ∧
    linksFrom (sampleXgmiBase.connect { type := NodeType.GPU, index := 0 }
        { type := NodeType.GPU, index := 1 } LINK_NVL 48)
      { type := NodeType.GPU, index := 0 } { type := NodeType.GPU, index := 1 } LINK_NVL
      = [{ type := LINK_NVL, width := 48, remNode := { type := NodeType.GPU, index := 1 } }] ∧
    linksFrom (sampleXgmiBase.connect { type := NodeType.GPU, index := 0 }
        { type := NodeType.GPU, index := 1 } LINK_NVL 48)
      { type := NodeType.GPU, index := 1 } { type := NodeType.GPU, index := 0 } LINK_NVL = [] :=
  ⟨toOption_eq_some _ _ (by decide!), by decide!, by decide!⟩

/-- C21, amended: for a fabric-link entry under GPU `A` with link count `c` that targets GPU `B`
(both among the GPU nodes), `ncclTopoAddXGMI` returns success with the graph in which `A` is
connected to `B` by a fabric link of `c * R` more width than before (`R` the rate of the
generation of `A`); the width of every other link, the one from `B` to `A` included when `B` is
not `A`, is as before. -/
theorem addXGMI_gpu_entry_width (h : TopoHeader) (fuel : Nat) (attrs : List (String × String))
    (subs : List ncclXmlNode) (s : ncclTopoSystem) (parentStr : String) (pA : Int) (A : NodeRef)
    (c : Int) (cls tgt : String) (tB : Int) (B : NodeRef) (gpuNode : ncclTopoNode)
    (hg : GoodSystem s) (hp : busIdOf h parentStr = Except.ok pA)
    (hA : ncclTopoGetNode s NodeType.GPU pA = some A)
    (hc : xmlGetAttrInt h (ncclXmlNode.mk "xgmi" attrs subs) "count" = Except.ok c)
    (hcls : xmlGetAttrStr (ncclXmlNode.mk "xgmi" attrs subs) "tclass" = Except.ok cls)
    (hty : kvConvertToInt cls kvDictPciClass NodeType.PCI = NodeType.GPU)
    (htgt : xmlGetAttrStr (ncclXmlNode.mk "xgmi" attrs subs) "target" = Except.ok tgt)
    (htB : busIdOf h tgt = Except.ok tB) (hB : ncclTopoGetNode s NodeType.GPU tB = some B)
    (hn : s.node? A = some gpuNode) :
    ∃ s1, ncclTopoAddXGMI h fuel (ncclXmlNode.mk "xgmi" attrs subs) s (some parentStr)
        = Except.ok s1 ∧
      ∀ a b t, widthFrom s1 a b t = widthFrom s a b t +
        (if a = A ∧ b = B ∧ t = LINK_NVL then (c : ℚ) * h.ncclTopoXGMISpeed gpuNode.gpu.gcn
         else 0) := by
  obtain ⟨hBv, hBt⟩ := getNode_valid s _ _ B hB
  obtain ⟨hAv, hAt⟩ := getNode_valid s _ _ A hA
  obtain ⟨bn, hbn⟩ := (valid_iff_node? s B).1 hBv
  have hbt : bn.type = NodeType.GPU := by
    rw [(good_node? s hg B bn hbn).2.1, hBt]
  refine ⟨s.connect A B LINK_NVL ((c : ℚ) * h.ncclTopoXGMISpeed gpuNode.gpu.gcn), ?_,
    fun a b t => widthFrom_connect s hg A B a b LINK_NVL t _ hAv⟩
  rw [addXGMI_entry_eq h fuel attrs subs s parentStr pA A c cls hp hA hc hcls, hty]
  simp only [xgmiRemote, if_true, htgt, htB, hB, xgmiConnect, hn, hbn, hbt, ne_eq,
    not_true_eq_false, if_false]

theorem addXGMI_gpu_entry_width_witness :
    ∃ s1, ncclTopoAddXGMI sampleHeader 10 (sampleXgmiEntry "0000:13:00.0" "2" "0x030200")
        sampleXgmiBase (some "0000:12:00.0") = Except.ok s1 ∧
      ∀ a b t, widthFrom s1 a b t = widthFrom sampleXgmiBase a b t +
        (if a = { type := NodeType.GPU, index := 0 } ∧ b = { type := NodeType.GPU, index := 1 } ∧
            t = LINK_NVL then
          ((2 : Int) : ℚ) * sampleHeader.ncclTopoXGMISpeed
            (sampleXgmiBase.gpuNodes.headD sampleGpuNode).gpu.gcn
         else 0) :=
  addXGMI_gpu_entry_width sampleHeader 10 _ _ sampleXgmiBase "0000:12:00.0" 73728
    { type := NodeType.GPU, index := 0 } 2 "0x030200" "0000:13:00.0" 77824
    { type := NodeType.GPU, index := 1 } (sampleXgmiBase.gpuNodes.headD sampleGpuNode)
    sampleXgmiBase_good (toOption_eq_some _ _ (by decide)) (by decide)
    (toOption_eq_some _ _ (by decide)) (toOption_eq_some _ _ (by decide)) (by decide)
    (toOption_eq_some _ _ (by decide)) (toOption_eq_some _ _ (by decide)) (by decide)
    (by decide!)

/-- C22, counterexample: on the sample graph an "xgmi" entry under GPU 0 whose target bus id
belongs to no GPU node is accepted: `ncclTopoAddXGMI` returns success and the graph is as
before. -/
theorem addXGMI_missing_target_succeeds :
    (busIdOf sampleHeader "0000:99:00.0").toOption.bind
        (ncclTopoGetNode sampleXgmiBase NodeType.GPU) = none ∧
    ncclTopoAddXGMI sampleHeader 10 (sampleXgmiEntry "0000:99:00.0" "2" "0x030200")
      sampleXgmiBase (some "0000:12:00.0") = Except.ok sampleXgmiBase :=
  ⟨by decide, toOption_eq_some _ _ (by decide!)⟩

/-- C22, amended: on a fabric-link entry whose source bus id belongs to no GPU node
`ncclTopoAddXGMI` returns an internal error, whatever the rest of the entry; on an entry of class
GPU whose source is found and whose target bus id belongs to no GPU node it returns success and
leaves the graph as it was. -/
theorem addXGMI_missing_gpu (h : TopoHeader) (fuel : Nat) (attrs : List (String × String))
    (subs : List ncclXmlNode) (s : ncclTopoSystem) (parentStr : String) (pA : Int)
    (hp : busIdOf h parentStr = Except.ok pA) :
    (ncclTopoGetNode s NodeType.GPU pA = none →
      ncclTopoAddXGMI h fuel (ncclXmlNode.mk "xgmi" attrs subs) s (some parentStr)
        = Except.error (Failure.code ncclResult_t.ncclInternalError)) ∧
    (∀ (A : NodeRef) (c : Int) (cls tgt : String) (tB : Int),
      ncclTopoGetNode s NodeType.GPU pA = some A →
      xmlGetAttrInt h (ncclXmlNode.mk "xgmi" attrs subs) "count" = Except.ok c →
      xmlGetAttrStr (ncclXmlNode.mk "xgmi" attrs subs) "tclass" = Except.ok cls →
      kvConvertToInt cls kvDictPciClass NodeType.PCI = NodeType.GPU →
      xmlGetAttrStr (ncclXmlNode.mk "xgmi" attrs subs) "target" = Except.ok tgt →
      busIdOf h tgt = Except.ok tB → ncclTopoGetNode s NodeType.GPU tB = none →
      ncclTopoAddXGMI h fuel (ncclXmlNode.mk "xgmi" attrs subs) s (some parentStr)
        = Except.ok s) := by
  constructor
  · intro hA
    unfold ncclTopoAddXGMI
    simp only [if_true]
    unfold addXgmiEntry
    simp only [hp, hA]
  · intro A c cls tgt tB hA hc hcls hty htgt htB hB
    rw [addXGMI_entry_eq h fuel attrs subs s parentStr pA A c cls hp hA hc hcls, hty]
    simp only [xgmiRemote, if_true, htgt, htB, hB, xgmiConnect]

theorem addXGMI_missing_gpu_witness :
    ncclTopoAddXGMI sampleHeader 10 (sampleXgmiEntry "0000:13:00.0" "2" "0x030200")
      sampleXgmiBase (some "0000:77:00.0")
        = Except.error (Failure.code ncclResult_t.ncclInternalError) ∧
    ncclTopoAddXGMI sampleHeader 10 (sampleXgmiEntry "0000:99:00.0" "2" "0x030200")
      sampleXgmiBase (some "0000:12:00.0") = Except.ok sampleXgmiBase :=
  ⟨(addXGMI_missing_gpu sampleHeader 10 _ _ sampleXgmiBase "0000:77:00.0" 487424
      (toOption_eq_some _ _ (by decide))).1 (by decide),
    (addXGMI_missing_gpu sampleHeader 10 _ _ sampleXgmiBase "0000:12:00.0" 73728
      (toOption_eq_some _ _ (by decide))).2 { type := NodeType.GPU, index := 0 } 2 "0x030200"
      "0000:99:00.0" 626688 (by decide) (toOption_eq_some _ _ (by decide))
      (toOption_eq_some _ _ (by decide)) (by decide) (toOption_eq_some _ _ (by decide))
      (toOption_eq_some _ _ (by decide)) (by decide)⟩

theorem createNode_succeeds (h : TopoHeader) (s : ncclTopoSystem) (t : NodeType) (id : Int)
    (hcap : s.count t ≠ h.NCCL_TOPO_MAX_NODES) :
    createNode h s t id =
      Except.ok (s.setNodes t (s.nodes t ++ [newNode h t id (s.count t)]),
        { type := t, index := s.count t }) := by
  unfold createNode ncclTopoCreateNode
  simp only [hcap, if_false]

theorem xgmiConnect_switch (h : TopoHeader) (s : ncclTopoSystem) (A : NodeRef) (c : Int)
    (gpuNode : ncclTopoNode) (hg : GoodSystem s) (hn : s.node? A = some gpuNode)
    (hsw : s.valid { type := NodeType.NVS, index := 0 }) :
    xgmiConnect h s A c (some { type := NodeType.NVS, index := 0 }) =
      Except.ok (s.connectBoth A { type := NodeType.NVS, index := 0 } LINK_NVL
        ((c : ℚ) * h.ncclTopoXGMISpeed gpuNode.gpu.gcn)) := by
  obtain ⟨sw, hs⟩ := (valid_iff_node? s _).1 hsw
  have ht : sw.type = NodeType.NVS := (good_node? s hg _ sw hs).2.1
  unfold xgmiConnect
  simp only [hn, hs, ht, ne_eq, reduceCtorEq, not_false_eq_true, if_true]

/-- C23: `ncclTopoAddXGMI` on any tree of entries, from a well-formed graph with at most one
NVSwitch node, leaves at most one NVSwitch node, and so does the Graph Builder as a whole. An
"xgmi" entry whose class is neither GPU nor processor, under a GPU `A` that is found, succeeds
(given room for one node in the NVSwitch array); when there is no NVSwitch node it creates one
with id 0, otherwise the NVSwitch nodes are the ones there were; in both cases the width of the
fabric link from `A` to the first NVSwitch node and of the one back grows by `c * R`, and no
other link changes. -/
theorem addXGMI_single_switch (h : TopoHeader) (fuel : Nat) :
    (∀ (node : ncclXmlNode) (s s1 : ncclTopoSystem) (busId : Option String),
      GoodSystem s → s.count NodeType.NVS ≤ 1 →
      ncclTopoAddXGMI h fuel node s busId = Except.ok s1 → s1.count NodeType.NVS ≤ 1) ∧
    (∀ (topNode : ncclXmlNode) (s1 : ncclTopoSystem),
      buildGraph h fuel topNode = Except.ok s1 → s1.count NodeType.NVS ≤ 1) ∧
    (∀ (attrs : List (String × String)) (subs : List ncclXmlNode) (s : ncclTopoSystem)
      (parentStr : String) (pA : Int) (A : NodeRef) (c : Int) (cls : String)
      (gpuNode : ncclTopoNode),
      GoodSystem s → busIdOf h parentStr = Except.ok pA →
      ncclTopoGetNode s NodeType.GPU pA = some A →
      xmlGetAttrInt h (ncclXmlNode.mk "xgmi" attrs subs) "count" = Except.ok c →
      xmlGetAttrStr (ncclXmlNode.mk "xgmi" attrs subs) "tclass" = Except.ok cls →
      kvConvertToInt cls kvDictPciClass NodeType.PCI ≠ NodeType.GPU →
      kvConvertToInt cls kvDictPciClass NodeType.PCI ≠ NodeType.CPU →
      s.node? A = some gpuNode →
      (s.count NodeType.NVS = 0 → h.NCCL_TOPO_MAX_NODES ≠ 0) →
      ∃ s1, ncclTopoAddXGMI h fuel (ncclXmlNode.mk "xgmi" attrs subs) s (some parentStr)
          = Except.ok s1 ∧
        (s1.nodes NodeType.NVS).map (fun n => n.id) =
          (if s.count NodeType.NVS = 0 then [0] else (s.nodes NodeType.NVS).map (fun n => n.id)) ∧
        ∀ a b t, widthFrom s1 a b t = widthFrom s a b t +
          (if a = A ∧ b = { type := NodeType.NVS, index := 0 } ∧ t = LINK_NVL then
            (c : ℚ) * h.ncclTopoXGMISpeed gpuNode.gpu.gcn else 0) +
          (if a = { type := NodeType.NVS, index := 0 } ∧ b = A ∧ t = LINK_NVL then
            (c : ℚ) * h.ncclTopoXGMISpeed gpuNode.gpu.gcn else 0)) := by
  have hW : ∀ x : ncclXmlNode, WidthsIn h (fun _ => True) x :=
    fun _ => ⟨trivial, fun _ _ => trivial, fun _ _ _ => trivial⟩
  refine ⟨?_, ?_, ?_⟩
  · intro node s s1 busId hg hs hres
    exact checked_nvs_count h _ s s1
      (checked_addXGMI h (fun _ => True) fuel node s busId s1 hres hg (fun x _ => hW x)) hs
  · intro topNode s1 hres
    exact checked_nvs_count h _ {} s1
      (buildGraph_checked h (fun _ => True) fuel topNode s1 trivial (fun x _ => hW x) hres)
      (by decide)
  · intro attrs subs s parentStr pA A c cls gpuNode hg hp hA hc hcls hty1 hty2 hn hcap
    obtain ⟨hAv, hAt⟩ := getNode_valid s _ _ A hA
    rw [addXGMI_entry_eq h fuel attrs subs s parentStr pA A c cls hp hA hc hcls]
    unfold xgmiRemote
    simp only [hty1, hty2, if_false]
    by_cases h0 : s.count NodeType.NVS = 0
    · have hcr := createNode_succeeds h s NodeType.NVS 0 (by rw [h0]; exact (hcap h0).symm)
      rw [h0] at hcr
      have hg1 := good_create h s _ _ _ _ hcr hg
      obtain ⟨-, hv1, hmono⟩ := createNode_valid h s _ _ _ _ hcr
      have hn1 : (s.setNodes NodeType.NVS (s.nodes NodeType.NVS ++ [newNode h NodeType.NVS 0 0])).node? A
          = some gpuNode := by
        rw [createNode_node? h s _ _ _ _ hcr A]
        have : A ≠ { type := NodeType.NVS, index := 0 } := by
          intro e; rw [e] at hAt; cases hAt
        simp only [this, if_false]; exact hn
      simp only [h0, if_true, hcr]
      rw [xgmiConnect_switch h _ A c gpuNode hg1 hn1 hv1]
      refine ⟨_, rfl, ?_, fun a b t => ?_⟩
      · unfold ncclTopoSystem.connectBoth
        rw [ids_connect, ids_connect, nodes_setNodes]
        have hnil : s.nodes NodeType.NVS = [] := by
          unfold ncclTopoSystem.count at h0
          exact List.length_eq_zero.mp h0
        simp [hnil, (newNode_type_id h NodeType.NVS 0 0).2]
      · rw [widthFrom_connectBoth _ hg1 A _ a b LINK_NVL t _ (hmono A hAv) hv1,
          widthFrom_create h s _ NodeType.NVS 0 _ hcr (by decide) a b t]
    · have hv : s.valid { type := NodeType.NVS, index := 0 } := by
        show 0 < s.count NodeType.NVS
        omega
      simp only [h0, if_false]
      rw [xgmiConnect_switch h s A c gpuNode hg hn hv]
      refine ⟨_, rfl, ?_, fun a b t => ?_⟩
      · unfold ncclTopoSystem.connectBoth
        rw [ids_connect, ids_connect]
      · rw [widthFrom_connectBoth s hg A _ a b LINK_NVL t _ hAv hv]

theorem addXGMI_single_switch_witness :
    ∃ s1, ncclTopoAddXGMI sampleHeader 10 (sampleXgmiEntry "0000:99:00.0" "2" "0x068000")
        sampleXgmiBase (some "0000:12:00.0") = Except.ok s1 ∧
      (s1.nodes NodeType.NVS).map (fun n => n.id) =
        (if sampleXgmiBase.count NodeType.NVS = 0 then [0]
         else (sampleXgmiBase.nodes NodeType.NVS).map (fun n => n.id)) ∧
      ∀ a b t, widthFrom s1 a b t = widthFrom sampleXgmiBase a b t +
        (if a = { type := NodeType.GPU, index := 0 } ∧
            b = { type := NodeType.NVS, index := 0 } ∧ t = LINK_NVL then
          ((2 : Int) : ℚ) * sampleHeader.ncclTopoXGMISpeed
            (sampleXgmiBase.gpuNodes.headD sampleGpuNode).gpu.gcn else 0) +
        (if a = { type := NodeType.NVS, index := 0 } ∧
            b = { type := NodeType.GPU, index := 0 } ∧ t = LINK_NVL then
          ((2 : Int) : ℚ) * sampleHeader.ncclTopoXGMISpeed
            (sampleXgmiBase.gpuNodes.headD sampleGpuNode).gpu.gcn else 0) :=
  (addXGMI_single_switch sampleHeader 10).2.2 _ _ sampleXgmiBase "0000:12:00.0" 73728
    { type := NodeType.GPU, index := 0 } 2 "0x068000"
    (sampleXgmiBase.gpuNodes.headD sampleGpuNode) sampleXgmiBase_good
    (toOption_eq_some _ _ (by decide)) (by decide) (toOption_eq_some _ _ (by decide))
    (toOption_eq_some _ _ (by decide)) (by decide) (by decide) (by decide!)
    (fun _ => by decide)

theorem findLocalCpu_succ (s : ncclTopoSystem) (k : Nat) (r : NodeRef) (t : NodeType)
    (targets : List (Nat × NodeRef)) (ht : t ≠ NodeType.CPU)
    (hl : linkTargets s r = some (t, targets)) :
    findLocalCpu s (k + 1) r =
      targets.foldlM
        (fun (found : Option NodeRef) (link : Nat × NodeRef) =>
          match found with
          | some c => Except.ok (some c)
          | none =>
            if link.1 = LINK_PCI then findLocalCpu s k link.2
            else Except.ok none) none := by
  unfold linkTargets at hl
  cases hn : s.node? r with
  | none => rw [hn] at hl; cases hl
  | some n =>
    rw [hn] at hl
    simp only [Option.map_some', Option.some.injEq, Prod.mk.injEq] at hl
    obtain ⟨h1, h2⟩ := hl
    rw [findLocalCpu, hn]
    simp only [h1, ht, if_false]
    rw [← h2, List.foldlM_map]

/-- C24, failing input: the sample graph `ncclTopoAddPci` builds for a processor, one bridge
and two GPUs below the bridge, all links 16 lanes wide. The bridge holds its links to the GPUs
before its link to the processor, so `findLocalCpu` on GPU 0 goes to the bridge, from there
back to GPU 0, and so on: for every budget of recursion depth the budget runs out, and so it
does for `ncclTopoAddXGMI` on an entry of processor class under GPU 0. -/
theorem findLocalCpu_bridge_recursion :
    addCpus sampleHeader sampleXgmiTree.subs {} = Except.ok sampleXgmiBase ∧
    linkTargets sampleXgmiBase { type := NodeType.PCI, index := 0 }
      = some (NodeType.PCI, [(LINK_PCI, { type := NodeType.GPU, index := 0 }),
          (LINK_PCI, { type := NodeType.GPU, index := 1 }),
          (LINK_PCI, { type := NodeType.CPU, index := 0 })]) ∧
    ∀ fuel : Nat,
      findLocalCpu sampleXgmiBase fuel { type := NodeType.GPU, index := 0 }
        = Except.error Failure.fuel ∧
      ncclTopoAddXGMI sampleHeader fuel (sampleXgmiEntry "" "1" "0x068001") sampleXgmiBase
        (some "0000:12:00.0") = Except.error Failure.fuel := by
  have hgpu : linkTargets sampleXgmiBase { type := NodeType.GPU, index := 0 }
      = some (NodeType.GPU, [(LINK_LOC, { type := NodeType.GPU, index := 0 }),
          (LINK_PCI, { type := NodeType.PCI, index := 0 })]) := by decide!
  have hpci : linkTargets sampleXgmiBase { type := NodeType.PCI, index := 0 }
      = some (NodeType.PCI, [(LINK_PCI, { type := NodeType.GPU, index := 0 }),
          (LINK_PCI, { type := NodeType.GPU, index := 1 }),
          (LINK_PCI, { type := NodeType.CPU, index := 0 })]) := by decide!
  have hloop : ∀ fuel : Nat,
      findLocalCpu sampleXgmiBase fuel { type := NodeType.GPU, index := 0 }
        = Except.error Failure.fuel ∧
      findLocalCpu sampleXgmiBase fuel { type := NodeType.PCI, index := 0 }
        = Except.error Failure.fuel := by
    intro fuel
    induction fuel with
    | zero => exact ⟨rfl, rfl⟩
    | succ k ih =>
      constructor
      · rw [findLocalCpu_succ _ k _ _ _ (by decide) hgpu]
        have : LINK_LOC ≠ LINK_PCI := by decide
        simp only [List.foldlM_cons, this, if_false, if_true, ih.2]
        rfl
      · rw [findLocalCpu_succ _ k _ _ _ (by decide) hpci]
        simp only [List.foldlM_cons, if_true, ih.1]
        rfl
  refine ⟨sampleXgmiBase_eq, hpci, fun fuel => ⟨(hloop fuel).1, ?_⟩⟩
  have e := addXGMI_entry_eq sampleHeader fuel
    [("target", ""), ("count", "1"), ("tclass", "0x068001")] [] sampleXgmiBase "0000:12:00.0"
    73728 { type := NodeType.GPU, index := 0 } 1 "0x068001" (toOption_eq_some _ _ (by decide))
    (by decide) (toOption_eq_some _ _ (by decide)) (toOption_eq_some _ _ (by decide))
  unfold sampleXgmiEntry
  rw [e]
  have hk : kvConvertToInt "0x068001" kvDictPciClass NodeType.PCI = NodeType.CPU := by decide
  rw [hk]
  unfold xgmiRemote
  simp only [reduceCtorEq, if_false, if_true, (hloop fuel).1]

/-! ## Network ports: `ncclTopoAddNet` and `ncclTopoAddNic` -/

theorem attrInt_of_index (h : TopoHeader) (x : ncclXmlNode) (name : String)
    (hi : xmlGetAttrIndex x name ≠ -1) : xmlGetAttrInt h x name = Except.ok
      (h.strtol ((xmlGetAttr x name).getD "")) := by
  unfold xmlGetAttrIndex at hi
  unfold xmlGetAttrInt xmlGetAttrStr xmlGetAttr
  cases hf : x.attrs.find? (fun kv => kv.1 == name) with
  | none =>
    have : x.attrs.findIdx? (fun kv => kv.1 == name) = none := by
      rw [List.findIdx?_eq_none_iff]
      intro a ha
      simpa using List.find?_eq_none.mp hf a ha
    rw [this] at hi
    exact absurd rfl hi
  | some kv => rfl

/-- What `ncclTopoAddNet` does on an entry with a `dev` attribute, when the array of
Network-port nodes has room. -/
theorem addNet_spec (h : TopoHeader) (xmlNet : ncclXmlNode) (s : ncclTopoSystem) (nic : NodeRef)
    (busId dev : Int) (hg : GoodSystem s) (hnic : s.valid nic)
    (hdev : xmlGetAttrInt h xmlNet "dev" = Except.ok dev)
    (hcap : s.count NodeType.NET ≠ h.NCCL_TOPO_MAX_NODES) :
    ∃ s1, ncclTopoAddNet h xmlNet s nic busId = Except.ok s1 ∧ GoodSystem s1 ∧
      (∀ r, s.valid r → s1.valid r) ∧
      (∀ t, (s1.nodes t).map (fun n => n.id) =
        if t = NodeType.NET then (s.nodes t).map (fun n => n.id) ++ [dev]
        else (s.nodes t).map (fun n => n.id)) ∧
      s1.valid { type := NodeType.NET, index := s.count NodeType.NET } ∧
      linksFrom s1 nic { type := NodeType.NET, index := s.count NodeType.NET } LINK_NET =
        [{ type := LINK_NET, width := netWidth h xmlNet,
           remNode := { type := NodeType.NET, index := s.count NodeType.NET } }] ∧
      linksFrom s1 { type := NodeType.NET, index := s.count NodeType.NET } nic LINK_NET =
        [{ type := LINK_NET, width := netWidth h xmlNet, remNode := nic }] := by
  have hcr := createNode_succeeds h s NodeType.NET dev hcap
  obtain ⟨hnv, hv1, hmono⟩ := createNode_valid h s _ _ _ _ hcr
  have hg1 := good_create h s _ _ _ _ hcr hg
  have hattr : ∀ n : ncclTopoNode, (setNet (netInfoOf h xmlNet dev busId) n).links = n.links ∧
      (setNet (netInfoOf h xmlNet dev busId) n).nlinks = n.nlinks ∧
      (setNet (netInfoOf h xmlNet dev busId) n).type = n.type := fun n => ⟨rfl, rfl, rfl⟩
  generalize hnet : ({ type := NodeType.NET, index := s.count NodeType.NET } : NodeRef) = net
    at hcr hnv hv1
  generalize hs1 : s.setNodes NodeType.NET
    (s.nodes NodeType.NET ++ [newNode h NodeType.NET dev (s.count NodeType.NET)]) = sa
    at hcr hg1 hv1 hmono
  have hg2 : GoodSystem (sa.modifyNode net (setNet (netInfoOf h xmlNet dev busId))) :=
    built_good h NoLink NoLink _ _ (built_attrs h _ _ sa net _ hattr) hg1
  have hvn2 : (sa.modifyNode net (setNet (netInfoOf h xmlNet dev busId))).valid net :=
    (valid_modifyNode sa net net _).2 hv1
  have hvc2 : (sa.modifyNode net (setNet (netInfoOf h xmlNet dev busId))).valid nic :=
    (valid_modifyNode sa net nic _).2 (hmono nic hnic)
  have hne : nic ≠ net := fun e => hnv (e ▸ hnic)
  have e1 : linksFrom (sa.modifyNode net (setNet (netInfoOf h xmlNet dev busId))) nic net
      LINK_NET = [] := by
    rw [linksFrom_modify_attrs sa net nic net LINK_NET _ hattr,
      linksFrom_create h s sa _ _ _ hcr nic net LINK_NET hnic]
    exact linksFrom_to_not_valid s hg nic net LINK_NET hnv
  have e2 : linksFrom (sa.modifyNode net (setNet (netInfoOf h xmlNet dev busId))) net nic
      LINK_NET = [] := by
    rw [linksFrom_modify_attrs sa net net nic LINK_NET _ hattr]
    unfold linksFrom
    rw [createNode_node? h s sa _ _ _ hcr net]
    simp [newNode, ncclTopoNode.live, linksTo]
  obtain ⟨l1, l2⟩ := linksFrom_connectBoth_new _ hg2 nic net LINK_NET (netWidth h xmlNet)
    hvc2 hvn2 hne e1 e2
  refine ⟨_, by simp only [ncclTopoAddNet, hdev, hcr], ?_, ?_, ?_, ?_, l1, l2⟩
  · exact built_good h AnyLink NoLink _ _ (built_link2 h _ _ _ nic net LINK_NET _ hvc2 hvn2
      trivial) hg2
  · intro r hr
    exact built_valid h AnyLink NoLink _ _ (built_link2 h _ _ _ nic net LINK_NET _ hvc2 hvn2
      trivial) r ((valid_modifyNode sa net r _).2 (hmono r hr))
  · intro t
    unfold ncclTopoSystem.connectBoth
    rw [ids_connect, ids_connect, ids_modifyNode sa net (setNet (netInfoOf h xmlNet dev busId)) (fun _ => rfl), ← hs1,
      nodes_setNodes]
    split_ifs with ht
    · subst ht
      simp [(newNode_type_id h NodeType.NET dev _).2]
    · rfl
  · exact built_valid h AnyLink NoLink _ _ (built_link2 h _ _ _ nic net LINK_NET _ hvc2 hvn2
      trivial) net hvn2

theorem count_eq_ids (s : ncclTopoSystem) (t : NodeType) :
    s.count t = ((s.nodes t).map (fun n => n.id)).length := by
  simp [ncclTopoSystem.count]

theorem addNic_ports (h : TopoHeader) (nic : NodeRef) (busId : Int) :
    ∀ (subs : List ncclXmlNode) (s : ncclTopoSystem), GoodSystem s → s.valid nic →
      s.count NodeType.NET + (netEntries subs).length ≤ h.NCCL_TOPO_MAX_NODES →
      ∃ s1, ncclTopoAddNic h subs s nic busId = Except.ok s1 ∧ GoodSystem s1 ∧
        (∀ r, s.valid r → s1.valid r) ∧
        (∀ t, (s1.nodes t).map (fun n => n.id) =
          if t = NodeType.NET then
            (s.nodes t).map (fun n => n.id) ++ (netEntries subs).map (netDev h)
          else (s.nodes t).map (fun n => n.id)) ∧
        ∀ (j : Nat) (x : ncclXmlNode), (netEntries subs)[j]? = some x →
          linksFrom s1 nic { type := NodeType.NET, index := s.count NodeType.NET + j } LINK_NET =
            [{ type := LINK_NET, width := netWidth h x,
               remNode := { type := NodeType.NET, index := s.count NodeType.NET + j } }] ∧
          linksFrom s1 { type := NodeType.NET, index := s.count NodeType.NET + j } nic LINK_NET =
            [{ type := LINK_NET, width := netWidth h x, remNode := nic }] := by
  intro subs
  induction subs with
  | nil =>
    intro s hg hnic _
    refine ⟨s, rfl, hg, fun r hr => hr, fun t => by simp [netEntries], fun j x hx => ?_⟩
    simp [netEntries] at hx
  | cons x rest ih =>
    intro s hg hnic hcap
    by_cases hx : x.name = "net" ∧ xmlGetAttrIndex x "dev" ≠ -1
    · have hent : netEntries (x :: rest) = x :: netEntries rest := by
        unfold netEntries
        rw [List.filter_cons_of_pos (by simpa using hx)]
      rw [hent] at hcap ⊢
      simp only [List.length_cons] at hcap
      obtain ⟨s2, h1, hg2, hv2, hid2, hnet2, hl1, hl2⟩ := addNet_spec h x s nic busId
        (netDev h x) hg hnic (attrInt_of_index h x "dev" hx.2) (by omega)
      have hc2 : s2.count NodeType.NET = s.count NodeType.NET + 1 := by
        rw [count_eq_ids, hid2 NodeType.NET, count_eq_ids]
        simp
      obtain ⟨s1, h3, hg1, hv1, hid1, hl⟩ := ih s2 hg2 (hv2 nic hnic) (by omega)
      have hstep : ncclTopoAddNic h (x :: rest) s nic busId = Except.ok s1 := by
        rw [ncclTopoAddNic]
        simp only [hx.1, ne_eq, not_true_eq_false, if_false, hx.2, h1]
        exact h3
      refine ⟨s1, hstep, hg1, fun r hr => hv1 r (hv2 r hr), fun t => ?_, fun j y hy => ?_⟩
      · rw [hid1 t, hid2 t]
        split_ifs <;> simp
      · cases j with
        | zero =>
          simp only [List.getElem?_cons_zero, Option.some.injEq] at hy
          subst hy
          have hb := addNic_built h rest nic busId s2 s1 h3 (hv2 nic hnic)
          have p1 := built_frame h s2 s2 s1 hb (fun r hr => hr) hg2 nic _ LINK_NET
            (hv2 nic hnic) hnet2
          have p2 := built_frame h s2 s2 s1 hb (fun r hr => hr) hg2 _ nic LINK_NET
            hnet2 (hv2 nic hnic)
          rw [hl1] at p1
          rw [hl2] at p2
          exact ⟨List.perm_singleton.mp p1, List.perm_singleton.mp p2⟩
        | succ j =>
          simp only [List.getElem?_cons_succ] at hy
          have := hl j y hy
          rw [hc2] at this
          have e : s.count NodeType.NET + (j + 1) = s.count NodeType.NET + 1 + j := by omega
          rw [e]; exact this
    · have hent : netEntries (x :: rest) = netEntries rest := by
        unfold netEntries
        rw [List.filter_cons_of_neg (by simpa using hx)]
      rw [hent] at hcap ⊢
      obtain ⟨s1, h3, hrest⟩ := ih s hg hnic hcap
      refine ⟨s1, ?_, hrest⟩
      rw [ncclTopoAddNic]
      by_cases hn : x.name = "net"
      · have hi : xmlGetAttrIndex x "dev" = -1 := by
          by_contra hi; exact hx ⟨hn, hi⟩
        simp only [hn, ne_eq, not_true_eq_false, if_false, hi, if_true]
        exact h3
      · simp only [ne_eq, hn, not_false_eq_true, if_true]
        exact h3

/-- C26: `ncclTopoAddNic` under a NIC node of a well-formed graph, with room for the new nodes,
succeeds and creates one Network-port node for each sub node named "net" that has a `dev`
attribute, in order, with id the value of `dev`, and nothing else; each of these nodes and the
NIC hold exactly one NET link to each other, of width `speed / 8000`, where `speed` is the
declared value, or 10000 when the attribute is absent or the value is not positive (width
5/4). -/
theorem addNic_net_ports (h : TopoHeader) (subs : List ncclXmlNode) (s : ncclTopoSystem)
    (nic : NodeRef) (busId : Int) (hg : GoodSystem s) (hnic : s.valid nic)
    (hcap : s.count NodeType.NET + (netEntries subs).length ≤ h.NCCL_TOPO_MAX_NODES) :
    (∃ s1, ncclTopoAddNic h subs s nic busId = Except.ok s1 ∧
      (∀ t, (s1.nodes t).map (fun n => n.id) =
        if t = NodeType.NET then
          (s.nodes t).map (fun n => n.id) ++ (netEntries subs).map (netDev h)
        else (s.nodes t).map (fun n => n.id)) ∧
      ∀ (j : Nat) (x : ncclXmlNode), (netEntries subs)[j]? = some x →
        linksFrom s1 nic { type := NodeType.NET, index := s.count NodeType.NET + j } LINK_NET =
          [{ type := LINK_NET, width := netWidth h x,
             remNode := { type := NodeType.NET, index := s.count NodeType.NET + j } }] ∧
        linksFrom s1 { type := NodeType.NET, index := s.count NodeType.NET + j } nic LINK_NET =
          [{ type := LINK_NET, width := netWidth h x, remNode := nic }]) ∧
    (∀ x ∈ netEntries subs, x.name = "net" ∧
      xmlGetAttrInt h x "dev" = Except.ok (netDev h x)) ∧
    (∀ (x : ncclXmlNode) (v : String), xmlGetAttr x "speed" = some v → 0 < h.strtol v →
      netWidth h x = (h.strtol v : ℚ) / 8000) ∧
    (∀ (x : ncclXmlNode) (v : String), xmlGetAttr x "speed" = some v → h.strtol v ≤ 0 →
      netWidth h x = 5 / 4) ∧
    (∀ x : ncclXmlNode, xmlGetAttr x "speed" = none → netWidth h x = 5 / 4) := by
  refine ⟨?_, ?_, ?_, ?_, ?_⟩
  · obtain ⟨s1, h1, -, -, h2, h3⟩ := addNic_ports h nic busId subs s hg hnic hcap
    exact ⟨s1, h1, h2, h3⟩
  · intro x hx
    unfold netEntries at hx
    rw [List.mem_filter] at hx
    have h2 : x.name = "net" ∧ xmlGetAttrIndex x "dev" ≠ -1 := by simpa using hx.2
    exact ⟨h2.1, attrInt_of_index h x "dev" h2.2⟩
  · intro x v hv hpos
    unfold netWidth xmlGetAttrIntDefault
    simp only [hv, not_le.mpr hpos, if_false]
  · intro x v hv hle
    unfold netWidth xmlGetAttrIntDefault
    simp only [hv, hle, if_true]
    norm_num
  · intro x hv
    unfold netWidth xmlGetAttrIntDefault
    simp only [hv, le_refl, if_true]
    norm_num

theorem sampleOneNic_good : GoodSystem sampleOneNic := by
  unfold GoodSystem GoodNode ncclTopoSystem.valid
  decide

theorem addNic_net_ports_witness :
    (∃ s1, ncclTopoAddNic sampleHeader sampleNetSubs sampleOneNic
        { type := NodeType.NIC, index := 0 } 131072 = Except.ok s1 ∧
      (∀ t, (s1.nodes t).map (fun n => n.id) =
        if t = NodeType.NET then
          (sampleOneNic.nodes t).map (fun n => n.id) ++
            (netEntries sampleNetSubs).map (netDev sampleHeader)
        else (sampleOneNic.nodes t).map (fun n => n.id)) ∧
      ∀ (j : Nat) (x : ncclXmlNode), (netEntries sampleNetSubs)[j]? = some x →
        linksFrom s1 { type := NodeType.NIC, index := 0 }
            { type := NodeType.NET, index := sampleOneNic.count NodeType.NET + j } LINK_NET =
          [{ type := LINK_NET, width := netWidth sampleHeader x,
             remNode := { type := NodeType.NET,
                          index := sampleOneNic.count NodeType.NET + j } }] ∧
        linksFrom s1 { type := NodeType.NET, index := sampleOneNic.count NodeType.NET + j }
            { type := NodeType.NIC, index := 0 } LINK_NET =
          [{ type := LINK_NET, width := netWidth sampleHeader x,
             remNode := { type := NodeType.NIC, index := 0 } }]) ∧
    (netEntries sampleNetSubs).map (netDev sampleHeader) = [0, 1, 2] ∧
    (netEntries sampleNetSubs).map (netWidth sampleHeader) = [25 / 2, 5 / 4, 5 / 4] :=
  ⟨(addNic_net_ports sampleHeader sampleNetSubs sampleOneNic
      { type := NodeType.NIC, index := 0 } 131072 sampleOneNic_good
      (by unfold ncclTopoSystem.valid; decide) (by decide)).1, by decide, by decide!⟩

/-! ## The ids of bridge and NIC nodes -/

theorem connect_keeps_id (s : ncclTopoSystem) (a b : NodeRef) (t : Nat) (w : ℚ) (r : NodeRef)
    (n : ncclTopoNode) (hn : s.node? r = some n) :
    ∃ n1, (s.connect a b t w).node? r = some n1 ∧ n1.id = n.id := by
  rw [node?_connect]
  by_cases ha : r = a
  · subst ha
    exact ⟨ncclTopoConnectNodes n b t w, by simp [hn], rfl⟩
  · exact ⟨n, by simp [ha, hn], rfl⟩

theorem checked_keeps_id (h : TopoHeader) (W : ℚ → Prop) (s s1 : ncclTopoSystem)
    (hb : CheckedBuilt h W s s1) (r : NodeRef) (n : ncclTopoNode) (hn : s.node? r = some n) :
    ∃ n1, s1.node? r = some n1 ∧ n1.id = n.id := by
  induction hb with
  | refl => exact ⟨n, hn, rfl⟩
  | @tail s2 s3 _ hstep ih =>
    obtain ⟨n2, hn2, hid⟩ := ih
    have hv2 : s2.valid r := (valid_iff_node? s2 r).2 ⟨n2, hn2⟩
    cases hstep with
    | create k id _ r' hc _ _ =>
      have hne : r ≠ r' := fun e => (createNode_valid h s2 s3 k id r' hc).1 (e ▸ hv2)
      refine ⟨n2, ?_, hid⟩
      rw [createNode_node? h s2 s3 k id r' hc r]
      simp [hne, hn2]
    | attrs a f hf =>
      rw [node?_modifyNode]
      by_cases ha : r = a
      · subst ha
        exact ⟨f n2, by simp [hn2], ((hf n2).2.2.2).trans hid⟩
      · exact ⟨n2, by simp [ha, hn2], hid⟩
    | link2 a b t w _ _ _ _ =>
      unfold ncclTopoSystem.connectBoth
      obtain ⟨n3, hn3, hid3⟩ := connect_keeps_id s2 a b t w r n2 hn2
      obtain ⟨n4, hn4, hid4⟩ := connect_keeps_id _ b a t w r n3 hn3
      exact ⟨n4, hn4, hid4.trans (hid3.trans hid)⟩
    | link1 a b w _ _ _ _ =>
      obtain ⟨n3, hn3, hid3⟩ := connect_keeps_id s2 a b LINK_NVL w r n2 hn2
      exact ⟨n3, hn3, hid3.trans hid⟩

/-- C27, counterexample: for a processor with two bridge entries of bus ids 0000:10:00.0 and
0000:10:00.1 the Graph Builder makes two PCI nodes, with ids 0x10000 and 0x10001: the second id
has low four bits 1. -/
theorem buildGraph_bridge_ids_unmasked :
    (buildGraph sampleHeader 10 sampleSubFunctionTree).toOption.map
      (fun s => s.pciNodes.map (fun n => n.id)) = some [65536, 65537] ∧
    (65537 : Int) % 16 = 1 := by
  constructor
  · decide!
  · decide

/-- C27, amended: a bridge entry (class PCI, no "gpu" and no "nic" sub node) that
`ncclTopoAddPci` accepts yields a new PCI node whose id is the value `busIdToInt64` gives for the
`busid` attribute, with all its bits. -/
theorem addPci_bridge_id (h : TopoHeader) (name : String) (attrs : List (String × String))
    (subs : List ncclXmlNode) (s : ncclTopoSystem) (parent : NodeRef)
    (r : ncclTopoSystem × Option NodeRef) (cls busStr : String) (busId : Int)
    (hp : s.valid parent)
    (hcls : xmlGetAttrStr (ncclXmlNode.mk name attrs subs) "class" = Except.ok cls)
    (hty : kvConvertToInt cls kvDictPciClass NodeType.PCI = NodeType.PCI)
    (hbs : xmlGetAttrStr (ncclXmlNode.mk name attrs subs) "busid" = Except.ok busStr)
    (hb : busIdOf h busStr = Except.ok busId)
    (hgpu : xmlGetSub (ncclXmlNode.mk name attrs subs) "gpu" = none)
    (hnic : xmlGetSub (ncclXmlNode.mk name attrs subs) "nic" = none)
    (hres : addPci h (ncclXmlNode.mk name attrs subs) s parent = Except.ok r) :
    r.2 = some { type := NodeType.PCI, index := s.count NodeType.PCI } ∧
    ¬ s.valid { type := NodeType.PCI, index := s.count NodeType.PCI } ∧
    ∃ n, r.1.node? { type := NodeType.PCI, index := s.count NodeType.PCI } = some n ∧
      n.id = busId := by
  have hW : ∀ x : ncclXmlNode, WidthsIn h (fun _ => True) x :=
    fun _ => ⟨trivial, fun _ _ => trivial, fun _ _ _ => trivial⟩
  unfold addPci at hres
  simp only [hcls, hbs, hb, hty, addPciGpu, hgpu, hnic, if_true] at hres
  split at hres
  · exact absurd hres (by simp)
  · rename_i c hc
    split at hres
    · exact absurd hres (by simp)
    · rename_i s3 hs3
      obtain ⟨hcr, hcs⟩ := createNode_ok h s _ _ _ _ hc
      obtain ⟨hnv, hv1, hmono⟩ := createNode_valid h s _ _ _ _ hc
      have hnode : c.1.node? c.2 = some (newNode h NodeType.PCI busId (s.count NodeType.PCI)) := by
        rw [createNode_node? h s c.1 _ _ c.2 hc c.2]
        simp
      have hattr : ∀ n : ncclTopoNode,
          (setPciDevice h (ncclXmlNode.mk name attrs subs) n).links = n.links ∧
          (setPciDevice h (ncclXmlNode.mk name attrs subs) n).nlinks = n.nlinks ∧
          (setPciDevice h (ncclXmlNode.mk name attrs subs) n).type = n.type ∧
          (setPciDevice h (ncclXmlNode.mk name attrs subs) n).id = n.id :=
        fun n => ⟨rfl, rfl, rfl, rfl⟩
      have b1 : CheckedBuilt h (fun _ => True) c.1
          (c.1.modifyNode c.2 (setPciDevice h (ncclXmlNode.mk name attrs subs))) :=
        checked_attrs h _ c.1 c.2 _ hattr
      have hv2 := checked_valid h _ _ _ b1 c.2 hv1
      have b2 := checked_subsLoop h (fun _ => True) subs _ c.2 s3 hs3 hv2 (fun x _ => hW x)
      have hv3 := checked_valid h _ _ _ b2 c.2 hv2
      have hp3 := checked_valid h _ _ _ b2 parent
        (checked_valid h _ _ _ b1 parent (hmono parent hp))
      have hne : c.2 ≠ parent := fun e => hnv (e ▸ hp)
      have b3 := checked_connectPciNode h (fun _ => True) _ s3 (some c.2) parent r hres hp3
        (fun n hn => by injection hn with hn; subst hn; exact ⟨hv3, hne⟩) (fun _ _ => trivial)
      obtain ⟨n1, hn1, hid1⟩ := checked_keeps_id h _ c.1 r.1
        (checked_trans h _ _ _ _ b1 (checked_trans h _ _ _ _ b2 b3)) c.2 _ hnode
      have hr2 : r.2 = some c.2 := by
        unfold connectPciNode at hres
        simp only at hres
        split at hres
        · exact absurd hres (by simp)
        · injection hres with hres
          rw [← hres]
      rw [hcr] at hr2 hn1 hnv
      exact ⟨hr2, hnv, n1, hn1, hid1.trans (newNode_type_id h _ _ _).2⟩

theorem addPci_bridge_id_witness :
    ∃ r, addPci sampleHeader (sampleBridgePci "0000:10:00.1" []) sampleOneCpu
        { type := NodeType.CPU, index := 0 } = Except.ok r ∧
      r.2 = some { type := NodeType.PCI, index := sampleOneCpu.count NodeType.PCI } ∧
      ¬ sampleOneCpu.valid { type := NodeType.PCI, index := sampleOneCpu.count NodeType.PCI } ∧
      ∃ n, r.1.node? { type := NodeType.PCI, index := sampleOneCpu.count NodeType.PCI }
          = some n ∧ n.id = 65537 :=
  ⟨((sampleOneCpu.setNodes NodeType.PCI [newNode sampleHeader NodeType.PCI 65537 0]).connectBoth
      { type := NodeType.PCI, index := 0 } { type := NodeType.CPU, index := 0 } LINK_PCI 24,
      some { type := NodeType.PCI, index := 0 }),
    toOption_eq_some _ _ (by decide!),
    addPci_bridge_id sampleHeader "pci"
      [("class", "0x060400"), ("busid", "0000:10:00.1"), ("link_width", "16"),
       ("link_speed", "16 GT/s")]
      [] sampleOneCpu { type := NodeType.CPU, index := 0 } _
      "0x060400" "0000:10:00.1" 65537 sampleOneCpu_valid (toOption_eq_some _ _ (by decide))
      (by decide) (toOption_eq_some _ _ (by decide)) (toOption_eq_some _ _ (by decide))
      rfl rfl (toOption_eq_some _ _ (by decide!))⟩

theorem findIdx_of_ids (m : Int) :
    ∀ (l l1 : List ncclTopoNode), l.map (fun n => n.id) = l1.map (fun n => n.id) →
      l.findIdx (fun n => decide (n.id = m)) = l1.findIdx (fun n => decide (n.id = m))
  | [], [], _ => rfl
  | [], _ :: _, h => by simp at h
  | _ :: _, [], h => by simp at h
  | a :: l, b :: l1, h => by
    simp only [List.map_cons, List.cons.injEq] at h
    rw [List.findIdx_cons, List.findIdx_cons, h.1, findIdx_of_ids m l l1 h.2]

theorem getNode_of_ids (s s1 : ncclTopoSystem) (t : NodeType) (m : Int)
    (hnone : ncclTopoGetNode s t m = none)
    (hids : (s1.nodes t).map (fun n => n.id) = (s.nodes t).map (fun n => n.id) ++ [m]) :
    ncclTopoGetNode s1 t m = some { type := t, index := s.count t } := by
  have hno := getNode_none s t m hnone
  have hlen : s1.count t = s.count t + 1 := by
    rw [count_eq_ids, hids, count_eq_ids]; simp
  have hidx : (s1.nodes t).findIdx (fun n => decide (n.id = m)) = s.count t := by
    rw [findIdx_of_ids m (s1.nodes t) (s.nodes t ++ [{ type := t, id := m }])
      (by rw [hids]; simp)]
    rw [List.findIdx_append]
    have h1 : (s.nodes t).findIdx (fun n => decide (n.id = m)) = (s.nodes t).length := by
      rw [List.findIdx_eq_length]
      intro x hx
      simpa using hno x hx
    rw [h1]
    simp [ncclTopoSystem.count, List.findIdx_cons]
  unfold ncclTopoGetNode
  simp only [hidx, hlen]
  rw [if_pos (Nat.lt_succ_self _)]

/-- The steps of `ncclTopoAddPci` on an entry with a "nic" sub node and no "gpu" sub node. -/
theorem addPci_nic_eq (h : TopoHeader) (x xmlNic : ncclXmlNode) (s : ncclTopoSystem)
    (parent : NodeRef) (cls busStr : String) (busId : Int)
    (hcls : xmlGetAttrStr x "class" = Except.ok cls)
    (hbs : xmlGetAttrStr x "busid" = Except.ok busStr) (hb : busIdOf h busStr = Except.ok busId)
    (hgpu : xmlGetSub x "gpu" = none) (hnic : xmlGetSub x "nic" = some xmlNic) :
    addPci h x s parent =
      match addPciNic h xmlNic s none busId with
      | Except.error e => Except.error e
      | Except.ok r => connectPciNode h x r.1 r.2 parent := by
  cases x with
  | mk name attrs subs =>
    unfold addPci
    simp only [hcls, hbs, hb, addPciGpu, hgpu, hnic]

theorem linksFrom_connectBoth_ne (s : ncclTopoSystem) (hg : GoodSystem s) (x y a b : NodeRef)
    (t' t : Nat) (w : ℚ) (hy : s.valid y)
    (hne : ¬ (a = x ∧ b = y ∧ t = t') ∧ ¬ (a = y ∧ b = x ∧ t = t')) :
    (linksFrom (s.connectBoth x y t' w) a b t).Perm (linksFrom s a b t) := by
  unfold ncclTopoSystem.connectBoth
  exact (linksFrom_connect_ne _ (good_connect s x y t' w hg hy) y x a b t' t w hne.2).trans
    (linksFrom_connect_ne s hg x y a b t' t w hne.1)

/-- The first entry of a network device: no NIC node has the masked bus id yet. -/
theorem addPci_nic_first (h : TopoHeader) (x xmlNic : ncclXmlNode) (s : ncclTopoSystem)
    (parent : NodeRef) (cls busStr : String) (busId : Int) (w : ℚ) (hg : GoodSystem s)
    (hp : s.valid parent) (hcls : xmlGetAttrStr x "class" = Except.ok cls)
    (hbs : xmlGetAttrStr x "busid" = Except.ok busStr) (hb : busIdOf h busStr = Except.ok busId)
    (hgpu : xmlGetSub x "gpu" = none) (hnic : xmlGetSub x "nic" = some xmlNic)
    (hnew : ncclTopoGetNode s NodeType.NIC (busId - busId % 16) = none)
    (hcapNic : s.count NodeType.NIC ≠ h.NCCL_TOPO_MAX_NODES)
    (hcapNet : s.count NodeType.NET + (netEntries xmlNic.subs).length ≤ h.NCCL_TOPO_MAX_NODES)
    (hw : pciLinkWidth h x = Except.ok w) :
    ∃ s1, addPci h x s parent
        = Except.ok (s1, some { type := NodeType.NIC, index := s.count NodeType.NIC }) ∧
      GoodSystem s1 ∧ (∀ r, s.valid r → s1.valid r) ∧
      s1.valid { type := NodeType.NIC, index := s.count NodeType.NIC } ∧
      (∀ t, (s1.nodes t).map (fun n => n.id) =
        if t = NodeType.NIC then (s.nodes t).map (fun n => n.id) ++ [busId - busId % 16]
        else if t = NodeType.NET then
          (s.nodes t).map (fun n => n.id) ++ (netEntries xmlNic.subs).map (netDev h)
        else (s.nodes t).map (fun n => n.id)) ∧
      (∀ (j : Nat) (y : ncclXmlNode), (netEntries xmlNic.subs)[j]? = some y →
        s1.valid { type := NodeType.NET, index := s.count NodeType.NET + j } ∧
        linksFrom s1 { type := NodeType.NIC, index := s.count NodeType.NIC }
            { type := NodeType.NET, index := s.count NodeType.NET + j } LINK_NET =
          [{ type := LINK_NET, width := netWidth h y,
             remNode := { type := NodeType.NET, index := s.count NodeType.NET + j } }] ∧
        linksFrom s1 { type := NodeType.NET, index := s.count NodeType.NET + j }
            { type := NodeType.NIC, index := s.count NodeType.NIC } LINK_NET =
          [{ type := LINK_NET, width := netWidth h y,
             remNode := { type := NodeType.NIC, index := s.count NodeType.NIC } }]) ∧
      linksFrom s1 { type := NodeType.NIC, index := s.count NodeType.NIC } parent LINK_PCI =
        [{ type := LINK_PCI, width := w, remNode := parent }] ∧
      linksFrom s1 parent { type := NodeType.NIC, index := s.count NodeType.NIC } LINK_PCI =
        [{ type := LINK_PCI, width := w,
           remNode := { type := NodeType.NIC, index := s.count NodeType.NIC } }] ∧
      ∀ p, s.valid p → p ≠ parent →
        linksFrom s1 { type := NodeType.NIC, index := s.count NodeType.NIC } p LINK_PCI = [] ∧
        linksFrom s1 p { type := NodeType.NIC, index := s.count NodeType.NIC } LINK_PCI = [] := by
  have hcr := createNode_succeeds h s NodeType.NIC (busId - busId % 16) hcapNic
  obtain ⟨hnv, hv1, hmono⟩ := createNode_valid h s _ _ _ _ hcr
  have hga := good_create h s _ _ _ _ hcr hg
  have hca : ∀ k, _ = _ := createNode_count h s _ _ _ _ hcr
  have hnodea := createNode_node? h s _ _ _ _ hcr
  have hlfa := linksFrom_create h s _ _ _ _ hcr
  generalize hnicr : ({ type := NodeType.NIC, index := s.count NodeType.NIC } : NodeRef) = nic
    at hcr hnv hv1 hnodea
  have hida : ∀ t, ((s.setNodes NodeType.NIC (s.nodes NodeType.NIC ++
      [newNode h NodeType.NIC (busId - busId % 16) (s.count NodeType.NIC)])).nodes t).map
        (fun n => n.id) =
      if t = NodeType.NIC then (s.nodes t).map (fun n => n.id) ++ [busId - busId % 16]
      else (s.nodes t).map (fun n => n.id) := by
    intro t
    rw [nodes_setNodes]
    split_ifs with ht
    · subst ht; simp [(newNode_type_id h NodeType.NIC _ _).2]
    · rfl
  generalize hsa : s.setNodes NodeType.NIC (s.nodes NodeType.NIC ++
    [newNode h NodeType.NIC (busId - busId % 16) (s.count NodeType.NIC)]) = sa
    at hcr hv1 hmono hga hca hnodea hlfa hida
  have hcnet : sa.count NodeType.NET = s.count NodeType.NET := by
    rw [hca NodeType.NET]; simp
  obtain ⟨sb, hadd, hgb, hvb, hidb, hlb⟩ := addNic_ports h nic (busId - busId % 16)
    xmlNic.subs sa hga hv1 (by rw [hcnet]; exact hcapNet)
  have hbuilt := addNic_built h xmlNic.subs nic (busId - busId % 16) sa sb hadd hv1
  have hne : nic ≠ parent := fun e => hnv (e ▸ hp)
  have hnew1 : ∀ p t, linksFrom sa nic p t = [] := by
    intro p t
    unfold linksFrom
    rw [hnodea nic]
    simp [newNode, ncclTopoNode.live, linksTo]
  have hnew2 : ∀ p t, s.valid p → linksFrom sa p nic t = [] := by
    intro p t hpv
    rw [hlfa p nic t hpv]
    exact linksFrom_to_not_valid s hg p nic t hnv
  have E1 : ∀ p t, s.valid p → linksFrom sb nic p t = [] := by
    intro p t hpv
    have := built_frame h sa sa sb hbuilt (fun r hr => hr) hga nic p t hv1 (hmono p hpv)
    rw [hnew1 p t] at this
    exact this.eq_nil
  have E2 : ∀ p t, s.valid p → linksFrom sb p nic t = [] := by
    intro p t hpv
    have := built_frame h sa sa sb hbuilt (fun r hr => hr) hga p nic t (hmono p hpv) hv1
    rw [hnew2 p t hpv] at this
    exact this.eq_nil
  have hvnb := hvb nic hv1
  have hvpb := hvb parent (hmono parent hp)
  obtain ⟨L1, L2⟩ := linksFrom_connectBoth_new sb hgb nic parent LINK_PCI w hvnb hvpb hne
    (E1 parent LINK_PCI hp) (E2 parent LINK_PCI hp)
  have hb2 : Built h AnyLink NoLink sb (sb.connectBoth nic parent LINK_PCI w) :=
    built_link2 h _ _ sb nic parent LINK_PCI w hvnb hvpb trivial
  refine ⟨sb.connectBoth nic parent LINK_PCI w, ?_, built_good h _ _ _ _ hb2 hgb,
    fun r hr => built_valid h _ _ _ _ hb2 r (hvb r (hmono r hr)),
    built_valid h _ _ _ _ hb2 nic hvnb, ?_, ?_, L1, L2, ?_⟩
  · rw [addPci_nic_eq h x xmlNic s parent cls busStr busId hcls hbs hb hgpu hnic]
    simp only [addPciNic, hnew, hcr, hadd, connectPciNode, connectPci, hw]
  · intro t
    unfold ncclTopoSystem.connectBoth
    rw [ids_connect, ids_connect, hidb t, hida t]
    by_cases h1 : t = NodeType.NIC
    · subst h1; simp
    · by_cases h2 : t = NodeType.NET
      · subst h2; simp
      · simp [h1, h2]
  · intro j y hy
    obtain ⟨l1, l2⟩ := hlb j y hy
    rw [hcnet] at l1 l2
    have hvnet : sb.valid { type := NodeType.NET, index := s.count NodeType.NET + j } := by
      by_contra hc
      rw [linksFrom_of_not_valid sb _ _ _ hc] at l2
      cases l2
    have p1 := linksFrom_connectBoth_ne sb hgb nic parent nic
      { type := NodeType.NET, index := s.count NodeType.NET + j } LINK_PCI LINK_NET w hvpb
      ⟨fun e => absurd e.2.2 (by decide), fun e => absurd e.2.2 (by decide)⟩
    have p2 := linksFrom_connectBoth_ne sb hgb nic parent
      { type := NodeType.NET, index := s.count NodeType.NET + j } nic LINK_PCI LINK_NET w hvpb
      ⟨fun e => absurd e.2.2 (by decide), fun e => absurd e.2.2 (by decide)⟩
    rw [l1] at p1
    rw [l2] at p2
    exact ⟨built_valid h _ _ _ _ hb2 _ hvnet, List.perm_singleton.mp p1,
      List.perm_singleton.mp p2⟩
  · intro p hpv hpp
    have p1 := linksFrom_connectBoth_ne sb hgb nic parent nic p LINK_PCI LINK_PCI w hvpb
      ⟨fun e => hpp e.2.1, fun e => hne e.1⟩
    have p2 := linksFrom_connectBoth_ne sb hgb nic parent p nic LINK_PCI LINK_PCI w hvpb
      ⟨fun e => hne e.2.1, fun e => hpp e.1⟩
    rw [E1 p LINK_PCI hpv] at p1
    rw [E2 p LINK_PCI hpv] at p2
    exact ⟨p1.eq_nil, p2.eq_nil⟩

/-- A later entry of a network device: the NIC node with the masked bus id is found. -/
theorem addPci_nic_second (h : TopoHeader) (x xmlNic : ncclXmlNode) (s : ncclTopoSystem)
    (parent nic : NodeRef) (cls busStr : String) (busId : Int) (hg : GoodSystem s)
    (hcls : xmlGetAttrStr x "class" = Except.ok cls)
    (hbs : xmlGetAttrStr x "busid" = Except.ok busStr) (hb : busIdOf h busStr = Except.ok busId)
    (hgpu : xmlGetSub x "gpu" = none) (hnic : xmlGetSub x "nic" = some xmlNic)
    (hfound : ncclTopoGetNode s NodeType.NIC (busId - busId % 16) = some nic)
    (hcapNet : s.count NodeType.NET + (netEntries xmlNic.subs).length ≤ h.NCCL_TOPO_MAX_NODES) :
    ∃ s2, addPci h x s parent = Except.ok (s2, none) ∧
      (∀ t, (s2.nodes t).map (fun n => n.id) =
        if t = NodeType.NET then
          (s.nodes t).map (fun n => n.id) ++ (netEntries xmlNic.subs).map (netDev h)
        else (s.nodes t).map (fun n => n.id)) ∧
      (∀ (j : Nat) (y : ncclXmlNode), (netEntries xmlNic.subs)[j]? = some y →
        linksFrom s2 nic { type := NodeType.NET, index := s.count NodeType.NET + j } LINK_NET =
          [{ type := LINK_NET, width := netWidth h y,
             remNode := { type := NodeType.NET, index := s.count NodeType.NET + j } }] ∧
        linksFrom s2 { type := NodeType.NET, index := s.count NodeType.NET + j } nic LINK_NET =
          [{ type := LINK_NET, width := netWidth h y, remNode := nic }]) ∧
      ∀ a b t, s.valid a → s.valid b → (linksFrom s2 a b t).Perm (linksFrom s a b t) := by
  have hv := (getNode_valid s _ _ nic hfound).1
  obtain ⟨s2, hadd, -, -, hid, hl⟩ := addNic_ports h nic (busId - busId % 16) xmlNic.subs s hg
    hv hcapNet
  have hbuilt := addNic_built h xmlNic.subs nic (busId - busId % 16) s s2 hadd hv
  refine ⟨s2, ?_, hid, hl, fun a b t ha hb => built_frame h s s s2 hbuilt (fun r hr => hr) hg
    a b t ha hb⟩
  rw [addPci_nic_eq h x xmlNic s parent cls busStr busId hcls hbs hb hgpu hnic]
  simp only [addPciNic, hfound, hadd, connectPciNode]

/-- C25: two pci entries with a "nic" sub node (and no "gpu" sub node) whose bus ids differ only
in the low four bits, handed to `ncclTopoAddPci` one after the other in a well-formed graph in
which no NIC node has the masked id yet (and with room in the arrays): both calls succeed; the
first yields a new NIC node whose id is the bus id with the low four bits cleared, the second
yields no node; the NIC array has grown by this one node; every Network-port of either entry
and this NIC hold one NET link to each other; the NIC and the parent of the first entry hold
one PCI link to each other, of the width of the first entry, and the second entry has added no
PCI link. -/
theorem addPci_nic_functions_merge (h : TopoHeader) (e1 e2 nic1 nic2 : ncclXmlNode)
    (s : ncclTopoSystem) (p1 p2 : NodeRef) (c1 c2 str1 str2 : String) (b1 b2 : Int) (w : ℚ)
    (hg : GoodSystem s) (hp1 : s.valid p1) (hp2 : s.valid p2)
    (hc1 : xmlGetAttrStr e1 "class" = Except.ok c1)
    (hs1 : xmlGetAttrStr e1 "busid" = Except.ok str1) (hb1 : busIdOf h str1 = Except.ok b1)
    (hg1 : xmlGetSub e1 "gpu" = none) (hn1 : xmlGetSub e1 "nic" = some nic1)
    (hc2 : xmlGetAttrStr e2 "class" = Except.ok c2)
    (hs2 : xmlGetAttrStr e2 "busid" = Except.ok str2) (hb2 : busIdOf h str2 = Except.ok b2)
    (hg2 : xmlGetSub e2 "gpu" = none) (hn2 : xmlGetSub e2 "nic" = some nic2)
    (hsame : b1 - b1 % 16 = b2 - b2 % 16)
    (hnew : ncclTopoGetNode s NodeType.NIC (b1 - b1 % 16) = none)
    (hcapNic : s.count NodeType.NIC ≠ h.NCCL_TOPO_MAX_NODES)
    (hcapNet : s.count NodeType.NET + (netEntries nic1.subs).length +
      (netEntries nic2.subs).length ≤ h.NCCL_TOPO_MAX_NODES)
    (hw : pciLinkWidth h e1 = Except.ok w) :
    ∃ s1 s2,
      addPci h e1 s p1
        = Except.ok (s1, some { type := NodeType.NIC, index := s.count NodeType.NIC }) ∧
      addPci h e2 s1 p2 = Except.ok (s2, none) ∧
      ncclTopoAddPci h e1 s p1 = Except.ok s1 ∧ ncclTopoAddPci h e2 s1 p2 = Except.ok s2 ∧
      (s2.nodes NodeType.NIC).map (fun n => n.id) =
        (s.nodes NodeType.NIC).map (fun n => n.id) ++ [b1 - b1 % 16] ∧
      (∀ (j : Nat) (y : ncclXmlNode),
        (netEntries nic1.subs ++ netEntries nic2.subs)[j]? = some y →
        linksFrom s2 { type := NodeType.NIC, index := s.count NodeType.NIC }
            { type := NodeType.NET, index := s.count NodeType.NET + j } LINK_NET =
          [{ type := LINK_NET, width := netWidth h y,
             remNode := { type := NodeType.NET, index := s.count NodeType.NET + j } }] ∧
        linksFrom s2 { type := NodeType.NET, index := s.count NodeType.NET + j }
            { type := NodeType.NIC, index := s.count NodeType.NIC } LINK_NET =
          [{ type := LINK_NET, width := netWidth h y,
             remNode := { type := NodeType.NIC, index := s.count NodeType.NIC } }]) ∧
      linksFrom s2 { type := NodeType.NIC, index := s.count NodeType.NIC } p1 LINK_PCI =
        [{ type := LINK_PCI, width := w, remNode := p1 }] ∧
      linksFrom s2 p1 { type := NodeType.NIC, index := s.count NodeType.NIC } LINK_PCI =
        [{ type := LINK_PCI, width := w,
           remNode := { type := NodeType.NIC, index := s.count NodeType.NIC } }] ∧
      (p2 ≠ p1 →
        linksFrom s2 { type := NodeType.NIC, index := s.count NodeType.NIC } p2 LINK_PCI = [] ∧
        linksFrom s2 p2 { type := NodeType.NIC, index := s.count NodeType.NIC } LINK_PCI
          = []) := by
  obtain ⟨s1, hadd1, hgood1, hval1, hvnic, hid1, hport1, L1, L2, hother⟩ :=
    addPci_nic_first h e1 nic1 s p1 c1 str1 b1 w hg hp1 hc1 hs1 hb1 hg1 hn1 hnew hcapNic
      (by omega) hw
  have hfound : ncclTopoGetNode s1 NodeType.NIC (b2 - b2 % 16)
      = some { type := NodeType.NIC, index := s.count NodeType.NIC } := by
    rw [← hsame]
    exact getNode_of_ids s s1 NodeType.NIC _ hnew (by rw [hid1 NodeType.NIC]; simp)
  have hcnet : s1.count NodeType.NET = s.count NodeType.NET + (netEntries nic1.subs).length := by
    rw [count_eq_ids, hid1 NodeType.NET, count_eq_ids]
    simp
  obtain ⟨s2, hadd2, hid2, hport2, hframe⟩ := addPci_nic_second h e2 nic2 s1 p2 _ c2 str2 b2
    hgood1 hc2 hs2 hb2 hg2 hn2 hfound (by rw [hcnet]; exact hcapNet)
  refine ⟨s1, s2, hadd1, hadd2, by simp only [ncclTopoAddPci, hadd1],
    by simp only [ncclTopoAddPci, hadd2], ?_, ?_, ?_, ?_, ?_⟩
  · rw [hid2 NodeType.NIC, hid1 NodeType.NIC]
    simp
  · intro j y hy
    by_cases hj : j < (netEntries nic1.subs).length
    · rw [List.getElem?_append_left hj] at hy
      obtain ⟨hv, l1, l2⟩ := hport1 j y hy
      have p1 := hframe _ _ LINK_NET hvnic hv
      have p2 := hframe _ _ LINK_NET hv hvnic
      rw [l1] at p1
      rw [l2] at p2
      exact ⟨List.perm_singleton.mp p1, List.perm_singleton.mp p2⟩
    · rw [List.getElem?_append_right (by omega)] at hy
      have := hport2 _ y hy
      rw [hcnet] at this
      have e : s.count NodeType.NET + (netEntries nic1.subs).length +
          (j - (netEntries nic1.subs).length) = s.count NodeType.NET + j := by omega
      rw [e] at this
      exact this
  · have p := hframe _ _ LINK_PCI hvnic (hval1 p1 hp1)
    rw [L1] at p
    exact List.perm_singleton.mp p
  · have p := hframe _ _ LINK_PCI (hval1 p1 hp1) hvnic
    rw [L2] at p
    exact List.perm_singleton.mp p
  · intro hne
    obtain ⟨o1, o2⟩ := hother p2 hp2 hne
    have q1 := hframe _ _ LINK_PCI hvnic (hval1 p2 hp2)
    have q2 := hframe _ _ LINK_PCI (hval1 p2 hp2) hvnic
    rw [o1] at q1
    rw [o2] at q2
    exact ⟨q1.eq_nil, q2.eq_nil⟩

theorem addPci_nic_functions_merge_witness :
    ∃ s1 s2,
      ncclTopoAddPci sampleHeader (sampleNicPci "0000:20:00.0" "0") sampleOneCpu
        { type := NodeType.CPU, index := 0 } = Except.ok s1 ∧
      ncclTopoAddPci sampleHeader (sampleNicPci "0000:20:00.1" "1") s1
        { type := NodeType.CPU, index := 0 } = Except.ok s2 ∧
      (s2.nodes NodeType.NIC).map (fun n => n.id) = [131072] ∧
      linksFrom s2 { type := NodeType.NIC, index := 0 } { type := NodeType.CPU, index := 0 }
        LINK_PCI = [{ type := LINK_PCI, width := 24,
                      remNode := { type := NodeType.CPU, index := 0 } }] := by
  obtain ⟨s1, s2, -, -, h1, h2, h3, -, h4, -⟩ :=
    addPci_nic_functions_merge sampleHeader (sampleNicPci "0000:20:00.0" "0")
      (sampleNicPci "0000:20:00.1" "1")
      (ncclXmlNode.mk "nic" []
        [ncclXmlNode.mk "net" [("dev", "0"), ("speed", "100000"), ("port", "1")] []])
      (ncclXmlNode.mk "nic" []
        [ncclXmlNode.mk "net" [("dev", "1"), ("speed", "100000"), ("port", "1")] []])
      sampleOneCpu { type := NodeType.CPU, index := 0 } { type := NodeType.CPU, index := 0 }
      "0x020000" "0x020000" "0000:20:00.0" "0000:20:00.1" 131072 131073 24
      sampleOneCpu_good sampleOneCpu_valid sampleOneCpu_valid
      (toOption_eq_some _ _ (by decide)) (toOption_eq_some _ _ (by decide))
      (toOption_eq_some _ _ (by decide)) rfl rfl
      (toOption_eq_some _ _ (by decide)) (toOption_eq_some _ _ (by decide))
      (toOption_eq_some _ _ (by decide)) rfl rfl
      (by decide) (by decide) (by decide) (by decide) (toOption_eq_some _ _ (by decide!))
  exact ⟨s1, s2, h1, h2, h3, h4⟩

/-! ## The width table of `ncclTopoGetInterCpuWidth` -/

/-- C32: `ncclTopoGetInterCpuWidth` is a total function of the Processor node, and with
architecture and vendor constants that differ from each other and from `NCCL_TOPO_UNDEF` it
returns `P9_WIDTH` for POWER, `ARM_WIDTH` for ARM, `SKL_QPI_WIDTH` or `QPI_WIDTH` for an x86
Intel processor (Skylake model or not), `YONGFENG_ZPI_WIDTH` or `ZPI_WIDTH` for an x86 Zhaoxin
processor (Yongfeng model or not), and `LOC_WIDTH` in every other case, among them x86 AMD, an
undefined architecture, and x86 with an undefined vendor. -/
theorem interCpuWidth_table (h : TopoHeader) (cpu : ncclTopoNode)
    (hd : DistinctCpuConstants h) :
    (cpu.cpu.arch = h.NCCL_TOPO_CPU_ARCH_POWER → ncclTopoGetInterCpuWidth h cpu = h.P9_WIDTH) ∧
    (cpu.cpu.arch = h.NCCL_TOPO_CPU_ARCH_ARM → ncclTopoGetInterCpuWidth h cpu = h.ARM_WIDTH) ∧
    (cpu.cpu.arch = h.NCCL_TOPO_CPU_ARCH_X86 → cpu.cpu.vendor = h.NCCL_TOPO_CPU_VENDOR_INTEL →
      ncclTopoGetInterCpuWidth h cpu =
        if cpu.cpu.model = h.NCCL_TOPO_CPU_TYPE_SKL then h.SKL_QPI_WIDTH else h.QPI_WIDTH) ∧
    (cpu.cpu.arch = h.NCCL_TOPO_CPU_ARCH_X86 → cpu.cpu.vendor = h.NCCL_TOPO_CPU_VENDOR_ZHAOXIN →
      ncclTopoGetInterCpuWidth h cpu =
        if cpu.cpu.model = h.NCCL_TOPO_CPU_TYPE_YONGFENG then h.YONGFENG_ZPI_WIDTH
        else h.ZPI_WIDTH) ∧
    (cpu.cpu.arch ≠ h.NCCL_TOPO_CPU_ARCH_POWER → cpu.cpu.arch ≠ h.NCCL_TOPO_CPU_ARCH_ARM →
      ¬ (cpu.cpu.arch = h.NCCL_TOPO_CPU_ARCH_X86 ∧
        (cpu.cpu.vendor = h.NCCL_TOPO_CPU_VENDOR_INTEL ∨
          cpu.cpu.vendor = h.NCCL_TOPO_CPU_VENDOR_ZHAOXIN)) →
      ncclTopoGetInterCpuWidth h cpu = h.LOC_WIDTH) ∧
    (cpu.cpu.arch = h.NCCL_TOPO_CPU_ARCH_X86 → cpu.cpu.vendor = h.NCCL_TOPO_CPU_VENDOR_AMD →
      ncclTopoGetInterCpuWidth h cpu = h.LOC_WIDTH) ∧
    (cpu.cpu.arch = h.NCCL_TOPO_UNDEF → ncclTopoGetInterCpuWidth h cpu = h.LOC_WIDTH) ∧
    (cpu.cpu.arch = h.NCCL_TOPO_CPU_ARCH_X86 → cpu.cpu.vendor = h.NCCL_TOPO_UNDEF →
      ncclTopoGetInterCpuWidth h cpu = h.LOC_WIDTH) := by
  obtain ⟨d1, d2, d3, d4, d5, d6, d7, d8, d9, d10, d11⟩ := hd
  have hother : cpu.cpu.arch ≠ h.NCCL_TOPO_CPU_ARCH_POWER →
      cpu.cpu.arch ≠ h.NCCL_TOPO_CPU_ARCH_ARM →
      ¬ (cpu.cpu.arch = h.NCCL_TOPO_CPU_ARCH_X86 ∧
        (cpu.cpu.vendor = h.NCCL_TOPO_CPU_VENDOR_INTEL ∨
          cpu.cpu.vendor = h.NCCL_TOPO_CPU_VENDOR_ZHAOXIN)) →
      ncclTopoGetInterCpuWidth h cpu = h.LOC_WIDTH := by
    intro h1 h2 h3
    have h4 : ¬ (cpu.cpu.arch = h.NCCL_TOPO_CPU_ARCH_X86 ∧
        cpu.cpu.vendor = h.NCCL_TOPO_CPU_VENDOR_INTEL) := fun e => h3 ⟨e.1, Or.inl e.2⟩
    have h5 : ¬ (cpu.cpu.arch = h.NCCL_TOPO_CPU_ARCH_X86 ∧
        cpu.cpu.vendor = h.NCCL_TOPO_CPU_VENDOR_ZHAOXIN) := fun e => h3 ⟨e.1, Or.inr e.2⟩
    unfold ncclTopoGetInterCpuWidth
    simp only [h1, h2, h4, h5, if_false]
  refine ⟨?_, ?_, ?_, ?_, hother, ?_, ?_, ?_⟩
  · intro ha
    unfold ncclTopoGetInterCpuWidth
    simp only [ha, if_true]
  · intro ha
    unfold ncclTopoGetInterCpuWidth
    simp only [ha, d3.symm, if_false, if_true]
  · intro ha hv
    unfold ncclTopoGetInterCpuWidth
    simp only [ha, hv, d1, d2, d5, if_false, and_self, if_true, and_false]
  · intro ha hv
    unfold ncclTopoGetInterCpuWidth
    simp only [ha, hv, d1, d2, d5.symm, if_false, and_self, if_true, and_false]
  · intro ha hv
    exact hother (by rw [ha]; exact d1) (by rw [ha]; exact d2)
      (fun e => e.2.elim (fun e1 => d4 (e1.symm.trans hv)) (fun e1 => d6 (hv.symm.trans e1)))
  · intro ha
    exact hother (by rw [ha]; exact d8) (by rw [ha]; exact d9)
      (fun e => d7 (ha.symm.trans e.1))
  · intro ha hv
    exact hother (by rw [ha]; exact d1) (by rw [ha]; exact d2)
      (fun e => e.2.elim (fun e1 => d10 (hv.symm.trans e1)) (fun e1 => d11 (hv.symm.trans e1)))

theorem sampleHeader_distinct : DistinctCpuConstants sampleHeader := by
  unfold DistinctCpuConstants
  decide

theorem interCpuWidth_table_witness :
    ncclTopoGetInterCpuWidth sampleHeader (sampleCpu 2 0 0) = 32 ∧
    ncclTopoGetInterCpuWidth sampleHeader (sampleCpu 3 0 0) = 6 ∧
    ncclTopoGetInterCpuWidth sampleHeader (sampleCpu 1 1 2) = 9 ∧
    ncclTopoGetInterCpuWidth sampleHeader (sampleCpu 1 3 7) = 6 ∧
    ncclTopoGetInterCpuWidth sampleHeader (sampleCpu 1 2 2) = 5000 ∧
    ncclTopoGetInterCpuWidth sampleHeader (sampleCpu (-1) (-1) (-1)) = 5000 :=
  ⟨(interCpuWidth_table sampleHeader (sampleCpu 2 0 0) sampleHeader_distinct).1 rfl,
    (interCpuWidth_table sampleHeader (sampleCpu 3 0 0) sampleHeader_distinct).2.1 rfl,
    (interCpuWidth_table sampleHeader (sampleCpu 1 1 2) sampleHeader_distinct).2.2.1 rfl rfl,
    (interCpuWidth_table sampleHeader (sampleCpu 1 3 7) sampleHeader_distinct).2.2.2.1 rfl rfl,
    (interCpuWidth_table sampleHeader (sampleCpu 1 2 2)
      sampleHeader_distinct).2.2.2.2.2.1 rfl rfl,
    (interCpuWidth_table sampleHeader (sampleCpu (-1) (-1) (-1))
      sampleHeader_distinct).2.2.2.2.2.2.1 rfl⟩

/-- The two outcomes of `ncclUserRedOpMangle` on an op value `n` that is not below
`ncclNumOps`: the op itself, or the op xor the masked hash when that is not below `ncclNumOps`
either. -/
theorem redOpMangle_cases (c : RedOpHeader) (k : Nat) (comm n : Nat) (hk : k ≤ 31)
    (hmax : c.ncclMaxRedOp = 2 ^ k - 1) (hb : ¬ ((n : Int) < c.ncclNumOps)) :
    ncclUserRedOpMangle c comm (n : Int) = (n : Int) ∨
      (ncclUserRedOpMangle c comm (n : Int) = ((redOpHash c comm ^^^ n : Nat) : Int) ∧
        ¬ (((redOpHash c comm ^^^ n : Nat) : Int) < c.ncclNumOps)) := by
  have hm := redOpHash_lt c k comm hk hmax
  have hle : (2 : Nat) ^ k ≤ 2 ^ 31 := Nat.pow_le_pow_right (by norm_num) hk
  have ht := toInt32_of_lt (redOpHash c comm) (by omega)
  have hx : Int.xor (toInt32 (redOpHash c comm)) (n : Int)
      = ((redOpHash c comm ^^^ n : Nat) : Int) := by
    rw [ht]; rfl
  unfold ncclUserRedOpMangle
  simp only [hx, hb, if_false]
  by_cases hc : ((redOpHash c comm ^^^ n : Nat) : Int) < c.ncclNumOps
  · left; simp only [hc, if_true]
  · right; simp only [hc, if_false]; exact ⟨trivial, not_false⟩

/-- C38: `ncclUserRedOpMangle` returns every op value below `ncclNumOps` unchanged, and (with
`ncclNumOps` not negative and `ncclMaxRedOp` of the form `2^k - 1`, `k` at most 31) for every
communicator address it maps an op value from `ncclNumOps` to `ncclMaxRedOp` to a value in the
same range. -/
theorem redOpMangle_keeps_builtin (c : RedOpHeader) (k : Nat) (comm : Nat) (hk : k ≤ 31)
    (hmax : c.ncclMaxRedOp = 2 ^ k - 1) (hnum : 0 ≤ c.ncclNumOps) :
    (∀ op : Int, op < c.ncclNumOps → ncclUserRedOpMangle c comm op = op) ∧
    (∀ op : Int, c.ncclNumOps ≤ op → op ≤ c.ncclMaxRedOp →
      c.ncclNumOps ≤ ncclUserRedOpMangle c comm op ∧
        ncclUserRedOpMangle c comm op ≤ c.ncclMaxRedOp) := by
  constructor
  · intro op hop
    unfold ncclUserRedOpMangle
    simp only [hop, if_true]
  · intro op h1 h2
    obtain ⟨n, rfl⟩ := Int.eq_ofNat_of_zero_le (le_trans hnum h1)
    have hm := redOpHash_lt c k comm hk hmax
    have hn : n < 2 ^ k := by
      rw [hmax] at h2
      have : ((n : Int)) < 2 ^ k := by omega
      exact_mod_cast this
    have hxlt : redOpHash c comm ^^^ n < 2 ^ k := Nat.xor_lt_two_pow hm hn
    have hxle : ((redOpHash c comm ^^^ n : Nat) : Int) ≤ c.ncclMaxRedOp := by
      rw [hmax]
      have : ((redOpHash c comm ^^^ n : Nat) : Int) < 2 ^ k := by exact_mod_cast hxlt
      omega
    rcases redOpMangle_cases c k comm n hk hmax (not_lt.mpr h1) with e | ⟨e, hge⟩
    · rw [e]; exact ⟨h1, h2⟩
    · rw [e]; exact ⟨not_lt.mp hge, hxle⟩

theorem redOpMangle_keeps_builtin_witness :
    ncclUserRedOpMangle sampleRedOps 0x7f00deadbeef 3 = 3 ∧
    sampleRedOps.ncclNumOps ≤ ncclUserRedOpMangle sampleRedOps 0x7f00deadbeef 9 ∧
    ncclUserRedOpMangle sampleRedOps 0x7f00deadbeef 9 ≤ sampleRedOps.ncclMaxRedOp :=
  ⟨(redOpMangle_keeps_builtin sampleRedOps 7 0x7f00deadbeef (by decide) (by decide)
      (by decide)).1 3 (by decide),
    (redOpMangle_keeps_builtin sampleRedOps 7 0x7f00deadbeef (by decide) (by decide)
      (by decide)).2 9 (by decide) (by decide)⟩

/-! ## Entries without their identifying attribute -/

theorem attrIndex_of_absent (x : ncclXmlNode) (name : String) (hx : xmlGetAttr x name = none) :
    xmlGetAttrIndex x name = -1 := by
  unfold xmlGetAttr at hx
  unfold xmlGetAttrIndex
  have hf : x.attrs.find? (fun kv => kv.1 == name) = none := by
    cases hc : x.attrs.find? (fun kv => kv.1 == name) with
    | none => rfl
    | some kv => rw [hc] at hx; cases hx
  have : x.attrs.findIdx? (fun kv => kv.1 == name) = none := by
    rw [List.findIdx?_eq_none_iff]
    intro a ha
    simpa using List.find?_eq_none.mp hf a ha
  rw [this]

theorem addNic_netEntries (h : TopoHeader) (nic : NodeRef) (busId : Int) :
    ∀ (subs : List ncclXmlNode) (s : ncclTopoSystem),
      ncclTopoAddNic h subs s nic busId = ncclTopoAddNic h (netEntries subs) s nic busId := by
  intro subs
  induction subs with
  | nil => intro s; rfl
  | cons x rest ih =>
    intro s
    by_cases hx : x.name = "net" ∧ xmlGetAttrIndex x "dev" ≠ -1
    · have hent : netEntries (x :: rest) = x :: netEntries rest := by
        unfold netEntries
        rw [List.filter_cons_of_pos (by simpa using hx)]
      rw [hent, ncclTopoAddNic, ncclTopoAddNic]
      simp only [hx.1, ne_eq, not_true_eq_false, if_false, hx.2]
      cases ncclTopoAddNet h x s nic busId with
      | error e => rfl
      | ok s1 => exact ih s1
    · have hent : netEntries (x :: rest) = netEntries rest := by
        unfold netEntries
        rw [List.filter_cons_of_neg (by simpa using hx)]
      rw [hent, ← ih s, ncclTopoAddNic]
      by_cases hn : x.name = "net"
      · have hi : xmlGetAttrIndex x "dev" = -1 := by
          by_contra hi; exact hx ⟨hn, hi⟩
        simp only [hn, ne_eq, not_true_eq_false, if_false, hi, if_true]
      · simp only [ne_eq, hn, not_false_eq_true, if_true]

/-- C35: a pci entry (with `class` and `busid` attributes that are read) whose "gpu" sub node
has no `rank` attribute makes `ncclTopoAddPci` return success with the topology as it was, and
the loop over the entries of a bridge goes on with the entries behind it. A "net" sub node
without `dev` attribute is skipped by `ncclTopoAddNic`: the call does what it does on the
entries behind it, `ncclTopoAddNic` on such a node alone returns success with the topology as
it was, and on any list of sub nodes it does what it does on the "net" nodes that have a
`dev` attribute. -/
theorem addPci_skips_unidentified (h : TopoHeader) :
    (∀ (xmlPci xmlGpu : ncclXmlNode) (s : ncclTopoSystem) (parent : NodeRef)
      (cls busStr : String) (busId : Int),
      xmlGetAttrStr xmlPci "class" = Except.ok cls →
      xmlGetAttrStr xmlPci "busid" = Except.ok busStr → busIdOf h busStr = Except.ok busId →
      xmlGetSub xmlPci "gpu" = some xmlGpu → xmlGetAttr xmlGpu "rank" = none →
      addPci h xmlPci s parent = Except.ok (s, none) ∧
      ncclTopoAddPci h xmlPci s parent = Except.ok s ∧
      ∀ rest, addPci.subsLoop h (xmlPci :: rest) s parent = addPci.subsLoop h rest s parent) ∧
    (∀ (xmlNet : ncclXmlNode) (rest : List ncclXmlNode) (s : ncclTopoSystem) (nic : NodeRef)
      (busId : Int), xmlNet.name = "net" → xmlGetAttr xmlNet "dev" = none →
      ncclTopoAddNic h (xmlNet :: rest) s nic busId = ncclTopoAddNic h rest s nic busId ∧
      ncclTopoAddNic h [xmlNet] s nic busId = Except.ok s) ∧
    (∀ (subs : List ncclXmlNode) (s : ncclTopoSystem) (nic : NodeRef) (busId : Int),
      ncclTopoAddNic h subs s nic busId = ncclTopoAddNic h (netEntries subs) s nic busId) := by
  refine ⟨?_, ?_, fun subs s nic busId => addNic_netEntries h nic busId subs s⟩
  · intro xmlPci xmlGpu s parent cls busStr busId hcls hbs hb hgpu hrank
    have hidx := attrIndex_of_absent xmlGpu "rank" hrank
    have e1 : addPci h xmlPci s parent = Except.ok (s, none) := by
      cases xmlPci with
      | mk name attrs subs =>
        unfold addPci
        simp only [hcls, hbs, hb, addPciGpu, hgpu, hidx, if_true]
    refine ⟨e1, by simp only [ncclTopoAddPci, e1], fun rest => ?_⟩
    rw [addPci.subsLoop]
    simp only [e1]
  · intro xmlNet rest s nic busId hname hdev
    have hidx := attrIndex_of_absent xmlNet "dev" hdev
    have e1 : ∀ r, ncclTopoAddNic h (xmlNet :: r) s nic busId = ncclTopoAddNic h r s nic busId := by
      intro r
      rw [ncclTopoAddNic]
      simp only [hname, ne_eq, not_true_eq_false, if_false, hidx, if_true]
    exact ⟨e1 rest, (e1 []).trans rfl⟩

theorem addPci_skips_unidentified_witness :
    (addPci sampleHeader sampleRanklessPci sampleOneCpu { type := NodeType.CPU, index := 0 }
        = Except.ok (sampleOneCpu, none) ∧
      ncclTopoAddPci sampleHeader sampleRanklessPci sampleOneCpu
        { type := NodeType.CPU, index := 0 } = Except.ok sampleOneCpu ∧
      ∀ rest, addPci.subsLoop sampleHeader (sampleRanklessPci :: rest) sampleOneCpu
          { type := NodeType.CPU, index := 0 }
        = addPci.subsLoop sampleHeader rest sampleOneCpu { type := NodeType.CPU, index := 0 }) ∧
    (ncclTopoAddNic sampleHeader (sampleDevlessNet :: sampleNetSubs) sampleOneNic
        { type := NodeType.NIC, index := 0 } 131072
      = ncclTopoAddNic sampleHeader sampleNetSubs sampleOneNic
        { type := NodeType.NIC, index := 0 } 131072 ∧
      ncclTopoAddNic sampleHeader [sampleDevlessNet] sampleOneNic
        { type := NodeType.NIC, index := 0 } 131072 = Except.ok sampleOneNic) :=
  ⟨(addPci_skips_unidentified sampleHeader).1 sampleRanklessPci
      (ncclXmlNode.mk "gpu" [("sm", "90"), ("gcn", "910"), ("arch", "1"), ("dev", "0")] [])
      sampleOneCpu { type := NodeType.CPU, index := 0 } "0x030200" "0000:12:00.0" 73728
      (toOption_eq_some _ _ (by decide)) (toOption_eq_some _ _ (by decide))
      (toOption_eq_some _ _ (by decide)) rfl (by decide),
    (addPci_skips_unidentified sampleHeader).2.1 sampleDevlessNet sampleNetSubs sampleOneNic
      { type := NodeType.NIC, index := 0 } 131072 rfl (by decide)⟩

/-! ## The signature of a bridge and the test of the flattening pass -/

theorem and_signature_mask (sig : Nat) (hs : sig < 2 ^ 64) :
    sig &&& 0xfffffffffffff000 = 2 ^ 12 * (sig / 2 ^ 12) := by
  have hM : (0xfffffffffffff000 : Nat) = 2 ^ 12 * (2 ^ 52 - 1) := by norm_num
  rw [hM]
  apply Nat.eq_of_testBit_eq
  intro i
  rw [Nat.testBit_and, Nat.testBit_mul_pow_two, Nat.testBit_mul_pow_two,
    Nat.testBit_two_pow_sub_one, ← Nat.shiftRight_eq_div_pow, Nat.testBit_shiftRight]
  by_cases h12 : 12 ≤ i
  · have e : 12 + (i - 12) = i := by omega
    simp only [h12, decide_True, Bool.true_and, e]
    by_cases h64 : i < 64
    · have : i - 12 < 52 := by omega
      simp [this]
    · have hlt : sig < 2 ^ i :=
        lt_of_lt_of_le hs (Nat.pow_le_pow_right (by norm_num) (by omega))
      rw [Nat.testBit_lt_two_pow hlt]
      simp
  · simp [h12]

theorem isBcmGen4_iff (v d bv bd : Nat) (hv : v < 2 ^ 16) (hd : d < 2 ^ 16)
    (hbv : bv < 2 ^ 16) (hbd : bd < 2 ^ 16) :
    isBcmGen4 (v * 2 ^ 48 + d * 2 ^ 32 + bv * 2 ^ 16 + bd) = true ↔
      v = 0x1000 ∧ d = 0xc010 ∧ bv = 0x1000 ∧ 0xa000 ≤ bd ∧ bd ≤ 0xafff := by
  unfold isBcmGen4
  rw [and_signature_mask _ (by omega)]
  simp only [beq_iff_eq]
  constructor
  · intro h; omega
  · intro h; omega

theorem addDeviceField_eq (h : TopoHeader) (x : ncclXmlNode) (name str : String)
    (shift device v : Nat) (hx : xmlGetAttr x name = some str) (hv : h.strtol str = (v : Int))
    (hlt : device + v * 2 ^ shift < 2 ^ 64) :
    addDeviceField h x name shift device = device + v * 2 ^ shift := by
  unfold addDeviceField
  simp only [hx, hv]
  have e : ((device : Int) + (v : Int) * (2 ^ shift : Int))
      = ((device + v * 2 ^ shift : Nat) : Int) := by push_cast; rfl
  rw [e]
  have h2 : (((device + v * 2 ^ shift : Nat) : Int)) % (2 ^ 64 : Int)
      = ((device + v * 2 ^ shift : Nat) : Int) := by
    apply Int.emod_eq_of_lt (Int.ofNat_nonneg _)
    exact_mod_cast hlt
  rw [h2, Int.toNat_ofNat]

/-- C36: for a bridge entry whose `vendor`, `device`, `subsystem_vendor` and
`subsystem_device` attributes read as values below `2^16`, the signature `ncclTopoAddPci`
writes into the new (zeroed) PCI node is `vendor*2^48 + device*2^32 + subsystem_vendor*2^16 +
subsystem_device`; the test of the flattening pass holds for it exactly when vendor is 0x1000,
device 0xc010, subsystem_vendor 0x1000 and subsystem_device from 0xa000 to 0xafff; the
signature the pass writes, 0x1000c01010000000, fails the test. -/
theorem bridge_signature (h : TopoHeader) (x : ncclXmlNode) (sv sd sbv sbd : String)
    (v d bv bd : Nat) (id : Int) (index : Nat)
    (hsv : xmlGetAttr x "vendor" = some sv) (hsd : xmlGetAttr x "device" = some sd)
    (hsbv : xmlGetAttr x "subsystem_vendor" = some sbv)
    (hsbd : xmlGetAttr x "subsystem_device" = some sbd)
    (ev : h.strtol sv = (v : Int)) (ed : h.strtol sd = (d : Int))
    (ebv : h.strtol sbv = (bv : Int)) (ebd : h.strtol sbd = (bd : Int))
    (hv : v < 2 ^ 16) (hd : d < 2 ^ 16) (hbv : bv < 2 ^ 16) (hbd : bd < 2 ^ 16) :
    (setPciDevice h x (newNode h NodeType.PCI id index)).pci.device
      = v * 2 ^ 48 + d * 2 ^ 32 + bv * 2 ^ 16 + bd ∧
    (isBcmGen4 (setPciDevice h x (newNode h NodeType.PCI id index)).pci.device = true ↔
      v = 0x1000 ∧ d = 0xc010 ∧ bv = 0x1000 ∧ 0xa000 ≤ bd ∧ bd ≤ 0xafff) ∧
    flattenedDevice = 0x1000c01010000000 ∧ isBcmGen4 flattenedDevice = false := by
  have e : (setPciDevice h x (newNode h NodeType.PCI id index)).pci.device
      = v * 2 ^ 48 + d * 2 ^ 32 + bv * 2 ^ 16 + bd := by
    show pciDevice h x (newNode h NodeType.PCI id index).pci.device = _
    have h0 : (newNode h NodeType.PCI id index).pci.device = 0 := rfl
    rw [h0]
    unfold pciDevice
    rw [addDeviceField_eq h x "vendor" sv 48 0 v hsv ev (by omega),
      addDeviceField_eq h x "device" sd 32 _ d hsd ed (by omega),
      addDeviceField_eq h x "subsystem_vendor" sbv 16 _ bv hsbv ebv (by omega),
      addDeviceField_eq h x "subsystem_device" sbd 0 _ bd hsbd ebd (by omega)]
    omega
  refine ⟨e, ?_, rfl, by decide⟩
  rw [e]
  exact isBcmGen4_iff v d bv bd hv hd hbv hbd

theorem bridge_signature_witness :
    (setPciDevice sampleHeader (ncclXmlNode.mk "pci" sampleBcmAttrs [])
        (newNode sampleHeader NodeType.PCI 65536 0)).pci.device
      = 0x1000 * 2 ^ 48 + 0xc010 * 2 ^ 32 + 0x1000 * 2 ^ 16 + 0xa000 ∧
    isBcmGen4 (setPciDevice sampleHeader (ncclXmlNode.mk "pci" sampleBcmAttrs [])
        (newNode sampleHeader NodeType.PCI 65536 0)).pci.device = true :=
  ⟨(bridge_signature sampleHeader (ncclXmlNode.mk "pci" sampleBcmAttrs []) "0x1000" "0xc010"
      "0x1000" "0xa000" 0x1000 0xc010 0x1000 0xa000 65536 0 (by decide) (by decide) (by decide)
      (by decide) (by decide) (by decide) (by decide) (by decide) (by decide) (by decide)
      (by decide) (by decide)).1,
    (bridge_signature sampleHeader (ncclXmlNode.mk "pci" sampleBcmAttrs []) "0x1000" "0xc010"
      "0x1000" "0xa000" 0x1000 0xc010 0x1000 0xa000 65536 0 (by decide) (by decide) (by decide)
      (by decide) (by decide) (by decide) (by decide) (by decide) (by decide) (by decide)
      (by decide) (by decide)).2.1.mpr (by decide)⟩

/-! ## The rank list of a GPU node -/

/-- C37, counterexample: a pci entry whose "gpu" sub node has the `rank` attribute with the
empty value is accepted by `ncclTopoAddPci`, and the GPU node it makes has `nRanksPerGpu` 0. -/
theorem addGpu_empty_rank_list :
    (addPci sampleHeader (sampleGpuPci "0000:12:00.0" "" "0" []) sampleOneCpu
        { type := NodeType.CPU, index := 0 }).toOption.map
      (fun r => r.1.gpuNodes.map (fun n => (n.id, n.gpu.nRanksPerGpu))) = some [(73728, 0)] := by
  decide!

/-- C37, amended: `ncclTopoAddGpu` on a "gpu" node with the attributes `sm`, `gcn`, `arch`,
`rank`, `dev` and `gdr` succeeds; with the tokens of `rank` being the non-empty pieces between
commas, `nRanksPerGpu` is the number of tokens or `RCCL_TOPO_MAX_RANKS_PER_GPU`, whichever is
smaller (at least 1 exactly when there is a token and the bound is not 0), and the first
`nRanksPerGpu` entries of the rank array are the `atoi` values of the first tokens, in
order. -/
theorem addGpu_rank_list (h : TopoHeader) (xmlGpu : ncclXmlNode) (s : ncclTopoSystem)
    (gpu : NodeRef) (n0 : ncclTopoNode) (rankStr : String) (sm gcn arch dev gdr : Int)
    (hn : s.node? gpu = some n0) (hsm : xmlGetAttrInt h xmlGpu "sm" = Except.ok sm)
    (hgcn : xmlGetAttrInt h xmlGpu "gcn" = Except.ok gcn)
    (harch : xmlGetAttrInt h xmlGpu "arch" = Except.ok arch)
    (hrank : xmlGetAttrStr xmlGpu "rank" = Except.ok rankStr)
    (hdev : xmlGetAttrInt h xmlGpu "dev" = Except.ok dev)
    (hgdr : xmlGetAttrInt h xmlGpu "gdr" = Except.ok gdr) :
    ∃ s1 n1, ncclTopoAddGpu h xmlGpu s gpu = Except.ok s1 ∧ s1.node? gpu = some n1 ∧
      n1.gpu.nRanksPerGpu =
        ((min (rankTokens rankStr).length h.RCCL_TOPO_MAX_RANKS_PER_GPU : Nat) : Int) ∧
      n1.gpu.rank.take (min (rankTokens rankStr).length h.RCCL_TOPO_MAX_RANKS_PER_GPU) =
        ((rankTokens rankStr).take h.RCCL_TOPO_MAX_RANKS_PER_GPU).map h.atoi ∧
      (∀ i, i < min (rankTokens rankStr).length h.RCCL_TOPO_MAX_RANKS_PER_GPU →
        n1.gpu.rank[i]? = (rankTokens rankStr)[i]?.map h.atoi) ∧
      n1.gpu.nRanksPerGpu ≤ (h.RCCL_TOPO_MAX_RANKS_PER_GPU : Int) ∧
      (1 ≤ n1.gpu.nRanksPerGpu ↔
        rankTokens rankStr ≠ [] ∧ 0 < h.RCCL_TOPO_MAX_RANKS_PER_GPU) := by
  have hlen : (((rankTokens rankStr).take h.RCCL_TOPO_MAX_RANKS_PER_GPU).map h.atoi).length
      = min (rankTokens rankStr).length h.RCCL_TOPO_MAX_RANKS_PER_GPU := by
    rw [List.length_map, List.length_take, Nat.min_comm]
  have hinfo : ∃ info : GpuInfo, gpuInfoOf h xmlGpu n0.gpu = Except.ok info ∧
      info.nRanksPerGpu =
        ((min (rankTokens rankStr).length h.RCCL_TOPO_MAX_RANKS_PER_GPU : Nat) : Int) ∧
      info.rank = ((rankTokens rankStr).take h.RCCL_TOPO_MAX_RANKS_PER_GPU).map h.atoi ++
          n0.gpu.rank.drop
            (((rankTokens rankStr).take h.RCCL_TOPO_MAX_RANKS_PER_GPU).map h.atoi).length := by
    refine ⟨_, by
      unfold gpuInfoOf
      simp only [hsm, hgcn, harch, hrank, hdev, hgdr, bind, Except.bind]; rfl, ?_, rfl⟩
    simp only [hlen]
  obtain ⟨info, hinfo, hcount, hlist⟩ := hinfo
  have hmin1 := Nat.min_le_left (rankTokens rankStr).length h.RCCL_TOPO_MAX_RANKS_PER_GPU
  have hmin2 := Nat.min_le_right (rankTokens rankStr).length h.RCCL_TOPO_MAX_RANKS_PER_GPU
  refine ⟨s.modifyNode gpu (setGpu info), setGpu info n0, by
    simp only [ncclTopoAddGpu, hn, hinfo], by
    rw [node?_modifyNode]; simp only [if_true, hn, Option.map_some'], hcount, ?_, ?_, ?_, ?_⟩
  · show info.rank.take _ = _
    rw [hlist, ← hlen, List.take_left']
    rfl
  · intro i hi
    show info.rank[i]? = _
    rw [hlist, List.getElem?_append_left (by rw [hlen]; exact hi), List.getElem?_map,
      List.getElem?_take]
    have : i < h.RCCL_TOPO_MAX_RANKS_PER_GPU := lt_of_lt_of_le hi hmin2
    simp only [this, if_true]
  · show info.nRanksPerGpu ≤ _
    rw [hcount]
    exact_mod_cast hmin2
  · show 1 ≤ info.nRanksPerGpu ↔ _
    rw [hcount]
    constructor
    · intro h1
      have h2 : 1 ≤ min (rankTokens rankStr).length h.RCCL_TOPO_MAX_RANKS_PER_GPU := by
        exact_mod_cast h1
      refine ⟨fun e => ?_, by omega⟩
      rw [e] at h2
      simp at h2
    · rintro ⟨h1, h2⟩
      have h3 : 0 < (rankTokens rankStr).length := List.length_pos.mpr h1
      have : 1 ≤ min (rankTokens rankStr).length h.RCCL_TOPO_MAX_RANKS_PER_GPU :=
        Nat.le_min.mpr ⟨h3, h2⟩
      exact_mod_cast this

theorem addGpu_rank_list_witness :
    (sampleNoNetSystem.node? { type := NodeType.GPU, index := 0 } = some sampleRankedGpu ∧
      xmlGetAttrInt sampleHeader (sampleGpuSub "3,,4") "sm" = Except.ok 90 ∧
      xmlGetAttrInt sampleHeader (sampleGpuSub "3,,4") "gcn" = Except.ok 910 ∧
      xmlGetAttrInt sampleHeader (sampleGpuSub "3,,4") "arch" = Except.ok 1 ∧
      xmlGetAttrStr (sampleGpuSub "3,,4") "rank" = Except.ok "3,,4" ∧
      xmlGetAttrInt sampleHeader (sampleGpuSub "3,,4") "dev" = Except.ok 0 ∧
      xmlGetAttrInt sampleHeader (sampleGpuSub "3,,4") "gdr" = Except.ok 1) ∧
    ∃ s1 n1, ncclTopoAddGpu sampleHeader (sampleGpuSub "3,,4") sampleNoNetSystem
          { type := NodeType.GPU, index := 0 } = Except.ok s1 ∧
      s1.node? { type := NodeType.GPU, index := 0 } = some n1 ∧
      n1.gpu.nRanksPerGpu =
        ((min (rankTokens "3,,4").length sampleHeader.RCCL_TOPO_MAX_RANKS_PER_GPU : Nat) : Int) ∧
      n1.gpu.rank.take (min (rankTokens "3,,4").length sampleHeader.RCCL_TOPO_MAX_RANKS_PER_GPU) =
        ((rankTokens "3,,4").take sampleHeader.RCCL_TOPO_MAX_RANKS_PER_GPU).map sampleHeader.atoi ∧
      (∀ i, i < min (rankTokens "3,,4").length sampleHeader.RCCL_TOPO_MAX_RANKS_PER_GPU →
        n1.gpu.rank[i]? = (rankTokens "3,,4")[i]?.map sampleHeader.atoi) ∧
      n1.gpu.nRanksPerGpu ≤ (sampleHeader.RCCL_TOPO_MAX_RANKS_PER_GPU : Int) ∧
      (1 ≤ n1.gpu.nRanksPerGpu ↔
        rankTokens "3,,4" ≠ [] ∧ 0 < sampleHeader.RCCL_TOPO_MAX_RANKS_PER_GPU) :=
  ⟨⟨rfl, toOption_eq_some _ _ (by decide), toOption_eq_some _ _ (by decide),
      toOption_eq_some _ _ (by decide), toOption_eq_some _ _ (by decide),
      toOption_eq_some _ _ (by decide), toOption_eq_some _ _ (by decide)⟩,
    addGpu_rank_list sampleHeader (sampleGpuSub "3,,4") sampleNoNetSystem
      { type := NodeType.GPU, index := 0 } sampleRankedGpu "3,,4" 90 910 1 0 1 rfl
      (toOption_eq_some _ _ (by decide)) (toOption_eq_some _ _ (by decide))
      (toOption_eq_some _ _ (by decide)) (toOption_eq_some _ _ (by decide))
      (toOption_eq_some _ _ (by decide)) (toOption_eq_some _ _ (by decide))⟩

/-! ## The GPU a rank resolves to -/

theorem affinityScan_cpu (system : ncclTopoSystem) (rank : Int) (l : List ncclTopoNode) :
    ∀ (g : Nat) (st : Option Nat × Option Int),
      (affinityScan system rank l g st).map (fun r => r.2) = cpuScan system rank l st.2 := by
  induction l with
  | nil => intro g st; rfl
  | cons a l ih =>
    intro g st
    unfold affinityScan cpuScan
    split
    · cases closerCpuScan a (List.range (system.count NodeType.CPU)) (-1, 0) with
      | none => rfl
      | some c => exact ih (g + 1) _
    · exact ih (g + 1) st

/-- What the outer loops of `ncclTopoGetCpuAffinity` leave in `gpu` and `cpu`: nothing new
when no node of the list lists the rank, and otherwise the index of the last node that does
together with the Processor found for that node. -/
theorem affinityScan_last (system : ncclTopoSystem) (rank : Int) (l : List ncclTopoNode)
    (hpaths : ∀ gpu ∈ l, gpuHasRank gpu rank = true →
      (closerCpuScan gpu (List.range (system.count NodeType.CPU)) (-1, 0)).isSome) :
    ∀ (g : Nat) (st : Option Nat × Option Int),
      ((∀ gpu ∈ l, gpuHasRank gpu rank = false) ∧ affinityScan system rank l g st = some st) ∨
      ∃ i gpu c, l[i]? = some gpu ∧ gpuHasRank gpu rank = true ∧
        (∀ j gpu1, i < j → l[j]? = some gpu1 → gpuHasRank gpu1 rank = false) ∧
        closerCpuScan gpu (List.range (system.count NodeType.CPU)) (-1, 0) = some c ∧
        affinityScan system rank l g st = some (some (g + i), some c.1) := by
  induction l with
  | nil => intro g st; exact Or.inl ⟨fun _ h => absurd h (List.not_mem_nil _), rfl⟩
  | cons a l ih =>
    intro g st
    have ihl := ih (fun gpu hgpu => hpaths gpu (List.mem_cons_of_mem _ hgpu))
    by_cases ha : gpuHasRank a rank = true
    · have hsome := hpaths a (List.mem_cons_self _ _) ha
      obtain ⟨c, hc⟩ := Option.isSome_iff_exists.1 hsome
      have hstep : affinityScan system rank (a :: l) g st
          = affinityScan system rank l (g + 1) (some g, some c.1) := by
        simp only [affinityScan, ha, if_true, hc]
      rcases ihl (g + 1) (some g, some c.1) with ⟨hno, hres⟩ | ⟨i, gpu, c1, hi, hown, hlast, hc1, hres⟩
      · refine Or.inr ⟨0, a, c, List.getElem?_cons_zero, ha, ?_, hc, by rw [hstep, hres]; rfl⟩
        intro j gpu1 hj hgpu1
        obtain ⟨k, rfl⟩ : ∃ k, j = k + 1 := ⟨j - 1, by omega⟩
        rw [List.getElem?_cons_succ] at hgpu1
        exact hno gpu1 (List.getElem?_mem hgpu1)
      · refine Or.inr ⟨i + 1, gpu, c1, by rw [List.getElem?_cons_succ]; exact hi, hown, ?_, hc1, ?_⟩
        · intro j gpu1 hj hgpu1
          obtain ⟨k, rfl⟩ : ∃ k, j = k + 1 := ⟨j - 1, by omega⟩
          rw [List.getElem?_cons_succ] at hgpu1
          exact hlast k gpu1 (by omega) hgpu1
        · rw [hstep, hres]
          have : g + 1 + i = g + (i + 1) := by omega
          rw [this]
    · have ha0 : gpuHasRank a rank = false := by simpa using ha
      have hstep : affinityScan system rank (a :: l) g st
          = affinityScan system rank l (g + 1) st := by
        simp only [affinityScan, ha0]
        rfl
      rcases ihl (g + 1) st with ⟨hno, hres⟩ | ⟨i, gpu, c1, hi, hown, hlast, hc1, hres⟩
      · refine Or.inl ⟨?_, by rw [hstep, hres]⟩
        intro gpu hgpu
        rcases List.mem_cons.1 hgpu with rfl | hgpu
        · exact ha0
        · exact hno gpu hgpu
      · refine Or.inr ⟨i + 1, gpu, c1, by rw [List.getElem?_cons_succ]; exact hi, hown, ?_, hc1, ?_⟩
        · intro j gpu1 hj hgpu1
          obtain ⟨k, rfl⟩ : ∃ k, j = k + 1 := ⟨j - 1, by omega⟩
          rw [List.getElem?_cons_succ] at hgpu1
          exact hlast k gpu1 (by omega) hgpu1
        · rw [hstep, hres]
          have : g + 1 + i = g + (i + 1) := by omega
          rw [this]

/-- C40, counterexample: in a topology whose two GPUs both list rank 0, `ncclTopoGetLocalRank`
returns the index 0 of the first one, while the loops of `ncclTopoGetCpuAffinity` end with
`gpu` at index 1 and with the Processor closest to that second GPU (index 1, mask 0b1100); the
Processor closest to the first GPU has index 0. -/
theorem rank_lookups_disagree_on_shared_rank :
    ncclTopoGetLocalRank sampleSharedRankSystem 0 = Except.ok 0 ∧
    affinityScan sampleSharedRankSystem 0 sampleSharedRankSystem.gpuNodes 0 (none, none)
      = some (some 1, some 1) ∧
    ncclTopoGetCpuAffinity sampleAffinityEnv sampleSharedRankSystem 0
      = some (ncclResult_t.ncclSuccess, some 4) ∧
    sampleSharedRankSystem.gpuNodes.map
        (fun gpu => closerCpuScan gpu (List.range (sampleSharedRankSystem.count NodeType.CPU))
          (-1, 0))
      = [some (0, 1), some (1, 1)] := by
  refine ⟨toOption_eq_some _ _ (by decide), by decide, by decide, by decide⟩

/-- C40, amended: for every topology and every rank listed by at least one GPU (the path
tables of the GPUs listing it having an entry for every Processor), `ncclTopoGetLocalRank`
returns the lowest index of a GPU listing the rank, and the GPU whose hop counts decide the
Processor of `ncclTopoGetCpuAffinity` is the one of highest index listing the rank; they are
the same GPU node when exactly one GPU lists the rank. -/
theorem rank_lookups_first_and_last (system : ncclTopoSystem) (rank : Int)
    (hown : ∃ gpu ∈ system.gpuNodes, gpuHasRank gpu rank = true)
    (hpaths : ∀ gpu ∈ system.gpuNodes, gpuHasRank gpu rank = true →
      (closerCpuScan gpu (List.range (system.count NodeType.CPU)) (-1, 0)).isSome) :
    ∃ (first last : Nat) (gpu0 gpu1 : ncclTopoNode) (c : Int × Int),
      ncclTopoGetLocalRank system rank = Except.ok (first : Int) ∧
      affinityScan system rank system.gpuNodes 0 (none, none) = some (some last, some c.1) ∧
      cpuScan system rank system.gpuNodes none = some (some c.1) ∧
      closerCpuScan gpu1 (List.range (system.count NodeType.CPU)) (-1, 0) = some c ∧
      system.gpuNodes[first]? = some gpu0 ∧ gpuHasRank gpu0 rank = true ∧
      system.gpuNodes[last]? = some gpu1 ∧ gpuHasRank gpu1 rank = true ∧
      (∀ (j : Nat) gpu, system.gpuNodes[j]? = some gpu → gpuHasRank gpu rank = true →
        first ≤ j ∧ j ≤ last) ∧
      ((∀ (i j : Nat) a b, system.gpuNodes[i]? = some a → system.gpuNodes[j]? = some b →
          gpuHasRank a rank = true → gpuHasRank b rank = true → i = j) →
        first = last ∧ gpu0 = gpu1) := by
  obtain ⟨gpu, hgpu, hg⟩ := hown
  have hfind : system.gpuNodes.findIdx (fun gpu => gpuHasRank gpu rank)
      < system.gpuNodes.length := List.findIdx_lt_length_of_exists ⟨gpu, hgpu, hg⟩
  have hfirst := @List.findIdx_getElem _ (fun gpu => gpuHasRank gpu rank) system.gpuNodes hfind
  rcases affinityScan_last system rank system.gpuNodes hpaths 0 (none, none) with
    ⟨hno, -⟩ | ⟨i, gpu1, c, hi, hown1, hlast, hc, hres⟩
  · rw [hno gpu hgpu] at hg
    cases hg
  rw [Nat.zero_add] at hres
  refine ⟨_, i, _, gpu1, c, by simp only [ncclTopoGetLocalRank, hfind, if_true], hres, ?_, hc,
    List.getElem?_eq_getElem hfind, hfirst, hi, hown1, ?_, ?_⟩
  · have := affinityScan_cpu system rank system.gpuNodes 0 (none, none)
    rw [hres] at this
    exact this.symm
  · intro j a hj ha
    constructor
    · by_contra hc1
      have hlt : j < system.gpuNodes.findIdx (fun gpu => gpuHasRank gpu rank) := not_le.1 hc1
      have := @List.not_of_lt_findIdx _ (fun gpu => gpuHasRank gpu rank) system.gpuNodes j hlt
      have hjl : j < system.gpuNodes.length := lt_trans hlt hfind
      rw [List.getElem?_eq_getElem hjl] at hj
      cases hj
      simp only [Bool.not_eq_true] at this
      rw [this] at ha
      cases ha
    · by_contra hc1
      rw [hlast j a (not_le.1 hc1) hj] at ha
      cases ha
  · intro huniq
    have := huniq _ i _ gpu1 (List.getElem?_eq_getElem hfind) hi hfirst hown1
    refine ⟨this, ?_⟩
    have h2 := List.getElem?_eq_getElem hfind
    have h3 : system.gpuNodes[system.gpuNodes.findIdx (fun gpu => gpuHasRank gpu rank)]?
        = some gpu1 := by rw [this]; exact hi
    rw [h3] at h2
    exact (Option.some.inj h2).symm

theorem rank_lookups_first_and_last_witness :
    ((∃ gpu ∈ sampleAffinitySystem.gpuNodes, gpuHasRank gpu 0 = true) ∧
      (∀ gpu ∈ sampleAffinitySystem.gpuNodes, gpuHasRank gpu 0 = true →
        (closerCpuScan gpu (List.range (sampleAffinitySystem.count NodeType.CPU))
          (-1, 0)).isSome)) ∧
    ∃ (first last : Nat) (gpu0 gpu1 : ncclTopoNode) (c : Int × Int),
      ncclTopoGetLocalRank sampleAffinitySystem 0 = Except.ok (first : Int) ∧
      affinityScan sampleAffinitySystem 0 sampleAffinitySystem.gpuNodes 0 (none, none)
        = some (some last, some c.1) ∧
      cpuScan sampleAffinitySystem 0 sampleAffinitySystem.gpuNodes none = some (some c.1) ∧
      closerCpuScan gpu1 (List.range (sampleAffinitySystem.count NodeType.CPU)) (-1, 0)
        = some c ∧
      sampleAffinitySystem.gpuNodes[first]? = some gpu0 ∧ gpuHasRank gpu0 0 = true ∧
      sampleAffinitySystem.gpuNodes[last]? = some gpu1 ∧ gpuHasRank gpu1 0 = true ∧
      (∀ (j : Nat) gpu, sampleAffinitySystem.gpuNodes[j]? = some gpu → gpuHasRank gpu 0 = true →
        first ≤ j ∧ j ≤ last) ∧
      ((∀ (i j : Nat) a b, sampleAffinitySystem.gpuNodes[i]? = some a →
          sampleAffinitySystem.gpuNodes[j]? = some b →
          gpuHasRank a 0 = true → gpuHasRank b 0 = true → i = j) →
        first = last ∧ gpu0 = gpu1) :=
  ⟨⟨⟨_, List.mem_cons_self _ _, by decide⟩, by decide⟩,
    rank_lookups_first_and_last sampleAffinitySystem 0
      ⟨_, List.mem_cons_self _ _, by decide⟩ (by decide)⟩

/-! ## The candidate array of `ncclTopoGetLocalNet` -/

theorem localNetStep_nets (st : LocalNetScan) (id : Int) (path : ncclTopoLinkList) :
    (localNetStep st id path).nets.length ≤ st.nets.length + 1 ∧
    ∀ x ∈ (localNetStep st id path).nets, x ∈ st.nets ∨ x = id := by
  unfold localNetStep
  by_cases hb : path.width > st.maxWidth ∨ (path.width = st.maxWidth ∧ path.type < st.minType)
  · simp only [hb, if_true, and_self, List.nil_append, List.length_singleton,
      List.mem_singleton]
    exact ⟨by omega, fun x hx => Or.inr hx⟩
  · simp only [hb, if_false]
    split
    · simp only [List.length_append, List.length_singleton, List.mem_append, List.mem_singleton]
      exact ⟨le_refl _, fun x hx => hx⟩
    · exact ⟨by omega, fun x hx => Or.inl hx⟩

/-- The scan of `ncclTopoGetLocalNet` adds at most one candidate per Network-port, and every
candidate it adds is the id of a Network-port it has visited. -/
theorem localNetScan_nets (g : Nat) (nets : List ncclTopoNode) :
    ∀ st st1, localNetScan g nets st = some st1 →
      st1.nets.length ≤ st.nets.length + nets.length ∧
      ∀ x ∈ st1.nets, x ∈ st.nets ∨ ∃ n ∈ nets, n.id = x := by
  induction nets with
  | nil =>
    intro st st1 h
    simp only [localNetScan, Option.some.injEq] at h
    subst h
    exact ⟨by simp, fun x hx => Or.inl hx⟩
  | cons n rest ih =>
    intro st st1 h
    unfold localNetScan at h
    cases hp : pathToGpu n g with
    | none => simp [hp] at h
    | some p =>
      simp only [hp] at h
      obtain ⟨h1, h2⟩ := ih _ _ h
      obtain ⟨h3, h4⟩ := localNetStep_nets st n.id p
      refine ⟨by rw [List.length_cons]; omega, ?_⟩
      intro x hx
      rcases h2 x hx with hx | ⟨m, hm, hmx⟩
      · rcases h4 x hx with hx | hx
        · exact Or.inl hx
        · exact Or.inr ⟨n, List.mem_cons_self _ _, hx.symm⟩
      · exact Or.inr ⟨m, List.mem_cons_of_mem _ hm, hmx⟩

/-- C39: when the rank resolves to GPU `g` and every Network-port has a path entry towards
`g`, the scan of `ncclTopoGetLocalNet` has, after any number `k` of Network-ports, at most
`k` candidates, so never more than there are Network-ports (the size of `nets`); every
candidate is the id of a Network-port; and when the final count is positive and the device
index of the GPU is not negative, the index `rr % count` lies in `[0, count)`, the read
`nets[rr % count]` finds a candidate, and the call returns success with that id, which is the
id of a Network-port of the topology. -/
theorem getLocalNet_candidates_in_bounds (system : ncclTopoSystem) (rank : Int) (g : Nat)
    (hg : ncclTopoRankToIndex system rank = Except.ok g)
    (hpaths : ∀ n ∈ system.netNodes, (pathToGpu n g).isSome) :
    (∀ k, ∃ stk, localNetScan g (system.netNodes.take k)
          { minType := PATH_SYS, maxWidth := 0, nets := [] } = some stk ∧
        stk.nets.length ≤ k ∧ stk.nets.length ≤ system.count NodeType.NET) ∧
    ∃ st gpu, localNetScan g system.netNodes
          { minType := PATH_SYS, maxWidth := 0, nets := [] } = some st ∧
      system.gpuNodes[g]? = some gpu ∧
      st.nets.length ≤ system.count NodeType.NET ∧
      (∀ id ∈ st.nets, ∃ n ∈ system.netNodes, n.id = id) ∧
      (0 < st.nets.length → 0 ≤ gpu.gpu.dev →
        0 ≤ Int.tmod gpu.gpu.dev st.nets.length ∧
        Int.tmod gpu.gpu.dev st.nets.length < st.nets.length ∧
        Int.tmod gpu.gpu.dev st.nets.length = gpu.gpu.dev % (st.nets.length : Int) ∧
        ∃ id, st.nets[(Int.tmod gpu.gpu.dev st.nets.length).toNat]? = some id ∧
          ncclTopoGetLocalNet system rank = some (Except.ok id) ∧
          ∃ n ∈ system.netNodes, n.id = id) := by
  have hgl : g < system.gpuNodes.length := by
    unfold ncclTopoRankToIndex at hg
    simp only at hg
    split at hg
    · rename_i hlt
      cases hg
      exact hlt
    · cases hg
  constructor
  · intro k
    have hsub : ∀ n ∈ system.netNodes.take k, (pathToGpu n g).isSome :=
      fun n hn => hpaths n (List.mem_of_mem_take hn)
    have hscan := localNetScan_eq g (system.netNodes.take k)
      { minType := PATH_SYS, maxWidth := 0, nets := [] } hsub
    obtain ⟨h1, -⟩ := localNetScan_nets g _ _ _ hscan
    simp only [List.length_nil, Nat.zero_add, List.length_take] at h1
    refine ⟨_, hscan, le_trans h1 (Nat.min_le_left _ _), le_trans h1 (Nat.min_le_right _ _)⟩
  have hscan := localNetScan_eq g system.netNodes
    { minType := PATH_SYS, maxWidth := 0, nets := [] } hpaths
  obtain ⟨h1, h2⟩ := localNetScan_nets g _ _ _ hscan
  simp only [List.length_nil, Nat.zero_add] at h1
  have hmem : ∀ id ∈ (scanPaths { minType := PATH_SYS, maxWidth := 0, nets := [] }
      (netPaths system.netNodes g)).nets, ∃ n ∈ system.netNodes, n.id = id := by
    intro id hid
    rcases h2 id hid with hx | hx
    · exact absurd hx (List.not_mem_nil _)
    · exact hx
  refine ⟨_, system.gpuNodes[g], hscan, List.getElem?_eq_getElem hgl, h1, hmem, ?_⟩
  intro hpos hdev
  generalize hst : scanPaths { minType := PATH_SYS, maxWidth := 0, nets := [] }
      (netPaths system.netNodes g) = st at hscan hmem hpos ⊢
  have hlen : (0 : Int) < (st.nets.length : Int) := by exact_mod_cast hpos
  have htm : Int.tmod system.gpuNodes[g].gpu.dev st.nets.length
      = system.gpuNodes[g].gpu.dev % (st.nets.length : Int) :=
    Int.tmod_eq_emod hdev (le_of_lt hlen)
  have h0 : 0 ≤ system.gpuNodes[g].gpu.dev % (st.nets.length : Int) :=
    Int.emod_nonneg _ (ne_of_gt hlen)
  have h3 : system.gpuNodes[g].gpu.dev % (st.nets.length : Int) < st.nets.length :=
    Int.emod_lt_of_pos _ hlen
  have hnat : (system.gpuNodes[g].gpu.dev % (st.nets.length : Int)).toNat < st.nets.length := by
    omega
  refine ⟨by rw [htm]; exact h0, by rw [htm]; exact h3, htm, st.nets[(system.gpuNodes[g].gpu.dev
    % (st.nets.length : Int)).toNat], by rw [htm]; exact List.getElem?_eq_getElem hnat, ?_,
    hmem _ (List.getElem_mem _)⟩
  unfold ncclTopoGetLocalNet
  simp only [hg, hscan]
  have hne : ¬ (st.nets.length = 0) := by omega
  simp only [hne, if_false, List.getElem?_eq_getElem hgl, htm]
  have hnn : ¬ (system.gpuNodes[g].gpu.dev % (st.nets.length : Int) < 0) := by omega
  simp only [hnn, if_false, List.getElem?_eq_getElem hnat]

theorem getLocalNet_candidates_in_bounds_witness :
    (ncclTopoRankToIndex sampleNetSystem 0 = Except.ok 0 ∧
      ∀ n ∈ sampleNetSystem.netNodes, (pathToGpu n 0).isSome) ∧
    (∀ k, ∃ stk, localNetScan 0 (sampleNetSystem.netNodes.take k)
          { minType := PATH_SYS, maxWidth := 0, nets := [] } = some stk ∧
        stk.nets.length ≤ k ∧ stk.nets.length ≤ sampleNetSystem.count NodeType.NET) ∧
    ∃ st gpu, localNetScan 0 sampleNetSystem.netNodes
          { minType := PATH_SYS, maxWidth := 0, nets := [] } = some st ∧
      sampleNetSystem.gpuNodes[0]? = some gpu ∧
      st.nets.length ≤ sampleNetSystem.count NodeType.NET ∧
      (∀ id ∈ st.nets, ∃ n ∈ sampleNetSystem.netNodes, n.id = id) ∧
      (0 < st.nets.length → 0 ≤ gpu.gpu.dev →
        0 ≤ Int.tmod gpu.gpu.dev st.nets.length ∧
        Int.tmod gpu.gpu.dev st.nets.length < st.nets.length ∧
        Int.tmod gpu.gpu.dev st.nets.length = gpu.gpu.dev % (st.nets.length : Int) ∧
        ∃ id, st.nets[(Int.tmod gpu.gpu.dev st.nets.length).toNat]? = some id ∧
          ncclTopoGetLocalNet sampleNetSystem 0 = some (Except.ok id) ∧
          ∃ n ∈ sampleNetSystem.netNodes, n.id = id) :=
  ⟨⟨by rfl, by decide⟩,
    getLocalNet_candidates_in_bounds sampleNetSystem 0 0 (by rfl) (by decide)⟩

/-! ## `ncclTopoRemoveNode` on an array of any kind -/

theorem removeNode_nodes_map (s : ncclTopoSystem) (type : NodeType) (index : Nat)
    (t : NodeType) :
    (ncclTopoRemoveNode s type index).nodes t =
      (if t = type then (s.nodes t).eraseIdx index else s.nodes t).map
        (unlinkNode { type := type, index := index }) := by
  rw [removeNode_nodes]
  apply List.ext_getElem?
  intro j
  by_cases ht : t = type
  · simp only [ht, if_true, List.getElem?_map, List.getElem?_eraseIdx]
    unfold unlinkAll
    by_cases hlt : j < index
    · simp only [hlt, if_true, List.getElem?_mapIdx]
      cases (s.nodes type)[j]? with
      | none => rfl
      | some n =>
        have : ¬ j = index := by omega
        simp [this]
    · simp only [hlt, if_false, List.getElem?_mapIdx]
      cases (s.nodes type)[j + 1]? with
      | none => rfl
      | some n =>
        have : ¬ j + 1 = index := by omega
        simp [this]
  · simp only [ht, if_false, List.getElem?_map]
    unfold unlinkAll
    rw [List.getElem?_mapIdx]
    cases (s.nodes t)[j]? with
    | none => rfl
    | some n => simp [ht]

theorem node?_removeNode_any (s : ncclTopoSystem) (type : NodeType) (index : Nat) (r : NodeRef)
    (hne : r ≠ { type := type, index := index }) :
    (ncclTopoRemoveNode s type index).node? (shiftRef { type := type, index := index } r)
      = (s.node? r).map (unlinkNode { type := type, index := index }) := by
  have hty : (shiftRef { type := type, index := index } r).type = r.type := by
    unfold shiftRef
    split_ifs <;> rfl
  unfold ncclTopoSystem.node?
  rw [hty, removeNode_nodes_map, List.getElem?_map]
  congr 1
  by_cases ht : r.type = type
  · have hri : r.index ≠ index := by
      intro h
      apply hne
      cases r with
      | mk rt ri => simp only at ht h; rw [ht, h]
    simp only [ht, if_true, List.getElem?_eraseIdx]
    unfold shiftRef
    by_cases hle : index ≤ r.index
    · have h1 : ¬ r.index - 1 < index := by omega
      have h2 : r.index - 1 + 1 = r.index := by omega
      simp only [ht, hle, and_self, if_true, h1, if_false, h2]
    · have h1 : r.index < index := by omega
      simp only [ht, hle, and_false, if_false, h1, if_true]
  · unfold shiftRef
    simp only [ht, if_false, false_and]

theorem count_removeNode_any (s : ncclTopoSystem) (type : NodeType) (index : Nat)
    (hi : index < s.count type) (t : NodeType) :
    (ncclTopoRemoveNode s type index).count t =
      if t = type then s.count t - 1 else s.count t := by
  unfold ncclTopoSystem.count at hi ⊢
  rw [removeNode_nodes_map, List.length_map]
  split_ifs with ht
  · rw [List.length_eraseIdx]
    simp [ht, hi]
  · rfl

theorem shiftRef_unshift (del r1 : NodeRef) :
    ∃ r, r ≠ del ∧ shiftRef del r = r1 := by
  by_cases h : r1.type = del.type ∧ del.index ≤ r1.index
  · refine ⟨{ type := r1.type, index := r1.index + 1 }, ?_, ?_⟩
    · intro e
      have := congrArg NodeRef.index e
      simp only at this
      omega
    · unfold shiftRef
      have : del.index ≤ r1.index + 1 := by omega
      simp only [h.1, this, and_self, if_true, Nat.add_sub_cancel]
      rw [← h.1]
  · refine ⟨r1, ?_, ?_⟩
    · intro e
      apply h
      rw [e]
      exact ⟨rfl, le_refl _⟩
    · unfold shiftRef
      simp only [h, if_false]

/-- C33: on a topology whose nodes have their live links inside the arrays,
`ncclTopoRemoveNode(system, type, index)` with `index < count` lowers the count of `type` by
exactly one and keeps every other count; the array of `type` is the old one without the node
at `index` and every other array is the old one, node by node and in the same order, with only
the members `links` and `nlinks` of a node rewritten; every node afterwards is a surviving node;
the live links of a surviving node are its old live links without those to the removed node, in
order, each with its kind and width and pointing to where its old target now is, which is a
node with the same id, kind and other members as the old target. -/
theorem removeNode_keeps_other_links (s : ncclTopoSystem) (type : NodeType) (index : Nat)
    (hg : WeakGood s) (hi : index < s.count type) :
    (ncclTopoRemoveNode s type index).count type + 1 = s.count type ∧
    (∀ t, t ≠ type → (ncclTopoRemoveNode s type index).count t = s.count t) ∧
    (∀ t, (ncclTopoRemoveNode s type index).nodes t =
      (if t = type then (s.nodes t).eraseIdx index else s.nodes t).map
        (unlinkNode { type := type, index := index })) ∧
    (∀ n : ncclTopoNode, { unlinkNode { type := type, index := index } n with
        links := n.links, nlinks := n.nlinks } = n) ∧
    (∀ r1 n1, (ncclTopoRemoveNode s type index).node? r1 = some n1 →
      ∃ r n, r ≠ { type := type, index := index } ∧ s.node? r = some n ∧
        shiftRef { type := type, index := index } r = r1 ∧
        n1 = unlinkNode { type := type, index := index } n) ∧
    (∀ r n, r ≠ { type := type, index := index } → s.node? r = some n →
      (shiftRef { type := type, index := index } r).type = r.type ∧
      (shiftRef { type := type, index := index } r).index
        = (if r.type = type ∧ index < r.index then r.index - 1 else r.index) ∧
      ∃ n1, (ncclTopoRemoveNode s type index).node?
            (shiftRef { type := type, index := index } r) = some n1 ∧
        n1.id = n.id ∧ n1.type = n.type ∧
        n1.live = (n.live.filter
            (fun l => decide (l.remNode ≠ { type := type, index := index }))).map
          (shiftLink { type := type, index := index }) ∧
        ∀ l ∈ n.live, l.remNode ≠ { type := type, index := index } →
          (shiftLink { type := type, index := index } l).type = l.type ∧
          (shiftLink { type := type, index := index } l).width = l.width ∧
          ∃ m m1, s.node? l.remNode = some m ∧
            (ncclTopoRemoveNode s type index).node?
              (shiftLink { type := type, index := index } l).remNode = some m1 ∧
            m1.id = m.id ∧ m1.type = m.type ∧
            m1 = unlinkNode { type := type, index := index } m) := by
  have hcount := count_removeNode_any s type index hi
  refine ⟨?_, ?_, removeNode_nodes_map s type index, fun n => rfl, ?_, ?_⟩
  · have := hcount type
    simp only [if_true] at this
    omega
  · intro t ht
    have := hcount t
    simp only [ht, if_false] at this
    exact this
  · intro r1 n1 h1
    obtain ⟨r, hr, hrs⟩ := shiftRef_unshift { type := type, index := index } r1
    rw [← hrs, node?_removeNode_any s type index r hr] at h1
    cases hn : s.node? r with
    | none => rw [hn] at h1; cases h1
    | some n =>
      rw [hn] at h1
      exact ⟨r, n, hr, hn, hrs, (Option.some.inj h1).symm⟩
  · intro r n hr hn
    obtain ⟨w1, -, w3⟩ := weakGood_node? s hg r n hn
    refine ⟨?_, ?_, unlinkNode { type := type, index := index } n, ?_, rfl, rfl,
      (unlinkNode_live _ n w1).2, ?_⟩
    · unfold shiftRef
      split_ifs <;> rfl
    · unfold shiftRef
      by_cases hc : r.type = type ∧ index ≤ r.index
      · have hlt : index < r.index := by
          rcases Nat.lt_or_eq_of_le hc.2 with h | h
          · exact h
          · exfalso
            apply hr
            cases r with
            | mk rt ri =>
              simp only at hc h
              rw [hc.1, ← h]
        simp only [hc, and_self, if_true, hlt]
      · have hc2 : ¬ (r.type = type ∧ index < r.index) := fun h => hc ⟨h.1, le_of_lt h.2⟩
        simp only [hc, if_false, hc2]
    · rw [node?_removeNode_any s type index r hr, hn]
      rfl
    · intro l hl hld
      obtain ⟨e1, e2, e3⟩ := shiftLink_remNode { type := type, index := index } l
      obtain ⟨m, hm⟩ := (valid_iff_node? s l.remNode).1 (w3 l hl)
      refine ⟨e2, e3, m, unlinkNode { type := type, index := index } m, hm, ?_, rfl, rfl, rfl⟩
      rw [e1, node?_removeNode_any s type index l.remNode hld, hm]
      rfl

theorem removeNode_keeps_other_links_witness :
    (WeakGood sampleTwoLevelBuilt ∧ 0 < sampleTwoLevelBuilt.count NodeType.GPU) ∧
    (ncclTopoRemoveNode sampleTwoLevelBuilt NodeType.GPU 0).count NodeType.GPU + 1
      = sampleTwoLevelBuilt.count NodeType.GPU ∧
    (∀ t, t ≠ NodeType.GPU →
      (ncclTopoRemoveNode sampleTwoLevelBuilt NodeType.GPU 0).count t
        = sampleTwoLevelBuilt.count t) ∧
    (∀ t, (ncclTopoRemoveNode sampleTwoLevelBuilt NodeType.GPU 0).nodes t =
      (if t = NodeType.GPU then (sampleTwoLevelBuilt.nodes t).eraseIdx 0
        else sampleTwoLevelBuilt.nodes t).map
        (unlinkNode { type := NodeType.GPU, index := 0 })) :=
  have hg : WeakGood sampleTwoLevelBuilt :=
    weakGood_of_good _ (built_good sampleHeader _ _ _ _
      (buildGraph_built sampleHeader 10 sampleTwoLevelTree _ sampleTwoLevelBuilt_eq) good_empty)
  have hi : 0 < sampleTwoLevelBuilt.count NodeType.GPU := by decide!
  have h := removeNode_keeps_other_links sampleTwoLevelBuilt NodeType.GPU 0 hg hi
  ⟨⟨hg, hi⟩, h.1, h.2.1, h.2.2.1⟩

/-! ## The restarts of `ncclTopoFlattenBcmSwitches` -/

theorem matchingCount_keys (s : ncclTopoSystem) :
    matchingCount s = ((pciKeys s).filter (fun kd => isBcmGen4 kd.2)).length := by
  unfold matchingCount pciKeys
  rw [List.filter_map, List.length_map]
  rfl

theorem count_keys (s : ncclTopoSystem) : s.count NodeType.PCI = (pciKeys s).length := by
  unfold pciKeys ncclTopoSystem.count
  rw [List.length_map]

theorem matching_eraseIdx (K : List (Int × Nat)) :
    ∀ i, ((K.eraseIdx i).filter (fun kd => isBcmGen4 kd.2)).length
        ≤ (K.filter (fun kd => isBcmGen4 kd.2)).length ∧
      ∀ kd, K[i]? = some kd → isBcmGen4 kd.2 = true →
        ((K.eraseIdx i).filter (fun kd => isBcmGen4 kd.2)).length + 1
          = (K.filter (fun kd => isBcmGen4 kd.2)).length := by
  induction K with
  | nil => intro i; exact ⟨le_refl _, fun kd h => by simp at h⟩
  | cons a K ih =>
    intro i
    cases i with
    | zero =>
      simp only [List.eraseIdx_cons_zero, List.getElem?_cons_zero, Option.some.injEq]
      constructor
      · rw [List.filter_cons]
        split <;> simp
      · intro kd hkd hm
        rw [← hkd] at hm
        rw [List.filter_cons, if_pos hm, List.length_cons]
    | succ i =>
      obtain ⟨h1, h2⟩ := ih i
      simp only [List.eraseIdx_cons_succ, List.getElem?_cons_succ, List.filter_cons]
      constructor
      · split
        · simp only [List.length_cons]; omega
        · exact h1
      · intro kd hkd hm
        have := h2 kd hkd hm
        split
        · simp only [List.length_cons]; omega
        · exact this

theorem matching_modify (K : List (Int × Nat)) :
    ∀ i, ((K.modify (fun kd => (kd.1, flattenedDevice)) i).filter
          (fun kd => isBcmGen4 kd.2)).length
        ≤ (K.filter (fun kd => isBcmGen4 kd.2)).length ∧
      ∀ kd, K[i]? = some kd → isBcmGen4 kd.2 = true →
        ((K.modify (fun kd => (kd.1, flattenedDevice)) i).filter
            (fun kd => isBcmGen4 kd.2)).length + 1
          = (K.filter (fun kd => isBcmGen4 kd.2)).length := by
  have hflat : isBcmGen4 flattenedDevice = false := by decide
  induction K with
  | nil => intro i; exact ⟨by simp, fun kd h => by simp at h⟩
  | cons a K ih =>
    intro i
    cases i with
    | zero =>
      have hz : List.modify (fun kd : Int × Nat => (kd.1, flattenedDevice)) 0 (a :: K)
          = (a.1, flattenedDevice) :: K := rfl
      rw [hz]
      have hf : ((a.1, flattenedDevice) :: K).filter (fun kd => isBcmGen4 kd.2)
          = K.filter (fun kd => isBcmGen4 kd.2) := by
        rw [List.filter_cons]
        simp only [hflat, Bool.false_eq_true, if_false]
      rw [hf]
      constructor
      · rw [List.filter_cons]
        split <;> simp
      · intro kd hkd hm
        simp only [List.getElem?_cons_zero, Option.some.injEq] at hkd
        rw [← hkd] at hm
        rw [List.filter_cons, if_pos hm, List.length_cons]
    | succ i =>
      obtain ⟨h1, h2⟩ := ih i
      simp only [List.modify_succ_cons, List.getElem?_cons_succ, List.filter_cons]
      constructor
      · split
        · simp only [List.length_cons]; omega
        · exact h1
      · intro kd hkd hm
        have := h2 kd hkd hm
        split
        · simp only [List.length_cons]; omega
        · exact this

/-- The loop over the saved ids in `ncclTopoFlattenBcmSwitches`: every id removes one PCI
node with that id, and no node gets a signature it did not have. -/
theorem fuseFold_keys (p : NodeRef) :
    ∀ (ids : List Int) (x s2 : ncclTopoSystem), ids.foldlM (fuseSub p) x = Except.ok s2 →
      (pciKeys s2).length + ids.length = (pciKeys x).length ∧
      ((pciKeys s2).filter (fun kd => isBcmGen4 kd.2)).length
        ≤ ((pciKeys x).filter (fun kd => isBcmGen4 kd.2)).length ∧
      ((∀ id ∈ ids, ∀ d, (id, d) ∈ pciKeys x → isBcmGen4 d = true) →
        ((pciKeys s2).filter (fun kd => isBcmGen4 kd.2)).length + ids.length
          = ((pciKeys x).filter (fun kd => isBcmGen4 kd.2)).length) := by
  intro ids
  induction ids with
  | nil =>
    intro x s2 hr
    simp only [List.foldlM, pure, Except.pure, Except.ok.injEq] at hr
    rw [← hr]
    exact ⟨rfl, le_refl _, fun _ => rfl⟩
  | cons id ids ih =>
    intro x s2 hr
    simp only [List.foldlM, bind, Except.bind] at hr
    split at hr
    · exact absurd hr (by simp)
    · rename_i x1 hx1
      obtain ⟨i, d, hi, he, -⟩ := fuseSub_keys p x x1 id hx1
      obtain ⟨h1, h2, h3⟩ := ih x1 s2 hr
      obtain ⟨hil, -⟩ := List.getElem?_eq_some_iff.1 hi
      obtain ⟨m1, m2⟩ := matching_eraseIdx (pciKeys x) i
      rw [he] at h1 h2 h3
      rw [List.length_eraseIdx, if_pos hil] at h1
      refine ⟨by rw [List.length_cons]; omega, le_trans h2 m1, ?_⟩
      intro hall
      have hd : isBcmGen4 d = true := hall id (List.mem_cons_self _ _) d (List.getElem?_mem hi)
      have h4 := h3 (fun id1 hid1 d1 hd1 =>
        hall id1 (List.mem_cons_of_mem _ hid1) d1 ((List.eraseIdx_sublist _ _).subset hd1))
      have h5 := m2 (id, d) hi hd
      rw [List.length_cons]
      omega

theorem collectSubs_not_fuel (s : ncclTopoSystem) (device : Nat) :
    ∀ (k l : Nat) (links : List ncclTopoLink) (nlinks : Nat) (subs : List Int),
      collectSubs s device k l links nlinks subs ≠ Except.error Failure.fuel := by
  intro k
  induction k with
  | zero => intro l links nlinks subs; simp [collectSubs]
  | succ k ih =>
    intro l links nlinks subs
    unfold collectSubs
    split_ifs
    · split
      · simp
      · split
        · simp
        · split_ifs
          · exact ih _ _ _ _
          · exact ih _ _ _ _
    · simp

theorem foldlM_error_ne {α β ε : Type} (f : β → α → Except ε β) (e0 : ε)
    (hf : ∀ b a, f b a ≠ Except.error e0) :
    ∀ (l : List α) (b : β), l.foldlM f b ≠ Except.error e0 := by
  intro l
  induction l with
  | nil => intro b; simp [List.foldlM, pure, Except.pure]
  | cons a l ih =>
    intro b
    simp only [List.foldlM, bind, Except.bind]
    split
    · rename_i e he
      intro h
      simp only [Except.error.injEq] at h
      rw [h] at he
      exact hf b a he
    · exact ih _

theorem spliceStep_not_fuel (p c : NodeRef) (s : ncclTopoSystem) (l : Nat) :
    spliceStep p c s l ≠ Except.error Failure.fuel := by
  unfold spliceStep
  split
  · simp
  · split
    · simp
    · split_ifs
      · simp
      · simp only
        split <;> simp

theorem fuseSub_not_fuel (p : NodeRef) (s : ncclTopoSystem) (id : Int) :
    fuseSub p s id ≠ Except.error Failure.fuel := by
  unfold fuseSub
  simp only [bind, Except.bind]
  split
  · rename_i e he
    unfold ncclTopoIdToIndex at he
    simp only at he
    split_ifs at he
    simp only [Except.error.injEq] at he
    rw [← he]
    simp
  · split
    · simp
    · split
      · rename_i e he
        intro h
        simp only [Except.error.injEq] at h
        rw [h] at he
        exact foldlM_error_ne _ _ (fun b a => spliceStep_not_fuel _ _ b a) _ _ he
      · split
        · simp
        · split_ifs <;> simp

theorem flattenSwitch_not_fuel (sys : ncclTopoSystem) (s : Nat) (P : ncclTopoNode) :
    flattenSwitch sys s P ≠ Except.error Failure.fuel := by
  unfold flattenSwitch
  simp only [bind, Except.bind]
  split
  · rename_i e he
    intro h
    simp only [Except.error.injEq] at h
    rw [h] at he
    exact collectSubs_not_fuel _ _ _ _ _ _ _ he
  · split
    · rename_i e he
      intro h
      simp only [Except.error.injEq] at h
      rw [h] at he
      exact foldlM_error_ne _ _ (fun b a => fuseSub_not_fuel _ b a) _ _ he
    · simp

/-- One flattening, on the ids and signatures of the PCI nodes: the node at the scan index is
rewritten when no sub switch was found, at least one node is removed otherwise, and no node
gets a matching signature. -/
theorem flattenSwitch_measure (sys sys1 : ncclTopoSystem) (s : Nat) (P : ncclTopoNode)
    (hP : sys.pciNodes[s]? = some P) (hm : isBcmGen4 P.pci.device = true)
    (hres : flattenSwitch sys s P = Except.ok sys1) :
    sys1.count NodeType.PCI ≤ sys.count NodeType.PCI ∧
    matchingCount sys1 ≤ matchingCount sys ∧
    (sys1.count NodeType.PCI < sys.count NodeType.PCI ∨
      (matchingCount sys1 + 1 = matchingCount sys ∧
        pciKeys sys1 = (pciKeys sys).modify (fun kd => (kd.1, flattenedDevice)) s)) ∧
    (TypedNodes sys → ((pciKeys sys).map Prod.fst).Nodup →
      matchingCount sys1 < matchingCount sys) := by
  have hPk : (pciKeys sys)[s]? = some (P.id, P.pci.device) := by
    unfold pciKeys
    have hP1 : (sys.nodes NodeType.PCI)[s]? = some P := hP
    rw [List.getElem?_map, hP1]
    rfl
  unfold flattenSwitch at hres
  simp only [bind, Except.bind] at hres
  split at hres
  · exact absurd hres (by simp)
  · rename_i r hr
    split at hres
    · exact absurd hres (by simp)
    · rename_i s2 hfold
      simp only [Except.ok.injEq] at hres
      obtain ⟨k1, -⟩ := pciKeys_modifyNode sys { type := NodeType.PCI, index := s }
        (fun n => { n with links := r.1, nlinks := r.2.1 }) (fun n => ⟨rfl, rfl, rfl⟩)
      obtain ⟨f1, f2, f3⟩ := fuseFold_keys _ _ _ _ hfold
      rw [k1] at f1 f2 f3
      obtain ⟨m1, m2⟩ := matching_modify (pciKeys s2) s
      have hk1 : pciKeys sys1 = (pciKeys s2).modify (fun kd => (kd.1, flattenedDevice)) s := by
        rw [← hres, pciKeys_setDevice]
      have hlen1 : (pciKeys sys1).length = (pciKeys s2).length := by
        rw [hk1, List.length_modify]
      rw [count_keys, count_keys, matchingCount_keys, matchingCount_keys, hk1]
      rw [hk1] at hlen1
      refine ⟨by omega, le_trans m1 f2, ?_, ?_⟩
      · cases hids : r.2.2 with
        | nil =>
          rw [hids] at hfold
          simp only [List.foldlM, pure, Except.pure, Except.ok.injEq] at hfold
          right
          rw [← hfold, k1]
          exact ⟨(matching_modify (pciKeys sys) s).2 _ hPk hm, rfl⟩
        | cons id rest =>
          left
          rw [hids, List.length_cons] at f1
          omega
      · intro ht hn
        cases hids : r.2.2 with
        | nil =>
          rw [hids] at hfold
          simp only [List.foldlM, pure, Except.pure, Except.ok.injEq] at hfold
          rw [← hfold, k1]
          have := (matching_modify (pciKeys sys) s).2 _ hPk hm
          omega
        | cons id rest =>
          have hall : ∀ id ∈ r.2.2, ∀ d, (id, d) ∈ pciKeys sys → isBcmGen4 d = true := by
            intro id1 hid1 d hd
            have hin := collectSubs_ids sys P.pci.device ht _ _ _ _ _ r hr
              (fun id hid => by simp at hid) id1 hid1
            rw [keys_unique _ hn id1 d P.pci.device hd hin]
            exact hm
          have := f3 hall
          rw [hids, List.length_cons] at this
          omega

/-- The outer loop of `ncclTopoFlattenBcmSwitches` ends within a budget that the number of
PCI nodes and the number of matching signatures bound. -/
theorem flattenLoop_budget (N : Nat) :
    ∀ (k s : Nat) (sys : ncclTopoSystem), sys.count NodeType.PCI ≤ N →
      (sys.count NodeType.PCI + matchingCount sys) * (N + 1)
        + (sys.count NodeType.PCI - s) + 1 ≤ k →
      flattenLoop k s sys ≠ Except.error Failure.fuel := by
  intro k
  induction k with
  | zero => intro s sys _ hk; omega
  | succ k ih =>
    intro s sys hN hk
    simp only [flattenLoop]
    split_ifs with hlt
    · split
      · simp
      · rename_i P hP
        split_ifs with hmatch
        · split
          · rename_i e he
            intro h
            simp only [Except.error.injEq] at h
            rw [h] at he
            exact flattenSwitch_not_fuel _ _ _ he
          · rename_i sys1 h1
            obtain ⟨c1, c2, c3, -⟩ := flattenSwitch_measure sys sys1 s P hP hmatch h1
            apply ih 1 sys1 (le_trans c1 hN)
            have hmu : sys1.count NodeType.PCI + matchingCount sys1 + 1
                ≤ sys.count NodeType.PCI + matchingCount sys := by
              rcases c3 with c3 | c3
              · omega
              · omega
            have hmul := Nat.mul_le_mul_right (N + 1) hmu
            rw [Nat.add_mul, Nat.one_mul] at hmul
            omega
        · apply ih (s + 1) sys hN
          omega
    · simp

/-- C34, counterexample: in the graph the builder makes of `sampleStaleTree` the PCI nodes
have the ids 77824, 65536, 73728, 77824, of which the second and the fourth match. The
flattening of the switch at index 1, which precedes a restart, removes the node at index 0
(the first with the id saved for the sub switch) and writes the signature 0x1000c01010000000
into the node with id 73728, which did not match: the switch (id 65536) and its sub switch
(id 77824) keep their matching signatures, and the number of matching PCI nodes is 2 before
and 2 after. -/
theorem flatten_restart_keeps_matching_count :
    buildGraph sampleHeader 10 sampleStaleTree = Except.ok sampleStaleBuilt ∧
    pciSignatures sampleStaleBuilt
      = [(77824, 1162514206958949507, false), (65536, 1153132679827333120, true),
         (73728, 1162514206958949507, false), (77824, 1153132679827333120, true)] ∧
    flattenSwitch sampleStaleBuilt 1 (pciNodeAt sampleStaleBuilt 1)
      = Except.ok sampleStaleFused ∧
    (∀ k, flattenLoop (k + 2) 0 sampleStaleBuilt = flattenLoop k 1 sampleStaleFused) ∧
    pciSignatures sampleStaleFused
      = [(65536, 1153132679827333120, true), (73728, 1153132679827292160, false),
         (77824, 1153132679827333120, true)] ∧
    matchingCount sampleStaleBuilt = 2 ∧ matchingCount sampleStaleFused = 2 := by
  have hb : buildGraph sampleHeader 10 sampleStaleTree = Except.ok sampleStaleBuilt :=
    toOption_eq_some _ _ (by decide!)
  have hf : flattenSwitch sampleStaleBuilt 1 (pciNodeAt sampleStaleBuilt 1)
      = Except.ok sampleStaleFused := toOption_eq_some _ _ (by decide!)
  refine ⟨hb, by decide!, hf, ?_, by decide!, by decide!, by decide!⟩
  intro k
  have h0 : sampleStaleBuilt.pciNodes[0]?.map (fun n => isBcmGen4 n.pci.device)
      = some false := by decide!
  have h1 : sampleStaleBuilt.pciNodes[1]? = some (pciNodeAt sampleStaleBuilt 1) := by decide!
  have h2 : isBcmGen4 (pciNodeAt sampleStaleBuilt 1).pci.device = true := by decide!
  have hc : sampleStaleBuilt.count NodeType.PCI = 4 := by decide!
  cases hn0 : sampleStaleBuilt.pciNodes[0]? with
  | none => rw [hn0] at h0; cases h0
  | some n0 =>
    rw [hn0] at h0
    simp only [Option.map_some', Option.some.injEq] at h0
    simp only [flattenLoop, hc, hn0, h0, h1, h2, hf, Nat.zero_lt_succ, if_true,
      Bool.false_eq_true, if_false, Nat.lt_add_one, Nat.one_lt_ofNat, Nat.zero_add]

/-- A flattening that does not end: in the graph the builder makes of `sampleSelfIdTree` the
matching switch and its sub switch have the same id, the id saved for the sub switch is
found at the switch itself, and the loop over `sub->nlinks` appends to the links it runs
over. -/
theorem flatten_self_id_undefined :
    buildGraph sampleHeader 10 sampleSelfIdTree = Except.ok sampleSelfIdBuilt ∧
    pciSignatures sampleSelfIdBuilt
      = [(65536, 1153132679827333120, true), (65536, 1153132679827333120, true)] ∧
    ∀ k, ncclTopoFlattenBcmSwitches (k + 1) sampleSelfIdBuilt
      = Except.error Failure.undefined := by
  refine ⟨toOption_eq_some _ _ (by decide!), by decide!, ?_⟩
  intro k
  have hc : sampleSelfIdBuilt.count NodeType.PCI = 2 := by decide!
  have h1 : sampleSelfIdBuilt.pciNodes[0]? = some (pciNodeAt sampleSelfIdBuilt 0) := by decide!
  have h2 : isBcmGen4 (pciNodeAt sampleSelfIdBuilt 0).pci.device = true := by decide!
  have hf : (flattenSwitch sampleSelfIdBuilt 0 (pciNodeAt sampleSelfIdBuilt 0)).toOption
      = none := by decide!
  have hnf := flattenSwitch_not_fuel sampleSelfIdBuilt 0 (pciNodeAt sampleSelfIdBuilt 0)
  have hcode : ∀ c, flattenSwitch sampleSelfIdBuilt 0 (pciNodeAt sampleSelfIdBuilt 0)
      ≠ Except.error (Failure.code c) := by
    intro c hcd
    have : ((flattenSwitch sampleSelfIdBuilt 0 (pciNodeAt sampleSelfIdBuilt 0)) matches
        Except.error (Failure.code _)) = false := by decide!
    rw [hcd] at this
    cases this
  simp only [ncclTopoFlattenBcmSwitches, flattenLoop, hc, h1, h2, Nat.zero_lt_succ, if_true]
  cases hx : flattenSwitch sampleSelfIdBuilt 0 (pciNodeAt sampleSelfIdBuilt 0) with
  | ok v => rw [hx] at hf; cases hf
  | error e =>
    cases e with
    | code c => exact absurd hx (hcode c)
    | undefined => rfl
    | fuel => exact absurd hx hnf

/-- C34, amended: on every topology the outer loop of `ncclTopoFlattenBcmSwitches` restarts
only finitely often. A flattening of the matching node at the scan index that returns is
followed by the restart at index 1; it leaves no more PCI nodes and no more matching
signatures than before, and it either removes at least one PCI node or rewrites the signature
of the node at the scan index to 0x1000c01010000000, which does not match, so the number of
PCI nodes plus the number of matching PCI nodes strictly decreases between restarts; when the
PCI ids are pairwise distinct the number of matching PCI nodes itself strictly decreases. With
a budget of `(count + matching) * (count + 1) + count + 1` iterations the outer loop does not
run out of budget. -/
theorem flatten_restarts_bounded (sys : ncclTopoSystem) :
    (∀ s P sys1, sys.pciNodes[s]? = some P → isBcmGen4 P.pci.device = true →
      flattenSwitch sys s P = Except.ok sys1 →
      (∀ k, flattenLoop (k + 1) s sys = flattenLoop k 1 sys1) ∧
      sys1.count NodeType.PCI ≤ sys.count NodeType.PCI ∧
      matchingCount sys1 ≤ matchingCount sys ∧
      (sys1.count NodeType.PCI < sys.count NodeType.PCI ∨
        (matchingCount sys1 + 1 = matchingCount sys ∧
          pciKeys sys1 = (pciKeys sys).modify (fun kd => (kd.1, flattenedDevice)) s)) ∧
      sys1.count NodeType.PCI + matchingCount sys1
        < sys.count NodeType.PCI + matchingCount sys ∧
      (TypedNodes sys → (sys.pciNodes.map (fun n => n.id)).Nodup →
        matchingCount sys1 < matchingCount sys)) ∧
    isBcmGen4 flattenedDevice = false ∧
    ∀ k, (sys.count NodeType.PCI + matchingCount sys) * (sys.count NodeType.PCI + 1)
        + sys.count NodeType.PCI + 1 ≤ k →
      ncclTopoFlattenBcmSwitches k sys ≠ Except.error Failure.fuel := by
  refine ⟨?_, by decide, ?_⟩
  · intro s P sys1 hP hm hres
    obtain ⟨c1, c2, c3, c4⟩ := flattenSwitch_measure sys sys1 s P hP hm hres
    have hlt : s < sys.count NodeType.PCI := (List.getElem?_eq_some_iff.1 hP).1
    refine ⟨?_, c1, c2, c3, ?_, ?_⟩
    · intro k
      simp only [flattenLoop, hlt, if_true, hP, hm, hres]
    · rcases c3 with c3 | c3
      · omega
      · omega
    · intro ht hn
      apply c4 ht
      unfold pciKeys
      rw [List.map_map]
      exact hn
  · intro k hk
    exact flattenLoop_budget (sys.count NodeType.PCI) k 0 sys (le_refl _) (by omega)

theorem flatten_restarts_bounded_witness :
    (sampleBcmBuilt.pciNodes[0]? = some (pciNodeAt sampleBcmBuilt 0) ∧
      isBcmGen4 (pciNodeAt sampleBcmBuilt 0).pci.device = true ∧
      (sampleBcmBuilt.count NodeType.PCI + matchingCount sampleBcmBuilt)
          * (sampleBcmBuilt.count NodeType.PCI + 1)
        + sampleBcmBuilt.count NodeType.PCI + 1 ≤ 15) ∧
    ncclTopoFlattenBcmSwitches 15 sampleBcmBuilt ≠ Except.error Failure.fuel ∧
    ncclTopoFlattenBcmSwitches 15 sampleBcmBuilt = Except.ok sampleBcmFlat ∧
    (matchingCount sampleBcmBuilt, matchingCount sampleBcmFlat) = (2, 0) :=
  ⟨⟨by decide!, by decide!, by decide!⟩,
    (flatten_restarts_bounded sampleBcmBuilt).2.2 15 (by decide!),
    toOption_eq_some _ _ (by decide!), by decide!⟩

/-! ## The Path summaries of the path computation -/

/-- C7, counterexample: a pci entry with a GPU that declares `link_width` 20000000 and
`link_speed` "16 GT/s PCIe" (rate 120) yields a node; the product 20000000 * 120 is
2400000000, outside the range of `int`, the multiplication gives -1894967296, and the two PCI
links have width -1894967296 / 80, not 20000000 * 120 / 80 = 30000000. -/
theorem addPci_wide_entry_wraps :
    (addPci sampleHeader sampleWideGpuEntry sampleOneCpu
        { type := NodeType.CPU, index := 0 }).toOption.map
      (fun r => (r.2,
        linksFrom r.1 { type := NodeType.GPU, index := 0 } { type := NodeType.CPU, index := 0 }
          LINK_PCI,
        linksFrom r.1 { type := NodeType.CPU, index := 0 } { type := NodeType.GPU, index := 0 }
          LINK_PCI))
      = some (some { type := NodeType.GPU, index := 0 },
          [{ type := LINK_PCI, width := -1894967296 / 80,
             remNode := { type := NodeType.CPU, index := 0 } }],
          [{ type := LINK_PCI, width := -1894967296 / 80,
             remNode := { type := NodeType.GPU, index := 0 } }]) ∧
    xmlGetAttrInt sampleHeader sampleWideGpuEntry "link_width" = Except.ok 20000000 ∧
    kvConvertToInt "16 GT/s PCIe" kvDictPciGen 60 = 120 ∧
    (((20000000 * 120 : Int) : ℚ) / 80 = 30000000) ∧
    ((-1894967296 : ℚ) / 80 ≠ 30000000) := by
  refine ⟨by decide!, toOption_eq_some _ _ (by decide), by decide, by norm_num, by norm_num⟩

/-! ## Links of the builder: one of a kind between two nodes -/

theorem linksFrom_connect_length (s : ncclTopoSystem) (hg : GoodSystem s) (x y a b : NodeRef)
    (t' t : Nat) (w : ℚ) :
    (linksFrom (s.connect x y t' w) a b t).length ≤ max 1 (linksFrom s a b t).length := by
  unfold linksFrom
  rw [node?_connect]
  by_cases ha : a = x
  · subst ha
    cases hx : s.node? a with
    | none => simp
    | some n =>
      have hwf := (good_node? s hg a n hx).1
      simp only [if_true, Option.map_some']
      rw [live_of_wf _ (connect_wf n y t' w hwf), live_of_wf n hwf, connect_countTo]
      split_ifs
      · exact le_max_left _ _
      · exact le_max_right _ _
  · simp [ha]

theorem links_connect_mem (node : ncclTopoNode) (r : NodeRef) (t : Nat) (w : ℚ)
    (l : ncclTopoLink) (hl : l ∈ (ncclTopoConnectNodes node r t w).links) :
    l.remNode = r ∨ l ∈ node.links := by
  have hp := (connect_links_perm node r t w).subset hl
  rcases List.mem_cons.1 hp with h | h
  · left; rw [h]
  · right
    rcases List.mem_append.1 h with h | h
    · exact List.mem_of_mem_take h
    · exact List.mem_of_mem_drop h

theorem simpleLinks_connect (s : ncclTopoSystem) (hg : GoodSystem s) (x y : NodeRef)
    (t : Nat) (w : ℚ) (hxy : x ≠ y ∨ x.type = NodeType.GPU) (hs : SimpleLinks s) :
    SimpleLinks (s.connect x y t w) := by
  obtain ⟨h1, h2⟩ := hs
  constructor
  · intro a b k
    exact le_trans (linksFrom_connect_length s hg x y a b t k w) (max_le (le_refl 1) (h1 a b k))
  · intro a n hna hn l hl
    rw [node?_connect] at hn
    split_ifs at hn with hax
    · subst hax
      cases hx : s.node? a with
      | none => rw [hx] at hn; cases hn
      | some m =>
        rw [hx] at hn
        simp only [Option.map_some', Option.some.injEq] at hn
        rw [← hn] at hl
        rcases links_connect_mem m y t w l hl with h | h
        · rw [h]
          rcases hxy with hxy | hxy
          · exact fun e => hxy e.symm
          · exact absurd hxy hna
        · exact h2 a m hna hx l h
    · exact h2 a n hna hn l hl

/-- The graph of the builder has at most one live link of a kind between two nodes, and only
GPUs have links to themselves. -/
theorem checked_simpleLinks (h : TopoHeader) (W : ℚ → Prop) (s s1 : ncclTopoSystem)
    (hb : CheckedBuilt h W s s1) (hg : GoodSystem s) (hs : SimpleLinks s) :
    SimpleLinks s1 := by
  induction hb with
  | refl => exact hs
  | @tail s2 s3 hb2 hstep ih =>
    have hg2 := checked_good h W s s2 hb2 hg
    cases hstep with
    | create k id _ r hc _ _ =>
      obtain ⟨hnv, hv1, hmono⟩ := createNode_valid h s2 s3 k id r hc
      obtain ⟨hr, -⟩ := createNode_ok h s2 s3 k id r hc
      have hnode := createNode_node? h s2 s3 k id r hc
      constructor
      · intro a b t
        by_cases ha : s2.valid a
        · rw [linksFrom_create h s2 s3 k id r hc a b t ha]
          exact ih.1 a b t
        · unfold linksFrom
          rw [hnode]
          split_ifs with har
          · simp only
            have hlive : (newNode h k id (s2.count k)).live.length ≤ 1 := by
              cases k <;> simp [newNode, ncclTopoNode.live]
            exact le_trans (List.length_filter_le _ _) hlive
          · cases hx : s2.node? a with
            | none => simp
            | some n => exact absurd ((valid_iff_node? s2 a).2 ⟨n, hx⟩) ha
      · intro a n hna hn l hl
        rw [hnode] at hn
        split_ifs at hn with har
        · simp only [Option.some.injEq] at hn
          rw [← hn] at hl
          rw [har, hr] at hna
          simp only at hna
          cases k with
          | GPU => exact absurd rfl hna
          | PCI => simp [newNode] at hl
          | NVS => simp [newNode] at hl
          | CPU => simp [newNode] at hl
          | NIC => simp [newNode] at hl
          | NET => simp [newNode] at hl
        · exact ih.2 a n hna hn l hl
    | attrs r f hf =>
      constructor
      · intro a b t
        rw [linksFrom_modify_attrs s2 r a b t f
          (fun n => ⟨(hf n).1, (hf n).2.1, (hf n).2.2.1⟩)]
        exact ih.1 a b t
      · intro a n hna hn l hl
        rw [node?_modifyNode] at hn
        split_ifs at hn with har
        · cases hx : s2.node? r with
          | none => rw [hx] at hn; cases hn
          | some m =>
            rw [hx] at hn
            simp only [Option.map_some', Option.some.injEq] at hn
            rw [← hn, (hf m).1] at hl
            exact ih.2 a m hna (by rw [har]; exact hx) l hl
        · exact ih.2 a n hna hn l hl
    | link2 a b t w ha hbv hne _ =>
      unfold ncclTopoSystem.connectBoth
      exact simpleLinks_connect _ (good_connect s2 a b t w hg2 hbv) b a t w (Or.inl hne.symm)
        (simpleLinks_connect s2 hg2 a b t w (Or.inl hne) ih)
    | link1 a b w _ _ hgpu _ =>
      exact simpleLinks_connect s2 hg2 a b LINK_NVL w (Or.inr hgpu) ih

theorem simpleLinks_empty : SimpleLinks {} := by
  constructor
  · intro a b t
    rw [linksFrom_of_not_valid]
    · exact Nat.zero_le _
    · rcases a with ⟨t, i⟩
      cases t <;> simp [ncclTopoSystem.valid, ncclTopoSystem.count, ncclTopoSystem.nodes]
  · intro a n _ hn
    exfalso
    rcases a with ⟨t, i⟩
    cases t <;> simp [ncclTopoSystem.node?, ncclTopoSystem.nodes] at hn

/-! ## The flattening pass keeps links balanced -/

theorem countP_modify_findIdx {α : Type} (f : α → α) (q : α → Bool)
    (hf : ∀ x, q x = true → q (f x) = false) (L : List α) :
    (L.modify f (L.findIdx q)).countP q = L.countP q - 1 := by
  induction L with
  | nil => rfl
  | cons a L ih =>
    by_cases ha : q a = true
    · have : List.findIdx q (a :: L) = 0 := by simp [List.findIdx_cons, ha]
      rw [this, List.modify_zero_cons, List.countP_cons_of_neg _ _ (by simp [hf a ha]),
        List.countP_cons_of_pos _ _ ha]
      omega
    · have : List.findIdx q (a :: L) = List.findIdx q L + 1 := by
        simp [List.findIdx_cons, ha]
      rw [this, List.modify_succ_cons, List.countP_cons_of_neg _ _ ha,
        List.countP_cons_of_neg _ _ ha]
      exact ih

theorem countP_append_singleton {α : Type} (q : α → Bool) (L : List α) (x : α) :
    (L ++ [x]).countP q = L.countP q + if q x = true then 1 else 0 := by
  rw [List.countP_append]
  by_cases h : q x = true
  · simp [h]
  · simp [h]

/-- One iteration of the splice loop keeps the bookkeeping of redirected links. -/
theorem spliceStep_count (s0 : ncclTopoSystem) (p c : NodeRef) (Cn Pn : ncclTopoNode)
    (seen : List ncclTopoLink) (s s1 : ncclTopoSystem) (l : Nat) (link : ncclTopoLink)
    (hcp : c ≠ p) (hinv : SpliceInv s0 p c Cn Pn seen s)
    (hres : spliceStep p c s l = Except.ok s1) (hlink : Cn.links[l]? = some link)
    (htot : SpliceCount s0 p c seen s) : SpliceCount s0 p c (seen ++ [link]) s1 := by
  obtain ⟨hgood, -, hsub, -, -, -⟩ := hinv
  unfold spliceStep at hres
  rw [hsub] at hres
  simp only [hlink] at hres
  split_ifs at hres with hskip
  · simp only [Except.ok.injEq] at hres
    rw [← hres]
    intro r hrp n n1 hn hn1
    rw [htot r hrp n n1 hn hn1, countP_append_singleton]
    have : goesTo r link = false := by
      unfold goesTo
      rw [hskip]
      simpa using Ne.symm hrp
    simp [this]
  · split at hres
    · exact absurd hres (by simp)
    · rename_i Xa hXa
      simp only [Except.ok.injEq] at hres
      rw [← hres]
      have hXs : s.node? link.remNode = some Xa := by
        rw [node?_modifyNode, if_neg hskip] at hXa
        exact hXa
      obtain ⟨wx1, -, -⟩ := weakGood_node? s hgood _ Xa hXs
      obtain ⟨-, -, r3⟩ := redirectFirst_live c p Xa wx1
      intro r hrp n n1 hn hn1
      rw [countP_append_singleton]
      by_cases hrX : r = link.remNode
      · subst hrX
        rw [node?_modifyNode, if_pos rfl, hXa] at hn1
        simp only [Option.map_some', Option.some.injEq] at hn1
        rw [← hn1, r3]
        have hc := countP_modify_findIdx (redirectLink p) (goesTo c)
          (fun x _ => by
            unfold goesTo redirectLink
            simpa using Ne.symm hcp) Xa.live
        have hg : goesTo link.remNode link = true := by simp [goesTo]
        have h1 := htot _ hrp n Xa hn hXs
        unfold goesTo at hc hg h1 ⊢
        rw [hc, h1, if_pos hg, Nat.sub_sub]
      · rw [node?_modifyNode, if_neg hrX, node?_modifyNode, if_neg hrp] at hn1
        rw [htot r hrp n n1 hn hn1]
        have : goesTo r link = false := by
          unfold goesTo
          simpa using Ne.symm hrX
        simp [this]

theorem spliceLoop_count (s0 : ncclTopoSystem) (p c : NodeRef) (Cn Pn : ncclTopoNode)
    (hcp : c ≠ p) (hself : ∀ y ∈ Cn.live, y.remNode ≠ c) (ls : List Nat) :
    ∀ (seen : List ncclTopoLink) (s s1 : ncclTopoSystem), (∀ l ∈ ls, l < Cn.nlinks) →
      SpliceInv s0 p c Cn Pn seen s → SpliceCount s0 p c seen s →
      ls.foldlM (spliceStep p c) s = Except.ok s1 →
      SpliceInv s0 p c Cn Pn (seen ++ ls.filterMap (fun l => Cn.links[l]?)) s1 ∧
        SpliceCount s0 p c (seen ++ ls.filterMap (fun l => Cn.links[l]?)) s1 := by
  induction ls with
  | nil =>
    intro seen s s1 _ hinv htot hres
    simp only [List.foldlM, pure, Except.pure, Except.ok.injEq] at hres
    rw [← hres]
    simpa using ⟨hinv, htot⟩
  | cons l ls ih =>
    intro seen s s1 hls hinv htot hres
    simp only [List.foldlM, bind, Except.bind] at hres
    split at hres
    · exact absurd hres (by simp)
    · rename_i sa ha
      obtain ⟨link, hlink, hinv1⟩ := spliceStep_inv s0 p c Cn Pn seen s sa l hcp hself
        (hls l (List.mem_cons_self _ _)) hinv ha
      have htot1 := spliceStep_count s0 p c Cn Pn seen s sa l link hcp hinv ha hlink htot
      have := ih (seen ++ [link]) sa s1 (fun x hx => hls x (List.mem_cons_of_mem _ hx)) hinv1
        htot1 hres
      simpa [List.filterMap_cons, hlink, List.append_assoc] using this

/-- Fusing one sub switch, with the bookkeeping of redirected links. -/
theorem fuseSub_count (s s2 : ncclTopoSystem) (p c : NodeRef) (Cn Pn : ncclTopoNode) (id : Int)
    (hg : WeakGood s) (hn : ((pciKeys s).map Prod.fst).Nodup) (hcp : c ≠ p)
    (hct : c.type = NodeType.PCI) (hC : s.node? c = some Cn) (hid : Cn.id = id)
    (hP : s.node? p = some Pn) (hself : ∀ y ∈ Cn.live, y.remNode ≠ c)
    (hres : fuseSub p s id = Except.ok s2) :
    ∃ s1, SpliceInv s p c Cn Pn Cn.live s1 ∧ SpliceCount s p c Cn.live s1 ∧
      s2 = ncclTopoRemoveNode s1 NodeType.PCI c.index := by
  unfold fuseSub at hres
  simp only [bind, Except.bind] at hres
  split at hres
  · exact absurd hres (by simp)
  · rename_i i hi
    obtain ⟨d, hd⟩ := idToIndex_spec s id i hi
    have hci := pciKeys_getElem? s c Cn hct hC
    rw [hid] at hci
    have hic : i = c.index := keys_index_unique _ hn _ _ id _ _ hd hci
    subst hic
    rw [← ref_eq_of_pci c hct] at hres
    rw [hC] at hres
    simp only at hres
    split at hres
    · exact absurd hres (by simp)
    · rename_i s1 hfold
      split at hres
      · exact absurd hres (by simp)
      · split_ifs at hres
        simp only [Except.ok.injEq] at hres
        have hw := (weakGood_node? s hg c Cn hC).1
        have := spliceLoop_count s p c Cn Pn hcp hself (List.range Cn.nlinks) [] s s1
          (fun l hl => List.mem_range.1 hl) (spliceInv_init s p c Cn Pn hg hC hP)
          (fun r _ n n1 h0 h1 => by
            rw [h0] at h1
            simp only [Option.some.injEq] at h1
            rw [h1]
            simp) hfold
        rw [range_filterMap_getElem? _ _ hw] at this
        refine ⟨s1, ?_, ?_, hres.symm⟩
        · simpa [ncclTopoNode.live] using this.1
        · simpa [ncclTopoNode.live] using this.2

theorem forall₂_redirected_all (c p : NodeRef) (L1 L : List ncclTopoLink)
    (hf : List.Forall₂ (Redirected c p) L1 L) (h0 : L1.countP (goesTo c) = 0) :
    L1 = L.map (redirectAll c p) := by
  induction hf with
  | nil => rfl
  | @cons a b l1 l2 hab _ ih =>
    have ha : goesTo c a = false := by
      by_contra hx
      simp only [Bool.not_eq_false] at hx
      rw [List.countP_cons_of_pos _ _ hx] at h0
      omega
    rw [List.countP_cons_of_neg _ _ (by simp [ha])] at h0
    rw [List.map_cons, ← ih h0]
    congr 1
    unfold goesTo at ha
    simp only [decide_eq_false_iff_not] at ha
    rcases hab with rfl | ⟨hb, rfl⟩
    · unfold redirectAll
      rw [if_neg ha]
    · unfold redirectAll
      rw [if_pos hb]

theorem linksTo_length (L : List ncclTopoLink) (b : NodeRef) (t : Nat) :
    (linksTo L b t).length = L.countP (linkIs b t) := by
  unfold linksTo
  rw [List.countP_eq_length_filter]

/-- Two link lists with as many links of every kind to `a` as to `b` have as many links to
`a` as to `b`. -/
theorem countP_goesTo_of_kinds (L1 L2 : List ncclTopoLink) (a b : NodeRef)
    (h : ∀ t, (linksTo L1 a t).length = (linksTo L2 b t).length) :
    L1.countP (goesTo a) = L2.countP (goesTo b) := by
  have key : ∀ (L : List ncclTopoLink) (r : NodeRef) (t : Nat),
      List.count t ((L.filter (goesTo r)).map (fun y => y.type)) = (linksTo L r t).length := by
    intro L r t
    rw [linksTo_length, List.count, List.countP_map, List.countP_filter]
    apply List.countP_congr
    intro y _
    simp only [Function.comp, linkIs, goesTo, Bool.and_eq_true, beq_iff_eq, decide_eq_true_eq]
    exact And.comm
  have hp : List.Perm ((L1.filter (goesTo a)).map (fun y => y.type))
      ((L2.filter (goesTo b)).map (fun y => y.type)) :=
    List.perm_iff_count.2 (fun t => by rw [key, key, h])
  have := hp.length_eq
  simpa [List.countP_eq_length_filter] using this

/-- The links to `b` among links of which those to the sub switch are redirected to the
parent switch. -/
theorem linksTo_redirectAll (c p b : NodeRef) (t : Nat) (hcp : c ≠ p) (hbc : b ≠ c)
    (L : List ncclTopoLink) :
    (linksTo (L.map (redirectAll c p)) b t).length =
      if b = p then (linksTo L p t).length + (linksTo L c t).length
      else (linksTo L b t).length := by
  simp only [linksTo_length]
  by_cases hbp : b = p
  · subst hbp
    simp only [if_true]
    induction L with
    | nil => simp
    | cons y L ih =>
      rw [List.map_cons, List.countP_cons, ih]
      simp only [List.countP_cons]
      by_cases hyc : y.remNode = c
      · have e1 : linkIs b t (redirectAll c b y) = decide (y.type = t) := by
          unfold linkIs redirectAll redirectLink
          rw [if_pos hyc]
          simp
        have e3 : linkIs b t y = false := by
          unfold linkIs
          rw [hyc]
          simp [hcp]
        have e4 : linkIs c t y = decide (y.type = t) := by
          unfold linkIs
          simp [hyc]
        rw [e1, e3, e4]
        simp only [Bool.false_eq_true, if_false]
        omega
      · have e1 : redirectAll c b y = y := by
          unfold redirectAll
          rw [if_neg hyc]
        have e4 : linkIs c t y = false := by
          unfold linkIs
          simp [hyc]
        rw [e1, e4]
        simp only [Bool.false_eq_true, if_false]
        omega
  · simp only [hbp, if_false]
    induction L with
    | nil => simp
    | cons y L ih =>
      rw [List.map_cons, List.countP_cons, ih]
      simp only [List.countP_cons]
      congr 1
      by_cases hyc : y.remNode = c
      · have e1 : linkIs b t (redirectAll c p y) = false := by
          unfold linkIs redirectAll redirectLink
          rw [if_pos hyc]
          simp [Ne.symm hbp]
        have e2 : linkIs b t y = false := by
          unfold linkIs
          rw [hyc]
          simp [Ne.symm hbc]
        rw [e1, e2]
      · have e1 : redirectAll c p y = y := by
          unfold redirectAll
          rw [if_neg hyc]
        rw [e1]

theorem shiftRef_inj (del r1 r2 : NodeRef) (h1 : r1 ≠ del) (h2 : r2 ≠ del)
    (h : shiftRef del r1 = shiftRef del r2) : r1 = r2 := by
  rcases r1 with ⟨t1, i1⟩
  rcases r2 with ⟨t2, i2⟩
  rcases del with ⟨td, d⟩
  unfold shiftRef at h
  simp only [NodeRef.mk.injEq, ne_eq, not_and] at h h1 h2 ⊢
  split_ifs at h with c1 c2 c2
  · simp only [NodeRef.mk.injEq] at h
    obtain ⟨e1, e2⟩ := h
    subst e1
    have := h1 c1.1
    have := h2 c2.1
    exact ⟨rfl, by omega⟩
  · simp only [NodeRef.mk.injEq] at h
    obtain ⟨e1, e2⟩ := h
    subst e1
    have := h1 c1.1
    exfalso
    apply c2
    exact ⟨c1.1, by omega⟩
  · simp only [NodeRef.mk.injEq] at h
    obtain ⟨e1, e2⟩ := h
    subst e1
    have := h2 c2.1
    exfalso
    apply c1
    exact ⟨c2.1, by omega⟩
  · simpa using h

/-- Removing a PCI node keeps the number of links of every kind between two other nodes. -/
theorem linksFrom_removeNode (s : ncclTopoSystem) (j : Nat) (hg : WeakGood s) (a b : NodeRef)
    (ha : a ≠ { type := NodeType.PCI, index := j })
    (hb : b ≠ { type := NodeType.PCI, index := j }) (t : Nat) :
    (linksFrom (ncclTopoRemoveNode s NodeType.PCI j)
        (shiftRef { type := NodeType.PCI, index := j } a)
        (shiftRef { type := NodeType.PCI, index := j } b) t).length
      = (linksFrom s a b t).length := by
  unfold linksFrom
  rw [node?_removeNode_shift s j a ha]
  cases hx : s.node? a with
  | none => rfl
  | some n =>
    simp only [Option.map_some']
    obtain ⟨w1, -, -⟩ := weakGood_node? s hg a n hx
    rw [(unlinkNode_live _ n w1).2, linksTo_length, linksTo_length, List.countP_map,
      List.countP_filter]
    apply List.countP_congr
    intro y _
    obtain ⟨e1, e2, -⟩ := shiftLink_remNode { type := NodeType.PCI, index := j } y
    simp only [Function.comp, linkIs, e1, e2, Bool.and_eq_true, decide_eq_true_eq, ne_eq,
      decide_not, Bool.not_eq_true', decide_eq_false_iff_not]
    constructor
    · rintro ⟨⟨h1, h2⟩, h3⟩
      exact ⟨shiftRef_inj _ _ _ h3 hb h1, h2⟩
    · rintro ⟨h1, h2⟩
      rw [h1]
      exact ⟨⟨rfl, h2⟩, hb⟩

theorem linksFrom_to_not_valid_weak (s : ncclTopoSystem) (hg : WeakGood s) (a b : NodeRef)
    (t : Nat) (hb : ¬ s.valid b) : linksFrom s a b t = [] := by
  unfold linksFrom
  cases hx : s.node? a with
  | none => rfl
  | some n =>
    simp only
    obtain ⟨-, -, w3⟩ := weakGood_node? s hg a n hx
    unfold linksTo
    rw [List.filter_eq_nil_iff]
    intro y hy hl
    unfold linkIs at hl
    simp only [Bool.and_eq_true, decide_eq_true_eq] at hl
    exact hb (hl.1 ▸ w3 y hy)

theorem node?_of_attrs (s s0 : ncclTopoSystem)
    (ha : ∀ t, (s.nodes t).map nodeAttrs = (s0.nodes t).map nodeAttrs) (r : NodeRef) :
    (s.node? r).map nodeAttrs = (s0.node? r).map nodeAttrs := by
  have h1 := congrArg (fun L => L[r.index]?) (ha r.type)
  simp only [List.getElem?_map] at h1
  exact h1

/-- The links of the nodes other than the parent switch after the splice loop, when every
such node had as many links of each kind to the sub switch as the sub switch had to it: each
of its links to the sub switch goes to the parent switch. -/
theorem splice_lists (x s1 : ncclTopoSystem) (p c : NodeRef) (Cn Pn : ncclTopoNode)
    (hinv : SpliceInv x p c Cn Pn Cn.live s1) (htot : SpliceCount x p c Cn.live s1)
    (hC : x.node? c = some Cn) (hself : ∀ y ∈ Cn.live, y.remNode ≠ c)
    (hbal : ∀ r, r ≠ p → r ≠ c → ∀ t,
      (linksFrom x r c t).length = (linksFrom x c r t).length) :
    ∀ r, r ≠ p → ∀ n, x.node? r = some n →
      ∃ n1, s1.node? r = some n1 ∧ n1.live = n.live.map (redirectAll c p) := by
  intro r hrp n hn
  obtain ⟨n1, hn1, hf⟩ := hinv.others r hrp n hn
  refine ⟨n1, hn1, forall₂_redirected_all c p _ _ hf ?_⟩
  rw [htot r hrp n n1 hn hn1]
  by_cases hrc : r = c
  · subst hrc
    rw [hC] at hn
    simp only [Option.some.injEq] at hn
    subst hn
    have : List.countP (goesTo r) Cn.live = 0 := by
      rw [List.countP_eq_zero]
      intro y hy
      unfold goesTo
      simpa using hself y hy
    rw [this]
  · have := countP_goesTo_of_kinds n.live Cn.live c r (fun t => by
      have := hbal r hrp hrc t
      unfold linksFrom at this
      rw [hn, hC] at this
      exact this)
    rw [this]
    exact Nat.sub_self _

/-- The number of links of each kind between two nodes other than the sub switch after the
splice loop. -/
theorem splice_counts (x s1 : ncclTopoSystem) (p c : NodeRef) (Cn Pn : ncclTopoNode)
    (hcp : c ≠ p) (hinv : SpliceInv x p c Cn Pn Cn.live s1)
    (htot : SpliceCount x p c Cn.live s1)
    (hC : x.node? c = some Cn) (hP : x.node? p = some Pn)
    (hself : ∀ y ∈ Cn.live, y.remNode ≠ c)
    (hbal : ∀ r, r ≠ p → r ≠ c → ∀ t,
      (linksFrom x r c t).length = (linksFrom x c r t).length)
    (a b : NodeRef) (t : Nat) (hbc : b ≠ c) :
    (linksFrom s1 a b t).length =
      if a = p then
        (if b = p then (linksFrom x p p t).length
         else (linksFrom x p b t).length + (linksFrom x c b t).length)
      else if b = p then (linksFrom x a p t).length + (linksFrom x a c t).length
      else (linksFrom x a b t).length := by
  by_cases hap : a = p
  · subst hap
    simp only [if_true]
    obtain ⟨P1, hP1, hlive⟩ := hinv.parent
    unfold linksFrom
    rw [hP1, hP, hC]
    simp only [linksTo_length]
    rw [hlive, List.countP_append, List.countP_filter]
    by_cases hbp : b = a
    · subst hbp
      simp only [if_true]
      have : List.countP (fun y => linkIs b t y && decide (y.remNode ≠ b)) Cn.live = 0 := by
        rw [List.countP_eq_zero]
        intro y _
        unfold linkIs
        by_cases h : y.remNode = b <;> simp [h]
      rw [this]
      rfl
    · simp only [hbp, if_false]
      congr 1
      apply List.countP_congr
      intro y _
      unfold linkIs
      by_cases h : y.remNode = b
      · simp [h, hbp]
      · simp [h]
  · simp only [hap, if_false]
    cases hn : x.node? a with
    | none =>
      have h1 := node?_of_attrs s1 x hinv.attrs a
      rw [hn] at h1
      have h2 : s1.node? a = none := by
        cases hx : s1.node? a with
        | none => rfl
        | some m => rw [hx] at h1; simp at h1
      unfold linksFrom
      rw [h2, hn]
      split_ifs <;> rfl
    | some n =>
      obtain ⟨n1, hn1, hlive⟩ := splice_lists x s1 p c Cn Pn hinv htot hC hself hbal a hap n hn
      unfold linksFrom
      rw [hn1, hn]
      simp only
      rw [hlive, linksTo_redirectAll c p b t hcp hbc]

theorem shiftRef_above (i j : Nat) (h : i < j) :
    shiftRef { type := NodeType.PCI, index := j } { type := NodeType.PCI, index := i }
      = { type := NodeType.PCI, index := i } := by
  unfold shiftRef
  have : ¬ j ≤ i := by omega
  simp [this]

/-- The id of a node other than the fused sub switch is kept by the fuse. -/
theorem fuse_node_id (x s1 : ncclTopoSystem) (j : Nat)
    (ha : ∀ t, (s1.nodes t).map nodeAttrs = (x.nodes t).map nodeAttrs) (b : NodeRef)
    (hb : b ≠ { type := NodeType.PCI, index := j }) :
    ((ncclTopoRemoveNode s1 NodeType.PCI j).node?
        (shiftRef { type := NodeType.PCI, index := j } b)).map (fun n => n.id)
      = (x.node? b).map (fun n => n.id) := by
  rw [node?_removeNode_shift s1 j b hb]
  have h1 := congrArg (Option.map (fun a : Int × NodeType × PciInfo => a.1))
    (node?_of_attrs s1 x ha b)
  simp only [Option.map_map] at h1 ⊢
  exact h1

theorem not_gpuFabric_of_pci_left (a b : NodeRef) (t : Nat) (h : a.type = NodeType.PCI) :
    ¬ GpuFabric a b t := by
  intro hf
  have := hf.2.1
  rw [h] at this
  cases this

theorem not_gpuFabric_of_pci_right (a b : NodeRef) (t : Nat) (h : b.type = NodeType.PCI) :
    ¬ GpuFabric a b t := by
  intro hf
  have := hf.2.2
  rw [h] at this
  cases this

/-- Fusing the sub switch with the first saved id keeps the state of the loop over the saved
ids. -/
theorem fuse_pending (i : Nat) (id : Int) (rest : List Int) (x x2 : ncclTopoSystem)
    (hinv : FusePending i (id :: rest) x)
    (hres : fuseSub { type := NodeType.PCI, index := i } x id = Except.ok x2) :
    FusePending i rest x2 := by
  obtain ⟨hg, hids, habove, hpar, hbal, hns⟩ := hinv
  obtain ⟨j, d, hj, hkeys, -⟩ := fuseSub_keys _ x x2 id hres
  have hij : i < j := habove j (id, d) hj (List.mem_cons_self _ _)
  obtain ⟨Cn, hC, hCid, -⟩ := node_of_pciKeys x j id d hj
  obtain ⟨Pn, hP⟩ := (valid_iff_node? x _).1 hpar
  have hcp : ({ type := NodeType.PCI, index := j } : NodeRef)
      ≠ { type := NodeType.PCI, index := i } := by
    intro e
    have := congrArg NodeRef.index e
    simp only at this
    omega
  have hself : ∀ y ∈ Cn.live, y.remNode ≠ { type := NodeType.PCI, index := j } :=
    hns _ Cn rfl hC
  obtain ⟨s1, hspl, htot, hx2⟩ := fuseSub_count x x2 { type := NodeType.PCI, index := i }
    { type := NodeType.PCI, index := j } Cn Pn id hg hids hcp rfl hC hCid hP hself hres
  simp only at hx2
  have hbalc : ∀ r : NodeRef, r ≠ { type := NodeType.PCI, index := i } →
      r ≠ { type := NodeType.PCI, index := j } → ∀ t,
      (linksFrom x r { type := NodeType.PCI, index := j } t).length
        = (linksFrom x { type := NodeType.PCI, index := j } r t).length := by
    intro r hrp _ t
    exact hbal r _ t (not_gpuFabric_of_pci_right _ _ _ rfl) (fun h => hrp h.1)
      (fun h => hcp h.1)
  have hcount := splice_counts x s1 _ _ Cn Pn hcp hspl htot hC hP hself hbalc
  have hlists := splice_lists x s1 _ _ Cn Pn hspl htot hC hself hbalc
  have hshp := shiftRef_above i j hij
  have hid := fuse_node_id x s1 j hspl.attrs
  obtain ⟨P1, hP1, hP1live⟩ := hspl.parent
  rw [hx2]
  refine ⟨weakGood_removeNode s1 j hspl.good, ?_, ?_, ?_, ?_, ?_⟩
  · rw [← hx2, hkeys]
    exact hids.sublist ((List.eraseIdx_sublist _ _).map _)
  · intro j1 kd hk hmem
    rw [← hx2, hkeys, List.getElem?_eraseIdx] at hk
    split_ifs at hk with hlt
    · exact habove j1 kd hk (List.mem_cons_of_mem _ hmem)
    · omega
  · have := valid_removeNode_shift s1 j _ (Ne.symm hcp) ((valid_iff_node? s1 _).2 ⟨P1, hP1⟩)
    rw [hshp] at this
    exact this
  · intro a1 b1 t hnf hE1 hE2
    obtain ⟨a, hac, rfl⟩ := shiftRef_unshift { type := NodeType.PCI, index := j } a1
    obtain ⟨b, hbc, rfl⟩ := shiftRef_unshift { type := NodeType.PCI, index := j } b1
    rw [linksFrom_removeNode s1 j hspl.good a b hac hbc t,
      linksFrom_removeNode s1 j hspl.good b a hbc hac t, hcount a b t hbc, hcount b a t hac]
    have hpend : ∀ r : NodeRef, r ≠ { type := NodeType.PCI, index := j } →
        ¬ Pending (ncclTopoRemoveNode s1 NodeType.PCI j) { type := NodeType.PCI, index := i } rest
          { type := NodeType.PCI, index := i }
          (shiftRef { type := NodeType.PCI, index := j } r) →
        ¬ Pending x { type := NodeType.PCI, index := i } (id :: rest)
          { type := NodeType.PCI, index := i } r := by
      intro r hrc hno hpe
      apply hno
      obtain ⟨-, hrt, n, hn, hmem⟩ := hpe
      have h1 := hid r hrc
      rw [hn] at h1
      cases hy : (ncclTopoRemoveNode s1 NodeType.PCI j).node?
          (shiftRef { type := NodeType.PCI, index := j } r) with
      | none => rw [hy] at h1; simp at h1
      | some m =>
        rw [hy] at h1
        simp only [Option.map_some', Option.some.injEq] at h1
        refine ⟨rfl, by rw [shiftRef_type]; exact hrt, m, hy, ?_⟩
        rw [h1]
        rcases List.mem_cons.1 hmem with h2 | h2
        · exfalso
          apply hrc
          have e1 := pciKeys_getElem? x r n hrt hn
          rw [h2] at e1
          have := keys_index_unique _ hids _ _ _ _ _ e1 hj
          rw [ref_eq_of_pci r hrt, this]
        · exact h2
    by_cases hap : a = { type := NodeType.PCI, index := i }
    · by_cases hbp : b = { type := NodeType.PCI, index := i }
      · rw [hap, hbp]
      · simp only [hap, hbp, if_true, if_false]
        rw [hap, hshp] at hE1
        have h1 := hbal _ b t (not_gpuFabric_of_pci_left _ _ _ rfl) (hpend b hbc hE1)
          (fun h => hbp h.1)
        have h2 := hbal { type := NodeType.PCI, index := j } b t
          (not_gpuFabric_of_pci_left _ _ _ rfl) (fun h => hcp h.1) (fun h => hbp h.1)
        omega
    · by_cases hbp : b = { type := NodeType.PCI, index := i }
      · simp only [hap, hbp, if_true, if_false]
        rw [hbp, hshp] at hE2
        have h1 := hbal a _ t (not_gpuFabric_of_pci_right _ _ _ rfl) (fun h => hap h.1)
          (hpend a hac hE2)
        have h2 := hbal a { type := NodeType.PCI, index := j } t
          (not_gpuFabric_of_pci_right _ _ _ rfl) (fun h => hap h.1) (fun h => hcp h.1)
        omega
      · simp only [hap, hbp, if_false]
        apply hbal a b t
        · intro hf
          apply hnf
          unfold GpuFabric at hf ⊢
          rw [shiftRef_type, shiftRef_type]
          exact hf
        · exact fun h => hap h.1
        · exact fun h => hbp h.1
  · intro a1 n1 hat hn1 l hl
    obtain ⟨a, hac, rfl⟩ := shiftRef_unshift { type := NodeType.PCI, index := j } a1
    rw [shiftRef_type] at hat
    rw [node?_removeNode_shift s1 j a hac] at hn1
    cases hm : s1.node? a with
    | none => rw [hm] at hn1; simp at hn1
    | some m =>
      rw [hm] at hn1
      simp only [Option.map_some', Option.some.injEq] at hn1
      obtain ⟨w1, -, -⟩ := weakGood_node? s1 hspl.good a m hm
      rw [← hn1, (unlinkNode_live _ m w1).2] at hl
      obtain ⟨y, hy, rfl⟩ := List.mem_map.1 hl
      obtain ⟨hym, hyc⟩ := List.mem_filter.1 hy
      simp only [ne_eq, decide_not, Bool.not_eq_true', decide_eq_false_iff_not] at hyc
      rw [(shiftLink_remNode _ y).1]
      intro e
      have hya : y.remNode = a := shiftRef_inj _ _ _ hyc hac e
      by_cases hap : a = { type := NodeType.PCI, index := i }
      · subst hap
        rw [hP1] at hm
        simp only [Option.some.injEq] at hm
        rw [← hm, hP1live] at hym
        rcases List.mem_append.1 hym with h1 | h1
        · exact hns _ Pn rfl hP y h1 hya
        · have := (List.mem_filter.1 h1).2
          simp only [ne_eq, decide_not, Bool.not_eq_true', decide_eq_false_iff_not] at this
          exact this hya
      · cases hx : x.node? a with
        | none =>
          have h1 := node?_of_attrs s1 x hspl.attrs a
          rw [hx, hm] at h1
          simp at h1
        | some n =>
          obtain ⟨m1, hm1, hlive⟩ := hlists a hap n hx
          rw [hm] at hm1
          simp only [Option.some.injEq] at hm1
          rw [← hm1] at hlive
          rw [hlive] at hym
          obtain ⟨y0, hy0, rfl⟩ := List.mem_map.1 hym
          unfold redirectAll at hya hyc
          split_ifs at hya hyc with h0
          · exact hap hya.symm
          · exact hns a n hat hx y0 hy0 hya

theorem fuseLoop_pending (i : Nat) :
    ∀ (todo : List Int) (x x2 : ncclTopoSystem), FusePending i todo x →
      todo.foldlM (fuseSub { type := NodeType.PCI, index := i }) x = Except.ok x2 →
      FusePending i [] x2 := by
  intro todo
  induction todo with
  | nil =>
    intro x x2 hinv hres
    simp only [List.foldlM, pure, Except.pure, Except.ok.injEq] at hres
    rw [← hres]; exact hinv
  | cons id rest ih =>
    intro x x2 hinv hres
    simp only [List.foldlM, bind, Except.bind] at hres
    split at hres
    · exact absurd hres (by simp)
    · rename_i xa ha
      exact ih xa x2 (fuse_pending i id rest x xa hinv ha) hres

theorem typed_of_weakGood (s : ncclTopoSystem) (hg : WeakGood s) : TypedNodes s :=
  fun t n hn => (hg t n hn).2.1

/-- The state after the first inner loop of the flattening pass: the links of the switch to
its sub switches are removed and the ids of the sub switches are saved. -/
theorem collect_pending (sys : ncclTopoSystem) (i : Nat) (P : ncclTopoNode)
    (r : List ncclTopoLink × Nat × List Int) (hinv : FlatInv sys)
    (hP : sys.node? { type := NodeType.PCI, index := i } = some P)
    (hlow : ∀ j, j < i → ∀ kd, (pciKeys sys)[j]? = some kd → isBcmGen4 kd.2 = false)
    (hm : isBcmGen4 P.pci.device = true)
    (hr : collectSubs sys P.pci.device P.nlinks 0 P.links P.nlinks [] = Except.ok r) :
    FusePending i r.2.2 (sys.modifyNode { type := NodeType.PCI, index := i }
      (fun n => { n with links := r.1, nlinks := r.2.1 })) := by
  obtain ⟨hg, hids, hbal, hns⟩ := hinv
  obtain ⟨wP1, wP2, wP3⟩ := weakGood_node? sys hg _ P hP
  obtain ⟨c1, c2, c3⟩ := collectSubs_live sys P.pci.device P.nlinks 0 P.links P.nlinks [] r
    wP1 (by omega) hr
  simp only [List.take_zero, List.nil_append, List.drop_zero] at c2 c3
  have hlive : ({ P with links := r.1, nlinks := r.2.1 } : ncclTopoNode).live
      = P.live.filter (fun x => ! isSubLink sys P.pci.device x) := c2
  obtain ⟨hk, -⟩ := pciKeys_modifyNode sys { type := NodeType.PCI, index := i }
    (fun n => { n with links := r.1, nlinks := r.2.1 }) (fun n => ⟨rfl, rfl, rfl⟩)
  have hsubs : ∀ y ∈ P.live, isSubLink sys P.pci.device y = true →
      y.remNode.type = NodeType.PCI ∧ ∃ n, sys.node? y.remNode = some n ∧
        n.id = linkId sys y ∧ n.pci.device = P.pci.device := by
    intro y hy hs
    unfold isSubLink at hs
    unfold linkId
    cases hx : sys.node? y.remNode with
    | none => rw [hx] at hs; simp at hs
    | some n =>
      rw [hx] at hs
      simp only [Bool.and_eq_true, decide_eq_true_eq] at hs
      obtain ⟨-, w2, -⟩ := weakGood_node? sys hg _ n hx
      exact ⟨by rw [← w2]; exact hs.1, n, rfl, rfl, hs.2⟩
  have hnode : ∀ b : NodeRef, ((sys.modifyNode { type := NodeType.PCI, index := i }
      (fun n => { n with links := r.1, nlinks := r.2.1 })).node? b).map (fun n => n.id)
        = (sys.node? b).map (fun n => n.id) := by
    intro b
    rw [node?_modifyNode]
    split_ifs with hb
    · rw [hb, Option.map_map]
      rfl
    · rfl
  have hsame : ∀ a b t, ¬ Pending (sys.modifyNode { type := NodeType.PCI, index := i }
      (fun n => { n with links := r.1, nlinks := r.2.1 })) { type := NodeType.PCI, index := i }
        r.2.2 a b →
      linksFrom (sys.modifyNode { type := NodeType.PCI, index := i }
        (fun n => { n with links := r.1, nlinks := r.2.1 })) a b t = linksFrom sys a b t := by
    intro a b t hE
    unfold linksFrom
    rw [node?_modifyNode]
    split_ifs with hap
    · rw [hap, hP]
      simp only [Option.map_some']
      rw [hlive]
      unfold linksTo
      rw [List.filter_filter]
      apply List.filter_congr
      intro y hy
      by_cases hl : linkIs b t y = true
      · have hyb : y.remNode = b := by
          unfold linkIs at hl
          simp only [Bool.and_eq_true, decide_eq_true_eq] at hl
          exact hl.1
        have : isSubLink sys P.pci.device y = false := by
          by_contra hs
          simp only [Bool.not_eq_false] at hs
          obtain ⟨h1, n, hn, hnid, -⟩ := hsubs y hy hs
          apply hE
          rw [hyb] at h1 hn
          have h2 := hnode b
          rw [hn] at h2
          cases hx : (sys.modifyNode { type := NodeType.PCI, index := i }
              (fun n => { n with links := r.1, nlinks := r.2.1 })).node? b with
          | none => rw [hx] at h2; simp at h2
          | some m =>
            rw [hx] at h2
            simp only [Option.map_some', Option.some.injEq] at h2
            refine ⟨hap, h1, m, hx, ?_⟩
            rw [h2, hnid, c3]
            exact List.mem_map.2 ⟨y, List.mem_filter.2 ⟨hy, hs⟩, rfl⟩
        simp [hl, this]
      · simp only [Bool.not_eq_true] at hl
        simp [hl]
    · rfl
  refine ⟨?_, ?_, ?_, ?_, ?_, ?_⟩
  · apply weakGood_modifyNode_at sys _ P _ hP hg
    refine ⟨c1, rfl, ?_⟩
    intro l hl
    rw [hlive] at hl
    exact wP3 l (List.mem_filter.1 hl).1
  · rw [hk]; exact hids
  · intro j kd hkd hmem
    rw [hk] at hkd
    rw [c3] at hmem
    obtain ⟨y, hy, hyid⟩ := List.mem_map.1 hmem
    obtain ⟨hyl, hys⟩ := List.mem_filter.1 hy
    obtain ⟨h1, n, hn, hnid, hdev⟩ := hsubs y hyl hys
    have e1 := pciKeys_getElem? sys y.remNode n h1 hn
    rw [hnid, hyid] at e1
    have hkd2 : (pciKeys sys)[j]? = some (kd.1, kd.2) := hkd
    have hj := keys_index_unique _ hids _ _ _ _ _ hkd2 e1
    have hne : y.remNode ≠ { type := NodeType.PCI, index := i } := hns _ P rfl hP y hyl
    have hji : j ≠ i := by
      intro e
      apply hne
      rw [ref_eq_of_pci y.remNode h1, ← hj, e]
    have hnlt : ¬ j < i := by
      intro hlt
      have := hlow j hlt (kd.1, n.pci.device) (by rw [hj]; exact e1)
      simp only at this
      rw [hdev, hm] at this
      exact absurd this (by simp)
    omega
  · exact (valid_modifyNode sys _ _ _).2 ((valid_iff_node? sys _).2 ⟨P, hP⟩)
  · intro a b t hnf hE1 hE2
    rw [hsame a b t hE1, hsame b a t hE2]
    exact hbal a b t hnf (fun h => h) (fun h => h)
  · intro a n hat hn l hl
    rw [node?_modifyNode] at hn
    split_ifs at hn with hap
    · subst hap
      rw [hP] at hn
      simp only [Option.map_some', Option.some.injEq] at hn
      rw [← hn, hlive] at hl
      exact hns _ P rfl hP l (List.mem_filter.1 hl).1
    · exact hns a n hat hn l hl

/-- Flattening one switch keeps what the outer loop of the pass relies on. -/
theorem flattenSwitch_flatInv (sys sys1 : ncclTopoSystem) (i : Nat) (P : ncclTopoNode)
    (hinv : FlatInv sys)
    (hP : sys.node? { type := NodeType.PCI, index := i } = some P)
    (hlow : ∀ j, j < i → ∀ kd, (pciKeys sys)[j]? = some kd → isBcmGen4 kd.2 = false)
    (hm : isBcmGen4 P.pci.device = true)
    (hres : flattenSwitch sys i P = Except.ok sys1) : FlatInv sys1 := by
  obtain ⟨-, n1, -⟩ := flattenSwitch_spec sys sys1 i P (typed_of_weakGood sys hinv.good)
    hinv.ids (fun hs0 => hlow 0 (Nat.pos_of_ne_zero hs0)) hm hres
  unfold flattenSwitch at hres
  simp only [bind, Except.bind] at hres
  split at hres
  · exact absurd hres (by simp)
  · rename_i r hr
    split at hres
    · exact absurd hres (by simp)
    · rename_i s2 hfold
      simp only [Except.ok.injEq] at hres
      have hpend := fuseLoop_pending i r.2.2 _ s2 (collect_pending sys i P r hinv hP hlow hm hr)
        hfold
      obtain ⟨hg2, -, -, hpar2, hbal2, hns2⟩ := hpend
      obtain ⟨P2, hP2⟩ := (valid_iff_node? s2 _).1 hpar2
      obtain ⟨w1, w2, w3⟩ := weakGood_node? s2 hg2 _ P2 hP2
      rw [← hres] at n1 ⊢
      refine ⟨?_, n1, ?_, ?_⟩
      · exact weakGood_modifyNode_at s2 _ P2 _ hP2 hg2 ⟨w1, rfl, w3⟩
      · intro a b t hnf _ _
        rw [linksFrom_modify_attrs s2 _ a b t
            (fun n => { n with pci := { device := flattenedDevice } }) (fun n => ⟨rfl, rfl, rfl⟩),
          linksFrom_modify_attrs s2 _ b a t
            (fun n => { n with pci := { device := flattenedDevice } }) (fun n => ⟨rfl, rfl, rfl⟩)]
        exact hbal2 a b t hnf (fun h => by
          obtain ⟨-, -, n, -, hmem⟩ := h
          simp at hmem) (fun h => by
          obtain ⟨-, -, n, -, hmem⟩ := h
          simp at hmem)
      · intro a n hat hn l hl
        rw [node?_modifyNode] at hn
        split_ifs at hn with hap
        · subst hap
          rw [hP2] at hn
          simp only [Option.map_some', Option.some.injEq] at hn
          rw [← hn] at hl
          exact hns2 _ P2 rfl hP2 l hl
        · exact hns2 a n hat hn l hl

/-- The flattening pass keeps links balanced. -/
theorem flattenLoop_flatInv :
    ∀ (k s : Nat) (sys out : ncclTopoSystem), FlatInv sys →
      (∀ i, i < s → ∀ kd, (pciKeys sys)[i]? = some kd → isBcmGen4 kd.2 = false) →
      flattenLoop k s sys = Except.ok out → FlatInv out := by
  intro k
  induction k with
  | zero => intro s sys out _ _ hres; simp [flattenLoop] at hres
  | succ k ih =>
    intro s sys out hinv hlow hres
    simp only [flattenLoop] at hres
    split_ifs at hres with hlt
    · split at hres
      · exact absurd hres (by simp)
      · rename_i P hP
        split_ifs at hres with hmatch
        · split at hres
          · exact absurd hres (by simp)
          · rename_i sys1 h1
            obtain ⟨-, -, z1⟩ := flattenSwitch_spec sys sys1 s P
              (typed_of_weakGood sys hinv.good) hinv.ids
              (fun hs0 => hlow 0 (Nat.pos_of_ne_zero hs0)) hmatch h1
            refine ih 1 sys1 out (flattenSwitch_flatInv sys sys1 s P hinv hP hlow hmatch h1)
              ?_ hres
            intro i hi kd hkd
            have : i = 0 := by omega
            subst this
            exact z1 kd hkd
        · refine ih (s + 1) sys out hinv ?_ hres
          intro i hi kd hkd
          by_cases his : i < s
          · exact hlow i his kd hkd
          · have : i = s := by omega
            subst this
            unfold pciKeys at hkd
            have hP1 : (sys.nodes NodeType.PCI)[i]? = some P := hP
            rw [List.getElem?_map, hP1] at hkd
            simp only [Option.map_some', Option.some.injEq] at hkd
            rw [← hkd]
            simpa using hmatch
    · simp only [Except.ok.injEq] at hres
      rw [← hres]
      exact hinv

/-- The graph of the builder, when its PCI ids are pairwise distinct, has what the outer loop
of the flattening pass relies on. -/
theorem built_flatInv (h : TopoHeader) (fuel : Nat) (topNode : ncclXmlNode)
    (s1 : ncclTopoSystem) (hb : buildGraph h fuel topNode = Except.ok s1)
    (hid : (s1.pciNodes.map (fun n => n.id)).Nodup) : FlatInv s1 := by
  have hc := buildGraph_checked h (fun _ => True) fuel topNode s1 trivial
    (fun x _ => widthsIn_true h x) hb
  have hg := checked_good h _ _ s1 hc good_empty
  obtain ⟨hone, hself⟩ := checked_simpleLinks h _ _ s1 hc good_empty simpleLinks_empty
  have hsym := built_symmetric h _ s1 (buildGraph_built h fuel topNode s1 hb) good_empty
    symmetric_empty
  refine ⟨weakGood_of_good s1 hg, ?_, ?_, ?_⟩
  · unfold pciKeys
    rw [List.map_map]
    exact hid
  · intro a b t hnf _ _
    have h1 := hone a b t
    have h2 := hone b a t
    have h3 := hsym a b t hnf
    unfold hasLink at h3
    rw [← List.length_pos, ← List.length_pos] at h3
    omega
  · intro a n hat hn l hl
    exact hself a n (by rw [hat]; exact fun e => by cases e) hn l (List.mem_of_mem_take hl)

theorem symmetric_of_balanced (s : ncclTopoSystem) (hb : BalancedLinks s NoPair) :
    SymmetricLinks s := by
  intro a b t hnf
  have := hb a b t hnf (fun h => h) (fun h => h)
  unfold hasLink
  rw [← List.length_pos, ← List.length_pos, this]

theorem good_of_weakGood (s : ncclTopoSystem) (hg : WeakGood s)
    (hslots : ∀ t, ∀ n ∈ s.nodes t, n.nlinks = n.links.length) : GoodSystem s := by
  intro t n hn
  obtain ⟨-, w2, w3⟩ := hg t n hn
  refine ⟨hslots t n hn, w2, fun l hl => w3 l ?_⟩
  rw [live_of_wf n (hslots t n hn)]
  exact hl

theorem sameSlots_modifyNode (s : ncclTopoSystem) (r : NodeRef) (f : ncclTopoNode → ncclTopoNode)
    (hf : ∀ n, s.node? r = some n → staleSlots (f n) = staleSlots n) :
    SameSlots (s.modifyNode r f) s := by
  intro r1
  rw [node?_modifyNode]
  split_ifs with h
  · subst h
    cases hx : s.node? r1 with
    | none => rfl
    | some n =>
      simp only [Option.map_some']
      rw [hf n hx]
  · rfl

theorem sameSlots_trans (s2 s1 s : ncclTopoSystem) (h2 : SameSlots s2 s1) (h1 : SameSlots s1 s) :
    SameSlots s2 s := fun r => (h2 r).trans (h1 r)

theorem staleSlots_connect (node : ncclTopoNode) (r : NodeRef) (t : Nat) (w : ℚ) :
    staleSlots (ncclTopoConnectNodes node r t w) = staleSlots node := by
  unfold staleSlots
  rw [connect_nlinks', connect_length]
  split_ifs
  · push_cast
    ring
  · rfl

theorem sameSlots_connectCpuPair (h : TopoHeader) (n p : Nat) (s : ncclTopoSystem) :
    SameSlots (connectCpuPair h n s p) s := by
  unfold connectCpuPair
  split_ifs
  · exact fun _ => rfl
  · split
    · exact fun _ => rfl
    · exact sameSlots_modifyNode s _ _ (fun m _ => staleSlots_connect m _ _ _)

theorem sameSlots_foldl {α : Type} (f : ncclTopoSystem → α → ncclTopoSystem)
    (hf : ∀ s a, SameSlots (f s a) s) (l : List α) :
    ∀ s, SameSlots (l.foldl f s) s := by
  induction l with
  | nil => exact fun _ _ => rfl
  | cons a l ih =>
    intro s
    rw [List.foldl_cons]
    exact sameSlots_trans _ _ _ (ih (f s a)) (hf s a)

/-- `ncclTopoConnectCpus` writes no slot behind `nlinks` and frees none. -/
theorem sameSlots_connectCpus (h : TopoHeader) (s : ncclTopoSystem) :
    SameSlots (ncclTopoConnectCpus h s) s := by
  unfold ncclTopoConnectCpus
  apply sameSlots_foldl
  intro s1 n
  exact sameSlots_foldl _ (fun s2 p => sameSlots_connectCpuPair h n p s2) _ s1

theorem sameSlots_sort :
    ∀ (k : Nat) (s : ncclTopoSystem) (node : NodeRef) (up : Option NodeRef)
      (s1 : ncclTopoSystem), ncclTopoSort k s node up = Except.ok s1 → SameSlots s1 s := by
  intro k
  induction k with
  | zero => intro s node up s1 hres; simp [ncclTopoSort] at hres
  | succ k ih =>
    intro s node up s1 hres
    simp only [ncclTopoSort] at hres
    split at hres
    · exact absurd hres (by simp)
    · rename_i n hn
      split at hres
      · exact absurd hres (by simp)
      · rename_i sA hA
        have hshift : SameSlots sA s := by
          split at hA
          · simp only [Except.ok.injEq] at hA
            rw [← hA]; exact fun _ => rfl
          · rename_i upNode
            split at hA
            · exact absurd hA (by simp)
            · rename_i links1 hl
              simp only [Except.ok.injEq] at hA
              rw [← hA]
              apply sameSlots_modifyNode
              intro m hm
              rw [hn] at hm
              simp only [Option.some.injEq] at hm
              rw [← hm]
              unfold staleSlots
              simp only
              rw [(sortUp_perm n.links links1 upNode hl).length_eq]
        refine foldlM_invariant _ (fun s2 => SameSlots s2 s) ?_ (List.range n.nlinks) sA s1
          hshift hres
        intro s2 l s3 hI hstep
        simp only at hstep
        split at hstep
        · exact absurd hstep (by simp)
        · split at hstep
          · simp only [Except.ok.injEq] at hstep
            rw [← hstep]; exact hI
          · split_ifs at hstep with hc
            · exact sameSlots_trans _ _ _ (ih s2 _ _ s3 hstep) hI
            · simp only [Except.ok.injEq] at hstep
              rw [← hstep]; exact hI

/-- `ncclTopoSortSystem` writes no slot behind `nlinks` and frees none. -/
theorem sameSlots_sortSystem (fuel : Nat) (s s1 : ncclTopoSystem)
    (hres : ncclTopoSortSystem fuel s = Except.ok s1) : SameSlots s1 s := by
  unfold ncclTopoSortSystem at hres
  refine foldlM_invariant _ (fun s2 => SameSlots s2 s) ?_ _ s s1 (fun _ => rfl) hres
  intro s2 n s3 hI hstep
  exact sameSlots_trans _ _ _ (sameSlots_sort fuel s2 _ _ s3 hstep) hI

/-- When no node of `s1` has a written slot behind `nlinks`, none of `s` has one. -/
theorem slots_of_sameSlots (s1 s : ncclTopoSystem) (hsame : SameSlots s1 s)
    (hfull : ∀ t, ∀ n ∈ s1.nodes t, n.nlinks = n.links.length) :
    ∀ t, ∀ n ∈ s.nodes t, n.nlinks = n.links.length := by
  intro t n hn
  obtain ⟨i, hi⟩ := (mem_nodes_iff s t n).1 hn
  have h1 := hsame { type := t, index := i }
  rw [hi] at h1
  cases hx : s1.node? { type := t, index := i } with
  | none => rw [hx] at h1; simp at h1
  | some m =>
    rw [hx] at h1
    simp only [Option.map_some', Option.some.injEq] at h1
    have hm := hfull t m ((mem_nodes_iff s1 t m).2 ⟨i, hx⟩)
    unfold staleSlots at h1
    omega

/-! ## Symmetry of the links of the returned topology -/

theorem flattenLoop_no_match :
    ∀ (k i : Nat) (s s1 : ncclTopoSystem),
      (∀ n ∈ s.pciNodes, isBcmGen4 n.pci.device = false) →
      flattenLoop k i s = Except.ok s1 → s1 = s := by
  intro k
  induction k with
  | zero => intro i s s1 _ hres; simp [flattenLoop] at hres
  | succ k ih =>
    intro i s s1 hno hres
    simp only [flattenLoop] at hres
    split_ifs at hres with hlt
    · split at hres
      · exact absurd hres (by simp)
      · rename_i sw hsw
        have := hno sw (List.getElem?_mem hsw)
        simp only [this, Bool.false_eq_true, if_false] at hres
        exact ih _ s s1 hno hres
    · simp only [Except.ok.injEq] at hres
      exact hres.symm

/-- The flattening pass keeps links balanced on a graph of the builder in which no PCI node
carries the matched signature or the PCI ids are pairwise distinct; in the first case it
returns the graph of the builder. -/
theorem flatten_built_balanced (h : TopoHeader) (fuel : Nat) (topNode : ncclXmlNode)
    (s1 s2 : ncclTopoSystem) (h1 : buildGraph h fuel topNode = Except.ok s1)
    (hid : (∀ n ∈ s1.pciNodes, isBcmGen4 n.pci.device = false) ∨
      (s1.pciNodes.map (fun n => n.id)).Nodup)
    (h2 : ncclTopoFlattenBcmSwitches fuel s1 = Except.ok s2) :
    WeakGood s2 ∧ SymmetricLinks s2 := by
  rcases hid with hno | hnd
  · have e2 : s2 = s1 := flattenLoop_no_match fuel 0 s1 s2 hno h2
    rw [e2]
    have hb := buildGraph_built h fuel topNode s1 h1
    exact ⟨weakGood_of_good s1 (built_good h _ _ _ s1 hb good_empty),
      built_symmetric h _ s1 hb good_empty symmetric_empty⟩
  · have hf2 := flattenLoop_flatInv fuel 0 s1 s2 (built_flatInv h fuel topNode s1 h1 hnd)
      (fun i hi => absurd hi (Nat.not_lt_zero i)) h2
    exact ⟨hf2.good, symmetric_of_balanced s2 hf2.balanced⟩

/-- C2, as amended: in a topology `ncclTopoGetSystemFromXml` returns successfully, when the
PCI nodes of the graph the builder made have pairwise distinct ids or none of them carries the
signature `ncclTopoFlattenBcmSwitches` looks for, and no node of the returned topology has a
written link slot behind its count `nlinks`, node `a` has a live link of kind `t` to node `b`
exactly when `b` has one to `a`, for every triple other than a fabric (NVL) link between two
GPUs. This covers the links `ncclTopoFlattenBcmSwitches` hands from a sub switch to the
flattened switch and the links it redirects to the flattened switch. -/
theorem getSystem_links_symmetric (h : TopoHeader) (fuel : Nat) (topNode : ncclXmlNode)
    (s : ncclTopoSystem) (hres : ncclTopoGetSystemFromXml h fuel topNode = Except.ok s)
    (hid : ∀ s1, buildGraph h fuel topNode = Except.ok s1 →
      (∀ n ∈ s1.pciNodes, isBcmGen4 n.pci.device = false) ∨
        (s1.pciNodes.map (fun n => n.id)).Nodup)
    (hslots : ∀ t, ∀ n ∈ s.nodes t, n.nlinks = n.links.length) :
    ∀ a b t, ¬ (t = LINK_NVL ∧ a.type = NodeType.GPU ∧ b.type = NodeType.GPU) →
      (hasLink s a b t ↔ hasLink s b a t) := by
  unfold ncclTopoGetSystemFromXml at hres
  split at hres
  · exact absurd hres (by simp)
  · rename_i s1 h1
    split at hres
    · exact absurd hres (by simp)
    · rename_i s2 h2
      obtain ⟨hw2, hsym2⟩ := flatten_built_balanced h fuel topNode s1 s2 h1 (hid s1 h1) h2
      have hsl2 := slots_of_sameSlots s s2
        (sameSlots_trans _ _ _ (sameSlots_sortSystem fuel _ s hres) (sameSlots_connectCpus h s2))
        hslots
      have hg2 := good_of_weakGood s2 hw2 hsl2
      have hs3 := connectCpus_symmetric h s2 hg2 hsym2
      obtain ⟨hg3, -⟩ := connectCpus_hasLink h s2 hg2
      obtain ⟨-, hl⟩ := sortSystem_keeps_links fuel _ s hg3 hres
      intro a b t hnf
      rw [hl, hl]
      exact hs3 a b t hnf

theorem sampleTwoLevelSystem_eq :
    ncclTopoGetSystemFromXml sampleHeader 10 sampleTwoLevelTree
      = Except.ok sampleTwoLevelSystem := by
  apply toOption_eq_some
  decide!

theorem sampleDupSystem_eq :
    ncclTopoGetSystemFromXml sampleHeader 10 sampleDupTree = Except.ok sampleDupSystem := by
  apply toOption_eq_some
  decide!

theorem sampleBcmSystem_eq :
    ncclTopoGetSystemFromXml sampleHeader 10 sampleBcmTree = Except.ok sampleBcmSystem := by
  apply toOption_eq_some
  decide!

theorem sampleTwoLevelBuilt_ids :
    ∀ s1, buildGraph sampleHeader 10 sampleTwoLevelTree = Except.ok s1 →
      (∀ n ∈ s1.pciNodes, isBcmGen4 n.pci.device = false) ∨
        (s1.pciNodes.map (fun n => n.id)).Nodup := by
  intro s1 hs1
  rw [sampleTwoLevelBuilt_eq] at hs1
  injection hs1 with hs1
  rw [← hs1]
  right
  decide!

theorem sampleTwoLevelSystem_slots :
    ∀ t, ∀ n ∈ sampleTwoLevelSystem.nodes t, n.nlinks = n.links.length := by
  intro t
  cases t <;> decide!

/-- C2 at the two-level pair: the builder makes two PCI nodes with the matched signature,
the flattening pass fuses the lower one into the upper one, and in the returned topology the
flattened switch has a PCI link to GPU 0, which was attached to the fused switch, and GPU 0
has one to the flattened switch. -/
theorem getSystem_links_symmetric_witness :
    (ncclTopoGetSystemFromXml sampleHeader 10 sampleTwoLevelTree
        = Except.ok sampleTwoLevelSystem ∧
      (∀ s1, buildGraph sampleHeader 10 sampleTwoLevelTree = Except.ok s1 →
        (∀ n ∈ s1.pciNodes, isBcmGen4 n.pci.device = false) ∨
          (s1.pciNodes.map (fun n => n.id)).Nodup) ∧
      (∀ t, ∀ n ∈ sampleTwoLevelSystem.nodes t, n.nlinks = n.links.length)) ∧
    pciSignatures sampleTwoLevelBuilt
      = [(65536, 1153132679827333120, true), (69632, 1153132679827333120, true)] ∧
    pciLinks sampleTwoLevelSystem
      = [(65536, [(LINK_PCI, { type := NodeType.GPU, index := 0 }),
          (LINK_PCI, { type := NodeType.GPU, index := 1 }),
          (LINK_PCI, { type := NodeType.CPU, index := 0 })])] ∧
    (hasLink sampleTwoLevelSystem { type := NodeType.PCI, index := 0 }
        { type := NodeType.GPU, index := 0 } LINK_PCI ↔
      hasLink sampleTwoLevelSystem { type := NodeType.GPU, index := 0 }
        { type := NodeType.PCI, index := 0 } LINK_PCI) :=
  ⟨⟨sampleTwoLevelSystem_eq, sampleTwoLevelBuilt_ids, sampleTwoLevelSystem_slots⟩,
    by decide!, by decide!,
    getSystem_links_symmetric sampleHeader 10 sampleTwoLevelTree sampleTwoLevelSystem
      sampleTwoLevelSystem_eq sampleTwoLevelBuilt_ids sampleTwoLevelSystem_slots _ _ LINK_PCI
      (by decide)⟩

/-- C2, counterexample, in three parts. (1) For the sample tree in which GPU 0 declares an
"xgmi" entry to GPU 1 and GPU 1 declares none, `ncclTopoGetSystemFromXml` succeeds and in the
returned topology GPU 0 has one NVL link to GPU 1 while GPU 1 has no NVL link to GPU 0.
(2) For the tree with the repeated bus id the builder makes PCI nodes with the ids 69632,
65536, 69632, of which the second and third carry the matched signature; the returned
topology has no written slot behind `nlinks`, and in it the PCI node at index 1 has a PCI link
to the PCI node at index 0, which has none to it. (3) For the sample bridge tree, whose two
PCI nodes have distinct ids, the flattened switch of the returned topology has two live slots
and a third written slot; the processor has a PCI link to the switch and the switch has no
live link to the processor. -/
theorem getSystem_links_one_way :
    (ncclTopoGetSystemFromXml sampleHeader 10 sampleXgmiTree = Except.ok sampleXgmiSystem ∧
      linksFrom sampleXgmiSystem { type := NodeType.GPU, index := 0 }
        { type := NodeType.GPU, index := 1 } LINK_NVL
        = [{ type := LINK_NVL, width := 24, remNode := { type := NodeType.GPU, index := 1 } }] ∧
      linksFrom sampleXgmiSystem { type := NodeType.GPU, index := 1 }
        { type := NodeType.GPU, index := 0 } LINK_NVL = [] ∧
      ¬ (hasLink sampleXgmiSystem { type := NodeType.GPU, index := 0 }
          { type := NodeType.GPU, index := 1 } LINK_NVL ↔
        hasLink sampleXgmiSystem { type := NodeType.GPU, index := 1 }
          { type := NodeType.GPU, index := 0 } LINK_NVL)) ∧
    (ncclTopoGetSystemFromXml sampleHeader 10 sampleDupTree = Except.ok sampleDupSystem ∧
      buildGraph sampleHeader 10 sampleDupTree = Except.ok sampleDupBuilt ∧
      pciSignatures sampleDupBuilt
        = [(69632, 1162514206958949507, false), (65536, 1153132679827333120, true),
           (69632, 1153132679827333120, true)] ∧
      (∀ t, ∀ n ∈ sampleDupSystem.nodes t, n.nlinks = n.links.length) ∧
      linksFrom sampleDupSystem { type := NodeType.PCI, index := 1 }
        { type := NodeType.PCI, index := 0 } LINK_PCI
        = [{ type := LINK_PCI, width := 24, remNode := { type := NodeType.PCI, index := 0 } }] ∧
      linksFrom sampleDupSystem { type := NodeType.PCI, index := 0 }
        { type := NodeType.PCI, index := 1 } LINK_PCI = [] ∧
      ¬ (hasLink sampleDupSystem { type := NodeType.PCI, index := 1 }
          { type := NodeType.PCI, index := 0 } LINK_PCI ↔
        hasLink sampleDupSystem { type := NodeType.PCI, index := 0 }
          { type := NodeType.PCI, index := 1 } LINK_PCI)) ∧
    (ncclTopoGetSystemFromXml sampleHeader 10 sampleBcmTree = Except.ok sampleBcmSystem ∧
      buildGraph sampleHeader 10 sampleBcmTree = Except.ok sampleBcmBuilt ∧
      pciSignatures sampleBcmBuilt
        = [(65536, 1153132679827333120, true), (69632, 1153132679827333120, true)] ∧
      sampleBcmSystem.pciNodes.map (fun n => (n.nlinks, n.links.length)) = [(2, 3)] ∧
      linksFrom sampleBcmSystem { type := NodeType.CPU, index := 0 }
        { type := NodeType.PCI, index := 0 } LINK_PCI
        = [{ type := LINK_PCI, width := 24, remNode := { type := NodeType.PCI, index := 0 } }] ∧
      linksFrom sampleBcmSystem { type := NodeType.PCI, index := 0 }
        { type := NodeType.CPU, index := 0 } LINK_PCI = [] ∧
      ¬ (hasLink sampleBcmSystem { type := NodeType.CPU, index := 0 }
          { type := NodeType.PCI, index := 0 } LINK_PCI ↔
        hasLink sampleBcmSystem { type := NodeType.PCI, index := 0 }
          { type := NodeType.CPU, index := 0 } LINK_PCI)) := by
  have e1 : linksFrom sampleXgmiSystem { type := NodeType.GPU, index := 0 }
      { type := NodeType.GPU, index := 1 } LINK_NVL
      = [{ type := LINK_NVL, width := 24, remNode := { type := NodeType.GPU, index := 1 } }] := by
    decide!
  have e2 : linksFrom sampleXgmiSystem { type := NodeType.GPU, index := 1 }
      { type := NodeType.GPU, index := 0 } LINK_NVL = [] := by
    decide!
  have d1 : linksFrom sampleDupSystem { type := NodeType.PCI, index := 1 }
      { type := NodeType.PCI, index := 0 } LINK_PCI
      = [{ type := LINK_PCI, width := 24, remNode := { type := NodeType.PCI, index := 0 } }] := by
    decide!
  have d2 : linksFrom sampleDupSystem { type := NodeType.PCI, index := 0 }
      { type := NodeType.PCI, index := 1 } LINK_PCI = [] := by
    decide!
  have b1 : linksFrom sampleBcmSystem { type := NodeType.CPU, index := 0 }
      { type := NodeType.PCI, index := 0 } LINK_PCI
      = [{ type := LINK_PCI, width := 24, remNode := { type := NodeType.PCI, index := 0 } }] := by
    decide!
  have b2 : linksFrom sampleBcmSystem { type := NodeType.PCI, index := 0 }
      { type := NodeType.CPU, index := 0 } LINK_PCI = [] := by
    decide!
  refine ⟨⟨sampleXgmiSystem_eq, e1, e2, ?_⟩,
    ⟨sampleDupSystem_eq, sampleDupBuilt_eq, by decide!,
      fun t => by cases t <;> decide!, d1, d2, ?_⟩,
    ⟨sampleBcmSystem_eq, sampleBcmBuilt_eq, by decide!, by decide!, b1, b2, ?_⟩⟩
  · unfold hasLink
    rw [e1, e2]
    simp
  · unfold hasLink
    rw [d1, d2]
    simp
  · unfold hasLink
    rw [b1, b2]
    simp

end Rccl
